import Mathlib

/-!
# Call protocol, protected calls and stack management of Lua 5.4.4 (`ldo.c`)

A shallow embedding of the functions of `ldo.c` that the verified properties are about.

* The value stack of a thread is an allocated block: `lua_State.stack` is the address of the
  block (in units of `StackValue`) and `lua_State.stackmem` its contents.  A `StkId` is an
  absolute address (a natural number), exactly as in C, so that `savestack`, `restorestack`
  and `correctstack` do real work when the block moves.
* The `CallInfo` list of a thread is a doubly linked list that is never reordered; a pointer
  to a `CallInfo` is its position in that list (`previous` is the position before it).
* The chain of `struct lua_longjmp` records is a list, innermost record first.
* A function that may leave by `longjmp` returns a `Ctl`.
* Constants and collaborators that live in files outside `ldo.c`, `ldo.h`, `lgc.c` and
  `lobject.h` are parameters: the structure `Decls` for constants, `Env` for functions.
-/

namespace LuaDo

/-! ## Declarations taken as parameters -/

/-- Constants of `lua.h`, `luaconf.h`, `llimits.h`, `lstate.h`, `lfunc.h`, `lapi.h` and
`lgc.h`. -/
structure Decls where
  LUAI_MAXSTACK : Nat
  EXTRA_STACK : Nat
  LUA_MINSTACK : Nat
  LUA_MULTRET : Int
  CLOSEKTOP : Int
  LUA_OK : Int
  LUA_YIELD : Int
  LUA_ERRRUN : Int
  LUA_ERRMEM : Int
  LUA_ERRERR : Int
  LUA_TNIL : Nat
  LUA_TFUNCTION : Nat
  CIST_C : Nat
  CIST_HOOKED : Nat
  CIST_TRAN : Nat
  CIST_CLSRET : Nat
  CIST_TAIL : Nat
  LUA_MASKCALL : Nat
  LUA_MASKRET : Nat
  LUA_HOOKCALL : Int
  LUA_HOOKRET : Int
  LUA_HOOKTAILCALL : Int
  LUAI_MAXCCALLS : Nat
  CIST_OAH : Nat
  CIST_FRESH : Nat
  CIST_YPCALL : Nat
  CIST_RECST : Nat
  LUA_TSTRING : Nat
  LUA_TTABLE : Nat
  LUA_TUSERDATA : Nat
  LUA_TTHREAD : Nat
  LUA_NUMTYPES : Nat
  WHITE0BIT : Nat
  WHITE1BIT : Nat
  BLACKBIT : Nat
  FINALIZEDBIT : Nat
  AGEBITS : Nat
  G_NEW : Nat
  G_SURVIVAL : Nat
  G_OLD0 : Nat
  G_OLD1 : Nat
  G_OLD : Nat
  G_TOUCHED1 : Nat
  G_TOUCHED2 : Nat
  GCSpropagate : Nat
  GCSenteratomic : Nat
  GCSatomic : Nat
  GCSswpallgc : Nat
  GCSswpfinobj : Nat
  GCSswptobefnz : Nat
  GCSswpend : Nat
  GCScallfin : Nat
  GCSpause : Nat
  KGC_INC : Nat
  KGC_GEN : Nat
  CIST_FIN : Nat
  GCSTPGC : Nat
  GCSTPCLS : Nat
  LUA_NUMTAGS : Nat
  LUA_TBOOLEAN : Nat
  LUA_TLIGHTUSERDATA : Nat
  LUA_TNUMBER : Nat
  LUA_ERRSYNTAX : Int
  /-- The bytes of the string `LUA_SIGNATURE`. -/
  LUA_SIGNATURE : List Nat
  MAX_LMEM : Nat
  deriving DecidableEq, Repr

/-- The values the constants have in the Lua 5.4.4 distribution. -/
def lua544 : Decls where
  LUAI_MAXSTACK := 1000000
  EXTRA_STACK := 5
  LUA_MINSTACK := 20
  LUA_MULTRET := -1
  CLOSEKTOP := -1
  LUA_OK := 0
  LUA_YIELD := 1
  LUA_ERRRUN := 2
  LUA_ERRMEM := 4
  LUA_ERRERR := 5
  LUA_TNIL := 0
  LUA_TFUNCTION := 6
  CIST_C := 2
  CIST_HOOKED := 8
  CIST_TRAN := 256
  CIST_CLSRET := 512
  CIST_TAIL := 32
  LUA_MASKCALL := 1
  LUA_MASKRET := 2
  LUA_HOOKCALL := 0
  LUA_HOOKRET := 1
  LUA_HOOKTAILCALL := 4
  LUAI_MAXCCALLS := 200
  CIST_OAH := 1
  CIST_FRESH := 4
  CIST_YPCALL := 16
  CIST_RECST := 10
  LUA_TSTRING := 4
  LUA_TTABLE := 5
  LUA_TUSERDATA := 7
  LUA_TTHREAD := 8
  LUA_NUMTYPES := 9
  WHITE0BIT := 3
  WHITE1BIT := 4
  BLACKBIT := 5
  FINALIZEDBIT := 6
  AGEBITS := 7
  G_NEW := 0
  G_SURVIVAL := 1
  G_OLD0 := 2
  G_OLD1 := 3
  G_OLD := 4
  G_TOUCHED1 := 5
  G_TOUCHED2 := 6
  GCSpropagate := 0
  GCSenteratomic := 1
  GCSatomic := 2
  GCSswpallgc := 3
  GCSswpfinobj := 4
  GCSswptobefnz := 5
  GCSswpend := 6
  GCScallfin := 7
  GCSpause := 8
  KGC_INC := 0
  KGC_GEN := 1
  CIST_FIN := 128
  GCSTPGC := 2
  GCSTPCLS := 4
  LUA_NUMTAGS := 9
  LUA_TBOOLEAN := 1
  LUA_TLIGHTUSERDATA := 2
  LUA_TNUMBER := 3
  LUA_ERRSYNTAX := 3
  LUA_SIGNATURE := [27, 76, 117, 97]
  MAX_LMEM := 9223372036854775807

/-- The same constants with a small stack limit, so that a whole stack can be evaluated. -/
def luaSmall : Decls :=
  { lua544 with LUAI_MAXSTACK := 12, EXTRA_STACK := 2, LUA_MINSTACK := 3 }

/-! ## Values (`lobject.h`) -/

/-- The union `Value`; a collectable object and a C function are given by their address. -/
inductive Value where
  | gc (o : Nat)
  | p (a : Nat)
  | f (fn : Nat)
  | i (v : Int)
  | n (bits : Nat)
  deriving DecidableEq, Repr

instance : Inhabited Value := ⟨Value.i 0⟩

/-- The struct `TValue`: a value and its type tag. -/
structure TValue where
  value_ : Value
  tt_ : Nat
  deriving DecidableEq, Repr, Inhabited

/-- The union `StackValue`: a `TValue` sharing its storage with the `tbclist` delta. -/
structure StackValue where
  val : TValue
  delta : Nat
  deriving DecidableEq, Repr, Inhabited

def makevariant (t v : Nat) : Nat := t ||| (v <<< 4)

def novariant (t : Nat) : Nat := t &&& 0x0F

def withvariant (t : Nat) : Nat := t &&& 0x3F

def rawtt (o : TValue) : Nat := o.tt_

def ttypetag (o : TValue) : Nat := withvariant (rawtt o)

def ttype (o : TValue) : Nat := novariant (rawtt o)

def LUA_VNIL (H : Decls) : Nat := makevariant H.LUA_TNIL 0

def LUA_VLCL (H : Decls) : Nat := makevariant H.LUA_TFUNCTION 0

def LUA_VLCF (H : Decls) : Nat := makevariant H.LUA_TFUNCTION 1

def LUA_VCCL (H : Decls) : Nat := makevariant H.LUA_TFUNCTION 2

def ttisnil (H : Decls) (o : TValue) : Bool := ttype o == H.LUA_TNIL

def ttisstrictnil (H : Decls) (o : TValue) : Bool := rawtt o == LUA_VNIL H

/-- The macro `setnilvalue`: only the tag is written. -/
def setnilvalue (H : Decls) (o : TValue) : TValue := { o with tt_ := LUA_VNIL H }

/-- The macro `setobj` on one stack entry: value and tag of `io2` are copied into `io1`. -/
def setobj (io1 : StackValue) (io2 : TValue) : StackValue :=
  { io1 with val := { value_ := io2.value_, tt_ := io2.tt_ } }

/-- Function prototype: the fields used by the call protocol; `code` is the address of the
first instruction. -/
structure Proto where
  numparams : Nat
  is_vararg : Nat
  maxstacksize : Nat
  code : Nat
  deriving DecidableEq, Repr, Inhabited

/-- A collectable object, as far as calls look into it. -/
inductive GCObject where
  | LClosure (p : Proto)
  | CClosure (f : Nat)
  | TString (tt : Nat) (contents : String)
  | other (tt : Nat)
  deriving DecidableEq, Repr

/-- Open upvalue: `v` points into the stack. -/
structure UpVal where
  v : Nat
  deriving DecidableEq, Repr, Inhabited

/-! ## Thread state (`lstate.h`) -/

/-- One frame of the `CallInfo` list.  `previous` and `next` are the neighbours in the list.
The members of the unions `u` and `u2` are fields of their own; `k` is the address of the
continuation function, 0 for a null pointer. -/
structure CallInfo where
  func : Nat
  top : Nat
  nresults : Int
  callstatus : Nat
  savedpc : Nat
  trap : Nat
  nextraargs : Nat
  ftransfer : Nat
  ntransfer : Nat
  nres : Nat
  k : Nat
  ctx : Int
  old_errfunc : Int
  funcidx : Nat
  nyield : Int
  deriving DecidableEq, Repr, Inhabited

/-- One record of the chain of long-jump buffers; `previous` is the rest of the chain. -/
structure lua_longjmp where
  status : Int
  deriving DecidableEq, Repr, Inhabited

/-- The fields of `lua_State` used by `ldo.c`, with the heap and the fields `memerrmsg` and
`mainthread` of its `global_State`; `self` is the address of the thread itself. -/
structure lua_State where
  stack : Nat
  stackmem : List StackValue
  stack_last : Nat
  top : Nat
  tbclist : Nat
  openupval : List UpVal
  cis : List CallInfo
  ci : Nat
  errorJmp : List lua_longjmp
  nCcalls : Nat
  errfunc : Int
  allowhook : Nat
  hookmask : Nat
  hook : Option Nat
  oldpc : Int
  status : Int
  heap : List GCObject
  memerrmsg : Nat
  self : Nat
  mainthread : Nat
  deriving DecidableEq, Repr, Inhabited

/-- The macro `stacksize` of `lstate.h`. -/
def stacksize (L : lua_State) : Nat := L.stack_last - L.stack

/-- The macro `savestack`; offsets are counted in stack entries. -/
def savestack (L : lua_State) (p : Nat) : Nat := p - L.stack

/-- The macro `restorestack`. -/
def restorestack (L : lua_State) (n : Nat) : Nat := L.stack + n

/-- The stack entry at address `p`. -/
def stkat (L : lua_State) (p : Nat) : StackValue := L.stackmem.getD (p - L.stack) default

/-- The macro `s2v` followed by a read. -/
def s2v (L : lua_State) (p : Nat) : TValue := (stkat L p).val

/-- Store into the stack entry at address `p`. -/
def stkset (L : lua_State) (p : Nat) (x : StackValue) : lua_State :=
  { L with stackmem := L.stackmem.set (p - L.stack) x }

/-- The macro `setobjs2s`. -/
def setobjs2s (L : lua_State) (o1 o2 : Nat) : lua_State :=
  stkset L o1 (setobj (stkat L o1) (s2v L o2))

/-- The macro `setobj2s`. -/
def setobj2s (L : lua_State) (o1 : Nat) (o2 : TValue) : lua_State :=
  stkset L o1 (setobj (stkat L o1) o2)

/-- The statement `setnilvalue(s2v(p))`. -/
def setnilat (H : Decls) (L : lua_State) (p : Nat) : lua_State :=
  stkset L p { stkat L p with val := setnilvalue H (s2v L p) }

/-- The frame `ci` points to. -/
def ciat (L : lua_State) (ci : Nat) : CallInfo := L.cis.getD ci default

/-- Update of the frame `ci` points to. -/
def ciset (L : lua_State) (ci : Nat) (c : CallInfo) : lua_State :=
  { L with cis := L.cis.set ci c }

/-! ## Control -/

/-- How a piece of code hands control back. -/
inductive Ctl (α : Type) where
  /-- Normal return. -/
  | ret (a : α) (L : lua_State)
  /-- The statement `LUAI_THROW(L, L->errorJmp)`: a long jump to the innermost record. -/
  | jmp (L : lua_State)
  /-- A throw in a thread without a recovery point (the `else` branch of `luaD_throw`). -/
  | unhandled (errcode : Int) (L : lua_State)
  /-- Control passed to `luaG_runerror(L, msg)` of `ldebug.c`, which does not return. -/
  | runerror (msg : String) (L : lua_State)
  /-- Control passed to `luaG_callerror(L, o)` of `ldebug.c`, which does not return. -/
  | callerror (o : TValue) (L : lua_State)
  /-- The bound on the number of loop iterations of the model was reached. -/
  | outoffuel
  deriving Repr

/-- Sequencing: continue with `k` after a normal return. -/
def Ctl.bind {α β : Type} (x : Ctl α) (k : α → lua_State → Ctl β) : Ctl β :=
  match x with
  | Ctl.ret a L => k a L
  | Ctl.jmp L => Ctl.jmp L
  | Ctl.unhandled e L => Ctl.unhandled e L
  | Ctl.runerror m L => Ctl.runerror m L
  | Ctl.callerror o L => Ctl.callerror o L
  | Ctl.outoffuel => Ctl.outoffuel

/-- The struct `lua_Debug` as filled in by `luaD_hook`. -/
structure lua_Debug where
  event : Int
  currentline : Int
  i_ci : Nat
  deriving DecidableEq, Repr

/-- Collaborators defined outside the source files at hand. -/
structure Env where
  /-- Header constants. -/
  H : Decls
  /-- Allocator (`luaM_reallocvector` with a null block): the address of a fresh block of the
  given number of stack entries, or `none` when memory is exhausted.  The allocator leaves the
  thread as it is: a collection that it may start when memory is short is not modelled. -/
  luaM_newblock : lua_State → Nat → Option Nat
  /-- Collector step `luaC_checkGC` of `lgc.h`. -/
  luaC_checkGC : lua_State → lua_State
  /-- Closing of upvalues and to-be-closed variables, `luaF_close` of `lfunc.c`. -/
  luaF_close : lua_State → Nat → Int → Int → Ctl Unit
  /-- The C functions, by address. -/
  cfunc : Nat → lua_State → Ctl Nat
  /-- The hook functions, by address. -/
  hookfn : Nat → lua_Debug → lua_State → Ctl Unit
  /-- Lookup of the call metamethod, `luaT_gettmbyobj(L, o, TM_CALL)` of `ltm.c`. -/
  luaT_gettmbyobj : lua_State → TValue → TValue
  /-- Allocation of one more `CallInfo` at the end of the list (`luaE_extendCI` of `lstate.c`):
  the fresh frame, or `none` when memory is exhausted. -/
  luaE_extendCI : lua_State → Option CallInfo
  /-- Release of unused frames by `luaE_shrinkCI` of `lstate.c`: how many of the frames after
  `L->ci` are kept. -/
  luaE_shrinkCI : lua_State → Nat
  /-- String creation `luaS_newlstr` of `lstring.c`: the address of the string object. -/
  luaS_newlstr : lua_State → String → Ctl Nat
  /-- Message construction and message handler of `luaG_runerror`, up to its final throw. -/
  luaG_runerror : lua_State → String → lua_State
  /-- Message construction and message handler of `luaG_callerror`, up to its final throw. -/
  luaG_callerror : lua_State → TValue → lua_State
  /-- The interpreter loop `luaV_execute` of `lvm.c`, run on the frame `ci`. -/
  luaV_execute : Nat → lua_State → Ctl Unit
  /-- Completion of an interrupted instruction, `luaV_finishOp` of `lvm.c`. -/
  luaV_finishOp : lua_State → Ctl Unit
  /-- The continuation functions, by address, applied to a status and a context. -/
  kfunc : Nat → lua_State → Int → Int → Ctl Nat
  /-- Check of the number of nested C calls, `luaE_checkcstack` of `lstate.c`. -/
  luaE_checkcstack : lua_State → Ctl Unit
  /-- String creation `luaS_new` of `lstring.c`: the address of the string object. -/
  luaS_new : lua_State → String → Ctl Nat

/-! ## Error recovery -/

/-- The macro `errorstatus`. -/
def errorstatus (H : Decls) (s : Int) : Bool := decide (s > H.LUA_YIELD)

/-- `luaD_throw`: store the status in the innermost record and jump to it.  In a thread
without a recovery point the error leaves the thread (it is thrown again in the main thread, or
the program aborts): that exit is the result `unhandled`. -/
def luaD_throw {α : Type} (L : lua_State) (errcode : Int) : Ctl α :=
  match L.errorJmp with
  | lj :: previous =>
    Ctl.jmp { L with errorJmp := { lj with status := errcode } :: previous }
  | [] => Ctl.unhandled errcode L

/-- The macro `luaM_error` of `lmem.h`. -/
def luaM_error {α : Type} (H : Decls) (L : lua_State) : Ctl α := luaD_throw L H.LUA_ERRMEM

/-- What the non-returning routines of `ldebug.c` end with: a throw of `LUA_ERRRUN`. -/
def Ctl.settle {α : Type} (E : Env) (x : Ctl α) : Ctl α :=
  match x with
  | Ctl.runerror m L => luaD_throw (E.luaG_runerror L m) E.H.LUA_ERRRUN
  | Ctl.callerror o L => luaD_throw (E.luaG_callerror L o) E.H.LUA_ERRRUN
  | y => y

/-- The record of the chain that lies `depth` records above its bottom. -/
def ljat (chain : List lua_longjmp) (depth : Nat) : Option lua_longjmp :=
  (chain.drop (chain.length - depth)).head?

/-- `luaD_rawrunprotected`: `lj` is pushed on the chain, `f` is run, and control comes back
here when `f` returns or when a long jump targets `lj` (the chain then has `lj` on top). -/
def luaD_rawrunprotected (E : Env) (L : lua_State) (f : lua_State → Ctl Unit) : Ctl Int :=
  let oldnCcalls := L.nCcalls
  let lj : lua_longjmp := { status := E.H.LUA_OK }
  let previous := L.errorJmp
  let L1 := { L with errorJmp := lj :: previous }
  let finish := fun (L2 : lua_State) =>
    let status := match ljat L2.errorJmp (previous.length + 1) with
      | some r => r.status
      | none => lj.status
    Ctl.ret status { L2 with errorJmp := previous, nCcalls := oldnCcalls }
  match Ctl.settle E (f L1) with
  | Ctl.ret _ L2 => finish L2
  | Ctl.jmp L2 =>
    if L2.errorJmp.length = previous.length + 1 then finish L2 else Ctl.jmp L2
  | Ctl.unhandled e L2 => Ctl.unhandled e L2
  | Ctl.runerror m L2 => Ctl.runerror m L2
  | Ctl.callerror o L2 => Ctl.callerror o L2
  | Ctl.outoffuel => Ctl.outoffuel

/-! ## Stack reallocation -/

/-- The macro `isLua` of `lstate.h`. -/
def isLua (H : Decls) (ci : CallInfo) : Bool := (ci.callstatus &&& H.CIST_C) == 0

/-- Body of the second loop of `correctstack` for one frame. -/
def correctframe (H : Decls) (oldstack newstack : Nat) (c : CallInfo) : CallInfo :=
  let c1 := { c with top := (c.top - oldstack) + newstack }
  let c2 := { c1 with func := (c1.func - oldstack) + newstack }
  if isLua H c2 then { c2 with trap := 1 } else c2

/-- The loop `for (ci = L->ci; ci != NULL; ci = ci->previous)` of `correctstack`. -/
def correctcis (H : Decls) (oldstack newstack : Nat) (cis : List CallInfo) :
    Nat → List CallInfo
  | 0 => cis.set 0 (correctframe H oldstack newstack (cis.getD 0 default))
  | ci + 1 =>
    correctcis H oldstack newstack
      (cis.set (ci + 1) (correctframe H oldstack newstack (cis.getD (ci + 1) default))) ci

/-- `correctstack`: every pointer into the old block is recomputed from its offset. -/
def correctstack (H : Decls) (L : lua_State) (oldstack newstack : Nat) : lua_State :=
  let L1 := { L with top := (L.top - oldstack) + newstack }
  let L2 := { L1 with tbclist := (L1.tbclist - oldstack) + newstack }
  let L3 := { L2 with
    openupval :=
      L2.openupval.map (fun (up : UpVal) => { up with v := (up.v - oldstack) + newstack }) }
  { L3 with cis := correctcis H oldstack newstack L3.cis L3.ci }

/-- The macro `ERRORSTACKSIZE`. -/
def ERRORSTACKSIZE (H : Decls) : Nat := H.LUAI_MAXSTACK + 200

/-- The call `memcpy(dst, src, n)` on blocks of stack entries. -/
def memcpy (dst src : List StackValue) (n : Nat) : List StackValue :=
  src.take n ++ dst.drop n

/-- The loop `for (; i < n; i++) setnilvalue(s2v(newstack + i))`. -/
def erasefrom (H : Decls) (mem : List StackValue) (i : Nat) : List StackValue :=
  mem.take i ++ (mem.drop i).map (fun (sv : StackValue) => { sv with val := setnilvalue H sv.val })

/-- `luaD_reallocstack`. -/
def luaD_reallocstack (E : Env) (L : lua_State) (newsize : Nat) (raiseerror : Bool) :
    Ctl Nat :=
  let oldsize := stacksize L
  match E.luaM_newblock L (newsize + E.H.EXTRA_STACK) with
  | none => if raiseerror then luaM_error E.H L else Ctl.ret 0 L
  | some newstack =>
    let fresh : List StackValue := List.replicate (newsize + E.H.EXTRA_STACK) default
    let i := (if oldsize ≤ newsize then oldsize else newsize) + E.H.EXTRA_STACK
    let newmem := erasefrom E.H (memcpy fresh L.stackmem i) i
    let L1 := correctstack E.H L L.stack newstack
    let L2 := { L1 with stack := newstack, stackmem := newmem }
    Ctl.ret 1 { L2 with stack_last := L2.stack + newsize }

/-- `luaD_growstack`.  The sum `needed` is formed in the integers; a request so large that the
sum does not fit an `int` has undefined behaviour in C and is not considered. -/
def luaD_growstack (E : Env) (L : lua_State) (n : Int) (raiseerror : Bool) : Ctl Nat :=
  let size := stacksize L
  if size > E.H.LUAI_MAXSTACK then
    if raiseerror then luaD_throw L E.H.LUA_ERRERR else Ctl.ret 0 L
  else
    let newsize : Int := 2 * (size : Int)
    let needed : Int := ((L.top - L.stack : Nat) : Int) + n
    let newsize := if newsize > E.H.LUAI_MAXSTACK then (E.H.LUAI_MAXSTACK : Int) else newsize
    let newsize := if newsize < needed then needed else newsize
    if newsize ≤ E.H.LUAI_MAXSTACK then
      luaD_reallocstack E L newsize.toNat raiseerror
    else
      (luaD_reallocstack E L (ERRORSTACKSIZE E.H) raiseerror).bind fun _ L1 =>
        if raiseerror then Ctl.runerror "stack overflow" L1 else Ctl.ret 0 L1

/-- The loop of `stackinuse`: the highest `top` among the frames `ci`, `ci->previous`, ... -/
def stackinuse_lim (L : lua_State) (lim : Nat) : Nat → Nat
  | 0 => if lim < (ciat L 0).top then (ciat L 0).top else lim
  | ci + 1 =>
    stackinuse_lim L (if lim < (ciat L (ci + 1)).top then (ciat L (ci + 1)).top else lim) ci

/-- `stackinuse`. -/
def stackinuse (H : Decls) (L : lua_State) : Nat :=
  let lim := stackinuse_lim L L.top L.ci
  let res := (lim - L.stack) + 1
  if res < H.LUA_MINSTACK then H.LUA_MINSTACK else res

/-- `luaD_shrinkstack`. -/
def luaD_shrinkstack (E : Env) (L : lua_State) : lua_State :=
  let inuse := stackinuse E.H L
  let nsize := inuse * 2
  let max := inuse * 3
  let nsize := if max > E.H.LUAI_MAXSTACK then
      (if nsize > E.H.LUAI_MAXSTACK then E.H.LUAI_MAXSTACK else nsize) else nsize
  let max := if max > E.H.LUAI_MAXSTACK then E.H.LUAI_MAXSTACK else max
  let L1 := if inuse ≤ E.H.LUAI_MAXSTACK ∧ stacksize L > max then
      (match luaD_reallocstack E L nsize false with
       | Ctl.ret _ L2 => L2
       | _ => L)
    else L
  { L1 with cis := L1.cis.take (L1.ci + 1 + E.luaE_shrinkCI L1) }

/-- The macro `luaD_checkstackaux` with empty `pre` and `pos`, that is `luaD_checkstack`. -/
def luaD_checkstack (E : Env) (L : lua_State) (n : Int) : Ctl Unit :=
  if (L.stack_last : Int) - (L.top : Int) ≤ n then
    (luaD_growstack E L n true).bind fun _ L1 => Ctl.ret () L1
  else Ctl.ret () L

/-- The macro `checkstackGCp`: `p` is saved as an offset, a collector step runs, the stack
grows, and `p` is restored. -/
def checkstackGCp (E : Env) (L : lua_State) (n : Int) (p : Nat) : Ctl Nat :=
  if (L.stack_last : Int) - (L.top : Int) ≤ n then
    let t__ := savestack L p
    let L1 := E.luaC_checkGC L
    (luaD_growstack E L1 n true).bind fun _ L2 => Ctl.ret (restorestack L2 t__) L2
  else Ctl.ret p L

/-- `luaD_inctop`. -/
def luaD_inctop (E : Env) (L : lua_State) : Ctl Unit :=
  (luaD_checkstack E L 1).bind fun _ L1 => Ctl.ret () { L1 with top := L1.top + 1 }

/-! ## Hooks -/

/-- The statement `ci->callstatus &= ~mask` on the `unsigned short` field. -/
def clearmask (callstatus mask : Nat) : Nat := callstatus &&& (65535 ^^^ mask)

/-- The macro `clLvalue` followed by `->p`: the prototype of the Lua closure `o` refers to. -/
def clLvalue_p (L : lua_State) (o : TValue) : Proto :=
  match o.value_ with
  | Value.gc a =>
    (match L.heap.get? a with
     | some (GCObject.LClosure p) => p
     | _ => default)
  | _ => default

/-- The macro `clCvalue` followed by `->f`: the C function of the C closure `o` refers to. -/
def clCvalue_f (L : lua_State) (o : TValue) : Nat :=
  match o.value_ with
  | Value.gc a =>
    (match L.heap.get? a with
     | some (GCObject.CClosure f) => f
     | _ => 0)
  | _ => 0

/-- The macro `fvalue`. -/
def fvalue (o : TValue) : Nat :=
  match o.value_ with
  | Value.f fn => fn
  | _ => 0

/-- `luaD_hook`.  (The members of the union `u2` of a frame are kept as separate fields.) -/
def luaD_hook (E : Env) (L : lua_State) (event line : Int) (ftransfer ntransfer : Nat) :
    Ctl Unit :=
  match L.hook with
  | none => Ctl.ret () L
  | some hook =>
    if L.allowhook = 0 then Ctl.ret () L
    else
      let ci := L.ci
      let top := savestack L L.top
      let ci_top := savestack L (ciat L ci).top
      let ar : lua_Debug := { event := event, currentline := line, i_ci := ci }
      let mask := if ntransfer ≠ 0 then E.H.CIST_HOOKED ||| E.H.CIST_TRAN else E.H.CIST_HOOKED
      let L1 := if ntransfer ≠ 0 then
          ciset L ci { ciat L ci with ftransfer := ftransfer, ntransfer := ntransfer }
        else L
      let L2 := if isLua E.H (ciat L1 ci) ∧ L1.top < (ciat L1 ci).top then
          { L1 with top := (ciat L1 ci).top }
        else L1
      (luaD_checkstack E L2 E.H.LUA_MINSTACK).bind fun _ L3 =>
        let L4 := if (ciat L3 ci).top < L3.top + E.H.LUA_MINSTACK then
            ciset L3 ci { ciat L3 ci with top := L3.top + E.H.LUA_MINSTACK }
          else L3
        let L5 := { L4 with allowhook := 0 }
        let L6 := ciset L5 ci { ciat L5 ci with callstatus := (ciat L5 ci).callstatus ||| mask }
        (E.hookfn hook ar L6).bind fun _ L7 =>
          let L8 := { L7 with allowhook := 1 }
          let L9 := ciset L8 ci { ciat L8 ci with top := restorestack L8 ci_top }
          let L10 := { L9 with top := restorestack L9 top }
          Ctl.ret () (ciset L10 ci
            { ciat L10 ci with callstatus := clearmask (ciat L10 ci).callstatus mask })

/-- The macro `pcRel` of `ldebug.h`. -/
def pcRel (pc : Nat) (p : Proto) : Int := ((pc : Int) - (p.code : Int)) - 1

/-- `rethook`. -/
def rethook (E : Env) (L : lua_State) (ci : Nat) (nres : Nat) : Ctl Unit :=
  let setoldpc := fun (L : lua_State) =>
    let ci := ci - 1
    if isLua E.H (ciat L ci) then
      { L with oldpc := pcRel (ciat L ci).savedpc (clLvalue_p L (s2v L (ciat L ci).func)) }
    else L
  if L.hookmask &&& E.H.LUA_MASKRET ≠ 0 then
    let firstres := L.top - nres
    let p := clLvalue_p L (s2v L (ciat L ci).func)
    let delta := if isLua E.H (ciat L ci) ∧ p.is_vararg ≠ 0 then
        (ciat L ci).nextraargs + p.numparams + 1 else 0
    let L1 := ciset L ci { ciat L ci with func := (ciat L ci).func + delta }
    let ftransfer := (((firstres : Int) - ((ciat L1 ci).func : Int)) % 65536).toNat
    (luaD_hook E L1 E.H.LUA_HOOKRET (-1) ftransfer nres).bind fun _ L2 =>
      Ctl.ret () (setoldpc (ciset L2 ci { ciat L2 ci with func := (ciat L2 ci).func - delta }))
  else Ctl.ret () (setoldpc L)

/-! ## Calls -/

/-- The loop `for (p = L->top; p > func; p--) setobjs2s(L, p, p-1)` with `count` iterations
left. -/
def openspace (L : lua_State) (p : Nat) : Nat → lua_State
  | 0 => L
  | count + 1 => openspace (setobjs2s L p (p - 1)) (p - 1) count

/-- `luaD_tryfuncTM`. -/
def luaD_tryfuncTM (E : Env) (L : lua_State) (func : Nat) : Ctl Nat :=
  (checkstackGCp E L 1 func).bind fun func L1 =>
    let tm := E.luaT_gettmbyobj L1 (s2v L1 func)
    if ttisnil E.H tm then Ctl.callerror (s2v L1 func) L1
    else
      let L2 := openspace L1 L1.top (L1.top - func)
      let L3 := { L2 with top := L2.top + 1 }
      Ctl.ret func (setobj2s L3 func tm)

/-- The macro `hastocloseCfunc` of `lapi.h`. -/
def hastocloseCfunc (H : Decls) (n : Int) : Bool := decide (n < H.LUA_MULTRET)

/-- The macro `decodeNresults` of `lapi.h`. -/
def decodeNresults (n : Int) : Int := -n - 3

/-- The loop `for (i = 0; i < nres; i++) setobjs2s(L, res + i, firstresult + i)` with
`count` iterations left. -/
def moveloop (L : lua_State) (res firstresult : Nat) : Nat → Nat → lua_State
  | _, 0 => L
  | i, count + 1 => moveloop (setobjs2s L (res + i) (firstresult + i)) res firstresult (i + 1) count

/-- The loop `for (; i < wanted; i++) setnilvalue(s2v(res + i))` with `count` iterations
left. -/
def nilloop (H : Decls) (L : lua_State) (res : Nat) : Nat → Nat → lua_State
  | _, 0 => L
  | i, count + 1 => nilloop H (setnilat H L (res + i)) res (i + 1) count

/-- The generic case at the end of `moveresults`. -/
def moveresults_generic (H : Decls) (L : lua_State) (res : Nat) (nres : Nat) (wanted : Int) :
    lua_State :=
  let firstresult := L.top - nres
  let nres : Int := if (nres : Int) > wanted then wanted else nres
  let L1 := moveloop L res firstresult 0 nres.toNat
  let L2 := nilloop H L1 res nres.toNat (wanted - nres).toNat
  { L2 with top := ((res : Int) + wanted).toNat }

/-- `moveresults`. -/
def moveresults (E : Env) (L : lua_State) (res : Nat) (nres : Nat) (wanted : Int) : Ctl Unit :=
  if wanted = 0 then Ctl.ret () { L with top := res }
  else if wanted = 1 then
    let L1 := if nres = 0 then setnilat E.H L res else setobjs2s L res (L.top - nres)
    Ctl.ret () { L1 with top := res + 1 }
  else if wanted = E.H.LUA_MULTRET then
    Ctl.ret () (moveresults_generic E.H L res nres nres)
  else if hastocloseCfunc E.H wanted then
    let savedres := savestack L res
    let L1 := ciset L L.ci
      { ciat L L.ci with callstatus := (ciat L L.ci).callstatus ||| E.H.CIST_CLSRET }
    let L2 := ciset L1 L1.ci { ciat L1 L1.ci with nres := nres }
    (E.luaF_close L2 res E.H.CLOSEKTOP 1).bind fun _ L3 =>
      let L4 := ciset L3 L3.ci
        { ciat L3 L3.ci with callstatus := clearmask (ciat L3 L3.ci).callstatus E.H.CIST_CLSRET }
      (if L4.hookmask ≠ 0 then rethook E L4 L4.ci nres else Ctl.ret () L4).bind fun _ L5 =>
        let res := restorestack L5 savedres
        let wanted := decodeNresults wanted
        let wanted := if wanted = E.H.LUA_MULTRET then (nres : Int) else wanted
        Ctl.ret () (moveresults_generic E.H L5 res nres wanted)
  else Ctl.ret () (moveresults_generic E.H L res nres wanted)

/-- `luaD_poscall`. -/
def luaD_poscall (E : Env) (L : lua_State) (ci : Nat) (nres : Nat) : Ctl Unit :=
  let wanted := (ciat L ci).nresults
  (if L.hookmask ≠ 0 ∧ ¬ hastocloseCfunc E.H wanted then rethook E L ci nres
   else Ctl.ret () L).bind fun _ L1 =>
    (moveresults E L1 (ciat L1 ci).func nres wanted).bind fun _ L2 =>
      Ctl.ret () { L2 with ci := ci - 1 }

/-- The macro `next_ci`: the cached next frame, or a fresh one from `luaE_extendCI`. -/
def next_ci (E : Env) (L : lua_State) : Ctl Nat :=
  if L.ci + 1 < L.cis.length then Ctl.ret (L.ci + 1) L
  else
    match E.luaE_extendCI L with
    | some c => Ctl.ret L.cis.length { L with cis := L.cis ++ [c] }
    | none => luaM_error E.H L

/-- `prepCallInfo`. -/
def prepCallInfo (E : Env) (L : lua_State) (func : Nat) (nret : Int) (mask : Nat)
    (top : Nat) : Ctl Nat :=
  (next_ci E L).bind fun ci L1 =>
    let L2 := { L1 with ci := ci }
    let L3 := ciset L2 ci { ciat L2 ci with func := func }
    let L4 := ciset L3 ci { ciat L3 ci with nresults := nret }
    let L5 := ciset L4 ci { ciat L4 ci with callstatus := mask }
    Ctl.ret ci (ciset L5 ci { ciat L5 ci with top := top })

/-- `precallC`. -/
def precallC (E : Env) (L : lua_State) (func : Nat) (nresults : Int) (f : Nat) : Ctl Nat :=
  (checkstackGCp E L E.H.LUA_MINSTACK func).bind fun func L1 =>
    (prepCallInfo E L1 func nresults E.H.CIST_C (L1.top + E.H.LUA_MINSTACK)).bind fun ci L2 =>
      (if L2.hookmask &&& E.H.LUA_MASKCALL ≠ 0 then
        luaD_hook E L2 E.H.LUA_HOOKCALL (-1) 1 ((L2.top - func) - 1)
       else Ctl.ret () L2).bind fun _ L3 =>
        (E.cfunc f L3).bind fun n L4 =>
          (luaD_poscall E L4 ci n).bind fun _ L5 => Ctl.ret n L5

/-- The loop `for (; narg < nfixparams; narg++) setnilvalue(s2v(L->top++))` with `count`
iterations left. -/
def fillparams (H : Decls) (L : lua_State) : Nat → lua_State
  | 0 => L
  | count + 1 =>
    let L1 := setnilat H L L.top
    fillparams H { L1 with top := L1.top + 1 } count

/-- `luaD_precall`; `fuel` bounds the number of passes through the label `retry`.  The result
is the new frame for a Lua function and `none` (a null pointer) for a C function. -/
def luaD_precall (E : Env) : Nat → lua_State → Nat → Int → Ctl (Option Nat)
  | 0, _, _, _ => Ctl.outoffuel
  | fuel + 1, L, func, nresults =>
    if ttypetag (s2v L func) = LUA_VCCL E.H then
      (precallC E L func nresults (clCvalue_f L (s2v L func))).bind fun _ L1 => Ctl.ret none L1
    else if ttypetag (s2v L func) = LUA_VLCF E.H then
      (precallC E L func nresults (fvalue (s2v L func))).bind fun _ L1 => Ctl.ret none L1
    else if ttypetag (s2v L func) = LUA_VLCL E.H then
      let p := clLvalue_p L (s2v L func)
      let narg : Int := ((L.top : Int) - (func : Int)) - 1
      let nfixparams := p.numparams
      let fsize := p.maxstacksize
      (checkstackGCp E L fsize func).bind fun func L1 =>
        (prepCallInfo E L1 func nresults 0 (func + 1 + fsize)).bind fun ci L2 =>
          let L3 := ciset L2 ci { ciat L2 ci with savedpc := p.code }
          Ctl.ret (some ci) (fillparams E.H L3 ((nfixparams : Int) - narg).toNat)
    else
      (luaD_tryfuncTM E L func).bind fun func L1 => luaD_precall E fuel L1 func nresults

/-! ## Protected calls -/

/-- The macro `ctb`. -/
def ctb (t : Nat) : Nat := t ||| (1 <<< 6)

/-- The tag stored in the header of the object at address `a`. -/
def gctt (L : lua_State) (a : Nat) : Nat :=
  match L.heap.get? a with
  | some (GCObject.TString tt _) => tt
  | some (GCObject.other tt) => tt
  | _ => 0

/-- The macro `setsvalue2s`. -/
def setsvalue2s (L : lua_State) (o : Nat) (x : Nat) : lua_State :=
  stkset L o { stkat L o with val := { value_ := Value.gc x, tt_ := ctb (gctt L x) } }

/-- `luaD_seterrorobj`. -/
def luaD_seterrorobj (E : Env) (L : lua_State) (errcode : Int) (oldtop : Nat) : Ctl Unit :=
  (if errcode = E.H.LUA_ERRMEM then Ctl.ret () (setsvalue2s L oldtop L.memerrmsg)
   else if errcode = E.H.LUA_ERRERR then
     (E.luaS_newlstr L "error in error handling").bind fun ts L1 =>
       Ctl.ret () (setsvalue2s L1 oldtop ts)
   else if errcode = E.H.LUA_OK then Ctl.ret () (setnilat E.H L oldtop)
   else Ctl.ret () (setobjs2s L oldtop (L.top - 1))).bind fun _ L1 =>
    Ctl.ret () { L1 with top := oldtop + 1 }

/-- `closepaux`, with the fields of the struct `CloseP` as arguments. -/
def closepaux (E : Env) (level : Nat) (status : Int) (L : lua_State) : Ctl Unit :=
  E.luaF_close L level status 0

/-- The loop of `luaD_closeprotected`; `fuel` bounds the number of iterations. -/
def closeprotected_loop (E : Env) (old_ci : Nat) (old_allowhooks : Nat) (level : Nat) :
    Nat → lua_State → Int → Ctl Int
  | 0, _, _ => Ctl.outoffuel
  | fuel + 1, L, status =>
    let pcl_level := restorestack L level
    let pcl_status := status
    (luaD_rawrunprotected E L (closepaux E pcl_level pcl_status)).bind fun status L1 =>
      if status = E.H.LUA_OK then Ctl.ret pcl_status L1
      else
        closeprotected_loop E old_ci old_allowhooks level fuel
          { L1 with ci := old_ci, allowhook := old_allowhooks } status

/-- `luaD_closeprotected`. -/
def luaD_closeprotected (E : Env) (fuel : Nat) (L : lua_State) (level : Nat) (status : Int) :
    Ctl Int :=
  let old_ci := L.ci
  let old_allowhooks := L.allowhook
  closeprotected_loop E old_ci old_allowhooks level fuel L status

/-- `luaD_pcall`; `fuel` bounds the iterations of the loop of `luaD_closeprotected`. -/
def luaD_pcall (E : Env) (fuel : Nat) (L : lua_State) (func : lua_State → Ctl Unit)
    (old_top : Nat) (ef : Int) : Ctl Int :=
  let old_ci := L.ci
  let old_allowhooks := L.allowhook
  let old_errfunc := L.errfunc
  let L1 := { L with errfunc := ef }
  (luaD_rawrunprotected E L1 func).bind fun status L2 =>
    (if status ≠ E.H.LUA_OK then
      let L3 := { L2 with ci := old_ci }
      let L4 := { L3 with allowhook := old_allowhooks }
      (luaD_closeprotected E fuel L4 old_top status).bind fun status L5 =>
        (luaD_seterrorobj E L5 status (restorestack L5 old_top)).bind fun _ L6 =>
          Ctl.ret status (luaD_shrinkstack E L6)
     else Ctl.ret status L2).bind fun status L7 =>
      Ctl.ret status { L7 with errfunc := old_errfunc }

/-! ## Conditions used in the statements -/

/-- The stack block of `L` has `stacksize L + EXTRA_STACK` entries, `top` lies between the base
and `stack_last`, and `L->ci` is a frame of the list. -/
def WellFormed (H : Decls) (L : lua_State) : Prop :=
  L.stack ≤ L.top ∧ L.top ≤ L.stack_last ∧
  L.stackmem.length = stacksize L + H.EXTRA_STACK ∧ L.ci < L.cis.length

instance (H : Decls) (L : lua_State) : Decidable (WellFormed H L) := by
  unfold WellFormed
  infer_instance

/-- The thread `L1` shows what `L` shows, with the stack block possibly at another address and
of another size: the offset of `top`, every entry below `top`, the current frame pointer and
the hook mask agree. -/
def SameView (L L1 : lua_State) : Prop :=
  L1.top - L1.stack = L.top - L.stack ∧
  (∀ j, j < L.top - L.stack → stkat L1 (L1.stack + j) = stkat L (L.stack + j)) ∧
  L1.ci = L.ci ∧ L1.hookmask = L.hookmask

/-- What the call protocol relies on from a collector step: a well-formed thread below the
stack limit stays so and shows the same view (the step may shrink or move the stack block and
may overwrite entries above `top`). -/
def CollectorKeeps (E : Env) : Prop :=
  ∀ L, WellFormed E.H L → stacksize L ≤ E.H.LUAI_MAXSTACK →
    WellFormed E.H (E.luaC_checkGC L) ∧ stacksize (E.luaC_checkGC L) ≤ E.H.LUAI_MAXSTACK ∧
    SameView L (E.luaC_checkGC L)

/-- The allocator never fails, for stack blocks and for frames. -/
def AllocSucceeds (E : Env) : Prop :=
  (∀ L n, (E.luaM_newblock L n).isSome = true) ∧ (∀ L, (E.luaE_extendCI L).isSome = true)

/-- The stack block of `L` has `stacksize L + EXTRA_STACK` entries, the one at offset `n` among
them. -/
def HasSlot (H : Decls) (n : Nat) (L : lua_State) : Prop :=
  n < L.stackmem.length ∧ L.stackmem.length = stacksize L + H.EXTRA_STACK

instance (H : Decls) (n : Nat) (L : lua_State) : Decidable (HasSlot H n L) := by
  unfold HasSlot
  infer_instance

/-- What `luaD_closeprotected` relies on from `luaF_close`, for a thread whose slot at offset
`n` exists.  Either it returns, with the chain of recovery points, the current frame and
`allowhook` as it found them; or an error other than `LUA_OK` is thrown from a state with the
chain as it found it, after at least one entry has been removed from the list of to-be-closed
variables.  The slot at offset `n` exists afterwards in both cases. -/
def CloseKeeps (E : Env) (n : Nat) : Prop :=
  ∀ L level status, HasSlot E.H n L →
    (∃ L1, E.luaF_close L level status 0 = Ctl.ret () L1 ∧ L1.errorJmp = L.errorJmp ∧
      L1.ci = L.ci ∧ L1.allowhook = L.allowhook ∧ HasSlot E.H n L1) ∨
    (∃ Lt errcode, E.luaF_close L level status 0 = luaD_throw Lt errcode ∧
      errcode ≠ E.H.LUA_OK ∧ Lt.errorJmp = L.errorJmp ∧
      savestack Lt Lt.tbclist < savestack L L.tbclist ∧ HasSlot E.H n Lt)

/-- String creation returns and changes nothing but the heap. -/
def NewStringKeeps (E : Env) : Prop :=
  ∀ L s, ∃ a L1, E.luaS_newlstr L s = Ctl.ret a L1 ∧ L1 = { L with heap := L1.heap }

/-! ## An example configuration -/

/-- A stack entry holding the integer `n`. -/
def exSlot (n : Int) : StackValue := { val := { value_ := Value.i n, tt_ := 3 }, delta := 0 }

/-- Collaborators that always succeed and do nothing, with the small stack limit; the C
function at address 1 pushes the integer 42 and returns one value. -/
def exEnv : Env where
  H := luaSmall
  luaM_newblock := fun _ _ => some 1000
  luaC_checkGC := fun L => L
  luaF_close := fun L _ _ _ => Ctl.ret () L
  cfunc := fun fn L =>
    if fn = 1 then Ctl.ret 1 { setobj2s L L.top (exSlot 42).val with top := L.top + 1 }
    else Ctl.ret 0 L
  hookfn := fun _ _ L => Ctl.ret () L
  luaT_gettmbyobj := fun _ _ => default
  luaE_extendCI := fun _ => some default
  luaE_shrinkCI := fun _ => 0
  luaS_newlstr := fun L _ => Ctl.ret 0 L
  luaG_runerror := fun L _ => L
  luaG_callerror := fun L _ => L
  luaV_execute := fun _ L => Ctl.ret () L
  luaV_finishOp := fun L => Ctl.ret () L
  kfunc := fun _ L _ _ => Ctl.ret 0 L
  luaE_checkcstack := fun L => Ctl.ret () L
  luaS_new := fun L _ => Ctl.ret 0 L

/-- A thread whose stack block of 8 + 2 entries lies at address 100, with 6 entries in use. -/
def exState : lua_State :=
  { (default : lua_State) with
    stack := 100
    stackmem := [exSlot 0, exSlot 1, exSlot 2, exSlot 3, exSlot 4, exSlot 5, exSlot 6,
      exSlot 7, exSlot 8, exSlot 9]
    stack_last := 108
    top := 106
    tbclist := 100
    cis := [{ (default : CallInfo) with func := 100, top := 108 }]
    ci := 0 }

/-- A thread that runs in the error reserve: its stack has `ERRORSTACKSIZE` entries. -/
def exReserveState : lua_State :=
  { exState with
    stackmem := List.replicate (ERRORSTACKSIZE exEnv.H + exEnv.H.EXTRA_STACK) (exSlot 0)
    stack_last := 100 + ERRORSTACKSIZE exEnv.H
    errorJmp := [{ status := 0 }] }

/-- A thread about to call, with one argument, the Lua closure in slot 102 (three parameters,
frame size four). -/
def exCallState : lua_State :=
  { exState with
    stackmem := [exSlot 0, exSlot 1, { val := { value_ := Value.gc 0, tt_ := 70 }, delta := 0 },
      exSlot 3, exSlot 4, exSlot 5, exSlot 6, exSlot 7, exSlot 8, exSlot 9]
    top := 104
    heap := [GCObject.LClosure { numparams := 3, is_vararg := 0, maxstacksize := 4, code := 500 }] }

/-- A thread about to call, with one argument, the light C function 1 in slot 102. -/
def exCCallState : lua_State :=
  { exState with
    stackmem := [exSlot 0, exSlot 1, { val := { value_ := Value.f 1, tt_ := 22 }, delta := 0 },
      exSlot 3, exSlot 4, exSlot 5, exSlot 6, exSlot 7, exSlot 8, exSlot 9]
    top := 104 }

/-- Collaborators whose `luaF_close` removes one entry from the list of to-be-closed variables
and throws `LUA_ERRERR`, for as long as `tbclist` lies above the stack base. -/
def exEnvClose : Env :=
  { exEnv with
    luaF_close := fun L _ _ _ =>
      if L.stack < L.tbclist then luaD_throw { L with tbclist := L.tbclist - 1 } 5
      else Ctl.ret () L }

/-- The thread `exState` with one pending to-be-closed variable. -/
def exCloseState : lua_State := { exState with tbclist := 101 }

/-! ## Tail calls -/

/-- The statements of the Lua case of `luaD_pretailcall` that follow the stack check.  The
two loops are the loops `moveloop` and `nilloop`; after the second one `narg1` has grown by the
number of its iterations. -/
def pretailcall_frame (E : Env) (L1 : lua_State) (ci func narg1 delta : Nat) (p : Proto) :
    lua_State :=
  let fsize := p.maxstacksize
  let nfixparams := p.numparams
  let L2 := ciset L1 ci { ciat L1 ci with func := (ciat L1 ci).func - delta }
  let L3 := moveloop L2 (ciat L2 ci).func func 0 narg1
  let func := (ciat L3 ci).func
  let L4 := nilloop E.H L3 func narg1 (nfixparams + 1 - narg1)
  let narg1 := narg1 + (nfixparams + 1 - narg1)
  let L5 := ciset L4 ci { ciat L4 ci with top := func + 1 + fsize }
  let L6 := ciset L5 ci { ciat L5 ci with savedpc := p.code }
  let L7 := ciset L6 ci
    { ciat L6 ci with callstatus := (ciat L6 ci).callstatus ||| E.H.CIST_TAIL }
  { L7 with top := func + narg1 }

/-- `luaD_pretailcall`; `fuel` bounds the number of passes through the label `retry`. -/
def luaD_pretailcall (E : Env) : Nat → lua_State → Nat → Nat → Nat → Nat → Ctl Int
  | 0, _, _, _, _, _ => Ctl.outoffuel
  | fuel + 1, L, ci, func, narg1, delta =>
    if ttypetag (s2v L func) = LUA_VCCL E.H then
      (precallC E L func E.H.LUA_MULTRET (clCvalue_f L (s2v L func))).bind fun n L1 =>
        Ctl.ret (n : Int) L1
    else if ttypetag (s2v L func) = LUA_VLCF E.H then
      (precallC E L func E.H.LUA_MULTRET (fvalue (s2v L func))).bind fun n L1 =>
        Ctl.ret (n : Int) L1
    else if ttypetag (s2v L func) = LUA_VLCL E.H then
      let p := clLvalue_p L (s2v L func)
      (checkstackGCp E L ((p.maxstacksize : Int) - (delta : Int)) func).bind fun func L1 =>
        Ctl.ret (-1) (pretailcall_frame E L1 ci func narg1 delta p)
    else
      (luaD_tryfuncTM E L func).bind fun func L1 =>
        luaD_pretailcall E fuel L1 ci func (narg1 + 1) delta

/-! ## Conditions used in the statements (tail calls) -/

/-- The function slot of the current frame of `L1` lies at the offset at which the current
frame of `L` has it. -/
def SameFunc (L L1 : lua_State) : Prop :=
  L1.stack ≤ (ciat L1 L1.ci).func ∧
  (ciat L1 L1.ci).func - L1.stack = (ciat L L.ci).func - L.stack

/-- What a tail call relies on from a collector step besides `CollectorKeeps`: the function
slot of the current frame keeps its offset. -/
def CollectorKeepsFunc (E : Env) : Prop :=
  ∀ L, WellFormed E.H L → L.stack ≤ (ciat L L.ci).func → SameFunc L (E.luaC_checkGC L)

/-- The state in which the interpreter calls `luaD_pretailcall` from the running frame `ci`
on the Lua closure at address `a`, with prototype `p`: the callee lies in slot `func` above the
function slot of the frame, followed by its `narg1 - 1` arguments; the function slot of the
frame lies at least `delta` slots above the stack base; and the frame of the callee fits
below the stack limit. -/
def TailReady (E : Env) (L : lua_State) (ci func narg1 delta a : Nat) (p : Proto) : Prop :=
  ci = L.ci ∧ ttypetag (s2v L func) = LUA_VLCL E.H ∧ (s2v L func).value_ = Value.gc a ∧
  L.heap.get? a = some (GCObject.LClosure p) ∧ WellFormed E.H L ∧
  L.stack + delta ≤ (ciat L ci).func ∧ (ciat L ci).func < func ∧ func + narg1 ≤ L.top ∧
  stacksize L ≤ E.H.LUAI_MAXSTACK ∧
  ((L.top - L.stack : Nat) : Int) + ((p.maxstacksize : Int) - (delta : Int)) ≤
    (E.H.LUAI_MAXSTACK : Int) ∧
  p.numparams ≤ p.maxstacksize

instance (E : Env) (L : lua_State) (ci func narg1 delta a : Nat) (p : Proto) :
    Decidable (TailReady E L ci func narg1 delta a p) := by
  unfold TailReady
  infer_instance

/-- A chain of `n` tail calls out of the frame `ci`, from the thread `L` to the thread `L1`:
each time the function that runs in the frame brings the thread into a state `Lc` with `ci`
current again and ready for a tail call of a Lua closure, and `luaD_pretailcall` returns
`-1`. -/
inductive TailChain (E : Env) (ci : Nat) : Nat → lua_State → lua_State → Prop where
  | done (L : lua_State) : TailChain E ci 0 L L
  | call (n fuel : Nat) (L Lc L1 L2 : lua_State) (func narg1 delta a : Nat) (p : Proto) :
    TailReady E Lc ci func narg1 delta a p →
    luaD_pretailcall E fuel Lc ci func narg1 delta = Ctl.ret (-1) L1 →
    TailChain E ci n L1 L2 → TailChain E ci (n + 1) L L2

/-! ## An example configuration (metamethods and tail calls) -/

/-- Collaborators under which every value has the light C function 1 as call metamethod. -/
def exEnvTM : Env :=
  { exEnv with luaT_gettmbyobj := fun _ _ => { value_ := Value.f 1, tt_ := 22 } }

/-- A thread whose running frame, with function slot 101, is about to tail call, with one
argument, the Lua closure in slot 103 (three parameters, frame size four). -/
def exTailState : lua_State :=
  { exState with
    stackmem := [exSlot 0, exSlot 1, exSlot 2,
      { val := { value_ := Value.gc 0, tt_ := 70 }, delta := 0 },
      exSlot 4, exSlot 5, exSlot 6, exSlot 7, exSlot 8, exSlot 9]
    top := 105
    cis := [{ (default : CallInfo) with func := 101, top := 108 }]
    heap := [GCObject.LClosure { numparams := 3, is_vararg := 0, maxstacksize := 4, code := 500 }] }

/-! ## Coroutines -/

/-- The macro `getCcalls` of `lstate.h`. -/
def getCcalls (L : lua_State) : Nat := L.nCcalls &&& 0xffff

/-- The macro `yieldable` of `lstate.h`. -/
def yieldable (L : lua_State) : Bool := (L.nCcalls &&& 0xffff0000) == 0

/-- The macro `nyci` of `lstate.h`. -/
def nyci : Nat := 0x10000 ||| 1

/-- The macro `getcistrecst` of `lstate.h`. -/
def getcistrecst (H : Decls) (ci : CallInfo) : Int :=
  (((ci.callstatus >>> H.CIST_RECST) &&& 7 : Nat) : Int)

/-- The macro `setcistrecst` of `lstate.h`, on a 16-bit `callstatus`. -/
def setcistrecst (H : Decls) (ci : CallInfo) (st : Int) : CallInfo :=
  { ci with
    callstatus := (clearmask ci.callstatus (7 <<< H.CIST_RECST)) ||| (st.toNat <<< H.CIST_RECST) }

/-- The macro `getoah` of `lstate.h`. -/
def getoah (H : Decls) (st : Nat) : Nat := st &&& H.CIST_OAH

/-- The macro `adjustresults` of `lapi.h`. -/
def adjustresults (H : Decls) (L : lua_State) (nres : Int) : lua_State :=
  if nres ≤ H.LUA_MULTRET ∧ (ciat L L.ci).top < L.top then
    ciset L L.ci { ciat L L.ci with top := L.top }
  else L

/-- `ccall`; `fuel` bounds the passes through the label `retry` of `luaD_precall`. -/
def ccall (E : Env) (fuel : Nat) (L : lua_State) (func : Nat) (nResults : Int) (inc : Nat) :
    Ctl Unit :=
  let L1 := { L with nCcalls := L.nCcalls + inc }
  (if getCcalls L1 ≥ E.H.LUAI_MAXCCALLS then E.luaE_checkcstack L1
   else Ctl.ret () L1).bind fun _ L2 =>
    (luaD_precall E fuel L2 func nResults).bind fun ci L3 =>
      (match ci with
       | some ci =>
         E.luaV_execute ci (ciset L3 ci { ciat L3 ci with callstatus := E.H.CIST_FRESH })
       | none => Ctl.ret () L3).bind fun _ L4 =>
        Ctl.ret () { L4 with nCcalls := L4.nCcalls - inc }

/-- `luaD_call`. -/
def luaD_call (E : Env) (fuel : Nat) (L : lua_State) (func : Nat) (nResults : Int) :
    Ctl Unit :=
  ccall E fuel L func nResults 1

/-- `luaD_callnoyield`. -/
def luaD_callnoyield (E : Env) (fuel : Nat) (L : lua_State) (func : Nat) (nResults : Int) :
    Ctl Unit :=
  ccall E fuel L func nResults nyci

/-- `finishpcallk`. -/
def finishpcallk (E : Env) (L : lua_State) (ci : Nat) : Ctl Int :=
  let status := getcistrecst E.H (ciat L ci)
  (if status = E.H.LUA_OK then Ctl.ret E.H.LUA_YIELD L
   else
     let func := restorestack L (ciat L ci).funcidx
     let L1 := { L with allowhook := getoah E.H (ciat L ci).callstatus }
     (E.luaF_close L1 func status 1).bind fun _ L2 =>
       let func := restorestack L2 (ciat L2 ci).funcidx
       (luaD_seterrorobj E L2 status func).bind fun _ L3 =>
         let L4 := luaD_shrinkstack E L3
         Ctl.ret status (ciset L4 ci (setcistrecst E.H (ciat L4 ci) E.H.LUA_OK))).bind
    fun status L5 =>
      let L6 := ciset L5 ci
        { ciat L5 ci with callstatus := clearmask (ciat L5 ci).callstatus E.H.CIST_YPCALL }
      Ctl.ret status { L6 with errfunc := (ciat L6 ci).old_errfunc }

/-- `finishCcall`. -/
def finishCcall (E : Env) (L : lua_State) (ci : Nat) : Ctl Unit :=
  (if (ciat L ci).callstatus &&& E.H.CIST_CLSRET ≠ 0 then Ctl.ret (ciat L ci).nres L
   else
     (if (ciat L ci).callstatus &&& E.H.CIST_YPCALL ≠ 0 then finishpcallk E L ci
      else Ctl.ret E.H.LUA_YIELD L).bind fun status L1 =>
       let L2 := adjustresults E.H L1 E.H.LUA_MULTRET
       E.kfunc (ciat L2 ci).k L2 status (ciat L2 ci).ctx).bind fun n L3 =>
    luaD_poscall E L3 ci n

/-- `unroll`; the frame `base_ci` is the first of the list; `fuel` bounds the number of
iterations. -/
def unroll (E : Env) : Nat → lua_State → Ctl Unit
  | 0, _ => Ctl.outoffuel
  | fuel + 1, L =>
    if L.ci ≠ 0 then
      (if ¬ isLua E.H (ciat L L.ci) then finishCcall E L L.ci
       else (E.luaV_finishOp L).bind fun _ L1 => E.luaV_execute L.ci L1).bind fun _ L2 =>
        unroll E fuel L2
    else Ctl.ret () L

/-- The loop of `findpcall` from the frame `ci` down to the first frame. -/
def findpcall_from (H : Decls) (L : lua_State) : Nat → Option Nat
  | 0 => if (ciat L 0).callstatus &&& H.CIST_YPCALL ≠ 0 then some 0 else none
  | ci + 1 =>
    if (ciat L (ci + 1)).callstatus &&& H.CIST_YPCALL ≠ 0 then some (ci + 1)
    else findpcall_from H L ci

/-- `findpcall`. -/
def findpcall (H : Decls) (L : lua_State) : Option Nat := findpcall_from H L L.ci

/-- `resume_error`. -/
def resume_error (E : Env) (L : lua_State) (msg : String) (narg : Nat) : Ctl Int :=
  let L1 := { L with top := L.top - narg }
  (E.luaS_new L1 msg).bind fun ts L2 =>
    let L3 := setsvalue2s L2 L2.top ts
    Ctl.ret E.H.LUA_ERRRUN { L3 with top := L3.top + 1 }

/-- `resume`, with the number of arguments that `ud` points to; `fuel` bounds each loop. -/
def resume (E : Env) (fuel : Nat) (n : Nat) (L : lua_State) : Ctl Unit :=
  let firstArg := L.top - n
  let ci := L.ci
  if L.status = E.H.LUA_OK then ccall E fuel L (firstArg - 1) E.H.LUA_MULTRET 0
  else
    let L1 := { L with status := E.H.LUA_OK }
    (if isLua E.H (ciat L1 ci) then E.luaV_execute ci { L1 with top := firstArg }
     else
       (if (ciat L1 ci).k ≠ 0 then E.kfunc (ciat L1 ci).k L1 E.H.LUA_YIELD (ciat L1 ci).ctx
        else Ctl.ret n L1).bind fun n L2 =>
         luaD_poscall E L2 ci n).bind fun _ L3 =>
      unroll E fuel L3

/-- `precover`; `fuel` bounds the loop of `unroll`, the first argument the loop here. -/
def precover (E : Env) (fuel : Nat) : Nat → lua_State → Int → Ctl Int
  | 0, _, _ => Ctl.outoffuel
  | more + 1, L, status =>
    if errorstatus E.H status then
      match findpcall E.H L with
      | some ci =>
        let L1 := { L with ci := ci }
        let L2 := ciset L1 ci (setcistrecst E.H (ciat L1 ci) status)
        (luaD_rawrunprotected E L2 (unroll E fuel)).bind fun status L3 =>
          precover E fuel more L3 status
      | none => Ctl.ret status L
    else Ctl.ret status L

/-- `lua_resume`.  The result is the returned status with the value stored in `*nresults`,
if one is stored; `from` is the thread that resumes, if any.  (`fail` is a return through
`resume_error`, `run` the part after the checks of the status.) -/
def lua_resume (E : Env) (fuel : Nat) (L : lua_State) (from_ : Option lua_State)
    (nargs : Nat) : Ctl (Int × Option Int) :=
  let fail := fun (L0 : lua_State) (msg : String) =>
    (resume_error E L0 msg nargs).bind fun st L1 => Ctl.ret (st, (none : Option Int)) L1
  let run := fun (_ : Unit) =>
    let L1 := { L with
      nCcalls := match from_ with
        | some f => getCcalls f
        | none => 0 }
    if getCcalls L1 ≥ E.H.LUAI_MAXCCALLS then fail L1 "C stack overflow"
    else
      let L2 := { L1 with nCcalls := L1.nCcalls + 1 }
      (luaD_rawrunprotected E L2 (resume E fuel nargs)).bind fun status L3 =>
        (precover E fuel fuel L3 status).bind fun status L4 =>
          (if ¬ errorstatus E.H status then Ctl.ret () L4
           else
             let L5 := { L4 with status := status % 256 }
             (luaD_seterrorobj E L5 status L5.top).bind fun _ L6 =>
               Ctl.ret () (ciset L6 L6.ci { ciat L6 L6.ci with top := L6.top })).bind
            fun _ L7 =>
              let nresults : Int :=
                if status = E.H.LUA_YIELD then (ciat L7 L7.ci).nyield
                else (L7.top : Int) - (((ciat L7 L7.ci).func : Int) + 1)
              Ctl.ret (status, some nresults) L7
  if L.status = E.H.LUA_OK then
    if L.ci ≠ 0 then fail L "cannot resume non-suspended coroutine"
    else if (L.top : Int) - (((ciat L L.ci).func : Int) + 1) = (nargs : Int) then
      fail L "cannot resume dead coroutine"
    else run ()
  else if L.status ≠ E.H.LUA_YIELD then fail L "cannot resume dead coroutine"
  else run ()

/-- `lua_yieldk`. -/
def lua_yieldk (E : Env) (L : lua_State) (nresults : Int) (ctx : Int) (k : Nat) : Ctl Int :=
  let ci := L.ci
  if ¬ yieldable L then
    if L.self ≠ L.mainthread then
      Ctl.runerror "attempt to yield across a C-call boundary" L
    else Ctl.runerror "attempt to yield from outside a coroutine" L
  else
    let L1 := { L with status := E.H.LUA_YIELD }
    let L2 := ciset L1 ci { ciat L1 ci with nyield := nresults }
    if isLua E.H (ciat L2 ci) then Ctl.ret 0 L2
    else
      let L3 := ciset L2 ci { ciat L2 ci with k := k }
      let L4 := if k ≠ 0 then ciset L3 ci { ciat L3 ci with ctx := ctx } else L3
      luaD_throw L4 E.H.LUA_YIELD

/-! ## Conditions used in the statements (coroutines) -/

/-- String creation by `luaS_new` returns and changes nothing but the heap. -/
def NewStrKeeps (E : Env) : Prop :=
  ∀ L s, ∃ a L1, E.luaS_new L s = Ctl.ret a L1 ∧ L1 = { L with heap := L1.heap }

/-- The value `lua_resume` gives to `L->nCcalls` before the run. -/
def resume_nCcalls (from_ : Option lua_State) : Nat :=
  (match from_ with
   | some f => getCcalls f
   | none => 0) + 1

/-- The thread in which `lua_resume` starts `resume`: `nCcalls` is set from the resuming
thread and the record of `luaD_rawrunprotected` is on top of the chain. -/
def resume_entry (E : Env) (L : lua_State) (from_ : Option lua_State) : lua_State :=
  { L with
    nCcalls := resume_nCcalls from_
    errorJmp := { status := E.H.LUA_OK } :: L.errorJmp }

/-- The thread passes the checks of `lua_resume`: it is a coroutine that has not started,
with its function and `nargs` arguments above the base function slot, or it is suspended; and
the resuming thread is below the limit of nested C calls. -/
def Resumable (E : Env) (L : lua_State) (from_ : Option lua_State) (nargs : Nat) : Prop :=
  ((L.status = E.H.LUA_OK ∧ L.ci = 0 ∧
      (L.top : Int) - (((ciat L L.ci).func : Int) + 1) ≠ (nargs : Int)) ∨
    (L.status ≠ E.H.LUA_OK ∧ L.status = E.H.LUA_YIELD)) ∧
  (resume_nCcalls from_ - 1) &&& 0xffff < E.H.LUAI_MAXCCALLS

instance (E : Env) (L : lua_State) (from_ : Option lua_State) (nargs : Nat) :
    Decidable (Resumable E L from_ nargs) := by
  unfold Resumable
  infer_instance

/-- The message with which `lua_resume` refuses to resume the thread `L`. -/
def refusal (E : Env) (L : lua_State) : String :=
  if L.status = E.H.LUA_OK ∧ L.ci ≠ 0 then "cannot resume non-suspended coroutine"
  else "cannot resume dead coroutine"

/-! ## An example configuration (coroutines) -/

/-- Collaborators whose C functions all yield one value, without continuation. -/
def exEnvYield : Env :=
  { exEnv with
    cfunc := fun _ L => (lua_yieldk exEnv L 1 0 0).bind fun n L1 => Ctl.ret n.toNat L1 }

/-- Collaborators whose C functions all raise a runtime error (the message is the value on
top of the stack). -/
def exEnvErr : Env := { exEnv with cfunc := fun _ L => luaD_throw L 2 }

/-- The thread `exCCallState` at the moment its C function in slot 102, started by
`lua_resume` with one argument, calls `lua_yieldk` or raises an error. -/
def exYieldAt : lua_State :=
  { exCCallState with
    nCcalls := 1
    errorJmp := [{ status := 0 }]
    cis := [{ (default : CallInfo) with func := 100, top := 108 },
      { (default : CallInfo) with func := 102, nresults := -1, callstatus := 2, top := 107 }]
    ci := 1 }

/-! ## Collector (`lgc.c`): marks -/

/-- The macro `bitmask` of `lgc.h`. -/
def bitmask (b : Nat) : Nat := 1 <<< b

/-- The macro `bit2mask` of `lgc.h`. -/
def bit2mask (b1 b2 : Nat) : Nat := bitmask b1 ||| bitmask b2

/-- The macro `cast_byte` of `llimits.h`. -/
def cast_byte (x : Nat) : Nat := x % 256

/-- The complement `~m` as far as a byte sees it. -/
def compl8 (m : Nat) : Nat := 255 ^^^ m

/-- The macro `WHITEBITS` of `lgc.h`. -/
def WHITEBITS (H : Decls) : Nat := bit2mask H.WHITE0BIT H.WHITE1BIT

/-- The macro `maskcolors`. -/
def maskcolors (H : Decls) : Nat := bitmask H.BLACKBIT ||| WHITEBITS H

/-- The macro `maskgcbits`. -/
def maskgcbits (H : Decls) : Nat := maskcolors H ||| H.AGEBITS

/-- The macro `iswhite` of `lgc.h`, on the byte `marked`. -/
def iswhite (H : Decls) (marked : Nat) : Bool := marked &&& WHITEBITS H != 0

/-- The macro `isblack` of `lgc.h`, on the byte `marked`. -/
def isblack (H : Decls) (marked : Nat) : Bool := marked &&& bitmask H.BLACKBIT != 0

/-- The macro `isgray` of `lgc.h`, on the byte `marked`. -/
def isgray (H : Decls) (marked : Nat) : Bool :=
  marked &&& (WHITEBITS H ||| bitmask H.BLACKBIT) == 0

/-- The macro `tofinalize` of `lgc.h`, on the byte `marked`. -/
def tofinalize (H : Decls) (marked : Nat) : Bool := marked &&& bitmask H.FINALIZEDBIT != 0

/-- The macro `isdeadm` of `lgc.h`. -/
def isdeadm (ow marked : Nat) : Bool := marked &&& ow != 0

/-- The macro `getage` of `lgc.h`, on the byte `marked`. -/
def getage (H : Decls) (marked : Nat) : Nat := marked &&& H.AGEBITS

/-- The macro `setage` of `lgc.h`: the new value of `marked`. -/
def setage (H : Decls) (marked a : Nat) : Nat :=
  cast_byte ((marked &&& compl8 H.AGEBITS) ||| a)

/-- The macro `isold` of `lgc.h`, on the byte `marked`. -/
def isold (H : Decls) (marked : Nat) : Bool := decide (getage H marked > H.G_SURVIVAL)

/-- The macro `set2gray`: the new value of `marked`. -/
def set2gray (H : Decls) (marked : Nat) : Nat := marked &&& cast_byte (compl8 (maskcolors H))

/-- The macro `set2black`: the new value of `marked`. -/
def set2black (H : Decls) (marked : Nat) : Nat :=
  cast_byte ((marked &&& compl8 (WHITEBITS H)) ||| bitmask H.BLACKBIT)

/-- The variant tags of the collectable objects (`lobject.h`). -/
def LUA_VSHRSTR (H : Decls) : Nat := makevariant H.LUA_TSTRING 0

def LUA_VLNGSTR (H : Decls) : Nat := makevariant H.LUA_TSTRING 1

def LUA_VTABLE (H : Decls) : Nat := makevariant H.LUA_TTABLE 0

def LUA_VUSERDATA (H : Decls) : Nat := makevariant H.LUA_TUSERDATA 0

def LUA_VTHREAD (H : Decls) : Nat := makevariant H.LUA_TTHREAD 0

def LUA_TUPVAL (H : Decls) : Nat := H.LUA_NUMTYPES

def LUA_TPROTO (H : Decls) : Nat := H.LUA_NUMTYPES + 1

def LUA_VUPVAL (H : Decls) : Nat := makevariant (LUA_TUPVAL H) 0

def LUA_VPROTO (H : Decls) : Nat := makevariant (LUA_TPROTO H) 0

/-- The macro `iscollectable`. -/
def iscollectable (o : TValue) : Bool := rawtt o &&& (1 <<< 6) != 0

/-- The macro `gcvalue`: the address of the object a collectable value refers to. -/
def gcvalue (o : TValue) : Nat :=
  match o.value_ with
  | Value.gc a => a
  | _ => 0

/-! ## Collector: objects and global state -/

/-- An entry of the hash part of a table (the union `Node`): the value `i_val`, and the tag
and the value of the key. -/
structure Node where
  i_val : TValue
  key_tt : Nat
  key_val : Value
  deriving DecidableEq, Repr, Inhabited

/-- A collectable object as the collector sees it: the common header (`next`, `tt`, `marked`)
and, in one record for all kinds of objects, the fields of the kinds that the functions below
read or write: `gclist` (tables, closures, threads, prototypes, userdata); for an upvalue,
whether it is open (`upisopen`) and the value `*v` it points to; for a userdata the number of
user values and the metatable (the metatable also for a table).  The remaining fields hold
what the traversals read, by kind of object; an array of C is a list.  A pointer to an object
is its address, `none` a null pointer. -/
structure GCObj where
  next : Option Nat
  tt : Nat
  marked : Nat
  gclist : Option Nat
  isopen : Bool
  v : TValue
  nuvalue : Nat
  metatable : Option Nat
  /-- Table: the field `alimit`. -/
  alimit : Nat
  /-- Table: the array part. -/
  array : List TValue
  /-- Table: the hash part, `sizenode` entries. -/
  node : List Node
  /-- Userdata: the user values `uv[i].uv`. -/
  uv : List TValue
  /-- C closure: the upvalues, `nupvalues` entries. -/
  upvalue : List TValue
  /-- Lua closure: the prototype `p`. -/
  proto : Option Nat
  /-- Lua closure: the upvalues, `nupvalues` entries. -/
  upvals : List (Option Nat)
  /-- Prototype: the source name. -/
  source : Option Nat
  /-- Prototype: the constants, `sizek` entries. -/
  k : List TValue
  /-- Prototype: the names `upvalues[i].name`, `sizeupvalues` entries. -/
  upvalues : List (Option Nat)
  /-- Prototype: the nested prototypes `p[i]`, `sizep` entries. -/
  p : List (Option Nat)
  /-- Prototype: the names `locvars[i].varname`, `sizelocvars` entries. -/
  locvars : List (Option Nat)
  /-- Thread: the fields of `lua_State` that `ldo.c` uses (stack, frames). -/
  th : lua_State
  /-- Thread: the open upvalues, in the order of the list `openupval`. -/
  openupval : List Nat
  deriving DecidableEq, Repr, Inhabited

/-- A place that holds a pointer to an object (the type `GCObject **`): the head of one of
the lists of `global_State` or the field `next` of an object. -/
inductive GCRef where
  | allgc
  | finobj
  | tobefnz
  | fixedgc
  | next (a : Nat)
  deriving DecidableEq, Repr, Inhabited

/-- The fields of `global_State` (`lstate.h`) used by the collector, with the memory that
holds the collectable objects: `objs` gives the object at each address, `none` where no object
is allocated. -/
structure global_State where
  objs : List (Option GCObj)
  currentwhite : Nat
  gcstate : Nat
  gckind : Nat
  gcemergency : Nat
  allgc : Option Nat
  finobj : Option Nat
  tobefnz : Option Nat
  fixedgc : Option Nat
  gray : Option Nat
  grayagain : Option Nat
  weak : Option Nat
  ephemeron : Option Nat
  allweak : Option Nat
  sweepgc : Option GCRef
  mainthread : Nat
  l_registry : TValue
  /-- The metatables of the basic types, `LUA_NUMTAGS` entries. -/
  mt : List (Option Nat)
  /-- The threads with open upvalues, in the order of the list `twups`. -/
  twups : List Nat
  finobjold1 : Option Nat
  finobjsur : Option Nat
  firstold1 : Option Nat
  survival : Option Nat
  old1 : Option Nat
  reallyold : Option Nat
  gcstopem : Nat
  gcstp : Nat
  /-- The fields `strt.nuse` and `strt.size` of the string table. -/
  strt_nuse : Nat
  strt_size : Nat
  GCestimate : Nat
  gcpause : Nat
  totalbytes : Int
  GCdebt : Int
  deriving DecidableEq, Repr, Inhabited

/-- What the memory holds at address `a`. -/
def objat (g : global_State) (a : Nat) : Option GCObj := g.objs.getD a none

/-- The object at address `a`. -/
def gcat (g : global_State) (a : Nat) : GCObj := (g.objs.getD a none).getD default

/-- Store into the object at address `a`. -/
def gcset (g : global_State) (a : Nat) (o : GCObj) : global_State :=
  { g with objs := g.objs.set a (some o) }

/-- Assignment to the field `marked` of the object at address `a`. -/
def setmarked (g : global_State) (a : Nat) (m : Nat) : global_State :=
  gcset g a { gcat g a with marked := m }

/-- The object whose field `next` the place `p` is, if it is one. -/
def GCRef.owner : GCRef → Option Nat
  | GCRef.next a => some a
  | _ => none

/-- The pointer stored at the place `p`. -/
def deref (g : global_State) (p : GCRef) : Option Nat :=
  match p with
  | GCRef.allgc => g.allgc
  | GCRef.finobj => g.finobj
  | GCRef.tobefnz => g.tobefnz
  | GCRef.fixedgc => g.fixedgc
  | GCRef.next a => (gcat g a).next

/-- Assignment `*p = x`. -/
def assign (g : global_State) (p : GCRef) (x : Option Nat) : global_State :=
  match p with
  | GCRef.allgc => { g with allgc := x }
  | GCRef.finobj => { g with finobj := x }
  | GCRef.tobefnz => { g with tobefnz := x }
  | GCRef.fixedgc => { g with fixedgc := x }
  | GCRef.next a => gcset g a { gcat g a with next := x }

/-- The macro `luaC_white` of `lgc.h`. -/
def luaC_white (H : Decls) (g : global_State) : Nat := cast_byte (g.currentwhite &&& WHITEBITS H)

/-- The macro `otherwhite` of `lgc.h`. -/
def otherwhite (H : Decls) (g : global_State) : Nat := g.currentwhite ^^^ WHITEBITS H

/-- The macro `keepinvariant` of `lgc.h`. -/
def keepinvariant (H : Decls) (g : global_State) : Bool := decide (g.gcstate ≤ H.GCSatomic)

/-- The macro `issweepphase` of `lgc.h`. -/
def issweepphase (H : Decls) (g : global_State) : Bool :=
  decide (H.GCSswpallgc ≤ g.gcstate ∧ g.gcstate ≤ H.GCSswpend)

/-- The macro `makewhite`: the new value of `marked`. -/
def makewhite (H : Decls) (g : global_State) (marked : Nat) : Nat :=
  cast_byte ((marked &&& compl8 (maskcolors H)) ||| luaC_white H g)

/-- The macro `valiswhite`. -/
def valiswhite (H : Decls) (g : global_State) (x : TValue) : Bool :=
  iscollectable x && iswhite H (gcat g (gcvalue x)).marked

/-- The lists of `global_State` that are linked through the field `gclist`. -/
inductive GrayList where
  | gray
  | grayagain
  | weak
  | ephemeron
  | allweak
  deriving DecidableEq, Repr

/-- The head of a list linked through `gclist`. -/
def grayhead (g : global_State) (l : GrayList) : Option Nat :=
  match l with
  | GrayList.gray => g.gray
  | GrayList.grayagain => g.grayagain
  | GrayList.weak => g.weak
  | GrayList.ephemeron => g.ephemeron
  | GrayList.allweak => g.allweak

/-- Assignment to the head of a list linked through `gclist`. -/
def setgrayhead (g : global_State) (l : GrayList) (x : Option Nat) : global_State :=
  match l with
  | GrayList.gray => { g with gray := x }
  | GrayList.grayagain => { g with grayagain := x }
  | GrayList.weak => { g with weak := x }
  | GrayList.ephemeron => { g with ephemeron := x }
  | GrayList.allweak => { g with allweak := x }

/-- `getgclist`: whether the object at `o` is of a kind that has a field `gclist` (the result
of the C function is then the address of that field, and a null pointer otherwise). -/
def getgclist (H : Decls) (g : global_State) (o : Nat) : Bool :=
  let tt := (gcat g o).tt
  tt = LUA_VTABLE H ∨ tt = LUA_VLCL H ∨ tt = LUA_VCCL H ∨ tt = LUA_VTHREAD H ∨
    tt = LUA_VPROTO H ∨ tt = LUA_VUSERDATA H

/-- `linkgclist_` with `pnext` the field `gclist` of `o`. -/
def linkgclist_ (H : Decls) (g : global_State) (o : Nat) (list : GrayList) : global_State :=
  let g1 := gcset g o { gcat g o with gclist := grayhead g list }
  let g2 := setgrayhead g1 list (some o)
  setmarked g2 o (set2gray H (gcat g2 o).marked)

/-- The macro `linkobjgclist`.  For an object without a field `gclist` the C code writes
through the null pointer that `getgclist` returns; here the state is left as it is. -/
def linkobjgclist (H : Decls) (g : global_State) (o : Nat) (list : GrayList) : global_State :=
  if getgclist H g o then linkgclist_ H g o list else g

/-- `reallymarkobject`; `fuel` bounds the depth of the recursion through `markvalue` and
`markobjectN`, and the result is `none` when it is used up. -/
def reallymarkobject (H : Decls) : Nat → global_State → Nat → Option global_State
  | 0, _, _ => none
  | fuel + 1, g, o =>
    let tt := (gcat g o).tt
    if tt = LUA_VSHRSTR H ∨ tt = LUA_VLNGSTR H then
      some (setmarked g o (set2black H (gcat g o).marked))
    else if tt = LUA_VUPVAL H then
      let g1 :=
        if (gcat g o).isopen then setmarked g o (set2gray H (gcat g o).marked)
        else setmarked g o (set2black H (gcat g o).marked)
      if valiswhite H g1 (gcat g1 o).v then reallymarkobject H fuel g1 (gcvalue (gcat g1 o).v)
      else some g1
    else if tt = LUA_VUSERDATA H ∧ (gcat g o).nuvalue = 0 then
      (match (gcat g o).metatable with
       | some t =>
         if iswhite H (gcat g t).marked then reallymarkobject H fuel g t else some g
       | none => some g).map fun g1 => setmarked g1 o (set2black H (gcat g1 o).marked)
    else if tt = LUA_VUSERDATA H ∨ tt = LUA_VLCL H ∨ tt = LUA_VCCL H ∨ tt = LUA_VTABLE H ∨
        tt = LUA_VTHREAD H ∨ tt = LUA_VPROTO H then
      some (linkobjgclist H g o GrayList.gray)
    else some g

/-- The macro `markobject`. -/
def markobject (H : Decls) (fuel : Nat) (g : global_State) (t : Nat) : Option global_State :=
  if iswhite H (gcat g t).marked then reallymarkobject H fuel g t else some g

/-- The macro `markobjectN`. -/
def markobjectN (H : Decls) (fuel : Nat) (g : global_State) (t : Option Nat) :
    Option global_State :=
  match t with
  | some t => markobject H fuel g t
  | none => some g

/-- The macro `markvalue`. -/
def markvalue (H : Decls) (fuel : Nat) (g : global_State) (o : TValue) : Option global_State :=
  if valiswhite H g o then reallymarkobject H fuel g (gcvalue o) else some g

/-- `luaC_barrier_`; `fuel` is the fuel of `reallymarkobject`. -/
def luaC_barrier_ (H : Decls) (fuel : Nat) (g : global_State) (o v : Nat) :
    Option global_State :=
  if keepinvariant H g then
    (reallymarkobject H fuel g v).map fun g1 =>
      if isold H (gcat g1 o).marked then setmarked g1 v (setage H (gcat g1 v).marked H.G_OLD0)
      else g1
  else
    if g.gckind = H.KGC_INC then some (setmarked g o (makewhite H g (gcat g o).marked))
    else some g

/-! ## Collector: sweep -/

/-- Collaborators of the collector defined outside the source files at hand; each takes the
address of the object it is called on. -/
structure GCEnv extends Env where
  /-- Release of a prototype, `luaF_freeproto` of `lfunc.c`. -/
  luaF_freeproto : global_State → Nat → global_State
  /-- Removal of an open upvalue from the list of its thread, `luaF_unlinkupval` of
  `lfunc.c`. -/
  luaF_unlinkupval : global_State → Nat → global_State
  /-- Release of a block of memory, `luaM_free` and `luaM_freemem` of `lmem.h`. -/
  luaM_free : global_State → Nat → global_State
  /-- Release of a table, `luaH_free` of `ltable.c`. -/
  luaH_free : global_State → Nat → global_State
  /-- Release of a thread, `luaE_freethread` of `lstate.c`. -/
  luaE_freethread : global_State → Nat → global_State
  /-- Removal of a short string from the string table, `luaS_remove` of `lstring.c`. -/
  luaS_remove : global_State → Nat → global_State

/-- `freeupval`. -/
def freeupval (E : GCEnv) (g : global_State) (uv : Nat) : global_State :=
  let g1 := if (gcat g uv).isopen then E.luaF_unlinkupval g uv else g
  E.luaM_free g1 uv

/-- `freeobj`. -/
def freeobj (E : GCEnv) (g : global_State) (o : Nat) : global_State :=
  let tt := (gcat g o).tt
  if tt = LUA_VPROTO E.H then E.luaF_freeproto g o
  else if tt = LUA_VUPVAL E.H then freeupval E g o
  else if tt = LUA_VLCL E.H then E.luaM_free g o
  else if tt = LUA_VCCL E.H then E.luaM_free g o
  else if tt = LUA_VTABLE E.H then E.luaH_free g o
  else if tt = LUA_VTHREAD E.H then E.luaE_freethread g o
  else if tt = LUA_VUSERDATA E.H then E.luaM_free g o
  else if tt = LUA_VSHRSTR E.H then E.luaM_free (E.luaS_remove g o) o
  else if tt = LUA_VLNGSTR E.H then E.luaM_free g o
  else g

/-- The loop of `sweeplist` with `i` objects traversed and `count` more allowed: the state,
the place `p` and `i` at its end. -/
def sweeploop (E : GCEnv) (ow white : Nat) :
    Nat → global_State → GCRef → Nat → global_State × GCRef × Nat
  | 0, g, p, i => (g, p, i)
  | count + 1, g, p, i =>
    match deref g p with
    | none => (g, p, i)
    | some curr =>
      let marked := (gcat g curr).marked
      if isdeadm ow marked then
        let g1 := assign g p (gcat g curr).next
        sweeploop E ow white count (freeobj E g1 curr) p (i + 1)
      else
        let g1 := setmarked g curr (cast_byte ((marked &&& compl8 (maskgcbits E.H)) ||| white))
        sweeploop E ow white count g1 (GCRef.next curr) (i + 1)

/-- `sweeplist`: the state, the returned place (`none` for a null pointer) and the count
stored through `countout`. -/
def sweeplist (E : GCEnv) (g : global_State) (p : GCRef) (countin : Nat) :
    global_State × Option GCRef × Nat :=
  let ow := otherwhite E.H g
  let white := luaC_white E.H g
  let r := sweeploop E ow white countin g p 0
  (r.1, if deref r.1 r.2.1 = none then none else some r.2.1, r.2.2)

/-! ## Conditions used in the statements (collector) -/

/-- The bits of `marked` and the ages have the values of `lgc.h`. -/
def StdMarks (H : Decls) : Prop :=
  H.WHITE0BIT = 3 ∧ H.WHITE1BIT = 4 ∧ H.BLACKBIT = 5 ∧ H.FINALIZEDBIT = 6 ∧ H.AGEBITS = 7 ∧
  H.G_NEW = 0 ∧ H.G_SURVIVAL = 1 ∧ H.G_OLD0 = 2 ∧ H.G_OLD1 = 3 ∧ H.G_OLD = 4 ∧
  H.G_TOUCHED1 = 5 ∧ H.G_TOUCHED2 = 6

instance (H : Decls) : Decidable (StdMarks H) := by
  unfold StdMarks
  infer_instance

/-- The types of objects have the numbers of `lua.h`. -/
def StdTypes (H : Decls) : Prop :=
  H.LUA_TSTRING = 4 ∧ H.LUA_TTABLE = 5 ∧ H.LUA_TFUNCTION = 6 ∧ H.LUA_TUSERDATA = 7 ∧
  H.LUA_TTHREAD = 8 ∧ H.LUA_NUMTYPES = 9

instance (H : Decls) : Decidable (StdTypes H) := by
  unfold StdTypes
  infer_instance

/-- The tag `tt` is the tag of a kind of collectable object. -/
def CollectableTag (H : Decls) (tt : Nat) : Prop :=
  tt = LUA_VSHRSTR H ∨ tt = LUA_VLNGSTR H ∨ tt = LUA_VUPVAL H ∨ tt = LUA_VUSERDATA H ∨
  tt = LUA_VLCL H ∨ tt = LUA_VCCL H ∨ tt = LUA_VTABLE H ∨ tt = LUA_VTHREAD H ∨
  tt = LUA_VPROTO H

instance (H : Decls) (tt : Nat) : Decidable (CollectableTag H tt) := by
  unfold CollectableTag
  infer_instance

/-- The references that `reallymarkobject` follows at once are typed as the source says: an
upvalue does not refer to an upvalue, and the metatable of a userdata is a table. -/
def Typed (H : Decls) (g : global_State) : Prop :=
  (∀ a, a < g.objs.length → (gcat g a).tt = LUA_VUPVAL H →
    iscollectable (gcat g a).v = true → (gcat g (gcvalue (gcat g a).v)).tt ≠ LUA_VUPVAL H) ∧
  (∀ a, a < g.objs.length → (gcat g a).tt = LUA_VUSERDATA H →
    ∀ t, (gcat g a).metatable = some t → (gcat g t).tt = LUA_VTABLE H)

instance (H : Decls) (g : global_State) : Decidable (Typed H g) := by
  unfold Typed
  infer_instance

/-- What marking leaves of the object `v`, by its kind, from the state `g` to the state `g1`:
`v` is not white; a string, a closed upvalue and a userdata without user values are black; an
open upvalue is gray and is not made the head of the gray list; an object of another kind is
gray and is the head of the gray list, with the list of before as its tail. -/
def MarkedAs (H : Decls) (g g1 : global_State) (v : Nat) : Prop :=
  iswhite H (gcat g1 v).marked = false ∧
  (((gcat g v).tt = LUA_VSHRSTR H ∨ (gcat g v).tt = LUA_VLNGSTR H ∨
      ((gcat g v).tt = LUA_VUPVAL H ∧ (gcat g v).isopen = false) ∨
      ((gcat g v).tt = LUA_VUSERDATA H ∧ (gcat g v).nuvalue = 0)) →
    isblack H (gcat g1 v).marked = true) ∧
  (((gcat g v).tt = LUA_VUPVAL H ∧ (gcat g v).isopen = true) →
    isgray H (gcat g1 v).marked = true ∧ (g1.gray = some v → g.gray = some v)) ∧
  ((((gcat g v).tt = LUA_VUSERDATA H ∧ (gcat g v).nuvalue ≠ 0) ∨
      (gcat g v).tt = LUA_VLCL H ∨ (gcat g v).tt = LUA_VCCL H ∨
      (gcat g v).tt = LUA_VTABLE H ∨ (gcat g v).tt = LUA_VTHREAD H ∨
      (gcat g v).tt = LUA_VPROTO H) →
    isgray H (gcat g1 v).marked = true ∧ g1.gray = some v ∧ (gcat g1 v).gclist = g.gray)

instance (H : Decls) (g g1 : global_State) (v : Nat) : Decidable (MarkedAs H g g1 v) := by
  unfold MarkedAs
  infer_instance

/-- An object is allocated at address `a`. -/
def allocated (g : global_State) (a : Nat) : Bool := (g.objs.getD a none).isSome

/-- The objects linked from the pointer `x` through the field `next` are those of `l`, in
this order, and the list ends with a null pointer. -/
def Linked (g : global_State) : Option Nat → List Nat → Prop
  | x, [] => x = none
  | x, a :: l => x = some a ∧ allocated g a = true ∧ Linked g (gcat g a).next l

instance (g : global_State) (x : Option Nat) (l : List Nat) : Decidable (Linked g x l) := by
  induction l generalizing x with
  | nil => unfold Linked; infer_instance
  | cons a l ih =>
    unfold Linked
    have := ih (gcat g a).next
    infer_instance

/-- The state after the memory of the object at address `a` has been given back. -/
def release (g : global_State) (a : Nat) : global_State :=
  { g with objs := g.objs.set a none }

/-- What the sweep relies on from the routines that release an object: they give back the
memory of that object and leave everything else that the collector sees as it is.  (For
`luaE_freethread` this is the release of a thread without open upvalues; the closing of
upvalues is not modelled.) -/
def Releases (E : GCEnv) : Prop :=
  (∀ g a, E.luaF_freeproto g a = release g a) ∧ (∀ g a, E.luaM_free g a = release g a) ∧
  (∀ g a, E.luaH_free g a = release g a) ∧ (∀ g a, E.luaE_freethread g a = release g a) ∧
  (∀ g a, E.luaF_unlinkupval g a = g) ∧ (∀ g a, E.luaS_remove g a = g)

/-- The state without the memory of the objects and without the heads of the four lists that
are linked through `next`: what a sweep has to leave as it is. -/
def global_State.rest (g : global_State) : global_State :=
  { g with objs := [], allgc := none, finobj := none, tobefnz := none, fixedgc := none }

/-- Collaborators of the collector whose release routines do nothing but release. -/
def exGCEnv : GCEnv :=
  { exEnv with
    H := lua544
    luaF_freeproto := release
    luaF_unlinkupval := fun g _ => g
    luaM_free := release
    luaH_free := release
    luaE_freethread := release
    luaS_remove := fun g _ => g }

/-- An object with the given tag, mark and successor. -/
def exObj (tt marked : Nat) (next : Option Nat) : GCObj :=
  { (default : GCObj) with tt := tt, marked := marked, next := next }

/-- A state in the propagation phase with a black Lua closure at address 0 and a white open
upvalue, whose value is nil, at address 1; all gray lists are empty. -/
def exBarrier : global_State :=
  { (default : global_State) with
    objs := [some (exObj 6 32 (some 1)),
      some { exObj 9 8 none with isopen := true }]
    currentwhite := 8
    gcstate := 0
    allgc := some 0 }

/-- The state `exBarrier` with a white table at address 1 instead of the upvalue. -/
def exBarrierTable : global_State :=
  { exBarrier with objs := [some (exObj 6 36 (some 1)), some (exObj 5 8 none)] }

/-- The state `exBarrier` in the sweep of a generational collection. -/
def exBarrierGen : global_State := { exBarrier with gcstate := 3, gckind := 1 }

/-- The state `exBarrier` in the sweep of an incremental collection. -/
def exBarrierInc : global_State := { exBarrier with gcstate := 3, gckind := 0 }

/-! ## Collector: traversals -/

/-- The constant `GCSWEEPMAX` of `lgc.c`. -/
def GCSWEEPMAX : Nat := 100

/-- The constant `GCFINMAX` of `lgc.c`. -/
def GCFINMAX : Nat := 10

/-- The tag `LUA_VEMPTY` of `lobject.h`. -/
def LUA_VEMPTY (H : Decls) : Nat := makevariant H.LUA_TNIL 1

/-- The tag `LUA_TDEADKEY` of `lobject.h`. -/
def LUA_TDEADKEY (H : Decls) : Nat := H.LUA_NUMTYPES + 2

/-- The macro `isempty`. -/
def isempty (H : Decls) (v : TValue) : Bool := ttisnil H v

/-- The macro `setempty`: only the tag is written. -/
def setempty (H : Decls) (v : TValue) : TValue := { v with tt_ := LUA_VEMPTY H }

/-- The macro `ttisstring`. -/
def ttisstring (H : Decls) (o : TValue) : Bool := ttype o == H.LUA_TSTRING

/-- The macro `notm` of `ltm.h`. -/
def notm (H : Decls) (tm : TValue) : Bool := ttisnil H tm

/-- The macro `keyiscollectable`. -/
def keyiscollectable (n : Node) : Bool := n.key_tt &&& (1 <<< 6) != 0

/-- The macro `gckey`. -/
def gckey (n : Node) : Nat :=
  match n.key_val with
  | Value.gc a => a
  | _ => 0

/-- The macro `gckeyN`. -/
def gckeyN (n : Node) : Option Nat := if keyiscollectable n then some (gckey n) else none

/-- The macro `gcvalueN` of `lgc.c`. -/
def gcvalueN (o : TValue) : Option Nat := if iscollectable o then some (gcvalue o) else none

/-- The macro `setdeadkey`. -/
def setdeadkey (H : Decls) (n : Node) : Node := { n with key_tt := LUA_TDEADKEY H }

/-- The macro `keyiswhite` of `lgc.c`. -/
def keyiswhite (H : Decls) (g : global_State) (n : Node) : Bool :=
  keyiscollectable n && iswhite H (gcat g (gckey n)).marked

/-- The macro `nw2black` of `lgc.h`: the new value of `marked`. -/
def nw2black (H : Decls) (marked : Nat) : Nat := marked ||| bitmask H.BLACKBIT

/-- The macro `changeage` of `lgc.h`: the new value of `marked`. -/
def changeage (marked f t : Nat) : Nat := marked ^^^ (f ^^^ t)

/-- The macro `resetbit` of `lgc.h`: the new value of `marked`. -/
def resetbit (marked b : Nat) : Nat := marked &&& cast_byte (compl8 (bitmask b))

/-- The entry `gnode(h, i)` of the table at `h`. -/
def nodeat (g : global_State) (h i : Nat) : Node := (gcat g h).node.getD i default

/-- Store into the entry `gnode(h, i)`. -/
def nodeset (g : global_State) (h i : Nat) (n : Node) : global_State :=
  gcset g h { gcat g h with node := (gcat g h).node.set i n }

/-- Store into the entry `h->array[i]`. -/
def arrayset (g : global_State) (h i : Nat) (x : TValue) : global_State :=
  gcset g h { gcat g h with array := (gcat g h).array.set i x }

/-- `clearkey`, on the entry `gnode(h, i)`. -/
def clearkey (H : Decls) (g : global_State) (h i : Nat) : global_State :=
  if keyiscollectable (nodeat g h i) then nodeset g h i (setdeadkey H (nodeat g h i)) else g

/-- A loop `for` whose variable takes the values of the list in turn; `f i` is the body. -/
def forloop {σ : Type} (f : Nat → σ → Option σ) : List Nat → σ → Option σ
  | [], s => some s
  | i :: l, s => (f i s).bind (forloop f l)

/-- `iscleared`: the state (a string is marked) and the result. -/
def iscleared (H : Decls) (fuel : Nat) (g : global_State) (o : Option Nat) :
    Option (global_State × Bool) :=
  match o with
  | none => some (g, false)
  | some o =>
    if novariant (gcat g o).tt = H.LUA_TSTRING then
      (markobject H fuel g o).map fun g1 => (g1, false)
    else some (g, iswhite H (gcat g o).marked)

/-- The macro `markkey`. -/
def markkey (H : Decls) (fuel : Nat) (g : global_State) (n : Node) : Option global_State :=
  if keyiswhite H g n then reallymarkobject H fuel g (gckey n) else some g

/-- `markmt`. -/
def markmt (H : Decls) (fuel : Nat) (g : global_State) : Option global_State :=
  forloop (fun i g1 => markobjectN H fuel g1 (g1.mt.getD i none)) (List.range H.LUA_NUMTAGS) g

/-- `markbeingfnz`, from the object `o` on; `fuel` bounds the number of iterations. -/
def markbeingfnz (H : Decls) : Nat → global_State → Option Nat → Option global_State
  | 0, _, _ => none
  | fuel + 1, g, o =>
    match o with
    | none => some g
    | some o => (markobject H fuel g o).bind fun g1 => markbeingfnz H fuel g1 (gcat g1 o).next

/-- The inner loop of `remarkupvals`, over the open upvalues of a thread. -/
def remarkupvals_uvs (H : Decls) (fuel : Nat) : List Nat → global_State → Option global_State
  | [], g => some g
  | uv :: l, g =>
    (if !iswhite H (gcat g uv).marked then markvalue H fuel g (gcat g uv).v
     else some g).bind (remarkupvals_uvs H fuel l)

/-- The loop of `remarkupvals` over the threads of the list `twups`: the state and the threads
that stay in the list. -/
def remarkupvals_loop (H : Decls) (fuel : Nat) :
    List Nat → global_State → Option (global_State × List Nat)
  | [], g => some (g, [])
  | thread :: l, g =>
    if !iswhite H (gcat g thread).marked ∧ (gcat g thread).openupval ≠ [] then
      (remarkupvals_loop H fuel l g).map fun r => (r.1, thread :: r.2)
    else
      (remarkupvals_uvs H fuel (gcat g thread).openupval g).bind (remarkupvals_loop H fuel l)

/-- `remarkupvals`.  The list `twups` is a list of addresses here; a thread taken out of the
list (in C, `thread->twups = thread`) is a thread that is not in it. -/
def remarkupvals (H : Decls) (fuel : Nat) (g : global_State) : Option global_State :=
  (remarkupvals_loop H fuel g.twups g).map fun r => { r.1 with twups := r.2 }

/-- `cleargraylists`. -/
def cleargraylists (g : global_State) : global_State :=
  { g with gray := none, grayagain := none, weak := none, allweak := none, ephemeron := none }

/-- `restartcollection`. -/
def restartcollection (H : Decls) (fuel : Nat) (g : global_State) : Option global_State :=
  (markobject H fuel (cleargraylists g) g.mainthread).bind fun g1 =>
    (markvalue H fuel g1 g1.l_registry).bind fun g2 =>
      (markmt H fuel g2).bind fun g3 => markbeingfnz H fuel g3 g3.tobefnz

/-- `genlink`. -/
def genlink (H : Decls) (g : global_State) (o : Nat) : global_State :=
  if getage H (gcat g o).marked = H.G_TOUCHED1 then linkobjgclist H g o GrayList.grayagain
  else if getage H (gcat g o).marked = H.G_TOUCHED2 then
    setmarked g o (changeage (gcat g o).marked H.G_TOUCHED2 H.G_OLD)
  else g

/-- Collaborators of a collector step defined outside the source files at hand. -/
structure StepEnv extends GCEnv where
  /-- The real size of the array part of a table, `luaH_realasize` of `ltable.c`. -/
  luaH_realasize : GCObj → Nat
  /-- The macro `gfasttm(g, mt, TM_MODE)` of `ltm.h`: the field `__mode` of a metatable, `none`
  for a null pointer. -/
  gfasttm_mode : global_State → Option Nat → Option TValue
  /-- The macro `svalue`: the characters of a string value (strings are immutable). -/
  svalue : TValue → List Char
  /-- Clearing of the cache of strings, `luaS_clearcache` of `lstring.c`. -/
  luaS_clearcache : global_State → global_State
  /-- Resizing of the string table, `luaS_resize` of `lstring.c`. -/
  luaS_resize : global_State → Nat → global_State
  /-- Lookup of the finalizer, `luaT_gettmbyobj(L, o, TM_GC)` of `ltm.c`. -/
  gettm_gc : global_State → TValue → TValue
  /-- The macro `gfasttm(g, mt, TM_GC)` of `ltm.h`: the field `__gc` of a metatable, `none`
  for a null pointer. -/
  gfasttm_gc : global_State → Option Nat → Option TValue
  /-- What the code run by the call of the finalizer of the object at the given address does to
  the state of the collector. -/
  finalizer : global_State → Nat → global_State
  /-- The warning of `luaE_warnerror` of `lstate.c`. -/
  luaE_warnerror : lua_State → String → lua_State
  /-- The store of a debt, `luaE_setdebt` of `lstate.c`. -/
  luaE_setdebt : global_State → Int → global_State

/-- One entry of the hash part in `traverseweakvalue`; the state holds `hasclears`. -/
def traverseweakvalue_node (H : Decls) (fuel : Nat) (h : Nat) (i : Nat)
    (s : global_State × Bool) : Option (global_State × Bool) :=
  if isempty H (nodeat s.1 h i).i_val then some (clearkey H s.1 h i, s.2)
  else
    (markkey H fuel s.1 (nodeat s.1 h i)).bind fun g1 =>
      if !s.2 then iscleared H fuel g1 (gcvalueN (nodeat g1 h i).i_val)
      else some (g1, s.2)

/-- `traverseweakvalue`. -/
def traverseweakvalue (H : Decls) (fuel : Nat) (g : global_State) (h : Nat) :
    Option global_State :=
  (forloop (traverseweakvalue_node H fuel h) (List.range (gcat g h).node.length)
      (g, decide ((gcat g h).alimit > 0))).map fun s =>
    if s.1.gcstate = H.GCSatomic ∧ s.2 = true then linkgclist_ H s.1 h GrayList.weak
    else linkgclist_ H s.1 h GrayList.grayagain

/-- The variables of `traverseephemeron`, with the state. -/
structure EphState where
  g : global_State
  marked : Bool
  hasclears : Bool
  hasww : Bool

/-- One entry of the array part in `traverseephemeron`. -/
def traverseephemeron_array (H : Decls) (fuel : Nat) (h : Nat) (i : Nat) (s : EphState) :
    Option EphState :=
  if valiswhite H s.g ((gcat s.g h).array.getD i default) then
    (reallymarkobject H fuel s.g (gcvalue ((gcat s.g h).array.getD i default))).map fun g1 =>
      { s with g := g1, marked := true }
  else some s

/-- One entry of the hash part in `traverseephemeron`, the entry of index `j`. -/
def traverseephemeron_node (H : Decls) (fuel : Nat) (h : Nat) (j : Nat) (s : EphState) :
    Option EphState :=
  if isempty H (nodeat s.g h j).i_val then some { s with g := clearkey H s.g h j }
  else
    (iscleared H fuel s.g (gckeyN (nodeat s.g h j))).bind fun r =>
      if r.2 then
        some { s with g := r.1, hasclears := true,
                      hasww := if valiswhite H r.1 (nodeat r.1 h j).i_val then true else s.hasww }
      else if valiswhite H r.1 (nodeat r.1 h j).i_val then
        (reallymarkobject H fuel r.1 (gcvalue (nodeat r.1 h j).i_val)).map fun g1 =>
          { s with g := g1, marked := true }
      else some { s with g := r.1 }

/-- `traverseephemeron`: the state and the result. -/
def traverseephemeron (E : StepEnv) (fuel : Nat) (g : global_State) (h : Nat) (inv : Bool) :
    Option (global_State × Bool) :=
  let asize := E.luaH_realasize (gcat g h)
  let nsize := (gcat g h).node.length
  (forloop (traverseephemeron_array E.H fuel h) (List.range asize)
      { g := g, marked := false, hasclears := false, hasww := false }).bind fun s1 =>
    (forloop (fun i s => traverseephemeron_node E.H fuel h (if inv then nsize - 1 - i else i) s)
        (List.range nsize) s1).map fun s2 =>
      (if s2.g.gcstate = E.H.GCSpropagate then linkgclist_ E.H s2.g h GrayList.grayagain
       else if s2.hasww then linkgclist_ E.H s2.g h GrayList.ephemeron
       else if s2.hasclears then linkgclist_ E.H s2.g h GrayList.allweak
       else genlink E.H s2.g h, s2.marked)

/-- One entry of the hash part in `traversestrongtable`. -/
def traversestrongtable_node (H : Decls) (fuel : Nat) (h : Nat) (i : Nat) (g : global_State) :
    Option global_State :=
  if isempty H (nodeat g h i).i_val then some (clearkey H g h i)
  else (markkey H fuel g (nodeat g h i)).bind fun g1 => markvalue H fuel g1 (nodeat g1 h i).i_val

/-- `traversestrongtable`. -/
def traversestrongtable (E : StepEnv) (fuel : Nat) (g : global_State) (h : Nat) :
    Option global_State :=
  (forloop (fun i g1 => markvalue E.H fuel g1 ((gcat g1 h).array.getD i default))
      (List.range (E.luaH_realasize (gcat g h))) g).bind fun g1 =>
    (forloop (traversestrongtable_node E.H fuel h) (List.range (gcat g1 h).node.length) g1).map
      fun g2 => genlink E.H g2 h

/-- `traversetable`. -/
def traversetable (E : StepEnv) (fuel : Nat) (g : global_State) (h : Nat) :
    Option global_State :=
  let mode := E.gfasttm_mode g (gcat g h).metatable
  (markobjectN E.H fuel g (gcat g h).metatable).bind fun g1 =>
    match mode with
    | some m =>
      let weakkey := List.elem 'k' (E.svalue m)
      let weakvalue := List.elem 'v' (E.svalue m)
      if ttisstring E.H m ∧ (weakkey ∨ weakvalue) then
        if !weakkey then traverseweakvalue E.H fuel g1 h
        else if !weakvalue then (traverseephemeron E fuel g1 h false).map fun r => r.1
        else some (linkgclist_ E.H g1 h GrayList.allweak)
      else traversestrongtable E fuel g1 h
    | none => traversestrongtable E fuel g1 h

/-- `traverseudata`. -/
def traverseudata (H : Decls) (fuel : Nat) (g : global_State) (u : Nat) : Option global_State :=
  (markobjectN H fuel g (gcat g u).metatable).bind fun g1 =>
    (forloop (fun i g2 => markvalue H fuel g2 ((gcat g2 u).uv.getD i default))
        (List.range (gcat g1 u).nuvalue) g1).map fun g2 => genlink H g2 u

/-- `traverseproto`. -/
def traverseproto (H : Decls) (fuel : Nat) (g : global_State) (f : Nat) : Option global_State :=
  (markobjectN H fuel g (gcat g f).source).bind fun g1 =>
    (forloop (fun i g2 => markvalue H fuel g2 ((gcat g2 f).k.getD i default))
        (List.range (gcat g1 f).k.length) g1).bind fun g2 =>
      (forloop (fun i g3 => markobjectN H fuel g3 ((gcat g3 f).upvalues.getD i none))
          (List.range (gcat g2 f).upvalues.length) g2).bind fun g3 =>
        (forloop (fun i g4 => markobjectN H fuel g4 ((gcat g4 f).p.getD i none))
            (List.range (gcat g3 f).p.length) g3).bind fun g4 =>
          forloop (fun i g5 => markobjectN H fuel g5 ((gcat g5 f).locvars.getD i none))
            (List.range (gcat g4 f).locvars.length) g4

/-- `traverseCclosure`. -/
def traverseCclosure (H : Decls) (fuel : Nat) (g : global_State) (cl : Nat) :
    Option global_State :=
  forloop (fun i g1 => markvalue H fuel g1 ((gcat g1 cl).upvalue.getD i default))
    (List.range (gcat g cl).upvalue.length) g

/-- `traverseLclosure`. -/
def traverseLclosure (H : Decls) (fuel : Nat) (g : global_State) (cl : Nat) :
    Option global_State :=
  (markobjectN H fuel g (gcat g cl).proto).bind fun g1 =>
    forloop (fun i g2 => markobjectN H fuel g2 ((gcat g2 cl).upvals.getD i none))
      (List.range (gcat g1 cl).upvals.length) g1

/-- Store into the fields of the thread at `t` that `ldo.c` uses. -/
def thset (g : global_State) (t : Nat) (x : lua_State) : global_State :=
  gcset g t { gcat g t with th := x }

/-- `traversethread`.  A stack that is not built yet (`th->stack == NULL`) is the address 0;
a thread is in the list `twups` when it is one of its elements. -/
def traversethread (E : StepEnv) (fuel : Nat) (g : global_State) (t : Nat) :
    Option global_State :=
  let g1 :=
    if isold E.H (gcat g t).marked ∨ g.gcstate = E.H.GCSpropagate then
      linkgclist_ E.H g t GrayList.grayagain
    else g
  if (gcat g1 t).th.stack = 0 then some g1
  else
    (forloop (fun o g2 => markvalue E.H fuel g2 (s2v (gcat g2 t).th o))
        (List.range' (gcat g1 t).th.stack ((gcat g1 t).th.top - (gcat g1 t).th.stack)) g1).bind
      fun g2 =>
        (forloop (fun i g3 => markobject E.H fuel g3 ((gcat g3 t).openupval.getD i 0))
            (List.range (gcat g2 t).openupval.length) g2).map fun g3 =>
          if g3.gcstate = E.H.GCSatomic then
            let x := (gcat g3 t).th
            let g4 := thset g3 t
              ((List.range' x.top (x.stack_last + E.H.EXTRA_STACK - x.top)).foldl
                (fun y o => setnilat E.H y o) x)
            if t ∉ g4.twups ∧ (gcat g4 t).openupval ≠ [] then { g4 with twups := t :: g4.twups }
            else g4
          else if g3.gcemergency = 0 then thset g3 t (luaD_shrinkstack E.toEnv (gcat g3 t).th)
          else g3

/-- `propagatemark`. -/
def propagatemark (E : StepEnv) (fuel : Nat) (g : global_State) : Option global_State :=
  match g.gray with
  | none => none
  | some o =>
    let g1 := setmarked g o (nw2black E.H (gcat g o).marked)
    if getgclist E.H g1 o then
      let g2 := { g1 with gray := (gcat g1 o).gclist }
      let tt := (gcat g2 o).tt
      if tt = LUA_VTABLE E.H then traversetable E fuel g2 o
      else if tt = LUA_VUSERDATA E.H then traverseudata E.H fuel g2 o
      else if tt = LUA_VLCL E.H then traverseLclosure E.H fuel g2 o
      else if tt = LUA_VCCL E.H then traverseCclosure E.H fuel g2 o
      else if tt = LUA_VPROTO E.H then traverseproto E.H fuel g2 o
      else if tt = LUA_VTHREAD E.H then traversethread E fuel g2 o
      else some g2
    else none

/-- `propagateall`; `fuel` bounds the number of iterations. -/
def propagateall (E : StepEnv) : Nat → global_State → Option global_State
  | 0, _ => none
  | fuel + 1, g =>
    if g.gray = none then some g
    else (propagatemark E fuel g).bind (propagateall E fuel)

/-- The inner loop of `convergeephemerons`, from the table `next` on: the state and
`changed`. -/
def convergeloop (E : StepEnv) (dir : Bool) :
    Nat → global_State → Option Nat → Bool → Option (global_State × Bool)
  | 0, _, _, _ => none
  | fuel + 1, g, next, changed =>
    match next with
    | none => some (g, changed)
    | some w =>
      let next1 := (gcat g w).gclist
      let g1 := setmarked g w (nw2black E.H (gcat g w).marked)
      (traverseephemeron E fuel g1 w dir).bind fun r =>
        if r.2 then (propagateall E fuel r.1).bind fun g2 => convergeloop E dir fuel g2 next1 true
        else convergeloop E dir fuel r.1 next1 changed

/-- `convergeephemerons`, from the direction `dir` on; `fuel` bounds the number of passes. -/
def convergeephemerons (E : StepEnv) : Nat → global_State → Bool → Option global_State
  | 0, _, _ => none
  | fuel + 1, g, dir =>
    (convergeloop E dir fuel { g with ephemeron := none } g.ephemeron false).bind fun r =>
      if r.2 then convergeephemerons E fuel r.1 (!dir) else some r.1

/-! ## Collector: clearing of weak tables -/

/-- One entry of the hash part in `clearbykeys`. -/
def clearbykeys_node (H : Decls) (fuel : Nat) (h : Nat) (i : Nat) (g : global_State) :
    Option global_State :=
  (iscleared H fuel g (gckeyN (nodeat g h i))).map fun r =>
    let g1 :=
      if r.2 then nodeset r.1 h i { nodeat r.1 h i with i_val := setempty H (nodeat r.1 h i).i_val }
      else r.1
    if isempty H (nodeat g1 h i).i_val then clearkey H g1 h i else g1

/-- `clearbykeys`; `fuel` bounds the number of tables. -/
def clearbykeys (H : Decls) : Nat → global_State → Option Nat → Option global_State
  | 0, _, _ => none
  | fuel + 1, g, l =>
    match l with
    | none => some g
    | some h =>
      (forloop (clearbykeys_node H fuel h) (List.range (gcat g h).node.length) g).bind fun g1 =>
        clearbykeys H fuel g1 (gcat g1 h).gclist

/-- One entry of the array part in `clearbyvalues`. -/
def clearbyvalues_array (H : Decls) (fuel : Nat) (h : Nat) (i : Nat) (g : global_State) :
    Option global_State :=
  (iscleared H fuel g (gcvalueN ((gcat g h).array.getD i default))).map fun r =>
    if r.2 then arrayset r.1 h i (setempty H ((gcat r.1 h).array.getD i default)) else r.1

/-- One entry of the hash part in `clearbyvalues`. -/
def clearbyvalues_node (H : Decls) (fuel : Nat) (h : Nat) (i : Nat) (g : global_State) :
    Option global_State :=
  (iscleared H fuel g (gcvalueN (nodeat g h i).i_val)).map fun r =>
    let g1 :=
      if r.2 then nodeset r.1 h i { nodeat r.1 h i with i_val := setempty H (nodeat r.1 h i).i_val }
      else r.1
    if isempty H (nodeat g1 h i).i_val then clearkey H g1 h i else g1

/-- `clearbyvalues`; `fuel` bounds the number of tables. -/
def clearbyvalues (E : StepEnv) :
    Nat → global_State → Option Nat → Option Nat → Option global_State
  | 0, _, _, _ => none
  | fuel + 1, g, l, f =>
    if l = f then some g
    else
      match l with
      | none => none
      | some h =>
        (forloop (clearbyvalues_array E.H fuel h) (List.range (E.luaH_realasize (gcat g h)))
            g).bind fun g1 =>
          (forloop (clearbyvalues_node E.H fuel h) (List.range (gcat g1 h).node.length)
              g1).bind fun g2 =>
            clearbyvalues E fuel g2 (gcat g2 h).gclist f

/-! ## Collector: sweep and finalizers -/

/-- `sweeptolive`: the state and the place returned; `fuel` bounds the number of iterations. -/
def sweeptolive (E : GCEnv) : Nat → global_State → GCRef → Option (global_State × Option GCRef)
  | 0, _, _ => none
  | fuel + 1, g, p =>
    if (sweeplist E g p 1).2.1 = some p then sweeptolive E fuel (sweeplist E g p 1).1 p
    else some ((sweeplist E g p 1).1, (sweeplist E g p 1).2.1)

/-- `checkSizes`, without the correction of the estimate of memory in use. -/
def checkSizes (E : StepEnv) (g : global_State) : global_State :=
  if g.gcemergency = 0 then
    if g.strt_nuse < g.strt_size / 4 then E.luaS_resize g (g.strt_size / 2) else g
  else g

/-- `udata2finalize`: the state and the object; `none` when `tobefnz` is empty. -/
def udata2finalize (H : Decls) (g : global_State) : Option (global_State × Nat) :=
  match g.tobefnz with
  | none => none
  | some o =>
    let g1 := { g with tobefnz := (gcat g o).next }
    let g2 := gcset g1 o { gcat g1 o with next := g1.allgc }
    let g3 := { g2 with allgc := some o }
    let g4 := setmarked g3 o (resetbit (gcat g3 o).marked H.FINALIZEDBIT)
    let g5 :=
      if issweepphase H g4 then setmarked g4 o (makewhite H g4 (gcat g4 o).marked)
      else if getage H (gcat g4 o).marked = H.G_OLD1 then { g4 with firstold1 := some o }
      else g4
    some (g5, o)

/-- `dothecall`. -/
def dothecall (E : Env) (fuel : Nat) (L : lua_State) : Ctl Unit :=
  luaD_callnoyield E fuel L (L.top - 2) 0

/-- The thread in which `GCTM` starts the protected call: hooks are off, the finalizer `tm`
and its argument `v` are pushed, and the current frame has `CIST_FIN`. -/
def GCTM_push (H : Decls) (t : lua_State) (tm v : TValue) : lua_State :=
  let t1 := { t with allowhook := 0 }
  let t2 := { setobj2s t1 t1.top tm with top := t1.top + 1 }
  let t3 := { setobj2s t2 t2.top v with top := t2.top + 1 }
  ciset t3 t3.ci { ciat t3 t3.ci with callstatus := (ciat t3 t3.ci).callstatus ||| H.CIST_FIN }

/-- The thread when `GCTM` returns, from the thread `t5` and the status that the protected call
left: `CIST_FIN` is cleared, `allowhook` is restored, and after an error the warning is sent
and the error object is popped. -/
def GCTM_pop (E : StepEnv) (t5 : lua_State) (status : Int) (oldah : Nat) : lua_State :=
  let t6 := ciset t5 t5.ci
    { ciat t5 t5.ci with callstatus := clearmask (ciat t5 t5.ci).callstatus E.H.CIST_FIN }
  let t7 := { t6 with allowhook := oldah }
  if status ≠ E.H.LUA_OK then
    { E.luaE_warnerror t7 "__gc" with top := (E.luaE_warnerror t7 "__gc").top - 1 }
  else t7

/-- `GCTM`, run by the thread at address `L`.  The protected call works on the fields of the
thread; what the code of the finalizer does to the collector is `E.finalizer`.  The result is
`none` when the protected call does not return. -/
def GCTM (E : StepEnv) (fuel : Nat) (L : Nat) (g : global_State) : Option global_State :=
  match udata2finalize E.H g with
  | none => none
  | some (g1, o) =>
    let v : TValue := { value_ := Value.gc o, tt_ := ctb (gcat g1 o).tt }
    let tm := E.gettm_gc g1 v
    if !notm E.H tm then
      let t := (gcat g1 L).th
      let oldah := t.allowhook
      let oldgcstp := g1.gcstp
      let g2 := { g1 with gcstp := g1.gcstp ||| E.H.GCSTPGC }
      let t4 := GCTM_push E.H t tm v
      match luaD_pcall E.toEnv fuel t4 (dothecall E.toEnv fuel) (savestack t4 (t4.top - 2)) 0 with
      | Ctl.ret status t5 =>
        let g3 := E.finalizer g2 o
        let g4 := { g3 with gcstp := oldgcstp }
        some (thset g4 L (GCTM_pop E t5 status oldah))
      | _ => none
    else some g1

/-- `runafewfinalizers`, `n` more calls allowed. -/
def runafewfinalizers (E : StepEnv) (fuel : Nat) (L : Nat) : Nat → global_State →
    Option global_State
  | 0, g => some g
  | n + 1, g =>
    if g.tobefnz ≠ none then (GCTM E fuel L g).bind (runafewfinalizers E fuel L n) else some g

/-- `findlast`; `fuel` bounds the number of iterations. -/
def findlast : Nat → global_State → GCRef → Option GCRef
  | 0, _, _ => none
  | fuel + 1, g, p =>
    match deref g p with
    | none => some p
    | some a => findlast fuel g (GCRef.next a)

/-- The loop of `separatetobefnz`; `fuel` bounds the number of iterations. -/
def separateloop (H : Decls) (all : Bool) :
    Nat → global_State → GCRef → GCRef → Option global_State
  | 0, _, _, _ => none
  | fuel + 1, g, p, lastnext =>
    if deref g p = g.finobjold1 then some g
    else
      match deref g p with
      | none => none
      | some curr =>
        if !(iswhite H (gcat g curr).marked || all) then
          separateloop H all fuel g (GCRef.next curr) lastnext
        else
          let g1 := if some curr = g.finobjsur then { g with finobjsur := (gcat g curr).next }
            else g
          let g2 := assign g1 p (gcat g1 curr).next
          let g3 := assign g2 (GCRef.next curr) (deref g2 lastnext)
          let g4 := assign g3 lastnext (some curr)
          separateloop H all fuel g4 p (GCRef.next curr)

/-- `separatetobefnz`. -/
def separatetobefnz (H : Decls) (fuel : Nat) (g : global_State) (all : Bool) :
    Option global_State :=
  (findlast fuel g GCRef.tobefnz).bind fun lastnext =>
    separateloop H all fuel g GCRef.finobj lastnext

/-! ## Collector: the steps -/

/-- `entersweep`. -/
def entersweep (E : StepEnv) (fuel : Nat) (g : global_State) : Option global_State :=
  (sweeptolive E.toGCEnv fuel { g with gcstate := E.H.GCSswpallgc } GCRef.allgc).map fun r =>
    { r.1 with sweepgc := r.2 }

/-- The first part of `atomic`: the marks from the roots, with the list `grayagain` saved
before traversed last. -/
def atomic_mark (E : StepEnv) (fuel : Nat) (L : Nat) (g : global_State) : Option global_State :=
  (markobject E.H fuel { g with grayagain := none, gcstate := E.H.GCSatomic } L).bind
    fun (g1 : global_State) =>
  (markvalue E.H fuel g1 g1.l_registry).bind fun (g2 : global_State) =>
  (markmt E.H fuel g2).bind fun (g3 : global_State) =>
  (propagateall E fuel g3).bind fun (g4 : global_State) =>
  (remarkupvals E.H fuel g4).bind fun (g5 : global_State) =>
  (propagateall E fuel g5).bind fun (g6 : global_State) =>
  (propagateall E fuel { g6 with gray := g.grayagain }).bind fun (g7 : global_State) =>
  convergeephemerons E fuel g7 false

/-- The second part of `atomic`: the values of weak tables are cleared, and the objects to be
finalized are separated and marked. -/
def atomic_fnz (E : StepEnv) (fuel : Nat) (g8 : global_State) : Option global_State :=
  (clearbyvalues E fuel g8 g8.weak none).bind fun (g9 : global_State) =>
  (clearbyvalues E fuel g9 g9.allweak none).bind fun (g10 : global_State) =>
  (separatetobefnz E.H fuel g10 false).bind fun (g11 : global_State) =>
  (markbeingfnz E.H fuel g11 g11.tobefnz).bind fun (g12 : global_State) =>
  (propagateall E fuel g12).bind fun (g13 : global_State) =>
  convergeephemerons E fuel g13 false

/-- The last part of `atomic`, with the lists `origweak` and `origall`: dead keys and values
are cleared and the current white is flipped. -/
def atomic_clear (E : StepEnv) (fuel : Nat) (origweak origall : Option Nat)
    (g14 : global_State) : Option global_State :=
  (clearbykeys E.H fuel g14 g14.ephemeron).bind fun (g15 : global_State) =>
  (clearbykeys E.H fuel g15 g15.allweak).bind fun (g16 : global_State) =>
  (clearbyvalues E fuel g16 g16.weak origweak).bind fun (g17 : global_State) =>
  (clearbyvalues E fuel g17 g17.allweak origall).map fun (g18 : global_State) =>
    { E.luaS_clearcache g18 with
      currentwhite := cast_byte (otherwhite E.H (E.luaS_clearcache g18)) }

/-- The lists `weak` and `allweak` when `atomic` stores them in `origweak` and `origall`: after
the two calls of `clearbyvalues` of its second part. -/
def atomic_orig (E : StepEnv) (fuel : Nat) (g8 : global_State) : Option (Option Nat × Option Nat) :=
  (clearbyvalues E fuel g8 g8.weak none).bind fun (g9 : global_State) =>
  (clearbyvalues E fuel g9 g9.allweak none).map fun (g10 : global_State) =>
    (g10.weak, g10.allweak)

/-- `atomic`, run by the thread at address `L`, without the estimate of the work done. -/
def atomic (E : StepEnv) (fuel : Nat) (L : Nat) (g : global_State) : Option global_State :=
  (atomic_mark E fuel L g).bind fun (g8 : global_State) =>
  (atomic_orig E fuel g8).bind fun (orig : Option Nat × Option Nat) =>
  (atomic_fnz E fuel g8).bind fun (g14 : global_State) =>
  atomic_clear E fuel orig.1 orig.2 g14

/-- `sweepstep`, without the estimate of memory in use and the count it returns. -/
def sweepstep (E : StepEnv) (g : global_State) (nextstate : Nat) (nextlist : Option GCRef) :
    global_State :=
  match g.sweepgc with
  | some p =>
    { (sweeplist E.toGCEnv g p GCSWEEPMAX).1 with
      sweepgc := (sweeplist E.toGCEnv g p GCSWEEPMAX).2.1 }
  | none => { g with gcstate := nextstate, sweepgc := nextlist }

/-- `singlestep`, run by the thread at address `L`: the state it leaves.  The amount of work
it returns and the estimates of memory in use are not modelled.  The result is `none` when
`fuel` does not suffice for the loops of the step or when a finalizer does not return. -/
def singlestep (E : StepEnv) (fuel : Nat) (L : Nat) (g0 : global_State) : Option global_State :=
  let g := { g0 with gcstopem := 1 }
  let fin := fun (x : global_State) => { x with gcstopem := 0 }
  if g.gcstate = E.H.GCSpause then
    (restartcollection E.H fuel g).map fun g1 => fin { g1 with gcstate := E.H.GCSpropagate }
  else if g.gcstate = E.H.GCSpropagate then
    if g.gray = none then some (fin { g with gcstate := E.H.GCSenteratomic })
    else (propagatemark E fuel g).map fin
  else if g.gcstate = E.H.GCSenteratomic then
    ((atomic E fuel L g).bind (entersweep E fuel)).map fin
  else if g.gcstate = E.H.GCSswpallgc then
    some (fin (sweepstep E g E.H.GCSswpfinobj (some GCRef.finobj)))
  else if g.gcstate = E.H.GCSswpfinobj then
    some (fin (sweepstep E g E.H.GCSswptobefnz (some GCRef.tobefnz)))
  else if g.gcstate = E.H.GCSswptobefnz then
    some (fin (sweepstep E g E.H.GCSswpend none))
  else if g.gcstate = E.H.GCSswpend then
    some (fin { checkSizes E g with gcstate := E.H.GCScallfin })
  else if g.gcstate = E.H.GCScallfin then
    if g.tobefnz ≠ none ∧ g.gcemergency = 0 then
      (runafewfinalizers E fuel L GCFINMAX { g with gcstopem := 0 }).map fin
    else some (fin { g with gcstate := E.H.GCSpause })
  else some g

/-! ## Errors in a thread without a recovery point (`ldo.c`) -/

/-- What `luaD_throw` uses from outside when the thread has no recovery point. -/
structure ThrowEnv where
  /-- The reset of a thread, `luaE_resetthread` of `lstate.c`: the status it returns and the
  thread. -/
  luaE_resetthread : lua_State → Int → Int × lua_State
  /-- The panic functions, by address; the result is `none` when the function does not return
  (it jumps out). -/
  panicfn : Nat → lua_State → Option lua_State

/-- How `luaD_throw` ends. -/
inductive Thrown where
  /-- A long jump to the innermost recovery point of the thread that threw. -/
  | jump (L : lua_State)
  /-- A long jump to the innermost recovery point of the main thread; `L` is the thread that
  threw. -/
  | mainjump (L : lua_State) (main : lua_State)
  /-- The panic function was called and did not return. -/
  | panicout (L : lua_State)
  /-- The call of `abort`; `called` tells whether the panic function was called before. -/
  | abort (L : lua_State) (called : Bool)
  deriving DecidableEq, Repr

/-- `luaD_throw` with the branch for a thread without a recovery point spelled out.  `main` is
the main thread `g->mainthread` when it is another thread than `L`, and `none` when `L` is the
main thread; `panic` is the field `g->panic`, `none` for a null pointer. -/
def luaD_throw_threads (T : ThrowEnv) (L : lua_State) (main : Option lua_State)
    (panic : Option Nat) (errcode : Int) : Thrown :=
  match L.errorJmp with
  | lj :: previous => Thrown.jump { L with errorJmp := { lj with status := errcode } :: previous }
  | [] =>
    let errcode1 := (T.luaE_resetthread L errcode).1
    let L1 := (T.luaE_resetthread L errcode).2
    let nohandler :=
      match panic with
      | some f =>
        (match T.panicfn f L1 with
         | some L2 => Thrown.abort L2 true
         | none => Thrown.panicout L1)
      | none => Thrown.abort L1 false
    match main with
    | some m =>
      (match m.errorJmp with
       | lj :: previous =>
         Thrown.mainjump L1
           { setobj2s m m.top (s2v L1 (L1.top - 1)) with
             top := m.top + 1, errorJmp := { lj with status := errcode1 } :: previous }
       | [] => nohandler)
    | none =>
      (match L1.errorJmp with
       | lj :: previous =>
         Thrown.jump
           { setobj2s L1 L1.top (s2v L1 (L1.top - 1)) with
             top := L1.top + 1, errorJmp := { lj with status := errcode1 } :: previous }
       | [] => nohandler)

/-! ## Collector: the backward barrier -/

/-- `luaC_barrierback_`. -/
def luaC_barrierback_ (H : Decls) (g : global_State) (o : Nat) : global_State :=
  let g1 :=
    if getage H (gcat g o).marked = H.G_TOUCHED2 then
      setmarked g o (set2gray H (gcat g o).marked)
    else linkobjgclist H g o GrayList.grayagain
  if isold H (gcat g1 o).marked then setmarked g1 o (setage H (gcat g1 o).marked H.G_TOUCHED1)
  else g1

/-! ## Collector: the sweep of the generational mode -/

/-- The warning of `luaE_warnerror` leaves the stack, the frames and `allowhook` of the thread
as they are. -/
def WarnKeeps (E : StepEnv) : Prop :=
  ∀ L s, (E.luaE_warnerror L s).top = L.top ∧ (E.luaE_warnerror L s).stack = L.stack ∧
    (E.luaE_warnerror L s).allowhook = L.allowhook ∧ (E.luaE_warnerror L s).ci = L.ci ∧
    (E.luaE_warnerror L s).cis = L.cis

/-! ## More example configurations -/

/-- A state of a generational collection: an old black table (age `G_OLD`) at address 0 and a
gray table at address 1 that is the list `grayagain`. -/
def exBack : global_State :=
  { (default : global_State) with
    objs := [some (exObj 5 36 (some 1)), some (exObj 5 4 none)]
    currentwhite := 8
    gckind := 1
    grayagain := some 1
    allgc := some 0 }

/-- Collaborators of a collector step that do nothing: every table with a metatable has the
weak mode "k", and every object with a metatable has the light C function 1 as finalizer. -/
def exStepEnv : StepEnv :=
  { exGCEnv with
    H := luaSmall
    luaH_realasize := fun o => o.array.length
    gfasttm_mode := fun _ mt => mt.map fun _ => { value_ := Value.gc 2, tt_ := 68 }
    svalue := fun _ => ['k']
    luaS_clearcache := fun g => g
    luaS_resize := fun g _ => g
    gettm_gc := fun g v =>
      match (gcat g (gcvalue v)).metatable with
      | some _ => { value_ := Value.f 1, tt_ := 22 }
      | none => default
    gfasttm_gc := fun _ mt => mt.map fun _ => { value_ := Value.f 1, tt_ := 22 }
    finalizer := fun g _ => g
    luaE_warnerror := fun L _ => L
    luaE_setdebt := fun g debt =>
      { g with totalbytes := g.totalbytes + g.GCdebt - debt, GCdebt := debt } }

/-- A state in which the table at address 1, with a metatable, waits for its finalizer; the
thread at address 0 is the thread `exState`. -/
def exFin : global_State :=
  { (default : global_State) with
    objs := [some { exObj 8 8 none with th := exState },
      some { exObj 5 80 none with metatable := some 2 },
      some (exObj 5 8 (some 0))]
    currentwhite := 8
    gcstate := 7
    allgc := some 2
    tobefnz := some 1 }

/-- A reset that leaves the thread as it is and returns the status, and a panic function, at
address 1, that returns. -/
def exThrowEnv : ThrowEnv where
  luaE_resetthread := fun L e => (e, L)
  panicfn := fun _ L => some L

/-- The panic function jumps out. -/
def exThrowEnvOut : ThrowEnv where
  luaE_resetthread := fun L e => (e, L)
  panicfn := fun _ _ => none

/-- A thread with a stack of 12 + 2 entries of which two are in use, below a frame top at
index 2. -/
def exWideState : lua_State :=
  { exState with
    stackmem := List.replicate 14 (exSlot 0)
    stack_last := 112
    top := 101
    cis := [{ (default : CallInfo) with func := 100, top := 102 }] }

/-! ## Conditions used in the statements (weak tables) -/

/-- The objects linked from the pointer `x` through the field `gclist` are those of `l`, in
this order, and the list ends with a null pointer. -/
def GLinked (g : global_State) : Option Nat → List Nat → Prop
  | x, [] => x = none
  | x, a :: l => x = some a ∧ allocated g a = true ∧ GLinked g (gcat g a).gclist l

instance (g : global_State) (x : Option Nat) (l : List Nat) : Decidable (GLinked g x l) := by
  induction l generalizing x with
  | nil => unfold GLinked; infer_instance
  | cons a l ih =>
    unfold GLinked
    have := ih (gcat g a).gclist
    infer_instance

/-- The key or value with the object `o` (`none` for a value that is not collectable) refers
to a white object that is not a string. -/
def clearable (H : Decls) (g : global_State) (o : Option Nat) : Bool :=
  match o with
  | none => false
  | some a => novariant (gcat g a).tt != H.LUA_TSTRING && iswhite H (gcat g a).marked

/-- The entry that the body of the loops of `clearbykeys` and `clearbyvalues` leaves of the
entry `n` of a hash part, `c` being the answer of `iscleared`. -/
def clearentry (H : Decls) (c : Bool) (n : Node) : Node :=
  if isempty H (if c then setempty H n.i_val else n.i_val) then
    if keyiscollectable n then
      setdeadkey H { n with i_val := if c then setempty H n.i_val else n.i_val }
    else { n with i_val := if c then setempty H n.i_val else n.i_val }
  else { n with i_val := if c then setempty H n.i_val else n.i_val }

/-- From `g` to `g1` nothing has changed but marks of strings and entries of tables, the
tables keeping their sizes. -/
def WeakFrame (H : Decls) (g g1 : global_State) : Prop :=
  g1 = { g with objs := g1.objs } ∧ g1.objs.length = g.objs.length ∧
  ∀ a, allocated g1 a = allocated g a ∧
    (∃ m n ar, gcat g1 a = { gcat g a with marked := m, node := n, array := ar }) ∧
    (gcat g1 a).node.length = (gcat g a).node.length ∧
    (gcat g1 a).array.length = (gcat g a).array.length ∧
    (novariant (gcat g a).tt ≠ H.LUA_TSTRING → (gcat g1 a).marked = (gcat g a).marked)

/-- A state at the end of the atomic phase with a weak table at address 0, a white table at
address 1, a white string at address 2 and a black table at address 3.  The array part of the
weak table holds the white table and a number; its hash part has the white table, the string
and the black table as keys, with numbers as values, and an entry with the white table as
value. -/
def exWeak : global_State :=
  { (default : global_State) with
    objs := [
      some { exObj 5 32 none with
        array := [{ value_ := Value.gc 1, tt_ := 69 }, { value_ := Value.i 7, tt_ := 3 }]
        node := [
          { i_val := { value_ := Value.i 1, tt_ := 3 }, key_tt := 69, key_val := Value.gc 1 },
          { i_val := { value_ := Value.i 2, tt_ := 3 }, key_tt := 68, key_val := Value.gc 2 },
          { i_val := { value_ := Value.i 3, tt_ := 3 }, key_tt := 69, key_val := Value.gc 3 },
          { i_val := { value_ := Value.gc 1, tt_ := 69 }, key_tt := 3, key_val := Value.i 5 }] },
      some (exObj 5 8 none), some (exObj 4 8 none), some (exObj 5 32 none)]
    currentwhite := 8
    gcstate := 8
    allweak := some 0 }

/-! ## Collector: the lists of objects -/

/-- The macro `l_setbit` of `lgc.h`: the new value of `marked`. -/
def l_setbit (marked b : Nat) : Nat := marked ||| bitmask b

/-- The memory with the object `obj` at the address `o`. -/
def gcalloc (g : global_State) (o : Nat) (obj : GCObj) : global_State :=
  { g with objs := (g.objs ++ List.replicate (o + 1 - g.objs.length) none).set o (some obj) }

/-- `luaC_newobj`: the state and the object.  The allocator (`luaM_newobject` of `lmem.c`)
is a parameter: `o` is the address it delivers.  The fields of the new object other than the
header are those of `default`. -/
def luaC_newobj (H : Decls) (g : global_State) (tt : Nat) (o : Nat) : global_State × Nat :=
  let g1 := gcalloc g o
    { (default : GCObj) with marked := luaC_white H g, tt := tt, next := g.allgc }
  ({ g1 with allgc := some o }, o)

/-- `luaC_fix`. -/
def luaC_fix (H : Decls) (g : global_State) (o : Nat) : global_State :=
  let g1 := setmarked g o (set2gray H (gcat g o).marked)
  let g2 := setmarked g1 o (setage H (gcat g1 o).marked H.G_OLD)
  let g3 := { g2 with allgc := (gcat g2 o).next }
  let g4 := gcset g3 o { gcat g3 o with next := g3.fixedgc }
  { g4 with fixedgc := some o }

/-- `correctpointers`, with `checkpointer` on each of the four pointers. -/
def correctpointers (g : global_State) (o : Nat) : global_State :=
  let g1 := if some o = g.survival then { g with survival := (gcat g o).next } else g
  let g2 := if some o = g1.old1 then { g1 with old1 := (gcat g1 o).next } else g1
  let g3 := if some o = g2.reallyold then { g2 with reallyold := (gcat g2 o).next } else g2
  if some o = g3.firstold1 then { g3 with firstold1 := (gcat g3 o).next } else g3

/-- The loop of `luaC_checkfinalizer` that searches the place pointing to `o`, from the place
`p` on; `fuel` bounds the number of iterations, and the result is `none` when it is used up or
when the list ends before `o` (the C code then reads through a null pointer). -/
def findptr (o : Nat) : Nat → global_State → GCRef → Option GCRef
  | 0, _, _ => none
  | fuel + 1, g, p =>
    if deref g p = some o then some p
    else
      match deref g p with
      | none => none
      | some a => findptr o fuel g (GCRef.next a)

/-- `luaC_checkfinalizer`; `fuel` bounds the loops. -/
def luaC_checkfinalizer (E : StepEnv) (fuel : Nat) (g : global_State) (o : Nat)
    (mt : Option Nat) : Option global_State :=
  if tofinalize E.H (gcat g o).marked ∨ E.gfasttm_gc g mt = none ∨
      g.gcstp &&& E.H.GCSTPCLS ≠ 0 then some g
  else
    (if issweepphase E.H g then
      let g1 := setmarked g o (makewhite E.H g (gcat g o).marked)
      if g1.sweepgc = some (GCRef.next o) then
        (sweeptolive E.toGCEnv fuel g1 (GCRef.next o)).map fun r => { r.1 with sweepgc := r.2 }
      else some g1
     else some (correctpointers g o)).bind fun g2 =>
    (findptr o fuel g2 GCRef.allgc).map fun p =>
      let g3 := assign g2 p (gcat g2 o).next
      let g4 := gcset g3 o { gcat g3 o with next := g3.finobj }
      let g5 := { g4 with finobj := some o }
      setmarked g5 o (l_setbit (gcat g5 o).marked E.H.FINALIZEDBIT)

/-! ## Conditions used in the statements (ownership) -/

/-- The place that holds the pointer that follows the objects of `l`, which are linked from
the place `p`: `p` itself if there is none, and the field `next` of the last one otherwise. -/
def lastplace (p : GCRef) (l : List Nat) : GCRef :=
  match l.getLast? with
  | some a => GCRef.next a
  | none => p

/-- The lists `allgc`, `finobj`, `tobefnz` and `fixedgc` hold the objects of `la`, `lf`, `lt`
and `lx`; no object is twice in a list or in two lists; and an object of the lists has
`FINALIZEDBIT` exactly if it is in `finobj` or `tobefnz`. -/
def Owned (H : Decls) (g : global_State) (la lf lt lx : List Nat) : Prop :=
  Linked g g.allgc la ∧ Linked g g.finobj lf ∧ Linked g g.tobefnz lt ∧ Linked g g.fixedgc lx ∧
  (la ++ lf ++ lt ++ lx).Nodup ∧
  ∀ a ∈ la ++ lf ++ lt ++ lx, (tofinalize H (gcat g a).marked = true ↔ a ∈ lf ++ lt)

instance (H : Decls) (g : global_State) (la lf lt lx : List Nat) :
    Decidable (Owned H g la lf lt lx) := by
  unfold Owned
  infer_instance

/-- A state in the propagation phase: two tables in `allgc`, a white and a black table with
finalizers in `finobj`, a table in `tobefnz` and a string in `fixedgc`. -/
def exOwn : global_State :=
  { (default : global_State) with
    objs := [some { exObj 5 8 (some 1) with metatable := some 1 }, some (exObj 5 32 none),
      some (exObj 5 72 (some 3)), some (exObj 5 96 none), some (exObj 5 96 none),
      some (exObj 4 4 none)]
    currentwhite := 8
    gcstate := 0
    allgc := some 0
    finobj := some 2
    tobefnz := some 4
    fixedgc := some 5 }

/-- The state `exOwn` in the sweep of `allgc`, the pointer of the sweep standing after the
first object, which is followed by a dead table and a live table. -/
def exOwnSweep : global_State :=
  { exOwn with
    objs := [some { exObj 5 8 (some 1) with metatable := some 1 }, some (exObj 5 16 (some 6)),
      some (exObj 5 72 (some 3)), some (exObj 5 96 none), some (exObj 5 96 none),
      some (exObj 4 4 none), some (exObj 5 32 none)]
    gcstate := 3
    sweepgc := some (GCRef.next 0) }

/-! ## Conditions used in the statements (marking) -/

/-- The computation `c`, which is given fuel for its loops, returns `a` when it is given
enough of it. -/
def Ev {α : Type} (c : Nat → Option α) (a : α) : Prop :=
  ∃ N, ∀ fuel, N ≤ fuel → c fuel = some a

/-- The number of white objects. -/
def whites (H : Decls) (g : global_State) : Nat :=
  ((List.range g.objs.length).filter (fun a => iswhite H (gcat g a).marked)).length

/-- Every object has the tag of a kind of collectable object. -/
def Tagged (H : Decls) (g : global_State) : Prop :=
  ∀ a, a < g.objs.length → allocated g a = true → CollectableTag H (gcat g a).tt

instance (H : Decls) (g : global_State) : Decidable (Tagged H g) := by
  unfold Tagged
  infer_instance

/-- The computation `c` returns, when it is given enough fuel, a result that satisfies `P`. -/
def Ret {α : Type} (c : Nat → Option α) (P : α → Prop) : Prop :=
  ∃ a, Ev c a ∧ P a

/-- From `g` to `g1` nothing has changed but, in objects, the fields `marked` and `gclist`,
entries of tables and the stack of threads, and in the state the heads of the lists linked by
`gclist` and the list `twups`; the lists `weak` and `allweak` of `g` are the ends of those
of `g1`. -/
def Keep (g g1 : global_State) : Prop :=
  g1.objs.length = g.objs.length ∧
  g1 = { g with objs := g1.objs, gray := g1.gray, grayagain := g1.grayagain, weak := g1.weak,
                ephemeron := g1.ephemeron, allweak := g1.allweak, twups := g1.twups } ∧
  (∀ a, allocated g1 a = allocated g a ∧
    (gcat g1 a).node.length = (gcat g a).node.length ∧
    (gcat g1 a).array.length = (gcat g a).array.length ∧
    ∃ m gl nd ar th, gcat g1 a =
      { gcat g a with marked := m, gclist := gl, node := nd, array := ar, th := th }) ∧
  (∀ l, GLinked g g.weak l → ∃ pre, GLinked g1 g1.weak (pre ++ l)) ∧
  (∀ l, GLinked g g.allweak l → ∃ pre, GLinked g1 g1.allweak (pre ++ l))

/-- The lists linked by `gclist`: the five lists of the state hold the objects of `ls`, a
further list, which starts at `x`, holds those of `ld`; no object is twice in a list or in
two lists, and the objects of the lists are not white and are of kinds with a field
`gclist`. -/
structure WFL (H : Decls) (g : global_State) (ls : GrayList → List Nat) (x : Option Nat)
    (ld : List Nat) : Prop where
  lists : ∀ l, GLinked g (grayhead g l) (ls l)
  det : GLinked g x ld
  nodup : ∀ l, (ls l).Nodup
  nodupd : ld.Nodup
  disj : ∀ l l1 a, a ∈ ls l → a ∈ ls l1 → l = l1
  disjd : ∀ l a, a ∈ ls l → a ∉ ld
  nonwhite : ∀ l a, a ∈ ls l → iswhite H (gcat g a).marked = false
  nonwhited : ∀ a, a ∈ ld → iswhite H (gcat g a).marked = false
  kind : ∀ l a, a ∈ ls l → getgclist H g a = true
  kindd : ∀ a, a ∈ ld → getgclist H g a = true

/-- The state of a collection that marks: the objects are typed and tagged, the lists linked
by `gclist` are well formed, `x` being the start of a list besides those of the state, and
twice the number of white objects plus the lengths of the list `gray` and of the list that
starts at `x` is at most `n`.  With
`o` an object, it is an object with a field `gclist` that is not white and is in none of
the lists. -/
structure Good (H : Decls) (n : Nat) (g : global_State) (x : Option Nat) (o : Option Nat) :
    Prop where
  typed : Typed H g
  tagged : Tagged H g
  lists : ∃ ls ld, WFL H g ls x ld ∧
    2 * whites H g + (ls GrayList.gray).length + ld.length ≤ n ∧
    ∀ a, o = some a → (∀ l, a ∉ ls l) ∧ a ∉ ld ∧ iswhite H (gcat g a).marked = false ∧
      allocated g a = true ∧ getgclist H g a = true

/-! ## Tags of values (`lobject.h`) -/

def LUA_VABSTKEY (H : Decls) : Nat := makevariant H.LUA_TNIL 2

def LUA_VFALSE (H : Decls) : Nat := makevariant H.LUA_TBOOLEAN 0

def LUA_VTRUE (H : Decls) : Nat := makevariant H.LUA_TBOOLEAN 1

def LUA_VNUMINT (H : Decls) : Nat := makevariant H.LUA_TNUMBER 0

def LUA_VNUMFLT (H : Decls) : Nat := makevariant H.LUA_TNUMBER 1

def LUA_VLIGHTUSERDATA (H : Decls) : Nat := makevariant H.LUA_TLIGHTUSERDATA 0

/-- The variant tags that `lobject.h` defines. -/
def varianttags (H : Decls) : List Nat :=
  [LUA_VNIL H, LUA_VEMPTY H, LUA_VABSTKEY H, LUA_VFALSE H, LUA_VTRUE H, LUA_VNUMINT H,
   LUA_VNUMFLT H, LUA_VSHRSTR H, LUA_VLNGSTR H, LUA_VLCL H, LUA_VLCF H, LUA_VCCL H,
   LUA_VTABLE H, LUA_VUSERDATA H, LUA_VLIGHTUSERDATA H, LUA_VTHREAD H, LUA_VUPVAL H,
   LUA_VPROTO H]

/-- The types without collectable objects have the numbers of `lua.h`. -/
def StdBase (H : Decls) : Prop :=
  H.LUA_TNIL = 0 ∧ H.LUA_TBOOLEAN = 1 ∧ H.LUA_TLIGHTUSERDATA = 2 ∧ H.LUA_TNUMBER = 3

instance (H : Decls) : Decidable (StdBase H) := by
  unfold StdBase
  infer_instance

/-! ## Conditions used in the statements (stack) -/

/-- The stack has a size up to `LUAI_MAXSTACK`, or the size `ERRORSTACKSIZE`, and `L->top`
and the top of every frame from `L->ci` back lie at or below `stack_last`. -/
def StackInv (H : Decls) (L : lua_State) : Prop :=
  (stacksize L ≤ H.LUAI_MAXSTACK ∨ stacksize L = ERRORSTACKSIZE H) ∧
  L.top ≤ L.stack_last ∧ ∀ i, i ≤ L.ci → (ciat L i).top ≤ L.stack_last

instance (H : Decls) (L : lua_State) : Decidable (StackInv H L) := by
  unfold StackInv
  infer_instance

/-! ## Conditions used in the statements (calls of values that are not functions) -/

/-- The value is a C closure, a light C function or a Lua closure. -/
def IsFunction (H : Decls) (o : TValue) : Prop :=
  ttypetag o = LUA_VCCL H ∨ ttypetag o = LUA_VLCF H ∨ ttypetag o = LUA_VLCL H

instance (H : Decls) (o : TValue) : Decidable (IsFunction H o) := by
  unfold IsFunction
  infer_instance

/-- `CallChain E k L func L2 func2`: `k` passes through the label `retry` of `luaD_precall`
and `luaD_pretailcall` lead from the thread `L` with the value to call at `func` to the
thread `L2` with the value to call at `func2`: in each of them the value to call is not a
function and `luaD_tryfuncTM` returns. -/
inductive CallChain (E : Env) : Nat → lua_State → Nat → lua_State → Nat → Prop where
  | done (L : lua_State) (func : Nat) : CallChain E 0 L func L func
  | retry (k : Nat) (L : lua_State) (func : Nat) (L1 : lua_State) (func1 : Nat)
      (L2 : lua_State) (func2 : Nat) :
      ¬ IsFunction E.H (s2v L func) → luaD_tryfuncTM E L func = Ctl.ret func1 L1 →
      CallChain E k L1 func1 L2 func2 → CallChain E (k + 1) L func L2 func2

/-- What the loop through `__call` relies on from a collector step, for a stack of any size:
a well-formed thread stays so, shows the same view, and its stack does not grow (the step may
shrink or move the stack block and may overwrite entries above `top`). -/
def CollectorShrinks (E : Env) : Prop :=
  ∀ L, WellFormed E.H L →
    WellFormed E.H (E.luaC_checkGC L) ∧ stacksize (E.luaC_checkGC L) ≤ stacksize L ∧
    SameView L (E.luaC_checkGC L)

/-- Collaborators for which every value is its own metamethod `__call`. -/
def exEnvSelf : Env := { exEnv with luaT_gettmbyobj := fun _ o => o }

/-! ## Collector: the order of the finalizers -/

/-- `callallpendingfinalizers`; `n` bounds the number of iterations. -/
def callallpendingfinalizers (E : StepEnv) (fuel : Nat) (L : Nat) :
    Nat → global_State → Option global_State
  | 0, _ => none
  | n + 1, g =>
    if g.tobefnz ≠ none then (GCTM E fuel L g).bind (callallpendingfinalizers E fuel L n)
    else some g

/-- `Finalizes E fuel L g os g1`: successive calls of `GCTM` lead from the state `g` to the
state `g1`, and `os` are the objects whose finalizers they call, in the order of the calls
(an object that `udata2finalize` takes and that has no finalizer any more is not in `os`). -/
inductive Finalizes (E : StepEnv) (fuel : Nat) (L : Nat) :
    global_State → List Nat → global_State → Prop where
  | done (g : global_State) : Finalizes E fuel L g [] g
  | call (g g1 : global_State) (o : Nat) (g2 : global_State) (os : List Nat)
      (g3 : global_State) :
      udata2finalize E.H g = some (g1, o) →
      notm E.H (E.gettm_gc g1 { value_ := Value.gc o, tt_ := ctb (gcat g1 o).tt }) = false →
      GCTM E fuel L g = some g2 → Finalizes E fuel L g2 os g3 →
      Finalizes E fuel L g (o :: os) g3
  | skip (g g1 : global_State) (o : Nat) (os : List Nat) (g3 : global_State) :
      udata2finalize E.H g = some (g1, o) →
      notm E.H (E.gettm_gc g1 { value_ := Value.gc o, tt_ := ctb (gcat g1 o).tt }) = true →
      Finalizes E fuel L g1 os g3 → Finalizes E fuel L g os g3

/-- What the order of the finalizers relies on from the code of a finalizer, which runs with
the collector stopped: it leaves the list `tobefnz` as it is. -/
def FinalizerKeeps (E : StepEnv) : Prop :=
  ∀ g o l, Linked g g.tobefnz l → Linked (E.finalizer g o) (E.finalizer g o).tobefnz l

/-- A state at the end of the marking: the thread `exState` at address 0 and a black table at
address 3 are in `allgc`; the white tables at addresses 2 and 1, with the metatable 3, are
in `finobj`, in this order; `tobefnz` is empty. -/
def exOrder : global_State :=
  { (default : global_State) with
    objs := [some { exObj 8 32 none with th := exState },
      some { exObj 5 72 none with metatable := some 3 },
      some { exObj 5 72 (some 1) with metatable := some 3 },
      some (exObj 5 32 (some 0))]
    currentwhite := 8
    gcstate := 2
    allgc := some 3
    finobj := some 2 }

/-! ## The parts of `luaD_hook` -/

/-- The mask `luaD_hook` adds to the status of the frame. -/
def luaD_hook_mask (H : Decls) (ntransfer : Nat) : Nat :=
  if ntransfer ≠ 0 then H.CIST_HOOKED ||| H.CIST_TRAN else H.CIST_HOOKED

/-- The thread with which `luaD_hook` comes to its stack check: the transfer information is
stored and `top` protects the activation record. -/
def luaD_hook_entry (E : Env) (L : lua_State) (ftransfer ntransfer : Nat) : lua_State :=
  let ci := L.ci
  let L1 := if ntransfer ≠ 0 then
      ciset L ci { ciat L ci with ftransfer := ftransfer, ntransfer := ntransfer }
    else L
  if isLua E.H (ciat L1 ci) ∧ L1.top < (ciat L1 ci).top then
    { L1 with top := (ciat L1 ci).top }
  else L1

/-- The thread that `luaD_hook` hands to the hook function, from the thread `L3` that the
stack check left. -/
def luaD_hook_call (E : Env) (L3 : lua_State) (ci ntransfer : Nat) : lua_State :=
  let L4 := if (ciat L3 ci).top < L3.top + E.H.LUA_MINSTACK then
      ciset L3 ci { ciat L3 ci with top := L3.top + E.H.LUA_MINSTACK }
    else L3
  let L5 := { L4 with allowhook := 0 }
  ciset L5 ci
    { ciat L5 ci with callstatus := (ciat L5 ci).callstatus ||| luaD_hook_mask E.H ntransfer }

/-- The thread with which `luaD_hook` returns, from the thread `L7` that the hook function
left and the offsets `top` and `ci_top` saved at entry. -/
def luaD_hook_exit (E : Env) (L7 : lua_State) (ci top ci_top ntransfer : Nat) : lua_State :=
  let L8 := { L7 with allowhook := 1 }
  let L9 := ciset L8 ci { ciat L8 ci with top := restorestack L8 ci_top }
  let L10 := { L9 with top := restorestack L9 top }
  ciset L10 ci
    { ciat L10 ci with
      callstatus := clearmask (ciat L10 ci).callstatus (luaD_hook_mask E.H ntransfer) }

/-- The thread `exState` with the hook function 1 installed. -/
def exHookState : lua_State := { exState with hook := some 1, allowhook := 1 }

/-! ## Examples with the limits of the distribution -/

/-- The collaborators `exEnv` with the constants of the distribution. -/
def exEnv544 : Env := { exEnv with H := lua544 }

/-- A thread after a stack overflow: the stack has the size `ERRORSTACKSIZE`, and 600000
entries are in use below a frame top. -/
def exOverflowState : lua_State :=
  { exState with
    stackmem := List.replicate 1000205 (exSlot 0)
    stack_last := 1000300
    top := 600000
    cis := [{ (default : CallInfo) with func := 100, top := 600099 }] }

/-- A thread after a stack overflow with 400000 entries in use below a frame top: the stack
has the size `ERRORSTACKSIZE`. -/
def exMiddleState : lua_State :=
  { exState with
    stackmem := List.replicate 1000205 (exSlot 0)
    stack_last := 1000300
    top := 400000
    cis := [{ (default : CallInfo) with func := 100, top := 400099 }] }

/-! ## Collector: the pause -/

/-- The constant `PAUSEADJ` of `lgc.c`. -/
def PAUSEADJ : Nat := 100

/-- The macro `getgcparam` of `lgc.h`. -/
def getgcparam (p : Nat) : Nat := p * 4

/-- The conversion of an integer to the type `l_mem`, whose largest value is `MAX_LMEM`. -/
def cast_lmem (H : Decls) (x : Int) : Int :=
  (x + (H.MAX_LMEM + 1)) % (2 * (H.MAX_LMEM + 1)) - (H.MAX_LMEM + 1)

/-- The conversion of an integer to the type `lu_mem`. -/
def cast_lumem (H : Decls) (x : Int) : Int := x % (2 * (H.MAX_LMEM + 1))

/-- The macro `gettotalbytes` of `lstate.h`. -/
def gettotalbytes (H : Decls) (g : global_State) : Int :=
  cast_lumem H (g.totalbytes + g.GCdebt)

/-- The value of `threshold` in `setpause`; the product is computed in the type `l_mem`. -/
def setpause_threshold (H : Decls) (g : global_State) : Int :=
  let pause : Int := getgcparam g.gcpause
  let estimate : Int := cast_lmem H (g.GCestimate / PAUSEADJ : Nat)
  if pause < Int.tdiv H.MAX_LMEM estimate then cast_lmem H (estimate * pause) else H.MAX_LMEM

/-- `setpause`.  The difference `gettotalbytes(g) - threshold` is computed in the type
`lu_mem` and converted to `l_mem`. -/
def setpause (E : StepEnv) (g : global_State) : global_State :=
  let threshold := setpause_threshold E.H g
  let debt := cast_lmem E.H (cast_lumem E.H (gettotalbytes E.H g - threshold))
  let debt := if debt > 0 then 0 else debt
  E.luaE_setdebt g debt

/-- A state with an estimate of 1000 bytes, the pause 200 and 1500 bytes in use. -/
def exPause : global_State :=
  { (default : global_State) with GCestimate := 1000, gcpause := 50, totalbytes := 1500 }

/-! ## The protected parser -/

/-- The fields of the stream `ZIO` of `lzio.h` that are read before the stream is handed to
a loader: the bytes not read yet in the buffer. -/
structure ZIO where
  n : Nat
  p : List Nat
  deriving DecidableEq, Repr, Inhabited

/-- Collaborators of the parser defined outside the source files at hand. -/
structure ParseEnv extends Env where
  /-- The macro `zgetc` of `lzio.h`: the byte read, or `EOZ`, and the stream after it; the
  buffer is filled by the reader function of the stream. -/
  zgetc : ZIO → lua_State → Ctl (Int × ZIO)
  /-- The loader of precompiled chunks, `luaU_undump` of `lundump.c`: the closure. -/
  luaU_undump : lua_State → ZIO → String → Ctl Nat
  /-- The compiler, `luaY_parser` of `lparser.c`: the closure. -/
  luaYParser : lua_State → ZIO → String → Int → Ctl Nat
  /-- The creation of the upvalues of a closure, `luaF_initupvals` of `lfunc.c`. -/
  luaF_initupvals : lua_State → Nat → Ctl Unit
  /-- The message of `luaO_pushfstring` of `lobject.c`, from the format and its arguments,
  pushed on the stack. -/
  luaO_pushfstring : lua_State → String → List String → lua_State

/-- The first character `x[0]` of a string of C. -/
def firstchar (x : String) : Char := x.data.headD (Char.ofNat 0)

/-- The test `strchr(s, c) != NULL` of `string.h`: the character `c` is in the string `s`,
the null character at its end included. -/
def strchr (s : String) (c : Char) : Bool := c == Char.ofNat 0 || s.data.contains c

/-- `checkmode`; `mode` is `none` for a null pointer. -/
def checkmode (E : ParseEnv) (L : lua_State) (mode : Option String) (x : String) : Ctl Unit :=
  match mode with
  | some m =>
    if strchr m (firstchar x) = false then
      luaD_throw (E.luaO_pushfstring L "attempt to load a %s chunk (mode is '%s')" [x, m])
        E.H.LUA_ERRSYNTAX
    else Ctl.ret () L
  | none => Ctl.ret () L

/-- `f_parser`, with the fields `z`, `mode` and `name` of the struct `SParser` as arguments;
the buffers `buff` and `dyd` of the struct are those of the compiler. -/
def fParser (E : ParseEnv) (z : ZIO) (mode : Option String) (name : String) (L : lua_State) :
    Ctl Unit :=
  (E.zgetc z L).bind fun r L1 =>
    if r.1 = (E.H.LUA_SIGNATURE.headD 0 : Nat) then
      (checkmode E L1 mode "binary").bind fun _ L2 =>
        (E.luaU_undump L2 r.2 name).bind fun cl L3 => E.luaF_initupvals L3 cl
    else
      (checkmode E L1 mode "text").bind fun _ L2 =>
        (E.luaYParser L2 r.2 name r.1).bind fun cl L3 => E.luaF_initupvals L3 cl

/-- The macro `incnny` of `lstate.h`: `0x10000` is added to `nCcalls`, in the 32 bits of
the type `l_uint32`. -/
def incnny (L : lua_State) : lua_State :=
  { L with nCcalls := if L.nCcalls < 4294901760 then L.nCcalls + 0x10000
      else L.nCcalls - 4294901760 }

/-- The macro `decnny` of `lstate.h`: `0x10000` is subtracted from `nCcalls`, in the 32 bits
of the type `l_uint32`. -/
def decnny (L : lua_State) : lua_State :=
  { L with nCcalls := if 0x10000 ≤ L.nCcalls then L.nCcalls - 0x10000
      else L.nCcalls + 4294901760 }

/-- `luaD_protectedparser`.  The buffers of the struct `SParser` and their release are not
part of the state of the thread. -/
def luaD_protectedparser (E : ParseEnv) (fuel : Nat) (L : lua_State) (z : ZIO) (name : String)
    (mode : Option String) : Ctl Int :=
  let L1 := incnny L
  (luaD_pcall E.toEnv fuel L1 (fParser E z mode name) (savestack L1 L1.top) L1.errfunc).bind
    fun status L2 => Ctl.ret status (decnny L2)

/-- Collaborators of the parser for the examples: the first byte is taken from the buffer,
and each loader returns the closure at address 0. -/
def exParseEnv : ParseEnv :=
  { exEnv with
    zgetc := fun z L =>
      match z.p with
      | c :: rest => Ctl.ret ((c : Int), { n := z.n - 1, p := rest }) L
      | [] => Ctl.ret (-1, z) L
    luaU_undump := fun L _ _ => Ctl.ret 0 L
    luaYParser := fun L _ _ _ => Ctl.ret 0 L
    luaF_initupvals := fun L _ => Ctl.ret () L
    luaO_pushfstring := fun L _ _ => { L with top := L.top + 1 } }

/-- A stream that holds a precompiled chunk: its bytes are those of `LUA_SIGNATURE`. -/
def exChunk : ZIO := { n := 4, p := [27, 76, 117, 97] }

/-! ## Conditions used in the statements (steps of the marking) -/

/-- From `g` to `g1` the frame `Keep` holds, and every object is as it was, or was white, is
not white any more, satisfies `P` and differs in the fields `marked` and `gclist` only, or
is the object `o`, which is not white. -/
def Step (H : Decls) (P : GCObj → Prop) (o : Option Nat) (g g1 : global_State) : Prop :=
  Keep g g1 ∧
  ∀ a, gcat g1 a = gcat g a ∨
    (P (gcat g a) ∧ iswhite H (gcat g a).marked = true ∧
      iswhite H (gcat g1 a).marked = false ∧
      ∃ m gl, gcat g1 a = { gcat g a with marked := m, gclist := gl }) ∨
    (o = some a ∧ iswhite H (gcat g1 a).marked = false)

/-- Every object. -/
def AnyObj : GCObj → Prop := fun _ => True

/-- The strings. -/
def StrObj (H : Decls) : GCObj → Prop := fun x => novariant x.tt = H.LUA_TSTRING

/-- What the marking of the white object `v` leaves, from the state `g` with the bound `n`:
the bound has gone down, the step has changed white objects only, and `v` is not white. -/
def MarkPost (H : Decls) (n : Nat) (x o : Option Nat) (v : Nat) (g g1 : global_State) : Prop :=
  1 ≤ n ∧ Good H (n - 1) g1 x o ∧ Step H AnyObj none g g1 ∧
  iswhite H (gcat g1 v).marked = false

/-- From `g` to `g1` only objects have changed, and none in its field `gclist`. -/
def Quiet (g g1 : global_State) : Prop :=
  g1 = { g with objs := g1.objs } ∧ ∀ a, (gcat g1 a).gclist = (gcat g a).gclist

/-- The entry `j` of the hash part of the table `h` is at rest for the convergence of the
ephemeron tables: if it is not empty and its value is white, its key is a white object that
is not a string. -/
def EphFix (H : Decls) (g : global_State) (h j : Nat) : Prop :=
  isempty H (nodeat g h j).i_val = false → valiswhite H g (nodeat g h j).i_val = true →
    clearable H g (gckeyN (nodeat g h j)) = true

/-- The invariant of the loops of `traverseephemeron` on the table `h`, from the state `g`:
`f i` is the entry visited when the variable of the loop is `i`, and `pre` are the values
the variable has taken. -/
def EphInv (H : Decls) (n : Nat) (x : Option Nat) (h : Nat) (g : global_State)
    (f : Nat → Nat) (pre : List Nat) (s : EphState) : Prop :=
  Good H n s.g x (some h) ∧ Step H AnyObj (some h) g s.g ∧
  (s.marked = true → 1 ≤ n ∧ Good H (n - 1) s.g x (some h) ∧
    ∃ a, iswhite H (gcat g a).marked = true ∧ iswhite H (gcat s.g a).marked = false) ∧
  (s.marked = false → Step H (StrObj H) (some h) g s.g ∧ Quiet g s.g ∧
    ∀ i ∈ pre, EphFix H s.g h (f i))

/-- What `traverseephemeron` on the table `h` leaves, from the state `g` with the bound `n`,
`r` being the state and the result.  With the result true an object that was white is not
white any more, and the bound has gone down; with the result false strings only have been
marked, the entries of `h` are at rest, and the lists linked by `gclist` are those of before,
with `h` put in front of one of them that is not the gray list. -/
def EphPost (H : Decls) (n : Nat) (x : Option Nat) (h : Nat) (g : global_State)
    (r : global_State × Bool) : Prop :=
  Good H n r.1 x none ∧ Step H AnyObj (some h) g r.1 ∧
  (r.2 = true → 1 ≤ n ∧ Good H (n - 1) r.1 x none ∧
    ∃ a, iswhite H (gcat g a).marked = true ∧ iswhite H (gcat r.1 a).marked = false) ∧
  (r.2 = false → Step H (StrObj H) (some h) g r.1 ∧
    (∀ j, j < (gcat g h).node.length → EphFix H r.1 h j) ∧ r.1.gray = g.gray ∧
    ∀ L l, GLinked r.1 (grayhead r.1 L) l →
      GLinked g (grayhead g L) l ∨ ∃ l0, l = h :: l0 ∧ GLinked g (grayhead g L) l0)

/-- What the link at the end of the traversal of the object `h` leaves, from the state `g`
to the state `g1`: the object is in none of the lists before and is not white. -/
def LinkPost (H : Decls) (x : Option Nat) (h : Nat) (g g1 : global_State) : Prop :=
  (∀ m, Good H m g x (some h) → Good H m g1 x none) ∧
  (∀ P, Step H P (some h) g g1) ∧
  (∀ a, ∃ m gl, gcat g1 a = { gcat g a with marked := m, gclist := gl }) ∧
  g1.gray = g.gray ∧
  ∀ L l, GLinked g1 (grayhead g1 L) l →
    GLinked g (grayhead g L) l ∨ ∃ l0, l = h :: l0 ∧ GLinked g (grayhead g L) l0

/-- A state of the atomic phase: the black table at address 0, taken out of its list, has one
entry, with the white string at address 1 as key and a number as value. -/
def exEphKey : global_State :=
  { (default : global_State) with
    objs := [some { exObj 5 32 none with
        node := [{ i_val := { value_ := Value.i 1, tt_ := 3 }, key_tt := 68,
                   key_val := Value.gc 1 }] },
      some (exObj 4 8 none)]
    currentwhite := 8
    gcstate := 2 }

/-- A state of the atomic phase: the black table at address 0, taken out of its list, has one
entry, with a number as key and the white table at address 1 as value. -/
def exEphVal : global_State :=
  { (default : global_State) with
    objs := [some { exObj 5 32 none with
        node := [{ i_val := { value_ := Value.gc 1, tt_ := 69 }, key_tt := 3,
                   key_val := Value.i 7 }] },
      some (exObj 5 8 none)]
    currentwhite := 8
    gcstate := 2 }

@[simp] theorem stkset_stack (L : lua_State) (p : Nat) (x : StackValue) :
    (stkset L p x).stack = L.stack := rfl

@[simp] theorem stkset_top (L : lua_State) (p : Nat) (x : StackValue) :
    (stkset L p x).top = L.top := rfl

@[simp] theorem stkset_stack_last (L : lua_State) (p : Nat) (x : StackValue) :
    (stkset L p x).stack_last = L.stack_last := rfl

@[simp] theorem stkset_cis (L : lua_State) (p : Nat) (x : StackValue) :
    (stkset L p x).cis = L.cis := rfl

@[simp] theorem stkset_ci (L : lua_State) (p : Nat) (x : StackValue) :
    (stkset L p x).ci = L.ci := rfl

@[simp] theorem stkset_length (L : lua_State) (p : Nat) (x : StackValue) :
    (stkset L p x).stackmem.length = L.stackmem.length := by
  simp [stkset]

theorem stkat_stkset (L : lua_State) (p q : Nat) (x : StackValue) :
    stkat (stkset L p x) q =
      if q - L.stack = p - L.stack ∧ p - L.stack < L.stackmem.length then x else stkat L q := by
  unfold stkat stkset
  simp only [List.getD_eq_getElem?_getD, List.getElem?_set]
  by_cases h : p - L.stack = q - L.stack
  · by_cases h2 : q - L.stack < L.stackmem.length
    · simp [h, h2]
    · have h3 : L.stackmem.length ≤ q - L.stack := by omega
      simp [h, h2, List.getElem?_eq_none h3]
  · have h' : ¬ q - L.stack = p - L.stack := fun e => h e.symm
    simp [h, h']

theorem s2v_stkset (L : lua_State) (p q : Nat) (x : StackValue) :
    s2v (stkset L p x) q =
      if q - L.stack = p - L.stack ∧ p - L.stack < L.stackmem.length then x.val else s2v L q := by
  unfold s2v
  rw [stkat_stkset]
  split <;> rfl

theorem s2v_setobjs2s (L : lua_State) (a b q : Nat) :
    s2v (setobjs2s L a b) q =
      if q - L.stack = a - L.stack ∧ a - L.stack < L.stackmem.length then s2v L b
      else s2v L q := by
  unfold setobjs2s
  rw [s2v_stkset]
  rfl

theorem s2v_setnilat (H : Decls) (L : lua_State) (a q : Nat) :
    s2v (setnilat H L a) q =
      if q - L.stack = a - L.stack ∧ a - L.stack < L.stackmem.length
      then setnilvalue H (s2v L a) else s2v L q := by
  unfold setnilat
  rw [s2v_stkset]

@[simp] theorem ttisstrictnil_setnilvalue (H : Decls) (o : TValue) :
    ttisstrictnil H (setnilvalue H o) = true := by
  simp [ttisstrictnil, setnilvalue, rawtt]

/-! ### Result adjustment -/

theorem moveloop_frame (L : lua_State) (res first : Nat) (i c : Nat) :
    (moveloop L res first i c).stack = L.stack ∧
    (moveloop L res first i c).top = L.top ∧
    (moveloop L res first i c).stackmem.length = L.stackmem.length := by
  induction c generalizing L i with
  | zero => simp [moveloop]
  | succ c ih =>
    simp only [moveloop]
    obtain ⟨h1, h2, h3⟩ := ih (setobjs2s L (res + i) (first + i)) (i + 1)
    exact ⟨h1.trans rfl, h2.trans rfl, h3.trans (by simp [setobjs2s])⟩

theorem nilloop_frame (H : Decls) (L : lua_State) (res : Nat) (i c : Nat) :
    (nilloop H L res i c).stack = L.stack ∧
    (nilloop H L res i c).top = L.top ∧
    (nilloop H L res i c).stackmem.length = L.stackmem.length := by
  induction c generalizing L i with
  | zero => simp [nilloop]
  | succ c ih =>
    simp only [nilloop]
    obtain ⟨h1, h2, h3⟩ := ih (setnilat H L (res + i)) (i + 1)
    exact ⟨h1.trans rfl, h2.trans rfl, h3.trans (by simp [setnilat])⟩

/-- Copying upwards in address order to a destination not above the source reads every
source entry before it is overwritten. -/
theorem s2v_moveloop (L : lua_State) (res first : Nat) (i c : Nat)
    (hbase : L.stack ≤ res) (hle : res ≤ first)
    (hroom : res + i + c - L.stack ≤ L.stackmem.length) (q : Nat) (hq : L.stack ≤ q) :
    s2v (moveloop L res first i c) q =
      if res + i ≤ q ∧ q < res + i + c then s2v L (first + (q - res)) else s2v L q := by
  induction c generalizing L i with
  | zero =>
    have : ¬ (res + i ≤ q ∧ q < res + i + 0) := by omega
    simp only [moveloop]
    rw [if_neg this]
  | succ c ih =>
    simp only [moveloop]
    have hst : (setobjs2s L (res + i) (first + i)).stack = L.stack := rfl
    have hlen : (setobjs2s L (res + i) (first + i)).stackmem.length = L.stackmem.length := by
      simp [setobjs2s]
    rw [ih (setobjs2s L (res + i) (first + i)) (i + 1) (by rw [hst]; exact hbase)
      (by rw [hst, hlen]; omega) (by rw [hst]; exact hq)]
    by_cases h1 : res + (i + 1) ≤ q ∧ q < res + (i + 1) + c
    · have h2 : res + i ≤ q ∧ q < res + i + (c + 1) := by omega
      rw [if_pos h1, if_pos h2, s2v_setobjs2s]
      have h3 : ¬ (first + (q - res) - L.stack = res + i - L.stack ∧
          res + i - L.stack < L.stackmem.length) := by omega
      rw [if_neg h3]
    · rw [if_neg h1, s2v_setobjs2s]
      by_cases h4 : q = res + i
      · have h2 : res + i ≤ q ∧ q < res + i + (c + 1) := by omega
        have h5 : q - L.stack = res + i - L.stack ∧ res + i - L.stack < L.stackmem.length := by
          omega
        rw [if_pos h2, if_pos h5]
        have : first + (q - res) = first + i := by omega
        rw [this]
      · have h2 : ¬ (res + i ≤ q ∧ q < res + i + (c + 1)) := by omega
        have h5 : ¬ (q - L.stack = res + i - L.stack ∧
            res + i - L.stack < L.stackmem.length) := by omega
        rw [if_neg h2, if_neg h5]

theorem s2v_nilloop (H : Decls) (L : lua_State) (res : Nat) (i c : Nat)
    (hbase : L.stack ≤ res)
    (hroom : res + i + c - L.stack ≤ L.stackmem.length) (q : Nat) (hq : L.stack ≤ q) :
    s2v (nilloop H L res i c) q =
      if res + i ≤ q ∧ q < res + i + c then setnilvalue H (s2v L q) else s2v L q := by
  induction c generalizing L i with
  | zero =>
    have : ¬ (res + i ≤ q ∧ q < res + i + 0) := by omega
    simp only [nilloop]
    rw [if_neg this]
  | succ c ih =>
    simp only [nilloop]
    have hst : (setnilat H L (res + i)).stack = L.stack := rfl
    have hlen : (setnilat H L (res + i)).stackmem.length = L.stackmem.length := by
      simp [setnilat]
    rw [ih (setnilat H L (res + i)) (i + 1) (by rw [hst]; exact hbase)
      (by rw [hst, hlen]; omega) (by rw [hst]; exact hq)]
    by_cases h1 : res + (i + 1) ≤ q ∧ q < res + (i + 1) + c
    · have h2 : res + i ≤ q ∧ q < res + i + (c + 1) := by omega
      rw [if_pos h1, if_pos h2, s2v_setnilat]
      have h3 : ¬ (q - L.stack = res + i - L.stack ∧
          res + i - L.stack < L.stackmem.length) := by omega
      rw [if_neg h3]
    · rw [if_neg h1, s2v_setnilat]
      by_cases h4 : q = res + i
      · have h2 : res + i ≤ q ∧ q < res + i + (c + 1) := by omega
        have h5 : q - L.stack = res + i - L.stack ∧ res + i - L.stack < L.stackmem.length := by
          omega
        rw [if_pos h2, if_pos h5, h4]
      · have h2 : ¬ (res + i ≤ q ∧ q < res + i + (c + 1)) := by omega
        have h5 : ¬ (q - L.stack = res + i - L.stack ∧
            res + i - L.stack < L.stackmem.length) := by omega
        rw [if_neg h2, if_neg h5]

/-- The generic case of `moveresults` for `n` results on top of the stack and `w` wanted. -/
theorem moveresults_generic_spec (H : Decls) (L : lua_State) (res n w : Nat)
    (hbase : L.stack ≤ res) (hres : res + n ≤ L.top)
    (hroom : res + w - L.stack ≤ L.stackmem.length) :
    (moveresults_generic H L res n (w : Int)).top = res + w ∧
    (moveresults_generic H L res n (w : Int)).stack = L.stack ∧
    (∀ i, i < min n w →
      s2v (moveresults_generic H L res n (w : Int)) (res + i) = s2v L (L.top - n + i)) ∧
    (∀ i, min n w ≤ i → i < w →
      ttisstrictnil H (s2v (moveresults_generic H L res n (w : Int)) (res + i)) = true) ∧
    (∀ q, L.stack ≤ q → q < res →
      s2v (moveresults_generic H L res n (w : Int)) q = s2v L q) := by
  have hm : (if (n : Int) > (w : Int) then (w : Int) else (n : Int)) = ((min n w : Nat) : Int) := by
    split <;> omega
  have hdiff : ((w : Int) - ((min n w : Nat) : Int)).toNat = w - min n w := by omega
  have key : moveresults_generic H L res n (w : Int) =
      { nilloop H (moveloop L res (L.top - n) 0 (min n w)) res (min n w) (w - min n w) with
        top := res + w } := by
    unfold moveresults_generic
    simp only [hm, hdiff, Int.toNat_ofNat]
    congr 1
  obtain ⟨m1, m2, m3⟩ := moveloop_frame L res (L.top - n) 0 (min n w)
  obtain ⟨n1, n2, n3⟩ := nilloop_frame H (moveloop L res (L.top - n) 0 (min n w)) res
    (min n w) (w - min n w)
  have getq : ∀ q, L.stack ≤ q →
      s2v (moveresults_generic H L res n (w : Int)) q =
        if res + min n w ≤ q ∧ q < res + min n w + (w - min n w) then
          setnilvalue H (s2v (moveloop L res (L.top - n) 0 (min n w)) q)
        else if res + 0 ≤ q ∧ q < res + 0 + min n w then s2v L (L.top - n + (q - res))
        else s2v L q := by
    intro q hq
    rw [key]
    have e1 : ∀ M : lua_State, s2v { M with top := res + w } q = s2v M q := fun _ => rfl
    rw [e1, s2v_nilloop H _ res _ _ (by rw [m1]; exact hbase) (by rw [m1, m3]; omega) q
      (by rw [m1]; exact hq)]
    rw [s2v_moveloop L res (L.top - n) 0 (min n w) hbase (by omega) (by omega) q hq]
  refine ⟨by rw [key], by rw [key]; simp [n1, m1], ?_, ?_, ?_⟩
  · intro i hi
    rw [getq (res + i) (by omega)]
    have h1 : ¬ (res + min n w ≤ res + i ∧ res + i < res + min n w + (w - min n w)) := by omega
    have h2 : res + 0 ≤ res + i ∧ res + i < res + 0 + min n w := by omega
    rw [if_neg h1, if_pos h2]
    congr 1
    omega
  · intro i hi hiw
    rw [getq (res + i) (by omega)]
    have h1 : res + min n w ≤ res + i ∧ res + i < res + min n w + (w - min n w) := by omega
    rw [if_pos h1]
    simp
  · intro q hq hqr
    rw [getq q hq]
    have h1 : ¬ (res + min n w ≤ q ∧ q < res + min n w + (w - min n w)) := by omega
    have h2 : ¬ (res + 0 ≤ q ∧ q < res + 0 + min n w) := by omega
    rw [if_neg h1, if_neg h2]

/-- `moveresults` with a plain count `k`. -/
theorem moveresults_count (E : Env) (L : lua_State) (res n k : Nat)
    (hmr : E.H.LUA_MULTRET < 0)
    (hbase : L.stack ≤ res) (hres : res + n ≤ L.top)
    (hroom : res + k - L.stack ≤ L.stackmem.length) :
    ∃ L1, moveresults E L res n (k : Int) = Ctl.ret () L1 ∧ L1.top = res + k ∧
      L1.stack = L.stack ∧
      (∀ i, i < min n k → s2v L1 (res + i) = s2v L (L.top - n + i)) ∧
      (∀ i, min n k ≤ i → i < k → ttisstrictnil E.H (s2v L1 (res + i)) = true) ∧
      (∀ q, L.stack ≤ q → q < res → s2v L1 q = s2v L q) := by
  match k, hroom with
  | 0, _ =>
    refine ⟨{ L with top := res }, by simp [moveresults], rfl, rfl, ?_, ?_, ?_⟩
    · intro i hi; omega
    · intro i _ hi; omega
    · intro q _ _; rfl
  | 1, hroom =>
    have e1 : ∀ (M : lua_State) (q : Nat), s2v { M with top := res + 1 } q = s2v M q :=
      fun _ _ => rfl
    have hin : res - L.stack = res - L.stack ∧ res - L.stack < L.stackmem.length := by omega
    by_cases hn : n = 0
    · refine ⟨{ setnilat E.H L res with top := res + 1 }, by simp [moveresults, hn],
        rfl, rfl, ?_, ?_, ?_⟩
      · intro i hi; omega
      · intro i _ hi
        have : i = 0 := by omega
        subst this
        rw [e1, Nat.add_zero, s2v_setnilat, if_pos hin]
        simp
      · intro q hq hqr
        rw [e1, s2v_setnilat]
        have : ¬ (q - L.stack = res - L.stack ∧ res - L.stack < L.stackmem.length) := by omega
        rw [if_neg this]
    · refine ⟨{ setobjs2s L res (L.top - n) with top := res + 1 },
        by simp [moveresults, hn], rfl, rfl, ?_, ?_, ?_⟩
      · intro i hi
        have : i = 0 := by omega
        subst this
        rw [e1, Nat.add_zero, Nat.add_zero, s2v_setobjs2s, if_pos hin]
      · intro i h1 h2; omega
      · intro q hq hqr
        rw [e1, s2v_setobjs2s]
        have : ¬ (q - L.stack = res - L.stack ∧ res - L.stack < L.stackmem.length) := by omega
        rw [if_neg this]
  | k + 2, hroom =>
    have h0 : ¬ (((k + 2 : Nat) : Int) = 0) := by omega
    have h1 : ¬ (((k + 2 : Nat) : Int) = 1) := by omega
    have h2 : ¬ (((k + 2 : Nat) : Int) = E.H.LUA_MULTRET) := by omega
    have h3 : hastocloseCfunc E.H ((k + 2 : Nat) : Int) = false := by
      simp [hastocloseCfunc]; omega
    obtain ⟨g1, g2, g3, g4, g5⟩ := moveresults_generic_spec E.H L res n (k + 2) hbase hres hroom
    refine ⟨moveresults_generic E.H L res n ((k + 2 : Nat) : Int), ?_, g1, g2, g3, g4, g5⟩
    unfold moveresults
    rw [if_neg h0, if_neg h1, if_neg h2, h3]
    rfl

/-- `moveresults` with `LUA_MULTRET`. -/
theorem moveresults_multret (E : Env) (L : lua_State) (res n : Nat)
    (hmr : E.H.LUA_MULTRET < 0)
    (hbase : L.stack ≤ res) (hres : res + n ≤ L.top)
    (htop : L.top - L.stack ≤ L.stackmem.length) :
    ∃ L2, moveresults E L res n E.H.LUA_MULTRET = Ctl.ret () L2 ∧ L2.top = res + n ∧
      L2.stack = L.stack ∧
      (∀ i, i < n → s2v L2 (res + i) = s2v L (L.top - n + i)) ∧
      (∀ q, L.stack ≤ q → q < res → s2v L2 q = s2v L q) := by
  have hroomn : res + n - L.stack ≤ L.stackmem.length := by omega
  obtain ⟨g1, g2, g3, _, g5⟩ := moveresults_generic_spec E.H L res n n hbase hres hroomn
  have h0 : ¬ (E.H.LUA_MULTRET = 0) := by omega
  have h1 : ¬ (E.H.LUA_MULTRET = 1) := by omega
  refine ⟨moveresults_generic E.H L res n (n : Int), ?_, g1, g2, ?_, g5⟩
  · unfold moveresults
    rw [if_neg h0, if_neg h1, if_pos rfl]
  · intro i hi
    exact g3 i (by simpa using hi)

/-! ### Reallocation and growth -/

theorem correctcis_length (H : Decls) (o n : Nat) (cis : List CallInfo) (k : Nat) :
    (correctcis H o n cis k).length = cis.length := by
  induction k generalizing cis with
  | zero => simp [correctcis]
  | succ k ih => simp [correctcis, ih]

theorem correctcis_getD (H : Decls) (o n : Nat) (cis : List CallInfo) (k i : Nat) :
    (correctcis H o n cis k).getD i default =
      if i ≤ k ∧ i < cis.length then correctframe H o n (cis.getD i default)
      else cis.getD i default := by
  induction k generalizing cis with
  | zero =>
    simp only [correctcis, List.getD_eq_getElem?_getD, List.getElem?_set]
    by_cases h : 0 = i
    · subst h
      by_cases h2 : 0 < cis.length
      · simp [h2]
      · simp [h2]
        have : cis = [] := by cases cis <;> simp_all
        simp [this]
    · have h3 : ¬ (i = 0 ∧ i < cis.length) := by omega
      simp [h, h3]
  | succ k ih =>
    simp only [correctcis]
    rw [ih]
    simp only [List.length_set, List.getD_eq_getElem?_getD, List.getElem?_set]
    by_cases h : k + 1 = i
    · subst h
      have h1 : ¬ (k + 1 ≤ k ∧ k + 1 < cis.length) := by omega
      rw [if_neg h1]
      by_cases h2 : k + 1 < cis.length
      · simp [h2]
      · have h3 : cis.length ≤ k + 1 := by omega
        simp [h2, List.getElem?_eq_none h3]
    · by_cases h1 : i ≤ k ∧ i < cis.length
      · have h4 : i ≤ k + 1 ∧ i < cis.length := by omega
        simp [h, h1, h4]
      · have h4 : ¬ (i ≤ k + 1 ∧ i < cis.length) := by omega
        simp [h, h1, h4]

/-- The state `luaD_reallocstack` produces when the allocator returns the block `a`. -/
theorem luaD_reallocstack_some (E : Env) (L : lua_State) (newsize : Nat) (re : Bool) (a : Nat)
    (ha : E.luaM_newblock L (newsize + E.H.EXTRA_STACK) = some a) :
    ∃ L1, luaD_reallocstack E L newsize re = Ctl.ret 1 L1 ∧
      L1.stack = a ∧ L1.stack_last = a + newsize ∧
      L1.top = (L.top - L.stack) + a ∧ L1.tbclist = (L.tbclist - L.stack) + a ∧
      L1.ci = L.ci ∧ L1.cis = correctcis E.H L.stack a L.cis L.ci ∧
      L1.openupval =
        L.openupval.map (fun (up : UpVal) => { up with v := (up.v - L.stack) + a }) ∧
      L1.stackmem =
        erasefrom E.H
          (memcpy (List.replicate (newsize + E.H.EXTRA_STACK) default) L.stackmem
            ((if stacksize L ≤ newsize then stacksize L else newsize) + E.H.EXTRA_STACK))
          ((if stacksize L ≤ newsize then stacksize L else newsize) + E.H.EXTRA_STACK) ∧
      L1.errorJmp = L.errorJmp ∧ L1.nCcalls = L.nCcalls ∧ L1.errfunc = L.errfunc ∧
      L1.allowhook = L.allowhook ∧ L1.hookmask = L.hookmask ∧ L1.hook = L.hook ∧
      L1.oldpc = L.oldpc ∧ L1.status = L.status ∧ L1.heap = L.heap ∧
      L1.memerrmsg = L.memerrmsg := by
  unfold luaD_reallocstack
  simp only [ha]
  exact ⟨_, rfl, rfl, rfl, rfl, rfl, rfl, rfl, rfl, rfl, rfl, rfl, rfl, rfl, rfl, rfl, rfl,
    rfl, rfl, rfl⟩

theorem luaD_reallocstack_none (E : Env) (L : lua_State) (newsize : Nat) (re : Bool)
    (ha : E.luaM_newblock L (newsize + E.H.EXTRA_STACK) = none) :
    luaD_reallocstack E L newsize re = if re then luaM_error E.H L else Ctl.ret 0 L := by
  unfold luaD_reallocstack
  simp only [ha]

theorem luaD_throw_ne_ret {α : Type} (L : lua_State) (e : Int) (a : α) (L1 : lua_State) :
    (luaD_throw L e : Ctl α) ≠ Ctl.ret a L1 := by
  unfold luaD_throw
  split <;> simp

theorem luaD_throw_ne_runerror {α : Type} (L : lua_State) (e : Int) (m : String)
    (L1 : lua_State) : (luaD_throw L e : Ctl α) ≠ Ctl.runerror m L1 := by
  unfold luaD_throw
  split <;> simp

/-- A return of `luaD_reallocstack` with the value 1 comes from a successful allocation. -/
theorem luaD_reallocstack_ret (E : Env) (L : lua_State) (newsize : Nat) (re : Bool)
    (r : Nat) (L1 : lua_State) (h : luaD_reallocstack E L newsize re = Ctl.ret r L1) :
    (r = 1 ∧ ∃ a, E.luaM_newblock L (newsize + E.H.EXTRA_STACK) = some a) ∨
    (r = 0 ∧ re = false ∧ L1 = L ∧
      E.luaM_newblock L (newsize + E.H.EXTRA_STACK) = none) := by
  cases ha : E.luaM_newblock L (newsize + E.H.EXTRA_STACK) with
  | none =>
    rw [luaD_reallocstack_none E L newsize re ha] at h
    cases re with
    | true => simp [luaM_error] at h; exact absurd h (luaD_throw_ne_ret _ _ _ _)
    | false =>
      simp at h
      exact Or.inr ⟨h.1.symm, rfl, h.2.symm, rfl⟩
  | some a =>
    obtain ⟨L2, h2, _⟩ := luaD_reallocstack_some E L newsize re a ha
    rw [h2] at h
    simp at h
    exact Or.inl ⟨h.1.symm, a, rfl⟩

theorem luaD_reallocstack_ne_runerror (E : Env) (L : lua_State) (newsize : Nat) (re : Bool)
    (m : String) (L1 : lua_State) : luaD_reallocstack E L newsize re ≠ Ctl.runerror m L1 := by
  cases ha : E.luaM_newblock L (newsize + E.H.EXTRA_STACK) with
  | none =>
    rw [luaD_reallocstack_none E L newsize re ha]
    cases re with
    | true => simp [luaM_error]; exact luaD_throw_ne_runerror _ _ _ _
    | false => simp
  | some a =>
    obtain ⟨L2, h2, _⟩ := luaD_reallocstack_some E L newsize re a ha
    rw [h2]
    simp

/-- The size `luaD_growstack` asks for. -/
theorem growsize_eq (M : Nat) (size : Nat) (needed : Int) :
    (if (if 2 * (size : Int) > (M : Int) then (M : Int) else 2 * (size : Int)) < needed
      then needed
      else (if 2 * (size : Int) > (M : Int) then (M : Int) else 2 * (size : Int))) =
      max (min (2 * (size : Int)) (M : Int)) needed := by
  split <;> split <;> omega

theorem erase_memcpy_length (H : Decls) (old : List StackValue) (N i : Nat)
    (hlen : i ≤ old.length) (hN : i ≤ N) :
    (erasefrom H (memcpy (List.replicate N default) old i) i).length = N := by
  simp [erasefrom, memcpy]
  omega

theorem erase_memcpy_getD (H : Decls) (old : List StackValue) (N i j : Nat)
    (hlen : i ≤ old.length) (hN : i ≤ N) :
    (erasefrom H (memcpy (List.replicate N default) old i) i).getD j default =
      if j < i then old.getD j default
      else if j < N then
        { (default : StackValue) with val := setnilvalue H (default : StackValue).val }
      else default := by
  have e : erasefrom H (memcpy (List.replicate N default) old i) i =
      old.take i ++ (List.replicate (N - i) (default : StackValue)).map
        (fun (sv : StackValue) => { sv with val := setnilvalue H sv.val }) := by
    simp only [erasefrom, memcpy]
    have h1 : (List.take i old).length = i := by simp; omega
    rw [List.take_append_of_le_length (by omega), List.drop_append_of_le_length (by omega)]
    simp [List.take_take, List.drop_take, h1]
  rw [e]
  simp only [List.getD_eq_getElem?_getD]
  by_cases h : j < i
  · rw [List.getElem?_append_left (by simp; omega)]
    simp [h, List.getElem?_take]
  · rw [List.getElem?_append_right (by simp; omega)]
    simp only [List.length_take, Nat.min_eq_left hlen, if_neg h]
    by_cases h2 : j < N
    · have : j - i < N - i := by omega
      simp [h2, this, List.getElem?_replicate]
    · have : ¬ j - i < N - i := by omega
      simp [h2, this, List.getElem?_replicate]

theorem correctframe_fields (H : Decls) (o n : Nat) (c : CallInfo) :
    (correctframe H o n c).func = (c.func - o) + n ∧
    (correctframe H o n c).top = (c.top - o) + n ∧
    (correctframe H o n c).nresults = c.nresults ∧
    (correctframe H o n c).callstatus = c.callstatus ∧
    (correctframe H o n c).savedpc = c.savedpc ∧
    (correctframe H o n c).nextraargs = c.nextraargs := by
  unfold correctframe
  dsimp only
  split <;> exact ⟨rfl, rfl, rfl, rfl, rfl, rfl⟩

/-- What `luaD_growstack` does below the limit: one call of `luaD_reallocstack`. -/
theorem luaD_growstack_below (E : Env) (L : lua_State) (n : Int) (re : Bool)
    (hsize : stacksize L ≤ E.H.LUAI_MAXSTACK)
    (hneeded : ((L.top - L.stack : Nat) : Int) + n ≤ (E.H.LUAI_MAXSTACK : Int)) :
    luaD_growstack E L n re =
      luaD_reallocstack E L
        (max (min (2 * (stacksize L : Int)) (E.H.LUAI_MAXSTACK : Int))
          (((L.top - L.stack : Nat) : Int) + n)).toNat re := by
  unfold luaD_growstack
  have h1 : ¬ stacksize L > E.H.LUAI_MAXSTACK := by omega
  simp only [h1, if_false, growsize_eq]
  rw [if_pos (by omega)]

/-- What `luaD_growstack` does when the request crosses the limit. -/
theorem luaD_growstack_above (E : Env) (L : lua_State) (n : Int) (re : Bool)
    (hsize : stacksize L ≤ E.H.LUAI_MAXSTACK)
    (hneeded : ((L.top - L.stack : Nat) : Int) + n > (E.H.LUAI_MAXSTACK : Int)) :
    luaD_growstack E L n re =
      (luaD_reallocstack E L (ERRORSTACKSIZE E.H) re).bind fun _ L1 =>
        if re then Ctl.runerror "stack overflow" L1 else Ctl.ret 0 L1 := by
  unfold luaD_growstack
  have h1 : ¬ stacksize L > E.H.LUAI_MAXSTACK := by omega
  simp only [h1, if_false, growsize_eq]
  rw [if_neg (by omega)]

/-! ### Protected runs -/

/-- The state in which `luaD_rawrunprotected` starts `f`: the record `lj`, with status
`LUA_OK`, is on top of the chain. -/
theorem ljat_top (r : lua_longjmp) (previous : List lua_longjmp) :
    ljat (r :: previous) (previous.length + 1) = some r := by
  simp [ljat]

/-- Control comes back to `luaD_rawrunprotected` with `lj` on top of the chain: the status of
`lj` is returned and the chain and `nCcalls` are restored. -/
theorem luaD_rawrunprotected_ret (E : Env) (L : lua_State) (f : lua_State → Ctl Unit)
    (L2 : lua_State) (r : lua_longjmp)
    (hf : f { L with errorJmp := { status := E.H.LUA_OK } :: L.errorJmp } = Ctl.ret () L2)
    (hchain : L2.errorJmp = r :: L.errorJmp) :
    luaD_rawrunprotected E L f =
      Ctl.ret r.status { L2 with errorJmp := L.errorJmp, nCcalls := L.nCcalls } := by
  unfold luaD_rawrunprotected
  simp only [hf, Ctl.settle, hchain, ljat_top]

theorem luaD_rawrunprotected_jmp (E : Env) (L : lua_State) (f : lua_State → Ctl Unit)
    (L2 : lua_State) (r : lua_longjmp)
    (hf : f { L with errorJmp := { status := E.H.LUA_OK } :: L.errorJmp } = Ctl.jmp L2)
    (hchain : L2.errorJmp = r :: L.errorJmp) :
    luaD_rawrunprotected E L f =
      Ctl.ret r.status { L2 with errorJmp := L.errorJmp, nCcalls := L.nCcalls } := by
  unfold luaD_rawrunprotected
  simp only [hf, Ctl.settle, hchain, ljat_top, List.length_cons, if_true]

theorem luaD_throw_cons {α : Type} (L : lua_State) (e : Int) (r : lua_longjmp)
    (previous : List lua_longjmp) (h : L.errorJmp = r :: previous) :
    (luaD_throw L e : Ctl α) =
      Ctl.jmp { L with errorJmp := { r with status := e } :: previous } := by
  unfold luaD_throw
  simp only [h]

/-- A throw that finds `lj` on top of the chain makes `luaD_rawrunprotected` return its
code. -/
theorem luaD_rawrunprotected_throw (E : Env) (L : lua_State) (f : lua_State → Ctl Unit)
    (Lt : lua_State) (errcode : Int)
    (hf : f { L with errorJmp := { status := E.H.LUA_OK } :: L.errorJmp } =
      luaD_throw Lt errcode)
    (hchain : Lt.errorJmp = { status := E.H.LUA_OK } :: L.errorJmp) :
    luaD_rawrunprotected E L f =
      Ctl.ret errcode { Lt with errorJmp := L.errorJmp, nCcalls := L.nCcalls } := by
  rw [luaD_throw_cons Lt errcode _ _ hchain] at hf
  have h := luaD_rawrunprotected_jmp E L f _ { status := errcode } hf rfl
  exact h

/-- Whatever `f` does, a return of `luaD_rawrunprotected` restores the chain and
`nCcalls`. -/
theorem luaD_rawrunprotected_restores (E : Env) (L : lua_State) (f : lua_State → Ctl Unit)
    (st : Int) (L3 : lua_State) (h : luaD_rawrunprotected E L f = Ctl.ret st L3) :
    L3.errorJmp = L.errorJmp ∧ L3.nCcalls = L.nCcalls := by
  unfold luaD_rawrunprotected at h
  dsimp only at h
  split at h
  · simp at h
    obtain ⟨_, h2⟩ := h
    subst h2
    exact ⟨rfl, rfl⟩
  · split at h
    · simp at h
      obtain ⟨_, h2⟩ := h
      subst h2
      exact ⟨rfl, rfl⟩
    · simp at h
  all_goals simp at h

/-! ### Stack check before a call -/

theorem SameView.refl (L : lua_State) : SameView L L :=
  ⟨rfl, fun _ _ => rfl, rfl, rfl⟩

theorem SameView.trans {L L1 L2 : lua_State} (h1 : SameView L L1) (h2 : SameView L1 L2) :
    SameView L L2 := by
  obtain ⟨a1, a2, a3, a4⟩ := h1
  obtain ⟨b1, b2, b3, b4⟩ := h2
  refine ⟨b1.trans a1, ?_, b3.trans a3, b4.trans a4⟩
  intro j hj
  rw [b2 j (by omega), a2 j hj]

/-- A successful reallocation to at least the part in use keeps the thread well formed and
shows the same view. -/
theorem luaD_reallocstack_view (E : Env) (L : lua_State) (newsize : Nat) (re : Bool) (a : Nat)
    (hwf : WellFormed E.H L) (hnew : L.top - L.stack ≤ newsize)
    (ha : E.luaM_newblock L (newsize + E.H.EXTRA_STACK) = some a) :
    ∃ L1, luaD_reallocstack E L newsize re = Ctl.ret 1 L1 ∧ WellFormed E.H L1 ∧
      SameView L L1 ∧ stacksize L1 = newsize ∧ L1.stack = a := by
  obtain ⟨h1, h2, h3, h4⟩ := hwf
  obtain ⟨L2, e, hst, hlast, htop, htbc, hci, hcis, hup, hmem, _, _, _, _, hhm, _⟩ :=
    luaD_reallocstack_some E L newsize re a ha
  have hm : (if stacksize L ≤ newsize then stacksize L else newsize) =
      min (stacksize L) newsize := by
    split <;> omega
  rw [hm] at hmem
  have hss : stacksize L = L.stack_last - L.stack := rfl
  have hi1 : min (stacksize L) newsize + E.H.EXTRA_STACK ≤ L.stackmem.length := by omega
  have hi2 : min (stacksize L) newsize + E.H.EXTRA_STACK ≤ newsize + E.H.EXTRA_STACK := by
    omega
  have hsz : stacksize L2 = newsize := by
    show L2.stack_last - L2.stack = _
    rw [hlast, hst, Nat.add_sub_cancel_left]
  refine ⟨L2, e, ⟨by omega, by omega, ?_, ?_⟩, ⟨by omega, ?_, hci, hhm⟩, hsz, hst⟩
  · rw [hsz, hmem]
    exact erase_memcpy_length E.H L.stackmem _ _ hi1 hi2
  · rw [hci, hcis, correctcis_length]
    exact h4
  · intro j hj
    unfold stkat
    rw [hmem, Nat.add_sub_cancel_left, Nat.add_sub_cancel_left,
      erase_memcpy_getD E.H L.stackmem _ _ j hi1 hi2, if_pos (by omega)]

/-- `luaD_growstack` succeeds when the allocator does and the request stays below the
limit. -/
theorem luaD_growstack_view (E : Env) (L : lua_State) (n : Int) (re : Bool)
    (hwf : WellFormed E.H L) (hsize : stacksize L ≤ E.H.LUAI_MAXSTACK)
    (hneeded : ((L.top - L.stack : Nat) : Int) + n ≤ (E.H.LUAI_MAXSTACK : Int)) (hn : 0 ≤ n)
    (halloc : ∀ L n, (E.luaM_newblock L n).isSome = true) :
    ∃ L1, luaD_growstack E L n re = Ctl.ret 1 L1 ∧ WellFormed E.H L1 ∧ SameView L L1 ∧
      stacksize L1 ≤ E.H.LUAI_MAXSTACK ∧ (L1.stack_last : Int) - (L1.top : Int) ≥ n := by
  rw [luaD_growstack_below E L n re hsize hneeded]
  obtain ⟨a, ha⟩ := Option.isSome_iff_exists.mp (halloc L
    ((max (min (2 * (stacksize L : Int)) (E.H.LUAI_MAXSTACK : Int))
      (((L.top - L.stack : Nat) : Int) + n)).toNat + E.H.EXTRA_STACK))
  obtain ⟨L1, e, w, v, hs, _⟩ := luaD_reallocstack_view E L _ re a hwf (by omega) ha
  refine ⟨L1, e, w, v, by omega, ?_⟩
  obtain ⟨w1, w2, _, _⟩ := w
  obtain ⟨v1, _⟩ := v
  have hss : stacksize L1 = L1.stack_last - L1.stack := rfl
  omega

/-- `checkstackGCp` succeeds under the same conditions and restores `p` at its offset. -/
theorem checkstackGCp_view (E : Env) (L : lua_State) (n : Int) (p : Nat)
    (hwf : WellFormed E.H L) (hsize : stacksize L ≤ E.H.LUAI_MAXSTACK)
    (hneeded : ((L.top - L.stack : Nat) : Int) + n ≤ (E.H.LUAI_MAXSTACK : Int)) (hn : 0 ≤ n)
    (hgc : CollectorKeeps E) (halloc : ∀ L n, (E.luaM_newblock L n).isSome = true)
    (hp : L.stack ≤ p) :
    ∃ L1, checkstackGCp E L n p = Ctl.ret (L1.stack + (p - L.stack)) L1 ∧ WellFormed E.H L1 ∧
      SameView L L1 ∧ (L1.stack_last : Int) - (L1.top : Int) ≥ n := by
  unfold checkstackGCp
  by_cases hc : (L.stack_last : Int) - (L.top : Int) ≤ n
  · rw [if_pos hc]
    obtain ⟨g1, g2, g3⟩ := hgc L hwf hsize
    obtain ⟨L1, e, w, v, _, hroom⟩ := luaD_growstack_view E (E.luaC_checkGC L) n true g1 g2
      (by rw [g3.1]; exact hneeded) hn halloc
    refine ⟨L1, ?_, w, g3.trans v, hroom⟩
    simp only [e, Ctl.bind, restorestack, savestack]
  · rw [if_neg hc]
    refine ⟨L, ?_, hwf, SameView.refl L, by omega⟩
    congr 1
    omega

/-! ### Frames -/

theorem ciat_ciset (L : lua_State) (i j : Nat) (c : CallInfo) :
    ciat (ciset L i c) j = if j = i ∧ i < L.cis.length then c else ciat L j := by
  unfold ciat ciset
  simp only [List.getD_eq_getElem?_getD, List.getElem?_set]
  by_cases h : i = j
  · by_cases h2 : j < L.cis.length
    · simp [h, h2]
    · have h3 : L.cis.length ≤ j := by omega
      simp [h, h2, List.getElem?_eq_none h3]
  · have h' : ¬ j = i := fun e => h e.symm
    simp [h, h']

@[simp] theorem ciset_length (L : lua_State) (i : Nat) (c : CallInfo) :
    (ciset L i c).cis.length = L.cis.length := by
  simp [ciset]

/-- `prepCallInfo` makes the frame after `L->ci` current and fills in its four fields; the
stack and the frames up to the old `L->ci` are untouched. -/
theorem prepCallInfo_spec (E : Env) (L : lua_State) (func : Nat) (nret : Int) (mask : Nat)
    (top : Nat) (hci : L.ci < L.cis.length)
    (halloc : ∀ L, (E.luaE_extendCI L).isSome = true) :
    ∃ L1, prepCallInfo E L func nret mask top = Ctl.ret (L.ci + 1) L1 ∧
      L1.ci = L.ci + 1 ∧ L1.ci < L1.cis.length ∧
      (ciat L1 (L.ci + 1)).func = func ∧ (ciat L1 (L.ci + 1)).nresults = nret ∧
      (ciat L1 (L.ci + 1)).callstatus = mask ∧ (ciat L1 (L.ci + 1)).top = top ∧
      (∀ i, i ≤ L.ci → ciat L1 i = ciat L i) ∧
      L1.stack = L.stack ∧ L1.stackmem = L.stackmem ∧ L1.top = L.top ∧
      L1.stack_last = L.stack_last ∧ L1.hookmask = L.hookmask ∧ L1.heap = L.heap ∧
      L1.hook = L.hook ∧ L1.allowhook = L.allowhook := by
  have main : ∀ M : lua_State, M.ci = L.ci → L.ci + 1 < M.cis.length →
      (∀ i, i ≤ L.ci → ciat M i = ciat L i) →
      M.stack = L.stack → M.stackmem = L.stackmem → M.top = L.top →
      M.stack_last = L.stack_last → M.hookmask = L.hookmask → M.heap = L.heap →
      M.hook = L.hook → M.allowhook = L.allowhook →
      ∃ L1, (Ctl.ret (L.ci + 1) M : Ctl Nat).bind (fun ci L1 =>
          let L2 := { L1 with ci := ci }
          let L3 := ciset L2 ci { ciat L2 ci with func := func }
          let L4 := ciset L3 ci { ciat L3 ci with nresults := nret }
          let L5 := ciset L4 ci { ciat L4 ci with callstatus := mask }
          Ctl.ret ci (ciset L5 ci { ciat L5 ci with top := top })) = Ctl.ret (L.ci + 1) L1 ∧
        L1.ci = L.ci + 1 ∧ L1.ci < L1.cis.length ∧
        (ciat L1 (L.ci + 1)).func = func ∧ (ciat L1 (L.ci + 1)).nresults = nret ∧
        (ciat L1 (L.ci + 1)).callstatus = mask ∧ (ciat L1 (L.ci + 1)).top = top ∧
        (∀ i, i ≤ L.ci → ciat L1 i = ciat L i) ∧
        L1.stack = L.stack ∧ L1.stackmem = L.stackmem ∧ L1.top = L.top ∧
        L1.stack_last = L.stack_last ∧ L1.hookmask = L.hookmask ∧ L1.heap = L.heap ∧
        L1.hook = L.hook ∧ L1.allowhook = L.allowhook := by
    intro M h0 hlen hold e1 e2 e3 e4 e5 e6 e7 e8
    have hl : L.ci + 1 < ({ M with ci := L.ci + 1 } : lua_State).cis.length := hlen
    refine ⟨_, rfl, rfl, ?_, ?_, ?_, ?_, ?_, ?_, e1, e2, e3, e4, e5, e6, e7, e8⟩
    · simpa using hlen
    · simp [ciat_ciset, hl]
    · simp [ciat_ciset, hl]
    · simp [ciat_ciset, hl]
    · simp [ciat_ciset, hl]
    · intro i hi
      have hne : ¬ (i = L.ci + 1) := by omega
      simp only [ciat_ciset, hne, false_and, if_false]
      exact hold i hi
  unfold prepCallInfo next_ci
  by_cases h : L.ci + 1 < L.cis.length
  · rw [if_pos h]
    exact main L rfl h (fun _ _ => rfl) rfl rfl rfl rfl rfl rfl rfl rfl
  · rw [if_neg h]
    obtain ⟨c, hc⟩ := Option.isSome_iff_exists.mp (halloc L)
    have hlen : L.cis.length = L.ci + 1 := by omega
    simp only [hc, hlen]
    refine main { L with cis := L.cis ++ [c] } rfl (by simp; omega) ?_ rfl rfl rfl rfl rfl rfl
      rfl rfl
    intro i hi
    unfold ciat
    simp only [List.getD_eq_getElem?_getD]
    rw [List.getElem?_append_left (by omega)]

theorem fillparams_spec (H : Decls) (L : lua_State) (count : Nat) (hbase : L.stack ≤ L.top)
    (hroom : L.top + count - L.stack ≤ L.stackmem.length) :
    (fillparams H L count).top = L.top + count ∧ (fillparams H L count).stack = L.stack ∧
    (fillparams H L count).cis = L.cis ∧ (fillparams H L count).ci = L.ci ∧
    (fillparams H L count).stack_last = L.stack_last ∧
    (∀ q, L.stack ≤ q → s2v (fillparams H L count) q =
      if L.top ≤ q ∧ q < L.top + count then setnilvalue H (s2v L q) else s2v L q) := by
  induction count generalizing L with
  | zero =>
    refine ⟨rfl, rfl, rfl, rfl, rfl, ?_⟩
    intro q _
    have : ¬ (L.top ≤ q ∧ q < L.top + 0) := by omega
    rw [if_neg this]
    rfl
  | succ c ih =>
    have hlen : ({ setnilat H L L.top with top := (setnilat H L L.top).top + 1 } :
        lua_State).stackmem.length = L.stackmem.length := by
      simp [setnilat]
    obtain ⟨i1, i2, i3, i4, i5, i6⟩ :=
      ih { setnilat H L L.top with top := (setnilat H L L.top).top + 1 }
        (by show L.stack ≤ L.top + 1; omega)
        (by rw [hlen]; show L.top + 1 + c - L.stack ≤ _; omega)
    refine ⟨?_, i2, i3, i4, i5, ?_⟩
    · show (fillparams H _ c).top = _
      rw [i1]
      show L.top + 1 + c = _
      omega
    · intro q hq
      show s2v (fillparams H _ c) q = _
      rw [i6 q hq]
      have e1 : ∀ (M : lua_State) (t : Nat), s2v { M with top := t } q = s2v M q :=
        fun _ _ => rfl
      have etop : ({ setnilat H L L.top with top := (setnilat H L L.top).top + 1 } :
          lua_State).top = L.top + 1 := rfl
      rw [etop, e1, s2v_setnilat]
      by_cases h1 : q = L.top
      · subst h1
        have c1 : ¬ (L.top + 1 ≤ L.top ∧ L.top < L.top + 1 + c) := by omega
        have c2 : L.top - L.stack = L.top - L.stack ∧ L.top - L.stack < L.stackmem.length := by
          omega
        have c3 : L.top ≤ L.top ∧ L.top < L.top + (c + 1) := by omega
        rw [if_neg c1, if_pos c2, if_pos c3]
      · have c2 : ¬ (q - L.stack = L.top - L.stack ∧ L.top - L.stack < L.stackmem.length) := by
          omega
        rw [if_neg c2]
        by_cases h2 : L.top + 1 ≤ q ∧ q < L.top + 1 + c
        · have c3 : L.top ≤ q ∧ q < L.top + (c + 1) := by omega
          rw [if_pos h2, if_pos c3]
        · have c3 : ¬ (L.top ≤ q ∧ q < L.top + (c + 1)) := by omega
          rw [if_neg h2, if_neg c3]

theorem exEnv_collector : CollectorKeeps exEnv :=
  fun L h1 h2 => ⟨h1, h2, SameView.refl L⟩

theorem exEnv_alloc : AllocSucceeds exEnv :=
  ⟨fun _ _ => rfl, fun _ => rfl⟩

/-! ### Protected calls -/

theorem stackinuse_lim_ge (L : lua_State) (lim ci : Nat) : lim ≤ stackinuse_lim L lim ci := by
  induction ci generalizing lim with
  | zero =>
    unfold stackinuse_lim
    split <;> omega
  | succ k ih =>
    unfold stackinuse_lim
    by_cases h : lim < (ciat L (k + 1)).top
    · rw [if_pos h]
      have := ih (ciat L (k + 1)).top
      omega
    · rw [if_neg h]
      exact ih lim

/-- `luaD_shrinkstack` keeps the offset of `top`, the entries in use, the current frame and
the hook and error-handler fields. -/
theorem luaD_shrinkstack_view (E : Env) (L : lua_State) (n : Nat) (hslot : HasSlot E.H n L)
    (htop : L.top = L.stack + n + 1) :
    (luaD_shrinkstack E L).top = (luaD_shrinkstack E L).stack + n + 1 ∧
    (luaD_shrinkstack E L).ci = L.ci ∧
    (luaD_shrinkstack E L).allowhook = L.allowhook ∧
    (luaD_shrinkstack E L).errfunc = L.errfunc ∧
    (luaD_shrinkstack E L).errorJmp = L.errorJmp ∧
    (luaD_shrinkstack E L).nCcalls = L.nCcalls ∧
    stkat (luaD_shrinkstack E L) ((luaD_shrinkstack E L).stack + n) = stkat L (L.stack + n) := by
  obtain ⟨h1, h2⟩ := hslot
  have hlim := stackinuse_lim_ge L L.top L.ci
  have key : ∀ nsize : Nat, n + 2 ≤ nsize → ∀ M : lua_State,
      (match luaD_reallocstack E L nsize false with
        | Ctl.ret _ L2 => L2
        | _ => L) = M →
      M.top = M.stack + n + 1 ∧ M.ci = L.ci ∧ M.allowhook = L.allowhook ∧
      M.errfunc = L.errfunc ∧ M.errorJmp = L.errorJmp ∧ M.nCcalls = L.nCcalls ∧
      stkat M (M.stack + n) = stkat L (L.stack + n) := by
    intro nsize hn M hM
    cases ha : E.luaM_newblock L (nsize + E.H.EXTRA_STACK) with
    | none =>
      rw [luaD_reallocstack_none E L nsize false ha] at hM
      simp at hM
      subst hM
      exact ⟨htop, rfl, rfl, rfl, rfl, rfl, rfl⟩
    | some a =>
      obtain ⟨L2, e, hst, hlast, htp, htbc, hci, hcis, hup, hmem, hej, hnc, hef, hah, _⟩ :=
        luaD_reallocstack_some E L nsize false a ha
      rw [e] at hM
      simp at hM
      subst hM
      have hm : (if stacksize L ≤ nsize then stacksize L else nsize) =
          min (stacksize L) nsize := by
        split <;> omega
      rw [hm] at hmem
      refine ⟨by rw [htp, hst, htop]; omega, hci, hah, hef, hej, hnc, ?_⟩
      unfold stkat
      rw [hmem, Nat.add_sub_cancel_left, Nat.add_sub_cancel_left,
        erase_memcpy_getD E.H L.stackmem _ _ n (by omega) (by omega), if_pos (by omega)]
  have hin : n + 2 ≤ stackinuse E.H L := by
    unfold stackinuse
    dsimp only
    split <;> omega
  unfold luaD_shrinkstack
  dsimp only
  split_ifs with c1 c2 c3 c4
  all_goals first
    | exact ⟨htop, rfl, rfl, rfl, rfl, rfl, rfl⟩
    | exact key _ (by omega) _ rfl

/-- `luaD_seterrorobj` at the slot with offset `n`. -/
theorem luaD_seterrorobj_spec (E : Env) (L : lua_State) (errcode : Int) (n : Nat)
    (hslot : HasSlot E.H n L) (hstr : NewStringKeeps E) :
    ∃ L1, luaD_seterrorobj E L errcode (restorestack L n) = Ctl.ret () L1 ∧
      L1.top = L1.stack + n + 1 ∧ HasSlot E.H n L1 ∧ L1.ci = L.ci ∧
      L1.allowhook = L.allowhook ∧ L1.errfunc = L.errfunc ∧ L1.errorJmp = L.errorJmp ∧
      L1.nCcalls = L.nCcalls ∧
      (errcode = E.H.LUA_ERRMEM → s2v L1 (L1.stack + n) =
        { value_ := Value.gc L.memerrmsg, tt_ := ctb (gctt L L.memerrmsg) }) ∧
      (errcode ≠ E.H.LUA_ERRMEM → errcode = E.H.LUA_ERRERR →
        ∃ a Ls, E.luaS_newlstr L "error in error handling" = Ctl.ret a Ls ∧
          s2v L1 (L1.stack + n) = { value_ := Value.gc a, tt_ := ctb (gctt Ls a) }) ∧
      (errcode ≠ E.H.LUA_ERRMEM → errcode ≠ E.H.LUA_ERRERR → errcode ≠ E.H.LUA_OK →
        s2v L1 (L1.stack + n) = s2v L (L.top - 1)) := by
  obtain ⟨h1, h2⟩ := hslot
  have hin : ∀ M : lua_State, M.stack = L.stack → M.stackmem.length = L.stackmem.length →
      (M.stack + n - M.stack = M.stack + n - M.stack ∧
        M.stack + n - M.stack < M.stackmem.length) := by
    intro M e1 e2
    omega
  have e1 : ∀ (M : lua_State) (t q : Nat), s2v { M with top := t } q = s2v M q :=
    fun _ _ _ => rfl
  unfold luaD_seterrorobj restorestack
  by_cases c1 : errcode = E.H.LUA_ERRMEM
  · rw [if_pos c1]
    refine ⟨_, rfl, rfl, ⟨by simp [setsvalue2s]; exact h1, ?_⟩, rfl, rfl, rfl, rfl, rfl, ?_,
      fun h => absurd c1 h, fun h => absurd c1 h⟩
    · simp only [setsvalue2s, stkset_length]
      exact h2
    · intro _
      show s2v (setsvalue2s L (L.stack + n) L.memerrmsg) (L.stack + n) = _
      unfold setsvalue2s
      rw [s2v_stkset, if_pos (hin L rfl rfl)]
  · rw [if_neg c1]
    by_cases c2 : errcode = E.H.LUA_ERRERR
    · rw [if_pos c2]
      obtain ⟨a, Ls, hs, hLs⟩ := hstr L "error in error handling"
      have f1 : Ls.stack = L.stack := by rw [hLs]
      have f2 : Ls.stackmem = L.stackmem := by rw [hLs]
      have f3 : Ls.stack_last = L.stack_last := by rw [hLs]
      simp only [hs, Ctl.bind]
      refine ⟨_, rfl, ?_, ⟨?_, ?_⟩, ?_, ?_, ?_, ?_, ?_, fun h => absurd h c1, ?_,
        fun _ h => absurd c2 h⟩
      · show L.stack + n + 1 = Ls.stack + n + 1
        rw [f1]
      · simp only [setsvalue2s, stkset_length]
        rw [f2]; exact h1
      · simp only [setsvalue2s, stkset_length]
        rw [f2, h2]
        show _ = Ls.stack_last - Ls.stack + _
        rw [f3, f1]
        rfl
      · show Ls.ci = L.ci
        rw [hLs]
      · show Ls.allowhook = L.allowhook
        rw [hLs]
      · show Ls.errfunc = L.errfunc
        rw [hLs]
      · show Ls.errorJmp = L.errorJmp
        rw [hLs]
      · show Ls.nCcalls = L.nCcalls
        rw [hLs]
      · intro _ _
        refine ⟨a, Ls, rfl, ?_⟩
        show s2v (setsvalue2s Ls (L.stack + n) a) (Ls.stack + n) = _
        unfold setsvalue2s
        rw [s2v_stkset, f1, if_pos (by rw [f2]; omega)]
    · rw [if_neg c2]
      by_cases c3 : errcode = E.H.LUA_OK
      · rw [if_pos c3]
        refine ⟨_, rfl, rfl, ⟨by simp [setnilat]; exact h1, ?_⟩, rfl, rfl, rfl, rfl, rfl,
          fun h => absurd h c1, fun _ h => absurd h c2, fun _ _ h => absurd c3 h⟩
        simp only [setnilat, stkset_length]
        exact h2
      · rw [if_neg c3]
        refine ⟨_, rfl, rfl, ⟨by simp [setobjs2s]; exact h1, ?_⟩, rfl, rfl, rfl, rfl, rfl,
          fun h => absurd h c1, fun _ h => absurd h c2, ?_⟩
        · simp only [setobjs2s, stkset_length]
          exact h2
        · intro _ _ _
          show s2v (setobjs2s L (L.stack + n) (L.top - 1)) (L.stack + n) = _
          rw [s2v_setobjs2s, if_pos (hin L rfl rfl)]

theorem closeprotected_loop_spec (E : Env) (n : Nat) (old_ci old_ah level : Nat)
    (hclose : CloseKeeps E n) :
    ∀ fuel L status, status ≠ E.H.LUA_OK → HasSlot E.H n L → L.ci = old_ci →
      L.allowhook = old_ah → savestack L L.tbclist < fuel →
      ∃ st L5, closeprotected_loop E old_ci old_ah level fuel L status = Ctl.ret st L5 ∧
        st ≠ E.H.LUA_OK ∧ HasSlot E.H n L5 ∧ L5.ci = old_ci ∧ L5.allowhook = old_ah ∧
        L5.errorJmp = L.errorJmp ∧ L5.nCcalls = L.nCcalls ∧
        ((∃ L1, E.luaF_close { L with errorJmp := { status := E.H.LUA_OK } :: L.errorJmp }
            (restorestack L level) status 0 = Ctl.ret () L1) → st = status) := by
  intro fuel
  induction fuel with
  | zero => intro L status _ _ _ _ h; omega
  | succ fuel ih =>
    intro L status hs hslot hci hah hfuel
    unfold closeprotected_loop
    dsimp only
    rcases hclose { L with errorJmp := { status := E.H.LUA_OK } :: L.errorJmp }
      (restorestack L level) status hslot with
      ⟨L1, e1, k1, k2, k3, k4⟩ | ⟨Lt, errcode, e1, k0, k1, k2, k3⟩
    · have hr := luaD_rawrunprotected_ret E L (closepaux E (restorestack L level) status) L1
        { status := E.H.LUA_OK } e1 k1
      rw [hr]
      simp only [Ctl.bind, if_true]
      exact ⟨status, _, rfl, hs, k4, k2.trans hci, k3.trans hah, rfl, rfl, fun _ => rfl⟩
    · have hr := luaD_rawrunprotected_throw E L (closepaux E (restorestack L level) status) Lt
        errcode e1 k1
      rw [hr]
      simp only [Ctl.bind, if_neg k0]
      obtain ⟨st, L5, i1, i2, i3, i4, i5, i6, i7, _⟩ := ih
        { { Lt with errorJmp := L.errorJmp, nCcalls := L.nCcalls } with
          ci := old_ci, allowhook := old_ah } errcode k0 k3 rfl rfl
        (by
          have : savestack Lt Lt.tbclist <
            savestack L L.tbclist := k2
          exact Nat.lt_of_lt_of_le this (by omega))
      refine ⟨st, L5, i1, i2, i3, i4, i5, i6, i7, ?_⟩
      rintro ⟨L1, h⟩
      rw [e1] at h
      exact absurd h (luaD_throw_ne_ret _ _ _ _)

/-- C1: with `n` results in the slots `top-n .. top-1` and a destination `res ≤ top-n`,
`moveresults` with a plain count `wanted = k` returns normally, leaves in `res .. res+k-1` the
first `min n k` results in their order followed by `k - min n k` nil values and sets
`top = res+k`; with `wanted = LUA_MULTRET` it leaves all `n` results in order at
`res .. res+n-1` and sets `top = res+n`.  In both cases no slot below `res` changes. -/
theorem moveresults_adjusts (E : Env) (L : lua_State) (res n k : Nat)
    (hmr : E.H.LUA_MULTRET < 0)
    (hbase : L.stack ≤ res) (hres : res + n ≤ L.top)
    (htop : L.top - L.stack ≤ L.stackmem.length)
    (hroom : res + k - L.stack ≤ L.stackmem.length) :
    (∃ L1, moveresults E L res n (k : Int) = Ctl.ret () L1 ∧ L1.top = res + k ∧
      L1.stack = L.stack ∧
      (∀ i, i < min n k → s2v L1 (res + i) = s2v L (L.top - n + i)) ∧
      (∀ i, min n k ≤ i → i < k → ttisstrictnil E.H (s2v L1 (res + i)) = true) ∧
      (∀ q, L.stack ≤ q → q < res → s2v L1 q = s2v L q)) ∧
    (∃ L2, moveresults E L res n E.H.LUA_MULTRET = Ctl.ret () L2 ∧ L2.top = res + n ∧
      L2.stack = L.stack ∧
      (∀ i, i < n → s2v L2 (res + i) = s2v L (L.top - n + i)) ∧
      (∀ q, L.stack ≤ q → q < res → s2v L2 q = s2v L q)) := by
  constructor
  · exact moveresults_count E L res n k hmr hbase hres hroom
  · exact moveresults_multret E L res n hmr hbase hres htop

theorem moveresults_adjusts_witness :
    exEnv.H.LUA_MULTRET < 0 ∧ exState.stack ≤ 101 ∧ 101 + 3 ≤ exState.top ∧
    exState.top - exState.stack ≤ exState.stackmem.length ∧
    101 + 5 - exState.stack ≤ exState.stackmem.length ∧
    ∃ L1, moveresults exEnv exState 101 3 ((5 : Nat) : Int) = Ctl.ret () L1 ∧
      L1.top = 101 + 5 :=
  ⟨by decide, by decide, by decide, by decide, by decide,
    (moveresults_adjusts exEnv exState 101 3 5 (by decide) (by decide) (by decide)
      (by decide) (by decide)).1.imp (fun _ h => ⟨h.1, h.2.1⟩)⟩

/-- C2: when `luaD_growstack(L, n, raiseerror)` returns 1, and likewise when
`luaD_checkstack(L, n)` completes without raising, at least `n` slots are free between `top`
and `stack_last` afterwards and the offset of `top` from the stack base is unchanged. -/
theorem luaD_growstack_room (E : Env) (L : lua_State) (n : Int) (raiseerror : Bool)
    (hsize : stacksize L ≤ E.H.LUAI_MAXSTACK) :
    (∀ L1, luaD_growstack E L n raiseerror = Ctl.ret 1 L1 →
      (L1.stack_last : Int) - (L1.top : Int) ≥ n ∧ L1.top - L1.stack = L.top - L.stack) ∧
    (∀ L1, luaD_checkstack E L n = Ctl.ret () L1 →
      (L1.stack_last : Int) - (L1.top : Int) ≥ n ∧ L1.top - L1.stack = L.top - L.stack) := by
  have key : ∀ re L1, luaD_growstack E L n re = Ctl.ret 1 L1 →
      (L1.stack_last : Int) - (L1.top : Int) ≥ n ∧ L1.top - L1.stack = L.top - L.stack := by
    intro re L1 h
    by_cases hneeded : ((L.top - L.stack : Nat) : Int) + n ≤ (E.H.LUAI_MAXSTACK : Int)
    · rw [luaD_growstack_below E L n re hsize hneeded] at h
      rcases luaD_reallocstack_ret E L _ re 1 L1 h with ⟨_, a, ha⟩ | ⟨h0, _⟩
      · obtain ⟨L2, h2, hst, hlast, htop, _⟩ := luaD_reallocstack_some E L _ re a ha
        rw [h2] at h
        simp at h
        subst h
        rw [hst, hlast, htop]
        constructor
        · push_cast
          omega
        · omega
      · omega
    · rw [luaD_growstack_above E L n re hsize (by omega)] at h
      cases hr : luaD_reallocstack E L (ERRORSTACKSIZE E.H) re with
      | ret r L2 =>
        rw [hr] at h
        cases re with
        | true => simp [Ctl.bind] at h
        | false => simp [Ctl.bind] at h
      | jmp L2 => rw [hr] at h; simp [Ctl.bind] at h
      | unhandled e L2 => rw [hr] at h; simp [Ctl.bind] at h
      | runerror m L2 => rw [hr] at h; simp [Ctl.bind] at h
      | callerror o L2 => rw [hr] at h; simp [Ctl.bind] at h
      | outoffuel => rw [hr] at h; simp [Ctl.bind] at h
  refine ⟨key raiseerror, ?_⟩
  intro L1 h
  unfold luaD_checkstack at h
  by_cases hc : (L.stack_last : Int) - (L.top : Int) ≤ n
  · rw [if_pos hc] at h
    cases hg : luaD_growstack E L n true with
    | ret r L2 =>
      rw [hg] at h
      simp [Ctl.bind] at h
      subst h
      have hr : r = 1 := by
        by_cases hneeded : ((L.top - L.stack : Nat) : Int) + n ≤ (E.H.LUAI_MAXSTACK : Int)
        · rw [luaD_growstack_below E L n true hsize hneeded] at hg
          rcases luaD_reallocstack_ret E L _ true r L2 hg with ⟨h1, _⟩ | ⟨_, h0, _⟩
          · exact h1
          · simp at h0
        · rw [luaD_growstack_above E L n true hsize (by omega)] at hg
          cases hr : luaD_reallocstack E L (ERRORSTACKSIZE E.H) true with
          | ret r L3 => rw [hr] at hg; simp [Ctl.bind] at hg
          | jmp L3 => rw [hr] at hg; simp [Ctl.bind] at hg
          | unhandled e L3 => rw [hr] at hg; simp [Ctl.bind] at hg
          | runerror m L3 => rw [hr] at hg; simp [Ctl.bind] at hg
          | callerror o L3 => rw [hr] at hg; simp [Ctl.bind] at hg
          | outoffuel => rw [hr] at hg; simp [Ctl.bind] at hg
      subst hr
      exact key true L2 hg
    | jmp L2 => rw [hg] at h; simp [Ctl.bind] at h
    | unhandled e L2 => rw [hg] at h; simp [Ctl.bind] at h
    | runerror m L2 => rw [hg] at h; simp [Ctl.bind] at h
    | callerror o L2 => rw [hg] at h; simp [Ctl.bind] at h
    | outoffuel => rw [hg] at h; simp [Ctl.bind] at h
  · rw [if_neg hc] at h
    simp at h
    subst h
    constructor
    · omega
    · rfl

theorem luaD_growstack_room_witness :
    stacksize exState ≤ exEnv.H.LUAI_MAXSTACK ∧
    ∃ L1, luaD_growstack exEnv exState 4 true = Ctl.ret 1 L1 ∧
      (L1.stack_last : Int) - (L1.top : Int) ≥ 4 :=
  ⟨by decide, _, rfl, ((luaD_growstack_room exEnv exState 4 true (by decide)).1 _ rfl).1⟩

/-- C3: when `luaD_reallocstack(L, newsize, .)` returns 1 (which it does exactly when the
allocator delivers a block), the stack seen as an indexed sequence is preserved: every entry
with index below `min(oldsize, newsize) + EXTRA_STACK` keeps its content, every entry from
there up to `newsize + EXTRA_STACK` is nil, `stack_last` is at index `newsize`, and the offsets
from the stack base of `top`, of `tbclist`, of `func` and `top` of every frame from `L->ci`
down the chain of `previous`, and of the level of every open upvalue are the same as before,
so that `restorestack` of an offset saved before the call denotes the same slot. -/
theorem luaD_reallocstack_preserves (E : Env) (L : lua_State) (newsize : Nat)
    (raiseerror : Bool) (hlen : L.stackmem.length = stacksize L + E.H.EXTRA_STACK) :
    ((∃ L1, luaD_reallocstack E L newsize raiseerror = Ctl.ret 1 L1) ↔
      (E.luaM_newblock L (newsize + E.H.EXTRA_STACK)).isSome = true) ∧
    ∀ L1, luaD_reallocstack E L newsize raiseerror = Ctl.ret 1 L1 →
      (∀ j, j < min (stacksize L) newsize + E.H.EXTRA_STACK →
        stkat L1 (L1.stack + j) = stkat L (L.stack + j)) ∧
      (∀ j, min (stacksize L) newsize + E.H.EXTRA_STACK ≤ j →
        j < newsize + E.H.EXTRA_STACK →
        ttisstrictnil E.H (s2v L1 (L1.stack + j)) = true) ∧
      L1.stackmem.length = newsize + E.H.EXTRA_STACK ∧
      L1.stack_last = L1.stack + newsize ∧
      L1.top - L1.stack = L.top - L.stack ∧
      L1.tbclist - L1.stack = L.tbclist - L.stack ∧
      L1.ci = L.ci ∧ L1.cis.length = L.cis.length ∧
      (∀ ci, ci ≤ L.ci → ci < L.cis.length →
        (ciat L1 ci).func - L1.stack = (ciat L ci).func - L.stack ∧
        (ciat L1 ci).top - L1.stack = (ciat L ci).top - L.stack) ∧
      L1.openupval.map (fun (up : UpVal) => up.v - L1.stack) =
        L.openupval.map (fun (up : UpVal) => up.v - L.stack) ∧
      (∀ p, L.stack ≤ p → restorestack L1 (savestack L p) - L1.stack = p - L.stack) ∧
      (∀ p, L.stack ≤ p → p - L.stack < min (stacksize L) newsize + E.H.EXTRA_STACK →
        stkat L1 (restorestack L1 (savestack L p)) = stkat L p) := by
  constructor
  · constructor
    · rintro ⟨L1, h⟩
      rcases luaD_reallocstack_ret E L newsize raiseerror 1 L1 h with ⟨_, a, ha⟩ | ⟨h0, _⟩
      · simp [ha]
      · omega
    · intro h
      obtain ⟨a, ha⟩ := Option.isSome_iff_exists.mp h
      obtain ⟨L2, h2, _⟩ := luaD_reallocstack_some E L newsize raiseerror a ha
      exact ⟨L2, h2⟩
  · intro L1 h
    rcases luaD_reallocstack_ret E L newsize raiseerror 1 L1 h with ⟨_, a, ha⟩ | ⟨h0, _⟩
    swap
    · omega
    obtain ⟨L2, h2, hst, hlast, htop, htbc, hci, hcis, hup, hmem, _⟩ :=
      luaD_reallocstack_some E L newsize raiseerror a ha
    rw [h2] at h
    simp at h
    subst h
    have hm : (if stacksize L ≤ newsize then stacksize L else newsize) =
        min (stacksize L) newsize := by
      split <;> omega
    rw [hm] at hmem
    have hi1 : min (stacksize L) newsize + E.H.EXTRA_STACK ≤ L.stackmem.length := by omega
    have hi2 : min (stacksize L) newsize + E.H.EXTRA_STACK ≤ newsize + E.H.EXTRA_STACK := by
      omega
    have hslot : ∀ j, stkat L2 (L2.stack + j) =
        if j < min (stacksize L) newsize + E.H.EXTRA_STACK then L.stackmem.getD j default
        else if j < newsize + E.H.EXTRA_STACK then
          { (default : StackValue) with val := setnilvalue E.H (default : StackValue).val }
        else default := by
      intro j
      unfold stkat
      rw [hmem, Nat.add_sub_cancel_left]
      exact erase_memcpy_getD E.H L.stackmem _ _ j hi1 hi2
    have hsame : ∀ j, j < min (stacksize L) newsize + E.H.EXTRA_STACK →
        stkat L2 (L2.stack + j) = stkat L (L.stack + j) := by
      intro j hj
      rw [hslot, if_pos hj]
      unfold stkat
      rw [Nat.add_sub_cancel_left]
    refine ⟨hsame, ?_, ?_, ?_, ?_, ?_, hci, ?_, ?_, ?_, ?_, ?_⟩
    · intro j h1 h2
      unfold s2v
      rw [hslot, if_neg (by omega), if_pos h2]
      simp
    · rw [hmem]
      exact erase_memcpy_length E.H L.stackmem _ _ hi1 hi2
    · rw [hlast, hst]
    · rw [htop, hst]; omega
    · rw [htbc, hst]; omega
    · rw [hcis, correctcis_length]
    · intro ci h1 h2
      unfold ciat
      rw [hcis, correctcis_getD, if_pos ⟨h1, h2⟩, hst]
      obtain ⟨f1, f2, _⟩ := correctframe_fields E.H L.stack a (L.cis.getD ci default)
      rw [f1, f2]
      omega
    · rw [hup, hst, List.map_map]
      apply List.map_congr_left
      intro up _
      simp
    · intro p hp
      unfold restorestack savestack
      omega
    · intro p hp hlt
      have : restorestack L2 (savestack L p) = L2.stack + (p - L.stack) := rfl
      rw [this, hsame _ hlt]
      congr 1
      omega

theorem luaD_reallocstack_preserves_witness :
    exState.stackmem.length = stacksize exState + exEnv.H.EXTRA_STACK ∧
    ∃ L1, luaD_reallocstack exEnv exState 12 true = Ctl.ret 1 L1 ∧
      L1.top - L1.stack = exState.top - exState.stack :=
  ⟨by decide, _, rfl,
    ((luaD_reallocstack_preserves exEnv exState 12 true (by decide)).2 _ rfl).2.2.2.2.1⟩

/-- C4: for a stack of size at most `LUAI_MAXSTACK` and a request `n` with
`needed = (top - stack) + n ≤ LUAI_MAXSTACK`, `luaD_growstack` reallocates the stack to exactly
`max(min(2*size, LUAI_MAXSTACK), needed)` slots: it is the call of `luaD_reallocstack` with that
size, and when the allocator delivers a block it returns 1 with that stack size.  The new size
is never smaller than the old size and never exceeds `LUAI_MAXSTACK`. -/
theorem luaD_growstack_newsize (E : Env) (L : lua_State) (n : Int) (raiseerror : Bool)
    (hsize : stacksize L ≤ E.H.LUAI_MAXSTACK)
    (hneeded : ((L.top - L.stack : Nat) : Int) + n ≤ (E.H.LUAI_MAXSTACK : Int)) :
    luaD_growstack E L n raiseerror =
      luaD_reallocstack E L
        (max (min (2 * (stacksize L : Int)) (E.H.LUAI_MAXSTACK : Int))
          (((L.top - L.stack : Nat) : Int) + n)).toNat raiseerror ∧
    (stacksize L : Int) ≤
      max (min (2 * (stacksize L : Int)) (E.H.LUAI_MAXSTACK : Int))
        (((L.top - L.stack : Nat) : Int) + n) ∧
    max (min (2 * (stacksize L : Int)) (E.H.LUAI_MAXSTACK : Int))
        (((L.top - L.stack : Nat) : Int) + n) ≤ (E.H.LUAI_MAXSTACK : Int) ∧
    (∀ r L1, luaD_growstack E L n raiseerror = Ctl.ret r L1 → r = 1 →
      (stacksize L1 : Int) =
        max (min (2 * (stacksize L : Int)) (E.H.LUAI_MAXSTACK : Int))
          (((L.top - L.stack : Nat) : Int) + n)) ∧
    (∀ a, E.luaM_newblock L
        ((max (min (2 * (stacksize L : Int)) (E.H.LUAI_MAXSTACK : Int))
          (((L.top - L.stack : Nat) : Int) + n)).toNat + E.H.EXTRA_STACK) = some a →
      ∃ L1, luaD_growstack E L n raiseerror = Ctl.ret 1 L1 ∧ L1.stack = a ∧
        (stacksize L1 : Int) =
          max (min (2 * (stacksize L : Int)) (E.H.LUAI_MAXSTACK : Int))
            (((L.top - L.stack : Nat) : Int) + n)) := by
  have hcall := luaD_growstack_below E L n raiseerror hsize hneeded
  have hsz : ∀ a, E.luaM_newblock L
        ((max (min (2 * (stacksize L : Int)) (E.H.LUAI_MAXSTACK : Int))
          (((L.top - L.stack : Nat) : Int) + n)).toNat + E.H.EXTRA_STACK) = some a →
      ∃ L1, luaD_growstack E L n raiseerror = Ctl.ret 1 L1 ∧ L1.stack = a ∧
        (stacksize L1 : Int) =
          max (min (2 * (stacksize L : Int)) (E.H.LUAI_MAXSTACK : Int))
            (((L.top - L.stack : Nat) : Int) + n) := by
    intro a ha
    obtain ⟨L2, h2, hst, hlast, _⟩ := luaD_reallocstack_some E L _ raiseerror a ha
    refine ⟨L2, hcall.trans h2, hst, ?_⟩
    have hs2 : stacksize L2 = (max (min (2 * (stacksize L : Int)) (E.H.LUAI_MAXSTACK : Int))
          (((L.top - L.stack : Nat) : Int) + n)).toNat := by
      show L2.stack_last - L2.stack = _
      rw [hlast, hst, Nat.add_sub_cancel_left]
    rw [hs2]
    omega
  refine ⟨hcall, by omega, by omega, ?_, hsz⟩
  intro r L1 h hr
  subst hr
  rw [hcall] at h
  rcases luaD_reallocstack_ret E L _ raiseerror 1 L1 h with ⟨_, a, ha⟩ | ⟨h0, _⟩
  · obtain ⟨L2, h2, _, h3⟩ := hsz a ha
    rw [hcall, h] at h2
    simp at h2
    subst h2
    exact h3
  · omega

theorem luaD_growstack_newsize_witness :
    stacksize exState ≤ exEnv.H.LUAI_MAXSTACK ∧
    ((exState.top - exState.stack : Nat) : Int) + 4 ≤ (exEnv.H.LUAI_MAXSTACK : Int) ∧
    luaD_growstack exEnv exState 4 true = luaD_reallocstack exEnv exState 12 true :=
  ⟨by decide, by decide,
    (luaD_growstack_newsize exEnv exState 4 true (by decide) (by decide)).1⟩

/-- C5: `luaD_growstack` passes control to `luaG_runerror` only with the message
"stack overflow", only when it was called with `raiseerror` set, `size ≤ LUAI_MAXSTACK` and
`(top - stack) + n > LUAI_MAXSTACK`, and the stack has then already been reallocated to exactly
`ERRORSTACKSIZE = LUAI_MAXSTACK + 200` slots.  In that situation the error is indeed raised
when the allocator delivers the block, and with `raiseerror = 0` the call returns 0. -/
theorem luaD_growstack_overflow (E : Env) (L : lua_State) (n : Int) :
    (∀ re msg L1, luaD_growstack E L n re = Ctl.runerror msg L1 →
      msg = "stack overflow" ∧ re = true ∧ stacksize L ≤ E.H.LUAI_MAXSTACK ∧
      ((L.top - L.stack : Nat) : Int) + n > (E.H.LUAI_MAXSTACK : Int) ∧
      stacksize L1 = ERRORSTACKSIZE E.H ∧ ERRORSTACKSIZE E.H = E.H.LUAI_MAXSTACK + 200) ∧
    (stacksize L ≤ E.H.LUAI_MAXSTACK →
      ((L.top - L.stack : Nat) : Int) + n > (E.H.LUAI_MAXSTACK : Int) →
      (∃ L1, luaD_growstack E L n false = Ctl.ret 0 L1) ∧
      (∀ a, E.luaM_newblock L (ERRORSTACKSIZE E.H + E.H.EXTRA_STACK) = some a →
        ∃ L1, luaD_growstack E L n true = Ctl.runerror "stack overflow" L1 ∧
          stacksize L1 = ERRORSTACKSIZE E.H)) := by
  have hsz : ∀ re a L2, E.luaM_newblock L (ERRORSTACKSIZE E.H + E.H.EXTRA_STACK) = some a →
      luaD_reallocstack E L (ERRORSTACKSIZE E.H) re = Ctl.ret 1 L2 →
      stacksize L2 = ERRORSTACKSIZE E.H := by
    intro re a L2 ha h
    obtain ⟨L3, h3, hst, hlast, _⟩ := luaD_reallocstack_some E L _ re a ha
    rw [h3] at h
    simp at h
    subst h
    show L3.stack_last - L3.stack = _
    rw [hlast, hst, Nat.add_sub_cancel_left]
  constructor
  · intro re msg L1 h
    by_cases hsize : stacksize L ≤ E.H.LUAI_MAXSTACK
    · by_cases hneeded : ((L.top - L.stack : Nat) : Int) + n ≤ (E.H.LUAI_MAXSTACK : Int)
      · rw [luaD_growstack_below E L n re hsize hneeded] at h
        exact absurd h (luaD_reallocstack_ne_runerror _ _ _ _ _ _)
      · rw [luaD_growstack_above E L n re hsize (by omega)] at h
        cases hr : luaD_reallocstack E L (ERRORSTACKSIZE E.H) re with
        | ret r L2 =>
          rw [hr] at h
          cases re with
          | false => simp [Ctl.bind] at h
          | true =>
            simp [Ctl.bind] at h
            obtain ⟨hm, hL⟩ := h
            subst hL
            rcases luaD_reallocstack_ret E L _ true r L2 hr with ⟨h1, a, ha⟩ | ⟨_, h0, _⟩
            · subst h1
              exact ⟨hm.symm, rfl, hsize, by omega, hsz true a L2 ha hr, rfl⟩
            · simp at h0
        | jmp L2 => rw [hr] at h; simp [Ctl.bind] at h
        | unhandled e L2 => rw [hr] at h; simp [Ctl.bind] at h
        | runerror m L2 => exact absurd hr (luaD_reallocstack_ne_runerror _ _ _ _ _ _)
        | callerror o L2 => rw [hr] at h; simp [Ctl.bind] at h
        | outoffuel => rw [hr] at h; simp [Ctl.bind] at h
    · unfold luaD_growstack at h
      have h1 : stacksize L > E.H.LUAI_MAXSTACK := by omega
      simp only [h1, if_true] at h
      cases re with
      | true => simp at h; exact absurd h (luaD_throw_ne_runerror _ _ _ _)
      | false => simp at h
  · intro hsize hneeded
    constructor
    · rw [luaD_growstack_above E L n false hsize hneeded]
      cases ha : E.luaM_newblock L (ERRORSTACKSIZE E.H + E.H.EXTRA_STACK) with
      | none =>
        rw [luaD_reallocstack_none E L _ false ha]
        exact ⟨L, by simp [Ctl.bind]⟩
      | some a =>
        obtain ⟨L3, h3, _⟩ := luaD_reallocstack_some E L _ false a ha
        rw [h3]
        exact ⟨L3, by simp [Ctl.bind]⟩
    · intro a ha
      obtain ⟨L3, h3, _⟩ := luaD_reallocstack_some E L _ true a ha
      refine ⟨L3, ?_, hsz true a L3 ha h3⟩
      rw [luaD_growstack_above E L n true hsize hneeded, h3]
      simp [Ctl.bind]

theorem luaD_growstack_overflow_witness :
    ∃ L1, luaD_growstack exEnv exState 10 true = Ctl.runerror "stack overflow" L1 ∧
      stacksize exState ≤ exEnv.H.LUAI_MAXSTACK ∧ stacksize L1 = ERRORSTACKSIZE exEnv.H :=
  ⟨_, rfl,
    ((luaD_growstack_overflow exEnv exState 10).1 true _ _ rfl).2.2.1,
    ((luaD_growstack_overflow exEnv exState 10).1 true _ _ rfl).2.2.2.2.1⟩

/-- C6: when the stack size already exceeds `LUAI_MAXSTACK`, `luaD_growstack` performs no
reallocation and leaves the thread as it is, for every `n`: with `raiseerror` false it returns 0
in the unchanged state, with `raiseerror` true it throws `LUA_ERRERR` from the unchanged state
(the status is stored in the innermost recovery record and control jumps there). -/
theorem luaD_growstack_reserve (E : Env) (L : lua_State) (n : Int)
    (hsize : stacksize L > E.H.LUAI_MAXSTACK) :
    luaD_growstack E L n false = Ctl.ret 0 L ∧
    luaD_growstack E L n true = luaD_throw L E.H.LUA_ERRERR ∧
    (∀ lj previous, L.errorJmp = lj :: previous →
      luaD_growstack E L n true =
        Ctl.jmp { L with errorJmp := { lj with status := E.H.LUA_ERRERR } :: previous }) ∧
    (L.errorJmp = [] → luaD_growstack E L n true = Ctl.unhandled E.H.LUA_ERRERR L) := by
  have h1 : luaD_growstack E L n false = Ctl.ret 0 L := by
    unfold luaD_growstack
    simp only [hsize, if_true]
    simp
  have h2 : luaD_growstack E L n true = luaD_throw L E.H.LUA_ERRERR := by
    unfold luaD_growstack
    simp only [hsize, if_true]
  refine ⟨h1, h2, ?_, ?_⟩
  · intro lj previous hj
    rw [h2]
    unfold luaD_throw
    simp only [hj]
  · intro hj
    rw [h2]
    unfold luaD_throw
    simp only [hj]

theorem luaD_growstack_reserve_witness :
    stacksize exReserveState > exEnv.H.LUAI_MAXSTACK ∧
    luaD_growstack exEnv exReserveState 1 false = Ctl.ret 0 exReserveState :=
  ⟨by decide, (luaD_growstack_reserve exEnv exReserveState 1 (by decide)).1⟩

/-- C7: when the function run by `luaD_pcall(L, func, u, old_top, ef)` raises an error status,
`luaD_pcall` returns a status different from `LUA_OK` (the status returned by
`luaD_closeprotected`: the raised status when closing raises nothing), with `L->ci`,
`L->allowhook` and `L->errfunc` at their values at entry, `top` exactly one slot above the slot
at offset `old_top`, and in that slot the error object that `luaD_seterrorobj` builds from the
state in which closing ended (for a plain error status the value then on top of the stack).
When `func` completes normally `luaD_pcall` returns `LUA_OK` with `L->errfunc` restored. -/
theorem luaD_pcall_status (E : Env) (fuel : Nat) (L : lua_State) (func : lua_State → Ctl Unit)
    (old_top : Nat) (ef : Int)
    (hok : E.H.LUA_OK ≤ E.H.LUA_YIELD) (hclose : CloseKeeps E old_top)
    (hstr : NewStringKeeps E) :
    (∀ Lt s,
      func { L with errfunc := ef, errorJmp := { status := E.H.LUA_OK } :: L.errorJmp } =
        luaD_throw Lt s →
      Lt.errorJmp = { status := E.H.LUA_OK } :: L.errorJmp →
      errorstatus E.H s = true → HasSlot E.H old_top Lt → savestack Lt Lt.tbclist < fuel →
      ∃ st L5 L1,
        luaD_closeprotected E fuel
          { { Lt with errorJmp := L.errorJmp, nCcalls := L.nCcalls } with
            ci := L.ci, allowhook := L.allowhook } old_top s = Ctl.ret st L5 ∧
        luaD_pcall E fuel L func old_top ef = Ctl.ret st L1 ∧
        st ≠ E.H.LUA_OK ∧
        ((∃ Lc, E.luaF_close
            { { Lt with
                errorJmp := { status := E.H.LUA_OK } :: L.errorJmp, nCcalls := L.nCcalls } with
              ci := L.ci, allowhook := L.allowhook }
            (Lt.stack + old_top) s 0 = Ctl.ret () Lc) → st = s) ∧
        L1.ci = L.ci ∧ L1.allowhook = L.allowhook ∧ L1.errfunc = L.errfunc ∧
        L1.errorJmp = L.errorJmp ∧ L1.nCcalls = L.nCcalls ∧
        L1.top = L1.stack + old_top + 1 ∧
        (st = E.H.LUA_ERRMEM → s2v L1 (L1.stack + old_top) =
          { value_ := Value.gc L5.memerrmsg, tt_ := ctb (gctt L5 L5.memerrmsg) }) ∧
        (st ≠ E.H.LUA_ERRMEM → st = E.H.LUA_ERRERR →
          ∃ a Ls, E.luaS_newlstr L5 "error in error handling" = Ctl.ret a Ls ∧
            s2v L1 (L1.stack + old_top) = { value_ := Value.gc a, tt_ := ctb (gctt Ls a) }) ∧
        (st ≠ E.H.LUA_ERRMEM → st ≠ E.H.LUA_ERRERR →
          s2v L1 (L1.stack + old_top) = s2v L5 (L5.top - 1))) ∧
    (∀ L2,
      func { L with errfunc := ef, errorJmp := { status := E.H.LUA_OK } :: L.errorJmp } =
        Ctl.ret () L2 →
      L2.errorJmp = { status := E.H.LUA_OK } :: L.errorJmp →
      luaD_pcall E fuel L func old_top ef =
        Ctl.ret E.H.LUA_OK
          { L2 with errorJmp := L.errorJmp, nCcalls := L.nCcalls, errfunc := L.errfunc }) := by
  constructor
  · intro Lt s hf hchain hs hslot hfuel
    have hsne : s ≠ E.H.LUA_OK := by
      have : s > E.H.LUA_YIELD := by simpa [errorstatus] using hs
      omega
    have hr := luaD_rawrunprotected_throw E { L with errfunc := ef } func Lt s hf hchain
    obtain ⟨st, L5, i1, i2, i3, i4, i5, i6, i7, i8⟩ :=
      closeprotected_loop_spec E old_top L.ci L.allowhook old_top hclose fuel
        { { Lt with errorJmp := L.errorJmp, nCcalls := L.nCcalls } with
          ci := L.ci, allowhook := L.allowhook } s hsne hslot rfl rfl hfuel
    obtain ⟨L6, j1, j2, j3, j4, j5, j6, j7, j8, j9, j10, j11⟩ :=
      luaD_seterrorobj_spec E L5 st old_top i3 hstr
    obtain ⟨k1, k2, k3, k4, k5, k6, k7⟩ := luaD_shrinkstack_view E L6 old_top j3 j2
    have hk7 : s2v (luaD_shrinkstack E L6) ((luaD_shrinkstack E L6).stack + old_top) =
        s2v L6 (L6.stack + old_top) := by
      unfold s2v
      rw [k7]
    refine ⟨st, L5, { luaD_shrinkstack E L6 with errfunc := L.errfunc }, i1, ?_, i2,
      fun h => i8 h,
      k2.trans (j4.trans i4), k3.trans (j5.trans i5), rfl, k5.trans (j7.trans i6),
      k6.trans (j8.trans i7), k1, ?_, ?_, ?_⟩
    · unfold luaD_pcall
      have i1' : luaD_closeprotected E fuel
          { { { Lt with errorJmp := L.errorJmp, nCcalls := L.nCcalls } with ci := L.ci } with
            allowhook := L.allowhook } old_top s = Ctl.ret st L5 := i1
      simp only [hr, Ctl.bind, if_pos hsne, i1', j1]
    · intro h
      exact hk7.trans (j9 h)
    · intro h1 h2
      obtain ⟨a, Ls, e, h3⟩ := j10 h1 h2
      exact ⟨a, Ls, e, hk7.trans h3⟩
    · intro h1 h2
      exact hk7.trans (j11 h1 h2 i2)
  · intro L2 hf hchain
    have hr := luaD_rawrunprotected_ret E { L with errfunc := ef } func L2
      { status := E.H.LUA_OK } hf hchain
    unfold luaD_pcall
    simp only [hr, Ctl.bind, ne_eq, not_true_eq_false, if_false]

theorem luaD_pcall_status_witness :
    exEnvClose.H.LUA_OK ≤ exEnvClose.H.LUA_YIELD ∧ errorstatus exEnvClose.H 2 = true ∧
    CloseKeeps exEnvClose 3 ∧ NewStringKeeps exEnvClose ∧
    ∃ L1, luaD_pcall exEnvClose 2 exCloseState (fun s => luaD_throw s 2) 3 0 = Ctl.ret 5 L1 ∧
      L1.ci = exCloseState.ci ∧ L1.allowhook = exCloseState.allowhook ∧
      L1.errfunc = exCloseState.errfunc ∧ L1.top = L1.stack + 3 + 1 := by
  have hclose : CloseKeeps exEnvClose 3 := by
    intro L level status h
    by_cases hc : L.stack < L.tbclist
    · refine Or.inr ⟨{ L with tbclist := L.tbclist - 1 }, 5, ?_, by decide, rfl, ?_, h⟩
      · show (if L.stack < L.tbclist then _ else _) = _
        rw [if_pos hc]
      · show L.tbclist - 1 - L.stack < L.tbclist - L.stack
        omega
    · refine Or.inl ⟨L, ?_, rfl, rfl, rfl, h⟩
      show (if L.stack < L.tbclist then _ else _) = _
      rw [if_neg hc]
  have hstr : NewStringKeeps exEnvClose := fun L _ => ⟨0, L, rfl, rfl⟩
  obtain ⟨st, L5, L1, e5, e1, _, _, c1, c2, c3, _, _, t1, _⟩ :=
    (luaD_pcall_status exEnvClose 2 exCloseState (fun s => luaD_throw s 2) 3 0 (by decide)
      hclose hstr).1
      { exCloseState with errfunc := 0, errorJmp := [{ status := exEnvClose.H.LUA_OK }] } 2
      rfl rfl (by decide) (by decide) (by decide)
  have h5 : st = 5 := by
    have : Ctl.ret (5 : Int) { exCloseState with tbclist := 100 } = Ctl.ret st L5 := e5
    simp at this
    exact this.1.symm
  subst h5
  exact ⟨by decide, by decide, hclose, hstr, L1, e1, c1, c2, c3, t1⟩

/-- C8: `luaD_rawrunprotected(L, f, ud)` returns `LUA_OK` when `f` returns normally, and
returns exactly the code passed to the `luaD_throw` raised inside `f` when no nearer recovery
point is on the chain at the throw.  In every case that it returns, `L->errorJmp` and
`L->nCcalls` have their values from before the call.  A throw inside a nested
`luaD_rawrunprotected` is delivered to the inner call, and the outer call returns `LUA_OK` when
`f` then returns. -/
theorem luaD_rawrunprotected_status (E : Env) (L : lua_State) :
    (∀ f L2,
      f { L with errorJmp := { status := E.H.LUA_OK } :: L.errorJmp } = Ctl.ret () L2 →
      L2.errorJmp = { status := E.H.LUA_OK } :: L.errorJmp →
      luaD_rawrunprotected E L f =
        Ctl.ret E.H.LUA_OK { L2 with errorJmp := L.errorJmp, nCcalls := L.nCcalls }) ∧
    (∀ f Lt errcode,
      f { L with errorJmp := { status := E.H.LUA_OK } :: L.errorJmp } = luaD_throw Lt errcode →
      Lt.errorJmp = { status := E.H.LUA_OK } :: L.errorJmp →
      luaD_rawrunprotected E L f =
        Ctl.ret errcode { Lt with errorJmp := L.errorJmp, nCcalls := L.nCcalls }) ∧
    (∀ f st L3, luaD_rawrunprotected E L f = Ctl.ret st L3 →
      L3.errorJmp = L.errorJmp ∧ L3.nCcalls = L.nCcalls) ∧
    (∀ g Lt errcode,
      g { L with errorJmp := { status := E.H.LUA_OK } :: { status := E.H.LUA_OK } :: L.errorJmp }
        = luaD_throw Lt errcode →
      Lt.errorJmp = { status := E.H.LUA_OK } :: { status := E.H.LUA_OK } :: L.errorJmp →
      luaD_rawrunprotected E { L with errorJmp := { status := E.H.LUA_OK } :: L.errorJmp } g =
        Ctl.ret errcode
          { Lt with errorJmp := { status := E.H.LUA_OK } :: L.errorJmp, nCcalls := L.nCcalls } ∧
      luaD_rawrunprotected E L
          (fun s => (luaD_rawrunprotected E s g).bind fun _ s1 => Ctl.ret () s1) =
        Ctl.ret E.H.LUA_OK { Lt with errorJmp := L.errorJmp, nCcalls := L.nCcalls }) := by
  refine ⟨?_, ?_, ?_, ?_⟩
  · intro f L2 hf hchain
    exact luaD_rawrunprotected_ret E L f L2 { status := E.H.LUA_OK } hf hchain
  · intro f Lt errcode hf hchain
    exact luaD_rawrunprotected_throw E L f Lt errcode hf hchain
  · intro f st L3 h
    exact luaD_rawrunprotected_restores E L f st L3 h
  · intro g Lt errcode hg hchain
    have hin := luaD_rawrunprotected_throw E
      { L with errorJmp := { status := E.H.LUA_OK } :: L.errorJmp } g Lt errcode hg hchain
    refine ⟨hin, ?_⟩
    have hout := luaD_rawrunprotected_ret E L
      (fun s => (luaD_rawrunprotected E s g).bind fun _ s1 => Ctl.ret () s1)
      { Lt with errorJmp := { status := E.H.LUA_OK } :: L.errorJmp, nCcalls := L.nCcalls }
      { status := E.H.LUA_OK } (by simp only [hin, Ctl.bind]) rfl
    exact hout

theorem luaD_rawrunprotected_status_witness :
    luaD_rawrunprotected exEnv exState (fun s => luaD_throw { s with nCcalls := 7 } 2) =
      Ctl.ret 2 exState ∧
    luaD_rawrunprotected exEnv exState
        (fun s => (luaD_rawrunprotected exEnv s
          (fun s1 => luaD_throw { s1 with nCcalls := 9 } 2)).bind fun _ s1 => Ctl.ret () s1) =
      Ctl.ret 0 exState :=
  ⟨(luaD_rawrunprotected_status exEnv exState).2.1
      (fun s => luaD_throw { s with nCcalls := 7 } 2)
      { exState with errorJmp := [{ status := exEnv.H.LUA_OK }], nCcalls := 7 } 2 rfl rfl,
    ((luaD_rawrunprotected_status exEnv exState).2.2.2
      (fun s1 => luaD_throw { s1 with nCcalls := 9 } 2)
      { exState with
        errorJmp := [{ status := exEnv.H.LUA_OK }, { status := exEnv.H.LUA_OK }], nCcalls := 9 }
      2 rfl rfl).2⟩

/-- C9: for a Lua closure at slot `func` with `numparams = p` and `maxstacksize = fsize`, called
with `narg = top - func - 1` arguments, `luaD_precall` returns a new frame that becomes `L->ci`
(the frame after the caller's), with `ci.func = func`, `ci.top = func + 1 + fsize ≤ stack_last`,
`ci.nresults = nresults`, `callstatus = 0` and `savedpc` at the start of the code.  The
function and its `narg` arguments are unchanged, the slots `func+1+narg .. func+p` are nil,
and `top = func + 1 + max(narg, p)`, so that excess arguments stay on the stack.  (`func` is
taken at its offset: the stack check may have moved the block.) -/
theorem luaD_precall_lua (E : Env) (fuel : Nat) (L : lua_State) (func : Nat) (nresults : Int)
    (a : Nat) (p : Proto)
    (hlab : LUA_VCCL E.H ≠ LUA_VLCL E.H ∧ LUA_VLCF E.H ≠ LUA_VLCL E.H)
    (htag : ttypetag (s2v L func) = LUA_VLCL E.H)
    (hval : (s2v L func).value_ = Value.gc a)
    (hcl : L.heap.get? a = some (GCObject.LClosure p))
    (hwf : WellFormed E.H L) (hfunc : L.stack ≤ func ∧ func < L.top)
    (hsize : stacksize L ≤ E.H.LUAI_MAXSTACK)
    (hneeded : (L.top - L.stack) + p.maxstacksize ≤ E.H.LUAI_MAXSTACK)
    (hparams : p.numparams ≤ p.maxstacksize)
    (hgc : CollectorKeeps E) (halloc : AllocSucceeds E) :
    ∃ L1 func1, luaD_precall E (fuel + 1) L func nresults = Ctl.ret (some (L.ci + 1)) L1 ∧
      L1.ci = L.ci + 1 ∧ L1.stack ≤ func1 ∧ func1 - L1.stack = func - L.stack ∧
      (ciat L1 L1.ci).func = func1 ∧
      (ciat L1 L1.ci).top = func1 + 1 + p.maxstacksize ∧
      (ciat L1 L1.ci).top ≤ L1.stack_last ∧
      (ciat L1 L1.ci).nresults = nresults ∧
      (ciat L1 L1.ci).callstatus = 0 ∧
      (ciat L1 L1.ci).savedpc = p.code ∧
      (∀ i, i ≤ L.top - func - 1 → s2v L1 (func1 + i) = s2v L (func + i)) ∧
      (∀ i, L.top - func - 1 < i → i ≤ p.numparams →
        ttisstrictnil E.H (s2v L1 (func1 + i)) = true) ∧
      L1.top = func1 + 1 + max (L.top - func - 1) p.numparams := by
  obtain ⟨w1, w2, w3, w4⟩ := hwf
  have hp : clLvalue_p L (s2v L func) = p := by
    unfold clLvalue_p
    simp only [hval, hcl]
  obtain ⟨L2, e2, ⟨x1, x2, x3, x4⟩, ⟨v1, v2, v3, v4⟩, hroom⟩ :=
    checkstackGCp_view E L (p.maxstacksize : Int) func ⟨w1, w2, w3, w4⟩ hsize
      (by omega) (by omega) hgc halloc.1 hfunc.1
  obtain ⟨L3, e3, c1, c2, c3, c4, c5, c6, _, s1, s2, s3, s4, _⟩ :=
    prepCallInfo_spec E L2 (L2.stack + (func - L.stack)) nresults 0
      (L2.stack + (func - L.stack) + 1 + p.maxstacksize) x4 halloc.2
  have hss : stacksize L2 = L2.stack_last - L2.stack := rfl
  obtain ⟨Lf, hLf⟩ : ∃ Lf, Lf =
      ciset L3 (L2.ci + 1) { ciat L3 (L2.ci + 1) with savedpc := p.code } := ⟨_, rfl⟩
  have hsp : Lf.top = L2.top := by rw [hLf]; exact s3
  have hst : Lf.stack = L2.stack := by rw [hLf]; exact s1
  have hmem : Lf.stackmem = L2.stackmem := by rw [hLf]; exact s2
  have hlast : Lf.stack_last = L2.stack_last := by rw [hLf]; exact s4
  have hfci : Lf.ci = L2.ci + 1 := by rw [hLf]; exact c1
  have hfr : ciat Lf (L2.ci + 1) = { ciat L3 (L2.ci + 1) with savedpc := p.code } := by
    rw [hLf, ciat_ciset, if_pos ⟨rfl, by omega⟩]
  have hcount : ((p.numparams : Int) - (((L.top : Int) - (func : Int)) - 1)).toNat =
      p.numparams - (L.top - func - 1) := by omega
  obtain ⟨f1, f2, f3, f4, f5, f6⟩ := fillparams_spec E.H Lf
    (p.numparams - (L.top - func - 1)) (by rw [hst, hsp]; exact x1)
    (by rw [hst, hsp, hmem, x3]; omega)
  have hrun : luaD_precall E (fuel + 1) L func nresults =
      Ctl.ret (some (L.ci + 1)) (fillparams E.H Lf (p.numparams - (L.top - func - 1))) := by
    unfold luaD_precall
    rw [if_neg (by rw [htag]; exact fun h => hlab.1 h.symm),
      if_neg (by rw [htag]; exact fun h => hlab.2 h.symm), if_pos htag]
    simp only [hp, e2, Ctl.bind, e3, hcount, v3, hLf]
  have hfr2 : ciat (fillparams E.H Lf (p.numparams - (L.top - func - 1))) (L2.ci + 1) =
      { ciat L3 (L2.ci + 1) with savedpc := p.code } := by
    rw [← hfr]
    unfold ciat
    rw [f3]
  refine ⟨_, L2.stack + (func - L.stack), hrun, ?_, ?_, ?_, ?_, ?_, ?_, ?_, ?_, ?_, ?_, ?_, ?_⟩
  · rw [f4, hfci, v3]
  · rw [f2, hst]; omega
  · rw [f2, hst]; omega
  · rw [f4, hfci, hfr2]; exact c3
  · rw [f4, hfci, hfr2]; exact c6
  · rw [f4, hfci, hfr2, f5, hlast]
    show (ciat L3 (L2.ci + 1)).top ≤ L2.stack_last
    rw [c6]
    omega
  · rw [f4, hfci, hfr2]; exact c4
  · rw [f4, hfci, hfr2]; exact c5
  · rw [f4, hfci, hfr2]
  · intro i hi
    rw [f6 _ (by rw [hst]; omega), hsp, if_neg (by omega)]
    have e : ∀ q, s2v Lf q = s2v L2 q := by
      intro q
      unfold s2v stkat
      rw [hmem, hst]
    rw [e]
    have := v2 (func - L.stack + i) (by omega)
    unfold s2v
    rw [show func + i = L.stack + (func - L.stack + i) by omega,
      show L2.stack + (func - L.stack) + i = L2.stack + (func - L.stack + i) by omega, this]
  · intro i h1 h2
    rw [f6 _ (by rw [hst]; omega), hsp, if_pos (by omega)]
    simp
  · rw [f1, hsp]
    omega

theorem luaD_precall_lua_witness :
    ttypetag (s2v exCallState 102) = LUA_VLCL exEnv.H ∧
    WellFormed exEnv.H exCallState ∧ CollectorKeeps exEnv ∧ AllocSucceeds exEnv ∧
    ∃ L1, luaD_precall exEnv 1 exCallState 102 1 = Ctl.ret (some 1) L1 ∧ L1.ci = 1 :=
  ⟨by decide, ⟨by decide, by decide, by decide, by decide⟩, exEnv_collector, exEnv_alloc,
    (luaD_precall_lua exEnv 0 exCallState 102 1 0
      { numparams := 3, is_vararg := 0, maxstacksize := 4, code := 500 }
      ⟨by decide, by decide⟩ (by decide) rfl rfl
      ⟨by decide, by decide, by decide, by decide⟩ ⟨by decide, by decide⟩ (by decide)
      (by decide) (by decide) exEnv_collector exEnv_alloc).elim
      fun L1 h => h.elim fun _ h2 => ⟨L1, h2.1, h2.2.1⟩⟩

/-- `precallC` up to the call of the C function: the function is run in a state `L3` whose
current frame is a fresh C frame, and `luaD_poscall` finishes the call. -/
theorem precallC_run (E : Env) (L : lua_State) (func : Nat) (nresults : Int) (fn : Nat)
    (hwf : WellFormed E.H L) (hfunc : L.stack ≤ func ∧ func < L.top)
    (hsize : stacksize L ≤ E.H.LUAI_MAXSTACK)
    (hneeded : (L.top - L.stack) + E.H.LUA_MINSTACK ≤ E.H.LUAI_MAXSTACK)
    (hhook : L.hookmask = 0)
    (hgc : CollectorKeeps E) (halloc : AllocSucceeds E) :
    ∃ L3 func3,
      precallC E L func nresults fn =
        ((E.cfunc fn L3).bind fun n L4 =>
          (luaD_poscall E L4 (L.ci + 1) n).bind fun _ L5 => Ctl.ret n L5) ∧
      L3.ci = L.ci + 1 ∧ L3.stack ≤ func3 ∧ func3 - L3.stack = func - L.stack ∧
      (ciat L3 L3.ci).func = func3 ∧
      (ciat L3 L3.ci).callstatus = E.H.CIST_C ∧
      (ciat L3 L3.ci).top = L3.top + E.H.LUA_MINSTACK ∧
      (ciat L3 L3.ci).top ≤ L3.stack_last ∧
      (ciat L3 L3.ci).nresults = nresults ∧
      L3.top - L3.stack = L.top - L.stack ∧
      (∀ i, func + i < L.top → s2v L3 (func3 + i) = s2v L (func + i)) ∧
      WellFormed E.H L3 ∧ L3.hookmask = 0 := by
  obtain ⟨L2, e2, ⟨x1, x2, x3, x4⟩, ⟨v1, v2, v3, v4⟩, hroom⟩ :=
    checkstackGCp_view E L (E.H.LUA_MINSTACK : Int) func hwf hsize
      (by omega) (by omega) hgc halloc.1 hfunc.1
  obtain ⟨L3, e3, c1, c2, c3, c4, c5, c6, _, s1, s2, s3, s4, s5, _⟩ :=
    prepCallInfo_spec E L2 (L2.stack + (func - L.stack)) nresults E.H.CIST_C
      (L2.top + E.H.LUA_MINSTACK) x4 halloc.2
  have hm : L3.hookmask &&& E.H.LUA_MASKCALL = 0 := by
    rw [s5, v4, hhook]
    simp
  refine ⟨L3, L2.stack + (func - L.stack), ?_, by rw [c1, v3], by rw [s1]; omega,
    by rw [s1]; omega, by rw [c1]; exact c3, by rw [c1]; exact c5, by rw [c1, s3]; exact c6,
    ?_, by rw [c1]; exact c4, by rw [s3, s1]; exact v1, ?_,
    ⟨by rw [s1, s3]; exact x1, by rw [s3, s4]; exact x2,
      by rw [s2, x3]; show _ = L3.stack_last - L3.stack + _; rw [s4, s1]; rfl, c2⟩,
    by rw [s5, v4, hhook]⟩
  · unfold precallC
    simp only [e2, Ctl.bind, e3, hm, ne_eq, not_true_eq_false, if_false, v3]
  · rw [c1, c6, s4]
    omega
  · intro i hi
    have := v2 (func - L.stack + i) (by omega)
    unfold s2v stkat
    unfold stkat at this
    rw [s2, s1]
    rw [show func + i = L.stack + (func - L.stack + i) by omega,
      show L2.stack + (func - L.stack) + i = L2.stack + (func - L.stack + i) by omega, this]

/-- `luaD_poscall` without hooks and without to-be-closed variables. -/
theorem luaD_poscall_plain (E : Env) (L : lua_State) (ci n : Nat) (hhook : L.hookmask = 0) :
    luaD_poscall E L ci n =
      (moveresults E L (ciat L ci).func n (ciat L ci).nresults).bind fun _ L2 =>
        Ctl.ret () { L2 with ci := ci - 1 } := by
  unfold luaD_poscall
  simp [hhook, Ctl.bind]

/-- C10: for a C closure or a light C function at slot `func`, `luaD_precall` runs the function
in a state `L3` whose current frame is fresh (the frame after the caller's, with `callstatus`
`CIST_C`, `func` at the offset of the original `func` and frame top `L->top + LUA_MINSTACK`)
and then finishes the call with `luaD_poscall`.  When the function returns `n` values (leaving
its frame's `func` and `nresults` as they were, with no hook installed), `luaD_precall` returns
`NULL`, `L->ci` is again the caller's frame, and the `n` values are adjusted to `nresults`
starting at the original `func` slot: for a plain count `k` the first `min n k` values followed
by nil up to `k` slots with `top = func + k`, for `LUA_MULTRET` all `n` values with
`top = func + n`. -/
theorem luaD_precall_C (E : Env) (fuel : Nat) (L : lua_State) (func : Nat) (nresults : Int)
    (fn : Nat)
    (hkind : (ttypetag (s2v L func) = LUA_VCCL E.H ∧ fn = clCvalue_f L (s2v L func)) ∨
      (ttypetag (s2v L func) = LUA_VLCF E.H ∧ LUA_VLCF E.H ≠ LUA_VCCL E.H ∧
        fn = fvalue (s2v L func)))
    (hwf : WellFormed E.H L) (hfunc : L.stack ≤ func ∧ func < L.top)
    (hsize : stacksize L ≤ E.H.LUAI_MAXSTACK)
    (hneeded : (L.top - L.stack) + E.H.LUA_MINSTACK ≤ E.H.LUAI_MAXSTACK)
    (hhook : L.hookmask = 0) (hmr : E.H.LUA_MULTRET < 0)
    (hgc : CollectorKeeps E) (halloc : AllocSucceeds E) :
    ∃ L3 func3,
      luaD_precall E (fuel + 1) L func nresults =
        ((E.cfunc fn L3).bind fun n L4 =>
          (luaD_poscall E L4 (L.ci + 1) n).bind fun _ L5 => Ctl.ret none L5) ∧
      L3.ci = L.ci + 1 ∧ L3.stack ≤ func3 ∧ func3 - L3.stack = func - L.stack ∧
      (ciat L3 L3.ci).func = func3 ∧
      (ciat L3 L3.ci).callstatus = E.H.CIST_C ∧
      (ciat L3 L3.ci).top = L3.top + E.H.LUA_MINSTACK ∧
      (ciat L3 L3.ci).top ≤ L3.stack_last ∧
      (ciat L3 L3.ci).nresults = nresults ∧
      L3.top - L3.stack = L.top - L.stack ∧
      (∀ i, func + i < L.top → s2v L3 (func3 + i) = s2v L (func + i)) ∧
      WellFormed E.H L3 ∧ L3.hookmask = 0 ∧
      ∀ n L4, E.cfunc fn L3 = Ctl.ret n L4 → L4.hookmask = 0 →
        (ciat L4 (L.ci + 1)).func = L4.stack + (func - L.stack) →
        (ciat L4 (L.ci + 1)).nresults = nresults →
        L4.stack + (func - L.stack) + n ≤ L4.top →
        L4.top - L4.stack ≤ L4.stackmem.length →
        (∀ k : Nat, nresults = (k : Int) →
          (func - L.stack) + k ≤ L4.stackmem.length →
          ∃ L5, luaD_precall E (fuel + 1) L func nresults = Ctl.ret none L5 ∧
            L5.ci = L.ci ∧ L5.stack = L4.stack ∧
            L5.top = L5.stack + (func - L.stack) + k ∧
            (∀ i, i < min n k →
              s2v L5 (L5.stack + (func - L.stack) + i) = s2v L4 (L4.top - n + i)) ∧
            (∀ i, min n k ≤ i → i < k →
              ttisstrictnil E.H (s2v L5 (L5.stack + (func - L.stack) + i)) = true)) ∧
        (nresults = E.H.LUA_MULTRET →
          ∃ L5, luaD_precall E (fuel + 1) L func nresults = Ctl.ret none L5 ∧
            L5.ci = L.ci ∧ L5.stack = L4.stack ∧
            L5.top = L5.stack + (func - L.stack) + n ∧
            (∀ i, i < n →
              s2v L5 (L5.stack + (func - L.stack) + i) = s2v L4 (L4.top - n + i))) := by
  obtain ⟨L3, func3, hrun, r1, r2, r3, r4, r5, r6, r7, r8, r9, r10, r11, r12⟩ :=
    precallC_run E L func nresults fn hwf hfunc hsize hneeded hhook hgc halloc
  have hpre : luaD_precall E (fuel + 1) L func nresults =
      ((E.cfunc fn L3).bind fun n L4 =>
        (luaD_poscall E L4 (L.ci + 1) n).bind fun _ L5 => Ctl.ret none L5) := by
    have hb : ∀ x : Ctl Nat, (x.bind fun n L4 =>
        (luaD_poscall E L4 (L.ci + 1) n).bind fun _ L5 => Ctl.ret n L5).bind
          (fun _ L1 => (Ctl.ret none L1 : Ctl (Option Nat))) =
        x.bind fun n L4 =>
          (luaD_poscall E L4 (L.ci + 1) n).bind fun _ L5 => Ctl.ret none L5 := by
      intro x
      cases x with
      | ret n L4 =>
        simp only [Ctl.bind]
        cases luaD_poscall E L4 (L.ci + 1) n <;> rfl
      | _ => rfl
    unfold luaD_precall
    rcases hkind with ⟨ht, hf⟩ | ⟨ht, hne, hf⟩
    · rw [if_pos ht, ← hf, hrun]
      exact hb _
    · rw [if_neg (by rw [ht]; exact hne), if_pos ht, ← hf, hrun]
      exact hb _
  refine ⟨L3, func3, hpre, r1, r2, r3, r4, r5, r6, r7, r8, r9, r10, r11, r12, ?_⟩
  intro n L4 hf hh4 hfk hnr hres htop
  have hpos := luaD_poscall_plain E L4 (L.ci + 1) n hh4
  rw [hfk, hnr] at hpos
  constructor
  · intro k hk hroom
    obtain ⟨L5, m1, m2, m3, m4, m5, _⟩ :=
      moveresults_count E L4 (L4.stack + (func - L.stack)) n k hmr (by omega) hres (by omega)
    refine ⟨{ L5 with ci := L.ci + 1 - 1 }, ?_, by simp, m3, ?_, ?_, ?_⟩
    · rw [hpre, hf]
      simp only [Ctl.bind, hpos, hk, m1]
    · show L5.top = L5.stack + _ + k
      rw [m2, m3]
    · intro i hi
      show s2v L5 (L5.stack + (func - L.stack) + i) = _
      rw [m3]
      exact m4 i hi
    · intro i h1 h2
      show ttisstrictnil E.H (s2v L5 (L5.stack + (func - L.stack) + i)) = true
      rw [m3]
      exact m5 i h1 h2
  · intro hk
    obtain ⟨L5, m1, m2, m3, m4, _⟩ := moveresults_multret E L4 (L4.stack + (func - L.stack)) n
      hmr (by omega) hres htop
    refine ⟨{ L5 with ci := L.ci + 1 - 1 }, ?_, by simp, m3, ?_, ?_⟩
    · rw [hpre, hf]
      simp only [Ctl.bind, hpos, hk, m1]
    · show L5.top = L5.stack + _ + n
      rw [m2, m3]
    · intro i hi
      show s2v L5 (L5.stack + (func - L.stack) + i) = _
      rw [m3]
      exact m4 i hi

theorem luaD_precall_C_witness :
    ttypetag (s2v exCCallState 102) = LUA_VLCF exEnv.H ∧
    WellFormed exEnv.H exCCallState ∧ exCCallState.hookmask = 0 ∧
    CollectorKeeps exEnv ∧ AllocSucceeds exEnv ∧
    ∃ L5, luaD_precall exEnv 1 exCCallState 102 3 = Ctl.ret none L5 ∧
      L5.ci = exCCallState.ci ∧ L5.top = L5.stack + (102 - exCCallState.stack) + 3 := by
  refine ⟨by decide, ⟨by decide, by decide, by decide, by decide⟩, rfl, exEnv_collector,
    exEnv_alloc, ?_⟩
  obtain ⟨L3, func3, _, r1, r2, r3, r4, _, r6, r7, r8, r9, _, ⟨w1, w2, w3, _⟩, r12,
      hpost⟩ :=
    luaD_precall_C exEnv 0 exCCallState 102 3 1
      (Or.inr ⟨by decide, by decide, rfl⟩)
      ⟨by decide, by decide, by decide, by decide⟩ ⟨by decide, by decide⟩ (by decide)
      (by decide) rfl (by decide) exEnv_collector exEnv_alloc
  have hss : stacksize L3 = L3.stack_last - L3.stack := rfl
  have h9 : L3.top - L3.stack = 4 := r9
  have h3 : func3 - L3.stack = 2 := r3
  have h6 : (ciat L3 (exCCallState.ci + 1)).top = L3.top + 3 := by rw [← r1]; exact r6
  have h7 : (ciat L3 (exCCallState.ci + 1)).top ≤ L3.stack_last := by rw [← r1]; exact r7
  have hE : exEnv.H.EXTRA_STACK = 2 := rfl
  obtain ⟨L5, e5, c5, _, t5, _⟩ := (hpost 1
    { setobj2s L3 L3.top (exSlot 42).val with top := L3.top + 1 } rfl r12
    (by
      show (ciat L3 (exCCallState.ci + 1)).func = L3.stack + _
      rw [← r1, r4]
      show func3 = L3.stack + 2
      omega)
    (by rw [← r1]; exact r8)
    (by
      show L3.stack + 2 + 1 ≤ L3.top + 1
      omega)
    (by
      show L3.top + 1 - L3.stack ≤ (setobj2s L3 L3.top (exSlot 42).val).stackmem.length
      simp only [setobj2s, stkset_length]
      omega)).1 3 rfl
    (by
      show 2 + 3 ≤ (setobj2s L3 L3.top (exSlot 42).val).stackmem.length
      simp only [setobj2s, stkset_length]
      omega)
  exact ⟨L5, e5, c5, t5⟩

/-! ### Call metamethods -/

/-- The loop that opens a slot moves the `count` entries below `p` up by one and leaves the
rest of the thread as it is. -/
theorem openspace_spec (L : lua_State) (p count : Nat) (hcount : count ≤ p - L.stack)
    (hp : p - L.stack < L.stackmem.length) :
    (openspace L p count).stack = L.stack ∧ (openspace L p count).top = L.top ∧
    (openspace L p count).stackmem.length = L.stackmem.length ∧
    (openspace L p count).ci = L.ci ∧ (openspace L p count).cis = L.cis ∧
    ∀ q, L.stack ≤ q →
      s2v (openspace L p count) q = if p - count < q ∧ q ≤ p then s2v L (q - 1) else s2v L q := by
  induction count generalizing L p with
  | zero =>
    refine ⟨rfl, rfl, rfl, rfl, rfl, ?_⟩
    intro q _
    have : ¬ (p - 0 < q ∧ q ≤ p) := by omega
    simp only [openspace]
    rw [if_neg this]
  | succ c ih =>
    simp only [openspace]
    have hst : (setobjs2s L p (p - 1)).stack = L.stack := rfl
    have hlen : (setobjs2s L p (p - 1)).stackmem.length = L.stackmem.length := by
      simp [setobjs2s]
    obtain ⟨h1, h2, h3, h4, h5, h6⟩ := ih (setobjs2s L p (p - 1)) (p - 1)
      (by rw [hst]; omega) (by rw [hst, hlen]; omega)
    refine ⟨h1.trans rfl, h2.trans rfl, h3.trans hlen, h4.trans rfl, h5.trans rfl, ?_⟩
    intro q hq
    rw [h6 q (by rw [hst]; exact hq)]
    by_cases hA : p - 1 - c < q ∧ q ≤ p - 1
    · have hB : p - (c + 1) < q ∧ q ≤ p := by omega
      rw [if_pos hA, if_pos hB, s2v_setobjs2s]
      have h3 : ¬ (q - 1 - L.stack = p - L.stack ∧ p - L.stack < L.stackmem.length) := by
        omega
      rw [if_neg h3]
    · rw [if_neg hA, s2v_setobjs2s]
      by_cases hqp : q = p
      · have hB : p - (c + 1) < q ∧ q ≤ p := by omega
        have h3 : q - L.stack = p - L.stack ∧ p - L.stack < L.stackmem.length := by omega
        rw [if_pos hB, if_pos h3, hqp]
      · have hB : ¬ (p - (c + 1) < q ∧ q ≤ p) := by omega
        have h3 : ¬ (q - L.stack = p - L.stack ∧ p - L.stack < L.stackmem.length) := by
          omega
        rw [if_neg hB, if_neg h3]

theorem exEnvTM_collector : CollectorKeeps exEnvTM :=
  fun L h1 h2 => ⟨h1, h2, SameView.refl L⟩

/-- C11: `luaD_tryfuncTM` raises a call error exactly when the lookup of the call metamethod
of the value at `func` yields nil.  Otherwise it returns `func`, slot `func` holds the
metamethod, the slots `func+1 .. oldtop` hold the former contents of `func .. oldtop-1` in
order, and `top = oldtop + 1`.  (`L1` is the thread after the stack check, in which the lookup
runs; `func` and `top` are taken at their offsets, since the check may move the block.) -/
theorem luaD_tryfuncTM_call (E : Env) (L : lua_State) (func : Nat)
    (hwf : WellFormed E.H L) (hfunc : L.stack ≤ func ∧ func < L.top)
    (hsize : stacksize L ≤ E.H.LUAI_MAXSTACK)
    (hneeded : (L.top - L.stack) + 1 ≤ E.H.LUAI_MAXSTACK)
    (hgc : CollectorKeeps E) (halloc : AllocSucceeds E) :
    ∃ L1, SameView L L1 ∧
      ((∃ o Le, luaD_tryfuncTM E L func = Ctl.callerror o Le) ↔
        ttisnil E.H (E.luaT_gettmbyobj L1 (s2v L func)) = true) ∧
      (ttisnil E.H (E.luaT_gettmbyobj L1 (s2v L func)) = true →
        luaD_tryfuncTM E L func = Ctl.callerror (s2v L func) L1) ∧
      (ttisnil E.H (E.luaT_gettmbyobj L1 (s2v L func)) = false →
        ∃ L2, luaD_tryfuncTM E L func = Ctl.ret (L2.stack + (func - L.stack)) L2 ∧
          s2v L2 (L2.stack + (func - L.stack)) = E.luaT_gettmbyobj L1 (s2v L func) ∧
          (∀ j, j < L.top - func →
            s2v L2 (L2.stack + (func - L.stack) + 1 + j) = s2v L (func + j)) ∧
          L2.top - L2.stack = (L.top - L.stack) + 1) := by
  obtain ⟨L1, e1, ⟨x1, x2, x3, x4⟩, ⟨v1, v2, v3, v4⟩, hroom⟩ :=
    checkstackGCp_view E L 1 func hwf hsize (by omega) (by omega) hgc halloc.1 hfunc.1
  have hss : stacksize L1 = L1.stack_last - L1.stack := rfl
  have hval : s2v L1 (L1.stack + (func - L.stack)) = s2v L func := by
    have := v2 (func - L.stack) (by omega)
    unfold s2v
    rw [this, show L.stack + (func - L.stack) = func by omega]
  have hrun : luaD_tryfuncTM E L func =
      if ttisnil E.H (E.luaT_gettmbyobj L1 (s2v L func)) = true then
        Ctl.callerror (s2v L func) L1
      else
        Ctl.ret (L1.stack + (func - L.stack))
          (setobj2s
            { openspace L1 L1.top (L1.top - (L1.stack + (func - L.stack))) with
              top := (openspace L1 L1.top (L1.top - (L1.stack + (func - L.stack)))).top + 1 }
            (L1.stack + (func - L.stack)) (E.luaT_gettmbyobj L1 (s2v L func))) := by
    unfold luaD_tryfuncTM
    simp only [e1, Ctl.bind, hval]
  refine ⟨L1, ⟨v1, v2, v3, v4⟩, ?_, ?_, ?_⟩
  · rw [hrun]
    constructor
    · rintro ⟨o, Le, h⟩
      by_cases c : ttisnil E.H (E.luaT_gettmbyobj L1 (s2v L func)) = true
      · exact c
      · rw [if_neg c] at h
        cases h
    · intro c
      rw [if_pos c]
      exact ⟨_, _, rfl⟩
  · intro c
    rw [hrun, if_pos c]
  · intro c
    have c2 : ¬ ttisnil E.H (E.luaT_gettmbyobj L1 (s2v L func)) = true := by
      rw [c]; exact Bool.false_ne_true
    obtain ⟨Lo, hLo⟩ : ∃ Lo, Lo =
        openspace L1 L1.top (L1.top - (L1.stack + (func - L.stack))) := ⟨_, rfl⟩
    obtain ⟨o1, o2, o3, o4, o5, o6⟩ := openspace_spec L1 L1.top
      (L1.top - (L1.stack + (func - L.stack))) (by omega) (by omega)
    rw [← hLo] at o1 o2 o3 o6
    rw [hrun, if_neg c2, ← hLo]
    obtain ⟨Lf, hLf⟩ : ∃ Lf, Lf = setobj2s { Lo with top := Lo.top + 1 }
        (L1.stack + (func - L.stack)) (E.luaT_gettmbyobj L1 (s2v L func)) := ⟨_, rfl⟩
    have hfst : Lf.stack = L1.stack := by rw [hLf]; exact o1
    have hftop : Lf.top = L1.top + 1 := by
      rw [hLf]
      show Lo.top + 1 = _
      rw [o2]
    have hfv : ∀ q, s2v Lf q =
        if q - Lo.stack = L1.stack + (func - L.stack) - Lo.stack ∧
          L1.stack + (func - L.stack) - Lo.stack < Lo.stackmem.length
        then E.luaT_gettmbyobj L1 (s2v L func) else s2v Lo q := by
      intro q
      rw [hLf]
      unfold setobj2s
      rw [s2v_stkset]
      split <;> rfl
    rw [← hLf]
    refine ⟨Lf, by rw [hfst], ?_, ?_, ?_⟩
    · rw [hfv, hfst, o1, o3, if_pos ⟨rfl, by omega⟩]
    · intro j hj
      rw [hfv, hfst, o1, o3, if_neg (by omega), o6 _ (by omega), if_pos (by omega)]
      have := v2 (func - L.stack + j) (by omega)
      unfold s2v
      rw [show L1.stack + (func - L.stack) + 1 + j - 1 = L1.stack + (func - L.stack + j) by
        omega, this, show L.stack + (func - L.stack + j) = func + j by omega]
    · rw [hftop, hfst]
      omega

theorem luaD_tryfuncTM_call_witness :
    WellFormed exEnvTM.H exState ∧ CollectorKeeps exEnvTM ∧ AllocSucceeds exEnvTM ∧
    ∃ L1 L2, luaD_tryfuncTM exEnvTM exState 104 = Ctl.ret (L2.stack + (104 - exState.stack)) L2 ∧
      s2v L2 (L2.stack + (104 - exState.stack)) =
        exEnvTM.luaT_gettmbyobj L1 (s2v exState 104) ∧
      L2.top - L2.stack = (exState.top - exState.stack) + 1 := by
  have hwf : WellFormed exEnvTM.H exState := ⟨by decide, by decide, by decide, by decide⟩
  have hal : AllocSucceeds exEnvTM := ⟨fun _ _ => rfl, fun _ => rfl⟩
  refine ⟨hwf, exEnvTM_collector, hal, ?_⟩
  obtain ⟨L1, _, _, _, h⟩ := luaD_tryfuncTM_call exEnvTM exState 104 hwf
    ⟨by decide, by decide⟩ (by decide) (by decide) exEnvTM_collector hal
  obtain ⟨L2, e, h0, _, h2⟩ := h (by
    show ttisnil exEnvTM.H { value_ := Value.f 1, tt_ := 22 } = false
    decide)
  exact ⟨L1, L2, e, h0, h2⟩

/-! ### Tail calls -/

theorem moveloop_cis (L : lua_State) (res first : Nat) (i c : Nat) :
    (moveloop L res first i c).cis = L.cis ∧ (moveloop L res first i c).ci = L.ci ∧
    (moveloop L res first i c).stack_last = L.stack_last := by
  induction c generalizing L i with
  | zero => simp [moveloop]
  | succ c ih =>
    simp only [moveloop]
    obtain ⟨h1, h2, h3⟩ := ih (setobjs2s L (res + i) (first + i)) (i + 1)
    exact ⟨h1.trans rfl, h2.trans rfl, h3.trans rfl⟩

theorem nilloop_cis (H : Decls) (L : lua_State) (res : Nat) (i c : Nat) :
    (nilloop H L res i c).cis = L.cis ∧ (nilloop H L res i c).ci = L.ci ∧
    (nilloop H L res i c).stack_last = L.stack_last := by
  induction c generalizing L i with
  | zero => simp [nilloop]
  | succ c ih =>
    simp only [nilloop]
    obtain ⟨h1, h2, h3⟩ := ih (setnilat H L (res + i)) (i + 1)
    exact ⟨h1.trans rfl, h2.trans rfl, h3.trans rfl⟩

theorem or_and_self (x t : Nat) : (x ||| t) &&& t = t := by
  apply Nat.eq_of_testBit_eq
  intro i
  simp only [Nat.testBit_and, Nat.testBit_or]
  cases x.testBit i <;> cases t.testBit i <;> rfl

theorem sameFunc_self (L : lua_State) (h : L.stack ≤ (ciat L L.ci).func) : SameFunc L L :=
  ⟨h, rfl⟩

/-- A successful reallocation keeps the function slot of the current frame at its offset. -/
theorem luaD_reallocstack_func (E : Env) (L : lua_State) (newsize : Nat) (re : Bool) (a : Nat)
    (hci : L.ci < L.cis.length)
    (ha : E.luaM_newblock L (newsize + E.H.EXTRA_STACK) = some a) (x : Nat) (L1 : lua_State)
    (h : luaD_reallocstack E L newsize re = Ctl.ret x L1) : SameFunc L L1 := by
  obtain ⟨L2, e, hst, _, _, _, hc, hcis, _⟩ := luaD_reallocstack_some E L newsize re a ha
  rw [e] at h
  injection h with _ h2
  subst h2
  have hf : (ciat L2 L2.ci).func = ((ciat L L.ci).func - L.stack) + a := by
    unfold ciat
    rw [hc, hcis, correctcis_getD, if_pos ⟨Nat.le_refl _, hci⟩]
    exact (correctframe_fields E.H L.stack a _).1
  unfold SameFunc
  rw [hf, hst]
  omega

/-- `checkstackGCp` for a request of any sign: it succeeds below the stack limit, restores
`p` at its offset and keeps the function slot of the current frame at its offset. -/
theorem checkstackGCp_frame (E : Env) (L : lua_State) (n : Int) (p : Nat)
    (hwf : WellFormed E.H L) (hsize : stacksize L ≤ E.H.LUAI_MAXSTACK)
    (hneeded : ((L.top - L.stack : Nat) : Int) + n ≤ (E.H.LUAI_MAXSTACK : Int))
    (hgc : CollectorKeeps E) (hgcf : CollectorKeepsFunc E)
    (halloc : ∀ L n, (E.luaM_newblock L n).isSome = true)
    (hp : L.stack ≤ p) (hcf : L.stack ≤ (ciat L L.ci).func) :
    ∃ L1, checkstackGCp E L n p = Ctl.ret (L1.stack + (p - L.stack)) L1 ∧ WellFormed E.H L1 ∧
      SameView L L1 ∧ SameFunc L L1 ∧ (L1.stack_last : Int) - (L1.top : Int) ≥ n := by
  by_cases hc : (L.stack_last : Int) - (L.top : Int) ≤ n
  · have hn : 0 ≤ n := by
      have := hwf.2.1
      omega
    obtain ⟨g1, g2, g3⟩ := hgc L hwf hsize
    have gf := hgcf L hwf hcf
    obtain ⟨L1, e, w, v, _, hroom⟩ := luaD_growstack_view E (E.luaC_checkGC L) n true g1 g2
      (by rw [g3.1]; exact hneeded) hn halloc
    have e2 := e
    rw [luaD_growstack_below E (E.luaC_checkGC L) n true g2 (by rw [g3.1]; exact hneeded)]
      at e2
    obtain ⟨a, ha⟩ := Option.isSome_iff_exists.mp (halloc (E.luaC_checkGC L)
      ((max (min (2 * (stacksize (E.luaC_checkGC L) : Int)) (E.H.LUAI_MAXSTACK : Int))
        (((((E.luaC_checkGC L).top - (E.luaC_checkGC L).stack : Nat)) : Int) + n)).toNat +
        E.H.EXTRA_STACK))
    have sf := luaD_reallocstack_func E (E.luaC_checkGC L) _ true a g1.2.2.2 ha 1 L1 e2
    refine ⟨L1, ?_, w, g3.trans v, ⟨sf.1, sf.2.trans gf.2⟩, hroom⟩
    unfold checkstackGCp
    rw [if_pos hc]
    simp only [e, Ctl.bind, restorestack, savestack]
  · refine ⟨L, ?_, hwf, SameView.refl L, sameFunc_self L hcf, by omega⟩
    unfold checkstackGCp
    rw [if_neg hc]
    congr 1
    omega

/-- What the Lua case of `luaD_pretailcall` does to a thread after the stack check. -/
theorem pretailcall_frame_spec (E : Env) (K : lua_State) (ci fn narg1 delta : Nat) (p : Proto)
    (hci : ci < K.cis.length) (hbase : K.stack + delta ≤ (ciat K ci).func)
    (hle : (ciat K ci).func - delta ≤ fn)
    (hroom : (ciat K ci).func - delta + max narg1 (p.numparams + 1) - K.stack ≤
      K.stackmem.length) :
    (pretailcall_frame E K ci fn narg1 delta p).ci = K.ci ∧
    (pretailcall_frame E K ci fn narg1 delta p).stack = K.stack ∧
    (pretailcall_frame E K ci fn narg1 delta p).stack_last = K.stack_last ∧
    (ciat (pretailcall_frame E K ci fn narg1 delta p) ci).func = (ciat K ci).func - delta ∧
    (∀ i, i < narg1 → s2v (pretailcall_frame E K ci fn narg1 delta p)
      ((ciat K ci).func - delta + i) = s2v K (fn + i)) ∧
    (∀ i, narg1 ≤ i → i ≤ p.numparams → ttisstrictnil E.H
      (s2v (pretailcall_frame E K ci fn narg1 delta p) ((ciat K ci).func - delta + i)) = true) ∧
    (ciat (pretailcall_frame E K ci fn narg1 delta p) ci).top =
      (ciat K ci).func - delta + 1 + p.maxstacksize ∧
    (pretailcall_frame E K ci fn narg1 delta p).top =
      (ciat K ci).func - delta + max narg1 (p.numparams + 1) ∧
    (ciat (pretailcall_frame E K ci fn narg1 delta p) ci).savedpc = p.code ∧
    (ciat (pretailcall_frame E K ci fn narg1 delta p) ci).callstatus &&& E.H.CIST_TAIL =
      E.H.CIST_TAIL := by
  obtain ⟨K2, hK2⟩ : ∃ K2, K2 =
      ciset K ci { ciat K ci with func := (ciat K ci).func - delta } := ⟨_, rfl⟩
  have a1 : ciat K2 ci = { ciat K ci with func := (ciat K ci).func - delta } := by
    rw [hK2, ciat_ciset, if_pos ⟨rfl, hci⟩]
  have a2 : K2.stack = K.stack := by rw [hK2]; rfl
  have a3 : K2.stackmem = K.stackmem := by rw [hK2]; rfl
  have a4 : K2.cis.length = K.cis.length := by rw [hK2]; simp
  have a5 : K2.ci = K.ci := by rw [hK2]; rfl
  have a6 : K2.stack_last = K.stack_last := by rw [hK2]; rfl
  have a7 : ∀ q, s2v K2 q = s2v K q := by
    intro q; unfold s2v stkat; rw [a2, a3]
  obtain ⟨K3, hK3⟩ : ∃ K3, K3 = moveloop K2 (ciat K2 ci).func fn 0 narg1 := ⟨_, rfl⟩
  have hf2 : (ciat K2 ci).func = (ciat K ci).func - delta := by rw [a1]
  obtain ⟨b1, b2, b3⟩ := moveloop_frame K2 (ciat K2 ci).func fn 0 narg1
  obtain ⟨b4, b5, b6⟩ := moveloop_cis K2 (ciat K2 ci).func fn 0 narg1
  rw [← hK3] at b1 b3 b4 b5 b6
  have b7 := s2v_moveloop K2 (ciat K2 ci).func fn 0 narg1 (by rw [a2, hf2]; omega)
    (by rw [hf2]; exact hle) (by rw [a2, a3, hf2]; omega)
  rw [← hK3, hf2, a2] at b7
  have hf3 : (ciat K3 ci).func = (ciat K ci).func - delta := by
    unfold ciat; rw [b4]; exact hf2
  obtain ⟨K4, hK4⟩ : ∃ K4, K4 =
      nilloop E.H K3 (ciat K3 ci).func narg1 (p.numparams + 1 - narg1) := ⟨_, rfl⟩
  obtain ⟨c1, _, c3⟩ := nilloop_frame E.H K3 (ciat K3 ci).func narg1 (p.numparams + 1 - narg1)
  obtain ⟨c4, c5, c6⟩ := nilloop_cis E.H K3 (ciat K3 ci).func narg1 (p.numparams + 1 - narg1)
  rw [← hK4] at c1 c3 c4 c5 c6
  have c7 := s2v_nilloop E.H K3 (ciat K3 ci).func narg1 (p.numparams + 1 - narg1)
    (by rw [b1, a2, hf3]; omega) (by rw [b1, b3, a2, a3, hf3]; omega)
  rw [← hK4, hf3, b1, a2] at c7
  have hf4 : ciat K4 ci = ciat K2 ci := by
    unfold ciat; rw [c4, b4]
  have hl4 : ci < K4.cis.length := by rw [c4, b4, a4]; exact hci
  obtain ⟨K5, hK5⟩ : ∃ K5, K5 = ciset K4 ci
      { ciat K4 ci with top := (ciat K3 ci).func + 1 + p.maxstacksize } := ⟨_, rfl⟩
  have d1 : ciat K5 ci =
      { ciat K4 ci with top := (ciat K3 ci).func + 1 + p.maxstacksize } := by
    rw [hK5, ciat_ciset, if_pos ⟨rfl, hl4⟩]
  have hl5 : ci < K5.cis.length := by rw [hK5]; simpa using hl4
  obtain ⟨K6, hK6⟩ : ∃ K6, K6 = ciset K5 ci { ciat K5 ci with savedpc := p.code } :=
    ⟨_, rfl⟩
  have d2 : ciat K6 ci = { ciat K5 ci with savedpc := p.code } := by
    rw [hK6, ciat_ciset, if_pos ⟨rfl, hl5⟩]
  have hl6 : ci < K6.cis.length := by rw [hK6]; simpa using hl5
  obtain ⟨K7, hK7⟩ : ∃ K7, K7 = ciset K6 ci
      { ciat K6 ci with callstatus := (ciat K6 ci).callstatus ||| E.H.CIST_TAIL } := ⟨_, rfl⟩
  have d3 : ciat K7 ci =
      { ciat K6 ci with callstatus := (ciat K6 ci).callstatus ||| E.H.CIST_TAIL } := by
    rw [hK7, ciat_ciset, if_pos ⟨rfl, hl6⟩]
  have d4 : ∀ q, s2v K7 q = s2v K4 q := by
    intro q; rw [hK7, hK6, hK5]; rfl
  obtain ⟨R, hR⟩ : ∃ R, R = { K7 with
      top := (ciat K3 ci).func + (narg1 + (p.numparams + 1 - narg1)) } := ⟨_, rfl⟩
  have r1 : ciat R ci = ciat K7 ci := by rw [hR]; rfl
  have r2 : ∀ q, s2v R q = s2v K4 q := by
    intro q; rw [← d4, hR]; rfl
  have r3 : R.ci = K.ci := by
    rw [hR, hK7, hK6, hK5]; show K4.ci = _; rw [c5, b5, a5]
  have r4 : R.stack = K.stack := by
    rw [hR, hK7, hK6, hK5]; show K4.stack = _; rw [c1, b1, a2]
  have r5 : R.stack_last = K.stack_last := by
    rw [hR, hK7, hK6, hK5]; show K4.stack_last = _; rw [c6, b6, a6]
  have r6 : R.top = (ciat K3 ci).func + (narg1 + (p.numparams + 1 - narg1)) := by
    rw [hR]
  have hdef : pretailcall_frame E K ci fn narg1 delta p = R := by
    subst hR hK7 hK6 hK5 hK4 hK3 hK2
    rfl
  rw [hdef]
  refine ⟨r3, r4, r5, ?_, ?_, ?_, ?_, ?_, ?_, ?_⟩
  · rw [r1, d3, d2, d1, hf4, a1]
  · intro i hi
    rw [r2, c7 _ (by omega), if_neg (by omega), b7 _ (by omega), if_pos (by omega), a7]
    congr 1
    omega
  · intro i h1 h2
    rw [r2, c7 _ (by omega), if_pos (by omega)]
    simp
  · rw [r1, d3, d2, d1, hf3]
  · rw [r6, hf3]
    omega
  · rw [r1, d3, d2]
  · rw [r1, d3]
    exact or_and_self _ _

/-- One tail call of a Lua closure. -/
theorem luaD_pretailcall_step (E : Env) (fuel : Nat) (L : lua_State)
    (ci func narg1 delta a : Nat) (p : Proto)
    (hlab : LUA_VCCL E.H ≠ LUA_VLCL E.H ∧ LUA_VLCF E.H ≠ LUA_VLCL E.H)
    (h : TailReady E L ci func narg1 delta a p)
    (hgc : CollectorKeeps E) (hgcf : CollectorKeepsFunc E) (halloc : AllocSucceeds E) :
    ∃ L1 func1, luaD_pretailcall E (fuel + 1) L ci func narg1 delta = Ctl.ret (-1) L1 ∧
      L1.ci = ci ∧ (ciat L1 ci).func = func1 ∧ L1.stack ≤ func1 ∧
      func1 - L1.stack = (ciat L ci).func - L.stack - delta ∧
      (∀ i, i < narg1 → s2v L1 (func1 + i) = s2v L (func + i)) ∧
      (∀ i, narg1 ≤ i → i ≤ p.numparams → ttisstrictnil E.H (s2v L1 (func1 + i)) = true) ∧
      (ciat L1 ci).top = func1 + 1 + p.maxstacksize ∧ (ciat L1 ci).top ≤ L1.stack_last ∧
      L1.top = func1 + max narg1 (p.numparams + 1) ∧
      (ciat L1 ci).savedpc = p.code ∧
      (ciat L1 ci).callstatus &&& E.H.CIST_TAIL = E.H.CIST_TAIL := by
  obtain ⟨hci, htag, hval, hcl, hwf, hbase, hfn, hargs, hsize, hneeded, hparams⟩ := h
  have hp : clLvalue_p L (s2v L func) = p := by
    unfold clLvalue_p
    simp only [hval, hcl]
  have hcf : L.stack ≤ (ciat L L.ci).func := by rw [← hci]; omega
  obtain ⟨K, e1, ⟨x1, x2, x3, x4⟩, ⟨v1, v2, v3, v4⟩, ⟨g1, g2⟩, hroom⟩ :=
    checkstackGCp_frame E L ((p.maxstacksize : Int) - (delta : Int)) func hwf hsize hneeded
      hgc hgcf halloc.1 (by omega) hcf
  have hKci : K.ci = ci := by rw [v3, hci]
  rw [hKci] at g1 g2 x4
  rw [← hci] at g2
  have hss : stacksize K = K.stack_last - K.stack := rfl
  obtain ⟨s1, s2, s3, s4, s5, s6, s7, s8, s9, s10⟩ := pretailcall_frame_spec E K ci
    (K.stack + (func - L.stack)) narg1 delta p x4 (by omega) (by omega) (by omega)
  have hrun : luaD_pretailcall E (fuel + 1) L ci func narg1 delta =
      Ctl.ret (-1) (pretailcall_frame E K ci (K.stack + (func - L.stack)) narg1 delta p) := by
    unfold luaD_pretailcall
    rw [if_neg (by rw [htag]; exact fun h => hlab.1 h.symm),
      if_neg (by rw [htag]; exact fun h => hlab.2 h.symm), if_pos htag]
    simp only [hp, e1, Ctl.bind]
  refine ⟨_, (ciat K ci).func - delta, hrun, by rw [s1, hKci], s4, by rw [s2]; omega,
    by rw [s2]; omega, ?_, s6, s7, by rw [s7, s3]; omega, s8, s9, s10⟩
  intro i hi
  rw [s5 i hi]
  have := v2 (func - L.stack + i) (by omega)
  unfold s2v
  rw [show K.stack + (func - L.stack) + i = K.stack + (func - L.stack + i) by omega, this,
    show L.stack + (func - L.stack + i) = func + i by omega]

/-- A chain of tail calls out of a frame leaves that frame current. -/
theorem TailChain_ci (E : Env) (ci : Nat)
    (hlab : LUA_VCCL E.H ≠ LUA_VLCL E.H ∧ LUA_VLCF E.H ≠ LUA_VLCL E.H)
    (hgc : CollectorKeeps E) (hgcf : CollectorKeepsFunc E) (halloc : AllocSucceeds E)
    (n : Nat) (L L2 : lua_State) (h : TailChain E ci n L L2) (hL : L.ci = ci) :
    L2.ci = ci := by
  induction h with
  | done L => exact hL
  | call n fuel L Lc L1 L2 func narg1 delta a p hr hrun _ ih =>
    apply ih
    cases fuel with
    | zero => simp [luaD_pretailcall] at hrun
    | succ fuel =>
      obtain ⟨K, _, e, hk, _⟩ := luaD_pretailcall_step E fuel Lc ci func narg1 delta a p hlab hr
        hgc hgcf halloc
      rw [e] at hrun
      injection hrun with _ h2
      rw [← h2]
      exact hk

theorem exEnv_collectorfunc : CollectorKeepsFunc exEnv :=
  fun L _ h => sameFunc_self L h

/-- C12: `luaD_pretailcall` on a Lua closure allocates no frame.  It returns `-1` with `L->ci`
still the frame `ci`; `ci.func` has moved to its old value minus `delta`; the callee and its
`narg1 - 1` arguments are copied down in order to `ci.func .. ci.func + narg1 - 1`; missing
fixed parameters are nil; `ci.top = ci.func + 1 + maxstacksize`;
`top = ci.func + max(narg1, numparams + 1)`; `savedpc` is the start of the code and `CIST_TAIL`
is set.  Hence after any chain of `n` further tail calls out of the frame, `L->ci` is the
frame it was before the first, so that the list of frames in use has the length it had.
(Slots are taken at their offsets: the stack check may move the block.) -/
theorem luaD_pretailcall_lua (E : Env) (fuel : Nat) (L : lua_State)
    (ci func narg1 delta a : Nat) (p : Proto)
    (hlab : LUA_VCCL E.H ≠ LUA_VLCL E.H ∧ LUA_VLCF E.H ≠ LUA_VLCL E.H)
    (h : TailReady E L ci func narg1 delta a p)
    (hgc : CollectorKeeps E) (hgcf : CollectorKeepsFunc E) (halloc : AllocSucceeds E) :
    ∃ L1 func1, luaD_pretailcall E (fuel + 1) L ci func narg1 delta = Ctl.ret (-1) L1 ∧
      L1.ci = ci ∧ L1.ci = L.ci ∧ (ciat L1 ci).func = func1 ∧ L1.stack ≤ func1 ∧
      func1 - L1.stack = (ciat L ci).func - L.stack - delta ∧
      (∀ i, i < narg1 → s2v L1 (func1 + i) = s2v L (func + i)) ∧
      (∀ i, narg1 ≤ i → i ≤ p.numparams → ttisstrictnil E.H (s2v L1 (func1 + i)) = true) ∧
      (ciat L1 ci).top = func1 + 1 + p.maxstacksize ∧ (ciat L1 ci).top ≤ L1.stack_last ∧
      L1.top = func1 + max narg1 (p.numparams + 1) ∧
      (ciat L1 ci).savedpc = p.code ∧
      (ciat L1 ci).callstatus &&& E.H.CIST_TAIL = E.H.CIST_TAIL ∧
      ∀ n L2, TailChain E ci n L1 L2 → L2.ci = L.ci := by
  obtain ⟨L1, func1, e, h1, h2, h3, h4, h5, h6, h7, h8, h9, h10, h11⟩ :=
    luaD_pretailcall_step E fuel L ci func narg1 delta a p hlab h hgc hgcf halloc
  refine ⟨L1, func1, e, h1, h1.trans h.1, h2, h3, h4, h5, h6, h7, h8, h9, h10, h11, ?_⟩
  intro n L2 hc
  rw [← h.1]
  exact TailChain_ci E ci hlab hgc hgcf halloc n L1 L2 hc h1

theorem luaD_pretailcall_lua_witness :
    TailReady exEnv exTailState 0 103 2 1 0
      { numparams := 3, is_vararg := 0, maxstacksize := 4, code := 500 } ∧
    CollectorKeeps exEnv ∧ CollectorKeepsFunc exEnv ∧ AllocSucceeds exEnv ∧
    ∃ L1, luaD_pretailcall exEnv 1 exTailState 0 103 2 1 = Ctl.ret (-1) L1 ∧ L1.ci = 0 ∧
      (ciat L1 0).func - L1.stack = 0 ∧ L1.top = (ciat L1 0).func + 4 :=
  ⟨by decide, exEnv_collector, exEnv_collectorfunc, exEnv_alloc,
    (luaD_pretailcall_lua exEnv 0 exTailState 0 103 2 1 0
      { numparams := 3, is_vararg := 0, maxstacksize := 4, code := 500 }
      ⟨by decide, by decide⟩ (by decide) exEnv_collector exEnv_collectorfunc exEnv_alloc).elim
      fun L1 h => h.elim fun func1 h2 =>
        ⟨L1, h2.1, h2.2.1, by rw [h2.2.2.2.1, h2.2.2.2.2.2.1]; rfl,
          by rw [h2.2.2.2.1, h2.2.2.2.2.2.2.2.2.2.2.1]; rfl⟩⟩

/-! ### Coroutines -/

/-- `resume_error` replaces the `narg` arguments by the message and touches nothing else. -/
theorem resume_error_spec (E : Env) (L : lua_State) (msg : String) (narg : Nat)
    (hstr : NewStrKeeps E) (hslot : L.top - narg - L.stack < L.stackmem.length) :
    ∃ a Ls L1, E.luaS_new { L with top := L.top - narg } msg = Ctl.ret a Ls ∧
      resume_error E L msg narg = Ctl.ret E.H.LUA_ERRRUN L1 ∧
      L1.status = L.status ∧ L1.ci = L.ci ∧ L1.cis = L.cis ∧ L1.stack = L.stack ∧
      L1.top = L.top - narg + 1 ∧
      s2v L1 (L.top - narg) = { value_ := Value.gc a, tt_ := ctb (gctt Ls a) } ∧
      (∀ q, q - L.stack ≠ L.top - narg - L.stack → stkat L1 q = stkat L q) ∧
      L1 = { L with top := L1.top, stackmem := L1.stackmem, heap := L1.heap } := by
  obtain ⟨a, Ls, e, hLs⟩ := hstr { L with top := L.top - narg } msg
  have hrun : resume_error E L msg narg = Ctl.ret E.H.LUA_ERRRUN
      { setsvalue2s Ls Ls.top a with top := (setsvalue2s Ls Ls.top a).top + 1 } := by
    unfold resume_error
    simp only [e, Ctl.bind]
  have t1 : Ls.top = L.top - narg := by rw [hLs]
  have t2 : Ls.stack = L.stack := by rw [hLs]
  have t3 : Ls.stackmem = L.stackmem := by rw [hLs]
  refine ⟨a, Ls, _, e, hrun, ?_, ?_, ?_, ?_, ?_, ?_, ?_, ?_⟩
  · show Ls.status = _
    rw [hLs]
  · show Ls.ci = _
    rw [hLs]
  · show Ls.cis = _
    rw [hLs]
  · exact t2
  · show Ls.top + 1 = _
    rw [t1]
  · show s2v (setsvalue2s Ls Ls.top a) (L.top - narg) = _
    unfold setsvalue2s
    rw [s2v_stkset, t1, t2, t3, if_pos ⟨rfl, hslot⟩]
  · intro q hq
    show stkat (setsvalue2s Ls Ls.top a) q = _
    unfold setsvalue2s
    rw [stkat_stkset, t1, t2, t3, if_neg (fun h => hq h.1)]
    unfold stkat
    rw [t2, t3]
  · unfold setsvalue2s stkset
    rw [hLs]

/-- The three refusals of `lua_resume` that depend on the state of the thread. -/
theorem lua_resume_refuses (E : Env) (fuel : Nat) (L : lua_State) (from_ : Option lua_State)
    (nargs : Nat)
    (hcase : (L.status = E.H.LUA_OK ∧ L.ci ≠ 0) ∨
      (L.status = E.H.LUA_OK ∧ L.ci = 0 ∧
        (L.top : Int) - (((ciat L L.ci).func : Int) + 1) = (nargs : Int)) ∨
      (L.status ≠ E.H.LUA_OK ∧ L.status ≠ E.H.LUA_YIELD)) :
    lua_resume E fuel L from_ nargs =
      (resume_error E L (refusal E L) nargs).bind fun st L1 =>
        Ctl.ret (st, (none : Option Int)) L1 := by
  unfold lua_resume
  dsimp only
  rcases hcase with ⟨h1, h2⟩ | ⟨h1, h2, h3⟩ | ⟨h1, h2⟩
  · rw [if_pos h1, if_pos h2]
    unfold refusal
    rw [if_pos ⟨h1, h2⟩]
  · have : ¬ (L.ci ≠ 0) := by simp [h2]
    rw [if_pos h1, if_neg this, if_pos h3]
    unfold refusal
    rw [if_neg (fun h => h.2 h2)]
  · rw [if_neg h1, if_pos h2]
    unfold refusal
    rw [if_neg (fun h => h1 h.1)]

/-- A yield from a C function in a yieldable thread: the status, the number of results and
the continuation are stored, and `LUA_YIELD` is thrown. -/
theorem lua_yieldk_throws (E : Env) (Ly : lua_State) (m ctx : Int) (k : Nat)
    (hy : yieldable Ly = true) (hC : isLua E.H (ciat Ly Ly.ci) = false)
    (hci : Ly.ci < Ly.cis.length) :
    ∃ L4, lua_yieldk E Ly m ctx k = luaD_throw L4 E.H.LUA_YIELD ∧
      L4.errorJmp = Ly.errorJmp ∧ L4.status = E.H.LUA_YIELD ∧ L4.top = Ly.top ∧
      L4.stack = Ly.stack ∧ L4.stackmem = Ly.stackmem ∧ L4.ci = Ly.ci ∧
      (ciat L4 L4.ci).nyield = m ∧ (ciat L4 L4.ci).k = k ∧
      (ciat L4 L4.ci).func = (ciat Ly Ly.ci).func := by
  obtain ⟨L2, hL2⟩ : ∃ L2, L2 = ciset { Ly with status := E.H.LUA_YIELD } Ly.ci
      { ciat { Ly with status := E.H.LUA_YIELD } Ly.ci with nyield := m } := ⟨_, rfl⟩
  have a1 : ciat L2 Ly.ci = { ciat Ly Ly.ci with nyield := m } := by
    rw [hL2, ciat_ciset, if_pos ⟨rfl, hci⟩]
    rfl
  have l2 : Ly.ci < L2.cis.length := by rw [hL2]; simpa using hci
  obtain ⟨L3, hL3⟩ : ∃ L3, L3 = ciset L2 Ly.ci { ciat L2 Ly.ci with k := k } := ⟨_, rfl⟩
  have a2 : ciat L3 Ly.ci = { ciat L2 Ly.ci with k := k } := by
    rw [hL3, ciat_ciset, if_pos ⟨rfl, l2⟩]
  have l3 : Ly.ci < L3.cis.length := by rw [hL3]; simpa using l2
  obtain ⟨L4, hL4⟩ : ∃ L4, L4 =
      if k ≠ 0 then ciset L3 Ly.ci { ciat L3 Ly.ci with ctx := ctx } else L3 := ⟨_, rfl⟩
  have hC2 : ¬ isLua E.H (ciat L2 Ly.ci) = true := by
    rw [a1]
    show ¬ isLua E.H (ciat Ly Ly.ci) = true
    rw [hC]
    exact Bool.false_ne_true
  have hrun : lua_yieldk E Ly m ctx k = luaD_throw L4 E.H.LUA_YIELD := by
    unfold lua_yieldk
    dsimp only
    rw [if_neg (fun c => c hy), ← hL2, if_neg hC2, ← hL3, ← hL4]
  have hfr : ciat L4 Ly.ci = { ciat L3 Ly.ci with ctx := ctx } ∨ ciat L4 Ly.ci = ciat L3 Ly.ci := by
    by_cases hk : k ≠ 0
    · left
      rw [hL4, if_pos hk, ciat_ciset, if_pos ⟨rfl, l3⟩]
    · right
      rw [hL4, if_neg hk]
  have hsame : L4.errorJmp = Ly.errorJmp ∧ L4.status = E.H.LUA_YIELD ∧ L4.top = Ly.top ∧
      L4.stack = Ly.stack ∧ L4.stackmem = Ly.stackmem ∧ L4.ci = Ly.ci := by
    by_cases hk : k ≠ 0
    · rw [hL4, if_pos hk, hL3, hL2]
      exact ⟨rfl, rfl, rfl, rfl, rfl, rfl⟩
    · rw [hL4, if_neg hk, hL3, hL2]
      exact ⟨rfl, rfl, rfl, rfl, rfl, rfl⟩
  obtain ⟨s1, s2, s3, s4, s5, s6⟩ := hsame
  refine ⟨L4, hrun, s1, s2, s3, s4, s5, s6, ?_, ?_, ?_⟩
  all_goals
    rw [s6]
    rcases hfr with h | h
    · rw [h, a2, a1]
    · rw [h, a2, a1]

/-- `resume_error` returns `LUA_ERRRUN` and keeps the status of the thread. -/
theorem resume_error_status (E : Env) (L : lua_State) (msg : String) (narg : Nat)
    (hstr : NewStrKeeps E) :
    ∃ L1, resume_error E L msg narg = Ctl.ret E.H.LUA_ERRRUN L1 ∧ L1.status = L.status := by
  obtain ⟨a, Ls, e, hLs⟩ := hstr { L with top := L.top - narg } msg
  refine ⟨{ setsvalue2s Ls Ls.top a with top := (setsvalue2s Ls Ls.top a).top + 1 }, ?_, ?_⟩
  · unfold resume_error
    simp only [e, Ctl.bind]
  · show Ls.status = _
    rw [hLs]

/-- The search for a suspended protected call looks at the frames only. -/
theorem findpcall_from_congr (H : Decls) (L L1 : lua_State) (h : L1.cis = L.cis) (n : Nat) :
    findpcall_from H L1 n = findpcall_from H L n := by
  induction n with
  | zero => simp only [findpcall_from, ciat, h]
  | succ n ih => simp only [findpcall_from, ciat, h, ih]

/-- A return of `luaD_seterrorobj` keeps the status, the frames and the stack block. -/
theorem luaD_seterrorobj_keeps (E : Env) (L : lua_State) (errcode : Int) (oldtop : Nat)
    (hstr : NewStringKeeps E) (L1 : lua_State)
    (h : luaD_seterrorobj E L errcode oldtop = Ctl.ret () L1) :
    L1.status = L.status ∧ L1.cis = L.cis ∧ L1.stack = L.stack ∧ L1.top = oldtop + 1 := by
  unfold luaD_seterrorobj at h
  by_cases c1 : errcode = E.H.LUA_ERRMEM
  · rw [if_pos c1] at h
    simp only [Ctl.bind] at h
    injection h with _ h2
    subst h2
    exact ⟨rfl, rfl, rfl, rfl⟩
  · rw [if_neg c1] at h
    by_cases c2 : errcode = E.H.LUA_ERRERR
    · rw [if_pos c2] at h
      obtain ⟨a, Ls, e, hLs⟩ := hstr L "error in error handling"
      simp only [e, Ctl.bind] at h
      injection h with _ h2
      subst h2
      refine ⟨?_, ?_, ?_, rfl⟩
      · show Ls.status = _
        rw [hLs]
      · show Ls.cis = _
        rw [hLs]
      · show Ls.stack = _
        rw [hLs]
    · rw [if_neg c2] at h
      by_cases c3 : errcode = E.H.LUA_OK
      · rw [if_pos c3] at h
        simp only [Ctl.bind] at h
        injection h with _ h2
        subst h2
        exact ⟨rfl, rfl, rfl, rfl⟩
      · rw [if_neg c3] at h
        simp only [Ctl.bind] at h
        injection h with _ h2
        subst h2
        exact ⟨rfl, rfl, rfl, rfl⟩

/-- Nothing that follows a throw runs. -/
theorem luaD_throw_bind {α β : Type} (L : lua_State) (e : Int) (k : α → lua_State → Ctl β) :
    (luaD_throw L e : Ctl α).bind k = (luaD_throw L e : Ctl β) := by
  unfold luaD_throw
  split <;> rfl

/-- `precover` returns at once for a status that is no error, and for an error without a
suspended protected call. -/
theorem precover_done (E : Env) (fuel more : Nat) (L : lua_State) (status : Int)
    (h : errorstatus E.H status = false ∨ findpcall E.H L = none) :
    precover E fuel (more + 1) L status = Ctl.ret status L := by
  unfold precover
  by_cases c : errorstatus E.H status = true
  · rcases h with h | h
    · rw [h] at c
      exact absurd c Bool.false_ne_true
    · rw [if_pos c, h]
  · rw [if_neg c]

/-- Past its checks `lua_resume` runs `resume` in protected mode. -/
theorem lua_resume_run (E : Env) (fuel : Nat) (L : lua_State) (from_ : Option lua_State)
    (nargs : Nat) (hres : Resumable E L from_ nargs) :
    lua_resume E fuel L from_ nargs =
      (luaD_rawrunprotected E { L with nCcalls := resume_nCcalls from_ }
        (resume E fuel nargs)).bind fun status L3 =>
        (precover E fuel fuel L3 status).bind fun status L4 =>
          (if ¬ errorstatus E.H status then Ctl.ret () L4
           else
             let L5 := { L4 with status := status % 256 }
             (luaD_seterrorobj E L5 status L5.top).bind fun _ L6 =>
               Ctl.ret () (ciset L6 L6.ci { ciat L6 L6.ci with top := L6.top })).bind
            fun _ L7 =>
              let nresults : Int :=
                if status = E.H.LUA_YIELD then (ciat L7 L7.ci).nyield
                else (L7.top : Int) - (((ciat L7 L7.ci).func : Int) + 1)
              Ctl.ret (status, some nresults) L7 := by
  obtain ⟨hst, hcc⟩ := hres
  have hcc2 : ¬ getCcalls { L with nCcalls := resume_nCcalls from_ - 1 } ≥
      E.H.LUAI_MAXCCALLS := by
    unfold getCcalls
    exact Nat.not_le.mpr hcc
  unfold lua_resume
  dsimp only
  rcases hst with ⟨h1, h2, h3⟩ | ⟨h1, h2⟩
  · have : ¬ (L.ci ≠ 0) := by simp [h2]
    rw [if_pos h1, if_neg this, if_neg h3]
    unfold resume_nCcalls at hcc2 ⊢
    rw [Nat.add_sub_cancel] at hcc2
    rw [if_neg hcc2]
  · rw [if_neg h1, if_neg (fun h => h h2)]
    unfold resume_nCcalls at hcc2 ⊢
    rw [Nat.add_sub_cancel] at hcc2
    rw [if_neg hcc2]

/-- C13: `lua_resume` returns `LUA_ERRRUN` without running any code of the coroutine when
(a) `L->status` is `LUA_OK` and `L->ci` is not the base frame (message "cannot resume
non-suspended coroutine"), (b) `L->status` is `LUA_OK`, `L->ci` is the base frame and exactly
`nargs` values lie above the base function slot ("cannot resume dead coroutine"), or
(c) `L->status` is neither `LUA_OK` nor `LUA_YIELD` ("cannot resume dead coroutine").  In each
case `L->status` and `L->ci` are unchanged and the only change of the stack is that the
`nargs` arguments are replaced by the message string; nothing but `top`, that slot and the
heap differs, and the outcome does not depend on what the functions of the coroutine do. -/
theorem lua_resume_refused (E : Env) (fuel : Nat) (L : lua_State) (from_ : Option lua_State)
    (nargs : Nat) (hstr : NewStrKeeps E)
    (hcase : (L.status = E.H.LUA_OK ∧ L.ci ≠ 0) ∨
      (L.status = E.H.LUA_OK ∧ L.ci = 0 ∧
        (L.top : Int) - (((ciat L L.ci).func : Int) + 1) = (nargs : Int)) ∨
      (L.status ≠ E.H.LUA_OK ∧ L.status ≠ E.H.LUA_YIELD))
    (hslot : L.top - nargs - L.stack < L.stackmem.length) :
    ∃ a Ls L1, E.luaS_new { L with top := L.top - nargs } (refusal E L) = Ctl.ret a Ls ∧
      lua_resume E fuel L from_ nargs = Ctl.ret (E.H.LUA_ERRRUN, none) L1 ∧
      L1.status = L.status ∧ L1.ci = L.ci ∧ L1.cis = L.cis ∧ L1.stack = L.stack ∧
      L1.top = L.top - nargs + 1 ∧
      s2v L1 (L.top - nargs) = { value_ := Value.gc a, tt_ := ctb (gctt Ls a) } ∧
      (∀ q, q - L.stack ≠ L.top - nargs - L.stack → stkat L1 q = stkat L q) ∧
      L1 = { L with top := L1.top, stackmem := L1.stackmem, heap := L1.heap } ∧
      (∀ (E2 : Env) (fuel2 : Nat), E2.H = E.H → E2.luaS_new = E.luaS_new →
        lua_resume E2 fuel2 L from_ nargs = lua_resume E fuel L from_ nargs) := by
  obtain ⟨a, Ls, L1, e, hrun, h1, h2, h3, h4, h5, h6, h7, h8⟩ :=
    resume_error_spec E L (refusal E L) nargs hstr hslot
  refine ⟨a, Ls, L1, e, ?_, h1, h2, h3, h4, h5, h6, h7, h8, ?_⟩
  · rw [lua_resume_refuses E fuel L from_ nargs hcase, hrun]
    rfl
  · intro E2 fuel2 hH hS
    rw [lua_resume_refuses E2 fuel2 L from_ nargs (by rw [hH]; exact hcase),
      lua_resume_refuses E fuel L from_ nargs hcase]
    unfold resume_error refusal
    rw [hH, hS]

theorem lua_resume_refused_witness :
    NewStrKeeps exEnv ∧ exState.status = exEnv.H.LUA_OK ∧ exState.ci = 0 ∧
    (exState.top : Int) - (((ciat exState exState.ci).func : Int) + 1) = ((5 : Nat) : Int) ∧
    ∃ L1, lua_resume exEnv 0 exState none 5 = Ctl.ret (2, none) L1 ∧ L1.top = 102 ∧
      L1.status = 0 ∧ L1.ci = 0 := by
  have hstr : NewStrKeeps exEnv := fun L _ => ⟨0, L, rfl, rfl⟩
  refine ⟨hstr, rfl, rfl, by decide, ?_⟩
  obtain ⟨a, Ls, L1, _, e, h1, h2, _, _, h5, _⟩ := lua_resume_refused exEnv 0 exState none 5
    hstr (Or.inr (Or.inl ⟨rfl, rfl, by decide⟩)) (by decide)
  exact ⟨L1, e, h5, h1, h2⟩

/-- C14: if the body of a coroutine started or continued by `lua_resume` calls
`lua_yieldk(L, m, ctx, k)` from a C-function frame while the thread is yieldable,
`lua_resume` returns `LUA_YIELD`, `L->status` is `LUA_YIELD`, `*nresults = m`, and the stack is
the stack at the yield, so that the `m` yielded values are its top `m` slots.  When instead
the run ends normally, `lua_resume` returns `LUA_OK` with
`*nresults = top - (L->ci->func + 1)`.  (The body runs from the thread `resume_entry`; it reaches
the call of `lua_yieldk` in the thread `Ly`, with `rest` the code after the call, or it
returns in the thread `Le`; the record of the resume is on top of the chain.) -/
theorem lua_resume_yield (E : Env) (fuel : Nat) (L : lua_State) (from_ : Option lua_State)
    (nargs : Nat) (hcodes : E.H.LUA_OK < E.H.LUA_YIELD)
    (hres : Resumable E L from_ nargs) :
    (∀ Ly m ctx k (rest : Int → lua_State → Ctl Unit),
      resume E (fuel + 1) nargs (resume_entry E L from_) =
        (lua_yieldk E Ly m ctx k).bind rest →
      yieldable Ly = true → isLua E.H (ciat Ly Ly.ci) = false → Ly.ci < Ly.cis.length →
      Ly.errorJmp = { status := E.H.LUA_OK } :: L.errorJmp →
      ∃ L1, lua_resume E (fuel + 1) L from_ nargs = Ctl.ret (E.H.LUA_YIELD, some m) L1 ∧
        L1.status = E.H.LUA_YIELD ∧ L1.top = Ly.top ∧ L1.stack = Ly.stack ∧
        L1.stackmem = Ly.stackmem ∧ L1.ci = Ly.ci ∧ (ciat L1 L1.ci).nyield = m) ∧
    (∀ Le,
      resume E (fuel + 1) nargs (resume_entry E L from_) = Ctl.ret () Le →
      Le.errorJmp = { status := E.H.LUA_OK } :: L.errorJmp →
      lua_resume E (fuel + 1) L from_ nargs =
        Ctl.ret (E.H.LUA_OK, some ((Le.top : Int) - (((ciat Le Le.ci).func : Int) + 1)))
          { Le with errorJmp := L.errorJmp, nCcalls := resume_nCcalls from_ }) := by
  have hno1 : errorstatus E.H E.H.LUA_YIELD = false := by
    unfold errorstatus
    simp
  have hno2 : errorstatus E.H E.H.LUA_OK = false := by
    unfold errorstatus
    simp
    omega
  constructor
  · intro Ly m ctx k rest hrun hy hC hci hchain
    obtain ⟨L4, e, t1, t2, t3, t4, t5, t6, t7, _⟩ := lua_yieldk_throws E Ly m ctx k hy hC hci
    rw [e, luaD_throw_bind] at hrun
    have hp := luaD_rawrunprotected_throw E { L with nCcalls := resume_nCcalls from_ }
      (resume E (fuel + 1) nargs) L4 E.H.LUA_YIELD hrun (by rw [t1]; exact hchain)
    rw [lua_resume_run E (fuel + 1) L from_ nargs hres, hp]
    simp only [Ctl.bind, precover_done E (fuel + 1) fuel _ _ (Or.inl hno1), hno1]
    refine ⟨{ L4 with errorJmp := L.errorJmp, nCcalls := resume_nCcalls from_ }, ?_, t2, t3,
      t4, t5, t6, t7⟩
    have h7 : (ciat { L4 with errorJmp := L.errorJmp, nCcalls := resume_nCcalls from_ }
        L4.ci).nyield = m := t7
    simp only [not_false_eq_true, Bool.false_eq_true, if_true, h7]
  · intro Le hrun hchain
    have hp := luaD_rawrunprotected_ret E { L with nCcalls := resume_nCcalls from_ }
      (resume E (fuel + 1) nargs) Le { status := E.H.LUA_OK } hrun hchain
    rw [lua_resume_run E (fuel + 1) L from_ nargs hres, hp]
    simp only [Ctl.bind, precover_done E (fuel + 1) fuel _ _ (Or.inl hno2), hno2]
    have hne : ¬ E.H.LUA_OK = E.H.LUA_YIELD := by omega
    simp [Ctl.bind, hne]
    rfl

theorem lua_resume_yield_witness :
    Resumable exEnvYield exCCallState none 1 ∧
    resume exEnvYield 1 1 (resume_entry exEnvYield exCCallState none) =
      ((lua_yieldk exEnvYield exYieldAt 1 0 0).bind fun _ L1 => Ctl.ret () L1) ∧
    ∃ L1, lua_resume exEnvYield 1 exCCallState none 1 = Ctl.ret (1, some 1) L1 ∧
      L1.status = 1 ∧ L1.top = 104 :=
  ⟨by decide, rfl,
    ((lua_resume_yield exEnvYield 0 exCCallState none 1 (by decide) (by decide)).1
      exYieldAt 1 0 0 (fun _ L1 => Ctl.ret () L1) rfl (by decide) (by decide) (by decide) rfl).elim
      fun L1 h => ⟨L1, h.1, h.2.1, h.2.2.1⟩⟩

/-- C15: `lua_yieldk` raises a runtime error exactly when the thread is not yieldable: with
the message "attempt to yield from outside a coroutine" when `L` is the main thread and
"attempt to yield across a C-call boundary" otherwise.  The error is raised from the thread
as it was found: `L->status` is not changed to `LUA_YIELD` and neither a result count nor a
continuation is stored. -/
theorem lua_yieldk_refused (E : Env) (L : lua_State) (nresults ctx : Int) (k : Nat) :
    ((∃ msg L1, lua_yieldk E L nresults ctx k = Ctl.runerror msg L1) ↔ yieldable L = false) ∧
    (yieldable L = false →
      lua_yieldk E L nresults ctx k =
        Ctl.runerror (if L.self = L.mainthread then "attempt to yield from outside a coroutine"
          else "attempt to yield across a C-call boundary") L) := by
  have hno : yieldable L = false →
      lua_yieldk E L nresults ctx k =
        Ctl.runerror (if L.self = L.mainthread then "attempt to yield from outside a coroutine"
          else "attempt to yield across a C-call boundary") L := by
    intro hy
    unfold lua_yieldk
    dsimp only
    rw [if_pos (by rw [hy]; exact Bool.false_ne_true)]
    by_cases hm : L.self = L.mainthread
    · rw [if_neg (fun h => h hm), if_pos hm]
    · rw [if_pos hm, if_neg hm]
  refine ⟨⟨?_, fun hy => ⟨_, _, hno hy⟩⟩, hno⟩
  rintro ⟨msg, L1, h⟩
  by_cases hy : yieldable L = true
  · exfalso
    unfold lua_yieldk at h
    dsimp only at h
    rw [if_neg (fun c => c hy)] at h
    split at h
    · cases h
    · exact luaD_throw_ne_runerror _ _ _ _ h
  · simpa using hy

theorem lua_yieldk_refused_witness :
    yieldable { exState with nCcalls := 65537 } = false ∧
    lua_yieldk exEnv { exState with nCcalls := 65537 } 1 0 0 =
      Ctl.runerror "attempt to yield from outside a coroutine"
        { exState with nCcalls := 65537 } :=
  ⟨by decide, (lua_yieldk_refused exEnv { exState with nCcalls := 65537 } 1 0 0).2 (by decide)⟩

/-- C16: if a resumed coroutine ends with an error status `s` that no suspended protected
call inside it can recover (`findpcall` returns `NULL`), `lua_resume` returns `s`, sets
`L->status = s`, pushes the error object as the new top slot and sets `L->ci->top = top`.
Every later `lua_resume` on a thread with that status returns `LUA_ERRRUN` through
`resume_error` with "cannot resume dead coroutine", which keeps the status, so that the code
of the coroutine never runs again.  (The body runs from the thread `resume_entry` and throws
`s` in the thread `Lt`, with the record of the resume on top of the chain; the error object is
the message of the memory error, the string "error in error handling", or the value on top
of the stack at the throw.) -/
theorem lua_resume_dead (E : Env) (fuel : Nat) (L : lua_State) (from_ : Option lua_State)
    (nargs : Nat) (s : Int) (Lt : lua_State)
    (hcodes : E.H.LUA_OK < E.H.LUA_YIELD) (hres : Resumable E L from_ nargs)
    (hstr : NewStringKeeps E) (hnew : NewStrKeeps E)
    (hrun : resume E (fuel + 1) nargs (resume_entry E L from_) = luaD_throw Lt s)
    (hchain : Lt.errorJmp = { status := E.H.LUA_OK } :: L.errorJmp)
    (hs : errorstatus E.H s = true) (hbyte : 0 ≤ s ∧ s < 256)
    (hnone : findpcall E.H Lt = none) (hci : Lt.ci < Lt.cis.length)
    (hslot : HasSlot E.H (Lt.top - Lt.stack) Lt) (hbase : Lt.stack ≤ Lt.top) :
    (∃ L1, lua_resume E (fuel + 1) L from_ nargs =
        Ctl.ret (s, some ((L1.top : Int) - (((ciat L1 L1.ci).func : Int) + 1))) L1 ∧
      L1.status = s ∧ L1.top - L1.stack = Lt.top - Lt.stack + 1 ∧
      (ciat L1 L1.ci).top = L1.top ∧ L1.ci = Lt.ci ∧
      (s = E.H.LUA_ERRMEM → s2v L1 (L1.top - 1) =
        { value_ := Value.gc Lt.memerrmsg, tt_ := ctb (gctt Lt Lt.memerrmsg) }) ∧
      (s ≠ E.H.LUA_ERRMEM → s = E.H.LUA_ERRERR → ∃ a Ls,
        s2v L1 (L1.top - 1) = { value_ := Value.gc a, tt_ := ctb (gctt Ls a) }) ∧
      (s ≠ E.H.LUA_ERRMEM → s ≠ E.H.LUA_ERRERR → s2v L1 (L1.top - 1) = s2v Lt (Lt.top - 1))) ∧
    (∀ (fuel2 : Nat) (L2 : lua_State) (from2 : Option lua_State) (nargs2 : Nat),
      L2.status = s →
      lua_resume E fuel2 L2 from2 nargs2 =
        ((resume_error E L2 "cannot resume dead coroutine" nargs2).bind fun st Lx =>
          Ctl.ret (st, (none : Option Int)) Lx) ∧
      ∃ Lx, lua_resume E fuel2 L2 from2 nargs2 = Ctl.ret (E.H.LUA_ERRRUN, none) Lx ∧
        Lx.status = s) := by
  have hgt : s > E.H.LUA_YIELD := by
    unfold errorstatus at hs
    simpa using hs
  constructor
  · have hp := luaD_rawrunprotected_throw E { L with nCcalls := resume_nCcalls from_ }
      (resume E (fuel + 1) nargs) Lt s hrun hchain
    obtain ⟨L3, hL3⟩ : ∃ L3, L3 =
        { Lt with errorJmp := L.errorJmp, nCcalls := resume_nCcalls from_ } := ⟨_, rfl⟩
    rw [← hL3] at hp
    have hfind : findpcall E.H L3 = none := by
      rw [← hnone]
      unfold findpcall
      rw [show L3.ci = Lt.ci by rw [hL3]]
      exact findpcall_from_congr E.H Lt L3 (by rw [hL3]) _
    obtain ⟨L5, hL5⟩ : ∃ L5, L5 = { L3 with status := s % 256 } := ⟨_, rfl⟩
    have hmod : s % 256 = s := Int.emod_eq_of_lt hbyte.1 hbyte.2
    have q1 : L5.top = Lt.top := by rw [hL5, hL3]
    have q2 : L5.stack = Lt.stack := by rw [hL5, hL3]
    have q3 : L5.stackmem = Lt.stackmem := by rw [hL5, hL3]
    have q4 : L5.stack_last = Lt.stack_last := by rw [hL5, hL3]
    have q5 : L5.ci = Lt.ci := by rw [hL5, hL3]
    have q6 : L5.cis = Lt.cis := by rw [hL5, hL3]
    have q7 : L5.status = s := by rw [hL5]; exact hmod
    have hslot5 : HasSlot E.H (L5.top - L5.stack) L5 := by
      unfold HasSlot stacksize at hslot ⊢
      rw [q1, q2, q3, q4]
      exact hslot
    obtain ⟨L6, e6, r1, r2, r3, _, _, _, _, r8, r9, r10⟩ :=
      luaD_seterrorobj_spec E L5 s (L5.top - L5.stack) hslot5 hstr
    have htop5 : restorestack L5 (L5.top - L5.stack) = L5.top := by
      unfold restorestack
      rw [q1, q2]
      omega
    rw [htop5] at e6
    obtain ⟨L7, hL7⟩ : ∃ L7, L7 = ciset L6 L6.ci { ciat L6 L6.ci with top := L6.top } :=
      ⟨_, rfl⟩
    have e6b : luaD_seterrorobj E L5 s L3.top = Ctl.ret () L6 := by
      rw [show L3.top = L5.top by rw [hL5]]
      exact e6
    have hrun2 : lua_resume E (fuel + 1) L from_ nargs =
        Ctl.ret (s, some ((L7.top : Int) - (((ciat L7 L7.ci).func : Int) + 1))) L7 := by
      rw [lua_resume_run E (fuel + 1) L from_ nargs hres, hp]
      simp only [Ctl.bind, precover_done E (fuel + 1) fuel _ _ (Or.inr hfind)]
      have hne : ¬ s = E.H.LUA_YIELD := by omega
      simp only [hs, not_true_eq_false, if_false, ← hL5, e6b, ← hL7, hne]
    obtain ⟨k1, k2, k3, k4⟩ := luaD_seterrorobj_keeps E L5 s L5.top hstr L6 e6
    have hl6 : L6.ci < L6.cis.length := by rw [r3, k2, q5, q6]; exact hci
    have f7 : ciat L7 L6.ci = { ciat L6 L6.ci with top := L6.top } := by
      rw [hL7, ciat_ciset, if_pos ⟨rfl, hl6⟩]
    have t7 : L7.top = L6.top := by rw [hL7]; rfl
    have c7 : L7.ci = L6.ci := by rw [hL7]; rfl
    have s7 : L7.stack = L6.stack := by rw [hL7]; rfl
    have v7 : ∀ q, s2v L7 q = s2v L6 q := by
      intro q; rw [hL7]; rfl
    have hpos : L7.top - 1 = L6.stack + (L5.top - L5.stack) := by
      rw [t7, r1]
      omega
    refine ⟨L7, hrun2, ?_, ?_, ?_, ?_, ?_, ?_, ?_⟩
    · rw [hL7]
      show L6.status = s
      rw [k1, q7]
    · rw [t7, s7, r1, q1, q2]
      omega
    · rw [c7, f7, t7]
    · rw [c7, r3, q5]
    · intro h
      rw [hpos, v7, r8 h, hL5, hL3]
      rfl
    · intro h1 h2
      obtain ⟨a, Ls, _, e⟩ := r9 h1 h2
      exact ⟨a, Ls, by rw [hpos, v7, e]⟩
    · intro h1 h2
      have h3 : s ≠ E.H.LUA_OK := by omega
      rw [hpos, v7, r10 h1 h2 h3, hL5, hL3]
      rfl
  · intro fuel2 L2 from2 nargs2 hst
    have hcase : L2.status ≠ E.H.LUA_OK ∧ L2.status ≠ E.H.LUA_YIELD := by
      rw [hst]
      constructor <;> omega
    have hr := lua_resume_refuses E fuel2 L2 from2 nargs2 (Or.inr (Or.inr hcase))
    have hmsg : refusal E L2 = "cannot resume dead coroutine" := by
      unfold refusal
      rw [if_neg (fun h => hcase.1 h.1)]
    rw [hmsg] at hr
    refine ⟨hr, ?_⟩
    obtain ⟨Lx, e, hx⟩ := resume_error_status E L2 "cannot resume dead coroutine" nargs2 hnew
    refine ⟨Lx, ?_, by rw [hx, hst]⟩
    rw [hr, e]
    rfl

theorem lua_resume_dead_witness :
    Resumable exEnvErr exCCallState none 1 ∧
    resume exEnvErr 1 1 (resume_entry exEnvErr exCCallState none) = luaD_throw exYieldAt 2 ∧
    findpcall exEnvErr.H exYieldAt = none ∧
    ∃ L1, lua_resume exEnvErr 1 exCCallState none 1 =
        Ctl.ret (2, some ((L1.top : Int) - (((ciat L1 L1.ci).func : Int) + 1))) L1 ∧
      L1.status = 2 ∧ s2v L1 (L1.top - 1) = s2v exYieldAt (exYieldAt.top - 1) := by
  have hstr : NewStringKeeps exEnvErr := fun L _ => ⟨0, L, rfl, rfl⟩
  have hnew : NewStrKeeps exEnvErr := fun L _ => ⟨0, L, rfl, rfl⟩
  refine ⟨by decide, rfl, rfl, ?_⟩
  obtain ⟨L1, e, h1, _, _, _, _, _, h7⟩ :=
    (lua_resume_dead exEnvErr 0 exCCallState none 1 2 exYieldAt (by decide) (by decide)
      hstr hnew rfl rfl (by decide) (by decide) rfl (by decide) (by decide) (by decide)).1
  exact ⟨L1, e, h1, h7 (by decide) (by decide)⟩

/-! ### Memory of the collector -/

theorem getD_set_opt {α : Type} (l : List α) (a b : Nat) (x d : α) :
    (l.set a x).getD b d = if b = a ∧ a < l.length then x else l.getD b d := by
  simp only [List.getD_eq_getElem?_getD, List.getElem?_set]
  by_cases h : a = b
  · by_cases h2 : b < l.length
    · simp [h, h2]
    · have h3 : l.length ≤ b := by omega
      simp [h, h2, List.getElem?_eq_none h3]
  · have h' : ¬ b = a := fun e => h e.symm
    simp [h, h']

theorem gcat_eq (g : global_State) (a : Nat) : gcat g a = (objat g a).getD default := rfl

theorem allocated_lt (g : global_State) (a : Nat) (h : allocated g a = true) :
    a < g.objs.length := by
  unfold allocated at h
  by_contra c
  have : g.objs.getD a none = none := by
    simp only [List.getD_eq_getElem?_getD]
    rw [List.getElem?_eq_none (by omega)]
    rfl
  rw [this] at h
  exact absurd h (by decide)

theorem allocated_objat (g : global_State) (a : Nat) (h : allocated g a = true) :
    objat g a = some (gcat g a) := by
  unfold allocated at h
  unfold gcat objat
  cases hx : g.objs.getD a none with
  | none => rw [hx] at h; exact absurd h (by decide)
  | some o => rfl

theorem objat_gcset (g : global_State) (a b : Nat) (o : GCObj) :
    objat (gcset g a o) b = if b = a ∧ a < g.objs.length then some o else objat g b := by
  unfold objat gcset
  exact getD_set_opt g.objs a b (some o) none

theorem objat_release (g : global_State) (a b : Nat) :
    objat (release g a) b = if b = a ∧ a < g.objs.length then none else objat g b := by
  unfold objat release
  exact getD_set_opt g.objs a b none none

theorem objat_setmarked (g : global_State) (a b m : Nat) :
    objat (setmarked g a m) b =
      if b = a ∧ a < g.objs.length then some { gcat g a with marked := m } else objat g b := by
  unfold setmarked
  exact objat_gcset g a b _

theorem objat_assign (g : global_State) (p : GCRef) (x : Option Nat) (b : Nat) :
    objat (assign g p x) b =
      if p.owner = some b ∧ b < g.objs.length then some { gcat g b with next := x }
      else objat g b := by
  cases p with
  | next a =>
    simp only [assign, GCRef.owner, Option.some.injEq]
    rw [objat_gcset]
    by_cases h : b = a
    · subst h
      simp
    · have h' : ¬ a = b := fun e => h e.symm
      simp [h, h']
  | allgc => simp [assign, GCRef.owner, objat]
  | finobj => simp [assign, GCRef.owner, objat]
  | tobefnz => simp [assign, GCRef.owner, objat]
  | fixedgc => simp [assign, GCRef.owner, objat]

theorem deref_assign (g : global_State) (p : GCRef) (x : Option Nat)
    (hp : ∀ b, p.owner = some b → b < g.objs.length) : deref (assign g p x) p = x := by
  cases p with
  | next a =>
    have := hp a rfl
    simp only [deref, gcat_eq, assign, objat_gcset]
    simp [this]
  | allgc => rfl
  | finobj => rfl
  | tobefnz => rfl
  | fixedgc => rfl

theorem Linked_congr (g g1 : global_State) (l : List Nat) (x : Option Nat)
    (h : ∀ a ∈ l, objat g1 a = objat g a) (hl : Linked g x l) : Linked g1 x l := by
  induction l generalizing x with
  | nil => exact hl
  | cons a l ih =>
    obtain ⟨h1, h2, h3⟩ := hl
    have ha := h a (List.mem_cons_self a l)
    refine ⟨h1, ?_, ?_⟩
    · unfold allocated at h2 ⊢
      unfold objat at ha
      rw [ha]
      exact h2
    · rw [gcat_eq, ha, ← gcat_eq]
      exact ih _ (fun b hb => h b (List.mem_cons_of_mem a hb)) h3

theorem Linked_allocated (g : global_State) (l : List Nat) (x : Option Nat)
    (hl : Linked g x l) : ∀ a ∈ l, allocated g a = true := by
  induction l generalizing x with
  | nil => intro a ha; cases ha
  | cons b l ih =>
    obtain ⟨_, h2, h3⟩ := hl
    intro a ha
    rcases List.mem_cons.mp ha with e | e
    · rw [e]; exact h2
    · exact ih _ h3 a e

/-- Under the contract of the release routines `freeobj` releases the object. -/
theorem freeobj_release (E : GCEnv) (hrel : Releases E) (g : global_State) (a : Nat)
    (ht : CollectableTag E.H (gcat g a).tt) : freeobj E g a = release g a := by
  obtain ⟨r1, r2, r3, r4, r5, r6⟩ := hrel
  unfold freeobj freeupval
  simp only [r1, r2, r3, r4, r5, r6, ite_self]
  rcases ht with h | h | h | h | h | h | h | h | h <;> simp [h]

theorem rest_assign (g : global_State) (p : GCRef) (x : Option Nat) :
    (assign g p x).rest = g.rest := by
  cases p <;> rfl

theorem length_assign (g : global_State) (p : GCRef) (x : Option Nat) :
    (assign g p x).objs.length = g.objs.length := by
  cases p <;> simp [assign, gcset]

theorem white_cases (cw : Nat) :
    cw &&& 24 = 0 ∨ cw &&& 24 = 8 ∨ cw &&& 24 = 16 ∨ cw &&& 24 = 24 := by
  have h : cw &&& 24 = (cw % 32) &&& 24 := by
    have : (24 : Nat) = 31 &&& 24 := by decide
    conv_lhs => rw [this, ← Nat.and_assoc]
    rw [show (31 : Nat) = 2 ^ 5 - 1 by decide, Nat.and_pow_two_sub_one_eq_mod]
  rw [h]
  have hlt : cw % 32 < 32 := Nat.mod_lt _ (by decide)
  revert hlt
  generalize cw % 32 = r
  revert r
  decide

/-- The masks with the bits of `lgc.h`. -/
theorem std_masks (H : Decls) (hstd : StdMarks H) :
    WHITEBITS H = 24 ∧ maskcolors H = 56 ∧ maskgcbits H = 63 ∧ bitmask H.BLACKBIT = 32 ∧
    bitmask H.FINALIZEDBIT = 64 ∧ H.AGEBITS = 7 := by
  obtain ⟨h1, h2, h3, h4, h5, _⟩ := hstd
  unfold maskgcbits maskcolors WHITEBITS bit2mask bitmask
  rw [h1, h2, h3, h4, h5]
  decide

theorem luaC_white_std (H : Decls) (hstd : StdMarks H) (g : global_State) :
    luaC_white H g = g.currentwhite &&& 24 ∧
    (luaC_white H g = 0 ∨ luaC_white H g = 8 ∨ luaC_white H g = 16 ∨ luaC_white H g = 24) := by
  obtain ⟨m1, _⟩ := std_masks H hstd
  have e : luaC_white H g = g.currentwhite &&& 24 := by
    unfold luaC_white cast_byte
    rw [m1]
    have := white_cases g.currentwhite
    omega
  rw [e]
  exact ⟨rfl, white_cases g.currentwhite⟩

/-- The tags of the collectable objects with the type numbers of `lua.h`. -/
theorem std_tags (H : Decls) (h : StdTypes H) :
    LUA_VSHRSTR H = 4 ∧ LUA_VLNGSTR H = 20 ∧ LUA_VUPVAL H = 9 ∧ LUA_VUSERDATA H = 7 ∧
    LUA_VLCL H = 6 ∧ LUA_VCCL H = 38 ∧ LUA_VTABLE H = 5 ∧ LUA_VTHREAD H = 8 ∧
    LUA_VPROTO H = 10 := by
  obtain ⟨h1, h2, h3, h4, h5, h6⟩ := h
  unfold LUA_VSHRSTR LUA_VLNGSTR LUA_VUPVAL LUA_VUSERDATA LUA_VLCL LUA_VCCL LUA_VTABLE
    LUA_VTHREAD LUA_VPROTO LUA_TUPVAL LUA_TPROTO makevariant
  rw [h1, h2, h3, h4, h5, h6]
  decide

theorem gcat_gcset (g : global_State) (a x : Nat) (o : GCObj) :
    gcat (gcset g a o) x = if x = a ∧ a < g.objs.length then o else gcat g x := by
  rw [gcat_eq, objat_gcset]
  split <;> rfl

theorem gcat_setmarked (g : global_State) (a x m : Nat) :
    gcat (setmarked g a m) x =
      if x = a ∧ a < g.objs.length then { gcat g a with marked := m } else gcat g x := by
  unfold setmarked
  exact gcat_gcset g a x _

@[simp] theorem length_gcset (g : global_State) (a : Nat) (o : GCObj) :
    (gcset g a o).objs.length = g.objs.length := by
  simp [gcset]

@[simp] theorem length_setmarked (g : global_State) (a m : Nat) :
    (setmarked g a m).objs.length = g.objs.length := by
  simp [setmarked]

@[simp] theorem length_setgrayhead (g : global_State) (l : GrayList) (x : Option Nat) :
    (setgrayhead g l x).objs.length = g.objs.length := by
  cases l <;> rfl

theorem objat_setgrayhead (g : global_State) (l : GrayList) (x : Option Nat) (a : Nat) :
    objat (setgrayhead g l x) a = objat g a := by
  cases l <;> rfl

theorem gcat_setgrayhead (g : global_State) (l : GrayList) (x : Option Nat) (a : Nat) :
    gcat (setgrayhead g l x) a = gcat g a := by
  cases l <;> rfl

/-- `linkgclist_` writes to the object it links and to the head of the list only. -/
theorem objat_linkgclist_ne (H : Decls) (g : global_State) (o x : Nat) (l : GrayList)
    (hx : x ≠ o) : objat (linkgclist_ H g o l) x = objat g x := by
  unfold linkgclist_
  simp only []
  rw [objat_setmarked, if_neg (fun h => hx h.1), objat_setgrayhead, objat_gcset,
    if_neg (fun h => hx h.1)]

theorem gcat_linkgclist_self (H : Decls) (g : global_State) (o : Nat) (l : GrayList)
    (ho : o < g.objs.length) :
    gcat (linkgclist_ H g o l) o =
      { gcat g o with gclist := grayhead g l, marked := set2gray H (gcat g o).marked } := by
  unfold linkgclist_
  simp only []
  rw [gcat_setmarked, if_pos ⟨rfl, by simpa using ho⟩, gcat_setgrayhead, gcat_gcset,
    if_pos ⟨rfl, ho⟩]

theorem gray_linkgclist (H : Decls) (g : global_State) (o : Nat) :
    (linkgclist_ H g o GrayList.gray).gray = some o ∧
    (linkgclist_ H g o GrayList.gray).grayagain = g.grayagain ∧
    (linkgclist_ H g o GrayList.gray).gcstate = g.gcstate := by
  unfold linkgclist_
  exact ⟨rfl, rfl, rfl⟩

theorem objat_linkobjgclist_ne (H : Decls) (g : global_State) (o x : Nat) (l : GrayList)
    (hx : x ≠ o) : objat (linkobjgclist H g o l) x = objat g x := by
  unfold linkobjgclist
  split
  · exact objat_linkgclist_ne H g o x l hx
  · rfl

/-- One level of `reallymarkobject`. -/
theorem reallymarkobject_succ (H : Decls) (fuel : Nat) (g : global_State) (o : Nat) :
    reallymarkobject H (fuel + 1) g o =
      if (gcat g o).tt = LUA_VSHRSTR H ∨ (gcat g o).tt = LUA_VLNGSTR H then
        some (setmarked g o (set2black H (gcat g o).marked))
      else if (gcat g o).tt = LUA_VUPVAL H then
        if valiswhite H
            (if (gcat g o).isopen then setmarked g o (set2gray H (gcat g o).marked)
              else setmarked g o (set2black H (gcat g o).marked))
            (gcat (if (gcat g o).isopen then setmarked g o (set2gray H (gcat g o).marked)
              else setmarked g o (set2black H (gcat g o).marked)) o).v then
          reallymarkobject H fuel
            (if (gcat g o).isopen then setmarked g o (set2gray H (gcat g o).marked)
              else setmarked g o (set2black H (gcat g o).marked))
            (gcvalue (gcat (if (gcat g o).isopen then
                setmarked g o (set2gray H (gcat g o).marked)
              else setmarked g o (set2black H (gcat g o).marked)) o).v)
        else some (if (gcat g o).isopen then setmarked g o (set2gray H (gcat g o).marked)
              else setmarked g o (set2black H (gcat g o).marked))
      else if (gcat g o).tt = LUA_VUSERDATA H ∧ (gcat g o).nuvalue = 0 then
        (match (gcat g o).metatable with
         | some t =>
           if iswhite H (gcat g t).marked then reallymarkobject H fuel g t else some g
         | none => some g).map fun g1 => setmarked g1 o (set2black H (gcat g1 o).marked)
      else if (gcat g o).tt = LUA_VUSERDATA H ∨ (gcat g o).tt = LUA_VLCL H ∨
          (gcat g o).tt = LUA_VCCL H ∨ (gcat g o).tt = LUA_VTABLE H ∨
          (gcat g o).tt = LUA_VTHREAD H ∨ (gcat g o).tt = LUA_VPROTO H then
        some (linkobjgclist H g o GrayList.gray)
      else some g := rfl

/-- An object of a kind that has a field `gclist` is linked into the gray list. -/
theorem reallymarkobject_link (H : Decls) (hty : StdTypes H) (fuel : Nat) (g : global_State)
    (o : Nat)
    (hk : ((gcat g o).tt = LUA_VUSERDATA H ∧ (gcat g o).nuvalue ≠ 0) ∨
      (gcat g o).tt = LUA_VLCL H ∨ (gcat g o).tt = LUA_VCCL H ∨ (gcat g o).tt = LUA_VTABLE H ∨
      (gcat g o).tt = LUA_VTHREAD H ∨ (gcat g o).tt = LUA_VPROTO H) :
    reallymarkobject H (fuel + 1) g o = some (linkgclist_ H g o GrayList.gray) := by
  obtain ⟨t1, t2, t3, t4, t5, t6, t7, t8, t9⟩ := std_tags H hty
  rw [reallymarkobject_succ]
  unfold linkobjgclist getgclist
  rw [t1, t2, t3, t4, t5, t6, t7, t8, t9]
  rw [t4, t5, t6, t7, t8, t9] at hk
  rcases hk with ⟨h, h2⟩ | h | h | h | h | h
  · simp [h, h2]
  all_goals simp [h]

/-- A string is blackened. -/
theorem reallymarkobject_string (H : Decls) (fuel : Nat) (g : global_State) (o : Nat)
    (hk : (gcat g o).tt = LUA_VSHRSTR H ∨ (gcat g o).tt = LUA_VLNGSTR H) :
    reallymarkobject H (fuel + 1) g o = some (setmarked g o (set2black H (gcat g o).marked)) := by
  rw [reallymarkobject_succ, if_pos hk]

theorem gcat_out (g : global_State) (a : Nat) (h : g.objs.length ≤ a) :
    gcat g a = default := by
  unfold gcat
  simp only [List.getD_eq_getElem?_getD]
  rw [List.getElem?_eq_none h]
  rfl

theorem tt_in_range (g : global_State) (a : Nat) (h : (gcat g a).tt ≠ 0) :
    a < g.objs.length := by
  by_contra c
  rw [gcat_out g a (by omega)] at h
  exact h rfl

/-- Marking an object that is not an upvalue ends within two levels, writes to white
objects only, and leaves the gray list as it is or with a new head. -/
theorem reallymarkobject_flat (H : Decls) (hty : StdTypes H) (fuel : Nat) (g : global_State)
    (t : Nat) (htyped : Typed H g) (ht : (gcat g t).tt ≠ LUA_VUPVAL H) :
    ∃ g1, reallymarkobject H (fuel + 2) g t = some g1 ∧
      (∀ x, x ≠ t → iswhite H (gcat g x).marked = false → objat g1 x = objat g x) ∧
      (g1.gray = g.gray ∨
        ∃ x, g1.gray = some x ∧ (x = t ∨ iswhite H (gcat g x).marked = true)) := by
  obtain ⟨t1, t2, t3, t4, t5, t6, t7, t8, t9⟩ := std_tags H hty
  rw [reallymarkobject_succ]
  by_cases hs : (gcat g t).tt = LUA_VSHRSTR H ∨ (gcat g t).tt = LUA_VLNGSTR H
  · rw [if_pos hs]
    refine ⟨_, rfl, ?_, Or.inl rfl⟩
    intro x hx _
    rw [objat_setmarked, if_neg (fun h => hx h.1)]
  · rw [if_neg hs, if_neg ht]
    by_cases hu : (gcat g t).tt = LUA_VUSERDATA H ∧ (gcat g t).nuvalue = 0
    · rw [if_pos hu]
      have hin : t < g.objs.length := tt_in_range g t (by rw [hu.1, t4]; decide)
      cases hm : (gcat g t).metatable with
      | none =>
        refine ⟨_, rfl, ?_, Or.inl rfl⟩
        intro x hx _
        show objat (setmarked g t _) x = _
        rw [objat_setmarked, if_neg (fun h => hx h.1)]
      | some mt =>
        by_cases hw : iswhite H (gcat g mt).marked = true
        · have hmt : (gcat g mt).tt = LUA_VTABLE H := htyped.2 t hin hu.1 mt hm
          have e := reallymarkobject_link H hty fuel g mt (Or.inr (Or.inr (Or.inr (Or.inl hmt))))
          simp only [hw, if_true, e, Option.map]
          refine ⟨_, rfl, ?_, Or.inr ⟨mt, ?_, Or.inr hw⟩⟩
          · intro x hx hxw
            have hxm : x ≠ mt := by
              intro c
              rw [c, hw] at hxw
              exact absurd hxw (by decide)
            rw [objat_setmarked, if_neg (fun h => hx h.1), objat_linkgclist_ne H g mt x _ hxm]
          · show (linkgclist_ H g mt GrayList.gray).gray = some mt
            exact (gray_linkgclist H g mt).1
        · simp only [hw, Option.map]
          refine ⟨_, rfl, ?_, Or.inl rfl⟩
          intro x hx _
          rw [objat_setmarked, if_neg (fun h => hx h.1)]
    · rw [if_neg hu]
      split
      · refine ⟨_, rfl, ?_, ?_⟩
        · intro x hx _
          exact objat_linkobjgclist_ne H g t x _ hx
        · unfold linkobjgclist
          split
          · exact Or.inr ⟨t, (gray_linkgclist H g t).1, Or.inl rfl⟩
          · exact Or.inl rfl
      · exact ⟨_, rfl, fun _ _ _ => rfl, Or.inl rfl⟩

theorem Typed_setmarked (H : Decls) (g : global_State) (a m : Nat) (h : Typed H g) :
    Typed H (setmarked g a m) := by
  have hf : ∀ x, (gcat (setmarked g a m) x).tt = (gcat g x).tt ∧
      (gcat (setmarked g a m) x).v = (gcat g x).v ∧
      (gcat (setmarked g a m) x).metatable = (gcat g x).metatable := by
    intro x
    rw [gcat_setmarked]
    split
    · rename_i c
      rw [c.1]
      exact ⟨rfl, rfl, rfl⟩
    · exact ⟨rfl, rfl, rfl⟩
  constructor
  · intro x hx h1 h2
    rw [length_setmarked] at hx
    rw [(hf x).2.1, (hf _).1]
    rw [(hf x).1] at h1
    rw [(hf x).2.1] at h2
    exact h.1 x hx h1 h2
  · intro x hx h1 t h2
    rw [length_setmarked] at hx
    rw [(hf x).1] at h1
    rw [(hf x).2.2] at h2
    rw [(hf t).1]
    exact h.2 x hx h1 t h2

/-! ### Colours and ages -/

set_option maxRecDepth 100000 in
theorem set2black_byte : ∀ m, m < 256 →
    ((((m &&& (255 ^^^ 24)) ||| 32) % 256 &&& 24 != 0) = false) ∧
    ((((m &&& (255 ^^^ 24)) ||| 32) % 256 &&& 32 != 0) = true) ∧
    ((m &&& (255 ^^^ 24)) ||| 32) % 256 &&& 7 = m &&& 7 ∧
    ((m &&& (255 ^^^ 24)) ||| 32) % 256 < 256 := by
  decide

set_option maxRecDepth 100000 in
theorem set2gray_byte : ∀ m, m < 256 →
    ((m &&& ((255 ^^^ 56) % 256) &&& 24 != 0) = false) ∧
    ((m &&& ((255 ^^^ 56) % 256) &&& 32 != 0) = false) ∧
    ((m &&& ((255 ^^^ 56) % 256) &&& (24 ||| 32) == 0) = true) ∧
    m &&& ((255 ^^^ 56) % 256) &&& 7 = m &&& 7 ∧
    m &&& ((255 ^^^ 56) % 256) < 256 := by
  decide

set_option maxRecDepth 100000 in
theorem setage_byte : ∀ m, m < 256 →
    ((m &&& (255 ^^^ 7)) ||| 2) % 256 &&& 7 = 2 ∧
    ((((m &&& (255 ^^^ 7)) ||| 2) % 256 &&& 24 != 0) = (m &&& 24 != 0)) ∧
    ((((m &&& (255 ^^^ 7)) ||| 2) % 256 &&& 32 != 0) = (m &&& 32 != 0)) ∧
    ((((m &&& (255 ^^^ 7)) ||| 2) % 256 &&& (24 ||| 32) == 0) = (m &&& (24 ||| 32) == 0)) := by
  decide

set_option maxRecDepth 100000 in
theorem makewhite_byte (w : Nat) (hw : w = 0 ∨ w = 8 ∨ w = 16 ∨ w = 24) :
    ∀ m, m < 256 →
      ((m &&& (255 ^^^ 56)) ||| w) % 256 &&& 56 = w ∧
      ((m &&& (255 ^^^ 56)) ||| w) % 256 &&& 7 = m &&& 7 ∧
      ((m &&& (255 ^^^ 56)) ||| w) % 256 &&& (255 ^^^ 56) = m &&& (255 ^^^ 56) ∧
      ((m &&& (255 ^^^ 56)) ||| w) % 256 &&& 64 = m &&& 64 := by
  rcases hw with h | h | h | h <;> subst h <;> decide

/-- `set2black` makes a mark black and not white and keeps the age. -/
theorem set2black_spec (H : Decls) (hstd : StdMarks H) (m : Nat) (hm : m < 256) :
    iswhite H (set2black H m) = false ∧ isblack H (set2black H m) = true ∧
    getage H (set2black H m) = getage H m ∧ set2black H m < 256 := by
  obtain ⟨m1, m2, m3, m4, m5, m6⟩ := std_masks H hstd
  unfold iswhite isblack getage set2black cast_byte compl8
  rw [m1, m4, m6]
  exact set2black_byte m hm

/-- `set2gray` makes a mark gray and keeps the age. -/
theorem set2gray_spec (H : Decls) (hstd : StdMarks H) (m : Nat) (hm : m < 256) :
    iswhite H (set2gray H m) = false ∧ isblack H (set2gray H m) = false ∧
    isgray H (set2gray H m) = true ∧ getage H (set2gray H m) = getage H m ∧
    set2gray H m < 256 := by
  obtain ⟨m1, m2, m3, m4, m5, m6⟩ := std_masks H hstd
  unfold iswhite isblack isgray getage set2gray cast_byte compl8
  rw [m1, m2, m4, m6]
  exact set2gray_byte m hm

/-- `setage` to `G_OLD0` sets the age and keeps the colour. -/
theorem setage_old0_spec (H : Decls) (hstd : StdMarks H) (m : Nat) (hm : m < 256) :
    getage H (setage H m H.G_OLD0) = H.G_OLD0 ∧
    iswhite H (setage H m H.G_OLD0) = iswhite H m ∧
    isblack H (setage H m H.G_OLD0) = isblack H m ∧
    isgray H (setage H m H.G_OLD0) = isgray H m := by
  obtain ⟨m1, m2, m3, m4, m5, m6⟩ := std_masks H hstd
  have ho : H.G_OLD0 = 2 := hstd.2.2.2.2.2.2.2.1
  unfold iswhite isblack isgray getage setage cast_byte compl8
  rw [m1, m4, m6, ho]
  exact setage_byte m hm

/-- `makewhite` sets the colour to the current white and keeps the age and the other bits. -/
theorem makewhite_spec (H : Decls) (hstd : StdMarks H) (g : global_State) (m : Nat)
    (hm : m < 256) :
    makewhite H g m &&& maskcolors H = luaC_white H g ∧
    getage H (makewhite H g m) = getage H m ∧
    makewhite H g m &&& compl8 (maskcolors H) = m &&& compl8 (maskcolors H) ∧
    tofinalize H (makewhite H g m) = tofinalize H m := by
  obtain ⟨m1, m2, m3, m4, m5, m6⟩ := std_masks H hstd
  obtain ⟨_, hw⟩ := luaC_white_std H hstd g
  obtain ⟨b1, b2, b3, b4⟩ := makewhite_byte (luaC_white H g) hw m hm
  unfold makewhite getage tofinalize compl8 cast_byte
  rw [m2, m5, m6]
  exact ⟨b1, b2, b3, by rw [b4]⟩

/-! ### Marking a white object -/

theorem allocated_of_objat (g : global_State) (a : Nat) (o : GCObj) (h : objat g a = some o) :
    allocated g a = true := by
  unfold allocated
  unfold objat at h
  rw [h]
  rfl

theorem length_linkgclist (H : Decls) (g : global_State) (o : Nat) (l : GrayList) :
    (linkgclist_ H g o l).objs.length = g.objs.length := by
  unfold linkgclist_
  simp

theorem objat_linkgclist_self (H : Decls) (g : global_State) (o : Nat) (l : GrayList)
    (ho : o < g.objs.length) :
    objat (linkgclist_ H g o l) o =
      some { gcat g o with gclist := grayhead g l, marked := set2gray H (gcat g o).marked } := by
  unfold linkgclist_
  simp only []
  rw [objat_setmarked, if_pos ⟨rfl, by simpa using ho⟩, gcat_setgrayhead, gcat_gcset,
    if_pos ⟨rfl, ho⟩]

theorem markedAs_black (H : Decls) (hty : StdTypes H) (g g1 : global_State) (v : Nat)
    (hk : (gcat g v).tt = LUA_VSHRSTR H ∨ (gcat g v).tt = LUA_VLNGSTR H ∨
      ((gcat g v).tt = LUA_VUPVAL H ∧ (gcat g v).isopen = false) ∨
      ((gcat g v).tt = LUA_VUSERDATA H ∧ (gcat g v).nuvalue = 0))
    (h1 : iswhite H (gcat g1 v).marked = false) (h2 : isblack H (gcat g1 v).marked = true) :
    MarkedAs H g g1 v := by
  obtain ⟨t1, t2, t3, t4, t5, t6, t7, t8, t9⟩ := std_tags H hty
  unfold MarkedAs
  rw [t1, t2, t3, t4, t5, t6, t7, t8, t9]
  rw [t1, t2, t3, t4] at hk
  refine ⟨h1, fun _ => h2, ?_, ?_⟩
  · intro hp
    rcases hk with h | h | ⟨h, h'⟩ | ⟨h, h'⟩ <;> simp [h] at hp
    rw [h'] at hp
    exact absurd hp (by decide)
  · intro hp
    rcases hk with h | h | ⟨h, h'⟩ | ⟨h, h'⟩ <;> simp [h] at hp
    exact absurd h' hp

theorem markedAs_open (H : Decls) (hty : StdTypes H) (g g1 : global_State) (v : Nat)
    (hk : (gcat g v).tt = LUA_VUPVAL H ∧ (gcat g v).isopen = true)
    (h1 : iswhite H (gcat g1 v).marked = false) (h2 : isgray H (gcat g1 v).marked = true)
    (h3 : g1.gray = some v → g.gray = some v) : MarkedAs H g g1 v := by
  obtain ⟨t1, t2, t3, t4, t5, t6, t7, t8, t9⟩ := std_tags H hty
  unfold MarkedAs
  rw [t1, t2, t3, t4, t5, t6, t7, t8, t9]
  rw [t3] at hk
  refine ⟨h1, ?_, fun _ => ⟨h2, h3⟩, ?_⟩
  · intro hp
    simp [hk.1, hk.2] at hp
  · intro hp
    simp [hk.1] at hp

theorem markedAs_link (H : Decls) (hty : StdTypes H) (g g1 : global_State) (v : Nat)
    (hk : ((gcat g v).tt = LUA_VUSERDATA H ∧ (gcat g v).nuvalue ≠ 0) ∨
      (gcat g v).tt = LUA_VLCL H ∨ (gcat g v).tt = LUA_VCCL H ∨
      (gcat g v).tt = LUA_VTABLE H ∨ (gcat g v).tt = LUA_VTHREAD H ∨
      (gcat g v).tt = LUA_VPROTO H)
    (h1 : iswhite H (gcat g1 v).marked = false) (h2 : isgray H (gcat g1 v).marked = true)
    (h3 : g1.gray = some v) (h4 : (gcat g1 v).gclist = g.gray) : MarkedAs H g g1 v := by
  obtain ⟨t1, t2, t3, t4, t5, t6, t7, t8, t9⟩ := std_tags H hty
  unfold MarkedAs
  rw [t1, t2, t3, t4, t5, t6, t7, t8, t9]
  rw [t4, t5, t6, t7, t8, t9] at hk
  refine ⟨h1, ?_, ?_, fun _ => ⟨h2, h3, h4⟩⟩
  · intro hp
    rcases hk with ⟨h, h'⟩ | h | h | h | h | h <;> simp [h] at hp
    exact absurd hp h'
  · intro hp
    rcases hk with ⟨h, h'⟩ | h | h | h | h | h <;> simp [h] at hp

/-- What `reallymarkobject` does to the white object `v` it is called on; it ends within
three levels and leaves an object `o` that is not white as it is. -/
theorem reallymarkobject_top (H : Decls) (hstd : StdMarks H) (hty : StdTypes H) (fuel : Nat)
    (g : global_State) (o v : Nat) (htyped : Typed H g) (hav : allocated g v = true)
    (how : iswhite H (gcat g o).marked = false) (hvw : iswhite H (gcat g v).marked = true)
    (hvt : CollectableTag H (gcat g v).tt) (hbv : (gcat g v).marked < 256) :
    ∃ g1, reallymarkobject H (fuel + 3) g v = some g1 ∧ objat g1 o = objat g o ∧
      allocated g1 v = true ∧ (gcat g1 v).marked < 256 ∧ MarkedAs H g g1 v := by
  obtain ⟨t1, t2, t3, t4, t5, t6, t7, t8, t9⟩ := std_tags H hty
  have hov : o ≠ v := by
    intro c
    rw [c, hvw] at how
    exact absurd how (by decide)
  have hlt := allocated_lt g v hav
  obtain ⟨k1, k2, k3, k4⟩ := set2black_spec H hstd (gcat g v).marked hbv
  obtain ⟨y1, y2, y3, y4, y5⟩ := set2gray_spec H hstd (gcat g v).marked hbv
  have hblack : ∀ g2,
      objat g2 v = some { gcat g v with marked := set2black H (gcat g v).marked } →
      allocated g2 v = true ∧ (gcat g2 v).marked < 256 ∧
      iswhite H (gcat g2 v).marked = false ∧ isblack H (gcat g2 v).marked = true := by
    intro g2 e
    have e2 : gcat g2 v = { gcat g v with marked := set2black H (gcat g v).marked } := by
      rw [gcat_eq, e]; rfl
    rw [e2]
    exact ⟨allocated_of_objat g2 v _ e, k4, k1, k2⟩
  have hgray : ∀ g2 gl,
      objat g2 v =
        some { gcat g v with gclist := gl, marked := set2gray H (gcat g v).marked } →
      allocated g2 v = true ∧ (gcat g2 v).marked < 256 ∧
      iswhite H (gcat g2 v).marked = false ∧ isgray H (gcat g2 v).marked = true ∧
      (gcat g2 v).gclist = gl := by
    intro g2 gl e
    have e2 : gcat g2 v =
        { gcat g v with gclist := gl, marked := set2gray H (gcat g v).marked } := by
      rw [gcat_eq, e]; rfl
    rw [e2]
    exact ⟨allocated_of_objat g2 v _ e, y5, y1, y3, rfl⟩
  have hsb : objat (setmarked g v (set2black H (gcat g v).marked)) v =
      some { gcat g v with marked := set2black H (gcat g v).marked } := by
    rw [objat_setmarked, if_pos ⟨rfl, hlt⟩]
  have hsg : objat (setmarked g v (set2gray H (gcat g v).marked)) v =
      some { gcat g v with
        gclist := (gcat g v).gclist, marked := set2gray H (gcat g v).marked } := by
    rw [objat_setmarked, if_pos ⟨rfl, hlt⟩]
  have hso : ∀ m, objat (setmarked g v m) o = objat g o := by
    intro m
    rw [objat_setmarked, if_neg (fun h => hov h.1)]
  -- strings
  have hstring : ((gcat g v).tt = LUA_VSHRSTR H ∨ (gcat g v).tt = LUA_VLNGSTR H) →
      ∃ g1, reallymarkobject H (fuel + 3) g v = some g1 ∧ objat g1 o = objat g o ∧
        allocated g1 v = true ∧ (gcat g1 v).marked < 256 ∧ MarkedAs H g g1 v := by
    intro hs
    have e := reallymarkobject_string H (fuel + 2) g v hs
    obtain ⟨b1, b2, b3, b4⟩ := hblack _ hsb
    refine ⟨_, e, hso _, b1, b2, markedAs_black H hty g _ v ?_ b3 b4⟩
    rcases hs with h | h
    · exact Or.inl h
    · exact Or.inr (Or.inl h)
  -- objects with a field `gclist`
  have hlink : (((gcat g v).tt = LUA_VUSERDATA H ∧ (gcat g v).nuvalue ≠ 0) ∨
      (gcat g v).tt = LUA_VLCL H ∨ (gcat g v).tt = LUA_VCCL H ∨
      (gcat g v).tt = LUA_VTABLE H ∨ (gcat g v).tt = LUA_VTHREAD H ∨
      (gcat g v).tt = LUA_VPROTO H) →
      ∃ g1, reallymarkobject H (fuel + 3) g v = some g1 ∧ objat g1 o = objat g o ∧
        allocated g1 v = true ∧ (gcat g1 v).marked < 256 ∧ MarkedAs H g g1 v := by
    intro hk
    have e := reallymarkobject_link H hty (fuel + 2) g v hk
    obtain ⟨b1, b2, b3, b4, b5⟩ := hgray _ _ (objat_linkgclist_self H g v GrayList.gray hlt)
    exact ⟨_, e, objat_linkgclist_ne H g v o _ hov, b1, b2,
      markedAs_link H hty g _ v hk b3 b4 (gray_linkgclist H g v).1 b5⟩
  have hns : ∀ tag, (gcat g v).tt = tag → tag ≠ 4 → tag ≠ 20 →
      ¬ ((gcat g v).tt = LUA_VSHRSTR H ∨ (gcat g v).tt = LUA_VLNGSTR H) := by
    intro tag e n1 n2
    rw [t1, t2, e]
    exact fun c => c.elim n1 n2
  -- what follows the change of colour of an upvalue
  have hup : (gcat g v).tt = LUA_VUPVAL H → ∀ m', iswhite H m' = false →
      ∃ g1, (if valiswhite H (setmarked g v m') (gcat (setmarked g v m') v).v then
            reallymarkobject H (fuel + 2) (setmarked g v m')
              (gcvalue (gcat (setmarked g v m') v).v)
          else some (setmarked g v m')) = some g1 ∧
        objat g1 o = objat g o ∧ objat g1 v = some { gcat g v with marked := m' } ∧
        (g1.gray = some v → g.gray = some v) := by
    intro h m' hm'
    have hself : objat (setmarked g v m') v = some { gcat g v with marked := m' } := by
      rw [objat_setmarked, if_pos ⟨rfl, hlt⟩]
    have hgself : gcat (setmarked g v m') v = { gcat g v with marked := m' } := by
      rw [gcat_eq, hself]; rfl
    by_cases hw : valiswhite H (setmarked g v m') (gcat (setmarked g v m') v).v = true
    · rw [if_pos hw]
      have hw2 := hw
      unfold valiswhite at hw2
      rw [Bool.and_eq_true] at hw2
      have ht : (gcat (setmarked g v m') (gcvalue (gcat (setmarked g v m') v).v)).tt ≠
          LUA_VUPVAL H :=
        (Typed_setmarked H g v m' htyped).1 v (by simpa using hlt)
          (by rw [hgself]; exact h) hw2.1
      obtain ⟨g1, e, hfr, hhead⟩ := reallymarkobject_flat H hty fuel (setmarked g v m')
        (gcvalue (gcat (setmarked g v m') v).v) (Typed_setmarked H g v m' htyped) ht
      have hvt' : v ≠ gcvalue (gcat (setmarked g v m') v).v := by
        intro c
        have := hw2.2
        rw [← c, hgself] at this
        rw [hm'] at this
        exact absurd this (by decide)
      have hot : o ≠ gcvalue (gcat (setmarked g v m') v).v := by
        intro c
        have := hw2.2
        rw [← c, gcat_eq, hso, ← gcat_eq, how] at this
        exact absurd this (by decide)
      refine ⟨g1, e, ?_, ?_, ?_⟩
      · rw [hfr o hot (by rw [gcat_eq, hso, ← gcat_eq]; exact how), hso]
      · rw [hfr v hvt' (by rw [hgself]; exact hm'), hself]
      · intro hg
        rcases hhead with e2 | ⟨x, e2, hx⟩
        · rw [e2] at hg
          exact hg
        · rw [e2] at hg
          injection hg with hxv
          rcases hx with c | c
          · exact absurd (hxv ▸ c) hvt'
          · rw [hxv, hgself] at c
            rw [hm'] at c
            exact absurd c (by decide)
    · rw [if_neg hw]
      exact ⟨_, rfl, hso _, hself, fun hg => hg⟩
  rcases hvt with h | h | h | h | h | h | h | h | h
  · exact hstring (Or.inl h)
  · exact hstring (Or.inr h)
  · -- upvalue
    have hrun : ∀ m', (if (gcat g v).isopen then setmarked g v (set2gray H (gcat g v).marked)
          else setmarked g v (set2black H (gcat g v).marked)) = setmarked g v m' →
        reallymarkobject H (fuel + 3) g v =
          if valiswhite H (setmarked g v m') (gcat (setmarked g v m') v).v then
            reallymarkobject H (fuel + 2) (setmarked g v m')
              (gcvalue (gcat (setmarked g v m') v).v)
          else some (setmarked g v m') := by
      intro m' e
      rw [reallymarkobject_succ, if_neg (hns 9 (by rw [← t3]; exact h) (by decide) (by decide)),
        if_pos h, e]
    cases hop : (gcat g v).isopen with
    | true =>
      obtain ⟨g1, e, h1, h2, h3⟩ := hup h (set2gray H (gcat g v).marked) y1
      rw [← hrun _ (by rw [hop]; rfl)] at e
      obtain ⟨b1, b2, b3, b4, _⟩ := hgray g1 (gcat g v).gclist h2
      exact ⟨g1, e, h1, b1, b2, markedAs_open H hty g g1 v ⟨h, hop⟩ b3 b4 h3⟩
    | false =>
      obtain ⟨g1, e, h1, h2, h3⟩ := hup h (set2black H (gcat g v).marked) k1
      rw [← hrun _ (by rw [hop]; rfl)] at e
      obtain ⟨b1, b2, b3, b4⟩ := hblack g1 h2
      exact ⟨g1, e, h1, b1, b2,
        markedAs_black H hty g g1 v (Or.inr (Or.inr (Or.inl ⟨h, hop⟩))) b3 b4⟩
  · -- userdata
    by_cases hn : (gcat g v).nuvalue = 0
    · have hk : (gcat g v).tt = LUA_VSHRSTR H ∨ (gcat g v).tt = LUA_VLNGSTR H ∨
          ((gcat g v).tt = LUA_VUPVAL H ∧ (gcat g v).isopen = false) ∨
          ((gcat g v).tt = LUA_VUSERDATA H ∧ (gcat g v).nuvalue = 0) :=
        Or.inr (Or.inr (Or.inr ⟨h, hn⟩))
      have hnu : ¬ (gcat g v).tt = LUA_VUPVAL H := by
        rw [h, t3, t4]; decide
      rw [reallymarkobject_succ,
        if_neg (hns 7 (by rw [← t4]; exact h) (by decide) (by decide)), if_neg hnu,
        if_pos ⟨h, hn⟩]
      have hplain : ∃ g1, some (setmarked g v (set2black H (gcat g v).marked)) = some g1 ∧
          objat g1 o = objat g o ∧ allocated g1 v = true ∧ (gcat g1 v).marked < 256 ∧
          MarkedAs H g g1 v := by
        obtain ⟨b1, b2, b3, b4⟩ := hblack _ hsb
        exact ⟨_, rfl, hso _, b1, b2, markedAs_black H hty g _ v hk b3 b4⟩
      cases hm : (gcat g v).metatable with
      | none => exact hplain
      | some mt =>
        by_cases hw : iswhite H (gcat g mt).marked = true
        · have hmt : (gcat g mt).tt = LUA_VTABLE H := htyped.2 v hlt h mt hm
          have e := reallymarkobject_link H hty (fuel + 1) g mt
            (Or.inr (Or.inr (Or.inr (Or.inl hmt))))
          simp only [hw, if_true, e, Option.map]
          have hvm : v ≠ mt := by
            intro c
            rw [← c, h, t4, t7] at hmt
            exact absurd hmt (by decide)
          have hom : o ≠ mt := by
            intro c
            rw [c, hw] at how
            exact absurd how (by decide)
          have hgv : gcat (linkgclist_ H g mt GrayList.gray) v = gcat g v := by
            rw [gcat_eq, objat_linkgclist_ne H g mt v _ hvm, ← gcat_eq]
          have hself : objat (setmarked (linkgclist_ H g mt GrayList.gray) v
              (set2black H (gcat (linkgclist_ H g mt GrayList.gray) v).marked)) v =
              some { gcat g v with marked := set2black H (gcat g v).marked } := by
            rw [objat_setmarked, if_pos ⟨rfl, by rw [length_linkgclist]; exact hlt⟩, hgv]
          obtain ⟨b1, b2, b3, b4⟩ := hblack _ hself
          refine ⟨_, rfl, ?_, b1, b2, markedAs_black H hty g _ v hk b3 b4⟩
          rw [objat_setmarked, if_neg (fun c => hov c.1), objat_linkgclist_ne H g mt o _ hom]
        · simp only [hw, Option.map]
          exact hplain
    · exact hlink (Or.inl ⟨h, hn⟩)
  · exact hlink (Or.inr (Or.inl h))
  · exact hlink (Or.inr (Or.inr (Or.inl h)))
  · exact hlink (Or.inr (Or.inr (Or.inr (Or.inl h))))
  · exact hlink (Or.inr (Or.inr (Or.inr (Or.inr (Or.inl h)))))
  · exact hlink (Or.inr (Or.inr (Or.inr (Or.inr (Or.inr h)))))

/-- C19, as stated, fails: while the collector propagates marks, `luaC_barrier_` called with
the black closure at address 0 and the white open upvalue at address 1 leaves the upvalue
gray, and it is not black and not linked in the gray list (the gray list stays empty). -/
theorem luaC_barrier_open_counterexample :
    keepinvariant lua544 exBarrier = true ∧
    isblack lua544 (gcat exBarrier 0).marked = true ∧
    iswhite lua544 (gcat exBarrier 1).marked = true ∧
    luaC_barrier_ lua544 3 exBarrier 0 1 = some (setmarked exBarrier 1 0) ∧
    isblack lua544 (gcat (setmarked exBarrier 1 0) 1).marked = false ∧
    isgray lua544 (gcat (setmarked exBarrier 1 0) 1).marked = true ∧
    (setmarked exBarrier 1 0).gray = none := by
  decide

/-- C19, amended: when the collector must keep the invariant, `luaC_barrier_(L, o, v)` called
with `o` black and `v` white returns and leaves `v` non-white: black (a string, a closed
upvalue, a userdata without user values), or gray and linked at the head of the gray list, or,
for an open upvalue, gray without being put in the gray list.  If `o` is old the age of `v`
becomes `G_OLD0`.  The object `o` is unchanged, so it is still black and `v` is not white. -/
theorem luaC_barrier_marks (H : Decls) (hstd : StdMarks H) (hty : StdTypes H) (fuel : Nat)
    (g : global_State) (o v : Nat) (hk : keepinvariant H g = true) (htyped : Typed H g)
    (hav : allocated g v = true)
    (hob : isblack H (gcat g o).marked = true) (how : iswhite H (gcat g o).marked = false)
    (hvw : iswhite H (gcat g v).marked = true)
    (hvt : CollectableTag H (gcat g v).tt) (hbv : (gcat g v).marked < 256) :
    ∃ g1, luaC_barrier_ H (fuel + 3) g o v = some g1 ∧ MarkedAs H g g1 v ∧
      (isold H (gcat g o).marked = true → getage H (gcat g1 v).marked = H.G_OLD0) ∧
      objat g1 o = objat g o ∧ isblack H (gcat g1 o).marked = true ∧
      iswhite H (gcat g1 v).marked = false := by
  obtain ⟨g0, e, ho, ha, hb, hm⟩ :=
    reallymarkobject_top H hstd hty fuel g o v htyped hav how hvw hvt hbv
  have hov : o ≠ v := by
    intro c
    rw [c, hvw] at how
    exact absurd how (by decide)
  have hgo : gcat g0 o = gcat g o := by rw [gcat_eq, ho, ← gcat_eq]
  unfold luaC_barrier_
  rw [if_pos hk, e]
  show ∃ g1, some (if isold H (gcat g0 o).marked = true then
      setmarked g0 v (setage H (gcat g0 v).marked H.G_OLD0) else g0) = some g1 ∧ _
  rw [hgo]
  by_cases hold : isold H (gcat g o).marked = true
  · rw [if_pos hold]
    obtain ⟨s1, s2, s3, s4⟩ := setage_old0_spec H hstd (gcat g0 v).marked hb
    have hself : gcat (setmarked g0 v (setage H (gcat g0 v).marked H.G_OLD0)) v =
        { gcat g0 v with marked := setage H (gcat g0 v).marked H.G_OLD0 } := by
      rw [gcat_setmarked, if_pos ⟨rfl, allocated_lt g0 v ha⟩]
    have hoth : objat (setmarked g0 v (setage H (gcat g0 v).marked H.G_OLD0)) o = objat g o := by
      rw [objat_setmarked, if_neg (fun c => hov c.1), ho]
    refine ⟨_, rfl, ?_, ?_, hoth, ?_, ?_⟩
    · unfold MarkedAs at hm ⊢
      rw [hself]
      show iswhite H (setage H (gcat g0 v).marked H.G_OLD0) = false ∧
        (_ → isblack H (setage H (gcat g0 v).marked H.G_OLD0) = true) ∧
        (_ → isgray H (setage H (gcat g0 v).marked H.G_OLD0) = true ∧
          (g0.gray = some v → g.gray = some v)) ∧
        (_ → isgray H (setage H (gcat g0 v).marked H.G_OLD0) = true ∧ g0.gray = some v ∧
          (gcat g0 v).gclist = g.gray)
      rw [s2, s3, s4]
      exact hm
    · intro _
      rw [hself]
      exact s1
    · rw [gcat_eq, hoth, ← gcat_eq]
      exact hob
    · rw [hself]
      show iswhite H (setage H (gcat g0 v).marked H.G_OLD0) = false
      rw [s2]
      exact hm.1
  · rw [if_neg hold]
    refine ⟨_, rfl, hm, fun c => absurd c hold, ho, ?_, hm.1⟩
    rw [hgo]
    exact hob

theorem luaC_barrier_marks_witness :
    keepinvariant lua544 exBarrierTable = true ∧
    isblack lua544 (gcat exBarrierTable 0).marked = true ∧
    isold lua544 (gcat exBarrierTable 0).marked = true ∧
    iswhite lua544 (gcat exBarrierTable 1).marked = true ∧
    ∃ g1, luaC_barrier_ lua544 3 exBarrierTable 0 1 = some g1 ∧
      MarkedAs lua544 exBarrierTable g1 1 ∧ getage lua544 (gcat g1 1).marked = lua544.G_OLD0 ∧
      isblack lua544 (gcat g1 0).marked = true :=
  ⟨by decide, by decide, by decide, by decide,
    (luaC_barrier_marks lua544 (by decide) (by decide) 0 exBarrierTable 0 1 (by decide)
      (by decide) (by decide) (by decide) (by decide) (by decide) (by decide) (by decide)).elim
      fun g1 h => ⟨g1, h.1, h.2.1, h.2.2.1 (by decide), h.2.2.2.2.1⟩⟩

/-- C20, as stated, fails: in the sweep phase of a generational collection `luaC_barrier_`
called with the black closure at address 0 and the white upvalue at address 1 leaves the
closure black; it is not repainted with the current white. -/
theorem luaC_barrier_sweep_counterexample :
    keepinvariant lua544 exBarrierGen = false ∧
    isblack lua544 (gcat exBarrierGen 0).marked = true ∧
    iswhite lua544 (gcat exBarrierGen 1).marked = true ∧
    luaC_barrier_ lua544 3 exBarrierGen 0 1 = some exBarrierGen ∧
    iswhite lua544 (gcat exBarrierGen 0).marked = false := by
  decide

/-- C20, amended: when `luaC_barrier_(L, o, v)` is called during a sweep phase (the collector
does not keep the invariant) it does not mark `v`.  In incremental mode
(`gckind == KGC_INC`) it repaints `o` with the current white, leaving the age and the other
mark bits of `o`, and every other object, unchanged; in another mode it changes nothing. -/
theorem luaC_barrier_sweep (H : Decls) (fuel : Nat) (g : global_State) (o v : Nat)
    (hstd : StdMarks H) (hk : keepinvariant H g = false) (hao : allocated g o = true)
    (hbyte : (gcat g o).marked < 256) (hne : o ≠ v) :
    (g.gckind = H.KGC_INC →
      ∃ g1, luaC_barrier_ H fuel g o v = some g1 ∧
        gcat g1 o = { gcat g o with marked := makewhite H g (gcat g o).marked } ∧
        (gcat g1 o).marked &&& maskcolors H = luaC_white H g ∧
        getage H (gcat g1 o).marked = getage H (gcat g o).marked ∧
        (gcat g1 o).marked &&& compl8 (maskcolors H) =
          (gcat g o).marked &&& compl8 (maskcolors H) ∧
        (∀ x, x ≠ o → objat g1 x = objat g x) ∧ objat g1 v = objat g v ∧
        g1 = { g with objs := g1.objs }) ∧
    (g.gckind ≠ H.KGC_INC → luaC_barrier_ H fuel g o v = some g) := by
  have hk2 : ¬ keepinvariant H g = true := by rw [hk]; decide
  constructor
  · intro hinc
    have hrun : luaC_barrier_ H fuel g o v =
        some (setmarked g o (makewhite H g (gcat g o).marked)) := by
      unfold luaC_barrier_
      rw [if_neg hk2, if_pos hinc]
    have hself : gcat (setmarked g o (makewhite H g (gcat g o).marked)) o =
        { gcat g o with marked := makewhite H g (gcat g o).marked } := by
      rw [gcat_setmarked, if_pos ⟨rfl, allocated_lt g o hao⟩]
    obtain ⟨b1, b2, b3, _⟩ := makewhite_spec H hstd g (gcat g o).marked hbyte
    have hother : ∀ x, x ≠ o →
        objat (setmarked g o (makewhite H g (gcat g o).marked)) x = objat g x := by
      intro x hx
      rw [objat_setmarked, if_neg (fun h => hx h.1)]
    refine ⟨_, hrun, hself, ?_, ?_, ?_, hother, hother v (fun e => hne e.symm), rfl⟩
    · rw [hself]; exact b1
    · rw [hself]; exact b2
    · rw [hself]; exact b3
  · intro hgen
    unfold luaC_barrier_
    rw [if_neg hk2, if_neg hgen]

theorem luaC_barrier_sweep_witness :
    StdMarks lua544 ∧ keepinvariant lua544 exBarrierInc = false ∧
    exBarrierInc.gckind = lua544.KGC_INC ∧
    ∃ g1, luaC_barrier_ lua544 3 exBarrierInc 0 1 = some g1 ∧
      (gcat g1 0).marked &&& maskcolors lua544 = luaC_white lua544 exBarrierInc ∧
      objat g1 1 = objat exBarrierInc 1 :=
  ⟨by decide, by decide, rfl,
    ((luaC_barrier_sweep lua544 3 exBarrierInc 0 1 (by decide) (by decide) (by decide)
      (by decide) (by decide)).1 rfl).elim
      fun g1 h => ⟨g1, h.1, h.2.2.1, h.2.2.2.2.2.2.1⟩⟩

/-- C28: `luaD_seterrorobj(L, errcode, oldtop)`, with `oldtop` a slot of the stack, returns
with `top = oldtop + 1` and with every other stack slot as it was.  The slot `oldtop` holds the
preregistered string `memerrmsg` for `LUA_ERRMEM` (the heap is as it was: no object is
created), the string made from "error in error handling" for `LUA_ERRERR`, nil for `LUA_OK`,
and for any other status the value that was at `top - 1`. -/
theorem luaD_seterrorobj_stores (E : Env) (L : lua_State) (errcode : Int) (n : Nat)
    (hslot : HasSlot E.H n L) (hstr : NewStringKeeps E) :
    ∃ L1, luaD_seterrorobj E L errcode (restorestack L n) = Ctl.ret () L1 ∧
      L1.top = restorestack L n + 1 ∧ L1.stack = L.stack ∧
      L1.stackmem.length = L.stackmem.length ∧
      (∀ q, L.stack ≤ q → q ≠ restorestack L n → stkat L1 q = stkat L q) ∧
      (errcode = E.H.LUA_ERRMEM →
        s2v L1 (restorestack L n) =
          { value_ := Value.gc L.memerrmsg, tt_ := ctb (gctt L L.memerrmsg) } ∧
        L1.heap = L.heap) ∧
      (errcode ≠ E.H.LUA_ERRMEM → errcode = E.H.LUA_ERRERR →
        ∃ a Ls, E.luaS_newlstr L "error in error handling" = Ctl.ret a Ls ∧
          s2v L1 (restorestack L n) = { value_ := Value.gc a, tt_ := ctb (gctt Ls a) }) ∧
      (errcode ≠ E.H.LUA_ERRMEM → errcode ≠ E.H.LUA_ERRERR → errcode = E.H.LUA_OK →
        s2v L1 (restorestack L n) = setnilvalue E.H (s2v L (restorestack L n)) ∧
        rawtt (s2v L1 (restorestack L n)) = LUA_VNIL E.H ∧ L1.heap = L.heap) ∧
      (errcode ≠ E.H.LUA_ERRMEM → errcode ≠ E.H.LUA_ERRERR → errcode ≠ E.H.LUA_OK →
        s2v L1 (restorestack L n) = s2v L (L.top - 1) ∧ L1.heap = L.heap) := by
  obtain ⟨h1, h2⟩ := hslot
  have hin : ∀ M : lua_State, M.stack = L.stack → M.stackmem.length = L.stackmem.length →
      (M.stack + n - M.stack = M.stack + n - M.stack ∧
        M.stack + n - M.stack < M.stackmem.length) := by
    intro M e1 e2
    omega
  have hout : ∀ (M : lua_State) (q : Nat), M.stack = L.stack → L.stack ≤ q → q ≠ L.stack + n →
      ¬ (q - M.stack = M.stack + n - M.stack ∧ M.stack + n - M.stack < M.stackmem.length) := by
    intro M q e1 e2 e3 c
    omega
  unfold luaD_seterrorobj restorestack
  by_cases c1 : errcode = E.H.LUA_ERRMEM
  · rw [if_pos c1]
    refine ⟨_, rfl, rfl, rfl, ?_, ?_, ⟨fun _ => ⟨?_, rfl⟩, fun h => absurd c1 h,
      fun h => absurd c1 h, fun h => absurd c1 h⟩⟩
    · simp only [setsvalue2s, stkset_length]
    · intro q hq hne
      show stkat (setsvalue2s L (L.stack + n) L.memerrmsg) q = _
      unfold setsvalue2s
      rw [stkat_stkset, if_neg (hout L q rfl hq hne)]
    · show s2v (setsvalue2s L (L.stack + n) L.memerrmsg) (L.stack + n) = _
      unfold setsvalue2s
      rw [s2v_stkset, if_pos (hin L rfl rfl)]
  · rw [if_neg c1]
    by_cases c2 : errcode = E.H.LUA_ERRERR
    · rw [if_pos c2]
      obtain ⟨a, Ls, hs, hLs⟩ := hstr L "error in error handling"
      have f1 : Ls.stack = L.stack := by rw [hLs]
      have f2 : Ls.stackmem = L.stackmem := by rw [hLs]
      simp only [hs, Ctl.bind]
      refine ⟨_, rfl, ?_, f1, ?_, ?_, ⟨fun h => absurd h c1, fun _ _ => ⟨a, Ls, rfl, ?_⟩,
        fun _ h => absurd c2 h, fun _ h => absurd c2 h⟩⟩
      · show L.stack + n + 1 = L.stack + n + 1
        rfl
      · simp only [setsvalue2s, stkset_length]
        rw [f2]
      · intro q hq hne
        show stkat (setsvalue2s Ls (L.stack + n) a) q = _
        unfold setsvalue2s
        rw [stkat_stkset, if_neg (by rw [← f1]; exact hout Ls q f1 hq hne)]
        unfold stkat
        rw [f1, f2]
      · show s2v (setsvalue2s Ls (L.stack + n) a) (L.stack + n) = _
        unfold setsvalue2s
        rw [s2v_stkset, if_pos (by rw [← f1]; exact hin Ls f1 (by rw [f2]))]
    · rw [if_neg c2]
      by_cases c3 : errcode = E.H.LUA_OK
      · rw [if_pos c3]
        refine ⟨_, rfl, rfl, rfl, ?_, ?_, ⟨fun h => absurd h c1, fun _ h => absurd h c2,
          fun _ _ _ => ⟨?_, ?_, rfl⟩, fun _ _ h => absurd c3 h⟩⟩
        · simp only [setnilat, stkset_length]
        · intro q hq hne
          show stkat (setnilat E.H L (L.stack + n)) q = _
          unfold setnilat
          rw [stkat_stkset, if_neg (hout L q rfl hq hne)]
        · show s2v (setnilat E.H L (L.stack + n)) (L.stack + n) = _
          rw [s2v_setnilat, if_pos (hin L rfl rfl)]
        · show rawtt (s2v (setnilat E.H L (L.stack + n)) (L.stack + n)) = _
          rw [s2v_setnilat, if_pos (hin L rfl rfl)]
          rfl
      · rw [if_neg c3]
        refine ⟨_, rfl, rfl, rfl, ?_, ?_, ⟨fun h => absurd h c1, fun _ h => absurd h c2,
          fun _ _ h => absurd h c3, fun _ _ _ => ⟨?_, rfl⟩⟩⟩
        · simp only [setobjs2s, stkset_length]
        · intro q hq hne
          show stkat (setobjs2s L (L.stack + n) (L.top - 1)) q = _
          unfold setobjs2s
          rw [stkat_stkset, if_neg (hout L q rfl hq hne)]
        · show s2v (setobjs2s L (L.stack + n) (L.top - 1)) (L.stack + n) = _
          rw [s2v_setobjs2s, if_pos (hin L rfl rfl)]

theorem luaD_seterrorobj_stores_witness :
    HasSlot exEnv.H 3 exState ∧ NewStringKeeps exEnv ∧
    ∃ L1, luaD_seterrorobj exEnv exState 2 (restorestack exState 3) = Ctl.ret () L1 ∧
      L1.top = 104 ∧ s2v L1 103 = s2v exState 105 ∧ stkat L1 104 = stkat exState 104 := by
  have hstr : NewStringKeeps exEnv := fun L _ => ⟨0, L, rfl, rfl⟩
  refine ⟨by decide, hstr, ?_⟩
  obtain ⟨L1, e, h1, _, _, h4, _, _, _, h8⟩ :=
    luaD_seterrorobj_stores exEnv exState 2 3 (by decide) hstr
  exact ⟨L1, e, h1, (h8 (by decide) (by decide) (by decide)).1,
    h4 104 (by decide) (by decide)⟩

/-- The loop of `stackinuse` gives the largest of `lim` and the tops of the frames `ci`,
`ci - 1`, ..., 0. -/
theorem stackinuse_lim_max (L : lua_State) (lim ci : Nat) :
    (∀ i, i ≤ ci → (ciat L i).top ≤ stackinuse_lim L lim ci) ∧
    (stackinuse_lim L lim ci = lim ∨ ∃ i, i ≤ ci ∧ stackinuse_lim L lim ci = (ciat L i).top) := by
  induction ci generalizing lim with
  | zero =>
    unfold stackinuse_lim
    by_cases h : lim < (ciat L 0).top
    · rw [if_pos h]
      exact ⟨fun i hi => by rw [Nat.le_zero.mp hi], Or.inr ⟨0, Nat.le_refl 0, rfl⟩⟩
    · rw [if_neg h]
      exact ⟨fun i hi => by rw [Nat.le_zero.mp hi]; omega, Or.inl rfl⟩
  | succ k ih =>
    unfold stackinuse_lim
    by_cases h : lim < (ciat L (k + 1)).top
    · rw [if_pos h]
      obtain ⟨a, b⟩ := ih (ciat L (k + 1)).top
      refine ⟨fun i hi => ?_, ?_⟩
      · by_cases e : i = k + 1
        · rw [e]
          exact stackinuse_lim_ge L _ k
        · exact a i (by omega)
      · rcases b with b | ⟨i, hi, b⟩
        · exact Or.inr ⟨k + 1, Nat.le_refl _, b⟩
        · exact Or.inr ⟨i, by omega, b⟩
    · rw [if_neg h]
      obtain ⟨a, b⟩ := ih lim
      refine ⟨fun i hi => ?_, ?_⟩
      · by_cases e : i = k + 1
        · rw [e]
          have := stackinuse_lim_ge L lim k
          omega
        · exact a i (by omega)
      · rcases b with b | ⟨i, hi, b⟩
        · exact Or.inl b
        · exact Or.inr ⟨i, by omega, b⟩

/-- C29: `stackinuse` is `max(LUA_MINSTACK, 1 + index)` for the largest index among `L->top`
and the tops of the frames from `L->ci` back.  `luaD_shrinkstack` calls `luaD_reallocstack`
iff `inuse <= LUAI_MAXSTACK` and the size exceeds `min(3 * inuse, LUAI_MAXSTACK)`, with the
size `min(2 * inuse, LUAI_MAXSTACK)`: when the allocator delivers the block the stack has that
size, which is at least `2 * LUA_MINSTACK`, and when it fails the stack is as before.
Otherwise the stack and its size are left unchanged. -/
theorem luaD_shrinkstack_size (E : Env) (L : lua_State)
    (hmin : 2 * E.H.LUA_MINSTACK ≤ E.H.LUAI_MAXSTACK) :
    (L.top ≤ stackinuse_lim L L.top L.ci ∧
      (∀ i, i ≤ L.ci → (ciat L i).top ≤ stackinuse_lim L L.top L.ci) ∧
      (stackinuse_lim L L.top L.ci = L.top ∨
        ∃ i, i ≤ L.ci ∧ stackinuse_lim L L.top L.ci = (ciat L i).top)) ∧
    stackinuse E.H L = max E.H.LUA_MINSTACK (stackinuse_lim L L.top L.ci - L.stack + 1) ∧
    (stackinuse E.H L ≤ E.H.LUAI_MAXSTACK ∧
        stacksize L > min (3 * stackinuse E.H L) E.H.LUAI_MAXSTACK →
      (∀ a, E.luaM_newblock L
            (min (2 * stackinuse E.H L) E.H.LUAI_MAXSTACK + E.H.EXTRA_STACK) = some a →
        (∃ L1, luaD_reallocstack E L (min (2 * stackinuse E.H L) E.H.LUAI_MAXSTACK) false =
            Ctl.ret 1 L1 ∧
          luaD_shrinkstack E L =
            { L1 with cis := L1.cis.take (L1.ci + 1 + E.luaE_shrinkCI L1) }) ∧
        stacksize (luaD_shrinkstack E L) = min (2 * stackinuse E.H L) E.H.LUAI_MAXSTACK ∧
        (luaD_shrinkstack E L).stack = a ∧
        2 * E.H.LUA_MINSTACK ≤ stacksize (luaD_shrinkstack E L)) ∧
      (E.luaM_newblock L
            (min (2 * stackinuse E.H L) E.H.LUAI_MAXSTACK + E.H.EXTRA_STACK) = none →
        luaD_shrinkstack E L = { L with cis := L.cis.take (L.ci + 1 + E.luaE_shrinkCI L) })) ∧
    (¬ (stackinuse E.H L ≤ E.H.LUAI_MAXSTACK ∧
        stacksize L > min (3 * stackinuse E.H L) E.H.LUAI_MAXSTACK) →
      luaD_shrinkstack E L = { L with cis := L.cis.take (L.ci + 1 + E.luaE_shrinkCI L) }) := by
  have hin : E.H.LUA_MINSTACK ≤ stackinuse E.H L := by
    unfold stackinuse
    dsimp only
    split <;> omega
  have hns : (if stackinuse E.H L * 3 > E.H.LUAI_MAXSTACK then
        (if stackinuse E.H L * 2 > E.H.LUAI_MAXSTACK then E.H.LUAI_MAXSTACK
         else stackinuse E.H L * 2)
      else stackinuse E.H L * 2) = min (2 * stackinuse E.H L) E.H.LUAI_MAXSTACK := by
    split_ifs <;> omega
  have hmx : (if stackinuse E.H L * 3 > E.H.LUAI_MAXSTACK then E.H.LUAI_MAXSTACK
      else stackinuse E.H L * 3) = min (3 * stackinuse E.H L) E.H.LUAI_MAXSTACK := by
    split_ifs <;> omega
  obtain ⟨M, hM⟩ : ∃ M, M = (if stackinuse E.H L ≤ E.H.LUAI_MAXSTACK ∧
        stacksize L > min (3 * stackinuse E.H L) E.H.LUAI_MAXSTACK then
      (match luaD_reallocstack E L (min (2 * stackinuse E.H L) E.H.LUAI_MAXSTACK) false with
       | Ctl.ret _ L2 => L2
       | _ => L)
      else L) := ⟨_, rfl⟩
  have hrun : luaD_shrinkstack E L =
      { M with cis := M.cis.take (M.ci + 1 + E.luaE_shrinkCI M) } := by
    unfold luaD_shrinkstack
    dsimp only
    rw [hns, hmx, hM] <;> rfl
  refine ⟨⟨stackinuse_lim_ge L L.top L.ci, (stackinuse_lim_max L L.top L.ci).1,
    (stackinuse_lim_max L L.top L.ci).2⟩, ?_, ?_, ?_⟩
  · unfold stackinuse
    dsimp only
    split <;> omega
  · intro hc
    constructor
    · intro a ha
      obtain ⟨L1, e, hst, hlast, _⟩ := luaD_reallocstack_some E L _ false a ha
      have hres : luaD_shrinkstack E L =
          { L1 with cis := L1.cis.take (L1.ci + 1 + E.luaE_shrinkCI L1) } := by
        rw [if_pos hc, e] at hM
        rw [hrun, hM]
      refine ⟨⟨L1, e, hres⟩, ?_, ?_, ?_⟩
      · rw [hres]
        show L1.stack_last - L1.stack = _
        rw [hlast, hst]
        omega
      · rw [hres]
        exact hst
      · rw [hres]
        show 2 * E.H.LUA_MINSTACK ≤ L1.stack_last - L1.stack
        rw [hlast, hst]
        omega
    · intro ha
      rw [if_pos hc, luaD_reallocstack_none E L _ false ha] at hM
      rw [hrun, hM]
      rfl
  · intro hc
    rw [if_neg hc] at hM
    rw [hrun, hM]

theorem luaD_shrinkstack_size_witness :
    2 * exEnv.H.LUA_MINSTACK ≤ exEnv.H.LUAI_MAXSTACK ∧ stackinuse exEnv.H exWideState = 3 ∧
    stacksize exWideState = 12 ∧ stacksize (luaD_shrinkstack exEnv exWideState) = 6 :=
  ⟨by decide, by decide, by decide,
    (((luaD_shrinkstack_size exEnv exWideState (by decide)).2.2.1 (by decide)).1 1000
      rfl).2.1⟩

/-- C30, as stated, fails: with no recovery point in the thread and in the main thread and no
panic function set (`g->panic == NULL`), `luaD_throw` calls `abort` without a call of a panic
function; and with a panic function that jumps out, `abort` is not called. -/
theorem luaD_throw_panic_counterexample :
    exState.errorJmp = [] ∧
    luaD_throw_threads exThrowEnv exState (some exState) none 2 = Thrown.abort exState false ∧
    luaD_throw_threads exThrowEnvOut exState (some exState) (some 1) 2 =
      Thrown.panicout exState := by
  decide

/-- C30, amended: `luaD_throw(L, errcode)` jumps to the innermost recovery point of `L` with
status `errcode` when `L` has one.  When `L` has none it is reset; if the main thread (another
thread) has a recovery point, the error object on top of `L` is copied to a new top slot of the
main thread, whose other slots are kept, and the jump goes to the innermost recovery point of
the main thread with the status returned by the reset.  When neither has a recovery point, the
panic function, if one is set, is called, and `abort` is called if there is none or if it
returns. -/
theorem luaD_throw_routes (T : ThrowEnv) (L m : lua_State) (panic : Option Nat) (errcode : Int) :
    (∀ lj previous, L.errorJmp = lj :: previous →
      ∀ main, luaD_throw_threads T L main panic errcode =
        Thrown.jump { L with errorJmp := { lj with status := errcode } :: previous } ∧
        luaD_throw L errcode =
          (Ctl.jmp { L with errorJmp := { lj with status := errcode } :: previous } : Ctl Unit)) ∧
    (L.errorJmp = [] →
      (∀ lj previous, m.errorJmp = lj :: previous →
        ∃ m1, luaD_throw_threads T L (some m) panic errcode =
            Thrown.mainjump (T.luaE_resetthread L errcode).2 m1 ∧
          m1.errorJmp = { lj with status := (T.luaE_resetthread L errcode).1 } :: previous ∧
          m1.top = m.top + 1 ∧ m1.stack = m.stack ∧
          (m.top - m.stack < m.stackmem.length →
            s2v m1 m.top = s2v (T.luaE_resetthread L errcode).2
              ((T.luaE_resetthread L errcode).2.top - 1)) ∧
          (m.stack ≤ m.top → ∀ q, m.stack ≤ q → q ≠ m.top → stkat m1 q = stkat m q)) ∧
      (m.errorJmp = [] →
        (panic = none →
          luaD_throw_threads T L (some m) panic errcode =
            Thrown.abort (T.luaE_resetthread L errcode).2 false) ∧
        (∀ f, panic = some f →
          (∀ L2, T.panicfn f (T.luaE_resetthread L errcode).2 = some L2 →
            luaD_throw_threads T L (some m) panic errcode = Thrown.abort L2 true) ∧
          (T.panicfn f (T.luaE_resetthread L errcode).2 = none →
            luaD_throw_threads T L (some m) panic errcode =
              Thrown.panicout (T.luaE_resetthread L errcode).2)))) := by
  constructor
  · intro lj previous h main
    constructor
    · unfold luaD_throw_threads
      rw [h]
    · unfold luaD_throw
      rw [h]
  · intro h
    constructor
    · intro lj previous hm
      refine ⟨{ setobj2s m m.top (s2v (T.luaE_resetthread L errcode).2
            ((T.luaE_resetthread L errcode).2.top - 1)) with
          top := m.top + 1
          errorJmp := { lj with status := (T.luaE_resetthread L errcode).1 } :: previous },
        by unfold luaD_throw_threads; rw [h]; dsimp only; rw [hm], rfl, rfl, rfl, ?_, ?_⟩
      · intro hin
        show s2v (setobj2s m m.top _) m.top = _
        unfold setobj2s
        rw [s2v_stkset, if_pos ⟨rfl, hin⟩]
        rfl
      · intro hle q hq hne
        show stkat (setobj2s m m.top _) q = _
        unfold setobj2s
        rw [stkat_stkset, if_neg (fun c => hne (by omega))]
    · intro hm
      constructor
      · intro hp
        unfold luaD_throw_threads
        rw [h, hp]
        dsimp only
        rw [hm]
      · intro f hp
        constructor
        · intro L2 h2
          unfold luaD_throw_threads
          rw [h, hp]
          dsimp only
          rw [hm, h2]
        · intro h2
          unfold luaD_throw_threads
          rw [h, hp]
          dsimp only
          rw [hm, h2]

theorem luaD_throw_routes_witness :
    exState.errorJmp = [] ∧ exReserveState.errorJmp = [{ status := 0 }] ∧
    ∃ m1, luaD_throw_threads exThrowEnv exState (some exReserveState) none 2 =
        Thrown.mainjump exState m1 ∧
      m1.errorJmp = [{ status := 2 }] ∧ m1.top = exReserveState.top + 1 :=
  ⟨rfl, rfl,
    (((luaD_throw_routes exThrowEnv exState exReserveState none 2).2 rfl).1
      { status := 0 } [] rfl).elim fun m1 h => ⟨m1, h.1, h.2.1, h.2.2.1⟩⟩

set_option maxRecDepth 100000 in
theorem setage_byte5 : ∀ m, m < 256 →
    ((m &&& (255 ^^^ 7)) ||| 5) % 256 &&& 7 = 5 ∧
    ((((m &&& (255 ^^^ 7)) ||| 5) % 256 &&& 24 != 0) = (m &&& 24 != 0)) ∧
    ((((m &&& (255 ^^^ 7)) ||| 5) % 256 &&& 32 != 0) = (m &&& 32 != 0)) ∧
    ((((m &&& (255 ^^^ 7)) ||| 5) % 256 &&& (24 ||| 32) == 0) = (m &&& (24 ||| 32) == 0)) := by
  decide

/-- `setage` to `G_TOUCHED1` sets the age and keeps the colour. -/
theorem setage_touched1_spec (H : Decls) (hstd : StdMarks H) (m : Nat) (hm : m < 256) :
    getage H (setage H m H.G_TOUCHED1) = H.G_TOUCHED1 ∧
    iswhite H (setage H m H.G_TOUCHED1) = iswhite H m ∧
    isblack H (setage H m H.G_TOUCHED1) = isblack H m ∧
    isgray H (setage H m H.G_TOUCHED1) = isgray H m := by
  obtain ⟨m1, m2, m3, m4, m5, m6⟩ := std_masks H hstd
  have ho : H.G_TOUCHED1 = 5 := hstd.2.2.2.2.2.2.2.2.2.2.1
  unfold iswhite isblack isgray getage setage cast_byte compl8
  rw [m1, m4, m6, ho]
  exact setage_byte5 m hm

/-- C21: `luaC_barrierback_(L, o)` on a black object `o` of a kind with a field `gclist`
leaves `o` gray.  If the age of `o` was `G_TOUCHED2` no list is modified (the heads and the
field `gclist` of `o` are as before); otherwise `o` is the head of `grayagain` and its field
`gclist` holds the previous list.  If `o` was old its age is `G_TOUCHED1`, otherwise its age
is unchanged.  The other fields of `o` and all other objects are as before: no object that `o`
references is marked. -/
theorem luaC_barrierback_grays (H : Decls) (hstd : StdMarks H) (g : global_State) (o : Nat)
    (hao : allocated g o = true) (hb : isblack H (gcat g o).marked = true)
    (hbyte : (gcat g o).marked < 256) (hk : getgclist H g o = true) :
    isgray H (gcat (luaC_barrierback_ H g o) o).marked = true ∧
    (isold H (gcat g o).marked = true →
      getage H (gcat (luaC_barrierback_ H g o) o).marked = H.G_TOUCHED1) ∧
    (isold H (gcat g o).marked = false →
      getage H (gcat (luaC_barrierback_ H g o) o).marked = getage H (gcat g o).marked) ∧
    (getage H (gcat g o).marked = H.G_TOUCHED2 →
      luaC_barrierback_ H g o = { g with objs := (luaC_barrierback_ H g o).objs } ∧
      (gcat (luaC_barrierback_ H g o) o).gclist = (gcat g o).gclist) ∧
    (getage H (gcat g o).marked ≠ H.G_TOUCHED2 →
      luaC_barrierback_ H g o =
        { g with objs := (luaC_barrierback_ H g o).objs, grayagain := some o } ∧
      (gcat (luaC_barrierback_ H g o) o).gclist = g.grayagain) ∧
    gcat (luaC_barrierback_ H g o) o =
      { gcat g o with marked := (gcat (luaC_barrierback_ H g o) o).marked,
                      gclist := (gcat (luaC_barrierback_ H g o) o).gclist } ∧
    (∀ x, x ≠ o → objat (luaC_barrierback_ H g o) x = objat g x) ∧
    isblack H (gcat g o).marked = true := by
  have hlt := allocated_lt g o hao
  obtain ⟨y1, y2, y3, y4, y5⟩ := set2gray_spec H hstd (gcat g o).marked hbyte
  obtain ⟨s1, s2, s3, s4⟩ := setage_touched1_spec H hstd (set2gray H (gcat g o).marked) y5
  have hold : isold H (set2gray H (gcat g o).marked) = isold H (gcat g o).marked := by
    unfold isold
    rw [y4]
  -- the state after the first statement, in both cases
  obtain ⟨g1, hg1⟩ : ∃ g1, g1 = (if getage H (gcat g o).marked = H.G_TOUCHED2 then
      setmarked g o (set2gray H (gcat g o).marked)
    else linkobjgclist H g o GrayList.grayagain) := ⟨_, rfl⟩
  have hrun : luaC_barrierback_ H g o =
      if isold H (gcat g1 o).marked then setmarked g1 o (setage H (gcat g1 o).marked H.G_TOUCHED1)
      else g1 := by
    unfold luaC_barrierback_
    rw [hg1]
  have hlen : g1.objs.length = g.objs.length := by
    rw [hg1]
    split
    · exact length_setmarked g o _
    · unfold linkobjgclist
      rw [if_pos hk]
      exact length_linkgclist H g o _
  have hself : gcat g1 o = { gcat g o with
      marked := set2gray H (gcat g o).marked
      gclist := if getage H (gcat g o).marked = H.G_TOUCHED2 then (gcat g o).gclist
        else g.grayagain } := by
    rw [hg1]
    by_cases c : getage H (gcat g o).marked = H.G_TOUCHED2
    · rw [if_pos c, if_pos c, gcat_setmarked, if_pos ⟨rfl, hlt⟩]
    · rw [if_neg c, if_neg c]
      unfold linkobjgclist
      rw [if_pos hk, gcat_linkgclist_self H g o _ hlt]
      rfl
  have hoth : ∀ x, x ≠ o → objat g1 x = objat g x := by
    intro x hx
    rw [hg1]
    split
    · rw [objat_setmarked, if_neg (fun c => hx c.1)]
    · exact objat_linkobjgclist_ne H g o x _ hx
  have hheads : (getage H (gcat g o).marked = H.G_TOUCHED2 → g1 = { g with objs := g1.objs }) ∧
      (getage H (gcat g o).marked ≠ H.G_TOUCHED2 →
        g1 = { g with objs := g1.objs, grayagain := some o }) := by
    constructor
    · intro c
      rw [hg1, if_pos c]
      rfl
    · intro c
      rw [hg1, if_neg c]
      unfold linkobjgclist
      rw [if_pos hk]
      rfl
  have hm1 : (gcat g1 o).marked = set2gray H (gcat g o).marked := by rw [hself]
  by_cases co : isold H (gcat g o).marked = true
  · have hr : luaC_barrierback_ H g o =
        setmarked g1 o (setage H (set2gray H (gcat g o).marked) H.G_TOUCHED1) := by
      rw [hrun, hm1, hold, if_pos co]
    have hs2 : gcat (luaC_barrierback_ H g o) o = { gcat g1 o with
        marked := setage H (set2gray H (gcat g o).marked) H.G_TOUCHED1 } := by
      rw [hr, gcat_setmarked, if_pos ⟨rfl, by rw [hlen]; exact hlt⟩]
    have hobjs : ∀ G : global_State, G = { g with objs := G.objs } ∨
        G = { g with objs := G.objs, grayagain := some o } →
        ∀ m, setmarked G o m = { G with objs := (setmarked G o m).objs } := fun _ _ _ => rfl
    refine ⟨?_, fun _ => ?_, fun c => ?_, fun c => ⟨?_, ?_⟩, fun c => ⟨?_, ?_⟩, ?_, ?_, hb⟩
    · rw [hs2]
      show isgray H (setage H (set2gray H (gcat g o).marked) H.G_TOUCHED1) = true
      rw [s4]; exact y3
    · rw [hs2]
      exact s1
    · rw [c] at co
      exact absurd co (by decide)
    · rw [hr]
      show setmarked g1 o _ = _
      have := hheads.1 c
      generalize setage H (set2gray H (gcat g o).marked) H.G_TOUCHED1 = mm
      rw [this]
      rfl
    · rw [hs2]
      show (gcat g1 o).gclist = _
      rw [hself]
      show (if _ then _ else _) = _
      rw [if_pos c]
    · rw [hr]
      have := hheads.2 c
      generalize setage H (set2gray H (gcat g o).marked) H.G_TOUCHED1 = mm
      rw [this]
      rfl
    · rw [hs2]
      show (gcat g1 o).gclist = _
      rw [hself]
      show (if _ then _ else _) = _
      rw [if_neg c]
    · rw [hs2, hself]
    · intro x hx
      rw [hr, objat_setmarked, if_neg (fun c => hx c.1)]
      exact hoth x hx
  · have co2 : isold H (gcat g o).marked = false := by
      cases h : isold H (gcat g o).marked with
      | true => exact absurd h co
      | false => rfl
    have hr : luaC_barrierback_ H g o = g1 := by
      rw [hrun, hm1, hold, if_neg co]
    rw [hr]
    refine ⟨?_, fun c => absurd c co, fun _ => ?_, fun c => ⟨hheads.1 c, ?_⟩,
      fun c => ⟨hheads.2 c, ?_⟩, ?_, hoth, hb⟩
    · rw [hm1]; exact y3
    · rw [hm1]; exact y4
    · rw [hself]
      show (if _ then _ else _) = _
      rw [if_pos c]
    · rw [hself]
      show (if _ then _ else _) = _
      rw [if_neg c]
    · rw [hself]

theorem luaC_barrierback_grays_witness :
    StdMarks lua544 ∧ isblack lua544 (gcat exBack 0).marked = true ∧
    isold lua544 (gcat exBack 0).marked = true ∧
    isgray lua544 (gcat (luaC_barrierback_ lua544 exBack 0) 0).marked = true ∧
    getage lua544 (gcat (luaC_barrierback_ lua544 exBack 0) 0).marked = lua544.G_TOUCHED1 ∧
    (luaC_barrierback_ lua544 exBack 0).grayagain = some 0 ∧
    (gcat (luaC_barrierback_ lua544 exBack 0) 0).gclist = some 1 ∧
    objat (luaC_barrierback_ lua544 exBack 0) 1 = objat exBack 1 :=
  have h := luaC_barrierback_grays lua544 (by decide) exBack 0 (by decide) (by decide)
    (by decide) (by decide)
  ⟨by decide, by decide, by decide, h.1, h.2.1 (by decide),
    congrArg global_State.grayagain (h.2.2.2.2.1 (by decide)).1,
    (h.2.2.2.2.1 (by decide)).2, h.2.2.2.2.2.2.1 1 (by decide)⟩

/-! ### Colours of marks of any size -/

theorem and_or_right (a b c : Nat) : (a ||| b) &&& c = (a &&& c) ||| (b &&& c) := by
  apply Nat.eq_of_testBit_eq
  intro i
  simp only [Nat.testBit_and, Nat.testBit_or]
  cases a.testBit i <;> cases b.testBit i <;> cases c.testBit i <;> rfl

theorem xor_and_right (a b c : Nat) : (a ^^^ b) &&& c = (a &&& c) ^^^ (b &&& c) := by
  apply Nat.eq_of_testBit_eq
  intro i
  simp only [Nat.testBit_and, Nat.testBit_xor]
  cases a.testBit i <;> cases b.testBit i <;> cases c.testBit i <;> rfl

theorem mod_and (x c : Nat) (hc : c < 256) : (x % 256) &&& c = x &&& c := by
  apply Nat.eq_of_testBit_eq
  intro i
  rw [Nat.testBit_and, Nat.testBit_and]
  have : (x % 256).testBit i = (decide (i < 8) && x.testBit i) := Nat.testBit_mod_two_pow x 8 i
  rw [this]
  by_cases h : i < 8
  · simp [h]
  · have : c.testBit i = false := by
      apply Nat.testBit_lt_two_pow
      calc c < 256 := hc
        _ = 2 ^ 8 := by norm_num
        _ ≤ 2 ^ i := Nat.pow_le_pow_right (by norm_num) (by omega)
    simp [this]

theorem iswhite_set2gray (H : Decls) (hstd : StdMarks H) (m : Nat) :
    iswhite H (set2gray H m) = false := by
  obtain ⟨m1, m2, _⟩ := std_masks H hstd
  unfold iswhite set2gray cast_byte compl8
  rw [m1, m2, Nat.and_assoc]
  have : (255 ^^^ 56) % 256 &&& 24 = 0 := by decide
  rw [this, Nat.and_zero]
  rfl

theorem iswhite_set2black (H : Decls) (hstd : StdMarks H) (m : Nat) :
    iswhite H (set2black H m) = false := by
  obtain ⟨m1, m2, m3, m4, _⟩ := std_masks H hstd
  unfold iswhite set2black cast_byte compl8
  rw [m1, m4, mod_and _ 24 (by decide), and_or_right, Nat.and_assoc]
  have : (255 ^^^ 24) &&& 24 = 0 := by decide
  rw [this, Nat.and_zero]
  rfl

/-- The mark of the metatable of a table: `markobjectN` returns and leaves it not white. -/
theorem markobjectN_table (H : Decls) (hstd : StdMarks H) (hty : StdTypes H) (fuel : Nat)
    (g : global_State) (mt : Option Nat)
    (hmt : ∀ t, mt = some t → (gcat g t).tt = LUA_VTABLE H ∧ allocated g t = true) :
    ∃ g1, markobjectN H (fuel + 1) g mt = some g1 ∧
      ∀ t, mt = some t → iswhite H (gcat g1 t).marked = false := by
  cases mt with
  | none => exact ⟨g, rfl, fun t h => Option.noConfusion h⟩
  | some t =>
    obtain ⟨htt, hat⟩ := hmt t rfl
    by_cases hw : iswhite H (gcat g t).marked = true
    · refine ⟨linkgclist_ H g t GrayList.gray, ?_, ?_⟩
      · show markobject H (fuel + 1) g t = _
        unfold markobject
        rw [if_pos hw]
        exact reallymarkobject_link H hty fuel g t (Or.inr (Or.inr (Or.inr (Or.inl htt))))
      · intro t2 h2
        injection h2 with h2
        subst h2
        rw [gcat_linkgclist_self H g t _ (allocated_lt g t hat)]
        exact iswhite_set2gray H hstd _
    · refine ⟨g, ?_, ?_⟩
      · show markobject H (fuel + 1) g t = _
        unfold markobject
        rw [if_neg hw]
      · intro t2 h2
        injection h2 with h2
        subst h2
        cases h : iswhite H (gcat g t).marked with
        | true => exact absurd h hw
        | false => rfl

/-- C23: `traversetable` marks the metatable and then selects the traversal from the value
`mode` of the field `__mode` of the metatable: the table is traversed as strong if `mode` is
absent, not a string, or a string with neither `k` nor `v`; a string with `v` and no `k`
selects `traverseweakvalue`; a string with `k` and no `v` selects `traverseephemeron` (in
the direction 0); a string with both links the table into `allweak` and traverses nothing.
In every case the metatable, if there is one, is not white afterwards. -/
theorem traversetable_selects (E : StepEnv) (hstd : StdMarks E.H) (hty : StdTypes E.H)
    (fuel : Nat) (g : global_State) (h : Nat)
    (hmt : ∀ t, (gcat g h).metatable = some t →
      (gcat g t).tt = LUA_VTABLE E.H ∧ allocated g t = true) :
    ∃ g1, markobjectN E.H (fuel + 1) g (gcat g h).metatable = some g1 ∧
      (∀ t, (gcat g h).metatable = some t → iswhite E.H (gcat g1 t).marked = false) ∧
      (E.gfasttm_mode g (gcat g h).metatable = none →
        traversetable E (fuel + 1) g h = traversestrongtable E (fuel + 1) g1 h) ∧
      (∀ m, E.gfasttm_mode g (gcat g h).metatable = some m →
        (ttisstring E.H m = false ∨
            (List.elem 'k' (E.svalue m) = false ∧ List.elem 'v' (E.svalue m) = false) →
          traversetable E (fuel + 1) g h = traversestrongtable E (fuel + 1) g1 h) ∧
        (ttisstring E.H m = true → List.elem 'k' (E.svalue m) = false →
            List.elem 'v' (E.svalue m) = true →
          traversetable E (fuel + 1) g h = traverseweakvalue E.H (fuel + 1) g1 h) ∧
        (ttisstring E.H m = true → List.elem 'k' (E.svalue m) = true →
            List.elem 'v' (E.svalue m) = false →
          traversetable E (fuel + 1) g h =
            (traverseephemeron E (fuel + 1) g1 h false).map fun r => r.1) ∧
        (ttisstring E.H m = true → List.elem 'k' (E.svalue m) = true →
            List.elem 'v' (E.svalue m) = true →
          traversetable E (fuel + 1) g h = some (linkgclist_ E.H g1 h GrayList.allweak))) := by
  obtain ⟨g1, e, hw⟩ := markobjectN_table E.H hstd hty fuel g (gcat g h).metatable hmt
  refine ⟨g1, e, hw, ?_, ?_⟩
  · intro hm
    unfold traversetable
    simp only [e, hm, Option.bind]
  · intro m hm
    refine ⟨?_, ?_, ?_, ?_⟩
    · intro hc
      unfold traversetable
      simp only [e, hm, Option.bind]
      rcases hc with hc | ⟨hk, hv⟩
      · rw [if_neg (by rw [hc]; simp)]
      · rw [if_neg (by rw [hk, hv]; simp)]
    · intro hs hk hv
      unfold traversetable
      simp only [e, hm, Option.bind]
      rw [if_pos (by rw [hs, hv]; simp), hk]
      rfl
    · intro hs hk hv
      unfold traversetable
      simp only [e, hm, Option.bind]
      rw [if_pos (by rw [hs, hk]; simp), hk, hv]
      rfl
    · intro hs hk hv
      unfold traversetable
      simp only [e, hm, Option.bind]
      rw [if_pos (by rw [hs, hk]; simp), hk, hv]
      rfl

theorem traversetable_selects_witness :
    StdMarks exStepEnv.H ∧ StdTypes exStepEnv.H ∧ (gcat exFin 1).metatable = some 2 ∧
    iswhite exStepEnv.H (gcat exFin 2).marked = true ∧
    ∃ g1, markobjectN exStepEnv.H 1 exFin (gcat exFin 1).metatable = some g1 ∧
      iswhite exStepEnv.H (gcat g1 2).marked = false ∧
      traversetable exStepEnv 1 exFin 1 =
        (traverseephemeron exStepEnv 1 g1 1 false).map fun r => r.1 := by
  obtain ⟨g1, e, hw, _, hm⟩ := traversetable_selects exStepEnv (by decide) (by decide) 0 exFin 1
    (by decide)
  exact ⟨by decide, by decide, rfl, by decide, g1, e, hw 2 rfl,
    (hm { value_ := Value.gc 2, tt_ := 68 } rfl).2.2.1 (by decide) (by decide) (by decide)⟩

/-! ### Finalizers -/

/-- A protected call whose function throws an error status returns that error (or the one
raised while closing) with the frame, `allowhook`, `errfunc` and the chain of recovery points
of the entry and with `top` one slot above `old_top`. -/
theorem luaD_pcall_caught (E : Env) (fuel : Nat) (L : lua_State) (func : lua_State → Ctl Unit)
    (old_top : Nat) (ef : Int)
    (hok : E.H.LUA_OK ≤ E.H.LUA_YIELD) (hclose : CloseKeeps E old_top)
    (hstr : NewStringKeeps E) (Lt : lua_State) (s : Int)
    (hf : func { L with errfunc := ef, errorJmp := { status := E.H.LUA_OK } :: L.errorJmp } =
        luaD_throw Lt s)
    (hchain : Lt.errorJmp = { status := E.H.LUA_OK } :: L.errorJmp)
    (hs : errorstatus E.H s = true) (hslot : HasSlot E.H old_top Lt)
    (hfuel : savestack Lt Lt.tbclist < fuel) :
    ∃ st L1, luaD_pcall E fuel L func old_top ef = Ctl.ret st L1 ∧ st ≠ E.H.LUA_OK ∧
      L1.ci = L.ci ∧ L1.allowhook = L.allowhook ∧ L1.errfunc = L.errfunc ∧
      L1.errorJmp = L.errorJmp ∧ L1.top = L1.stack + old_top + 1 := by
  have hsne : s ≠ E.H.LUA_OK := by
    have : s > E.H.LUA_YIELD := by simpa [errorstatus] using hs
    omega
  have hr := luaD_rawrunprotected_throw E { L with errfunc := ef } func Lt s hf hchain
  obtain ⟨st, L5, i1, i2, i3, i4, i5, i6, i7, i8⟩ :=
    closeprotected_loop_spec E old_top L.ci L.allowhook old_top hclose fuel
      { { Lt with errorJmp := L.errorJmp, nCcalls := L.nCcalls } with
        ci := L.ci, allowhook := L.allowhook } s hsne hslot rfl rfl hfuel
  obtain ⟨L6, j1, j2, j3, j4, j5, j6, j7, j8, j9, j10, j11⟩ :=
    luaD_seterrorobj_spec E L5 st old_top i3 hstr
  obtain ⟨k1, k2, k3, k4, k5, k6, k7⟩ := luaD_shrinkstack_view E L6 old_top j3 j2
  refine ⟨st, { luaD_shrinkstack E L6 with errfunc := L.errfunc }, ?_, i2,
    k2.trans (j4.trans i4), k3.trans (j5.trans i5), rfl, k5.trans (j7.trans i6), k1⟩
  unfold luaD_pcall
  have i1' : luaD_closeprotected E fuel
      { { { Lt with errorJmp := L.errorJmp, nCcalls := L.nCcalls } with ci := L.ci } with
        allowhook := L.allowhook } old_top s = Ctl.ret st L5 := i1
  simp only [hr, Ctl.bind, if_pos hsne, i1', j1]

theorem tofinalize_resetbit (H : Decls) (hstd : StdMarks H) (m : Nat) :
    tofinalize H (resetbit m H.FINALIZEDBIT) = false := by
  obtain ⟨m1, m2, m3, m4, m5, m6⟩ := std_masks H hstd
  unfold tofinalize resetbit cast_byte compl8
  rw [m5, Nat.and_assoc]
  have : (255 ^^^ 64) % 256 &&& 64 = 0 := by decide
  rw [this, Nat.and_zero]
  rfl

theorem tofinalize_makewhite (H : Decls) (hstd : StdMarks H) (g : global_State) (m : Nat) :
    tofinalize H (makewhite H g m) = tofinalize H m := by
  obtain ⟨m1, m2, m3, m4, m5, m6⟩ := std_masks H hstd
  obtain ⟨w1, _⟩ := luaC_white_std H hstd g
  unfold tofinalize makewhite compl8 cast_byte
  rw [m5, m2, w1, mod_and _ 64 (by decide), and_or_right, Nat.and_assoc, Nat.and_assoc]
  have e1 : (255 ^^^ 56) &&& 64 = 64 := by decide
  have e2 : 24 &&& 64 = 0 := by decide
  rw [e1, e2, Nat.and_zero, Nat.or_zero]

/-- `udata2finalize` moves the first object of `tobefnz` to the head of `allgc` and clears
its `FINALIZEDBIT`; the other objects and the lists `finobj` and `fixedgc` stay. -/
theorem udata2finalize_spec (H : Decls) (hstd : StdMarks H) (g : global_State) (o : Nat)
    (ho : g.tobefnz = some o) (hao : allocated g o = true) :
    ∃ g1, udata2finalize H g = some (g1, o) ∧
      g1.tobefnz = (gcat g o).next ∧ g1.allgc = some o ∧ (gcat g1 o).next = g.allgc ∧
      tofinalize H (gcat g1 o).marked = false ∧
      gcat g1 o = { gcat g o with next := g.allgc, marked := (gcat g1 o).marked } ∧
      (∀ x, x ≠ o → objat g1 x = objat g x) ∧ allocated g1 o = true ∧
      g1.objs.length = g.objs.length ∧
      g1.finobj = g.finobj ∧ g1.fixedgc = g.fixedgc ∧ g1.gcstp = g.gcstp ∧
      g1.gcstate = g.gcstate := by
  have hlt := allocated_lt g o hao
  obtain ⟨ga, hga⟩ : ∃ ga, ga = gcset { g with tobefnz := (gcat g o).next } o
      { gcat { g with tobefnz := (gcat g o).next } o with next := g.allgc } := ⟨_, rfl⟩
  obtain ⟨gb, hgb⟩ : ∃ gb, gb = setmarked { ga with allgc := some o } o
      (resetbit (gcat { ga with allgc := some o } o).marked H.FINALIZEDBIT) := ⟨_, rfl⟩
  have a1 : gcat ga o = { gcat g o with next := g.allgc } := by
    rw [hga, gcat_gcset, if_pos ⟨rfl, hlt⟩]
    rfl
  have a2 : ga.objs.length = g.objs.length := by
    rw [hga]
    exact length_gcset _ _ _
  have b1 : gcat gb o = { gcat g o with
      next := g.allgc, marked := resetbit (gcat g o).marked H.FINALIZEDBIT } := by
    rw [hgb, gcat_setmarked, if_pos ⟨rfl, by show o < ga.objs.length; rw [a2]; exact hlt⟩]
    show { gcat ga o with marked := resetbit (gcat ga o).marked H.FINALIZEDBIT } = _
    rw [a1]
  have b2 : gb.objs.length = g.objs.length := by
    rw [hgb, length_setmarked]
    exact a2
  have b3 : ∀ x, x ≠ o → objat gb x = objat g x := by
    intro x hx
    rw [hgb, objat_setmarked, if_neg (fun c => hx c.1)]
    show objat ga x = _
    rw [hga, objat_gcset, if_neg (fun c => hx c.1)]
    rfl
  have hrun : udata2finalize H g = some
      (if issweepphase H gb then setmarked gb o (makewhite H gb (gcat gb o).marked)
       else if getage H (gcat gb o).marked = H.G_OLD1 then { gb with firstold1 := some o }
       else gb, o) := by
    unfold udata2finalize
    rw [ho]
    dsimp only
    rw [← hga, ← hgb]
  have hheads : gb.tobefnz = (gcat g o).next ∧ gb.allgc = some o ∧ gb.finobj = g.finobj ∧
      gb.fixedgc = g.fixedgc ∧ gb.gcstp = g.gcstp ∧ gb.gcstate = g.gcstate := by
    rw [hgb, hga]
    exact ⟨rfl, rfl, rfl, rfl, rfl, rfl⟩
  obtain ⟨e1, e2, e3, e4, e5, e6⟩ := hheads
  have halloc : ∀ G : global_State, objat G o = some (gcat G o) → allocated G o = true := by
    intro G h
    unfold allocated
    unfold objat at h
    rw [h]
    rfl
  have hob : objat gb o = some (gcat gb o) := by
    rw [hgb, objat_setmarked, if_pos ⟨rfl, by show o < ga.objs.length; rw [a2]; exact hlt⟩,
      gcat_setmarked, if_pos ⟨rfl, by show o < ga.objs.length; rw [a2]; exact hlt⟩]
  rw [hrun]
  by_cases c1 : issweepphase H gb = true
  · rw [if_pos c1]
    have s1 : gcat (setmarked gb o (makewhite H gb (gcat gb o).marked)) o =
        { gcat gb o with marked := makewhite H gb (gcat gb o).marked } := by
      rw [gcat_setmarked, if_pos ⟨rfl, by rw [b2]; exact hlt⟩]
    refine ⟨_, rfl, e1, e2, ?_, ?_, ?_, ?_, ?_, ?_, e3, e4, e5, e6⟩
    · rw [s1, b1]
    · rw [s1]
      show tofinalize H (makewhite H gb (gcat gb o).marked) = false
      rw [tofinalize_makewhite H hstd, b1]
      exact tofinalize_resetbit H hstd _
    · rw [s1, b1]
    · intro x hx
      rw [objat_setmarked, if_neg (fun c => hx c.1)]
      exact b3 x hx
    · apply halloc
      rw [objat_setmarked, if_pos ⟨rfl, by rw [b2]; exact hlt⟩, s1]
    · rw [length_setmarked]
      exact b2
  · rw [if_neg c1]
    by_cases c2 : getage H (gcat gb o).marked = H.G_OLD1
    · rw [if_pos c2]
      refine ⟨_, rfl, e1, e2, ?_, ?_, ?_, b3, halloc _ hob, b2, e3, e4, e5, e6⟩
      · show (gcat gb o).next = _
        rw [b1]
      · show tofinalize H (gcat gb o).marked = false
        rw [b1]
        exact tofinalize_resetbit H hstd _
      · show gcat gb o = { gcat g o with next := g.allgc, marked := (gcat gb o).marked }
        rw [b1]
    · rw [if_neg c2]
      refine ⟨_, rfl, e1, e2, ?_, ?_, ?_, b3, halloc _ hob, b2, e3, e4, e5, e6⟩
      · rw [b1]
      · rw [b1]
        exact tofinalize_resetbit H hstd _
      · rw [b1]

theorem GCTM_push_fields (H : Decls) (t : lua_State) (tm v : TValue) :
    (GCTM_push H t tm v).top = t.top + 2 ∧ (GCTM_push H t tm v).stack = t.stack ∧
    (GCTM_push H t tm v).ci = t.ci ∧ (GCTM_push H t tm v).allowhook = 0 ∧
    (GCTM_push H t tm v).errorJmp = t.errorJmp ∧
    savestack (GCTM_push H t tm v) ((GCTM_push H t tm v).top - 2) = t.top - t.stack :=
  ⟨rfl, rfl, rfl, rfl, rfl, by
    show (t.top + 1 + 1 - 2) - t.stack = _
    rfl⟩

theorem GCTM_pop_fin (E : StepEnv) (hfin : E.H.CIST_FIN = 128) (hwarn : WarnKeeps E)
    (t5 : lua_State) (status : Int) (oldah : Nat) :
    (GCTM_pop E t5 status oldah).allowhook = oldah ∧
    (GCTM_pop E t5 status oldah).stack = t5.stack ∧
    (GCTM_pop E t5 status oldah).ci = t5.ci ∧
    (GCTM_pop E t5 status oldah).top = (if status ≠ E.H.LUA_OK then t5.top - 1 else t5.top) ∧
    (ciat (GCTM_pop E t5 status oldah) (GCTM_pop E t5 status oldah).ci).callstatus &&&
      E.H.CIST_FIN = 0 := by
  have hbit : ∀ x, clearmask x 128 &&& 128 = 0 := by
    intro x
    unfold clearmask
    rw [Nat.and_assoc]
    have : (65535 ^^^ 128) &&& 128 = 0 := by decide
    rw [this, Nat.and_zero]
  obtain ⟨t7, h7⟩ : ∃ t7, t7 = { ciset t5 t5.ci { ciat t5 t5.ci with
      callstatus := clearmask (ciat t5 t5.ci).callstatus E.H.CIST_FIN } with
      allowhook := oldah } := ⟨_, rfl⟩
  have hcs : (ciat t7 t7.ci).callstatus &&& E.H.CIST_FIN = 0 := by
    rw [h7]
    show ((t5.cis.set t5.ci _).getD t5.ci default).callstatus &&& _ = 0
    rw [List.getD_eq_getElem?_getD, List.getElem?_set]
    rw [if_pos rfl]
    by_cases c : t5.ci < t5.cis.length
    · rw [if_pos c]
      show clearmask _ E.H.CIST_FIN &&& E.H.CIST_FIN = 0
      rw [hfin]
      exact hbit _
    · rw [if_neg c]
      show (0 : Nat) &&& _ = 0
      exact Nat.zero_and _
  have hrun : GCTM_pop E t5 status oldah =
      if status ≠ E.H.LUA_OK then
        { E.luaE_warnerror t7 "__gc" with top := (E.luaE_warnerror t7 "__gc").top - 1 }
      else t7 := by
    unfold GCTM_pop
    rw [h7]
  obtain ⟨w1, w2, w3, w4, w5⟩ := hwarn t7 "__gc"
  have f1 : t7.allowhook = oldah := by rw [h7]
  have f2 : t7.stack = t5.stack := by rw [h7]; rfl
  have f3 : t7.ci = t5.ci := by rw [h7]; rfl
  have f4 : t7.top = t5.top := by rw [h7]; rfl
  rw [hrun]
  by_cases c : status ≠ E.H.LUA_OK
  · rw [if_pos c, if_pos c]
    refine ⟨w3.trans f1, w2.trans f2, w4.trans f3, ?_, ?_⟩
    · show (E.luaE_warnerror t7 "__gc").top - 1 = _
      rw [w1, f4]
    · show ((E.luaE_warnerror t7 "__gc").cis.getD (E.luaE_warnerror t7 "__gc").ci
        default).callstatus &&& _ = 0
      rw [w5, w4]
      exact hcs
  · rw [if_neg c, if_neg c]
    exact ⟨f1, f2, f3, f4, hcs⟩

/-- C27: `GCTM(L)` moves the first object `o` of `tobefnz` to the head of `allgc` with
`FINALIZEDBIT` cleared.  Without a finalizer (`__gc` is nil) nothing else happens.  With a
finalizer, hooks are turned off, the finalizer and `o` are pushed and the function at
`top - 2` is called in protected mode with no results wanted.  If the call returns (leaving
`top` at the slot of the function, as a call for zero results does) or if it raises an error,
`GCTM` returns normally: `g->gcstp` and `L->allowhook` have their values at entry, `top` is at
its offset at entry, the frame is the one at entry and `CIST_FIN` is clear in it; after an
error the warning has been sent and the error object popped. -/
theorem GCTM_protected (E : StepEnv) (hstd : StdMarks E.H) (hfin : E.H.CIST_FIN = 128)
    (hok : E.H.LUA_OK ≤ E.H.LUA_YIELD) (hstr : NewStringKeeps E.toEnv) (hwarn : WarnKeeps E)
    (fuel : Nat) (L : Nat) (g : global_State) (o : Nat)
    (ho : g.tobefnz = some o) (hao : allocated g o = true) :
    ∃ g1, udata2finalize E.H g = some (g1, o) ∧
      g1.tobefnz = (gcat g o).next ∧ g1.allgc = some o ∧ (gcat g1 o).next = g.allgc ∧
      tofinalize E.H (gcat g1 o).marked = false ∧ g1.gcstp = g.gcstp ∧
      (notm E.H (E.gettm_gc g1 { value_ := Value.gc o, tt_ := ctb (gcat g1 o).tt }) = true →
        GCTM E fuel L g = some g1) ∧
      (notm E.H (E.gettm_gc g1 { value_ := Value.gc o, tt_ := ctb (gcat g1 o).tt }) = false →
        ∀ t4, t4 = GCTM_push E.H (gcat g1 L).th
            (E.gettm_gc g1 { value_ := Value.gc o, tt_ := ctb (gcat g1 o).tt })
            { value_ := Value.gc o, tt_ := ctb (gcat g1 o).tt } →
          (∀ L2, dothecall E.toEnv fuel
                { t4 with errfunc := 0, errorJmp := { status := E.H.LUA_OK } :: t4.errorJmp } =
              Ctl.ret () L2 →
            L2.errorJmp = { status := E.H.LUA_OK } :: t4.errorJmp →
            L2.top - L2.stack = (gcat g1 L).th.top - (gcat g1 L).th.stack →
            ∃ t8, GCTM E fuel L g =
                some (thset { E.finalizer { g1 with gcstp := g1.gcstp ||| E.H.GCSTPGC } o with
                  gcstp := g.gcstp } L t8) ∧
              t8.top - t8.stack = (gcat g1 L).th.top - (gcat g1 L).th.stack ∧
              t8.allowhook = (gcat g1 L).th.allowhook ∧ t8.ci = L2.ci ∧
              (ciat t8 t8.ci).callstatus &&& E.H.CIST_FIN = 0) ∧
          (∀ Lt s, dothecall E.toEnv fuel
                { t4 with errfunc := 0, errorJmp := { status := E.H.LUA_OK } :: t4.errorJmp } =
              luaD_throw Lt s →
            Lt.errorJmp = { status := E.H.LUA_OK } :: t4.errorJmp →
            errorstatus E.H s = true →
            HasSlot E.H ((gcat g1 L).th.top - (gcat g1 L).th.stack) Lt →
            CloseKeeps E.toEnv ((gcat g1 L).th.top - (gcat g1 L).th.stack) →
            savestack Lt Lt.tbclist < fuel →
            ∃ t8 t5 st, GCTM E fuel L g =
                some (thset { E.finalizer { g1 with gcstp := g1.gcstp ||| E.H.GCSTPGC } o with
                  gcstp := g.gcstp } L t8) ∧
              st ≠ E.H.LUA_OK ∧ t8 = GCTM_pop E t5 st (gcat g1 L).th.allowhook ∧
              t8.top = t8.stack + ((gcat g1 L).th.top - (gcat g1 L).th.stack) ∧
              t8.allowhook = (gcat g1 L).th.allowhook ∧ t8.ci = (gcat g1 L).th.ci ∧
              (ciat t8 t8.ci).callstatus &&& E.H.CIST_FIN = 0)) := by
  obtain ⟨g1, e, a1, a2, a3, a4, _, _, _, _, _, _, a5, _⟩ :=
    udata2finalize_spec E.H hstd g o ho hao
  refine ⟨g1, e, a1, a2, a3, a4, a5, ?_, ?_⟩
  · intro hn
    unfold GCTM
    rw [e]
    dsimp only
    rw [hn]
    rfl
  · intro hn t4 ht4
    obtain ⟨p1, p2, p3, p4, p5, p6⟩ := GCTM_push_fields E.H (gcat g1 L).th
      (E.gettm_gc g1 { value_ := Value.gc o, tt_ := ctb (gcat g1 o).tt })
      { value_ := Value.gc o, tt_ := ctb (gcat g1 o).tt }
    rw [← ht4] at p1 p2 p3 p4 p5 p6
    have hrun : ∀ st t5, luaD_pcall E.toEnv fuel t4 (dothecall E.toEnv fuel)
        ((gcat g1 L).th.top - (gcat g1 L).th.stack) 0 = Ctl.ret st t5 →
        GCTM E fuel L g = some (thset { E.finalizer { g1 with gcstp := g1.gcstp ||| E.H.GCSTPGC } o
          with gcstp := g.gcstp } L (GCTM_pop E t5 st (gcat g1 L).th.allowhook)) := by
      intro st t5 hp
      unfold GCTM
      rw [e]
      dsimp only
      rw [hn, ← ht4, p6, hp, a5]
      rfl
    constructor
    · intro L2 hret hchain hproto
      have hr := luaD_rawrunprotected_ret E.toEnv { t4 with errfunc := 0 }
        (dothecall E.toEnv fuel) L2 { status := E.H.LUA_OK } hret hchain
      have hp : luaD_pcall E.toEnv fuel t4 (dothecall E.toEnv fuel)
          ((gcat g1 L).th.top - (gcat g1 L).th.stack) 0 =
          Ctl.ret E.H.LUA_OK
            { L2 with errorJmp := t4.errorJmp, nCcalls := t4.nCcalls, errfunc := t4.errfunc } := by
        unfold luaD_pcall
        simp only [hr, Ctl.bind, ne_eq, not_true_eq_false, if_false]
      obtain ⟨q1, q2, q3, q4, q5⟩ := GCTM_pop_fin E hfin hwarn
        { L2 with errorJmp := t4.errorJmp, nCcalls := t4.nCcalls, errfunc := t4.errfunc }
        E.H.LUA_OK (gcat g1 L).th.allowhook
      refine ⟨_, hrun _ _ hp, ?_, q1, q3, q5⟩
      rw [q4, q2, if_neg (by simp)]
      exact hproto
    · intro Lt s hthrow hchain hs hslot hclose hfuel
      obtain ⟨st, L1, hp, hne, c1, c2, c3, c4, c5⟩ :=
        luaD_pcall_caught E.toEnv fuel t4 (dothecall E.toEnv fuel)
          ((gcat g1 L).th.top - (gcat g1 L).th.stack) 0 hok hclose hstr Lt s hthrow hchain hs
          hslot hfuel
      obtain ⟨q1, q2, q3, q4, q5⟩ := GCTM_pop_fin E hfin hwarn L1 st (gcat g1 L).th.allowhook
      refine ⟨_, L1, st, hrun _ _ hp, hne, rfl, ?_, q1, ?_, q5⟩
      · rw [q4, q2, if_pos hne, c5]
        omega
      · rw [q3, c1, p3]

set_option maxRecDepth 100000 in
theorem GCTM_protected_witness :
    exFin.tobefnz = some 1 ∧ WarnKeeps exStepEnv ∧
    (∃ g1, udata2finalize exStepEnv.H exFin = some (g1, 1) ∧ g1.allgc = some 1 ∧
      (gcat g1 1).next = some 2 ∧ tofinalize exStepEnv.H (gcat g1 1).marked = false) ∧
    (GCTM exStepEnv 2 0 exFin).map
        (fun r => ((gcat r 0).th.top - (gcat r 0).th.stack, (gcat r 0).th.allowhook, r.gcstp,
          r.allgc)) =
      some (exState.top - exState.stack, exState.allowhook, exFin.gcstp, some 1) := by
  have hstr : NewStringKeeps exStepEnv.toEnv := fun L _ => ⟨0, L, rfl, rfl⟩
  have hwarn : WarnKeeps exStepEnv := fun _ _ => ⟨rfl, rfl, rfl, rfl, rfl⟩
  obtain ⟨g1, e, _, a2, a3, a4, _⟩ :=
    GCTM_protected exStepEnv (by decide) (by decide) (by decide) hstr hwarn 2 0 exFin 1 rfl
      (by decide)
  exact ⟨rfl, hwarn, ⟨g1, e, a2, a3, a4⟩, by decide⟩

/-! ### The sweep of the generational mode -/

theorem Linked_head (g : global_State) (x : Option Nat) (l : List Nat) (h : Linked g x l) :
    x = l.head? := by
  cases l with
  | nil => exact h
  | cons a l => exact h.1

theorem WeakFrame_refl (H : Decls) (g : global_State) : WeakFrame H g g :=
  ⟨rfl, rfl, fun a => ⟨rfl, ⟨_, _, _, rfl⟩, rfl, rfl, fun _ => rfl⟩⟩

theorem WeakFrame_trans (H : Decls) (g g1 g2 : global_State) (h1 : WeakFrame H g g1)
    (h2 : WeakFrame H g1 g2) : WeakFrame H g g2 := by
  obtain ⟨a1, a2, a3⟩ := h1
  obtain ⟨b1, b2, b3⟩ := h2
  refine ⟨?_, b2.trans a2, ?_⟩
  · rw [b1, a1]
  · intro a
    obtain ⟨c1, ⟨m, n, ar, c2⟩, c3, c4, c5⟩ := a3 a
    obtain ⟨d1, ⟨m2, n2, ar2, d2⟩, d3, d4, d5⟩ := b3 a
    have htt : (gcat g1 a).tt = (gcat g a).tt := by rw [c2]
    refine ⟨d1.trans c1, ⟨m2, n2, ar2, ?_⟩, d3.trans c3, d4.trans c4, ?_⟩
    · rw [d2, c2]
    · intro hs
      rw [d5 (by rw [htt]; exact hs), c5 hs]

theorem WeakFrame_tt (H : Decls) (g g1 : global_State) (h : WeakFrame H g g1) (a : Nat) :
    (gcat g1 a).tt = (gcat g a).tt ∧ (gcat g1 a).gclist = (gcat g a).gclist := by
  obtain ⟨m, n, ar, c2⟩ := (h.2.2 a).2.1
  rw [c2]
  exact ⟨rfl, rfl⟩

theorem clearable_frame (H : Decls) (g g1 : global_State) (h : WeakFrame H g g1)
    (o : Option Nat) : clearable H g1 o = clearable H g o := by
  cases o with
  | none => rfl
  | some a =>
    unfold clearable
    dsimp only
    rw [(WeakFrame_tt H g g1 h a).1]
    by_cases hs : novariant (gcat g a).tt = H.LUA_TSTRING
    · simp [hs]
    · rw [(h.2.2 a).2.2.2.2 hs]

theorem GLinked_frame (H : Decls) (g g1 : global_State) (h : WeakFrame H g g1) :
    ∀ (l : List Nat) (x : Option Nat), GLinked g x l → GLinked g1 x l
  | [], _, hl => hl
  | a :: l, _, hl => by
    refine ⟨hl.1, ?_, ?_⟩
    · rw [(h.2.2 a).1]
      exact hl.2.1
    · rw [(WeakFrame_tt H g g1 h a).2]
      exact GLinked_frame H g g1 h l _ hl.2.2

theorem allocated_eq (g : global_State) (a : Nat) : allocated g a = (objat g a).isSome := rfl

theorem WeakFrame_gcset (H : Decls) (g : global_State) (a m : Nat) (n : List Node)
    (ar : List TValue) (ha : allocated g a = true) (hn : n.length = (gcat g a).node.length)
    (har : ar.length = (gcat g a).array.length)
    (hm : novariant (gcat g a).tt ≠ H.LUA_TSTRING → m = (gcat g a).marked) :
    WeakFrame H g (gcset g a { gcat g a with marked := m, node := n, array := ar }) := by
  refine ⟨rfl, length_gcset g a _, ?_⟩
  intro x
  rw [allocated_eq, objat_gcset, gcat_gcset]
  by_cases c : x = a ∧ a < g.objs.length
  · rw [if_pos c, if_pos c, c.1]
    exact ⟨ha.symm, ⟨m, n, ar, rfl⟩, hn, har, hm⟩
  · rw [if_neg c, if_neg c]
    exact ⟨rfl, ⟨_, _, _, rfl⟩, rfl, rfl, fun _ => rfl⟩

theorem allocated_of_tt (g : global_State) (a : Nat) (h : (gcat g a).tt ≠ 0) :
    allocated g a = true := by
  unfold allocated
  unfold gcat at h
  cases hx : g.objs.getD a none with
  | none =>
    rw [hx] at h
    exact absurd rfl h
  | some o => rfl

theorem string_allocated (H : Decls) (hty : StdTypes H) (g : global_State) (a : Nat)
    (h : novariant (gcat g a).tt = H.LUA_TSTRING) : allocated g a = true := by
  apply allocated_of_tt
  intro c
  rw [c, hty.1] at h
  exact absurd h (by decide)

theorem WeakFrame_setmarked (H : Decls) (hty : StdTypes H) (g : global_State) (a m : Nat)
    (h : novariant (gcat g a).tt = H.LUA_TSTRING) : WeakFrame H g (setmarked g a m) :=
  WeakFrame_gcset H g a m _ _ (string_allocated H hty g a h) rfl rfl (fun c => absurd h c)

theorem WeakFrame_nodeset (H : Decls) (g : global_State) (h i : Nat) (n : Node)
    (ha : allocated g h = true) : WeakFrame H g (nodeset g h i n) :=
  WeakFrame_gcset H g h _ _ _ ha (List.length_set _ _ _) rfl (fun _ => rfl)

theorem WeakFrame_arrayset (H : Decls) (g : global_State) (h i : Nat) (x : TValue)
    (ha : allocated g h = true) : WeakFrame H g (arrayset g h i x) :=
  WeakFrame_gcset H g h _ _ _ ha rfl (List.length_set _ _ _) (fun _ => rfl)

theorem node_setmarked (g : global_State) (a m x : Nat) :
    (gcat (setmarked g a m) x).node = (gcat g x).node ∧
    (gcat (setmarked g a m) x).array = (gcat g x).array := by
  rw [gcat_setmarked]
  by_cases c : x = a ∧ a < g.objs.length
  · rw [if_pos c, c.1]
    exact ⟨rfl, rfl⟩
  · rw [if_neg c]
    exact ⟨rfl, rfl⟩

theorem nodeat_nodeset (g : global_State) (h i : Nat) (n : Node) (x j : Nat)
    (ha : allocated g h = true) (hi : i < (gcat g h).node.length) :
    nodeat (nodeset g h i n) x j = if x = h ∧ j = i then n else nodeat g x j := by
  unfold nodeat nodeset
  rw [gcat_gcset]
  have hlt := allocated_lt g h ha
  by_cases c : x = h
  · rw [if_pos ⟨c, hlt⟩, c]
    show ((gcat g h).node.set i n).getD j default = _
    by_cases d : j = i
    · rw [if_pos ⟨rfl, d⟩, d]
      simp [List.getD_eq_getElem?_getD, hi]
    · rw [if_neg (fun e => d e.2)]
      simp only [List.getD_eq_getElem?_getD]
      rw [List.getElem?_set_ne (fun e => d e.symm)]
  · rw [if_neg (fun e => c e.1), if_neg (fun e => c e.1)]

theorem array_nodeset (g : global_State) (h i : Nat) (n : Node) (x : Nat) :
    (gcat (nodeset g h i n) x).array = (gcat g x).array := by
  unfold nodeset
  rw [gcat_gcset]
  by_cases c : x = h ∧ h < g.objs.length
  · rw [if_pos c, c.1]
  · rw [if_neg c]

theorem node_arrayset (g : global_State) (h i : Nat) (v : TValue) (x : Nat) :
    (gcat (arrayset g h i v) x).node = (gcat g x).node := by
  unfold arrayset
  rw [gcat_gcset]
  by_cases c : x = h ∧ h < g.objs.length
  · rw [if_pos c, c.1]
  · rw [if_neg c]

theorem array_arrayset (g : global_State) (h i : Nat) (v : TValue) (x j : Nat)
    (ha : allocated g h = true) :
    (gcat (arrayset g h i v) x).array.getD j default =
      if x = h ∧ j = i ∧ i < (gcat g h).array.length then v
      else (gcat g x).array.getD j default := by
  unfold arrayset
  rw [gcat_gcset]
  have hlt := allocated_lt g h ha
  by_cases c : x = h
  · rw [if_pos ⟨c, hlt⟩, c]
    show ((gcat g h).array.set i v).getD j default = _
    by_cases d : j = i
    · rw [d]
      by_cases e : i < (gcat g h).array.length
      · rw [if_pos ⟨rfl, rfl, e⟩]
        simp [List.getD_eq_getElem?_getD, e]
      · rw [if_neg (fun k => e k.2.2)]
        simp only [List.getD_eq_getElem?_getD]
        rw [List.getElem?_eq_none (by rw [List.length_set]; omega),
          List.getElem?_eq_none (by omega)]
    · rw [if_neg (fun e => d e.2.1)]
      simp only [List.getD_eq_getElem?_getD]
      rw [List.getElem?_set_ne (fun e => d e.symm)]
  · rw [if_neg (fun e => c e.1), if_neg (fun e => c e.1)]

/-- Marking an object of the kind of strings changes its mark at most. -/
theorem markobject_stringkind (H : Decls) (hty : StdTypes H) (fuel : Nat) (g : global_State)
    (o : Nat) (hs : novariant (gcat g o).tt = H.LUA_TSTRING) :
    ∃ g1, markobject H (fuel + 1) g o = some g1 ∧ WeakFrame H g g1 ∧
      ∀ x, (gcat g1 x).node = (gcat g x).node ∧ (gcat g1 x).array = (gcat g x).array := by
  obtain ⟨t1, t2, t3, t4, t5, t6, t7, t8, t9⟩ := std_tags H hty
  have hne : ∀ k, novariant k ≠ 4 → (gcat g o).tt ≠ k := by
    intro k hk c
    rw [c, hty.1] at hs
    exact hk hs
  unfold markobject
  by_cases hw : iswhite H (gcat g o).marked = true
  · rw [if_pos hw, reallymarkobject_succ]
    by_cases hk : (gcat g o).tt = LUA_VSHRSTR H ∨ (gcat g o).tt = LUA_VLNGSTR H
    · rw [if_pos hk]
      exact ⟨_, rfl, WeakFrame_setmarked H hty g o _ hs, fun x => node_setmarked g o _ x⟩
    · rw [if_neg hk, t3, t4, t5, t6, t7, t8, t9, if_neg (hne 9 (by decide)),
        if_neg (fun c => hne 7 (by decide) c.1), if_neg]
      · exact ⟨g, rfl, WeakFrame_refl H g, fun _ => ⟨rfl, rfl⟩⟩
      · intro c
        rcases c with c | c | c | c | c | c
        · exact hne 7 (by decide) c
        · exact hne 6 (by decide) c
        · exact hne 38 (by decide) c
        · exact hne 5 (by decide) c
        · exact hne 8 (by decide) c
        · exact hne 10 (by decide) c
  · rw [if_neg hw]
    exact ⟨g, rfl, WeakFrame_refl H g, fun _ => ⟨rfl, rfl⟩⟩

/-- `iscleared` answers whether the object is a white object that is not a string, and
changes the mark of a string at most. -/
theorem iscleared_spec (H : Decls) (hty : StdTypes H) (fuel : Nat) (g : global_State)
    (o : Option Nat) :
    ∃ g1, iscleared H (fuel + 1) g o = some (g1, clearable H g o) ∧ WeakFrame H g g1 ∧
      ∀ x, (gcat g1 x).node = (gcat g x).node ∧ (gcat g1 x).array = (gcat g x).array := by
  cases o with
  | none => exact ⟨g, rfl, WeakFrame_refl H g, fun _ => ⟨rfl, rfl⟩⟩
  | some a =>
    unfold iscleared clearable
    dsimp only
    by_cases hs : novariant (gcat g a).tt = H.LUA_TSTRING
    · obtain ⟨g1, e, hf, hn⟩ := markobject_stringkind H hty fuel g a hs
      rw [if_pos hs, e]
      refine ⟨g1, ?_, hf, hn⟩
      simp [hs]
    · rw [if_neg hs]
      refine ⟨g, ?_, WeakFrame_refl H g, fun _ => ⟨rfl, rfl⟩⟩
      simp [hs]

theorem nodeat_frame (g g1 : global_State)
    (hn : ∀ x, (gcat g1 x).node = (gcat g x).node ∧ (gcat g1 x).array = (gcat g x).array)
    (x j : Nat) : nodeat g1 x j = nodeat g x j := by
  unfold nodeat
  rw [(hn x).1]

theorem clearkey_spec (H : Decls) (g : global_State) (h i : Nat) (ha : allocated g h = true)
    (hi : i < (gcat g h).node.length) :
    WeakFrame H g (clearkey H g h i) ∧
    nodeat (clearkey H g h i) h i =
      (if keyiscollectable (nodeat g h i) then setdeadkey H (nodeat g h i) else nodeat g h i) ∧
    (∀ x j, ¬ (x = h ∧ j = i) → nodeat (clearkey H g h i) x j = nodeat g x j) ∧
    (∀ x, (gcat (clearkey H g h i) x).array = (gcat g x).array) := by
  unfold clearkey
  by_cases c : keyiscollectable (nodeat g h i) = true
  · rw [if_pos c, if_pos c]
    refine ⟨WeakFrame_nodeset H g h i _ ha, ?_, ?_, fun x => array_nodeset g h i _ x⟩
    · rw [nodeat_nodeset g h i _ h i ha hi, if_pos ⟨rfl, rfl⟩]
    · intro x j hx
      rw [nodeat_nodeset g h i _ x j ha hi, if_neg hx]
  · rw [if_neg c, if_neg c]
    exact ⟨WeakFrame_refl H g, rfl, fun _ _ _ => rfl, fun _ => rfl⟩

/-- The body of the loops over the hash part, after the call of `iscleared` with the
object `tgt`: the entry is emptied if the answer is yes, and the key of an empty entry is
marked dead. -/
theorem clearnode_spec (H : Decls) (hty : StdTypes H) (fuel : Nat) (g : global_State)
    (h i : Nat) (tgt : Option Nat) (ha : allocated g h = true)
    (hi : i < (gcat g h).node.length) :
    ∃ g2, (iscleared H (fuel + 1) g tgt).map (fun r =>
        if isempty H (nodeat (if r.2 then nodeset r.1 h i
              { nodeat r.1 h i with i_val := setempty H (nodeat r.1 h i).i_val }
            else r.1) h i).i_val then
          clearkey H (if r.2 then nodeset r.1 h i
              { nodeat r.1 h i with i_val := setempty H (nodeat r.1 h i).i_val }
            else r.1) h i
        else (if r.2 then nodeset r.1 h i
              { nodeat r.1 h i with i_val := setempty H (nodeat r.1 h i).i_val }
            else r.1)) = some g2 ∧
      WeakFrame H g g2 ∧
      nodeat g2 h i = clearentry H (clearable H g tgt) (nodeat g h i) ∧
      (∀ x j, ¬ (x = h ∧ j = i) → nodeat g2 x j = nodeat g x j) ∧
      (∀ x, (gcat g2 x).array = (gcat g x).array) := by
  obtain ⟨g1, e, hf, hn⟩ := iscleared_spec H hty fuel g tgt
  rw [e, Option.map_some']
  dsimp only
  have hn1 : nodeat g1 h i = nodeat g h i := nodeat_frame g g1 hn h i
  have ha1 : allocated g1 h = true := by rw [(hf.2.2 h).1]; exact ha
  have hi1 : i < (gcat g1 h).node.length := by rw [(hn h).1]; exact hi
  -- the state after the entry has been emptied or not
  obtain ⟨ga, hga⟩ : ∃ ga, ga = (if clearable H g tgt = true then nodeset g1 h i
      { nodeat g1 h i with i_val := setempty H (nodeat g1 h i).i_val } else g1) := ⟨_, rfl⟩
  rw [← hga]
  have hfa : WeakFrame H g1 ga := by
    rw [hga]
    split
    · exact WeakFrame_nodeset H g1 h i _ ha1
    · exact WeakFrame_refl H g1
  have hna : nodeat ga h i = { nodeat g h i with
      i_val := if clearable H g tgt = true then setempty H (nodeat g h i).i_val
        else (nodeat g h i).i_val } := by
    rw [hga]
    by_cases c : clearable H g tgt = true
    · rw [if_pos c, if_pos c, nodeat_nodeset g1 h i _ h i ha1 hi1, if_pos ⟨rfl, rfl⟩, hn1]
    · rw [if_neg c, if_neg c, hn1]
  have hoa : ∀ x j, ¬ (x = h ∧ j = i) → nodeat ga x j = nodeat g x j := by
    intro x j hx
    rw [hga]
    by_cases c : clearable H g tgt = true
    · rw [if_pos c, nodeat_nodeset g1 h i _ x j ha1 hi1, if_neg hx]
      exact nodeat_frame g g1 hn x j
    · rw [if_neg c]
      exact nodeat_frame g g1 hn x j
  have haa : ∀ x, (gcat ga x).array = (gcat g x).array := by
    intro x
    rw [hga]
    by_cases c : clearable H g tgt = true
    · rw [if_pos c, array_nodeset, (hn x).2]
    · rw [if_neg c, (hn x).2]
  have hal : allocated ga h = true := by rw [(hfa.2.2 h).1]; exact ha1
  have hil : i < (gcat ga h).node.length := by rw [(hfa.2.2 h).2.2.1]; exact hi1
  obtain ⟨k1, k2, k3, k4⟩ := clearkey_spec H ga h i hal hil
  by_cases ce : isempty H (nodeat ga h i).i_val = true
  · rw [if_pos ce]
    refine ⟨_, rfl, WeakFrame_trans H g g1 _ hf (WeakFrame_trans H g1 ga _ hfa k1), ?_, ?_, ?_⟩
    · rw [k2]
      unfold clearentry
      rw [hna] at ce ⊢
      rw [if_pos ce]
      rfl
    · intro x j hx
      rw [k3 x j hx]
      exact hoa x j hx
    · intro x
      rw [k4 x]
      exact haa x
  · rw [if_neg ce]
    refine ⟨_, rfl, WeakFrame_trans H g g1 _ hf hfa, ?_, hoa, haa⟩
    unfold clearentry
    rw [hna] at ce ⊢
    rw [if_neg ce]

/-- A loop over entries of the hash part of the table `h` whose body is the one of
`clearnode_spec`, `t` giving the object that is tested. -/
theorem clearnodes_spec (H : Decls) (hty : StdTypes H) (fuel : Nat) (h : Nat)
    (t : Node → Option Nat) (f : Nat → global_State → Option global_State)
    (hf : ∀ i g, f i g = (iscleared H (fuel + 1) g (t (nodeat g h i))).map (fun r =>
        if isempty H (nodeat (if r.2 then nodeset r.1 h i
              { nodeat r.1 h i with i_val := setempty H (nodeat r.1 h i).i_val }
            else r.1) h i).i_val then
          clearkey H (if r.2 then nodeset r.1 h i
              { nodeat r.1 h i with i_val := setempty H (nodeat r.1 h i).i_val }
            else r.1) h i
        else (if r.2 then nodeset r.1 h i
              { nodeat r.1 h i with i_val := setempty H (nodeat r.1 h i).i_val }
            else r.1))) :
    ∀ (l : List Nat) (g : global_State), allocated g h = true →
      (∀ j ∈ l, j < (gcat g h).node.length) → l.Nodup →
      ∃ g1, forloop f l g = some g1 ∧ WeakFrame H g g1 ∧
        (∀ j ∈ l, nodeat g1 h j =
          clearentry H (clearable H g (t (nodeat g h j))) (nodeat g h j)) ∧
        (∀ x j, ¬ (x = h ∧ j ∈ l) → nodeat g1 x j = nodeat g x j) ∧
        (∀ x, (gcat g1 x).array = (gcat g x).array) := by
  intro l
  induction l with
  | nil =>
    intro g _ _ _
    exact ⟨g, rfl, WeakFrame_refl H g, fun j hj => absurd hj (List.not_mem_nil j),
      fun _ _ _ => rfl, fun _ => rfl⟩
  | cons i l ih =>
    intro g ha hlt hnd
    obtain ⟨g1, e1, f1, n1, o1, a1⟩ :=
      clearnode_spec H hty fuel g h i (t (nodeat g h i)) ha (hlt i (List.mem_cons_self i l))
    have ha1 : allocated g1 h = true := by rw [(f1.2.2 h).1]; exact ha
    have hlt1 : ∀ j ∈ l, j < (gcat g1 h).node.length := by
      intro j hj
      rw [(f1.2.2 h).2.2.1]
      exact hlt j (List.mem_cons_of_mem i hj)
    have hil : i ∉ l := (List.nodup_cons.mp hnd).1
    obtain ⟨g2, e2, f2, n2, o2, a2⟩ := ih g1 ha1 hlt1 (List.nodup_cons.mp hnd).2
    refine ⟨g2, ?_, WeakFrame_trans H g g1 g2 f1 f2, ?_, ?_, ?_⟩
    · show (f i g).bind (forloop f l) = some g2
      rw [hf i g, e1]
      exact e2
    · intro j hj
      rcases List.mem_cons.mp hj with c | c
      · rw [c, o2 h i (fun k => hil k.2)]
        exact n1
      · have hji : ¬ (h = h ∧ j = i) := fun k => hil (k.2 ▸ c)
        rw [n2 j c, o1 h j hji, clearable_frame H g g1 f1]
    · intro x j hx
      rw [o2 x j (fun k => hx ⟨k.1, List.mem_cons_of_mem i k.2⟩)]
      exact o1 x j (fun k => hx ⟨k.1, k.2 ▸ List.mem_cons_self i l⟩)
    · intro x
      rw [a2 x]
      exact a1 x

theorem gcvalueN_default : gcvalueN (default : TValue) = none := rfl

/-- The body of the loop of `clearbyvalues` over the array part. -/
theorem cleararray_spec (H : Decls) (hty : StdTypes H) (fuel : Nat) (g : global_State)
    (h i : Nat) (ha : allocated g h = true) :
    ∃ g2, clearbyvalues_array H (fuel + 1) h i g = some g2 ∧ WeakFrame H g g2 ∧
      (gcat g2 h).array.getD i default =
        (if clearable H g (gcvalueN ((gcat g h).array.getD i default)) = true then
          setempty H ((gcat g h).array.getD i default)
         else (gcat g h).array.getD i default) ∧
      (∀ x j, ¬ (x = h ∧ j = i) →
        (gcat g2 x).array.getD j default = (gcat g x).array.getD j default) ∧
      (∀ x, (gcat g2 x).node = (gcat g x).node) := by
  obtain ⟨g1, e, hf, hn⟩ :=
    iscleared_spec H hty fuel g (gcvalueN ((gcat g h).array.getD i default))
  have ha1 : allocated g1 h = true := by rw [(hf.2.2 h).1]; exact ha
  unfold clearbyvalues_array
  rw [e, Option.map_some']
  dsimp only
  by_cases c : clearable H g (gcvalueN ((gcat g h).array.getD i default)) = true
  · rw [if_pos c, if_pos c]
    have hi : i < (gcat g1 h).array.length := by
      by_contra k
      have hd : (gcat g h).array.getD i default = default := by
        simp only [List.getD_eq_getElem?_getD]
        rw [List.getElem?_eq_none (by rw [← (hn h).2]; omega)]
        rfl
      rw [hd, gcvalueN_default] at c
      exact Bool.noConfusion c
    refine ⟨_, rfl, WeakFrame_trans H g g1 _ hf (WeakFrame_arrayset H g1 h i _ ha1), ?_, ?_, ?_⟩
    · rw [array_arrayset g1 h i _ h i ha1, if_pos ⟨rfl, rfl, hi⟩, (hn h).2]
    · intro x j hx
      rw [array_arrayset g1 h i _ x j ha1, if_neg (fun k => hx ⟨k.1, k.2.1⟩), (hn x).2]
    · intro x
      rw [node_arrayset, (hn x).1]
  · rw [if_neg c, if_neg c]
    exact ⟨g1, rfl, hf, by rw [(hn h).2], fun x j _ => by rw [(hn x).2], fun x => (hn x).1⟩

/-- The loop of `clearbyvalues` over the array part of the table `h`. -/
theorem cleararrays_spec (H : Decls) (hty : StdTypes H) (fuel : Nat) (h : Nat) :
    ∀ (l : List Nat) (g : global_State), allocated g h = true → l.Nodup →
      ∃ g1, forloop (clearbyvalues_array H (fuel + 1) h) l g = some g1 ∧ WeakFrame H g g1 ∧
        (∀ j ∈ l, (gcat g1 h).array.getD j default =
          (if clearable H g (gcvalueN ((gcat g h).array.getD j default)) = true then
            setempty H ((gcat g h).array.getD j default)
           else (gcat g h).array.getD j default)) ∧
        (∀ x j, ¬ (x = h ∧ j ∈ l) →
          (gcat g1 x).array.getD j default = (gcat g x).array.getD j default) ∧
        (∀ x, (gcat g1 x).node = (gcat g x).node) := by
  intro l
  induction l with
  | nil =>
    intro g _ _
    exact ⟨g, rfl, WeakFrame_refl H g, fun j hj => absurd hj (List.not_mem_nil j),
      fun _ _ _ => rfl, fun _ => rfl⟩
  | cons i l ih =>
    intro g ha hnd
    obtain ⟨g1, e1, f1, n1, o1, a1⟩ := cleararray_spec H hty fuel g h i ha
    have ha1 : allocated g1 h = true := by rw [(f1.2.2 h).1]; exact ha
    have hil : i ∉ l := (List.nodup_cons.mp hnd).1
    obtain ⟨g2, e2, f2, n2, o2, a2⟩ := ih g1 ha1 (List.nodup_cons.mp hnd).2
    refine ⟨g2, ?_, WeakFrame_trans H g g1 g2 f1 f2, ?_, ?_, ?_⟩
    · show (clearbyvalues_array H (fuel + 1) h i g).bind _ = some g2
      rw [e1]
      exact e2
    · intro j hj
      rcases List.mem_cons.mp hj with c | c
      · rw [c, o2 h i (fun k => hil k.2)]
        exact n1
      · have hji : ¬ (h = h ∧ j = i) := fun k => hil (k.2 ▸ c)
        rw [n2 j c, o1 h j hji, clearable_frame H g g1 f1]
    · intro x j hx
      rw [o2 x j (fun k => hx ⟨k.1, List.mem_cons_of_mem i k.2⟩)]
      exact o1 x j (fun k => hx ⟨k.1, k.2 ▸ List.mem_cons_self i l⟩)
    · intro x
      rw [a2 x]
      exact a1 x

theorem GLinked_head (g : global_State) (x : Option Nat) (l : List Nat) (h : GLinked g x l) :
    x = l.head? := by
  cases l with
  | nil => exact h
  | cons a l => exact h.1

/-- `clearbykeys` run on a list `ts` of distinct tables: every entry of the hash part of
every table of the list is the entry that `clearentry` gives for the entry of before, the
answer of `iscleared` being computed in the state of before. -/
theorem clearbykeys_spec (H : Decls) (hty : StdTypes H) :
    ∀ (ts : List Nat) (fuel : Nat) (g : global_State) (l : Option Nat),
      ts.length < fuel → GLinked g l ts → ts.Nodup →
      ∃ g1, clearbykeys H fuel g l = some g1 ∧ WeakFrame H g g1 ∧
        (∀ h ∈ ts, ∀ j, j < (gcat g h).node.length → nodeat g1 h j =
          clearentry H (clearable H g (gckeyN (nodeat g h j))) (nodeat g h j)) ∧
        (∀ x, x ∉ ts → ∀ j, nodeat g1 x j = nodeat g x j) ∧
        (∀ x, (gcat g1 x).array = (gcat g x).array) := by
  intro ts
  induction ts with
  | nil =>
    intro fuel g l hfuel hl _
    obtain ⟨f, hf⟩ : ∃ f, fuel = f + 1 := ⟨fuel - 1, by simp at hfuel; omega⟩
    subst hf
    have hn : l = none := hl
    subst hn
    exact ⟨g, rfl, WeakFrame_refl H g, fun h hh => absurd hh (List.not_mem_nil h),
      fun _ _ _ => rfl, fun _ => rfl⟩
  | cons h ts ih =>
    intro fuel g l hfuel hl hnd
    obtain ⟨f, hf⟩ : ∃ f, fuel = f + 2 := ⟨fuel - 2, by simp at hfuel; omega⟩
    subst hf
    obtain ⟨hd, hal, hrest⟩ := hl
    subst hd
    have hht : h ∉ ts := (List.nodup_cons.mp hnd).1
    obtain ⟨g1, e1, f1, n1, o1, a1⟩ :=
      clearnodes_spec H hty f h gckeyN (clearbykeys_node H (f + 1) h) (fun _ _ => rfl)
        (List.range (gcat g h).node.length) g hal (fun j hj => List.mem_range.mp hj)
        (List.nodup_range _)
    have hl1 : GLinked g1 (gcat g1 h).gclist ts := by
      rw [(WeakFrame_tt H g g1 f1 h).2]
      exact GLinked_frame H g g1 f1 ts _ hrest
    obtain ⟨g2, e2, f2, n2, o2, a2⟩ :=
      ih (f + 1) g1 (gcat g1 h).gclist (by simp at hfuel; omega) hl1 (List.nodup_cons.mp hnd).2
    refine ⟨g2, ?_, WeakFrame_trans H g g1 g2 f1 f2, ?_, ?_, ?_⟩
    · show (forloop (clearbykeys_node H (f + 1) h) (List.range (gcat g h).node.length) g).bind
        (fun g1 => clearbykeys H (f + 1) g1 (gcat g1 h).gclist) = some g2
      rw [e1]
      exact e2
    · intro x hx j hj
      rcases List.mem_cons.mp hx with c | c
      · rw [c] at hj
        rw [c, o2 h hht j]
        exact n1 j (List.mem_range.mpr hj)
      · have hxh : x ≠ h := fun k => hht (k ▸ c)
        rw [n2 x c j (by rw [(f1.2.2 x).2.2.1]; exact hj), o1 x j (fun k => hxh k.1),
          clearable_frame H g g1 f1]
    · intro x hx j
      rw [o2 x (fun k => hx (List.mem_cons_of_mem h k)) j]
      exact o1 x j (fun k => hx (k.1 ▸ List.mem_cons_self h ts))
    · intro x
      rw [a2 x]
      exact a1 x

/-- `clearbyvalues` run on a list of distinct tables of which `ts` is the part before `f`:
every entry of the array part and of the hash part of every table of `ts` is cleared or
kept by the answer of `iscleared` for its value, computed in the state of before. -/
theorem clearbyvalues_spec (E : StepEnv) (hty : StdTypes E.H)
    (hasize : ∀ o, E.luaH_realasize o = o.array.length) (f : Option Nat) :
    ∀ (ts : List Nat) (fuel : Nat) (g : global_State) (l : Option Nat) (r : List Nat),
      ts.length < fuel → GLinked g l (ts ++ r) → (ts ++ r).Nodup → r.head? = f →
      ∃ g1, clearbyvalues E fuel g l f = some g1 ∧ WeakFrame E.H g g1 ∧
        (∀ h ∈ ts, ∀ j, j < (gcat g h).node.length → nodeat g1 h j =
          clearentry E.H (clearable E.H g (gcvalueN (nodeat g h j).i_val)) (nodeat g h j)) ∧
        (∀ h ∈ ts, ∀ j, j < (gcat g h).array.length → (gcat g1 h).array.getD j default =
          (if clearable E.H g (gcvalueN ((gcat g h).array.getD j default)) = true then
            setempty E.H ((gcat g h).array.getD j default)
           else (gcat g h).array.getD j default)) ∧
        (∀ x, x ∉ ts → ∀ j, nodeat g1 x j = nodeat g x j ∧
          (gcat g1 x).array.getD j default = (gcat g x).array.getD j default) := by
  intro ts
  induction ts with
  | nil =>
    intro fuel g l r hfuel hl _ hlim
    obtain ⟨k, hk⟩ : ∃ k, fuel = k + 1 := ⟨fuel - 1, by simp at hfuel; omega⟩
    subst hk
    have hn : l = f := by
      rw [← hlim]
      exact GLinked_head g l r hl
    have e : clearbyvalues E (k + 1) g l f = some g := by
      simp only [clearbyvalues, hn, if_true]
    exact ⟨g, e, WeakFrame_refl E.H g, fun h hh => absurd hh (List.not_mem_nil h),
      fun h hh => absurd hh (List.not_mem_nil h), fun _ _ _ => ⟨rfl, rfl⟩⟩
  | cons h ts ih =>
    intro fuel g l r hfuel hl hnd hlim
    obtain ⟨k, hk⟩ : ∃ k, fuel = k + 2 := ⟨fuel - 2, by simp at hfuel; omega⟩
    subst hk
    obtain ⟨hd, hal, hrest⟩ := hl
    subst hd
    have hht : h ∉ ts ++ r := (List.nodup_cons.mp hnd).1
    have hht1 : h ∉ ts := fun c => hht (List.mem_append_left r c)
    have hne : ¬ some h = f := by
      rw [← hlim]
      intro c
      cases r with
      | nil => cases c
      | cons b r =>
        injection c with c
        exact hht (by rw [c]; exact List.mem_append_right ts (List.mem_cons_self b r))
    obtain ⟨ga, ea, fa, na, oa, aa⟩ :=
      cleararrays_spec E.H hty k h (List.range (E.luaH_realasize (gcat g h))) g hal
        (List.nodup_range _)
    have hala : allocated ga h = true := by rw [(fa.2.2 h).1]; exact hal
    obtain ⟨g1, e1, f1, n1, o1, a1⟩ :=
      clearnodes_spec E.H hty k h (fun n => gcvalueN n.i_val)
        (clearbyvalues_node E.H (k + 1) h) (fun _ _ => rfl)
        (List.range (gcat ga h).node.length) ga hala (fun j hj => List.mem_range.mp hj)
        (List.nodup_range _)
    have fg1 : WeakFrame E.H g g1 := WeakFrame_trans E.H g ga g1 fa f1
    have hl1 : GLinked g1 (gcat g1 h).gclist (ts ++ r) := by
      rw [(WeakFrame_tt E.H g g1 fg1 h).2]
      exact GLinked_frame E.H g g1 fg1 (ts ++ r) _ hrest
    obtain ⟨g2, e2, f2, n2, r2, o2⟩ :=
      ih (k + 1) g1 (gcat g1 h).gclist r (by simp at hfuel; omega) hl1
        (List.nodup_cons.mp hnd).2 hlim
    have hnode : ∀ x j, nodeat ga x j = nodeat g x j := by
      intro x j
      unfold nodeat
      rw [aa x]
    refine ⟨g2, ?_, WeakFrame_trans E.H g g1 g2 fg1 f2, ?_, ?_, ?_⟩
    · have hs : clearbyvalues E (k + 2) g (some h) f =
          (forloop (clearbyvalues_array E.H (k + 1) h)
            (List.range (E.luaH_realasize (gcat g h))) g).bind fun g1 =>
          (forloop (clearbyvalues_node E.H (k + 1) h) (List.range (gcat g1 h).node.length)
            g1).bind fun g2 => clearbyvalues E (k + 1) g2 (gcat g2 h).gclist f := by
        simp only [clearbyvalues, if_neg hne]
      rw [hs, ea]
      show (forloop (clearbyvalues_node E.H (k + 1) h) (List.range (gcat ga h).node.length)
        ga).bind _ = some g2
      rw [e1]
      exact e2
    · intro x hx j hj
      rcases List.mem_cons.mp hx with c | c
      · rw [c] at hj
        rw [c, (o2 h hht1 j).1,
          n1 j (List.mem_range.mpr (by rw [(fa.2.2 h).2.2.1]; exact hj)), hnode,
          clearable_frame E.H g ga fa]
      · have hxh : x ≠ h := fun k => hht1 (k ▸ c)
        rw [n2 x c j (by rw [(fg1.2.2 x).2.2.1]; exact hj), o1 x j (fun k => hxh k.1), hnode,
          clearable_frame E.H g g1 fg1]
    · intro x hx j hj
      rcases List.mem_cons.mp hx with c | c
      · rw [c] at hj
        rw [c, (o2 h hht1 j).2, a1 h]
        exact na j (List.mem_range.mpr (by rw [hasize]; exact hj))
      · have hxh : x ≠ h := fun k => hht1 (k ▸ c)
        rw [r2 x c j (by rw [(fg1.2.2 x).2.2.2.1]; exact hj), a1 x, oa x j (fun k => hxh k.1),
          clearable_frame E.H g g1 fg1]
    · intro x hx j
      have hxh : x ≠ h := fun k => hx (k ▸ List.mem_cons_self h ts)
      rw [(o2 x (fun k => hx (List.mem_cons_of_mem h k)) j).1,
        (o2 x (fun k => hx (List.mem_cons_of_mem h k)) j).2, o1 x j (fun k => hxh k.1), a1 x,
        hnode, oa x j (fun k => hxh k.1)]
      exact ⟨rfl, rfl⟩

theorem isempty_setempty (H : Decls) (hnil : H.LUA_TNIL = 0) (v : TValue) :
    isempty H (setempty H v) = true := by
  unfold isempty ttisnil ttype rawtt setempty LUA_VEMPTY
  rw [hnil]
  show (novariant (makevariant 0 1) == 0) = true
  decide

theorem keyiscollectable_dead (H : Decls) (hty : StdTypes H) (n : Node) :
    keyiscollectable (setdeadkey H n) = false := by
  unfold keyiscollectable setdeadkey LUA_TDEADKEY
  rw [hty.2.2.2.2.2]
  show ((9 + 2) &&& 1 <<< 6 != 0) = false
  decide

/-- The entry left by the body of the loops when `iscleared` says yes: it is empty, and its
key is dead if it was collectable. -/
theorem clearentry_yes (H : Decls) (hty : StdTypes H) (hnil : H.LUA_TNIL = 0) (n : Node) :
    isempty H (clearentry H true n).i_val = true ∧
    (keyiscollectable n = true → (clearentry H true n).key_tt = LUA_TDEADKEY H ∧
      keyiscollectable (clearentry H true n) = false) := by
  have he := isempty_setempty H hnil n.i_val
  unfold clearentry
  simp only [if_true]
  rw [if_pos he]
  by_cases c : keyiscollectable n = true
  · rw [if_pos c]
    exact ⟨he, fun _ => ⟨rfl, keyiscollectable_dead H hty _⟩⟩
  · rw [if_neg c]
    exact ⟨he, fun k => absurd k c⟩

/-- The entry left by the body of the loops when `iscleared` says no: the value is kept,
and an entry that is not empty is kept as it is. -/
theorem clearentry_no (H : Decls) (n : Node) :
    (clearentry H false n).i_val = n.i_val ∧
    (isempty H n.i_val = false → clearentry H false n = n) := by
  unfold clearentry
  simp only [Bool.false_eq_true, if_false]
  by_cases c : isempty H n.i_val = true
  · rw [if_pos c]
    refine ⟨?_, fun k => ?_⟩
    · split <;> rfl
    · rw [c] at k
      exact Bool.noConfusion k
  · rw [if_neg c]
    exact ⟨rfl, fun _ => rfl⟩

/-- C22: `clearbykeys(g, l)` and `clearbyvalues(g, l, f)` run on a list `l` of distinct
tables linked by `gclist`, of which `ts` is the part before `f`.  Both return.  After
`clearbykeys`, in every table of the list no entry of the hash part that is not empty has a
key that is a white object other than a string; an entry whose key was such an object is
empty and its key is a dead key; an entry whose key was not collectable, a string or marked
keeps its value.  After `clearbyvalues`, in every table of `ts` no entry of the array part or
of the hash part that is not empty holds a white object other than a string; an entry that
held one is empty (and in the hash part its key, if collectable, is a dead key); an entry
whose value was not collectable, a string or marked keeps its value.  Tables outside the
list (and for `clearbyvalues` those from `f` on) keep their entries, and nothing else changes
but marks of strings. -/
theorem clearby_clears (E : StepEnv) (g : global_State) (l f : Option Nat) (ts r : List Nat)
    (fuel : Nat) (hty : StdTypes E.H) (hnil : E.H.LUA_TNIL = 0)
    (hasize : ∀ o, E.luaH_realasize o = o.array.length)
    (hfuel : (ts ++ r).length < fuel) (hl : GLinked g l (ts ++ r)) (hnd : (ts ++ r).Nodup)
    (hlim : r.head? = f) :
    (∃ g1, clearbykeys E.H fuel g l = some g1 ∧
      (∀ h ∈ ts ++ r, ∀ j, j < (gcat g1 h).node.length →
        ¬ (isempty E.H (nodeat g1 h j).i_val = false ∧
            clearable E.H g1 (gckeyN (nodeat g1 h j)) = true) ∧
        (clearable E.H g (gckeyN (nodeat g h j)) = true →
          isempty E.H (nodeat g1 h j).i_val = true ∧
          (nodeat g1 h j).key_tt = LUA_TDEADKEY E.H ∧
          keyiscollectable (nodeat g1 h j) = false) ∧
        (clearable E.H g (gckeyN (nodeat g h j)) = false →
          (nodeat g1 h j).i_val = (nodeat g h j).i_val)) ∧
      (∀ x, x ∉ ts ++ r → ∀ j, nodeat g1 x j = nodeat g x j) ∧
      (∀ x, (gcat g1 x).array = (gcat g x).array) ∧
      WeakFrame E.H g g1) ∧
    (∃ g2, clearbyvalues E fuel g l f = some g2 ∧
      (∀ h ∈ ts, ∀ j, j < (gcat g2 h).array.length →
        ¬ (isempty E.H ((gcat g2 h).array.getD j default) = false ∧
            clearable E.H g2 (gcvalueN ((gcat g2 h).array.getD j default)) = true) ∧
        (clearable E.H g (gcvalueN ((gcat g h).array.getD j default)) = true →
          isempty E.H ((gcat g2 h).array.getD j default) = true) ∧
        (clearable E.H g (gcvalueN ((gcat g h).array.getD j default)) = false →
          (gcat g2 h).array.getD j default = (gcat g h).array.getD j default)) ∧
      (∀ h ∈ ts, ∀ j, j < (gcat g2 h).node.length →
        ¬ (isempty E.H (nodeat g2 h j).i_val = false ∧
            clearable E.H g2 (gcvalueN (nodeat g2 h j).i_val) = true) ∧
        (clearable E.H g (gcvalueN (nodeat g h j).i_val) = true →
          isempty E.H (nodeat g2 h j).i_val = true ∧
          (keyiscollectable (nodeat g h j) = true →
            (nodeat g2 h j).key_tt = LUA_TDEADKEY E.H)) ∧
        (clearable E.H g (gcvalueN (nodeat g h j).i_val) = false →
          (nodeat g2 h j).i_val = (nodeat g h j).i_val)) ∧
      (∀ x, x ∉ ts → ∀ j, nodeat g2 x j = nodeat g x j ∧
        (gcat g2 x).array.getD j default = (gcat g x).array.getD j default) ∧
      WeakFrame E.H g g2) := by
  constructor
  · obtain ⟨g1, e1, f1, n1, o1, a1⟩ := clearbykeys_spec E.H hty (ts ++ r) fuel g l hfuel hl hnd
    refine ⟨g1, e1, ?_, o1, a1, f1⟩
    intro h hh j hj
    have hj0 : j < (gcat g h).node.length := by rw [← (f1.2.2 h).2.2.1]; exact hj
    have hn := n1 h hh j hj0
    cases c : clearable E.H g (gckeyN (nodeat g h j)) with
    | true =>
      rw [c] at hn
      obtain ⟨y1, y2⟩ := clearentry_yes E.H hty hnil (nodeat g h j)
      have hk : keyiscollectable (nodeat g h j) = true := by
        unfold gckeyN at c
        by_contra k
        rw [if_neg k] at c
        exact Bool.noConfusion c
      rw [hn]
      refine ⟨fun k => ?_, fun _ => ⟨y1, (y2 hk).1, (y2 hk).2⟩, fun k => Bool.noConfusion k⟩
      rw [y1] at k
      exact Bool.noConfusion k.1
    | false =>
      rw [c] at hn
      obtain ⟨z1, z2⟩ := clearentry_no E.H (nodeat g h j)
      refine ⟨fun k => ?_, fun k => Bool.noConfusion k, fun _ => by rw [hn, z1]⟩
      have hv : isempty E.H (nodeat g h j).i_val = false := by
        rw [← z1, ← hn]
        exact k.1
      have hsame : nodeat g1 h j = nodeat g h j := by rw [hn, z2 hv]
      rw [hsame, clearable_frame E.H g g1 f1, c] at k
      exact Bool.noConfusion k.2
  · obtain ⟨g2, e2, f2, n2, r2, o2⟩ :=
      clearbyvalues_spec E hty hasize f ts fuel g l r
        (by rw [List.length_append] at hfuel; omega) hl hnd hlim
    refine ⟨g2, e2, ?_, ?_, o2, f2⟩
    · intro h hh j hj
      have hj0 : j < (gcat g h).array.length := by rw [← (f2.2.2 h).2.2.2.1]; exact hj
      have hn := r2 h hh j hj0
      cases c : clearable E.H g (gcvalueN ((gcat g h).array.getD j default)) with
      | true =>
        rw [c, if_pos rfl] at hn
        have y1 := isempty_setempty E.H hnil ((gcat g h).array.getD j default)
        rw [hn]
        refine ⟨fun k => ?_, fun _ => y1, fun k => Bool.noConfusion k⟩
        rw [y1] at k
        exact Bool.noConfusion k.1
      | false =>
        rw [c, if_neg (by decide)] at hn
        refine ⟨fun k => ?_, fun k => Bool.noConfusion k, fun _ => hn⟩
        rw [hn, clearable_frame E.H g g2 f2, c] at k
        exact Bool.noConfusion k.2
    · intro h hh j hj
      have hj0 : j < (gcat g h).node.length := by rw [← (f2.2.2 h).2.2.1]; exact hj
      have hn := n2 h hh j hj0
      cases c : clearable E.H g (gcvalueN (nodeat g h j).i_val) with
      | true =>
        rw [c] at hn
        obtain ⟨y1, y2⟩ := clearentry_yes E.H hty hnil (nodeat g h j)
        rw [hn]
        refine ⟨fun k => ?_, fun _ => ⟨y1, fun hk => (y2 hk).1⟩, fun k => Bool.noConfusion k⟩
        rw [y1] at k
        exact Bool.noConfusion k.1
      | false =>
        rw [c] at hn
        obtain ⟨z1, z2⟩ := clearentry_no E.H (nodeat g h j)
        refine ⟨fun k => ?_, fun k => Bool.noConfusion k, fun _ => by rw [hn, z1]⟩
        have hv : isempty E.H (nodeat g h j).i_val = false := by
          rw [← z1, ← hn]
          exact k.1
        have hsame : nodeat g2 h j = nodeat g h j := by rw [hn, z2 hv]
        rw [hsame, clearable_frame E.H g g2 f2, c] at k
        exact Bool.noConfusion k.2

theorem clearby_clears_witness :
    StdTypes exStepEnv.H ∧ GLinked exWeak (some 0) ([0] ++ []) ∧
    (∃ g1, clearbykeys exStepEnv.H 2 exWeak (some 0) = some g1 ∧
      WeakFrame exStepEnv.H exWeak g1) ∧
    (clearbykeys exStepEnv.H 2 exWeak (some 0)).map
        (fun g1 => ((gcat g1 0).node.map (fun n => (n.i_val.tt_, n.key_tt)),
          (gcat g1 2).marked)) =
      some ([(16, 11), (3, 68), (3, 69), (69, 3)], 32) ∧
    (clearbyvalues exStepEnv 2 exWeak (some 0) none).map
        (fun g2 => ((gcat g2 0).node.map (fun n => (n.i_val.tt_, n.key_tt)),
          (gcat g2 0).array.map (fun v => v.tt_))) =
      some ([(3, 69), (3, 68), (3, 69), (16, 3)], [16, 3]) :=
  have h := clearby_clears exStepEnv exWeak (some 0) none [0] [] 2 (by decide) rfl
    (fun _ => rfl) (by decide) (by decide) (by decide) rfl
  ⟨by decide, by decide,
    match h.1 with
    | ⟨g1, e, _, _, _, k⟩ => ⟨g1, e, k⟩,
    by decide, by decide⟩

/-! ### Lists of objects: places and relinking -/

theorem deref_assign_ne (g : global_State) (p q : GCRef) (x : Option Nat) (hne : q ≠ p) :
    deref (assign g p x) q = deref g q := by
  cases p with
  | next a =>
    cases q with
    | next b =>
      have hba : b ≠ a := fun e => hne (by rw [e])
      show (gcat (gcset g a _) b).next = (gcat g b).next
      rw [gcat_gcset, if_neg (fun c => hba c.1)]
    | allgc => rfl
    | finobj => rfl
    | tobefnz => rfl
    | fixedgc => rfl
  | allgc => cases q <;> first | rfl | exact absurd rfl hne
  | finobj => cases q <;> first | rfl | exact absurd rfl hne
  | tobefnz => cases q <;> first | rfl | exact absurd rfl hne
  | fixedgc => cases q <;> first | rfl | exact absurd rfl hne

theorem objat_assign_ne (g : global_State) (p : GCRef) (x : Option Nat) (b : Nat)
    (h : p.owner ≠ some b) : objat (assign g p x) b = objat g b := by
  rw [objat_assign, if_neg (fun c => h c.1)]

theorem allocated_congr (g g1 : global_State) (a : Nat) (h : objat g1 a = objat g a) :
    allocated g1 a = allocated g a := by
  unfold allocated
  unfold objat at h
  rw [h]

theorem gcat_congr (g g1 : global_State) (a : Nat) (h : objat g1 a = objat g a) :
    gcat g1 a = gcat g a := by
  rw [gcat_eq, h, ← gcat_eq]

theorem eq_nil_or_snoc (l : List Nat) : l = [] ∨ ∃ l0 c, l = l0 ++ [c] := by
  rcases List.eq_nil_or_concat l with e | ⟨l0, c, e⟩
  · exact Or.inl e
  · exact Or.inr ⟨l0, c, by rw [e, List.concat_eq_append]⟩

theorem gcat_of_objat (g : global_State) (a : Nat) (o : GCObj) (h : objat g a = some o) :
    gcat g a = o := by
  rw [gcat_eq, h]
  rfl

theorem lastplace_nil (p : GCRef) : lastplace p [] = p := rfl

theorem lastplace_concat (p : GCRef) (l : List Nat) (c : Nat) :
    lastplace p (l ++ [c]) = GCRef.next c := by
  unfold lastplace
  rw [List.getLast?_concat]

theorem lastplace_cons (p : GCRef) (a : Nat) (l : List Nat) :
    lastplace p (a :: l) = lastplace (GCRef.next a) l := by
  rcases eq_nil_or_snoc l with e | ⟨l0, c, e⟩
  · rw [e]
    rfl
  · rw [e, ← List.cons_append, lastplace_concat, lastplace_concat]

theorem lastplace_owner (p : GCRef) (l : List Nat) (b : Nat)
    (h : (lastplace p l).owner = some b) : p.owner = some b ∨ b ∈ l := by
  rcases eq_nil_or_snoc l with e | ⟨l0, c, e⟩
  · rw [e] at h
    exact Or.inl h
  · rw [e, lastplace_concat] at h
    injection h with h
    rw [e, ← h]
    exact Or.inr (List.mem_append_right l0 (List.mem_singleton_self c))

/-- The list that follows a prefix hangs at the last place of the prefix. -/
theorem Linked_lastplace (g : global_State) :
    ∀ (l : List Nat) (p : GCRef) (r : List Nat), Linked g (deref g p) (l ++ r) →
      Linked g (deref g (lastplace p l)) r
  | [], _, _, h => h
  | a :: l, p, r, h => by
    rw [lastplace_cons]
    exact Linked_lastplace g l (GCRef.next a) r h.2.2

/-- A list whose prefix `l` and object `c` are as before, with a new tail after `c`. -/
theorem Linked_splice (g g1 : global_State) (c : Nat) (m : List Nat) :
    ∀ (l : List Nat) (x : Option Nat) (rest : List Nat), Linked g x (l ++ c :: rest) →
      (∀ a ∈ l, objat g1 a = objat g a) → allocated g1 c = true →
      Linked g1 (gcat g1 c).next m → Linked g1 x (l ++ c :: m)
  | [], _, _, h, _, hc, hm => ⟨h.1, hc, hm⟩
  | a :: l, _, rest, h, ho, hc, hm => by
    have ha := ho a (List.mem_cons_self a l)
    refine ⟨h.1, ?_, ?_⟩
    · rw [allocated_congr g g1 a ha]
      exact h.2.1
    · rw [gcat_congr g g1 a ha]
      exact Linked_splice g g1 c m l _ rest h.2.2
        (fun b hb => ho b (List.mem_cons_of_mem a hb)) hc hm

/-- The search of `luaC_checkfinalizer` ends at the place that points to `o`. -/
theorem findptr_spec (g : global_State) (o : Nat) (post : List Nat) :
    ∀ (pre : List Nat) (fuel : Nat) (p : GCRef), pre.length < fuel →
      Linked g (deref g p) (pre ++ o :: post) → o ∉ pre →
      findptr o fuel g p = some (lastplace p pre) := by
  intro pre
  induction pre with
  | nil =>
    intro fuel p hfuel hl _
    obtain ⟨f, hf⟩ : ∃ f, fuel = f + 1 := ⟨fuel - 1, by simp at hfuel; omega⟩
    subst hf
    have hd : deref g p = some o := hl.1
    simp only [findptr, hd, if_true]
    rfl
  | cons a pre ih =>
    intro fuel p hfuel hl ho
    obtain ⟨f, hf⟩ : ∃ f, fuel = f + 1 := ⟨fuel - 1, by simp at hfuel; omega⟩
    subst hf
    have hd : deref g p = some a := hl.1
    have hao : ¬ some a = some o := by
      intro c
      injection c with c
      exact ho (c ▸ List.mem_cons_self a pre)
    have hs : findptr o (f + 1) g p = findptr o f g (GCRef.next a) := by
      simp only [findptr, hd, if_neg hao]
    rw [hs, lastplace_cons]
    exact ih f (GCRef.next a) (by simp at hfuel; omega) hl.2.2
      (fun c => ho (List.mem_cons_of_mem a c))

/-- The assignment that takes the object `o` out of a list: the list at the place `p` is
the list of before without `o`, and only the owner of the place that pointed to `o` has
changed, in its field `next`. -/
theorem unlink_spec (g : global_State) (p : GCRef) (o : Nat) (pre post : List Nat)
    (hl : Linked g (deref g p) (pre ++ o :: post)) (hnd : (pre ++ o :: post).Nodup)
    (hp : ∀ b, p.owner = some b → b ∉ pre ++ o :: post ∧ allocated g b = true) :
    Linked (assign g (lastplace p pre) (gcat g o).next)
      (deref (assign g (lastplace p pre) (gcat g o).next) p) (pre ++ post) ∧
    (lastplace p pre).owner ≠ some o ∧
    (∀ a ∈ post, (lastplace p pre).owner ≠ some a) ∧
    (∀ b, (lastplace p pre).owner = some b → allocated g b = true) := by
  have hmid : Linked g (deref g (lastplace p pre)) (o :: post) := Linked_lastplace g pre p _ hl
  have hpost : Linked g (gcat g o).next post := hmid.2.2
  have hopost : o ∉ post := by
    have := (List.nodup_append.mp hnd).2.1
    exact (List.nodup_cons.mp this).1
  rcases eq_nil_or_snoc pre with e | ⟨l0, c, e⟩
  · subst e
    have hown : ∀ a ∈ o :: post, p.owner ≠ some a := fun a ha c => (hp a c).1 ha
    have hlt : ∀ b, p.owner = some b → b < g.objs.length :=
      fun b hb => allocated_lt g b (hp b hb).2
    refine ⟨?_, hown o (List.mem_cons_self o post),
      fun a ha => hown a (List.mem_cons_of_mem o ha), fun b hb => (hp b hb).2⟩
    show Linked (assign g p (gcat g o).next) (deref (assign g p (gcat g o).next) p) post
    rw [deref_assign g p _ hlt]
    exact Linked_congr g _ post _
      (fun a ha => objat_assign_ne g p _ a (hown a (List.mem_cons_of_mem o ha))) hpost
  · subst e
    rw [lastplace_concat]
    have hcl : c ∉ l0 := by
      have h1 : (l0 ++ [c]).Nodup := (List.nodup_append.mp hnd).1
      have h2 := (List.nodup_append.mp h1).2.2
      exact fun k => h2 k (List.mem_singleton_self c)
    have hcr : c ∉ o :: post := by
      have h2 := (List.nodup_append.mp hnd).2.2
      exact fun k => h2 (List.mem_append_right l0 (List.mem_singleton_self c)) k
    have hcal : allocated g c = true :=
      Linked_allocated g _ _ hl c
        (List.mem_append_left _ (List.mem_append_right l0 (List.mem_singleton_self c)))
    have hclt := allocated_lt g c hcal
    have hpc : p ≠ GCRef.next c := by
      intro k
      have := (hp c (by rw [k]; rfl)).1
      exact this (List.mem_append_left _ (List.mem_append_right l0 (List.mem_singleton_self c)))
    refine ⟨?_, ?_, ?_, ?_⟩
    · rw [deref_assign_ne g _ p _ hpc]
      have hl2 : Linked g (deref g p) (l0 ++ c :: (o :: post)) := by
        rw [List.append_assoc] at hl
        exact hl
      have hobj : objat (assign g (GCRef.next c) (gcat g o).next) c =
          some { gcat g c with next := (gcat g o).next } := by
        rw [objat_assign, if_pos ⟨rfl, hclt⟩]
      rw [List.append_assoc]
      apply Linked_splice g _ c post l0 _ (o :: post) hl2
      · intro a ha
        exact objat_assign_ne g _ _ a
          (fun k => hcl (by injection k with k; rw [k]; exact ha))
      · rw [allocated_eq, hobj]
        rfl
      · rw [gcat_of_objat _ c _ hobj]
        show Linked _ (gcat g o).next post
        exact Linked_congr g _ post _
          (fun a ha => objat_assign_ne g _ _ a
            (fun k => hcr (by injection k with k; rw [k]; exact List.mem_cons_of_mem o ha)))
          hpost
    · intro k
      injection k with k
      exact hcr (k ▸ List.mem_cons_self o post)
    · intro a ha k
      injection k with k
      exact hcr (k ▸ List.mem_cons_of_mem o ha)
    · intro b hb
      injection hb with hb
      rw [← hb]
      exact hcal

/-! ### The bit `FINALIZEDBIT` under the changes of marks -/

theorem tofinalize_sweptmark (H : Decls) (hstd : StdMarks H) (g : global_State) (m : Nat) :
    tofinalize H (cast_byte ((m &&& compl8 (maskgcbits H)) ||| luaC_white H g)) =
      tofinalize H m := by
  obtain ⟨m1, m2, m3, m4, m5, m6⟩ := std_masks H hstd
  obtain ⟨w1, _⟩ := luaC_white_std H hstd g
  unfold tofinalize compl8 cast_byte
  rw [m5, m3, w1, mod_and _ 64 (by decide), and_or_right, Nat.and_assoc, Nat.and_assoc]
  have e1 : (255 ^^^ 63) &&& 64 = 64 := by decide
  have e2 : 24 &&& 64 = 0 := by decide
  rw [e1, e2, Nat.and_zero, Nat.or_zero]

theorem tofinalize_fix (H : Decls) (hstd : StdMarks H) (m : Nat) :
    tofinalize H (setage H (set2gray H m) H.G_OLD) = tofinalize H m := by
  obtain ⟨m1, m2, m3, m4, m5, m6⟩ := std_masks H hstd
  have ho : H.G_OLD = 4 := hstd.2.2.2.2.2.2.2.2.2.1
  unfold tofinalize setage set2gray compl8 cast_byte
  rw [m5, m2, m6, ho, mod_and _ 64 (by decide), and_or_right, Nat.and_assoc, Nat.and_assoc]
  have e1 : (255 ^^^ 56) % 256 &&& ((255 ^^^ 7) &&& 64) = 64 := by decide
  have e2 : 4 &&& 64 = 0 := by decide
  rw [e1, e2, Nat.or_zero]

theorem tofinalize_setbit (H : Decls) (hstd : StdMarks H) (m : Nat) :
    tofinalize H (l_setbit m H.FINALIZEDBIT) = true := by
  obtain ⟨m1, m2, m3, m4, m5, m6⟩ := std_masks H hstd
  unfold tofinalize l_setbit
  rw [m5, and_or_right]
  have e1 : 64 &&& 64 = 64 := by decide
  rw [e1]
  have hne : (m &&& 64) ||| 64 ≠ 0 := by
    intro c
    have := Nat.testBit_or (m &&& 64) 64 6
    rw [c] at this
    simp at this
    exact absurd this.2 (by decide)
  simp [hne]

theorem tofinalize_white (H : Decls) (hstd : StdMarks H) (g : global_State) :
    tofinalize H (luaC_white H g) = false := by
  obtain ⟨m1, m2, m3, m4, m5, m6⟩ := std_masks H hstd
  obtain ⟨_, hw⟩ := luaC_white_std H hstd g
  unfold tofinalize
  rw [m5]
  rcases hw with h | h | h | h <;> rw [h] <;> rfl

/-! ### The lists of the collector under the five operations -/

theorem mem4 (a : Nat) (la lf lt lx : List Nat) :
    a ∈ la ++ lf ++ lt ++ lx ↔ a ∈ la ∨ a ∈ lf ∨ a ∈ lt ∨ a ∈ lx := by
  simp only [List.mem_append]
  tauto

theorem Owned_allocated (H : Decls) (g : global_State) (la lf lt lx : List Nat)
    (h : Owned H g la lf lt lx) : ∀ a ∈ la ++ lf ++ lt ++ lx, allocated g a = true := by
  intro a ha
  obtain ⟨h1, h2, h3, h4, _⟩ := h
  rcases (mem4 a la lf lt lx).mp ha with c | c | c | c
  · exact Linked_allocated g la _ h1 a c
  · exact Linked_allocated g lf _ h2 a c
  · exact Linked_allocated g lt _ h3 a c
  · exact Linked_allocated g lx _ h4 a c

theorem objat_gcalloc (g : global_State) (o x : Nat) (obj : GCObj) :
    objat (gcalloc g o obj) x = if x = o then some obj else objat g x := by
  unfold objat gcalloc
  show ((g.objs ++ List.replicate (o + 1 - g.objs.length) none).set o (some obj)).getD x none = _
  rw [getD_set_opt]
  have hlen : o < (g.objs ++ List.replicate (o + 1 - g.objs.length) none).length := by
    rw [List.length_append, List.length_replicate]
    omega
  have hget : (g.objs ++ List.replicate (o + 1 - g.objs.length) none).getD x none =
      g.objs.getD x none := by
    simp only [List.getD_eq_getElem?_getD]
    by_cases c : x < g.objs.length
    · rw [List.getElem?_append_left c]
    · rw [List.getElem?_append_right (by omega), List.getElem?_eq_none (l := g.objs) (by omega)]
      rw [List.getElem?_replicate]
      split <;> rfl
  by_cases c : x = o
  · rw [if_pos ⟨c, hlen⟩, if_pos c]
  · rw [if_neg (fun k => c k.1), if_neg c, hget]

/-- `luaC_newobj` keeps the ownership of the lists, the new object being the head of
`allgc`. -/
theorem newobj_owned (H : Decls) (hstd : StdMarks H) (g : global_State)
    (la lf lt lx : List Nat) (tt o : Nat) (h : Owned H g la lf lt lx)
    (ho : allocated g o = false) :
    Owned H (luaC_newobj H g tt o).1 (o :: la) lf lt lx ∧
    (∀ x, x ≠ o → objat (luaC_newobj H g tt o).1 x = objat g x) := by
  have hal := Owned_allocated H g la lf lt lx h
  obtain ⟨h1, h2, h3, h4, h5, h6⟩ := h
  have hnot : o ∉ la ++ lf ++ lt ++ lx := by
    intro c
    rw [hal o c] at ho
    exact Bool.noConfusion ho
  obtain ⟨g1, hg1⟩ : ∃ g1, g1 = (luaC_newobj H g tt o).1 := ⟨_, rfl⟩
  rw [← hg1]
  have hobj : ∀ x, objat g1 x = if x = o then
      some { (default : GCObj) with marked := luaC_white H g, tt := tt, next := g.allgc }
      else objat g x := by
    intro x
    rw [hg1]
    exact objat_gcalloc g o x _
  have hsame : ∀ x, x ≠ o → objat g1 x = objat g x := by
    intro x hx
    rw [hobj x, if_neg hx]
  have hso : ∀ l : List Nat, (∀ a ∈ l, a ∈ la ++ lf ++ lt ++ lx) →
      ∀ a ∈ l, objat g1 a = objat g a :=
    fun l hl a ha => hsame a (fun c => hnot (c ▸ hl a ha))
  have ho1 : objat g1 o = some
      { (default : GCObj) with marked := luaC_white H g, tt := tt, next := g.allgc } := by
    rw [hobj o, if_pos rfl]
  have hheads : g1.allgc = some o ∧ g1.finobj = g.finobj ∧ g1.tobefnz = g.tobefnz ∧
      g1.fixedgc = g.fixedgc := by
    rw [hg1]
    exact ⟨rfl, rfl, rfl, rfl⟩
  refine ⟨⟨?_, ?_, ?_, ?_, ?_, ?_⟩, hsame⟩
  · refine ⟨hheads.1, ?_, ?_⟩
    · rw [allocated_eq, ho1]
      rfl
    · rw [gcat_of_objat g1 o _ ho1]
      exact Linked_congr g g1 la _
        (hso la (fun a ha => (mem4 a la lf lt lx).mpr (Or.inl ha))) h1
  · rw [hheads.2.1]
    exact Linked_congr g g1 lf _
      (hso lf (fun a ha => (mem4 a la lf lt lx).mpr (Or.inr (Or.inl ha)))) h2
  · rw [hheads.2.2.1]
    exact Linked_congr g g1 lt _
      (hso lt (fun a ha => (mem4 a la lf lt lx).mpr (Or.inr (Or.inr (Or.inl ha))))) h3
  · rw [hheads.2.2.2]
    exact Linked_congr g g1 lx _
      (hso lx (fun a ha => (mem4 a la lf lt lx).mpr (Or.inr (Or.inr (Or.inr ha))))) h4
  · exact List.nodup_cons.mpr ⟨hnot, h5⟩
  · intro a ha
    rcases List.mem_cons.mp ha with c | c
    · rw [c, gcat_of_objat g1 o _ ho1]
      show tofinalize H (luaC_white H g) = true ↔ _
      rw [tofinalize_white H hstd g]
      constructor
      · intro k
        exact Bool.noConfusion k
      · intro k
        exact absurd ((mem4 o la lf lt lx).mpr
          (by rcases List.mem_append.mp k with k | k
              · exact Or.inr (Or.inl k)
              · exact Or.inr (Or.inr (Or.inl k)))) hnot
    · rw [gcat_congr g g1 a (hsame a (fun k => hnot (k ▸ c)))]
      exact h6 a c

/-- What `luaC_fix` does to the state. -/
theorem luaC_fix_state (H : Decls) (g : global_State) (o : Nat) (hao : allocated g o = true) :
    objat (luaC_fix H g o) o = some { gcat g o with
      marked := setage H (set2gray H (gcat g o).marked) H.G_OLD, next := g.fixedgc } ∧
    (∀ x, x ≠ o → objat (luaC_fix H g o) x = objat g x) ∧
    (luaC_fix H g o).allgc = (gcat g o).next ∧ (luaC_fix H g o).fixedgc = some o ∧
    (luaC_fix H g o).finobj = g.finobj ∧ (luaC_fix H g o).tobefnz = g.tobefnz := by
  have hlt := allocated_lt g o hao
  obtain ⟨g1, hg1⟩ : ∃ g1, g1 = setmarked g o (set2gray H (gcat g o).marked) := ⟨_, rfl⟩
  obtain ⟨g2, hg2⟩ : ∃ g2, g2 = setmarked g1 o (setage H (gcat g1 o).marked H.G_OLD) :=
    ⟨_, rfl⟩
  have a1 : gcat g1 o = { gcat g o with marked := set2gray H (gcat g o).marked } := by
    rw [hg1, gcat_setmarked, if_pos ⟨rfl, hlt⟩]
  have l1 : g1.objs.length = g.objs.length := by rw [hg1, length_setmarked]
  have a2 : gcat g2 o = { gcat g o with
      marked := setage H (set2gray H (gcat g o).marked) H.G_OLD } := by
    rw [hg2, gcat_setmarked, if_pos ⟨rfl, by rw [l1]; exact hlt⟩, a1]
  have l2 : g2.objs.length = g.objs.length := by rw [hg2, length_setmarked, l1]
  have o2 : ∀ x, x ≠ o → objat g2 x = objat g x := by
    intro x hx
    rw [hg2, objat_setmarked, if_neg (fun c => hx c.1), hg1, objat_setmarked,
      if_neg (fun c => hx c.1)]
  have hrun : luaC_fix H g o = { gcset { g2 with allgc := (gcat g2 o).next } o
      { gcat { g2 with allgc := (gcat g2 o).next } o with next := g2.fixedgc } with
      fixedgc := some o } := by
    unfold luaC_fix
    dsimp only
    rw [← hg1, ← hg2]
  have hfx : g2.fixedgc = g.fixedgc := by rw [hg2, hg1]; rfl
  rw [hrun]
  refine ⟨?_, ?_, ?_, rfl, ?_, ?_⟩
  · show objat (gcset { g2 with allgc := (gcat g2 o).next } o _) o = _
    rw [objat_gcset, if_pos ⟨rfl, by show o < g2.objs.length; rw [l2]; exact hlt⟩]
    show some { gcat g2 o with next := g2.fixedgc } = _
    rw [a2, hfx]
  · intro x hx
    show objat (gcset { g2 with allgc := (gcat g2 o).next } o _) x = _
    rw [objat_gcset, if_neg (fun c => hx c.1)]
    exact o2 x hx
  · show (gcat g2 o).next = _
    rw [a2]
  · show g2.finobj = _
    rw [hg2, hg1]
    rfl
  · show g2.tobefnz = _
    rw [hg2, hg1]
    rfl

/-- `luaC_fix` keeps the ownership of the lists, the head of `allgc` becoming the head of
`fixedgc`. -/
theorem fix_owned (H : Decls) (hstd : StdMarks H) (g : global_State)
    (la lf lt lx : List Nat) (o : Nat) (h : Owned H g (o :: la) lf lt lx) :
    Owned H (luaC_fix H g o) la lf lt (o :: lx) := by
  have hal := Owned_allocated H g (o :: la) lf lt lx h
  obtain ⟨h1, h2, h3, h4, h5, h6⟩ := h
  have hao : allocated g o = true := h1.2.1
  obtain ⟨s1, s2, s3, s4, s5, s6⟩ := luaC_fix_state H g o hao
  have hnot : o ∉ la ++ lf ++ lt ++ lx := (List.nodup_cons.mp h5).1
  have hso : ∀ l : List Nat, (∀ a ∈ l, a ∈ la ++ lf ++ lt ++ lx) →
      ∀ a ∈ l, objat (luaC_fix H g o) a = objat g a :=
    fun l hl a ha => s2 a (fun c => hnot (c ▸ hl a ha))
  refine ⟨?_, ?_, ?_, ?_, ?_, ?_⟩
  · rw [s3]
    exact Linked_congr g _ la _
      (hso la (fun a ha => (mem4 a la lf lt lx).mpr (Or.inl ha))) h1.2.2
  · rw [s5]
    exact Linked_congr g _ lf _
      (hso lf (fun a ha => (mem4 a la lf lt lx).mpr (Or.inr (Or.inl ha)))) h2
  · rw [s6]
    exact Linked_congr g _ lt _
      (hso lt (fun a ha => (mem4 a la lf lt lx).mpr (Or.inr (Or.inr (Or.inl ha))))) h3
  · refine ⟨s4, ?_, ?_⟩
    · rw [allocated_eq, s1]
      rfl
    · rw [gcat_of_objat _ o _ s1]
      exact Linked_congr g _ lx _
        (hso lx (fun a ha => (mem4 a la lf lt lx).mpr (Or.inr (Or.inr (Or.inr ha))))) h4
  · exact (List.perm_middle.nodup_iff).mpr h5
  · intro a ha
    by_cases c : a = o
    · rw [c, gcat_of_objat _ o _ s1]
      show tofinalize H (setage H (set2gray H (gcat g o).marked) H.G_OLD) = true ↔ _
      rw [tofinalize_fix H hstd]
      exact h6 o (List.mem_cons_self o _)
    · have ha2 : a ∈ la ++ lf ++ lt ++ lx := by
        rcases List.mem_append.mp ha with k | k
        · exact List.mem_append_left lx k
        · rcases List.mem_cons.mp k with k | k
          · exact absurd k c
          · exact List.mem_append_right _ k
      rw [gcat_congr g _ a (s2 a c)]
      exact h6 a (List.mem_cons_of_mem o ha2)

/-- `udata2finalize` keeps the ownership of the lists, the head of `tobefnz` becoming the
head of `allgc`. -/
theorem udata_owned (H : Decls) (hstd : StdMarks H) (g : global_State)
    (la lf lt lx : List Nat) (o : Nat) (h : Owned H g la lf (o :: lt) lx) :
    ∃ g1, udata2finalize H g = some (g1, o) ∧ Owned H g1 (o :: la) lf lt lx ∧
      (∀ x, x ≠ o → objat g1 x = objat g x) := by
  obtain ⟨h1, h2, h3, h4, h5, h6⟩ := h
  obtain ⟨g1, e, u1, u2, u3, u4, u5, u6, u7, u8, u9, u10, _⟩ :=
    udata2finalize_spec H hstd g o h3.1 h3.2.1
  have hperm : (la ++ lf ++ o :: lt ++ lx).Perm (o :: (la ++ lf ++ lt ++ lx)) := by
    have : (la ++ lf ++ o :: lt).Perm (o :: (la ++ lf ++ lt)) := List.perm_middle
    exact this.append_right lx
  have h5b : (o :: (la ++ lf ++ lt ++ lx)).Nodup := by
    have e5 : la ++ lf ++ (o :: lt) ++ lx = la ++ lf ++ o :: lt ++ lx := by simp
    rw [e5] at h5
    exact hperm.nodup_iff.mp h5
  have hnot : o ∉ la ++ lf ++ lt ++ lx := (List.nodup_cons.mp h5b).1
  have hso : ∀ l : List Nat, (∀ a ∈ l, a ∈ la ++ lf ++ lt ++ lx) →
      ∀ a ∈ l, objat g1 a = objat g a :=
    fun l hl a ha => u6 a (fun c => hnot (c ▸ hl a ha))
  refine ⟨g1, e, ⟨?_, ?_, ?_, ?_, h5b, ?_⟩, u6⟩
  · refine ⟨u2, u7, ?_⟩
    rw [u3]
    exact Linked_congr g _ la _
      (hso la (fun a ha => (mem4 a la lf lt lx).mpr (Or.inl ha))) h1
  · rw [u9]
    exact Linked_congr g _ lf _
      (hso lf (fun a ha => (mem4 a la lf lt lx).mpr (Or.inr (Or.inl ha)))) h2
  · rw [u1]
    exact Linked_congr g _ lt _
      (hso lt (fun a ha => (mem4 a la lf lt lx).mpr (Or.inr (Or.inr (Or.inl ha))))) h3.2.2
  · rw [u10]
    exact Linked_congr g _ lx _
      (hso lx (fun a ha => (mem4 a la lf lt lx).mpr (Or.inr (Or.inr (Or.inr ha))))) h4
  · intro a ha
    rcases List.mem_cons.mp ha with c | c
    · rw [c, u4]
      constructor
      · intro k
        exact Bool.noConfusion k
      · intro k
        exact absurd ((mem4 o la lf lt lx).mpr
          (by rcases List.mem_append.mp k with k | k
              · exact Or.inr (Or.inl k)
              · exact Or.inr (Or.inr (Or.inl k)))) hnot
    · have hne : a ≠ o := fun k => hnot (k ▸ c)
      rw [gcat_congr g _ a (u6 a hne)]
      have ha0 : a ∈ la ++ lf ++ (o :: lt) ++ lx := by
        rcases (mem4 a la lf lt lx).mp c with k | k | k | k
        · exact (mem4 a la lf (o :: lt) lx).mpr (Or.inl k)
        · exact (mem4 a la lf (o :: lt) lx).mpr (Or.inr (Or.inl k))
        · exact (mem4 a la lf (o :: lt) lx).mpr (Or.inr (Or.inr (Or.inl (List.mem_cons_of_mem o k))))
        · exact (mem4 a la lf (o :: lt) lx).mpr (Or.inr (Or.inr (Or.inr k)))
      rw [h6 a ha0]
      simp only [List.mem_append, List.mem_cons]
      constructor
      · rintro (k | k | k)
        · exact Or.inl k
        · exact absurd k hne
        · exact Or.inr k
      · rintro (k | k)
        · exact Or.inl k
        · exact Or.inr (Or.inr k)

theorem marked_assign (g : global_State) (p : GCRef) (x : Option Nat) (b : Nat) :
    (gcat (assign g p x) b).marked = (gcat g b).marked := by
  rw [gcat_eq, objat_assign]
  by_cases c : p.owner = some b ∧ b < g.objs.length
  · rw [if_pos c]
    rfl
  · rw [if_neg c, ← gcat_eq]

theorem allocated_assign (g : global_State) (p : GCRef) (x : Option Nat) (b : Nat)
    (hp : ∀ c, p.owner = some c → allocated g c = true) :
    allocated (assign g p x) b = allocated g b := by
  rw [allocated_eq, objat_assign]
  by_cases c : p.owner = some b ∧ b < g.objs.length
  · rw [if_pos c, hp b c.1]
    rfl
  · rw [if_neg c, ← allocated_eq]

/-- The end of `luaC_checkfinalizer`: the object `o` of `allgc` is unlinked, made the head
of `finobj` and given `FINALIZEDBIT`. -/
theorem movefin_owned (H : Decls) (hstd : StdMarks H) (g : global_State)
    (pre post lf lt lx : List Nat) (o fuel : Nat)
    (h : Owned H g (pre ++ o :: post) lf lt lx) (hfuel : pre.length < fuel) :
    ∃ g1, (findptr o fuel g GCRef.allgc).map (fun p =>
        setmarked { gcset (assign g p (gcat g o).next) o
            { gcat (assign g p (gcat g o).next) o with
              next := (assign g p (gcat g o).next).finobj } with finobj := some o } o
          (l_setbit (gcat { gcset (assign g p (gcat g o).next) o
            { gcat (assign g p (gcat g o).next) o with
              next := (assign g p (gcat g o).next).finobj } with finobj := some o } o).marked
            H.FINALIZEDBIT)) = some g1 ∧
      Owned H g1 (pre ++ post) (o :: lf) lt lx ∧
      (∀ x, x ∉ pre ++ o :: post → objat g1 x = objat g x) ∧
      (∀ x, x ≠ o → (gcat g1 x).marked = (gcat g x).marked ∧
        allocated g1 x = allocated g x) ∧
      g1.rest = g.rest := by
  have hal := Owned_allocated H g (pre ++ o :: post) lf lt lx h
  obtain ⟨h1, h2, h3, h4, h5, h6⟩ := h
  have hnda : (pre ++ o :: post).Nodup := by
    have := (List.nodup_append.mp h5).1
    have := (List.nodup_append.mp this).1
    exact (List.nodup_append.mp this).1
  have hopre : o ∉ pre := by
    have := (List.nodup_append.mp hnda).2.2
    exact fun k => this k (List.mem_cons_self o post)
  have hoall : o ∈ pre ++ o :: post := List.mem_append_right pre (List.mem_cons_self o post)
  have hperm1 : (pre ++ o :: post ++ lf ++ lt ++ lx).Perm
      (o :: (pre ++ post ++ lf ++ lt ++ lx)) := by
    have : (pre ++ o :: post).Perm (o :: (pre ++ post)) := List.perm_middle
    exact ((this.append_right lf).append_right lt).append_right lx
  have hperm2 : (pre ++ post ++ (o :: lf) ++ lt ++ lx).Perm
      (o :: (pre ++ post ++ lf ++ lt ++ lx)) := by
    have : (pre ++ post ++ o :: lf).Perm (o :: (pre ++ post ++ lf)) := List.perm_middle
    exact (this.append_right lt).append_right lx
  have hnd0 : (o :: (pre ++ post ++ lf ++ lt ++ lx)).Nodup := hperm1.nodup_iff.mp h5
  have honot : o ∉ pre ++ post ++ lf ++ lt ++ lx := (List.nodup_cons.mp hnd0).1
  have hao : allocated g o = true :=
    hal o ((mem4 o _ lf lt lx).mpr (Or.inl hoall))
  have hlto := allocated_lt g o hao
  -- the place that points to `o`
  have hfind := findptr_spec g o post pre fuel GCRef.allgc hfuel h1 hopre
  obtain ⟨p, hp⟩ : ∃ p, p = lastplace GCRef.allgc pre := ⟨_, rfl⟩
  rw [← hp] at hfind
  obtain ⟨k1, k2, k3, k4⟩ :=
    unlink_spec g GCRef.allgc o pre post h1 hnda (fun b hb => nomatch hb)
  rw [← hp] at k1 k2 k3 k4
  have hpown : ∀ b, p.owner = some b → b ∈ pre := by
    intro b hb
    rw [hp] at hb
    rcases lastplace_owner GCRef.allgc pre b hb with c | c
    · cases c
    · exact c
  obtain ⟨g3, hg3⟩ : ∃ g3, g3 = assign g p (gcat g o).next := ⟨_, rfl⟩
  rw [← hg3] at k1
  have l3 : g3.objs.length = g.objs.length := by rw [hg3, length_assign]
  have o3 : ∀ x, x ∉ pre → objat g3 x = objat g x := by
    intro x hx
    rw [hg3]
    exact objat_assign_ne g p _ x (fun c => hx (hpown x c))
  have m3 : ∀ x, (gcat g3 x).marked = (gcat g x).marked := by
    intro x
    rw [hg3]
    exact marked_assign g p _ x
  have a3 : ∀ x, allocated g3 x = allocated g x := by
    intro x
    rw [hg3]
    exact allocated_assign g p _ x k4
  have hne : ∀ q : GCRef, q.owner = none → q ≠ GCRef.allgc → q ≠ p := by
    intro q hq hqa c
    rw [c, hp] at hq hqa
    rcases eq_nil_or_snoc pre with e | ⟨l0, c0, e⟩
    · rw [e] at hqa
      exact hqa rfl
    · rw [e, lastplace_concat] at hq
      cases hq
  have f3 : g3.finobj = g.finobj := by
    have := deref_assign_ne g p GCRef.finobj (gcat g o).next
      (hne _ rfl (fun c => GCRef.noConfusion c))
    rw [← hg3] at this
    exact this
  have t3 : g3.tobefnz = g.tobefnz := by
    have := deref_assign_ne g p GCRef.tobefnz (gcat g o).next
      (hne _ rfl (fun c => GCRef.noConfusion c))
    rw [← hg3] at this
    exact this
  have x3 : g3.fixedgc = g.fixedgc := by
    have := deref_assign_ne g p GCRef.fixedgc (gcat g o).next
      (hne _ rfl (fun c => GCRef.noConfusion c))
    rw [← hg3] at this
    exact this
  have r3 : g3.rest = g.rest := by rw [hg3, rest_assign]
  -- the final state
  obtain ⟨g5, hg5⟩ : ∃ g5, g5 = { gcset g3 o { gcat g3 o with next := g3.finobj } with
      finobj := some o } := ⟨_, rfl⟩
  have c5 : gcat g5 o = { gcat g o with next := g.finobj } := by
    rw [hg5]
    show gcat (gcset g3 o _) o = _
    rw [gcat_gcset, if_pos ⟨rfl, by rw [l3]; exact hlto⟩, gcat_congr g g3 o (o3 o hopre), f3]
  have l5 : g5.objs.length = g.objs.length := by
    rw [hg5]
    show (gcset g3 o _).objs.length = _
    rw [length_gcset, l3]
  have o5 : ∀ x, x ≠ o → objat g5 x = objat g3 x := by
    intro x hx
    rw [hg5]
    show objat (gcset g3 o _) x = _
    rw [objat_gcset, if_neg (fun c => hx c.1)]
  obtain ⟨g1, hg1⟩ : ∃ g1, g1 = setmarked g5 o (l_setbit (gcat g5 o).marked H.FINALIZEDBIT) :=
    ⟨_, rfl⟩
  have c1 : objat g1 o = some { gcat g o with
      next := g.finobj, marked := l_setbit (gcat g o).marked H.FINALIZEDBIT } := by
    rw [hg1, objat_setmarked, if_pos ⟨rfl, by rw [l5]; exact hlto⟩, c5]
  have o1 : ∀ x, x ≠ o → objat g1 x = objat g3 x := by
    intro x hx
    rw [hg1, objat_setmarked, if_neg (fun c => hx c.1)]
    exact o5 x hx
  have hheads : g1.allgc = g3.allgc ∧ g1.finobj = some o ∧ g1.tobefnz = g3.tobefnz ∧
      g1.fixedgc = g3.fixedgc := by
    rw [hg1, hg5]
    exact ⟨rfl, rfl, rfl, rfl⟩
  have hrest : g1.rest = g3.rest := by
    rw [hg1, hg5]
    rfl
  have hsame : ∀ x, x ≠ o → x ∉ pre → objat g1 x = objat g x :=
    fun x hx hxp => (o1 x hx).trans (o3 x hxp)
  have hdisj : ∀ x, x ∈ lf ++ lt ++ lx → x ≠ o ∧ x ∉ pre := by
    intro x hx
    have hx2 : x ∈ pre ++ post ++ lf ++ lt ++ lx := by
      rcases List.mem_append.mp hx with k | k
      · rcases List.mem_append.mp k with k | k
        · exact (mem4 x _ lf lt lx).mpr (Or.inr (Or.inl k))
        · exact (mem4 x _ lf lt lx).mpr (Or.inr (Or.inr (Or.inl k)))
      · exact (mem4 x _ lf lt lx).mpr (Or.inr (Or.inr (Or.inr k)))
    refine ⟨fun c => honot (c ▸ hx2), fun c => ?_⟩
    have hnd1 := (List.nodup_cons.mp hnd0).2
    have e : pre ++ post ++ lf ++ lt ++ lx = pre ++ (post ++ lf ++ lt ++ lx) := by simp
    rw [e] at hnd1
    have hd := (List.nodup_append.mp hnd1).2.2
    exact hd c (by
      rcases List.mem_append.mp hx with k | k
      · rcases List.mem_append.mp k with k | k
        · exact (mem4 x post lf lt lx).mpr (Or.inr (Or.inl k))
        · exact (mem4 x post lf lt lx).mpr (Or.inr (Or.inr (Or.inl k)))
      · exact (mem4 x post lf lt lx).mpr (Or.inr (Or.inr (Or.inr k))))
  refine ⟨g1, ?_, ⟨?_, ?_, ?_, ?_, hperm2.nodup_iff.mpr hnd0, ?_⟩, ?_, ?_, ?_⟩
  · rw [hfind, Option.map_some', ← hg3, ← hg5, ← hg1]
  · rw [hheads.1]
    exact Linked_congr g3 g1 (pre ++ post) _
      (fun a ha => o1 a (fun c => honot (c ▸ (mem4 a _ lf lt lx).mpr (Or.inl ha)))) k1
  · refine ⟨hheads.2.1, by rw [allocated_eq, c1]; rfl, ?_⟩
    rw [gcat_of_objat g1 o _ c1]
    exact Linked_congr g g1 lf _
      (fun a ha => hsame a (hdisj a (List.mem_append_left lx (List.mem_append_left lt ha))).1
        (hdisj a (List.mem_append_left lx (List.mem_append_left lt ha))).2) h2
  · rw [hheads.2.2.1, t3]
    exact Linked_congr g g1 lt _
      (fun a ha => hsame a (hdisj a (List.mem_append_left lx (List.mem_append_right lf ha))).1
        (hdisj a (List.mem_append_left lx (List.mem_append_right lf ha))).2) h3
  · rw [hheads.2.2.2, x3]
    exact Linked_congr g g1 lx _
      (fun a ha => hsame a (hdisj a (List.mem_append_right _ ha)).1
        (hdisj a (List.mem_append_right _ ha)).2) h4
  · intro a ha
    by_cases c : a = o
    · rw [c, gcat_of_objat g1 o _ c1]
      show tofinalize H (l_setbit (gcat g o).marked H.FINALIZEDBIT) = true ↔ _
      rw [tofinalize_setbit H hstd]
      exact ⟨fun _ => List.mem_append_left lt (List.mem_cons_self o lf), fun _ => rfl⟩
    · have hm : (gcat g1 a).marked = (gcat g a).marked := by
        rw [gcat_congr g3 g1 a (o1 a c)]
        exact m3 a
      have ha0 : a ∈ pre ++ o :: post ++ lf ++ lt ++ lx := by
        have := (hperm2.mem_iff).mp ha
        exact (hperm1.mem_iff).mpr this
      rw [hm, h6 a ha0]
      simp only [List.mem_append, List.mem_cons]
      constructor
      · rintro (k | k)
        · exact Or.inl (Or.inr k)
        · exact Or.inr k
      · rintro ((k | k) | k)
        · exact absurd k c
        · exact Or.inl k
        · exact Or.inr k
  · intro x hx
    exact hsame x (fun c => hx (c ▸ hoall)) (fun c => hx (List.mem_append_left _ c))
  · intro x hx
    refine ⟨?_, ?_⟩
    · rw [gcat_congr g3 g1 x (o1 x hx)]
      exact m3 x
    · rw [allocated_congr g3 g1 x (o1 x hx)]
      exact a3 x
  · rw [hrest, r3]

/-! ### `sweeptolive` -/

theorem deref_release (g : global_State) (a : Nat) (q : GCRef) (h : q.owner ≠ some a) :
    deref (release g a) q = deref g q := by
  cases q with
  | next b =>
    have hba : b ≠ a := fun e => h (by rw [e]; rfl)
    show (gcat (release g a) b).next = (gcat g b).next
    rw [gcat_eq, objat_release, if_neg (fun c => hba c.1), ← gcat_eq]
  | allgc => rfl
  | finobj => rfl
  | tobefnz => rfl
  | fixedgc => rfl

theorem deref_setmarked (g : global_State) (a m : Nat) (q : GCRef) :
    deref (setmarked g a m) q = deref g q := by
  cases q with
  | next b =>
    show (gcat (setmarked g a m) b).next = (gcat g b).next
    rw [gcat_setmarked]
    by_cases c : b = a ∧ a < g.objs.length
    · rw [if_pos c, c.1]
    · rw [if_neg c]
  | allgc => rfl
  | finobj => rfl
  | tobefnz => rfl
  | fixedgc => rfl

theorem dropWhile_congr_mem {α : Type} (p q : α → Bool) :
    ∀ (l : List α), (∀ x ∈ l, p x = q x) → l.dropWhile p = l.dropWhile q ∧
      l.takeWhile p = l.takeWhile q
  | [], _ => ⟨rfl, rfl⟩
  | a :: l, h => by
    have ha := h a (List.mem_cons_self a l)
    obtain ⟨i1, i2⟩ := dropWhile_congr_mem p q l (fun x hx => h x (List.mem_cons_of_mem a hx))
    rw [List.dropWhile_cons, List.dropWhile_cons, List.takeWhile_cons, List.takeWhile_cons, ha,
      i1, i2]
    exact ⟨rfl, rfl⟩

theorem sweeplist_one_nil (E : GCEnv) (g : global_State) (p : GCRef) (hd : deref g p = none) :
    sweeplist E g p 1 = (g, none, 0) := by
  simp only [sweeplist, sweeploop, hd, if_true]

theorem sweeplist_one_dead (E : GCEnv) (g : global_State) (p : GCRef) (a : Nat)
    (hd : deref g p = some a)
    (hdead : isdeadm (otherwhite E.H g) (gcat g a).marked = true) :
    sweeplist E g p 1 = (freeobj E (assign g p (gcat g a).next) a,
      (if deref (freeobj E (assign g p (gcat g a).next) a) p = none then none else some p),
      1) := by
  simp only [sweeplist, sweeploop, hd, hdead, if_true] <;> rfl

theorem sweeplist_one_alive (E : GCEnv) (g : global_State) (p : GCRef) (a : Nat)
    (hd : deref g p = some a)
    (hdead : isdeadm (otherwhite E.H g) (gcat g a).marked = false) :
    sweeplist E g p 1 =
      (setmarked g a (cast_byte (((gcat g a).marked &&& compl8 (maskgcbits E.H)) |||
          luaC_white E.H g)),
        (if deref (setmarked g a (cast_byte (((gcat g a).marked &&& compl8 (maskgcbits E.H)) |||
          luaC_white E.H g))) (GCRef.next a) = none then none else some (GCRef.next a)),
        1) := by
  simp only [sweeplist, sweeploop, hd, hdead] <;> rfl

theorem sweeptolive_succ (E : GCEnv) (fuel : Nat) (g : global_State) (p : GCRef) :
    sweeptolive E (fuel + 1) g p =
      if (sweeplist E g p 1).2.1 = some p then sweeptolive E fuel (sweeplist E g p 1).1 p
      else some ((sweeplist E g p 1).1, (sweeplist E g p 1).2.1) := rfl

theorem otherwhite_rest (H : Decls) (g g1 : global_State) (h : g1.rest = g.rest) :
    otherwhite H g1 = otherwhite H g ∧ luaC_white H g1 = luaC_white H g := by
  have : g1.currentwhite = g.currentwhite := by
    show g1.rest.currentwhite = g.rest.currentwhite
    rw [h]
  unfold otherwhite luaC_white
  rw [this]
  exact ⟨rfl, rfl⟩

/-- `sweeptolive` run at the place `p` where the list `post` of distinct objects hangs: the
dead objects at the front of the list are unlinked and released, the first live object, if
there is one, gets the mark of a swept object, and nothing else changes. -/
theorem sweeptolive_spec (E : GCEnv) (hrel : Releases E) (hstd : StdMarks E.H) :
    ∀ (post : List Nat) (fuel : Nat) (g : global_State) (p : GCRef),
      post.length < fuel → Linked g (deref g p) post → post.Nodup →
      (∀ b, p.owner = some b → b ∉ post ∧ allocated g b = true) →
      (∀ a ∈ post, CollectableTag E.H (gcat g a).tt) →
      ∃ g1 q, sweeptolive E fuel g p = some (g1, q) ∧
        Linked g1 (deref g1 p)
          (post.dropWhile (fun a => isdeadm (otherwhite E.H g) (gcat g a).marked)) ∧
        (∀ a ∈ post.takeWhile (fun a => isdeadm (otherwhite E.H g) (gcat g a).marked),
          objat g1 a = none) ∧
        (∀ a, a ∉ post.takeWhile (fun a => isdeadm (otherwhite E.H g) (gcat g a).marked) →
          p.owner ≠ some a → allocated g1 a = allocated g a ∧
          ∃ m, gcat g1 a = { gcat g a with marked := m } ∧
            tofinalize E.H m = tofinalize E.H (gcat g a).marked) ∧
        (∀ b, p.owner = some b → ∃ nx, objat g1 b = some { gcat g b with next := nx }) ∧
        (∀ q : GCRef, q.owner = none → q ≠ p → deref g1 q = deref g q) ∧
        g1.rest = g.rest ∧
        (∀ a, a ∉ post → p.owner ≠ some a → objat g1 a = objat g a) := by
  intro post
  induction post with
  | nil =>
    intro fuel g p hfuel hl _ hp _
    obtain ⟨f, hf⟩ : ∃ f, fuel = f + 1 := ⟨fuel - 1, by simp at hfuel; omega⟩
    subst hf
    have hd : deref g p = none := hl
    refine ⟨g, none, ?_, hl, fun a ha => absurd ha (List.not_mem_nil a),
      fun a _ _ => ⟨rfl, _, rfl, rfl⟩,
      fun b hb => ⟨_, allocated_objat g b (hp b hb).2⟩, fun _ _ _ => rfl, rfl,
      fun _ _ _ => rfl⟩
    rw [sweeptolive_succ, sweeplist_one_nil E g p hd, if_neg (fun c => Option.noConfusion c)]
  | cons a rest ih =>
    intro fuel g p hfuel hl hnd hp htags
    obtain ⟨f, hf⟩ : ∃ f, fuel = f + 1 := ⟨fuel - 1, by simp at hfuel; omega⟩
    subst hf
    obtain ⟨hd, hal, hrest⟩ := hl
    have hnd2 : rest.Nodup := (List.nodup_cons.mp hnd).2
    have har : a ∉ rest := (List.nodup_cons.mp hnd).1
    have halt := allocated_lt g a hal
    have hpa : p.owner ≠ some a := fun h => (hp a h).1 (List.mem_cons_self a rest)
    by_cases hdead : isdeadm (otherwhite E.H g) (gcat g a).marked = true
    · -- the object is dead
      obtain ⟨g1, hg1⟩ : ∃ g1, g1 = release (assign g p (gcat g a).next) a := ⟨_, rfl⟩
      have hfree : freeobj E (assign g p (gcat g a).next) a = g1 := by
        rw [hg1]
        apply freeobj_release E hrel
        rw [gcat_congr g _ a (objat_assign_ne g p _ a hpa)]
        exact htags a (List.mem_cons_self a rest)
      have hobj1 : ∀ x, x ≠ a → p.owner ≠ some x → objat g1 x = objat g x := by
        intro x hx hpx
        rw [hg1, objat_release, if_neg (fun h => hx h.1), objat_assign_ne g p _ x hpx]
      have hown1 : ∀ b, p.owner = some b →
          objat g1 b = some { gcat g b with next := (gcat g a).next } := by
        intro b hb
        have hba : b ≠ a := fun e => hpa (e ▸ hb)
        rw [hg1, objat_release, if_neg (fun h => hba h.1), objat_assign,
          if_pos ⟨hb, allocated_lt g b (hp b hb).2⟩]
      have ha1 : objat g1 a = none := by
        rw [hg1, objat_release, if_pos ⟨rfl, by rw [length_assign]; exact halt⟩]
      have hder1 : deref g1 p = (gcat g a).next := by
        rw [hg1, deref_release _ a p hpa]
        exact deref_assign g p _ (fun b hb => allocated_lt g b (hp b hb).2)
      have hheads1 : ∀ q : GCRef, q.owner = none → q ≠ p → deref g1 q = deref g q := by
        intro q hq hne
        rw [hg1, deref_release _ a q (by rw [hq]; exact fun c => Option.noConfusion c)]
        exact deref_assign_ne g p q _ hne
      have hrest1 : g1.rest = g.rest := by
        rw [hg1]
        show (assign g p (gcat g a).next).rest = _
        exact rest_assign g p _
      have hsame : ∀ x ∈ rest, objat g1 x = objat g x :=
        fun x hx => hobj1 x (fun e => har (e ▸ hx))
          (fun h => (hp x h).1 (List.mem_cons_of_mem a hx))
      have hl1 : Linked g1 (deref g1 p) rest := by
        rw [hder1]
        exact Linked_congr g g1 rest _ hsame hrest
      have hp1 : ∀ b, p.owner = some b → b ∉ rest ∧ allocated g1 b = true := by
        intro b hb
        refine ⟨fun h => (hp b hb).1 (List.mem_cons_of_mem a h), ?_⟩
        rw [allocated_eq, hown1 b hb]
        rfl
      have ht1 : ∀ x ∈ rest, CollectableTag E.H (gcat g1 x).tt := by
        intro x hx
        rw [gcat_congr g g1 x (hsame x hx)]
        exact htags x (List.mem_cons_of_mem a hx)
      have hcongr := dropWhile_congr_mem
        (fun x => isdeadm (otherwhite E.H g1) (gcat g1 x).marked)
        (fun x => isdeadm (otherwhite E.H g) (gcat g x).marked) rest
        (fun x hx => by
          show isdeadm (otherwhite E.H g1) (gcat g1 x).marked = _
          rw [(otherwhite_rest E.H g g1 hrest1).1, gcat_congr g g1 x (hsame x hx)])
      -- what the rest of the loop does, from the state `g1`
      have hstep : sweeptolive E (f + 1) g p =
          if (if deref g1 p = none then none else some p) = some p then sweeptolive E f g1 p
          else some (g1, (if deref g1 p = none then none else some p)) := by
        rw [sweeptolive_succ, sweeplist_one_dead E g p a hd hdead, hfree]
      have hkey : ∃ g2 q, sweeptolive E (f + 1) g p = some (g2, q) ∧
          Linked g2 (deref g2 p)
            (rest.dropWhile (fun a => isdeadm (otherwhite E.H g1) (gcat g1 a).marked)) ∧
          (∀ a ∈ rest.takeWhile (fun a => isdeadm (otherwhite E.H g1) (gcat g1 a).marked),
            objat g2 a = none) ∧
          (∀ a, a ∉ rest.takeWhile (fun a => isdeadm (otherwhite E.H g1) (gcat g1 a).marked) →
            p.owner ≠ some a → allocated g2 a = allocated g1 a ∧
            ∃ m, gcat g2 a = { gcat g1 a with marked := m } ∧
              tofinalize E.H m = tofinalize E.H (gcat g1 a).marked) ∧
          (∀ b, p.owner = some b → ∃ nx, objat g2 b = some { gcat g1 b with next := nx }) ∧
          (∀ q : GCRef, q.owner = none → q ≠ p → deref g2 q = deref g1 q) ∧
          g2.rest = g1.rest ∧
          (∀ a, a ∉ rest → p.owner ≠ some a → objat g2 a = objat g1 a) := by
        cases rest with
        | nil =>
          have hdn : deref g1 p = none := hl1
          refine ⟨g1, none, ?_, hl1, fun a ha => absurd ha (List.not_mem_nil a),
            fun a _ _ => ⟨rfl, _, rfl, rfl⟩,
            fun b hb => ⟨_, allocated_objat g1 b (hp1 b hb).2⟩, fun _ _ _ => rfl, rfl,
            fun _ _ _ => rfl⟩
          rw [hstep, if_pos hdn, if_neg (fun c => Option.noConfusion c)]
        | cons b rest2 =>
          have hdn : ¬ deref g1 p = none := by
            rw [hl1.1]
            exact fun c => Option.noConfusion c
          obtain ⟨g2, q, e, r⟩ := ih f g1 p (by simp at hfuel ⊢; omega) hl1 hnd2 hp1 ht1
          refine ⟨g2, q, ?_, r⟩
          rw [hstep, if_neg hdn, if_pos rfl]
          exact e
      obtain ⟨g2, q, e, c1, c2, c3, c4, c5, c6, c7⟩ := hkey
      rw [hcongr.1] at c1
      rw [hcongr.2] at c2 c3
      have hdw : (a :: rest).dropWhile
          (fun a => isdeadm (otherwhite E.H g) (gcat g a).marked) =
          rest.dropWhile (fun a => isdeadm (otherwhite E.H g) (gcat g a).marked) := by
        rw [List.dropWhile_cons, if_pos hdead]
      have htw : (a :: rest).takeWhile
          (fun a => isdeadm (otherwhite E.H g) (gcat g a).marked) =
          a :: rest.takeWhile (fun a => isdeadm (otherwhite E.H g) (gcat g a).marked) := by
        rw [List.takeWhile_cons, if_pos hdead]
      rw [hdw, htw]
      have hatw : a ∉ rest.takeWhile
          (fun a => isdeadm (otherwhite E.H g) (gcat g a).marked) :=
        fun k => har ((List.takeWhile_prefix _).subset k)
      refine ⟨g2, q, e, c1, ?_, ?_, ?_, ?_, c6.trans hrest1, ?_⟩
      rotate_right
      · intro x hx hpx
        rw [c7 x (fun k => hx (List.mem_cons_of_mem a k)) hpx]
        exact hobj1 x (fun k => hx (k ▸ List.mem_cons_self a rest)) hpx
      · intro x hx
        rcases List.mem_cons.mp hx with k | k
        · have := (c3 a hatw hpa).1
          rw [allocated_eq, allocated_eq, ha1] at this
          rw [k]
          cases hh : objat g2 a with
          | none => rfl
          | some v =>
            rw [hh] at this
            exact Bool.noConfusion this
        · exact c2 x k
      · intro x hx hpx
        have hxa : x ≠ a := fun k => hx (k ▸ List.mem_cons_self a _)
        have hxt := fun k => hx (List.mem_cons_of_mem a k)
        obtain ⟨d1, m, d2, d3⟩ := c3 x hxt hpx
        have hg := gcat_congr g g1 x (hobj1 x hxa hpx)
        refine ⟨d1.trans (allocated_congr g g1 x (hobj1 x hxa hpx)), m, ?_, ?_⟩
        · rw [d2, hg]
        · rw [d3, hg]
      · intro b hb
        obtain ⟨nx, k⟩ := c4 b hb
        refine ⟨nx, ?_⟩
        rw [k, gcat_of_objat g1 b _ (hown1 b hb)]
      · intro q2 hq hne
        rw [c5 q2 hq hne]
        exact hheads1 q2 hq hne
    · -- the object is alive
      have halive : isdeadm (otherwhite E.H g) (gcat g a).marked = false := by
        cases h : isdeadm (otherwhite E.H g) (gcat g a).marked
        · rfl
        · exact absurd h hdead
      obtain ⟨g1, hg1⟩ : ∃ g1, g1 = setmarked g a (cast_byte
          (((gcat g a).marked &&& compl8 (maskgcbits E.H)) ||| luaC_white E.H g)) := ⟨_, rfl⟩
      have hstep : sweeptolive E (f + 1) g p = some (g1,
          (if deref g1 (GCRef.next a) = none then none else some (GCRef.next a))) := by
        rw [sweeptolive_succ, sweeplist_one_alive E g p a hd halive, ← hg1]
        have hne : ¬ (if deref g1 (GCRef.next a) = none then none else some (GCRef.next a)) =
            some p := by
          intro c
          by_cases k : deref g1 (GCRef.next a) = none
          · rw [if_pos k] at c
            exact Option.noConfusion c
          · rw [if_neg k] at c
            injection c with c
            exact hpa (by rw [← c]; rfl)
        exact if_neg hne
      have hobja : objat g1 a = some { gcat g a with marked := (cast_byte
          (((gcat g a).marked &&& compl8 (maskgcbits E.H)) ||| luaC_white E.H g)) } := by
        rw [hg1, objat_setmarked, if_pos ⟨rfl, halt⟩]
      have hobj1 : ∀ x, x ≠ a → objat g1 x = objat g x := by
        intro x hx
        rw [hg1, objat_setmarked, if_neg (fun h => hx h.1)]
      have hdw : (a :: rest).dropWhile
          (fun a => isdeadm (otherwhite E.H g) (gcat g a).marked) = a :: rest := by
        rw [List.dropWhile_cons, if_neg hdead]
      have htw : (a :: rest).takeWhile
          (fun a => isdeadm (otherwhite E.H g) (gcat g a).marked) = [] := by
        rw [List.takeWhile_cons, if_neg hdead]
      rw [hdw, htw]
      refine ⟨g1, _, hstep, ⟨?_, ?_, ?_⟩, fun x hx => absurd hx (List.not_mem_nil x), ?_, ?_,
        ?_, ?_, fun x hx _ => hobj1 x (fun k => hx (k ▸ List.mem_cons_self a rest))⟩
      · rw [hg1, deref_setmarked]
        exact hd
      · rw [allocated_eq, hobja]
        rfl
      · rw [gcat_of_objat g1 a _ hobja]
        exact Linked_congr g g1 rest _ (fun x hx => hobj1 x (fun e => har (e ▸ hx))) hrest
      · intro x _ _
        by_cases k : x = a
        · rw [k]
          refine ⟨?_, _, gcat_of_objat g1 a _ hobja, tofinalize_sweptmark E.H hstd g _⟩
          rw [allocated_eq, hobja, hal]
          rfl
        · exact ⟨allocated_congr g g1 x (hobj1 x k), _,
            by rw [gcat_congr g g1 x (hobj1 x k)], rfl⟩
      · intro b hb
        have hba : b ≠ a := fun e => hpa (e ▸ hb)
        refine ⟨(gcat g b).next, ?_⟩
        rw [hobj1 b hba]
        exact allocated_objat g b (hp b hb).2
      · intro q hq _
        rw [hg1, deref_setmarked]
      · rw [hg1]
        rfl

/-! ### `luaC_checkfinalizer` -/

theorem Linked_congr_next (g g1 : global_State) :
    ∀ (l : List Nat) (x : Option Nat),
      (∀ a ∈ l, allocated g1 a = allocated g a ∧ (gcat g1 a).next = (gcat g a).next) →
      Linked g x l → Linked g1 x l
  | [], _, _, h => h
  | a :: l, _, hf, h => by
    obtain ⟨f1, f2⟩ := hf a (List.mem_cons_self a l)
    refine ⟨h.1, by rw [f1]; exact h.2.1, ?_⟩
    rw [f2]
    exact Linked_congr_next g g1 l _ (fun b hb => hf b (List.mem_cons_of_mem a hb)) h.2.2

theorem Linked_splice_next (g g1 : global_State) (c : Nat) (m : List Nat) :
    ∀ (l : List Nat) (x : Option Nat) (rest : List Nat), Linked g x (l ++ c :: rest) →
      (∀ a ∈ l, allocated g1 a = allocated g a ∧ (gcat g1 a).next = (gcat g a).next) →
      allocated g1 c = true → Linked g1 (gcat g1 c).next m → Linked g1 x (l ++ c :: m)
  | [], _, _, h, _, hc, hm => ⟨h.1, hc, hm⟩
  | a :: l, _, rest, h, ho, hc, hm => by
    obtain ⟨f1, f2⟩ := ho a (List.mem_cons_self a l)
    refine ⟨h.1, by rw [f1]; exact h.2.1, ?_⟩
    rw [f2]
    exact Linked_splice_next g g1 c m l _ rest h.2.2
      (fun b hb => ho b (List.mem_cons_of_mem a hb)) hc hm

/-- The ownership of the lists depends on the heads, and for the objects of the lists on
the allocation, the field `next` and the bit `FINALIZEDBIT` only. -/
theorem Owned_remark (H : Decls) (g g1 : global_State) (la lf lt lx : List Nat)
    (hh : g1.allgc = g.allgc ∧ g1.finobj = g.finobj ∧ g1.tobefnz = g.tobefnz ∧
      g1.fixedgc = g.fixedgc)
    (hf : ∀ a ∈ la ++ lf ++ lt ++ lx, allocated g1 a = allocated g a ∧
      (gcat g1 a).next = (gcat g a).next ∧
      tofinalize H (gcat g1 a).marked = tofinalize H (gcat g a).marked)
    (h : Owned H g la lf lt lx) : Owned H g1 la lf lt lx := by
  obtain ⟨h1, h2, h3, h4, h5, h6⟩ := h
  have hn : ∀ l : List Nat, (∀ a ∈ l, a ∈ la ++ lf ++ lt ++ lx) →
      ∀ a ∈ l, allocated g1 a = allocated g a ∧ (gcat g1 a).next = (gcat g a).next :=
    fun l hl a ha => ⟨(hf a (hl a ha)).1, (hf a (hl a ha)).2.1⟩
  refine ⟨?_, ?_, ?_, ?_, h5, ?_⟩
  · rw [hh.1]
    exact Linked_congr_next g g1 la _
      (hn la (fun a ha => (mem4 a la lf lt lx).mpr (Or.inl ha))) h1
  · rw [hh.2.1]
    exact Linked_congr_next g g1 lf _
      (hn lf (fun a ha => (mem4 a la lf lt lx).mpr (Or.inr (Or.inl ha)))) h2
  · rw [hh.2.2.1]
    exact Linked_congr_next g g1 lt _
      (hn lt (fun a ha => (mem4 a la lf lt lx).mpr (Or.inr (Or.inr (Or.inl ha))))) h3
  · rw [hh.2.2.2]
    exact Linked_congr_next g g1 lx _
      (hn lx (fun a ha => (mem4 a la lf lt lx).mpr (Or.inr (Or.inr (Or.inr ha))))) h4
  · intro a ha
    rw [(hf a ha).2.2]
    exact h6 a ha

theorem correctpointers_frame (g : global_State) (o : Nat) :
    (correctpointers g o).objs = g.objs ∧ (correctpointers g o).allgc = g.allgc ∧
    (correctpointers g o).finobj = g.finobj ∧ (correctpointers g o).tobefnz = g.tobefnz ∧
    (correctpointers g o).fixedgc = g.fixedgc := by
  unfold correctpointers
  dsimp only
  split <;> split <;> split <;> split <;> exact ⟨rfl, rfl, rfl, rfl, rfl⟩

theorem gcat_objs (g g1 : global_State) (h : g1.objs = g.objs) (a : Nat) :
    gcat g1 a = gcat g a ∧ allocated g1 a = allocated g a ∧ objat g1 a = objat g a := by
  unfold gcat allocated objat
  rw [h]
  exact ⟨rfl, rfl, rfl⟩

theorem nodup_disjoint (l1 l2 : List Nat) (h : (l1 ++ l2).Nodup) (a : Nat) (h1 : a ∈ l1) :
    a ∉ l2 := fun h2 => (List.nodup_append.mp h).2.2 h1 h2

/-- The first part of `luaC_checkfinalizer`, before the object is moved: the lists are as
before, but for the objects that `sweeptolive` releases when the sweep stands at `o`. -/
theorem checkfinalizer_mid (E : StepEnv) (hrel : Releases E.toGCEnv) (hstd : StdMarks E.H)
    (g : global_State) (pre post lf lt lx : List Nat) (o fuel : Nat)
    (h : Owned E.H g (pre ++ o :: post) lf lt lx) (hfuel : post.length < fuel)
    (htags : ∀ a ∈ post, CollectableTag E.H (gcat g a).tt) :
    ∃ g2, (if issweepphase E.H g then
        if (setmarked g o (makewhite E.H g (gcat g o).marked)).sweepgc =
            some (GCRef.next o) then
          (sweeptolive E.toGCEnv fuel (setmarked g o (makewhite E.H g (gcat g o).marked))
            (GCRef.next o)).map fun r => { r.1 with sweepgc := r.2 }
        else some (setmarked g o (makewhite E.H g (gcat g o).marked))
       else some (correctpointers g o)) = some g2 ∧
      Owned E.H g2
        (pre ++ o :: (if issweepphase E.H g = true ∧ g.sweepgc = some (GCRef.next o) then
          post.dropWhile (fun a => isdeadm (otherwhite E.H g) (gcat g a).marked) else post))
        lf lt lx ∧
      (∀ a ∈ post, a ∉ (if issweepphase E.H g = true ∧ g.sweepgc = some (GCRef.next o) then
          post.dropWhile (fun a => isdeadm (otherwhite E.H g) (gcat g a).marked) else post) →
        objat g2 a = none) ∧
      (∀ a, a ∉ pre ++ o :: post → objat g2 a = objat g a) := by
  have hal := Owned_allocated E.H g (pre ++ o :: post) lf lt lx h
  have hown := h
  obtain ⟨h1, h2, h3, h4, h5, h6⟩ := h
  have hoall : o ∈ pre ++ o :: post := List.mem_append_right pre (List.mem_cons_self o post)
  have hao : allocated g o = true := hal o ((mem4 o _ lf lt lx).mpr (Or.inl hoall))
  have hlto := allocated_lt g o hao
  -- the state after `makewhite`
  obtain ⟨gw, hgw⟩ : ∃ gw, gw = setmarked g o (makewhite E.H g (gcat g o).marked) := ⟨_, rfl⟩
  have w1 : objat gw o = some { gcat g o with marked := makewhite E.H g (gcat g o).marked } := by
    rw [hgw, objat_setmarked, if_pos ⟨rfl, hlto⟩]
  have w2 : ∀ x, x ≠ o → objat gw x = objat g x := by
    intro x hx
    rw [hgw, objat_setmarked, if_neg (fun c => hx c.1)]
  have w3 : gw.allgc = g.allgc ∧ gw.finobj = g.finobj ∧ gw.tobefnz = g.tobefnz ∧
      gw.fixedgc = g.fixedgc := by
    rw [hgw]
    exact ⟨rfl, rfl, rfl, rfl⟩
  have w4 : ∀ a, allocated gw a = allocated g a ∧ (gcat gw a).next = (gcat g a).next ∧
      tofinalize E.H (gcat gw a).marked = tofinalize E.H (gcat g a).marked := by
    intro a
    by_cases c : a = o
    · rw [c, allocated_eq, w1, gcat_of_objat gw o _ w1, hao]
      exact ⟨rfl, rfl, tofinalize_makewhite E.H hstd g _⟩
    · rw [allocated_congr g gw a (w2 a c), gcat_congr g gw a (w2 a c)]
      exact ⟨rfl, rfl, rfl⟩
  have hownw : Owned E.H gw (pre ++ o :: post) lf lt lx :=
    Owned_remark E.H g gw _ lf lt lx w3 (fun a _ => w4 a) hown
  rw [← hgw]
  by_cases hs : issweepphase E.H g = true
  · rw [if_pos hs]
    by_cases hsw : gw.sweepgc = some (GCRef.next o)
    · -- the sweep stands at `o`
      have hsw0 : g.sweepgc = some (GCRef.next o) := by
        rw [hgw] at hsw
        exact hsw
      rw [if_pos hsw, if_pos ⟨hs, hsw0⟩]
      have hnda : (pre ++ o :: post).Nodup := by
        have := (List.nodup_append.mp h5).1
        have := (List.nodup_append.mp this).1
        exact (List.nodup_append.mp this).1
      have hndp : (o :: post).Nodup := (List.nodup_append.mp hnda).2.1
      have hopost : o ∉ post := (List.nodup_cons.mp hndp).1
      have hprepost : ∀ a ∈ pre, a ∉ o :: post := nodup_disjoint pre _ hnda
      have hmid : Linked gw (deref gw (lastplace GCRef.allgc pre)) (o :: post) :=
        Linked_lastplace gw pre GCRef.allgc _ hownw.1
      have hlp : Linked gw (deref gw (GCRef.next o)) post := hmid.2.2
      have htw : ∀ a ∈ post, CollectableTag E.H (gcat gw a).tt := by
        intro a ha
        rw [gcat_congr g gw a (w2 a (fun c => hopost (c ▸ ha)))]
        exact htags a ha
      obtain ⟨gs, q, e, c1, c2, c3, c4, c5, c6, c7⟩ :=
        sweeptolive_spec E.toGCEnv hrel hstd post fuel gw (GCRef.next o) hfuel hlp
          (List.nodup_cons.mp hndp).2
          (fun b hb => by
            injection hb with hb
            rw [← hb]
            exact ⟨hopost, hownw.1 |> fun k => Linked_allocated gw _ _ k o hoall⟩)
          htw
      have hcongr := dropWhile_congr_mem
        (fun x => isdeadm (otherwhite E.H gw) (gcat gw x).marked)
        (fun x => isdeadm (otherwhite E.H g) (gcat g x).marked) post
        (fun x hx => by
          show isdeadm (otherwhite E.H gw) (gcat gw x).marked = _
          rw [gcat_congr g gw x (w2 x (fun c => hopost (c ▸ hx)))]
          rw [hgw]
          rfl)
      rw [hcongr.1] at c1
      rw [hcongr.2] at c2 c3
      obtain ⟨tw, htwd⟩ : ∃ tw, tw = post.takeWhile
          (fun a => isdeadm (otherwhite E.H g) (gcat g a).marked) := ⟨_, rfl⟩
      obtain ⟨dw, hdwd⟩ : ∃ dw, dw = post.dropWhile
          (fun a => isdeadm (otherwhite E.H g) (gcat g a).marked) := ⟨_, rfl⟩
      rw [← htwd] at c2 c3
      rw [← hdwd] at c1 ⊢
      have hsplit : tw ++ dw = post := by
        rw [htwd, hdwd]
        exact List.takeWhile_append_dropWhile _ _
      have htwpost : ∀ a ∈ tw, a ∈ post := fun a ha => by
        rw [← hsplit]
        exact List.mem_append_left dw ha
      have hdwpost : ∀ a ∈ dw, a ∈ post := fun a ha => by
        rw [← hsplit]
        exact List.mem_append_right tw ha
      -- the objects that are not released
      have hkeep : ∀ a, a ∉ tw → a ≠ o → allocated gs a = allocated g a ∧
          (gcat gs a).next = (gcat g a).next ∧
          tofinalize E.H (gcat gs a).marked = tofinalize E.H (gcat g a).marked := by
        intro a ha hne
        obtain ⟨d1, m, d2, d3⟩ := c3 a ha (fun k => hne (by injection k with k; exact k.symm))
        obtain ⟨v1, v2, v3⟩ := w4 a
        refine ⟨d1.trans v1, ?_, ?_⟩
        · rw [d2]
          exact v2
        · rw [d2]
          exact d3.trans v3
      obtain ⟨nx, hgso⟩ := c4 o rfl
      have hgso2 : gcat gs o = { gcat gw o with next := nx } := gcat_of_objat gs o _ hgso
      have hheads : gs.allgc = g.allgc ∧ gs.finobj = g.finobj ∧ gs.tobefnz = g.tobefnz ∧
          gs.fixedgc = g.fixedgc :=
        ⟨(c5 GCRef.allgc rfl (fun k => GCRef.noConfusion k)).trans w3.1,
          (c5 GCRef.finobj rfl (fun k => GCRef.noConfusion k)).trans w3.2.1,
          (c5 GCRef.tobefnz rfl (fun k => GCRef.noConfusion k)).trans w3.2.2.1,
          (c5 GCRef.fixedgc rfl (fun k => GCRef.noConfusion k)).trans w3.2.2.2⟩
      have hother : ∀ a, a ∈ lf ++ lt ++ lx → a ∉ tw ∧ a ≠ o := by
        intro a ha
        have hnot : a ∉ pre ++ o :: post := by
          have e : pre ++ o :: post ++ lf ++ lt ++ lx = (pre ++ o :: post) ++ (lf ++ lt ++ lx) := by
            simp
          rw [e] at h5
          exact fun k => nodup_disjoint _ _ h5 a k ha
        exact ⟨fun k => hnot (List.mem_append_right pre (List.mem_cons_of_mem o (htwpost a k))),
          fun k => hnot (k ▸ hoall)⟩
      have hla : Linked gs g.allgc (pre ++ o :: dw) := by
        apply Linked_splice_next g gs o dw pre _ post h1
        · intro a ha
          have hn := hprepost a ha
          obtain ⟨k1, k2, _⟩ := hkeep a (fun k => hn (List.mem_cons_of_mem o (htwpost a k)))
            (fun k => hn (k ▸ List.mem_cons_self o post))
          exact ⟨k1, k2⟩
        · rw [allocated_eq, hgso]
          rfl
        · exact c1
      have hsub : (pre ++ o :: dw ++ lf ++ lt ++ lx).Sublist
          (pre ++ o :: post ++ lf ++ lt ++ lx) := by
        have s0 : dw.Sublist post := by
          rw [hdwd]
          exact (List.dropWhile_suffix _).sublist
        have s1 : (pre ++ o :: dw).Sublist (pre ++ o :: post) :=
          (List.Sublist.refl pre).append (s0.cons₂ o)
        exact ((s1.append (List.Sublist.refl lf)).append (List.Sublist.refl lt)).append
          (List.Sublist.refl lx)
      have hall2 : ∀ a ∈ pre ++ o :: dw ++ lf ++ lt ++ lx, a ∉ tw := by
        intro a ha hk
        have hn2 : (pre ++ o :: dw ++ lf ++ lt ++ lx).Nodup := h5.sublist hsub
        rcases (mem4 a _ lf lt lx).mp ha with k | k | k | k
        · rcases List.mem_append.mp k with k | k
          · exact hprepost a k (List.mem_cons_of_mem o (htwpost a hk))
          · rcases List.mem_cons.mp k with k | k
            · exact hopost (k ▸ htwpost a hk)
            · have hnp : (tw ++ dw).Nodup := by
                rw [hsplit]
                exact (List.nodup_cons.mp hndp).2
              exact nodup_disjoint tw dw hnp a hk k
        · exact (hother a (List.mem_append_left lx (List.mem_append_left lt k))).1 hk
        · exact (hother a (List.mem_append_left lx (List.mem_append_right lf k))).1 hk
        · exact (hother a (List.mem_append_right _ k)).1 hk
      have hmarks : ∀ a ∈ pre ++ o :: dw ++ lf ++ lt ++ lx,
          tofinalize E.H (gcat gs a).marked = tofinalize E.H (gcat g a).marked := by
        intro a ha
        by_cases c : a = o
        · rw [c, hgso2]
          exact (w4 o).2.2
        · exact (hkeep a (hall2 a ha) c).2.2
      refine ⟨{ gs with sweepgc := q }, ?_, ?_, ?_, ?_⟩
      · rw [e]
        rfl
      · have hgs : Owned E.H gs (pre ++ o :: dw) lf lt lx := by
          refine ⟨?_, ?_, ?_, ?_, h5.sublist hsub, ?_⟩
          · rw [hheads.1]
            exact hla
          · rw [hheads.2.1]
            exact Linked_congr_next g gs lf _ (fun a ha => by
              obtain ⟨k1, k2⟩ := hother a (List.mem_append_left lx (List.mem_append_left lt ha))
              exact ⟨(hkeep a k1 k2).1, (hkeep a k1 k2).2.1⟩) h2
          · rw [hheads.2.2.1]
            exact Linked_congr_next g gs lt _ (fun a ha => by
              obtain ⟨k1, k2⟩ := hother a (List.mem_append_left lx (List.mem_append_right lf ha))
              exact ⟨(hkeep a k1 k2).1, (hkeep a k1 k2).2.1⟩) h3
          · rw [hheads.2.2.2]
            exact Linked_congr_next g gs lx _ (fun a ha => by
              obtain ⟨k1, k2⟩ := hother a (List.mem_append_right _ ha)
              exact ⟨(hkeep a k1 k2).1, (hkeep a k1 k2).2.1⟩) h4
          · intro a ha
            rw [hmarks a ha]
            exact h6 a (hsub.subset ha)
        exact Owned_remark E.H gs { gs with sweepgc := q } _ lf lt lx ⟨rfl, rfl, rfl, rfl⟩
          (fun a _ => ⟨rfl, rfl, rfl⟩) hgs
      · intro a ha hnd
        have : a ∈ tw := by
          rw [← hsplit] at ha
          rcases List.mem_append.mp ha with k | k
          · exact k
          · exact absurd k hnd
        exact c2 a this
      · intro a ha
        have hane : a ≠ o := fun k => ha (k ▸ hoall)
        show objat gs a = objat g a
        rw [← w2 a hane]
        exact c7 a (fun k => ha (List.mem_append_right pre (List.mem_cons_of_mem o k)))
          (fun k => hane (by injection k with k; exact k.symm))
    · have hsw0 : ¬ g.sweepgc = some (GCRef.next o) := by
        rw [hgw] at hsw
        exact hsw
      rw [if_neg hsw, if_neg (fun c => hsw0 c.2)]
      exact ⟨gw, rfl, hownw, fun a _ hn => absurd ‹a ∈ post› hn,
        fun a ha => w2 a (fun c => ha (c ▸ hoall))⟩
  · rw [if_neg hs, if_neg (fun c => hs c.1)]
    obtain ⟨p1, p2, p3, p4, p5⟩ := correctpointers_frame g o
    refine ⟨_, rfl, ?_, fun a _ hn => absurd ‹a ∈ post› hn,
      fun a _ => (gcat_objs g _ p1 a).2.2⟩
    exact Owned_remark E.H g _ _ lf lt lx ⟨p2, p3, p4, p5⟩
      (fun a _ => by
        obtain ⟨k1, k2, _⟩ := gcat_objs g _ p1 a
        rw [k1, k2]
        exact ⟨rfl, rfl, rfl⟩) hown

/-- `luaC_checkfinalizer` on an object `o` of `allgc`: it returns at once if there is no
finalizer or the state is closing; otherwise `o` is moved to the head of `finobj`, and if the
sweep stands at `o` the dead objects that follow `o` are released. -/
theorem checkfinalizer_owned (E : StepEnv) (hrel : Releases E.toGCEnv) (hstd : StdMarks E.H)
    (g : global_State) (pre post lf lt lx : List Nat) (o fuel : Nat) (mt : Option Nat)
    (h : Owned E.H g (pre ++ o :: post) lf lt lx) (hfuel : (pre ++ o :: post).length < fuel)
    (htags : ∀ a ∈ post, CollectableTag E.H (gcat g a).tt) :
    ∃ g1, luaC_checkfinalizer E fuel g o mt = some g1 ∧
      ((E.gfasttm_gc g mt = none ∨ g.gcstp &&& E.H.GCSTPCLS ≠ 0) → g1 = g) ∧
      (¬ (E.gfasttm_gc g mt = none ∨ g.gcstp &&& E.H.GCSTPCLS ≠ 0) →
        Owned E.H g1
          (pre ++ (if issweepphase E.H g = true ∧ g.sweepgc = some (GCRef.next o) then
            post.dropWhile (fun a => isdeadm (otherwhite E.H g) (gcat g a).marked) else post))
          (o :: lf) lt lx ∧
        (∀ a ∈ post, a ∉ (if issweepphase E.H g = true ∧ g.sweepgc = some (GCRef.next o) then
            post.dropWhile (fun a => isdeadm (otherwhite E.H g) (gcat g a).marked) else post) →
          objat g1 a = none) ∧
        (∀ a, a ∉ pre ++ o :: post → objat g1 a = objat g a)) := by
  have hoall : o ∈ pre ++ o :: post := List.mem_append_right pre (List.mem_cons_self o post)
  have hfin : tofinalize E.H (gcat g o).marked = false := by
    obtain ⟨_, _, _, _, h5, h6⟩ := h
    have hin : o ∈ pre ++ o :: post ++ lf ++ lt ++ lx := (mem4 o _ lf lt lx).mpr (Or.inl hoall)
    cases c : tofinalize E.H (gcat g o).marked with
    | false => rfl
    | true =>
      have hm := (h6 o hin).mp c
      have e : pre ++ o :: post ++ lf ++ lt ++ lx = (pre ++ o :: post) ++ (lf ++ lt) ++ lx := by
        simp
      rw [e] at h5
      exact absurd hm (nodup_disjoint _ _ (List.nodup_append.mp h5).1 o hoall)
  obtain ⟨post2, hpost2⟩ : ∃ post2, post2 =
      (if issweepphase E.H g = true ∧ g.sweepgc = some (GCRef.next o) then
        post.dropWhile (fun a => isdeadm (otherwhite E.H g) (gcat g a).marked) else post) :=
    ⟨_, rfl⟩
  rw [← hpost2]
  by_cases he : E.gfasttm_gc g mt = none ∨ g.gcstp &&& E.H.GCSTPCLS ≠ 0
  · refine ⟨g, ?_, fun _ => rfl, fun c => absurd he c⟩
    unfold luaC_checkfinalizer
    rw [if_pos (Or.inr he)]
  · have hlen : post.length < fuel ∧ pre.length < fuel := by
      rw [List.length_append, List.length_cons] at hfuel
      omega
    obtain ⟨g2, e2, own2, rel2, frame2⟩ :=
      checkfinalizer_mid E hrel hstd g pre post lf lt lx o fuel h hlen.1 htags
    rw [← hpost2] at own2 rel2
    obtain ⟨g1, e1, own1, frame1, _⟩ :=
      movefin_owned E.H hstd g2 pre post2 lf lt lx o fuel own2 hlen.2
    have hsubset : ∀ a ∈ post2, a ∈ post := by
      intro a ha
      rw [hpost2] at ha
      by_cases c : issweepphase E.H g = true ∧ g.sweepgc = some (GCRef.next o)
      · rw [if_pos c] at ha
        exact (List.dropWhile_suffix _).subset ha
      · rw [if_neg c] at ha
        exact ha
    have hnd : (pre ++ o :: post).Nodup := by
      have := (List.nodup_append.mp h.2.2.2.2.1).1
      have := (List.nodup_append.mp this).1
      exact (List.nodup_append.mp this).1
    refine ⟨g1, ?_, fun c => absurd c he, fun _ => ⟨own1, ?_, ?_⟩⟩
    · unfold luaC_checkfinalizer
      have hc : ¬ (tofinalize E.H (gcat g o).marked = true ∨ E.gfasttm_gc g mt = none ∨
          g.gcstp &&& E.H.GCSTPCLS ≠ 0) := by
        intro c
        rcases c with c | c
        · rw [hfin] at c
          exact Bool.noConfusion c
        · exact he c
      rw [if_neg hc]
      dsimp only
      rw [e2]
      exact e1
    · intro a ha hn
      have hout : a ∉ pre ++ o :: post2 := by
        intro k
        rcases List.mem_append.mp k with k | k
        · exact nodup_disjoint pre _ hnd a k (List.mem_cons_of_mem o ha)
        · rcases List.mem_cons.mp k with k | k
          · exact (List.nodup_cons.mp (List.nodup_append.mp hnd).2.1).1 (k ▸ ha)
          · exact hn k
      rw [frame1 a hout]
      exact rel2 a ha hn
    · intro a ha
      have hout : a ∉ pre ++ o :: post2 := by
        intro k
        rcases List.mem_append.mp k with k | k
        · exact ha (List.mem_append_left _ k)
        · rcases List.mem_cons.mp k with k | k
          · exact ha (k ▸ hoall)
          · exact ha (List.mem_append_right pre (List.mem_cons_of_mem o (hsubset a k)))
      rw [frame1 a hout]
      exact frame2 a ha

/-! ### `separatetobefnz` -/

/-- `findlast` ends at the place after the last object of the list. -/
theorem findlast_spec (g : global_State) :
    ∀ (l : List Nat) (fuel : Nat) (p : GCRef), l.length < fuel → Linked g (deref g p) l →
      findlast fuel g p = some (lastplace p l) := by
  intro l
  induction l with
  | nil =>
    intro fuel p hfuel hl
    obtain ⟨f, hf⟩ : ∃ f, fuel = f + 1 := ⟨fuel - 1, by simp at hfuel; omega⟩
    subst hf
    have hd : deref g p = none := hl
    simp only [findlast, hd]
    rfl
  | cons a l ih =>
    intro fuel p hfuel hl
    obtain ⟨f, hf⟩ : ∃ f, fuel = f + 1 := ⟨fuel - 1, by simp at hfuel; omega⟩
    subst hf
    have hd : deref g p = some a := hl.1
    rw [lastplace_cons, ← ih f (GCRef.next a) (by simp at hfuel; omega) hl.2.2]
    simp only [findlast, hd]

theorem deref_congr2 (g g1 : global_State) (q : GCRef)
    (hq : q.owner = none → deref g1 q = deref g q)
    (ho : ∀ b, q.owner = some b → objat g1 b = objat g b) : deref g1 q = deref g q := by
  cases q with
  | next a =>
    show (gcat g1 a).next = (gcat g a).next
    rw [gcat_congr g g1 a (ho a rfl)]
  | allgc => exact hq rfl
  | finobj => exact hq rfl
  | tobefnz => exact hq rfl
  | fixedgc => exact hq rfl

theorem owner_ne_of_ne (p q : GCRef) (h : p ≠ q) (b : Nat) (hp : p.owner = some b) :
    q.owner ≠ some b := by
  intro hq
  cases p with
  | next a =>
    cases q with
    | next c =>
      injection hp with hp
      injection hq with hq
      exact h (by rw [hp, hq])
    | allgc => cases hq
    | finobj => cases hq
    | tobefnz => cases hq
    | fixedgc => cases hq
  | allgc => cases hp
  | finobj => cases hp
  | tobefnz => cases hp
  | fixedgc => cases hp

theorem separateloop_succ (H : Decls) (all : Bool) (fuel : Nat) (g : global_State)
    (p lastnext : GCRef) :
    separateloop H all (fuel + 1) g p lastnext =
      if deref g p = g.finobjold1 then some g
      else
        match deref g p with
        | none => none
        | some curr =>
          if !(iswhite H (gcat g curr).marked || all) then
            separateloop H all fuel g (GCRef.next curr) lastnext
          else
            separateloop H all fuel
              (assign (assign (assign
                (if some curr = g.finobjsur then { g with finobjsur := (gcat g curr).next }
                 else g) p
                (gcat (if some curr = g.finobjsur then { g with finobjsur := (gcat g curr).next }
                 else g) curr).next) (GCRef.next curr)
                (deref (assign
                  (if some curr = g.finobjsur then { g with finobjsur := (gcat g curr).next }
                   else g) p
                  (gcat (if some curr = g.finobjsur then
                      { g with finobjsur := (gcat g curr).next }
                    else g) curr).next) lastnext)) lastnext (some curr))
              p (GCRef.next curr) := rfl

theorem finobjold1_assign (g : global_State) (p : GCRef) (x : Option Nat) :
    (assign g p x).finobjold1 = g.finobjold1 := by
  cases p <;> rfl

/-- What one move of `separatetobefnz` does: the object `curr`, which the place `p` points
to, is unlinked there and linked at the place `lastnext`, which held a null pointer. -/
theorem separate_move (g : global_State) (p lastnext : GCRef) (curr : Nat) (sur : Option Nat)
    (hal : allocated g curr = true)
    (hln : deref g lastnext = none) (hpl : p ≠ lastnext)
    (hp : ∀ b, p.owner = some b → b ≠ curr ∧ allocated g b = true)
    (hl : ∀ b, lastnext.owner = some b → b ≠ curr ∧ allocated g b = true) :
    ∃ g4, assign (assign (assign { g with finobjsur := sur } p
          (gcat { g with finobjsur := sur } curr).next) (GCRef.next curr)
          (deref (assign { g with finobjsur := sur } p
            (gcat { g with finobjsur := sur } curr).next) lastnext)) lastnext (some curr) = g4 ∧
      deref g4 p = (gcat g curr).next ∧ deref g4 (GCRef.next curr) = none ∧
      deref g4 lastnext = some curr ∧
      (∀ a, p.owner ≠ some a → lastnext.owner ≠ some a → a ≠ curr → objat g4 a = objat g a) ∧
      (∀ a, allocated g4 a = allocated g a ∧ (gcat g4 a).marked = (gcat g a).marked) ∧
      (∀ q : GCRef, q.owner = none → q ≠ p → q ≠ lastnext → deref g4 q = deref g q) ∧
      g4.finobjold1 = g.finobjold1 := by
  obtain ⟨ga, hga⟩ : ∃ ga, ga = { g with finobjsur := sur } := ⟨_, rfl⟩
  have a0 : ∀ a, objat ga a = objat g a := by
    intro a
    rw [hga]
    rfl
  have d0 : ∀ q, deref ga q = deref g q := by
    intro q
    rw [hga]
    cases q <;> rfl
  have al0 : ∀ a, allocated ga a = allocated g a := fun a => allocated_congr g ga a (a0 a)
  have pcurr : p ≠ GCRef.next curr := by
    intro c
    exact (hp curr (by rw [c]; rfl)).1 rfl
  have lcurr : lastnext ≠ GCRef.next curr := by
    intro c
    exact (hl curr (by rw [c]; rfl)).1 rfl
  rw [← hga]
  obtain ⟨g2, hg2⟩ : ∃ g2, g2 = assign ga p (gcat ga curr).next := ⟨_, rfl⟩
  rw [← hg2]
  have al2 : ∀ a, allocated g2 a = allocated g a := by
    intro a
    rw [hg2, allocated_assign ga p _ a (fun c hc => by rw [al0]; exact (hp c hc).2)]
    exact al0 a
  have d2p : deref g2 p = (gcat g curr).next := by
    rw [hg2, deref_assign ga p _
      (fun b hb => allocated_lt ga b (by rw [al0]; exact (hp b hb).2)),
      gcat_congr g ga curr (a0 curr)]
  have d2l : deref g2 lastnext = none := by
    rw [hg2, deref_assign_ne ga p lastnext _ (fun c => hpl c.symm), d0]
    exact hln
  rw [d2l]
  obtain ⟨g3, hg3⟩ : ∃ g3, g3 = assign g2 (GCRef.next curr) none := ⟨_, rfl⟩
  rw [← hg3]
  have al3 : ∀ a, allocated g3 a = allocated g a := by
    intro a
    rw [hg3, allocated_assign g2 _ _ a (fun c hc => by
      injection hc with hc
      rw [← hc, al2]
      exact hal)]
    exact al2 a
  have d3c : deref g3 (GCRef.next curr) = none := by
    rw [hg3]
    exact deref_assign g2 _ _ (fun b hb => by
      injection hb with hb
      rw [← hb]
      exact allocated_lt g2 curr (by rw [al2]; exact hal))
  have d3p : deref g3 p = (gcat g curr).next := by
    rw [hg3, deref_assign_ne g2 _ p _ pcurr]
    exact d2p
  refine ⟨assign g3 lastnext (some curr), rfl, ?_, ?_, ?_, ?_, ?_, ?_, ?_⟩
  · rw [deref_assign_ne g3 lastnext p _ hpl]
    exact d3p
  · rw [deref_assign_ne g3 lastnext _ _ (fun c => lcurr c.symm)]
    exact d3c
  · exact deref_assign g3 lastnext _
      (fun b hb => allocated_lt g3 b (by rw [al3]; exact (hl b hb).2))
  · intro a hpa hla hac
    rw [objat_assign_ne g3 lastnext _ a hla, hg3,
      objat_assign_ne g2 _ _ a (fun c => hac (by injection c with c; exact c.symm)), hg2,
      objat_assign_ne ga p _ a hpa]
    exact a0 a
  · intro a
    refine ⟨?_, ?_⟩
    · rw [allocated_assign g3 lastnext _ a (fun c hc => by rw [al3]; exact (hl c hc).2)]
      exact al3 a
    · rw [marked_assign, hg3, marked_assign, hg2, marked_assign, gcat_congr g ga a (a0 a)]
  · intro q hq hqp hql
    rw [deref_assign_ne g3 lastnext q _ hql, hg3,
      deref_assign_ne g2 _ q _ (fun c => by rw [c] at hq; cases hq), hg2,
      deref_assign_ne ga p q _ hqp]
    exact d0 q
  · rw [finobjold1_assign, hg3, finobjold1_assign, hg2, finobjold1_assign, hga]

/-- The loop of `separatetobefnz` run at the place `p`, where the list `todo ++ r1` of
distinct objects hangs, `r1` starting at `finobjold1`, with `lastnext` a place that holds a
null pointer: the objects of `todo` that are white (or all of them) are moved, in their
order, to the place `lastnext`; the others stay at `p`, in their order. -/
theorem separateloop_spec (H : Decls) (all : Bool) :
    ∀ (todo : List Nat) (fuel : Nat) (g : global_State) (p lastnext : GCRef) (r1 : List Nat),
      todo.length < fuel → Linked g (deref g p) (todo ++ r1) → (todo ++ r1).Nodup →
      r1.head? = g.finobjold1 → deref g lastnext = none → p ≠ lastnext →
      (∀ b, p.owner = some b → b ∉ todo ++ r1 ∧ allocated g b = true) →
      (∀ b, lastnext.owner = some b → b ∉ todo ++ r1 ∧ allocated g b = true) →
      ∃ g1, separateloop H all fuel g p lastnext = some g1 ∧
        Linked g1 (deref g1 p)
          (todo.filter (fun a => !(iswhite H (gcat g a).marked || all)) ++ r1) ∧
        Linked g1 (deref g1 lastnext)
          (todo.filter (fun a => iswhite H (gcat g a).marked || all)) ∧
        (∀ a, allocated g1 a = allocated g a ∧ (gcat g1 a).marked = (gcat g a).marked) ∧
        (∀ a, a ∉ todo → p.owner ≠ some a → lastnext.owner ≠ some a →
          objat g1 a = objat g a) ∧
        (∀ q : GCRef, q.owner = none → q ≠ p → q ≠ lastnext → deref g1 q = deref g q) := by
  intro todo
  induction todo with
  | nil =>
    intro fuel g p lastnext r1 hfuel hl _ hlim hln _ _ _
    obtain ⟨f, hf⟩ : ∃ f, fuel = f + 1 := ⟨fuel - 1, by simp at hfuel; omega⟩
    subst hf
    have hd : deref g p = g.finobjold1 := by
      rw [← hlim]
      exact Linked_head g _ _ hl
    refine ⟨g, ?_, hl, hln, fun _ => ⟨rfl, rfl⟩, fun _ _ _ _ => rfl, fun _ _ _ _ => rfl⟩
    rw [separateloop_succ, if_pos hd]
  | cons curr todo ih =>
    intro fuel g p lastnext r1 hfuel hl hnd hlim hln hpl hp hlo
    obtain ⟨f, hf⟩ : ∃ f, fuel = f + 1 := ⟨fuel - 1, by simp at hfuel; omega⟩
    subst hf
    have hfuel2 : todo.length < f := by simp at hfuel; omega
    obtain ⟨hd, hal, hrest⟩ := hl
    have hnd2 : (todo ++ r1).Nodup := (List.nodup_cons.mp hnd).2
    have hcn : curr ∉ todo ++ r1 := (List.nodup_cons.mp hnd).1
    have hpc : p.owner ≠ some curr := fun h => (hp curr h).1 (List.mem_cons_self curr _)
    have hlc : lastnext.owner ≠ some curr :=
      fun h => (hlo curr h).1 (List.mem_cons_self curr _)
    have hne : ¬ deref g p = g.finobjold1 := by
      rw [hd, ← hlim]
      intro c
      cases r1 with
      | nil => cases c
      | cons b r =>
        injection c with c
        exact hcn (by rw [c]; exact List.mem_append_right todo (List.mem_cons_self b r))
    have hpnext : p ≠ GCRef.next curr := fun c => hpc (by rw [c]; rfl)
    have hlnext : lastnext ≠ GCRef.next curr := fun c => hlc (by rw [c]; rfl)
    by_cases hmv : (iswhite H (gcat g curr).marked || all) = true
    · -- the object is moved
      have hskip : (!(iswhite H (gcat g curr).marked || all)) = false := by rw [hmv]; rfl
      obtain ⟨sur, hsur⟩ : ∃ sur, sur = (if some curr = g.finobjsur then (gcat g curr).next
          else g.finobjsur) := ⟨_, rfl⟩
      have hga : (if some curr = g.finobjsur then { g with finobjsur := (gcat g curr).next }
          else g) = { g with finobjsur := sur } := by
        rw [hsur]
        split <;> rfl
      obtain ⟨g4, e4, m1, m2, m3, m4, m5, m6, m7⟩ :=
        separate_move g p lastnext curr sur hal hln hpl
          (fun b hb => ⟨fun c => hpc (c ▸ hb), (hp b hb).2⟩)
          (fun b hb => ⟨fun c => hlc (c ▸ hb), (hlo b hb).2⟩)
      have hstep : separateloop H all (f + 1) g p lastnext =
          separateloop H all f g4 p (GCRef.next curr) := by
        rw [separateloop_succ, if_neg hne, hd]
        simp only [hskip, Bool.false_eq_true, if_false]
        rw [hga, e4]
      have hsame : ∀ x ∈ todo ++ r1, objat g4 x = objat g x := by
        intro x hx
        exact m4 x (fun c => (hp x c).1 (List.mem_cons_of_mem curr hx))
          (fun c => (hlo x c).1 (List.mem_cons_of_mem curr hx)) (fun c => hcn (c ▸ hx))
      have hl4 : Linked g4 (deref g4 p) (todo ++ r1) := by
        rw [m1]
        exact Linked_congr g g4 (todo ++ r1) _ hsame hrest
      obtain ⟨g1, e1, c1, c2, c3, c4, c5⟩ :=
        ih f g4 p (GCRef.next curr) r1 hfuel2 hl4 hnd2 (hlim.trans m7.symm) m2 hpnext
          (fun b hb => ⟨fun c => (hp b hb).1 (List.mem_cons_of_mem curr c),
            by rw [(m5 b).1]; exact (hp b hb).2⟩)
          (fun b hb => by
            injection hb with hb
            rw [← hb]
            exact ⟨hcn, by rw [(m5 curr).1]; exact hal⟩)
      have hfk : ∀ (l : List Nat),
          l.filter (fun a => !(iswhite H (gcat g4 a).marked || all)) =
            l.filter (fun a => !(iswhite H (gcat g a).marked || all)) ∧
          l.filter (fun a => iswhite H (gcat g4 a).marked || all) =
            l.filter (fun a => iswhite H (gcat g a).marked || all) := by
        intro l
        constructor <;> (apply List.filter_congr; intro x _; rw [(m5 x).2])
      rw [(hfk todo).1] at c1
      rw [(hfk todo).2] at c2
      have hk : (curr :: todo).filter (fun a => !(iswhite H (gcat g a).marked || all)) =
          todo.filter (fun a => !(iswhite H (gcat g a).marked || all)) := by
        rw [List.filter_cons_of_neg (by simp [hmv])]
      have hm : (curr :: todo).filter (fun a => iswhite H (gcat g a).marked || all) =
          curr :: todo.filter (fun a => iswhite H (gcat g a).marked || all) := by
        rw [List.filter_cons_of_pos (by simp [hmv])]
      rw [hk, hm]
      have hdl : deref g1 lastnext = some curr := by
        rw [← m3]
        apply deref_congr2 g4 g1 lastnext
        · intro hq
          exact c5 lastnext hq (fun c => hpl c.symm) hlnext
        · intro b hb
          exact c4 b (fun c => (hlo b hb).1 (List.mem_cons_of_mem curr
              (List.mem_append_left r1 c)))
            (owner_ne_of_ne lastnext p (fun c => hpl c.symm) b hb)
            (fun c => hlc (by injection c with c; rw [c]; exact hb))
      refine ⟨g1, hstep.trans e1, c1, ⟨hdl, ?_, c2⟩, ?_, ?_, ?_⟩
      · rw [(c3 curr).1, (m5 curr).1]
        exact hal
      · intro a
        exact ⟨(c3 a).1.trans (m5 a).1, (c3 a).2.trans (m5 a).2⟩
      · intro a ha hpa hla
        have hac : a ≠ curr := fun c => ha (c ▸ List.mem_cons_self curr todo)
        rw [c4 a (fun c => ha (List.mem_cons_of_mem curr c)) hpa
          (fun c => hac (by injection c with c; exact c.symm))]
        exact m4 a hpa hla hac
      · intro q hq hqp hql
        rw [c5 q hq hqp (fun c => by rw [c] at hq; cases hq)]
        exact m6 q hq hqp hql
    · -- the object stays
      have hskip : (!(iswhite H (gcat g curr).marked || all)) = true := by
        cases h : (iswhite H (gcat g curr).marked || all)
        · rfl
        · exact absurd h hmv
      have hstep : separateloop H all (f + 1) g p lastnext =
          separateloop H all f g (GCRef.next curr) lastnext := by
        rw [separateloop_succ, if_neg hne, hd]
        simp only [hskip, if_true]
      obtain ⟨g1, e1, c1, c2, c3, c4, c5⟩ :=
        ih f g (GCRef.next curr) lastnext r1 hfuel2 hrest hnd2 hlim hln
          (fun c => hlnext c.symm)
          (fun b hb => by
            injection hb with hb
            rw [← hb]
            exact ⟨hcn, hal⟩)
          (fun b hb => ⟨fun c => (hlo b hb).1 (List.mem_cons_of_mem curr c), (hlo b hb).2⟩)
      have hk : (curr :: todo).filter (fun a => !(iswhite H (gcat g a).marked || all)) =
          curr :: todo.filter (fun a => !(iswhite H (gcat g a).marked || all)) := by
        rw [List.filter_cons_of_pos (by simp [hskip])]
      have hm : (curr :: todo).filter (fun a => iswhite H (gcat g a).marked || all) =
          todo.filter (fun a => iswhite H (gcat g a).marked || all) := by
        rw [List.filter_cons_of_neg (by simpa using hmv)]
      rw [hk, hm]
      have hdp : deref g1 p = some curr := by
        rw [← hd]
        apply deref_congr2 g g1 p
        · intro hq
          exact c5 p hq hpnext hpl
        · intro b hb
          exact c4 b (fun c => (hp b hb).1 (List.mem_cons_of_mem curr
              (List.mem_append_left r1 c)))
            (fun c => hpc (by injection c with c; rw [c]; exact hb))
            (owner_ne_of_ne p lastnext hpl b hb)
      refine ⟨g1, hstep.trans e1, ⟨hdp, ?_, c1⟩, c2, c3, ?_, ?_⟩
      · rw [(c3 curr).1]
        exact hal
      · intro a ha _ hla
        have hac : a ≠ curr := fun c => ha (c ▸ List.mem_cons_self curr todo)
        exact c4 a (fun c => ha (List.mem_cons_of_mem curr c))
          (fun c => hac (by injection c with c; exact c.symm)) hla
      · intro q hq _ hql
        exact c5 q hq (fun c => by rw [c] at hq; cases hq) hql

/-- `separatetobefnz` keeps the ownership of the lists: the objects of `finobj` before
`finobjold1` that are white (or all of them) go to the end of `tobefnz`, in their order. -/
theorem separate_owned (H : Decls) (g : global_State) (la l1 r1 lt lx : List Nat)
    (all : Bool) (fuel : Nat) (h : Owned H g la (l1 ++ r1) lt lx)
    (hlim : r1.head? = g.finobjold1) (hf1 : l1.length < fuel) (hf2 : lt.length < fuel) :
    ∃ g1, separatetobefnz H fuel g all = some g1 ∧
      Owned H g1 la (l1.filter (fun a => !(iswhite H (gcat g a).marked || all)) ++ r1)
        (lt ++ l1.filter (fun a => iswhite H (gcat g a).marked || all)) lx ∧
      (∀ a, allocated g1 a = allocated g a ∧ (gcat g1 a).marked = (gcat g a).marked) := by
  obtain ⟨h1, h2, h3, h4, h5, h6⟩ := h
  obtain ⟨K, hK⟩ : ∃ K, K = l1.filter (fun a => !(iswhite H (gcat g a).marked || all)) :=
    ⟨_, rfl⟩
  obtain ⟨M, hM⟩ : ∃ M, M = l1.filter (fun a => iswhite H (gcat g a).marked || all) :=
    ⟨_, rfl⟩
  rw [← hK, ← hM]
  obtain ⟨ln, hln⟩ : ∃ ln, ln = lastplace GCRef.tobefnz lt := ⟨_, rfl⟩
  have hfind : findlast fuel g GCRef.tobefnz = some ln := by
    rw [hln]
    exact findlast_spec g lt fuel GCRef.tobefnz hf2 h3
  have hlnnone : deref g ln = none := by
    have := Linked_lastplace g lt GCRef.tobefnz [] (by rw [List.append_nil]; exact h3)
    rw [hln]
    exact this
  -- the lists are disjoint
  have e5 : la ++ (l1 ++ r1) ++ lt ++ lx = la ++ ((l1 ++ r1) ++ (lt ++ lx)) := by simp
  have hnd1 : ((l1 ++ r1) ++ (lt ++ lx)).Nodup := by
    rw [e5] at h5
    exact (List.nodup_append.mp h5).2.1
  have hndf : (l1 ++ r1).Nodup := (List.nodup_append.mp hnd1).1
  have hndt : lt.Nodup := (List.nodup_append.mp (List.nodup_append.mp hnd1).2.1).1
  have hft : ∀ a ∈ l1 ++ r1, a ∉ lt := fun a ha c =>
    nodup_disjoint _ _ hnd1 a ha (List.mem_append_left lx c)
  have hfx : ∀ a ∈ l1 ++ r1, a ∉ lx := fun a ha c =>
    nodup_disjoint _ _ hnd1 a ha (List.mem_append_right lt c)
  have hfa : ∀ a ∈ la, a ∉ (l1 ++ r1) ++ (lt ++ lx) := by
    rw [e5] at h5
    exact fun a ha => nodup_disjoint _ _ h5 a ha
  have hlnown : ∀ b, ln.owner = some b → b ∈ lt := by
    intro b hb
    rw [hln] at hb
    rcases lastplace_owner GCRef.tobefnz lt b hb with c | c
    · cases c
    · exact c
  have hpl : GCRef.finobj ≠ ln := by
    intro c
    rw [hln] at c
    rcases eq_nil_or_snoc lt with e | ⟨l0, c0, e⟩
    · rw [e] at c
      cases c
    · rw [e, lastplace_concat] at c
      cases c
  obtain ⟨g1, e1, c1, c2, c3, c4, c5⟩ :=
    separateloop_spec H all l1 fuel g GCRef.finobj ln r1 hf1 h2 hndf hlim hlnnone hpl
      (fun b hb => nomatch hb)
      (fun b hb => ⟨fun c => hft b c (hlnown b hb),
        Linked_allocated g lt _ h3 b (hlnown b hb)⟩)
  rw [← hK] at c1
  rw [← hM] at c2
  have hrun : separatetobefnz H fuel g all = some g1 := by
    unfold separatetobefnz
    rw [hfind]
    exact e1
  have hsame : ∀ a, a ∉ l1 → a ∉ lt → objat g1 a = objat g a :=
    fun a ha hat => c4 a ha (fun c => nomatch c) (fun c => hat (hlnown a c))
  have hallgc : g1.allgc = g.allgc :=
    c5 GCRef.allgc rfl (fun c => GCRef.noConfusion c) (fun c => by
      rw [hln] at c
      rcases eq_nil_or_snoc lt with e | ⟨l0, c0, e⟩
      · rw [e] at c
        cases c
      · rw [e, lastplace_concat] at c
        cases c)
  have hfixed : g1.fixedgc = g.fixedgc :=
    c5 GCRef.fixedgc rfl (fun c => GCRef.noConfusion c) (fun c => by
      rw [hln] at c
      rcases eq_nil_or_snoc lt with e | ⟨l0, c0, e⟩
      · rw [e] at c
        cases c
      · rw [e, lastplace_concat] at c
        cases c)
  have hperm : (la ++ (K ++ r1) ++ (lt ++ M) ++ lx).Perm (la ++ (l1 ++ r1) ++ lt ++ lx) := by
    have hmk : (M ++ K).Perm l1 := by
      rw [hM, hK]
      exact List.filter_append_perm _ l1
    have p1 : ((K ++ r1) ++ (lt ++ M)).Perm ((l1 ++ r1) ++ lt) := by
      have q1 : ((K ++ r1) ++ (lt ++ M)).Perm (M ++ ((K ++ r1) ++ lt)) := by
        rw [← List.append_assoc]
        exact List.perm_append_comm
      have q2 : M ++ ((K ++ r1) ++ lt) = ((M ++ K) ++ r1) ++ lt := by simp
      rw [q2] at q1
      exact q1.trans ((hmk.append_right r1).append_right lt)
    have p2 : (la ++ ((K ++ r1) ++ (lt ++ M))).Perm (la ++ ((l1 ++ r1) ++ lt)) :=
      p1.append_left la
    have e1 : la ++ (K ++ r1) ++ (lt ++ M) ++ lx = la ++ ((K ++ r1) ++ (lt ++ M)) ++ lx := by
      simp
    have e2 : la ++ (l1 ++ r1) ++ lt ++ lx = la ++ ((l1 ++ r1) ++ lt) ++ lx := by simp
    rw [e1, e2]
    exact p2.append_right lx
  refine ⟨g1, hrun, ⟨?_, c1, ?_, ?_, hperm.nodup_iff.mpr h5, ?_⟩, c3⟩
  · rw [hallgc]
    exact Linked_congr g g1 la _ (fun a ha => hsame a
      (fun c => hfa a ha (List.mem_append_left _ (List.mem_append_left r1 c)))
      (fun c => hfa a ha (List.mem_append_right _ (List.mem_append_left lx c)))) h1
  · -- the list `tobefnz`
    rcases eq_nil_or_snoc lt with e | ⟨l0, c0, e⟩
    · subst e
      have : ln = GCRef.tobefnz := hln
      rw [this] at c2
      exact c2
    · subst e
      have hlnc : ln = GCRef.next c0 := by rw [hln, lastplace_concat]
      rw [hlnc] at c2
      have htb : g1.tobefnz = g.tobefnz :=
        c5 GCRef.tobefnz rfl (fun c => GCRef.noConfusion c) (fun c => by
          rw [hlnc] at c
          cases c)
      rw [htb, List.append_assoc]
      have hc0 : c0 ∈ l0 ++ [c0] := List.mem_append_right l0 (List.mem_singleton_self c0)
      apply Linked_splice g g1 c0 M l0 _ [] h3
      · intro a ha
        have hac : a ≠ c0 := by
          intro k
          exact (List.nodup_append.mp hndt).2.2 ha (k ▸ List.mem_singleton_self a)
        apply c4 a
        · exact fun k => hft a (List.mem_append_left r1 k) (List.mem_append_left _ ha)
        · exact fun k => nomatch k
        · rw [hlnc]
          exact fun k => hac (by injection k with k; exact k.symm)
      · rw [(c3 c0).1]
        exact Linked_allocated g _ _ h3 c0 hc0
      · exact c2
  · rw [hfixed]
    exact Linked_congr g g1 lx _ (fun a ha => hsame a
      (fun c => hfx a (List.mem_append_left r1 c) ha)
      (fun c => nodup_disjoint _ _ (List.nodup_append.mp hnd1).2.1 a c ha)) h4
  · intro a ha
    rw [(c3 a).2, h6 a (hperm.mem_iff.mp ha)]
    have hmk : (M ++ K).Perm l1 := by
      rw [hM, hK]
      exact List.filter_append_perm _ l1
    simp only [List.mem_append]
    have hml : a ∈ l1 ↔ a ∈ M ∨ a ∈ K := by
      rw [← hmk.mem_iff, List.mem_append]
    rw [hml]
    tauto

/-- C25: the ownership invariant `Owned` (the lists `allgc`, `finobj`, `tobefnz` and `fixedgc`
hold distinct objects, no object is in two of them, and an object of the lists has
`FINALIZEDBIT` exactly if it is in `finobj` or `tobefnz`) is kept by the five operations, and
the lists after each of them are those of before with one move:
`luaC_newobj` puts the new object, at an address that was free, at the head of `allgc`;
`luaC_fix` moves the head of `allgc` to the head of `fixedgc`;
`luaC_checkfinalizer` on an object `o` of `allgc` changes nothing if there is no finalizer or
the state is closing, and otherwise moves `o` to the head of `finobj`; the rest of `allgc`
keeps its order, except that in a sweep phase whose pointer stands at `o` the dead objects
that directly follow `o` are released by the sweep (they are no longer allocated);
`separatetobefnz` moves the objects of `finobj` before `finobjold1` that are white (or all of
them) to the end of `tobefnz`, in their order;
`udata2finalize` moves the head of `tobefnz` to the head of `allgc`.
Each operation returns, given fuel above the lengths of the lists it walks. -/
theorem ownership_preserved (E : StepEnv) (g : global_State) (la lf lt lx : List Nat)
    (hrel : Releases E.toGCEnv) (hstd : StdMarks E.H) (h : Owned E.H g la lf lt lx) :
    (∀ tt o, allocated g o = false →
      (luaC_newobj E.H g tt o).2 = o ∧
      Owned E.H (luaC_newobj E.H g tt o).1 (o :: la) lf lt lx ∧
      (∀ x, x ≠ o → objat (luaC_newobj E.H g tt o).1 x = objat g x)) ∧
    (∀ o la2, la = o :: la2 → Owned E.H (luaC_fix E.H g o) la2 lf lt (o :: lx)) ∧
    (∀ o pre post mt fuel, la = pre ++ o :: post → la.length < fuel →
      (∀ a ∈ post, CollectableTag E.H (gcat g a).tt) →
      ∃ g1, luaC_checkfinalizer E fuel g o mt = some g1 ∧
        ((E.gfasttm_gc g mt = none ∨ g.gcstp &&& E.H.GCSTPCLS ≠ 0) → g1 = g) ∧
        (¬ (E.gfasttm_gc g mt = none ∨ g.gcstp &&& E.H.GCSTPCLS ≠ 0) →
          Owned E.H g1
            (pre ++ (if issweepphase E.H g = true ∧ g.sweepgc = some (GCRef.next o) then
              post.dropWhile (fun a => isdeadm (otherwhite E.H g) (gcat g a).marked)
             else post))
            (o :: lf) lt lx ∧
          (∀ a ∈ post,
            a ∉ (if issweepphase E.H g = true ∧ g.sweepgc = some (GCRef.next o) then
              post.dropWhile (fun a => isdeadm (otherwhite E.H g) (gcat g a).marked)
             else post) → objat g1 a = none) ∧
          (∀ a, a ∉ la → objat g1 a = objat g a))) ∧
    (∀ (all : Bool) l1 r1 fuel, lf = l1 ++ r1 → r1.head? = g.finobjold1 →
      l1.length < fuel → lt.length < fuel →
      ∃ g1, separatetobefnz E.H fuel g all = some g1 ∧
        Owned E.H g1 la (l1.filter (fun a => !(iswhite E.H (gcat g a).marked || all)) ++ r1)
          (lt ++ l1.filter (fun a => iswhite E.H (gcat g a).marked || all)) lx ∧
        (∀ a, allocated g1 a = allocated g a ∧ (gcat g1 a).marked = (gcat g a).marked)) ∧
    (∀ o lt2, lt = o :: lt2 →
      ∃ g1, udata2finalize E.H g = some (g1, o) ∧ Owned E.H g1 (o :: la) lf lt2 lx ∧
        (∀ x, x ≠ o → objat g1 x = objat g x)) := by
  refine ⟨?_, ?_, ?_, ?_, ?_⟩
  · intro tt o ho
    obtain ⟨k1, k2⟩ := newobj_owned E.H hstd g la lf lt lx tt o h ho
    exact ⟨rfl, k1, k2⟩
  · intro o la2 e
    rw [e] at h
    exact fix_owned E.H hstd g la2 lf lt lx o h
  · intro o pre post mt fuel e hfuel htags
    rw [e] at h hfuel ⊢
    exact checkfinalizer_owned E hrel hstd g pre post lf lt lx o fuel mt h hfuel htags
  · intro all l1 r1 fuel e hlim hf1 hf2
    rw [e] at h
    exact separate_owned E.H g la l1 r1 lt lx all fuel h hlim hf1 hf2
  · intro o lt2 e
    rw [e] at h
    exact udata_owned E.H hstd g la lf lt2 lx o h

theorem ownership_preserved_witness :
    Releases exStepEnv.toGCEnv ∧ StdMarks exStepEnv.H ∧
    Owned exStepEnv.H exOwnSweep [0, 1, 6] [2, 3] [4] [5] ∧
    (∃ g1, luaC_checkfinalizer exStepEnv 4 exOwnSweep 0 (some 1) = some g1 ∧
      Owned exStepEnv.H g1 [6] [0, 2, 3] [4] [5] ∧ objat g1 1 = none) ∧
    (∃ g1, separatetobefnz exStepEnv.H 3 exOwnSweep false = some g1 ∧
      Owned exStepEnv.H g1 [0, 1, 6] [3] [4, 2] [5]) ∧
    (∃ g1, udata2finalize exStepEnv.H exOwnSweep = some (g1, 4) ∧
      Owned exStepEnv.H g1 [4, 0, 1, 6] [2, 3] [] [5]) ∧
    Owned exStepEnv.H (luaC_fix exStepEnv.H exOwnSweep 0) [1, 6] [2, 3] [4] [0, 5] ∧
    Owned exStepEnv.H (luaC_newobj exStepEnv.H exOwnSweep 5 7).1 [7, 0, 1, 6] [2, 3] [4] [5] :=
  have hrel : Releases exStepEnv.toGCEnv :=
    ⟨fun _ _ => rfl, fun _ _ => rfl, fun _ _ => rfl, fun _ _ => rfl, fun _ _ => rfl,
      fun _ _ => rfl⟩
  have h := ownership_preserved exStepEnv exOwnSweep [0, 1, 6] [2, 3] [4] [5] hrel (by decide)
    (by decide)
  ⟨hrel, by decide, by decide,
    match h.2.2.1 0 [] [1, 6] (some 1) 4 rfl (by decide) (by decide) with
    | ⟨g1, e, _, k⟩ =>
      ⟨g1, e, (k (by decide)).1, (k (by decide)).2.1 1 (by decide) (by decide)⟩,
    match h.2.2.2.1 false [2, 3] [] 3 rfl rfl (by decide) (by decide) with
    | ⟨g1, e, k, _⟩ => ⟨g1, e, k⟩,
    match h.2.2.2.2 4 [] rfl with
    | ⟨g1, e, k, _⟩ => ⟨g1, e, k⟩,
    h.2.1 0 [1, 6] rfl,
    (h.1 5 7 (by decide)).2.1⟩

/-! ### Computations that return, given enough fuel -/

theorem Ev_pure {α : Type} (a : α) : Ev (fun _ => some a) a := ⟨0, fun _ _ => rfl⟩

theorem Ev_bind {α β : Type} (c : Nat → Option α) (d : Nat → α → Option β) (a : α) (b : β)
    (h1 : Ev c a) (h2 : Ev (fun fuel => d fuel a) b) :
    Ev (fun fuel => (c fuel).bind (d fuel)) b := by
  obtain ⟨N1, e1⟩ := h1
  obtain ⟨N2, e2⟩ := h2
  refine ⟨max N1 N2, fun fuel hf => ?_⟩
  show (c fuel).bind (d fuel) = some b
  rw [e1 fuel (le_trans (le_max_left _ _) hf)]
  exact e2 fuel (le_trans (le_max_right _ _) hf)

theorem Ev_map {α β : Type} (c : Nat → Option α) (f : α → β) (a : α) (h1 : Ev c a) :
    Ev (fun fuel => (c fuel).map f) (f a) := by
  obtain ⟨N1, e1⟩ := h1
  refine ⟨N1, fun fuel hf => ?_⟩
  show (c fuel).map f = some (f a)
  rw [e1 fuel hf]
  rfl

theorem Ret_pure {α : Type} (a : α) (P : α → Prop) (h : P a) : Ret (fun _ => some a) P :=
  ⟨a, Ev_pure a, h⟩

theorem Ret_bind {α β : Type} (c : Nat → Option α) (d : Nat → α → Option β) (P : α → Prop)
    (Q : β → Prop) (h1 : Ret c P) (h2 : ∀ a, P a → Ret (fun fuel => d fuel a) Q) :
    Ret (fun fuel => (c fuel).bind (d fuel)) Q := by
  obtain ⟨a, e1, p1⟩ := h1
  obtain ⟨b, e2, p2⟩ := h2 a p1
  exact ⟨b, Ev_bind c d a b e1 e2, p2⟩

theorem Ret_map {α β : Type} (c : Nat → Option α) (f : α → β) (P : α → Prop)
    (Q : β → Prop) (h1 : Ret c P) (h2 : ∀ a, P a → Q (f a)) :
    Ret (fun fuel => (c fuel).map f) Q := by
  obtain ⟨a, e1, p1⟩ := h1
  exact ⟨f a, Ev_map c f a e1, h2 a p1⟩

/-- A loop `for` returns when each run of its body does, with an invariant `I`. -/
theorem Ret_forloop {σ : Type} (body : Nat → Nat → σ → Option σ) (I : σ → Prop)
    (h : ∀ i s, I s → Ret (fun fuel => body fuel i s) I) :
    ∀ (l : List Nat) (s : σ), I s → Ret (fun fuel => forloop (body fuel) l s) I
  | [], s, hs => Ret_pure s I hs
  | i :: l, s, hs =>
    Ret_bind (fun fuel => body fuel i s) (fun fuel => forloop (body fuel) l) I I (h i s hs)
      (fun a ha => Ret_forloop body I h l a ha)

/-! ### The number of white objects -/

theorem countP_lt {α : Type} (p q : α → Bool) (a : α) (hq : q a = true) (hp : p a = false) :
    ∀ l : List α, (∀ x ∈ l, p x = true → q x = true) → a ∈ l →
      List.countP p l < List.countP q l
  | [], _, hm => absurd hm (List.not_mem_nil a)
  | b :: l, hpq, hm => by
    have hle : List.countP p l ≤ List.countP q l :=
      List.countP_mono_left fun x hx => hpq x (List.mem_cons_of_mem b hx)
    by_cases c : a ∈ l
    · have ih := countP_lt p q a hq hp l (fun x hx => hpq x (List.mem_cons_of_mem b hx)) c
      rw [List.countP_cons, List.countP_cons]
      have := hpq b (List.mem_cons_self b l)
      by_cases cp : p b = true
      · rw [if_pos cp, if_pos (this cp)]
        omega
      · rw [if_neg cp]
        split <;> omega
    · have e : a = b := by
        rcases List.mem_cons.mp hm with e | e
        · exact e
        · exact absurd e c
      rw [List.countP_cons, List.countP_cons, ← e, if_pos hq, if_neg (by rw [hp]; decide)]
      omega

theorem whites_eq (H : Decls) (g : global_State) :
    whites H g = List.countP (fun a => iswhite H (gcat g a).marked) (List.range g.objs.length) := by
  unfold whites
  rw [List.countP_eq_length_filter]

theorem whites_le (H : Decls) (g g1 : global_State) (hlen : g1.objs.length = g.objs.length)
    (h : ∀ a, iswhite H (gcat g1 a).marked = true → iswhite H (gcat g a).marked = true) :
    whites H g1 ≤ whites H g := by
  rw [whites_eq, whites_eq, hlen]
  exact List.countP_mono_left fun x _ => h x

theorem whites_lt (H : Decls) (g g1 : global_State) (hlen : g1.objs.length = g.objs.length)
    (h : ∀ a, iswhite H (gcat g1 a).marked = true → iswhite H (gcat g a).marked = true)
    (a : Nat) (ha : a < g.objs.length) (hw : iswhite H (gcat g a).marked = true)
    (hn : iswhite H (gcat g1 a).marked = false) : whites H g1 + 1 ≤ whites H g := by
  rw [whites_eq, whites_eq, hlen]
  exact countP_lt _ _ a hw hn _ (fun x _ => h x) (List.mem_range.mpr ha)

/-! ### Lists linked by `gclist` -/

theorem GLinked_unique (g : global_State) :
    ∀ (l l1 : List Nat) (x : Option Nat), GLinked g x l → GLinked g x l1 → l = l1
  | [], [], _, _, _ => rfl
  | [], b :: l1, _, h, h1 => by
    have e : (none : Option Nat) = some b := h.symm.trans h1.1
    exact Option.noConfusion e
  | a :: l, [], _, h, h1 => by
    have e : (none : Option Nat) = some a := h1.symm.trans h.1
    exact Option.noConfusion e
  | a :: l, b :: l1, _, h, h1 => by
    have e : a = b := Option.some.inj (h.1.symm.trans h1.1)
    subst e
    rw [GLinked_unique g l l1 _ h.2.2 h1.2.2]

theorem GLinked_congr (g g1 : global_State) :
    ∀ (l : List Nat) (x : Option Nat),
      (∀ a ∈ l, allocated g1 a = true ∧ (gcat g1 a).gclist = (gcat g a).gclist) →
      GLinked g x l → GLinked g1 x l
  | [], _, _, h => h
  | a :: l, _, hc, h => by
    refine ⟨h.1, (hc a (List.mem_cons_self a l)).1, ?_⟩
    rw [(hc a (List.mem_cons_self a l)).2]
    exact GLinked_congr g g1 l _ (fun b hb => hc b (List.mem_cons_of_mem a hb)) h.2.2

theorem GLinked_allocated (g : global_State) :
    ∀ (l : List Nat) (x : Option Nat), GLinked g x l → ∀ a ∈ l, allocated g a = true
  | [], _, _, a, ha => absurd ha (List.not_mem_nil a)
  | b :: l, _, h, a, ha => by
    rcases List.mem_cons.mp ha with e | e
    · rw [e]
      exact h.2.1
    · exact GLinked_allocated g l _ h.2.2 a e

/-! ### The frame of marking -/

theorem Keep_refl (g : global_State) : Keep g g :=
  ⟨rfl, rfl, fun _ => ⟨rfl, rfl, rfl, _, _, _, _, _, rfl⟩, fun l h => ⟨[], h⟩,
    fun l h => ⟨[], h⟩⟩

theorem Keep_trans (g g1 g2 : global_State) (h1 : Keep g g1) (h2 : Keep g1 g2) : Keep g g2 := by
  obtain ⟨a1, a2, a3, a4, a5⟩ := h1
  obtain ⟨b1, b2, b3, b4, b5⟩ := h2
  refine ⟨b1.trans a1, ?_, ?_, ?_, ?_⟩
  · rw [b2, a2]
  · intro a
    obtain ⟨c1, c2, c3, m, gl, nd, ar, th, c4⟩ := a3 a
    obtain ⟨d1, d2, d3, m2, gl2, nd2, ar2, th2, d4⟩ := b3 a
    refine ⟨d1.trans c1, d2.trans c2, d3.trans c3, m2, gl2, nd2, ar2, th2, ?_⟩
    rw [d4, c4]
  · intro l hl
    obtain ⟨pre, hp⟩ := a4 l hl
    obtain ⟨pre2, hp2⟩ := b4 _ hp
    exact ⟨pre2 ++ pre, by rw [List.append_assoc]; exact hp2⟩
  · intro l hl
    obtain ⟨pre, hp⟩ := a5 l hl
    obtain ⟨pre2, hp2⟩ := b5 _ hp
    exact ⟨pre2 ++ pre, by rw [List.append_assoc]; exact hp2⟩

/-- What marking keeps of an object. -/
theorem Keep_obj (g g1 : global_State) (h : Keep g g1) (a : Nat) :
    (gcat g1 a).tt = (gcat g a).tt ∧ (gcat g1 a).v = (gcat g a).v ∧
    (gcat g1 a).metatable = (gcat g a).metatable ∧ (gcat g1 a).next = (gcat g a).next ∧
    (gcat g1 a).isopen = (gcat g a).isopen ∧ (gcat g1 a).nuvalue = (gcat g a).nuvalue ∧
    (gcat g1 a).openupval = (gcat g a).openupval := by
  obtain ⟨m, gl, nd, ar, th, e⟩ := (h.2.2.1 a).2.2.2
  rw [e]
  exact ⟨rfl, rfl, rfl, rfl, rfl, rfl, rfl⟩

theorem Typed_keep (H : Decls) (g g1 : global_State) (hk : Keep g g1) (h : Typed H g) :
    Typed H g1 := by
  constructor
  · intro x hx h1 h2
    rw [hk.1] at hx
    rw [(Keep_obj g g1 hk x).2.1, (Keep_obj g g1 hk _).1]
    rw [(Keep_obj g g1 hk x).1] at h1
    rw [(Keep_obj g g1 hk x).2.1] at h2
    exact h.1 x hx h1 h2
  · intro x hx h1 t h2
    rw [hk.1] at hx
    rw [(Keep_obj g g1 hk x).1] at h1
    rw [(Keep_obj g g1 hk x).2.2.1] at h2
    rw [(Keep_obj g g1 hk t).1]
    exact h.2 x hx h1 t h2

theorem Tagged_keep (H : Decls) (g g1 : global_State) (hk : Keep g g1) (h : Tagged H g) :
    Tagged H g1 := by
  intro a ha hal
  rw [hk.1] at ha
  rw [(hk.2.2.1 a).1] at hal
  rw [(Keep_obj g g1 hk a).1]
  exact h a ha hal

theorem getgclist_keep (H : Decls) (g g1 : global_State) (hk : Keep g g1) (a : Nat) :
    getgclist H g1 a = getgclist H g a := by
  unfold getgclist
  rw [(Keep_obj g g1 hk a).1]

theorem Good_mono (H : Decls) (n m : Nat) (g : global_State) (x o : Option Nat) (hnm : n ≤ m)
    (h : Good H n g x o) : Good H m g x o := by
  obtain ⟨h1, h2, ls, ld, h3, h4, h5⟩ := h
  exact ⟨h1, h2, ls, ld, h3, le_trans h4 hnm, h5⟩

theorem Good_weaken (H : Decls) (n : Nat) (g : global_State) (x o : Option Nat)
    (h : Good H n g x o) : Good H n g x none := by
  obtain ⟨h1, h2, ls, ld, h3, h4, _⟩ := h
  exact ⟨h1, h2, ls, ld, h3, h4, fun a e => Option.noConfusion e⟩

theorem WFL_keep (H : Decls) (g g1 : global_State) (ls : GrayList → List Nat) (x : Option Nat)
    (ld : List Nat) (hheads : ∀ l, grayhead g1 l = grayhead g l)
    (hobj : ∀ a, allocated g1 a = allocated g a ∧ (gcat g1 a).gclist = (gcat g a).gclist ∧
      (gcat g1 a).tt = (gcat g a).tt ∧
      (iswhite H (gcat g a).marked = false → iswhite H (gcat g1 a).marked = false))
    (h : WFL H g ls x ld) : WFL H g1 ls x ld := by
  have hgl : ∀ (l : List Nat) (y : Option Nat), GLinked g y l → GLinked g1 y l := by
    intro l y hl
    refine GLinked_congr g g1 l y (fun a ha => ⟨?_, (hobj a).2.1⟩) hl
    rw [(hobj a).1]
    exact GLinked_allocated g l y hl a ha
  have hk : ∀ a, getgclist H g1 a = getgclist H g a := by
    intro a
    unfold getgclist
    rw [(hobj a).2.2.1]
  refine ⟨fun l => ?_, hgl _ _ h.det, h.nodup, h.nodupd, h.disj, h.disjd,
    fun l a ha => (hobj a).2.2.2 (h.nonwhite l a ha), fun a ha => (hobj a).2.2.2 (h.nonwhited a ha),
    fun l a ha => (hk a).trans (h.kind l a ha), fun a ha => (hk a).trans (h.kindd a ha)⟩
  rw [hheads l]
  exact hgl _ _ (h.lists l)

theorem allocated_gcset (g : global_State) (a x : Nat) (o : GCObj) (ha : allocated g a = true) :
    allocated (gcset g a o) x = allocated g x := by
  rw [allocated_eq, allocated_eq, objat_gcset]
  by_cases c : x = a ∧ a < g.objs.length
  · rw [if_pos c, c.1, ← allocated_eq, ha]
    rfl
  · rw [if_neg c]

/-- A store into the fields of an object that the lists do not depend on. -/
theorem Keep_gcset (g : global_State) (a m : Nat) (nd : List Node) (ar : List TValue)
    (t : lua_State) (ha : allocated g a = true) (hn : nd.length = (gcat g a).node.length)
    (har : ar.length = (gcat g a).array.length) :
    Keep g (gcset g a { gcat g a with marked := m, node := nd, array := ar, th := t }) := by
  have hin := allocated_lt g a ha
  have hgl : ∀ x, (gcat (gcset g a
      { gcat g a with marked := m, node := nd, array := ar, th := t }) x).gclist =
      (gcat g x).gclist := by
    intro x
    rw [gcat_gcset]
    split
    · rename_i c
      rw [c.1]
    · rfl
  have hl : ∀ (l : List Nat) (y : Option Nat), GLinked g y l →
      GLinked (gcset g a { gcat g a with marked := m, node := nd, array := ar, th := t }) y l := by
    intro l y h
    refine GLinked_congr _ _ l y (fun b hb => ⟨?_, hgl b⟩) h
    rw [allocated_gcset g a b _ ha]
    exact GLinked_allocated g l y h b hb
  refine ⟨length_gcset g a _, rfl, ?_, fun l h => ⟨[], hl _ _ h⟩, fun l h => ⟨[], hl _ _ h⟩⟩
  intro x
  rw [allocated_gcset g a x _ ha, gcat_gcset]
  by_cases c : x = a ∧ a < g.objs.length
  · rw [if_pos c, c.1]
    exact ⟨rfl, hn, har, m, _, nd, ar, t, rfl⟩
  · rw [if_neg c]
    exact ⟨rfl, rfl, rfl, _, _, _, _, _, rfl⟩

/-- A store into an object that leaves it, or makes it, an object that is not white keeps
the state of the collection; after a store into a white object the measure is less. -/
theorem Good_gcset (H : Decls) (n : Nat) (g : global_State) (x o : Option Nat) (a m : Nat)
    (nd : List Node) (ar : List TValue) (t : lua_State) (hg : Good H n g x o)
    (ha : allocated g a = true) (hn : nd.length = (gcat g a).node.length)
    (har : ar.length = (gcat g a).array.length) (hm : iswhite H m = false) :
    Good H n (gcset g a { gcat g a with marked := m, node := nd, array := ar, th := t }) x o ∧
    (iswhite H (gcat g a).marked = true → 2 ≤ n ∧
      Good H (n - 2) (gcset g a { gcat g a with marked := m, node := nd, array := ar, th := t })
        x o) := by
  obtain ⟨g1, hg1⟩ : ∃ g1, g1 =
    gcset g a { gcat g a with marked := m, node := nd, array := ar, th := t } := ⟨_, rfl⟩
  rw [← hg1]
  have hk : Keep g g1 := by
    rw [hg1]
    exact Keep_gcset g a m nd ar t ha hn har
  have hin := allocated_lt g a ha
  have hobj : ∀ b, allocated g1 b = allocated g b ∧ (gcat g1 b).gclist = (gcat g b).gclist ∧
      (gcat g1 b).tt = (gcat g b).tt ∧
      (iswhite H (gcat g b).marked = false → iswhite H (gcat g1 b).marked = false) := by
    intro b
    refine ⟨(hk.2.2.1 b).1, ?_, (Keep_obj g g1 hk b).1, ?_⟩
    · rw [hg1, gcat_gcset]
      split
      · rename_i c
        rw [c.1]
      · rfl
    · rw [hg1, gcat_gcset]
      split
      · exact fun _ => hm
      · exact fun h => h
  have hmono : ∀ b, iswhite H (gcat g1 b).marked = true → iswhite H (gcat g b).marked = true := by
    intro b hb
    by_contra c
    rw [(hobj b).2.2.2 (by simpa using c)] at hb
    exact absurd hb (by decide)
  have hheads : ∀ l, grayhead g1 l = grayhead g l := by
    intro l
    rw [hg1]
    cases l <;> rfl
  obtain ⟨h1, h2, ls, ld, h3, h4, h5⟩ := hg
  have hw := WFL_keep H g g1 ls x ld hheads hobj h3
  have h5' : ∀ b, o = some b → (∀ l, b ∉ ls l) ∧ b ∉ ld ∧ iswhite H (gcat g1 b).marked = false ∧
      allocated g1 b = true ∧ getgclist H g1 b = true := by
    intro b hb
    obtain ⟨c1, c2, c3, c4, c5⟩ := h5 b hb
    exact ⟨c1, c2, (hobj b).2.2.2 c3, (hobj b).1.trans c4, (getgclist_keep H g g1 hk b).trans c5⟩
  have hle := whites_le H g g1 hk.1 hmono
  refine ⟨⟨Typed_keep H g g1 hk h1, Tagged_keep H g g1 hk h2, ls, ld, hw, by omega, h5'⟩, ?_⟩
  intro hwa
  have hlt := whites_lt H g g1 hk.1 hmono a hin hwa (by
    rw [hg1, gcat_gcset, if_pos ⟨rfl, hin⟩]
    exact hm)
  exact ⟨by omega, Typed_keep H g g1 hk h1, Tagged_keep H g g1 hk h2, ls, ld, hw, by omega, h5'⟩

theorem setmarked_eq (g : global_State) (a m : Nat) :
    setmarked g a m = gcset g a { gcat g a with marked := m, node := (gcat g a).node, array := (gcat g a).array, th := (gcat g a).th } := rfl

theorem Good_setmarked (H : Decls) (n : Nat) (g : global_State) (x o : Option Nat) (a m : Nat)
    (hg : Good H n g x o) (ha : allocated g a = true) (hm : iswhite H m = false) :
    Good H n (setmarked g a m) x o ∧ Keep g (setmarked g a m) ∧
    (iswhite H (gcat g a).marked = true → 2 ≤ n ∧ Good H (n - 2) (setmarked g a m) x o) := by
  rw [setmarked_eq]
  exact ⟨(Good_gcset H n g x o a m _ _ _ hg ha rfl rfl hm).1, Keep_gcset g a m _ _ _ ha rfl rfl,
    (Good_gcset H n g x o a m _ _ _ hg ha rfl rfl hm).2⟩

theorem thset_eq (g : global_State) (a : Nat) (t : lua_State) :
    thset g a t = gcset g a { gcat g a with marked := (gcat g a).marked, node := (gcat g a).node, array := (gcat g a).array, th := t } := rfl

theorem nodeset_eq (g : global_State) (a i : Nat) (nd : Node) :
    nodeset g a i nd = gcset g a { gcat g a with marked := (gcat g a).marked, node := (gcat g a).node.set i nd, array := (gcat g a).array, th := (gcat g a).th } := rfl

/-! ### Linking an object into a list -/

theorem grayhead_linkgclist (H : Decls) (g : global_State) (o : Nat) (l l1 : GrayList) :
    grayhead (linkgclist_ H g o l) l1 = if l1 = l then some o else grayhead g l1 := by
  cases l <;> cases l1 <;> rfl

theorem rest_linkgclist (H : Decls) (g : global_State) (o : Nat) (l : GrayList) :
    linkgclist_ H g o l =
      { g with objs := (linkgclist_ H g o l).objs, gray := (linkgclist_ H g o l).gray,
               grayagain := (linkgclist_ H g o l).grayagain, weak := (linkgclist_ H g o l).weak,
               ephemeron := (linkgclist_ H g o l).ephemeron,
               allweak := (linkgclist_ H g o l).allweak, twups := (linkgclist_ H g o l).twups } := by
  cases l <;> rfl

theorem gcat_linkgclist_ne (H : Decls) (g : global_State) (o x : Nat) (l : GrayList)
    (hx : x ≠ o) : gcat (linkgclist_ H g o l) x = gcat g x :=
  gcat_congr _ _ x (objat_linkgclist_ne H g o x l hx)

theorem allocated_linkgclist (H : Decls) (g : global_State) (o x : Nat) (l : GrayList)
    (ho : allocated g o = true) : allocated (linkgclist_ H g o l) x = allocated g x := by
  by_cases c : x = o
  · rw [c, allocated_eq, objat_linkgclist_self H g o l (allocated_lt g o ho), ho]
    rfl
  · exact allocated_congr _ _ x (objat_linkgclist_ne H g o x l c)

/-- A list that does not hold the object linked is the list of before. -/
theorem GLinked_linkgclist (H : Decls) (g : global_State) (o : Nat) (l : GrayList)
    (ho : allocated g o = true) (l0 : List Nat) (y : Option Nat) (hn : o ∉ l0)
    (h : GLinked g y l0) : GLinked (linkgclist_ H g o l) y l0 := by
  refine GLinked_congr _ _ l0 y (fun b hb => ?_) h
  have hne : b ≠ o := fun c => hn (c ▸ hb)
  rw [allocated_linkgclist H g o b l ho, gcat_linkgclist_ne H g o b l hne]
  exact ⟨GLinked_allocated g l0 y h b hb, rfl⟩

theorem Keep_linkgclist (H : Decls) (g : global_State) (o : Nat) (l : GrayList)
    (ho : allocated g o = true)
    (hw : ∀ l0, GLinked g g.weak l0 → o ∉ l0) (ha : ∀ l0, GLinked g g.allweak l0 → o ∉ l0) :
    Keep g (linkgclist_ H g o l) := by
  have hin := allocated_lt g o ho
  refine ⟨length_linkgclist H g o l, rest_linkgclist H g o l, ?_, ?_, ?_⟩
  · intro x
    refine ⟨allocated_linkgclist H g o x l ho, ?_⟩
    by_cases c : x = o
    · rw [c, gcat_linkgclist_self H g o l hin]
      exact ⟨rfl, rfl, _, _, _, _, _, rfl⟩
    · rw [gcat_linkgclist_ne H g o x l c]
      exact ⟨rfl, rfl, _, _, _, _, _, rfl⟩
  · intro l0 h0
    have h1 := GLinked_linkgclist H g o l ho l0 _ (hw l0 h0) h0
    by_cases c : l = GrayList.weak
    · refine ⟨[o], ?_⟩
      have e := grayhead_linkgclist H g o l GrayList.weak
      rw [if_pos c.symm] at e
      refine ⟨e, (allocated_linkgclist H g o o l ho).trans ho, ?_⟩
      rw [gcat_linkgclist_self H g o l hin]
      subst c
      exact h1
    · refine ⟨[], ?_⟩
      have e := grayhead_linkgclist H g o l GrayList.weak
      rw [if_neg (fun k => c k.symm)] at e
      show GLinked _ (grayhead _ GrayList.weak) l0
      rw [e]
      exact h1
  · intro l0 h0
    have h1 := GLinked_linkgclist H g o l ho l0 _ (ha l0 h0) h0
    by_cases c : l = GrayList.allweak
    · refine ⟨[o], ?_⟩
      have e := grayhead_linkgclist H g o l GrayList.allweak
      rw [if_pos c.symm] at e
      refine ⟨e, (allocated_linkgclist H g o o l ho).trans ho, ?_⟩
      rw [gcat_linkgclist_self H g o l hin]
      subst c
      exact h1
    · refine ⟨[], ?_⟩
      have e := grayhead_linkgclist H g o l GrayList.allweak
      rw [if_neg (fun k => c k.symm)] at e
      show GLinked _ (grayhead _ GrayList.allweak) l0
      rw [e]
      exact h1

theorem WFL_link (H : Decls) (hstd : StdMarks H) (g : global_State) (ls : GrayList → List Nat)
    (x : Option Nat) (ld : List Nat) (o : Nat) (l : GrayList) (h : WFL H g ls x ld)
    (ho : allocated g o = true) (hk : getgclist H g o = true) (hf : ∀ l1, o ∉ ls l1)
    (hfd : o ∉ ld) :
    WFL H (linkgclist_ H g o l) (Function.update ls l (o :: ls l)) x ld := by
  have hin := allocated_lt g o ho
  have hmem : ∀ l1 a, a ∈ Function.update ls l (o :: ls l) l1 → a = o ∧ l1 = l ∨ a ∈ ls l1 := by
    intro l1 a ha
    rw [Function.update_apply] at ha
    by_cases c : l1 = l
    · rw [if_pos c] at ha
      rcases List.mem_cons.mp ha with e | e
      · exact Or.inl ⟨e, c⟩
      · exact Or.inr (c ▸ e)
    · rw [if_neg c] at ha
      exact Or.inr ha
  have hnw : ∀ a, (a = o ∨ iswhite H (gcat g a).marked = false) →
      iswhite H (gcat (linkgclist_ H g o l) a).marked = false := by
    intro a ha
    by_cases c : a = o
    · rw [c, gcat_linkgclist_self H g o l hin]
      exact iswhite_set2gray H hstd _
    · rw [gcat_linkgclist_ne H g o a l c]
      rcases ha with e | e
      · exact absurd e c
      · exact e
  have hkd : ∀ a, (a = o ∨ getgclist H g a = true) → getgclist H (linkgclist_ H g o l) a = true := by
    intro a ha
    have e : (gcat (linkgclist_ H g o l) a).tt = (gcat g a).tt := by
      by_cases c : a = o
      · rw [c, gcat_linkgclist_self H g o l hin]
      · rw [gcat_linkgclist_ne H g o a l c]
    have e2 : getgclist H (linkgclist_ H g o l) a = getgclist H g a := by
      unfold getgclist
      rw [e]
    rw [e2]
    rcases ha with c | c
    · rw [c]
      exact hk
    · exact c
  refine ⟨?_, GLinked_linkgclist H g o l ho ld x hfd h.det, ?_, h.nodupd, ?_, ?_, ?_,
    fun a ha => hnw a (Or.inr (h.nonwhited a ha)), ?_, fun a ha => hkd a (Or.inr (h.kindd a ha))⟩
  · intro l1
    rw [grayhead_linkgclist, Function.update_apply]
    by_cases c : l1 = l
    · rw [if_pos c, if_pos c]
      refine ⟨rfl, (allocated_linkgclist H g o o l ho).trans ho, ?_⟩
      rw [gcat_linkgclist_self H g o l hin]
      exact GLinked_linkgclist H g o l ho _ _ (hf l) (h.lists l)
    · rw [if_neg c, if_neg c]
      exact GLinked_linkgclist H g o l ho _ _ (hf l1) (h.lists l1)
  · intro l1
    rw [Function.update_apply]
    by_cases c : l1 = l
    · rw [if_pos c]
      exact List.nodup_cons.mpr ⟨hf l, h.nodup l⟩
    · rw [if_neg c]
      exact h.nodup l1
  · intro l1 l2 a h1 h2
    rcases hmem l1 a h1 with ⟨e1, k1⟩ | e1 <;> rcases hmem l2 a h2 with ⟨e2, k2⟩ | e2
    · rw [k1, k2]
    · exact absurd (e1 ▸ e2) (hf l2)
    · exact absurd (e2 ▸ e1) (hf l1)
    · exact h.disj l1 l2 a e1 e2
  · intro l1 a h1
    rcases hmem l1 a h1 with ⟨e1, _⟩ | e1
    · rw [e1]
      exact hfd
    · exact h.disjd l1 a e1
  · intro l1 a h1
    rcases hmem l1 a h1 with ⟨e1, _⟩ | e1
    · exact hnw a (Or.inl e1)
    · exact hnw a (Or.inr (h.nonwhite l1 a e1))
  · intro l1 a h1
    rcases hmem l1 a h1 with ⟨e1, _⟩ | e1
    · exact hkd a (Or.inl e1)
    · exact hkd a (Or.inr (h.kind l1 a e1))

theorem whites_linkgclist (H : Decls) (hstd : StdMarks H) (g : global_State) (o : Nat)
    (l : GrayList) (ho : allocated g o = true) :
    whites H (linkgclist_ H g o l) ≤ whites H g ∧
    (iswhite H (gcat g o).marked = true → whites H (linkgclist_ H g o l) + 1 ≤ whites H g) := by
  have hin := allocated_lt g o ho
  have hmono : ∀ b, iswhite H (gcat (linkgclist_ H g o l) b).marked = true →
      iswhite H (gcat g b).marked = true := by
    intro b hb
    by_cases c : b = o
    · rw [c, gcat_linkgclist_self H g o l hin, iswhite_set2gray H hstd] at hb
      exact absurd hb (by decide)
    · rw [gcat_linkgclist_ne H g o b l c] at hb
      exact hb
  refine ⟨whites_le H g _ (length_linkgclist H g o l) hmono, fun hw => ?_⟩
  refine whites_lt H g _ (length_linkgclist H g o l) hmono o hin hw ?_
  rw [gcat_linkgclist_self H g o l hin]
  exact iswhite_set2gray H hstd _

/-- An object that is not white and is in no list is linked into a list other than `gray`. -/
theorem Good_link (H : Decls) (hstd : StdMarks H) (n : Nat) (g : global_State)
    (x : Option Nat) (o : Nat) (l : GrayList) (hl : l ≠ GrayList.gray)
    (hg : Good H n g x (some o)) :
    Good H n (linkgclist_ H g o l) x none ∧ Keep g (linkgclist_ H g o l) := by
  obtain ⟨h1, h2, ls, ld, h3, h4, h5⟩ := hg
  obtain ⟨c1, c2, c3, c4, c5⟩ := h5 o rfl
  have hk : Keep g (linkgclist_ H g o l) := by
    refine Keep_linkgclist H g o l c4 (fun l0 h0 => ?_) (fun l0 h0 => ?_)
    · rw [GLinked_unique g l0 _ _ h0 (h3.lists GrayList.weak)]
      exact c1 _
    · rw [GLinked_unique g l0 _ _ h0 (h3.lists GrayList.allweak)]
      exact c1 _
  refine ⟨⟨Typed_keep H g _ hk h1, Tagged_keep H g _ hk h2, _, ld,
    WFL_link H hstd g ls x ld o l h3 c4 c5 c1 c2, ?_, fun a e => Option.noConfusion e⟩, hk⟩
  rw [Function.update_apply, if_neg (fun k => hl k.symm)]
  have := (whites_linkgclist H hstd g o l c4).1
  omega

/-- A white object is linked into the list `gray`: the measure is less. -/
theorem Good_linkgray (H : Decls) (hstd : StdMarks H) (n : Nat) (g : global_State)
    (x oo : Option Nat) (o : Nat) (hg : Good H n g x oo) (ho : allocated g o = true)
    (hkd : getgclist H g o = true) (hw : iswhite H (gcat g o).marked = true) :
    1 ≤ n ∧ Good H (n - 1) (linkgclist_ H g o GrayList.gray) x oo ∧
    Keep g (linkgclist_ H g o GrayList.gray) := by
  obtain ⟨h1, h2, ls, ld, h3, h4, h5⟩ := hg
  have hf : ∀ l1, o ∉ ls l1 := by
    intro l1 c
    rw [h3.nonwhite l1 o c] at hw
    exact absurd hw (by decide)
  have hfd : o ∉ ld := by
    intro c
    rw [h3.nonwhited o c] at hw
    exact absurd hw (by decide)
  have hk : Keep g (linkgclist_ H g o GrayList.gray) := by
    refine Keep_linkgclist H g o _ ho (fun l0 h0 => ?_) (fun l0 h0 => ?_)
    · rw [GLinked_unique g l0 _ _ h0 (h3.lists GrayList.weak)]
      exact hf _
    · rw [GLinked_unique g l0 _ _ h0 (h3.lists GrayList.allweak)]
      exact hf _
  have hlt := (whites_linkgclist H hstd g o GrayList.gray ho).2 hw
  refine ⟨by omega, ⟨Typed_keep H g _ hk h1, Tagged_keep H g _ hk h2, _, ld,
    WFL_link H hstd g ls x ld o GrayList.gray h3 ho hkd hf hfd, ?_, ?_⟩, hk⟩
  · rw [Function.update_apply, if_pos rfl, List.length_cons]
    omega
  · intro b hb
    obtain ⟨c1, c2, c3, c4, c5⟩ := h5 b hb
    have hne : b ≠ o := by
      intro c
      rw [c, hw] at c3
      exact absurd c3 (by decide)
    refine ⟨fun l1 c => ?_, c2, ?_, ?_, ?_⟩
    · rw [Function.update_apply] at c
      by_cases k : l1 = GrayList.gray
      · rw [if_pos k] at c
        rcases List.mem_cons.mp c with e | e
        · exact hne e
        · exact c1 _ e
      · rw [if_neg k] at c
        exact c1 _ c
    · rw [gcat_linkgclist_ne H g o b _ hne]
      exact c3
    · rw [allocated_linkgclist H g o b _ ho]
      exact c4
    · rw [getgclist_keep H g _ hk b]
      exact c5

/-! ### Changes to the heads of the lists -/

theorem gcat_same (g g1 : global_State) (h : g1.objs = g.objs) (a : Nat) :
    gcat g1 a = gcat g a := (gcat_objs g g1 h a).1

theorem allocated_objs (g g1 : global_State) (h : g1.objs = g.objs) (a : Nat) :
    allocated g1 a = allocated g a := by
  unfold allocated
  rw [h]

theorem GLinked_objs (g g1 : global_State) (h : g1.objs = g.objs) (l : List Nat)
    (y : Option Nat) (hl : GLinked g y l) : GLinked g1 y l := by
  refine GLinked_congr g g1 l y (fun a ha => ?_) hl
  rw [allocated_objs g g1 h, gcat_same g g1 h]
  exact ⟨GLinked_allocated g l y hl a ha, rfl⟩

theorem whites_objs (H : Decls) (g g1 : global_State) (h : g1.objs = g.objs) :
    whites H g1 = whites H g := by
  unfold whites
  rw [h]
  congr 1
  apply List.filter_congr
  intro a _
  rw [gcat_same g g1 h]

theorem Typed_objs (H : Decls) (g g1 : global_State) (h : g1.objs = g.objs) (ht : Typed H g) :
    Typed H g1 := by
  constructor
  · intro x hx h1 h2
    rw [h] at hx
    rw [gcat_same g g1 h] at h1 h2 ⊢
    rw [gcat_same g g1 h]
    exact ht.1 x hx h1 h2
  · intro x hx h1 t h2
    rw [h] at hx
    rw [gcat_same g g1 h] at h1 h2 ⊢
    exact ht.2 x hx h1 t h2

theorem Tagged_objs (H : Decls) (g g1 : global_State) (h : g1.objs = g.objs) (ht : Tagged H g) :
    Tagged H g1 := by
  intro a ha hal
  rw [h] at ha
  rw [allocated_objs g g1 h] at hal
  rw [gcat_same g g1 h]
  exact ht a ha hal

theorem getgclist_objs (H : Decls) (g g1 : global_State) (h : g1.objs = g.objs) (a : Nat) :
    getgclist H g1 a = getgclist H g a := by
  unfold getgclist
  rw [gcat_same g g1 h]

/-- The lists after a change to heads of lists only, the objects of the lists being objects
of the lists of before. -/
theorem WFL_rearrange (H : Decls) (g g1 : global_State) (ls ls1 : GrayList → List Nat)
    (x x1 : Option Nat) (ld ld1 : List Nat) (hobjs : g1.objs = g.objs) (h : WFL H g ls x ld)
    (hl : ∀ l, GLinked g (grayhead g1 l) (ls1 l)) (hd : GLinked g x1 ld1)
    (hn : ∀ l, (ls1 l).Nodup) (hnd : ld1.Nodup)
    (hdisj : ∀ l l1 a, a ∈ ls1 l → a ∈ ls1 l1 → l = l1) (hdisjd : ∀ l a, a ∈ ls1 l → a ∉ ld1)
    (hsub : ∀ l a, a ∈ ls1 l → (∃ l1, a ∈ ls l1) ∨ a ∈ ld)
    (hsubd : ∀ a, a ∈ ld1 → (∃ l1, a ∈ ls l1) ∨ a ∈ ld) : WFL H g1 ls1 x1 ld1 := by
  have hnw : ∀ a, ((∃ l1, a ∈ ls l1) ∨ a ∈ ld) → iswhite H (gcat g1 a).marked = false := by
    intro a ha
    rw [gcat_same g g1 hobjs]
    rcases ha with ⟨l1, c⟩ | c
    · exact h.nonwhite l1 a c
    · exact h.nonwhited a c
  have hk : ∀ a, ((∃ l1, a ∈ ls l1) ∨ a ∈ ld) → getgclist H g1 a = true := by
    intro a ha
    rw [getgclist_objs H g g1 hobjs]
    rcases ha with ⟨l1, c⟩ | c
    · exact h.kind l1 a c
    · exact h.kindd a c
  exact ⟨fun l => GLinked_objs g g1 hobjs _ _ (hl l), GLinked_objs g g1 hobjs _ _ hd, hn, hnd,
    hdisj, hdisjd, fun l a ha => hnw a (hsub l a ha), fun a ha => hnw a (hsubd a ha),
    fun l a ha => hk a (hsub l a ha), fun a ha => hk a (hsubd a ha)⟩

/-- The list besides those of the state is made the list `gray`, which is empty. -/
theorem Good_attach (H : Decls) (n : Nat) (g : global_State) (x : Option Nat)
    (hgray : g.gray = none) (hg : Good H n g x none) :
    Good H n { g with gray := x } none none := by
  obtain ⟨h1, h2, ls, ld, h3, h4, _⟩ := hg
  have hnil : ls GrayList.gray = [] := by
    have hgl := h3.lists GrayList.gray
    cases hc : ls GrayList.gray with
    | nil => rfl
    | cons b rest =>
      rw [hc] at hgl
      have e : g.gray = some b := hgl.1
      rw [hgray] at e
      exact Option.noConfusion e
  have hmem : ∀ l1 b, b ∈ Function.update ls GrayList.gray ld l1 →
      (b ∈ ls l1 ∧ l1 ≠ GrayList.gray) ∨ (b ∈ ld ∧ l1 = GrayList.gray) := by
    intro l1 b hb
    rw [Function.update_apply] at hb
    by_cases c : l1 = GrayList.gray
    · rw [if_pos c] at hb
      exact Or.inr ⟨hb, c⟩
    · rw [if_neg c] at hb
      exact Or.inl ⟨hb, c⟩
  refine ⟨Typed_objs H g _ rfl h1, Tagged_objs H g _ rfl h2,
    Function.update ls GrayList.gray ld, [], ?_, ?_, fun a e => Option.noConfusion e⟩
  · refine WFL_rearrange H g _ ls _ x none ld [] rfl h3 (fun l1 => ?_) rfl (fun l1 => ?_)
      List.nodup_nil ?_ (fun l1 b _ c => absurd c (List.not_mem_nil b)) ?_
      (fun b hb => absurd hb (List.not_mem_nil b))
    · rw [Function.update_apply]
      by_cases c : l1 = GrayList.gray
      · rw [if_pos c, c]
        exact h3.det
      · rw [if_neg c]
        have e : grayhead { g with gray := x } l1 = grayhead g l1 := by
          cases l1
          · exact absurd rfl c
          all_goals rfl
        rw [e]
        exact h3.lists l1
    · rw [Function.update_apply]
      split
      · exact h3.nodupd
      · exact h3.nodup l1
    · intro l1 l2 b hb hb1
      rcases hmem l1 b hb with ⟨c1, k1⟩ | ⟨c1, k1⟩ <;> rcases hmem l2 b hb1 with ⟨c2, k2⟩ | ⟨c2, k2⟩
      · exact h3.disj l1 l2 b c1 c2
      · exact absurd c2 (h3.disjd l1 b c1)
      · exact absurd c1 (h3.disjd l2 b c2)
      · rw [k1, k2]
    · intro l1 b hb
      rcases hmem l1 b hb with ⟨c1, _⟩ | ⟨c1, _⟩
      · exact Or.inl ⟨l1, c1⟩
      · exact Or.inr c1
  · have e := whites_objs H g { g with gray := x } rfl
    rw [e, Function.update_apply, if_pos rfl]
    rw [hnil] at h4
    simp only [List.length_nil] at h4 ⊢
    omega

/-- The state of the collection when the lists are empty. -/
theorem Good_clear (H : Decls) (g : global_State) (ht : Typed H g) (htag : Tagged H g)
    (hh : ∀ l, grayhead g l = none) : Good H (2 * whites H g) g none none := by
  refine ⟨ht, htag, fun _ => [], [], ?_, by simp, fun a e => Option.noConfusion e⟩
  exact ⟨fun l => hh l, rfl, fun _ => List.nodup_nil, List.nodup_nil,
    fun l _ a ha => absurd ha (List.not_mem_nil a), fun _ a ha => absurd ha (List.not_mem_nil a),
    fun _ a ha => absurd ha (List.not_mem_nil a), fun a ha => absurd ha (List.not_mem_nil a),
    fun _ a ha => absurd ha (List.not_mem_nil a), fun a ha => absurd ha (List.not_mem_nil a)⟩

/-! ### The encoding of tags -/

theorem makevariant_bits : ∀ t, t < 16 → ∀ v, v < 4 →
    novariant (makevariant t v) = t ∧ withvariant (ctb (makevariant t v)) = makevariant t v := by
  decide

theorem low_tag_bit : ∀ x, x < 64 → x &&& (1 <<< 6) = 0 := by
  decide

/-- C32: the encoding of tags loses nothing.  For a type `t` below 16 and a variant `v` below
4, `novariant` gives back `t` from `makevariant t v` and `withvariant` gives back the tag from
the tag with the collectable bit.  A tag with the bit that `ctb` sets is collectable, and no
tag below 64 is.  With the type numbers of `lua.h`, the variant tags that `lobject.h` defines
are pairwise distinct, and a key with the tag `LUA_TDEADKEY` is not collectable. -/
theorem tag_encoding (H : Decls) (hb : StdBase H) (hty : StdTypes H) :
    (∀ t v, t < 16 → v < 4 → novariant (makevariant t v) = t ∧
      withvariant (ctb (makevariant t v)) = makevariant t v) ∧
    (∀ (x : Nat) (val : Value), iscollectable { value_ := val, tt_ := ctb x } = true) ∧
    (∀ (x : Nat) (val : Value), x < 64 → iscollectable { value_ := val, tt_ := x } = false) ∧
    (varianttags H).Nodup ∧
    (∀ n : Node, keyiscollectable { n with key_tt := LUA_TDEADKEY H } = false) := by
  obtain ⟨b1, b2, b3, b4⟩ := hb
  obtain ⟨t1, t2, t3, t4, t5, t6⟩ := hty
  refine ⟨fun t v ht hv => makevariant_bits t ht v hv, ?_, ?_, ?_, ?_⟩
  · intro x val
    show ((x ||| 1 <<< 6) &&& 1 <<< 6 != 0) = true
    rw [or_and_self]
    decide
  · intro x val hx
    show (x &&& 1 <<< 6 != 0) = false
    rw [low_tag_bit x hx]
    decide
  · unfold varianttags LUA_VNIL LUA_VEMPTY LUA_VABSTKEY LUA_VFALSE LUA_VTRUE LUA_VNUMINT
      LUA_VNUMFLT LUA_VSHRSTR LUA_VLNGSTR LUA_VLCL LUA_VLCF LUA_VCCL LUA_VTABLE LUA_VUSERDATA
      LUA_VLIGHTUSERDATA LUA_VTHREAD LUA_VUPVAL LUA_VPROTO LUA_TUPVAL LUA_TPROTO
    rw [b1, b2, b3, b4, t1, t2, t3, t4, t5, t6]
    decide
  · intro n
    show (LUA_TDEADKEY H &&& 1 <<< 6 != 0) = false
    unfold LUA_TDEADKEY
    rw [t6]
    decide

theorem tag_encoding_witness :
    StdBase lua544 ∧ StdTypes lua544 ∧ (varianttags lua544).Nodup :=
  ⟨by decide, by decide, (tag_encoding lua544 (by decide) (by decide)).2.2.2.1⟩

/-! ### The pause of the collector -/

theorem cast_lmem_id (H : Decls) (x : Int) (h1 : -((H.MAX_LMEM : Int) + 1) ≤ x)
    (h2 : x ≤ H.MAX_LMEM) : cast_lmem H x = x := by
  unfold cast_lmem
  rw [Int.emod_eq_of_lt (by omega) (by omega)]
  omega

theorem cast_lmem_lumem (H : Decls) (x : Int) : cast_lmem H (cast_lumem H x) = cast_lmem H x := by
  unfold cast_lmem cast_lumem
  rw [Int.emod_add_emod]

theorem cast_lumem_id (H : Decls) (x : Int) (h1 : 0 ≤ x) (h2 : x ≤ H.MAX_LMEM) :
    cast_lumem H x = x := by
  unfold cast_lumem
  exact Int.emod_eq_of_lt h1 (by omega)

theorem pause_product (M e p : Nat) (h : p < M / e) : e * p ≤ M := by
  have h1 : e * p ≤ e * (M / e) := Nat.mul_le_mul_left e (Nat.le_of_lt h)
  have h2 : e * (M / e) ≤ M := Nat.mul_div_le M e
  omega

/-- C37: for an estimate `GCestimate` of at least `PAUSEADJ`, `estimate = GCestimate / 100` is
positive; the product `estimate * pause` is formed only when `pause < MAX_LMEM / estimate`
and is then at most `MAX_LMEM`, so that it is the product of the integers; the threshold is
that product or else `MAX_LMEM`, hence between 0 and `MAX_LMEM`; and the debt handed to
`luaE_setdebt` is the smaller of 0 and `gettotalbytes(g) - threshold`, which is not positive.
(`GCestimate` is a value of the type `lu_mem`, and the total of bytes is a value between 0
and `MAX_LMEM`.) -/
theorem setpause_debt (E : StepEnv) (g : global_State) (hest : PAUSEADJ ≤ g.GCestimate)
    (hlu : g.GCestimate ≤ 2 * E.H.MAX_LMEM + 1)
    (htb : 0 ≤ g.totalbytes + g.GCdebt ∧ g.totalbytes + g.GCdebt ≤ E.H.MAX_LMEM) :
    0 < g.GCestimate / PAUSEADJ ∧
    (getgcparam g.gcpause < E.H.MAX_LMEM / (g.GCestimate / PAUSEADJ) →
      g.GCestimate / PAUSEADJ * getgcparam g.gcpause ≤ E.H.MAX_LMEM) ∧
    setpause_threshold E.H g =
      ((if getgcparam g.gcpause < E.H.MAX_LMEM / (g.GCestimate / PAUSEADJ) then
        g.GCestimate / PAUSEADJ * getgcparam g.gcpause else E.H.MAX_LMEM : Nat) : Int) ∧
    setpause_threshold E.H g ≤ E.H.MAX_LMEM ∧
    setpause E g =
      E.luaE_setdebt g (min 0 (g.totalbytes + g.GCdebt - setpause_threshold E.H g)) ∧
    min 0 (g.totalbytes + g.GCdebt - setpause_threshold E.H g) ≤ 0 := by
  have hpos : 0 < g.GCestimate / PAUSEADJ := Nat.div_pos hest (by decide)
  have hle : g.GCestimate / PAUSEADJ ≤ E.H.MAX_LMEM := by
    have : g.GCestimate / PAUSEADJ ≤ g.GCestimate / 2 := by
      unfold PAUSEADJ
      omega
    omega
  have hprod := pause_product E.H.MAX_LMEM (g.GCestimate / PAUSEADJ) (getgcparam g.gcpause)
  have hest2 : cast_lmem E.H ((g.GCestimate / PAUSEADJ : Nat) : Int) =
      ((g.GCestimate / PAUSEADJ : Nat) : Int) := cast_lmem_id E.H _ (by omega) (by omega)
  have hthr : setpause_threshold E.H g =
      ((if getgcparam g.gcpause < E.H.MAX_LMEM / (g.GCestimate / PAUSEADJ) then
        g.GCestimate / PAUSEADJ * getgcparam g.gcpause else E.H.MAX_LMEM : Nat) : Int) := by
    unfold setpause_threshold
    simp only []
    rw [hest2, Int.tdiv_eq_ediv (Int.ofNat_nonneg _) (Int.ofNat_nonneg _), ← Int.ofNat_ediv]
    by_cases c : getgcparam g.gcpause < E.H.MAX_LMEM / (g.GCestimate / PAUSEADJ)
    · rw [if_pos c, if_pos (Int.ofNat_lt.mpr c), ← Int.ofNat_mul]
      exact cast_lmem_id E.H _ (by omega) (by have := hprod c; omega)
    · rw [if_neg c, if_neg (fun k => c (Int.ofNat_lt.mp k))]
  have hbound : setpause_threshold E.H g ≤ E.H.MAX_LMEM ∧ 0 ≤ setpause_threshold E.H g := by
    rw [hthr]
    split
    · rename_i c
      have := hprod c
      omega
    · omega
  refine ⟨hpos, hprod, hthr, hbound.1, ?_, min_le_left _ _⟩
  unfold setpause
  simp only []
  have htot : gettotalbytes E.H g = g.totalbytes + g.GCdebt := by
    unfold gettotalbytes
    exact cast_lumem_id E.H _ htb.1 htb.2
  rw [cast_lmem_lumem, htot, cast_lmem_id E.H _ (by omega) (by omega)]
  congr 1
  by_cases c : g.totalbytes + g.GCdebt - setpause_threshold E.H g > 0
  · rw [if_pos c, min_eq_left (by omega)]
  · rw [if_neg c, min_eq_right (by omega)]

theorem setpause_debt_witness :
    PAUSEADJ ≤ exPause.GCestimate ∧ exPause.GCestimate ≤ 2 * exStepEnv.H.MAX_LMEM + 1 ∧
    (0 ≤ exPause.totalbytes + exPause.GCdebt ∧
      exPause.totalbytes + exPause.GCdebt ≤ exStepEnv.H.MAX_LMEM) ∧
    setpause_threshold exStepEnv.H exPause = 2000 ∧
    setpause exStepEnv exPause = exStepEnv.luaE_setdebt exPause (-500) := by
  have h := setpause_debt exStepEnv exPause (by decide) (by decide) (by decide)
  have e : setpause_threshold exStepEnv.H exPause = 2000 := by
    rw [h.2.2.1]
    decide
  refine ⟨by decide, by decide, by decide, e, ?_⟩
  rw [h.2.2.2.2.1, e]
  rfl

/-! ### The size after `luaD_shrinkstack` -/

/-- `luaD_shrinkstack` is the call of `luaD_reallocstack`, when its condition holds, followed
by `luaE_shrinkCI`. -/
theorem luaD_shrinkstack_run (E : Env) (L : lua_State) :
    ∃ M, luaD_shrinkstack E L = { M with cis := M.cis.take (M.ci + 1 + E.luaE_shrinkCI M) } ∧
      M = (if stackinuse E.H L ≤ E.H.LUAI_MAXSTACK ∧
          stacksize L > min (3 * stackinuse E.H L) E.H.LUAI_MAXSTACK then
        (match luaD_reallocstack E L (min (2 * stackinuse E.H L) E.H.LUAI_MAXSTACK) false with
         | Ctl.ret _ L2 => L2
         | _ => L)
        else L) := by
  have hns : (if stackinuse E.H L * 3 > E.H.LUAI_MAXSTACK then
        (if stackinuse E.H L * 2 > E.H.LUAI_MAXSTACK then E.H.LUAI_MAXSTACK
         else stackinuse E.H L * 2)
      else stackinuse E.H L * 2) = min (2 * stackinuse E.H L) E.H.LUAI_MAXSTACK := by
    split_ifs <;> omega
  have hmx : (if stackinuse E.H L * 3 > E.H.LUAI_MAXSTACK then E.H.LUAI_MAXSTACK
      else stackinuse E.H L * 3) = min (3 * stackinuse E.H L) E.H.LUAI_MAXSTACK := by
    split_ifs <;> omega
  refine ⟨_, ?_, rfl⟩
  unfold luaD_shrinkstack
  dsimp only
  rw [hns, hmx] <;> rfl

/-- The size of the stack after `luaD_shrinkstack`: the size of before, or
`min(2 * inuse, LUAI_MAXSTACK)` after a reallocation, which takes place only when
`inuse <= LUAI_MAXSTACK` and the size exceeds `min(3 * inuse, LUAI_MAXSTACK)`. -/
theorem luaD_shrinkstack_newsize (E : Env) (L : lua_State) :
    stacksize (luaD_shrinkstack E L) = stacksize L ∨
    (stacksize (luaD_shrinkstack E L) = min (2 * stackinuse E.H L) E.H.LUAI_MAXSTACK ∧
      stackinuse E.H L ≤ E.H.LUAI_MAXSTACK ∧
      stacksize L > min (3 * stackinuse E.H L) E.H.LUAI_MAXSTACK) := by
  obtain ⟨M, hrun, hM⟩ := luaD_shrinkstack_run E L
  have hsz : stacksize (luaD_shrinkstack E L) = stacksize M := by
    rw [hrun]
    rfl
  rw [hsz]
  by_cases hc : stackinuse E.H L ≤ E.H.LUAI_MAXSTACK ∧
      stacksize L > min (3 * stackinuse E.H L) E.H.LUAI_MAXSTACK
  · rw [if_pos hc] at hM
    cases ha : E.luaM_newblock L
        (min (2 * stackinuse E.H L) E.H.LUAI_MAXSTACK + E.H.EXTRA_STACK) with
    | none =>
      rw [luaD_reallocstack_none E L _ false ha] at hM
      left
      rw [hM]
      rfl
    | some a =>
      obtain ⟨L1, e, hst, hlast, _⟩ := luaD_reallocstack_some E L _ false a ha
      rw [e] at hM
      right
      refine ⟨?_, hc.1, hc.2⟩
      rw [hM]
      show L1.stack_last - L1.stack = _
      rw [hlast, hst]
      omega
  · rw [if_neg hc] at hM
    left
    rw [hM]

/-- The size after a reallocation that the allocator grants. -/
theorem luaD_shrinkstack_granted (E : Env) (L : lua_State) (a : Nat)
    (hc : stackinuse E.H L ≤ E.H.LUAI_MAXSTACK ∧
      stacksize L > min (3 * stackinuse E.H L) E.H.LUAI_MAXSTACK)
    (ha : E.luaM_newblock L
      (min (2 * stackinuse E.H L) E.H.LUAI_MAXSTACK + E.H.EXTRA_STACK) = some a) :
    stacksize (luaD_shrinkstack E L) = min (2 * stackinuse E.H L) E.H.LUAI_MAXSTACK := by
  obtain ⟨M, hrun, hM⟩ := luaD_shrinkstack_run E L
  have hsz : stacksize (luaD_shrinkstack E L) = stacksize M := by
    rw [hrun]
    rfl
  rw [hsz]
  rw [if_pos hc] at hM
  obtain ⟨L1, e, hst, hlast, _⟩ := luaD_reallocstack_some E L _ false a ha
  rw [e] at hM
  rw [hM]
  show L1.stack_last - L1.stack = _
  rw [hlast, hst]
  omega

/-- C34: whenever `luaD_shrinkstack` reduces the stack, the size before exceeded
`min(3 * inuse, LUAI_MAXSTACK)` and the final size is `min(2 * inuse, LUAI_MAXSTACK)`, with
`inuse` the current use, which is at most `LUAI_MAXSTACK`.  When the limit does not come
into play, that is when `3 * inuse <= LUAI_MAXSTACK`, the final size is twice the current use
and less than 2/3 of the size before.  When `3 * inuse > LUAI_MAXSTACK`, the size before
was above `LUAI_MAXSTACK` (so it was `ERRORSTACKSIZE`, if the size of a stack is at most
`LUAI_MAXSTACK` or `ERRORSTACKSIZE`), and the final size is twice the current use when
`2 * inuse <= LUAI_MAXSTACK` and `LUAI_MAXSTACK` otherwise. -/
theorem luaD_shrinkstack_reduces (E : Env) (L : lua_State)
    (h : stacksize (luaD_shrinkstack E L) < stacksize L) :
    stacksize (luaD_shrinkstack E L) = min (2 * stackinuse E.H L) E.H.LUAI_MAXSTACK ∧
    stacksize L > min (3 * stackinuse E.H L) E.H.LUAI_MAXSTACK ∧
    (3 * stackinuse E.H L ≤ E.H.LUAI_MAXSTACK →
      stacksize (luaD_shrinkstack E L) = 2 * stackinuse E.H L ∧
      3 * stacksize (luaD_shrinkstack E L) < 2 * stacksize L) ∧
    stackinuse E.H L ≤ E.H.LUAI_MAXSTACK ∧
    (E.H.LUAI_MAXSTACK < 3 * stackinuse E.H L →
      E.H.LUAI_MAXSTACK < stacksize L ∧
      (stacksize L ≤ E.H.LUAI_MAXSTACK ∨ stacksize L = ERRORSTACKSIZE E.H →
        stacksize L = ERRORSTACKSIZE E.H) ∧
      (2 * stackinuse E.H L ≤ E.H.LUAI_MAXSTACK →
        stacksize (luaD_shrinkstack E L) = 2 * stackinuse E.H L) ∧
      (E.H.LUAI_MAXSTACK < 2 * stackinuse E.H L →
        stacksize (luaD_shrinkstack E L) = E.H.LUAI_MAXSTACK)) := by
  rcases luaD_shrinkstack_newsize E L with e | ⟨e, hle, hgt⟩
  · omega
  · refine ⟨e, hgt, fun hlim => ?_, hle, fun hlim => ⟨?_, fun hs => ?_, fun h2 => ?_, fun h2 => ?_⟩⟩
    · rw [e]
      omega
    · omega
    · rcases hs with c | c
      · omega
      · exact c
    · rw [e]
      omega
    · rw [e]
      omega

theorem luaD_shrinkstack_reduces_witness :
    stacksize (luaD_shrinkstack exEnv exWideState) < stacksize exWideState ∧
    stacksize (luaD_shrinkstack exEnv exWideState) = 6 ∧ stacksize exWideState = 12 := by
  have h : stacksize (luaD_shrinkstack exEnv exWideState) < stacksize exWideState := by decide
  have e := (luaD_shrinkstack_reduces exEnv exWideState h).1
  exact ⟨h, e.trans (by decide), by decide⟩

/-- C34, as stated: at the limit the final size is not at most 2/3 of the size before, and
it need not be twice the current use.  With the values of `luaconf.h`, a stack of the size
`ERRORSTACKSIZE` with 600000 entries in use is reduced to `LUAI_MAXSTACK` entries, which is
neither; one with 400000 entries in use is reduced to 800000 entries, twice the use but more
than 2/3 of the size before. -/
theorem luaD_shrinkstack_limit :
    stackinuse exEnv544.H exOverflowState = 600000 ∧
    stacksize exOverflowState = 1000200 ∧
    stacksize (luaD_shrinkstack exEnv544 exOverflowState) = 1000000 ∧
    stacksize (luaD_shrinkstack exEnv544 exOverflowState) < stacksize exOverflowState ∧
    ¬ (3 * stacksize (luaD_shrinkstack exEnv544 exOverflowState) ≤
        2 * stacksize exOverflowState) ∧
    stacksize (luaD_shrinkstack exEnv544 exOverflowState) ≠
      2 * stackinuse exEnv544.H exOverflowState ∧
    stackinuse exEnv544.H exMiddleState = 400000 ∧
    stacksize exMiddleState = 1000200 ∧
    stacksize (luaD_shrinkstack exEnv544 exMiddleState) = 800000 ∧
    ¬ (3 * stacksize (luaD_shrinkstack exEnv544 exMiddleState) ≤
        2 * stacksize exMiddleState) := by
  have h1 : stackinuse exEnv544.H exOverflowState = 600000 := by decide
  have h2 : stacksize exOverflowState = 1000200 := by decide
  have h3 : stacksize (luaD_shrinkstack exEnv544 exOverflowState) = 1000000 := by
    have e := luaD_shrinkstack_granted exEnv544 exOverflowState 1000
      (by rw [h1, h2]; decide) rfl
    rw [e, h1]
    decide
  have k1 : stackinuse exEnv544.H exMiddleState = 400000 := by decide
  have k2 : stacksize exMiddleState = 1000200 := by decide
  have k3 : stacksize (luaD_shrinkstack exEnv544 exMiddleState) = 800000 := by
    have e := luaD_shrinkstack_granted exEnv544 exMiddleState 1000
      (by rw [k1, k2]; decide) rfl
    rw [e, k1]
    decide
  refine ⟨h1, h2, h3, ?_, ?_, ?_, k1, k2, k3, ?_⟩
  · rw [h3, h2]
    decide
  · rw [h3, h2]
    decide
  · rw [h3, h1]
    decide
  · rw [k3, k2]
    decide

/-! ### The stack stays well formed -/

theorem ciat_out (L : lua_State) (i : Nat) (h : L.cis.length ≤ i) : ciat L i = default := by
  unfold ciat
  simp only [List.getD_eq_getElem?_getD]
  rw [List.getElem?_eq_none h]
  rfl

/-- A reallocation to a size that holds every top keeps the stack well formed. -/
theorem luaD_reallocstack_inv (E : Env) (L : lua_State) (newsize : Nat) (re : Bool) (r : Nat)
    (L1 : lua_State) (hinv : StackInv E.H L)
    (hsz : newsize ≤ E.H.LUAI_MAXSTACK ∨ newsize = ERRORSTACKSIZE E.H)
    (htop : L.top - L.stack ≤ newsize)
    (hci : ∀ i, i ≤ L.ci → (ciat L i).top - L.stack ≤ newsize)
    (hret : luaD_reallocstack E L newsize re = Ctl.ret r L1) : StackInv E.H L1 := by
  rcases luaD_reallocstack_ret E L newsize re r L1 hret with ⟨_, a, ha⟩ | ⟨_, _, e, _⟩
  · obtain ⟨L2, e2, hst, hlast, htop2, _, hcieq, hcis, _⟩ :=
      luaD_reallocstack_some E L newsize re a ha
    rw [e2] at hret
    have e : L2 = L1 := by
      injection hret
    subst e
    refine ⟨?_, ?_, ?_⟩
    · have : stacksize L2 = newsize := by
        show L2.stack_last - L2.stack = _
        rw [hlast, hst]
        omega
      rw [this]
      exact hsz
    · rw [htop2, hlast]
      omega
    · intro i hi
      rw [hcieq] at hi
      unfold ciat
      rw [hcis, correctcis_getD, hlast]
      by_cases c : i ≤ L.ci ∧ i < L.cis.length
      · rw [if_pos c, (correctframe_fields E.H L.stack a _).2.1]
        have := hci i hi
        unfold ciat at this
        omega
      · rw [if_neg c]
        have := ciat_out L i (by omega)
        unfold ciat at this
        rw [this]
        exact Nat.zero_le _
  · rw [e]
    exact hinv

theorem tops_le_size (H : Decls) (L : lua_State) (hinv : StackInv H L) :
    L.top - L.stack ≤ stacksize L ∧ ∀ i, i ≤ L.ci → (ciat L i).top - L.stack ≤ stacksize L := by
  obtain ⟨_, h2, h3⟩ := hinv
  unfold stacksize
  refine ⟨by omega, fun i hi => ?_⟩
  have := h3 i hi
  omega

theorem tops_le_inuse (H : Decls) (L : lua_State) :
    L.top - L.stack < stackinuse H L ∧
    ∀ i, i ≤ L.ci → (ciat L i).top - L.stack < stackinuse H L := by
  have h1 := stackinuse_lim_ge L L.top L.ci
  have h2 := (stackinuse_lim_max L L.top L.ci).1
  have h3 : stackinuse_lim L L.top L.ci - L.stack + 1 ≤ stackinuse H L := by
    unfold stackinuse
    dsimp only
    split <;> omega
  refine ⟨by omega, fun i hi => ?_⟩
  have := h2 i hi
  omega

theorem ciat_take (L : lua_State) (k i : Nat) (h : i < k) :
    ciat { L with cis := L.cis.take k } i = ciat L i := by
  unfold ciat
  simp only [List.getD_eq_getElem?_getD, List.getElem?_take]
  rw [if_pos h]

/-- C38: the well-formedness of the stack is kept by resizing.  For a stack whose size is at
most `LUAI_MAXSTACK` or is `ERRORSTACKSIZE`, with `L->top` and the top of every frame at or
below `stack_last`: the same holds after `luaD_growstack`, whenever it returns, and after
`luaD_shrinkstack`, so that no top is cut off.  A size above `LUAI_MAXSTACK` is
`ERRORSTACKSIZE`, as `luaD_growstack` asserts, and no stack is reallocated then; and the
sizes that `luaD_growstack` and `luaD_shrinkstack` hand to `luaD_reallocstack` are at most
`LUAI_MAXSTACK` or are `ERRORSTACKSIZE`, as `luaD_reallocstack` asserts. -/
theorem resize_wellformed (E : Env) (L : lua_State) (hinv : StackInv E.H L) :
    (∀ n re r L1, luaD_growstack E L n re = Ctl.ret r L1 → StackInv E.H L1) ∧
    StackInv E.H (luaD_shrinkstack E L) ∧
    (stacksize L > E.H.LUAI_MAXSTACK → stacksize L = ERRORSTACKSIZE E.H ∧
      ∀ n re, luaD_growstack E L n re =
        if re then luaD_throw L E.H.LUA_ERRERR else Ctl.ret 0 L) ∧
    (stacksize L ≤ E.H.LUAI_MAXSTACK → ∀ n re,
      (((L.top - L.stack : Nat) : Int) + n ≤ (E.H.LUAI_MAXSTACK : Int) →
        (max (min (2 * (stacksize L : Int)) (E.H.LUAI_MAXSTACK : Int))
          (((L.top - L.stack : Nat) : Int) + n)).toNat ≤ E.H.LUAI_MAXSTACK ∧
        luaD_growstack E L n re =
          luaD_reallocstack E L
            (max (min (2 * (stacksize L : Int)) (E.H.LUAI_MAXSTACK : Int))
              (((L.top - L.stack : Nat) : Int) + n)).toNat re) ∧
      (((L.top - L.stack : Nat) : Int) + n > (E.H.LUAI_MAXSTACK : Int) →
        luaD_growstack E L n re =
          (luaD_reallocstack E L (ERRORSTACKSIZE E.H) re).bind fun _ L1 =>
            if re then Ctl.runerror "stack overflow" L1 else Ctl.ret 0 L1)) ∧
    (min (2 * stackinuse E.H L) E.H.LUAI_MAXSTACK ≤ E.H.LUAI_MAXSTACK ∧
      ∃ M, luaD_shrinkstack E L = { M with cis := M.cis.take (M.ci + 1 + E.luaE_shrinkCI M) } ∧
        M = (if stackinuse E.H L ≤ E.H.LUAI_MAXSTACK ∧
            stacksize L > min (3 * stackinuse E.H L) E.H.LUAI_MAXSTACK then
          (match luaD_reallocstack E L (min (2 * stackinuse E.H L) E.H.LUAI_MAXSTACK)
              false with
           | Ctl.ret _ L2 => L2
           | _ => L)
          else L)) := by
  have htops := tops_le_size E.H L hinv
  have habove : stacksize L > E.H.LUAI_MAXSTACK → ∀ n re, luaD_growstack E L n re =
      if re then luaD_throw L E.H.LUA_ERRERR else Ctl.ret 0 L := by
    intro h n re
    unfold luaD_growstack
    simp only [h, if_true]
  refine ⟨?_, ?_, ?_, ?_, min_le_right _ _, luaD_shrinkstack_run E L⟩
  · intro n re r L1 hret
    by_cases hs : stacksize L > E.H.LUAI_MAXSTACK
    · rw [habove hs n re] at hret
      cases re with
      | true => exact absurd hret (luaD_throw_ne_ret _ _ _ _)
      | false =>
        simp only [Bool.false_eq_true, if_false] at hret
        injection hret with _ e
        rw [← e]
        exact hinv
    · by_cases hn : ((L.top - L.stack : Nat) : Int) + n ≤ (E.H.LUAI_MAXSTACK : Int)
      · rw [luaD_growstack_below E L n re (by omega) hn] at hret
        exact luaD_reallocstack_inv E L _ re r L1 hinv (Or.inl (by omega)) (by omega)
          (fun i hi => by have := htops.2 i hi; omega) hret
      · rw [luaD_growstack_above E L n re (by omega) (by omega)] at hret
        have hE : stacksize L ≤ ERRORSTACKSIZE E.H := by
          unfold ERRORSTACKSIZE
          omega
        cases hr : luaD_reallocstack E L (ERRORSTACKSIZE E.H) re with
        | ret r2 L2 =>
          rw [hr] at hret
          have hi2 := luaD_reallocstack_inv E L _ re r2 L2 hinv (Or.inr rfl) (by omega)
            (fun i hi => by have := htops.2 i hi; omega) hr
          cases re with
          | true => simp [Ctl.bind] at hret
          | false =>
            simp only [Ctl.bind, Bool.false_eq_true, if_false] at hret
            injection hret with _ e
            rw [← e]
            exact hi2
        | jmp L2 => rw [hr] at hret; simp [Ctl.bind] at hret
        | unhandled e L2 => rw [hr] at hret; simp [Ctl.bind] at hret
        | runerror m L2 => rw [hr] at hret; simp [Ctl.bind] at hret
        | callerror o L2 => rw [hr] at hret; simp [Ctl.bind] at hret
        | outoffuel => rw [hr] at hret; simp [Ctl.bind] at hret
  · obtain ⟨M, hrun, hM⟩ := luaD_shrinkstack_run E L
    have hMinv : StackInv E.H M := by
      by_cases hc : stackinuse E.H L ≤ E.H.LUAI_MAXSTACK ∧
          stacksize L > min (3 * stackinuse E.H L) E.H.LUAI_MAXSTACK
      · rw [if_pos hc] at hM
        have hu := tops_le_inuse E.H L
        cases hr : luaD_reallocstack E L (min (2 * stackinuse E.H L) E.H.LUAI_MAXSTACK)
            false with
        | ret r2 L2 =>
          rw [hr] at hM
          rw [hM]
          exact luaD_reallocstack_inv E L _ false r2 L2 hinv (Or.inl (min_le_right _ _))
            (by omega) (fun i hi => by have := hu.2 i hi; omega) hr
        | jmp L2 => rw [hr] at hM; rw [hM]; exact hinv
        | unhandled e L2 => rw [hr] at hM; rw [hM]; exact hinv
        | runerror m L2 => rw [hr] at hM; rw [hM]; exact hinv
        | callerror o L2 => rw [hr] at hM; rw [hM]; exact hinv
        | outoffuel => rw [hr] at hM; rw [hM]; exact hinv
      · rw [if_neg hc] at hM
        rw [hM]
        exact hinv
    rw [hrun]
    refine ⟨hMinv.1, hMinv.2.1, fun i hi => ?_⟩
    have hi2 : i ≤ M.ci := hi
    rw [ciat_take M _ i (by omega)]
    exact hMinv.2.2 i hi2
  · intro hs
    refine ⟨?_, habove hs⟩
    rcases hinv.1 with h | h
    · omega
    · exact h
  · intro hs n re
    refine ⟨fun hn => ⟨by omega, luaD_growstack_below E L n re hs hn⟩,
      fun hn => luaD_growstack_above E L n re hs hn⟩

theorem resize_wellformed_witness :
    StackInv exEnv.H exWideState ∧ StackInv exEnv.H (luaD_shrinkstack exEnv exWideState) ∧
    stacksize (luaD_shrinkstack exEnv exWideState) = 6 :=
  ⟨by decide, (resize_wellformed exEnv exWideState (by decide)).2.1, by decide⟩

/-! ### Hooks -/

theorem ciat_ciset_self (L : lua_State) (ci : Nat) (c : CallInfo) (h : ci < L.cis.length) :
    ciat (ciset L ci c) ci = c := by
  unfold ciat ciset
  simp [List.getD_eq_getElem?_getD, h]

theorem clearmask_hooked (cs : Nat) : clearmask cs 8 &&& 8 = 0 ∧ clearmask cs 264 &&& 8 = 0 ∧
    clearmask cs 264 &&& 256 = 0 ∧ clearmask cs 8 &&& 256 = cs &&& 256 := by
  unfold clearmask
  refine ⟨?_, ?_, ?_, ?_⟩
  · rw [Nat.and_assoc]
    have : (65535 ^^^ 8) &&& 8 = 0 := by decide
    rw [this, Nat.and_zero]
  · rw [Nat.and_assoc]
    have : (65535 ^^^ 264) &&& 8 = 0 := by decide
    rw [this, Nat.and_zero]
  · rw [Nat.and_assoc]
    have : (65535 ^^^ 264) &&& 256 = 0 := by decide
    rw [this, Nat.and_zero]
  · rw [Nat.and_assoc]
    have : (65535 ^^^ 8) &&& 256 = 256 := by decide
    rw [this]

/-- C36: `luaD_hook` does nothing when no hook is installed or `L->allowhook` is 0.
Otherwise, after its stack check, it runs the hook function on a thread with
`allowhook = 0`, on which a call of `luaD_hook` does nothing; and when the hook function
returns, `luaD_hook` returns a thread with `allowhook = 1`, with `L->top` and the top of the
frame at the offsets they had at entry, wherever the stack lies, and with the bits it added to
the status of the frame cleared: `CIST_HOOKED`, and `CIST_TRAN`, which it adds when
`ntransfer` is not 0 and leaves as it is otherwise (clear, in a frame that the hook function
leaves without it).  The bits have the values of `lstate.h`. -/
theorem luaD_hook_frame (E : Env) (L : lua_State) (event line : Int)
    (ftransfer ntransfer : Nat) (hb : E.H.CIST_HOOKED = 8 ∧ E.H.CIST_TRAN = 256) :
    ((L.hook = none ∨ L.allowhook = 0) →
      luaD_hook E L event line ftransfer ntransfer = Ctl.ret () L) ∧
    (∀ hook, L.hook = some hook → L.allowhook ≠ 0 →
      luaD_hook E L event line ftransfer ntransfer =
        (luaD_checkstack E (luaD_hook_entry E L ftransfer ntransfer) E.H.LUA_MINSTACK).bind
          fun _ L3 =>
            (E.hookfn hook { event := event, currentline := line, i_ci := L.ci }
              (luaD_hook_call E L3 L.ci ntransfer)).bind fun _ L7 =>
                Ctl.ret () (luaD_hook_exit E L7 L.ci (savestack L L.top)
                  (savestack L (ciat L L.ci).top) ntransfer)) ∧
    (∀ L3 ev ln ft nt, (luaD_hook_call E L3 L.ci ntransfer).allowhook = 0 ∧
      luaD_hook E (luaD_hook_call E L3 L.ci ntransfer) ev ln ft nt =
        Ctl.ret () (luaD_hook_call E L3 L.ci ntransfer)) ∧
    (∀ L7 L1, L.ci < L7.cis.length →
      L1 = luaD_hook_exit E L7 L.ci (savestack L L.top) (savestack L (ciat L L.ci).top)
        ntransfer →
      L1.allowhook = 1 ∧ L1.stack = L7.stack ∧ L1.top - L1.stack = L.top - L.stack ∧
      (ciat L1 L.ci).top - L1.stack = (ciat L L.ci).top - L.stack ∧
      (ciat L1 L.ci).callstatus &&& E.H.CIST_HOOKED = 0 ∧
      (ntransfer ≠ 0 → (ciat L1 L.ci).callstatus &&& E.H.CIST_TRAN = 0) ∧
      (ntransfer = 0 → (ciat L1 L.ci).callstatus &&& E.H.CIST_TRAN =
        (ciat L7 L.ci).callstatus &&& E.H.CIST_TRAN)) := by
  obtain ⟨b1, b2⟩ := hb
  have hnone : ∀ K : lua_State, ∀ (ev ln : Int) (ft nt : Nat), (K.hook = none ∨ K.allowhook = 0) →
      luaD_hook E K ev ln ft nt = Ctl.ret () K := by
    intro K ev ln ft nt h
    unfold luaD_hook
    cases hh : K.hook with
    | none => rfl
    | some hook =>
      rcases h with h | h
      · rw [hh] at h
        exact Option.noConfusion h
      · simp only [h, if_true]
  refine ⟨hnone L event line ftransfer ntransfer, ?_, ?_, ?_⟩
  · intro hook hh ha
    unfold luaD_hook
    simp only [hh, if_neg ha]
    rfl
  · intro L3 ev ln ft nt
    have e : (luaD_hook_call E L3 L.ci ntransfer).allowhook = 0 := rfl
    exact ⟨e, hnone _ ev ln ft nt (Or.inr e)⟩
  · intro L7 L1 hlen hL1
    obtain ⟨L9, hL9⟩ : ∃ L9, L9 = ciset { L7 with allowhook := 1 } L.ci
        { ciat { L7 with allowhook := 1 } L.ci with
          top := restorestack { L7 with allowhook := 1 } (savestack L (ciat L L.ci).top) } :=
      ⟨_, rfl⟩
    have hlen9 : L.ci < L9.cis.length := by
      rw [hL9]
      unfold ciset
      simpa using hlen
    have h9 : ciat L9 L.ci = { ciat { L7 with allowhook := 1 } L.ci with
          top := restorestack { L7 with allowhook := 1 } (savestack L (ciat L L.ci).top) } := by
      rw [hL9]
      exact ciat_ciset_self _ _ _ hlen
    have hrun : L1 = ciset { L9 with top := restorestack L9 (savestack L L.top) } L.ci
        { ciat { L9 with top := restorestack L9 (savestack L L.top) } L.ci with
          callstatus := clearmask
            (ciat { L9 with top := restorestack L9 (savestack L L.top) } L.ci).callstatus
            (luaD_hook_mask E.H ntransfer) } := by
      rw [hL1, hL9]
      rfl
    have hst9 : L9.stack = L7.stack := by rw [hL9]; rfl
    have hc : ciat L1 L.ci = { ciat L9 L.ci with
        callstatus := clearmask (ciat L9 L.ci).callstatus (luaD_hook_mask E.H ntransfer) } := by
      rw [hrun]
      exact ciat_ciset_self _ _ _ hlen9
    have hcs9 : (ciat L9 L.ci).callstatus = (ciat L7 L.ci).callstatus := by
      rw [h9]
      rfl
    have hst : L1.stack = L7.stack := by rw [hrun]; exact hst9
    have htop : L1.top = L7.stack + (L.top - L.stack) := by
      rw [hrun]
      show L9.stack + (L.top - L.stack) = _
      rw [hst9]
    refine ⟨by rw [hrun, hL9]; rfl, hst, by rw [htop, hst]; omega, ?_, ?_, ?_, ?_⟩
    · rw [hc, hst]
      show (ciat L9 L.ci).top - L7.stack = _
      rw [h9]
      show L7.stack + ((ciat L L.ci).top - L.stack) - L7.stack = _
      omega
    · rw [hc]
      show clearmask (ciat L9 L.ci).callstatus (luaD_hook_mask E.H ntransfer) &&& _ = 0
      unfold luaD_hook_mask
      rw [b1, b2]
      split
      · exact (clearmask_hooked _).2.1
      · exact (clearmask_hooked _).1
    · intro hn
      rw [hc]
      show clearmask (ciat L9 L.ci).callstatus (luaD_hook_mask E.H ntransfer) &&& _ = 0
      unfold luaD_hook_mask
      rw [b1, b2, if_pos hn]
      exact (clearmask_hooked _).2.2.1
    · intro hn
      rw [hc]
      show clearmask (ciat L9 L.ci).callstatus (luaD_hook_mask E.H ntransfer) &&& _ = _
      unfold luaD_hook_mask
      rw [b1, b2, if_neg (by omega), hcs9]
      exact (clearmask_hooked _).2.2.2

theorem luaD_hook_frame_witness :
    (exEnv.H.CIST_HOOKED = 8 ∧ exEnv.H.CIST_TRAN = 256) ∧
    ∃ L1, luaD_hook exEnv exHookState 0 (-1) 1 2 = Ctl.ret () L1 ∧ L1.allowhook = 1 ∧
      L1.top - L1.stack = exHookState.top - exHookState.stack ∧
      (ciat L1 exHookState.ci).callstatus &&& exEnv.H.CIST_HOOKED = 0 := by
  have h := luaD_hook_frame exEnv exHookState 0 (-1) 1 2 ⟨rfl, rfl⟩
  obtain ⟨L3, e3, hlen⟩ : ∃ L3,
      luaD_checkstack exEnv (luaD_hook_entry exEnv exHookState 1 2) exEnv.H.LUA_MINSTACK =
        Ctl.ret () L3 ∧ exHookState.ci < (luaD_hook_call exEnv L3 exHookState.ci 2).cis.length :=
    ⟨_, rfl, by decide⟩
  have hp := h.2.2.2 (luaD_hook_call exEnv L3 exHookState.ci 2) _ hlen rfl
  refine ⟨⟨rfl, rfl⟩, _, ?_, hp.1, hp.2.2.1, hp.2.2.2.2.1⟩
  rw [h.2.1 1 rfl (by decide), e3]
  rfl

/-! ### The protected parser -/

/-- The function run by `luaD_pcall` returns: `luaD_pcall` returns `LUA_OK`. -/
theorem luaD_pcall_returned (E : Env) (fuel : Nat) (L : lua_State) (func : lua_State → Ctl Unit)
    (old_top : Nat) (ef : Int) (L2 : lua_State)
    (hf : func { L with errfunc := ef, errorJmp := { status := E.H.LUA_OK } :: L.errorJmp } =
        Ctl.ret () L2)
    (hchain : L2.errorJmp = { status := E.H.LUA_OK } :: L.errorJmp) :
    luaD_pcall E fuel L func old_top ef =
      Ctl.ret E.H.LUA_OK
        { L2 with errorJmp := L.errorJmp, nCcalls := L.nCcalls, errfunc := L.errfunc } := by
  have hr := luaD_rawrunprotected_ret E { L with errfunc := ef } func L2
    { status := E.H.LUA_OK } hf hchain
  unfold luaD_pcall
  simp only [hr, Ctl.bind, ne_eq, not_true_eq_false, if_false]

/-- The function run by `luaD_pcall` raises an error: `luaD_pcall` returns a status other
than `LUA_OK`, with `nCcalls` as at entry. -/
theorem luaD_pcall_raised (E : Env) (fuel : Nat) (L : lua_State) (func : lua_State → Ctl Unit)
    (old_top : Nat) (ef : Int)
    (hok : E.H.LUA_OK ≤ E.H.LUA_YIELD) (hclose : CloseKeeps E old_top)
    (hstr : NewStringKeeps E) (Lt : lua_State) (s : Int)
    (hf : func { L with errfunc := ef, errorJmp := { status := E.H.LUA_OK } :: L.errorJmp } =
        luaD_throw Lt s)
    (hchain : Lt.errorJmp = { status := E.H.LUA_OK } :: L.errorJmp)
    (hs : errorstatus E.H s = true) (hslot : HasSlot E.H old_top Lt)
    (hfuel : savestack Lt Lt.tbclist < fuel) :
    ∃ st L1, luaD_pcall E fuel L func old_top ef = Ctl.ret st L1 ∧ st ≠ E.H.LUA_OK ∧
      L1.nCcalls = L.nCcalls ∧
      ((∃ Lc, E.luaF_close
          { { Lt with
              errorJmp := { status := E.H.LUA_OK } :: L.errorJmp, nCcalls := L.nCcalls } with
            ci := L.ci, allowhook := L.allowhook }
          (Lt.stack + old_top) s 0 = Ctl.ret () Lc) → st = s) := by
  have hsne : s ≠ E.H.LUA_OK := by
    have : s > E.H.LUA_YIELD := by simpa [errorstatus] using hs
    omega
  have hr := luaD_rawrunprotected_throw E { L with errfunc := ef } func Lt s hf hchain
  obtain ⟨st, L5, i1, i2, i3, i4, i5, i6, i7, i8⟩ :=
    closeprotected_loop_spec E old_top L.ci L.allowhook old_top hclose fuel
      { { Lt with errorJmp := L.errorJmp, nCcalls := L.nCcalls } with
        ci := L.ci, allowhook := L.allowhook } s hsne hslot rfl rfl hfuel
  obtain ⟨L6, j1, j2, j3, j4, j5, j6, j7, j8, j9, j10, j11⟩ :=
    luaD_seterrorobj_spec E L5 st old_top i3 hstr
  obtain ⟨k1, k2, k3, k4, k5, k6, k7⟩ := luaD_shrinkstack_view E L6 old_top j3 j2
  refine ⟨st, { luaD_shrinkstack E L6 with errfunc := L.errfunc }, ?_, i2,
    k6.trans (j8.trans i7), fun h => i8 h⟩
  unfold luaD_pcall
  have i1' : luaD_closeprotected E fuel
      { { { Lt with errorJmp := L.errorJmp, nCcalls := L.nCcalls } with ci := L.ci } with
        allowhook := L.allowhook } old_top s = Ctl.ret st L5 := i1
  simp only [hr, Ctl.bind, if_pos hsne, i1', j1]

theorem decnny_incnny (L K : lua_State) (h : L.nCcalls < 4294967296)
    (hK : K.nCcalls = (incnny L).nCcalls) : (decnny K).nCcalls = L.nCcalls := by
  have e : (incnny L).nCcalls = if L.nCcalls < 4294901760 then L.nCcalls + 0x10000
      else L.nCcalls - 4294901760 := rfl
  show (if 0x10000 ≤ K.nCcalls then K.nCcalls - 0x10000 else K.nCcalls + 4294901760) = _
  rw [hK, e]
  split <;> split <;> omega

/-- C31: `f_parser` reads the first byte of the chunk and takes the chunk as binary when the
byte is the first byte of `LUA_SIGNATURE`, and as text otherwise.  The check of the mode
raises `LUA_ERRSYNTAX`, with the message naming the kind of chunk and the mode pushed, exactly
when the mode is not a null pointer and has not the first letter of the kind, `b` or `t`;
otherwise the chunk goes to the loader of its kind and the upvalues of the closure are
created.  `luaD_protectedparser` returns the status of the protected call, and `nCcalls`,
with the count of non-yieldable calls, is as at entry, when the parser returned and when an
error was raised. -/
theorem luaD_protectedparser_mode (E : ParseEnv) (fuel : Nat) (L : lua_State) (z : ZIO)
    (name : String) (mode : Option String) (hn : L.nCcalls < 4294967296)
    (hok : E.H.LUA_OK ≤ E.H.LUA_YIELD) (hstr : NewStringKeeps E.toEnv) :
    (firstchar "binary" = 'b' ∧ firstchar "text" = 't') ∧
    (∀ (K : lua_State) (x : String),
      (∀ m, mode = some m → strchr m (firstchar x) = false →
        checkmode E K mode x =
          luaD_throw (E.luaO_pushfstring K "attempt to load a %s chunk (mode is '%s')" [x, m])
            E.H.LUA_ERRSYNTAX) ∧
      ((∀ m, mode = some m → strchr m (firstchar x) = true) →
        checkmode E K mode x = Ctl.ret () K)) ∧
    (∀ (K K1 : lua_State) (c : Int) (z1 : ZIO), E.zgetc z K = Ctl.ret (c, z1) K1 →
      (c = (E.H.LUA_SIGNATURE.headD 0 : Nat) →
        fParser E z mode name K =
          (checkmode E K1 mode "binary").bind fun _ L2 =>
            (E.luaU_undump L2 z1 name).bind fun cl L3 => E.luaF_initupvals L3 cl) ∧
      (c ≠ (E.H.LUA_SIGNATURE.headD 0 : Nat) →
        fParser E z mode name K =
          (checkmode E K1 mode "text").bind fun _ L2 =>
            (E.luaYParser L2 z1 name c).bind fun cl L3 => E.luaF_initupvals L3 cl)) ∧
    (∀ st L2,
      luaD_pcall E.toEnv fuel (incnny L) (fParser E z mode name)
        (savestack (incnny L) (incnny L).top) (incnny L).errfunc = Ctl.ret st L2 →
      luaD_protectedparser E fuel L z name mode = Ctl.ret st (decnny L2)) ∧
    (∀ L2,
      fParser E z mode name
        { incnny L with errorJmp := { status := E.H.LUA_OK } :: L.errorJmp } = Ctl.ret () L2 →
      L2.errorJmp = { status := E.H.LUA_OK } :: L.errorJmp →
      ∃ L1, luaD_protectedparser E fuel L z name mode = Ctl.ret E.H.LUA_OK L1 ∧
        L1.nCcalls = L.nCcalls) ∧
    (∀ Lt s,
      fParser E z mode name
        { incnny L with errorJmp := { status := E.H.LUA_OK } :: L.errorJmp } =
          luaD_throw Lt s →
      Lt.errorJmp = { status := E.H.LUA_OK } :: L.errorJmp → errorstatus E.H s = true →
      CloseKeeps E.toEnv (L.top - L.stack) → HasSlot E.H (L.top - L.stack) Lt →
      savestack Lt Lt.tbclist < fuel →
      ∃ st L1, luaD_protectedparser E fuel L z name mode = Ctl.ret st L1 ∧
        st ≠ E.H.LUA_OK ∧ L1.nCcalls = L.nCcalls ∧
        ((∃ Lc, E.luaF_close
            { { Lt with
                errorJmp := { status := E.H.LUA_OK } :: L.errorJmp,
                nCcalls := (incnny L).nCcalls } with
              ci := L.ci, allowhook := L.allowhook }
            (Lt.stack + (L.top - L.stack)) s 0 = Ctl.ret () Lc) → st = s)) := by
  have hP0 : ∀ st L2,
      luaD_pcall E.toEnv fuel (incnny L) (fParser E z mode name)
        (savestack (incnny L) (incnny L).top) (incnny L).errfunc = Ctl.ret st L2 →
      luaD_protectedparser E fuel L z name mode = Ctl.ret st (decnny L2) := by
    intro st L2 h
    unfold luaD_protectedparser
    simp only [h, Ctl.bind]
  have hdec : ∀ K : lua_State, K.nCcalls = (incnny L).nCcalls →
      (decnny K).nCcalls = L.nCcalls := fun K hK => decnny_incnny L K hn hK
  refine ⟨⟨by decide, by decide⟩, ?_, ?_, hP0, ?_, ?_⟩
  · intro K x
    constructor
    · intro m hm hc
      unfold checkmode
      rw [hm]
      simp only [hc, if_true]
    · intro h
      unfold checkmode
      cases hm : mode with
      | none => rfl
      | some m =>
        have := h m hm
        simp only [this, Bool.true_eq_false, if_false]
  · intro K K1 c z1 hz
    constructor
    · intro hc
      unfold fParser
      simp only [hz, Ctl.bind, hc, if_true]
    · intro hc
      unfold fParser
      simp only [hz, Ctl.bind, hc, if_false]
  · intro L2 hf hchain
    have h := luaD_pcall_returned E.toEnv fuel (incnny L) (fParser E z mode name)
      (savestack (incnny L) (incnny L).top) (incnny L).errfunc L2 hf hchain
    have e := hP0 _ _ h
    have hd := hdec { L2 with errorJmp := (incnny L).errorJmp, nCcalls := (incnny L).nCcalls, errfunc := (incnny L).errfunc } rfl
    exact ⟨_, e, hd⟩
  · intro Lt s hf hchain hs hclose hslot hfuel
    obtain ⟨st, L1, e, h1, h2, h3⟩ := luaD_pcall_raised E.toEnv fuel (incnny L)
      (fParser E z mode name) (savestack (incnny L) (incnny L).top) (incnny L).errfunc hok
      hclose hstr Lt s hf hchain hs hslot hfuel
    have e2 := hP0 _ _ e
    have hd := hdec L1 h2
    exact ⟨st, decnny L1, e2, h1, hd, h3⟩

theorem luaD_protectedparser_mode_witness :
    exState.nCcalls < 4294967296 ∧ NewStringKeeps exParseEnv.toEnv ∧
    ∃ L1, luaD_protectedparser exParseEnv 2 exState exChunk "=chunk" (some "t") =
        Ctl.ret 3 L1 ∧ L1.nCcalls = exState.nCcalls := by
  have hstr : NewStringKeeps exParseEnv.toEnv := fun L _ => ⟨0, L, rfl, rfl⟩
  have hclose : CloseKeeps exParseEnv.toEnv (exState.top - exState.stack) :=
    fun L _ _ h => Or.inl ⟨L, rfl, rfl, rfl, rfl, h⟩
  obtain ⟨st, L1, e, _, hn, hst⟩ :=
    (luaD_protectedparser_mode exParseEnv 2 exState exChunk "=chunk" (some "t") (by decide)
      (by decide) hstr).2.2.2.2.2
      (exParseEnv.luaO_pushfstring
        { incnny exState with errorJmp := [{ status := exParseEnv.H.LUA_OK }] }
        "attempt to load a %s chunk (mode is '%s')" ["binary", "t"]) 3 rfl rfl (by decide)
      hclose (by decide) (by decide)
  have h3 : st = 3 := hst ⟨_, rfl⟩
  subst h3
  exact ⟨by decide, hstr, L1, e, hn⟩

/-! ### The loop of `luaD_precall` through the metamethod `__call` -/

theorem Ctl.bind_error {α β : Type} (x : Ctl α) (k1 k2 : α → lua_State → Ctl β)
    (h : ∀ a K, x ≠ Ctl.ret a K) : x.bind k1 = x.bind k2 := by
  cases x with
  | ret a K => exact absurd rfl (h a K)
  | jmp K => rfl
  | unhandled e K => rfl
  | runerror m K => rfl
  | callerror o K => rfl
  | outoffuel => rfl

/-- A return of `luaD_growstack` that raises errors comes from a reallocation below the
limit. -/
theorem luaD_growstack_returned (E : Env) (L : lua_State) (n : Int) (r : Nat) (L1 : lua_State)
    (hwf : WellFormed E.H L) (hn : 0 ≤ n)
    (hret : luaD_growstack E L n true = Ctl.ret r L1) :
    WellFormed E.H L1 ∧ SameView L L1 ∧ stacksize L1 ≤ E.H.LUAI_MAXSTACK ∧
    (L1.stack_last : Int) - (L1.top : Int) ≥ n := by
  by_cases hsize : stacksize L ≤ E.H.LUAI_MAXSTACK
  swap
  · unfold luaD_growstack at hret
    dsimp only at hret
    rw [if_pos (by omega), if_pos rfl] at hret
    exact absurd hret (luaD_throw_ne_ret _ _ _ _)
  by_cases hneeded : ((L.top - L.stack : Nat) : Int) + n ≤ (E.H.LUAI_MAXSTACK : Int)
  · rw [luaD_growstack_below E L n true hsize hneeded] at hret
    cases ha : E.luaM_newblock L
        ((max (min (2 * (stacksize L : Int)) (E.H.LUAI_MAXSTACK : Int))
          (((L.top - L.stack : Nat) : Int) + n)).toNat + E.H.EXTRA_STACK) with
    | none =>
      rw [luaD_reallocstack_none E L _ true ha] at hret
      simp only [if_true, luaM_error] at hret
      exact absurd hret (luaD_throw_ne_ret _ _ _ _)
    | some a =>
      obtain ⟨L2, e, w, v, hs, _⟩ := luaD_reallocstack_view E L _ true a hwf (by omega) ha
      rw [e] at hret
      injection hret with _ e2
      subst e2
      refine ⟨w, v, by omega, ?_⟩
      obtain ⟨w1, w2, _, _⟩ := w
      obtain ⟨v1, _⟩ := v
      have hss : stacksize L2 = L2.stack_last - L2.stack := rfl
      omega
  · rw [luaD_growstack_above E L n true hsize (by omega)] at hret
    cases hr : luaD_reallocstack E L (ERRORSTACKSIZE E.H) true with
    | ret r2 L2 => rw [hr] at hret; simp [Ctl.bind] at hret
    | jmp L2 => rw [hr] at hret; simp [Ctl.bind] at hret
    | unhandled e L2 => rw [hr] at hret; simp [Ctl.bind] at hret
    | runerror m L2 => rw [hr] at hret; simp [Ctl.bind] at hret
    | callerror o L2 => rw [hr] at hret; simp [Ctl.bind] at hret
    | outoffuel => rw [hr] at hret; simp [Ctl.bind] at hret

theorem Ctl.bind_fuel {α β : Type} (x : Ctl α) (k : α → lua_State → Ctl β)
    (hx : x ≠ Ctl.outoffuel) (hk : ∀ a K, k a K ≠ Ctl.outoffuel) :
    x.bind k ≠ Ctl.outoffuel := by
  cases x with
  | ret a K => exact hk a K
  | jmp K => simp [Ctl.bind]
  | unhandled e K => simp [Ctl.bind]
  | runerror m K => simp [Ctl.bind]
  | callerror o K => simp [Ctl.bind]
  | outoffuel => exact absurd rfl hx

theorem luaD_throw_fuel {α : Type} (L : lua_State) (errcode : Int) :
    (luaD_throw L errcode : Ctl α) ≠ Ctl.outoffuel := by
  unfold luaD_throw
  split <;> simp

theorem Ctl.ite_fuel {α : Type} (c : Prop) [Decidable c] (x y : Ctl α)
    (hx : x ≠ Ctl.outoffuel) (hy : y ≠ Ctl.outoffuel) :
    (if c then x else y) ≠ Ctl.outoffuel := by
  split
  · exact hx
  · exact hy

theorem luaD_reallocstack_fuel (E : Env) (L : lua_State) (sz : Nat) (re : Bool) :
    luaD_reallocstack E L sz re ≠ Ctl.outoffuel := by
  unfold luaD_reallocstack
  dsimp only
  split
  · split
    · exact luaD_throw_fuel _ _
    · simp
  · simp

theorem luaD_growstack_fuel (E : Env) (L : lua_State) (n : Int) (re : Bool) :
    luaD_growstack E L n re ≠ Ctl.outoffuel := by
  have hb : (luaD_reallocstack E L (ERRORSTACKSIZE E.H) re).bind (fun _ L1 =>
      if re then Ctl.runerror "stack overflow" L1 else Ctl.ret 0 L1) ≠ Ctl.outoffuel := by
    apply Ctl.bind_fuel _ _ (luaD_reallocstack_fuel E L _ re)
    intro a K
    split <;> simp
  unfold luaD_growstack
  dsimp only
  by_cases c1 : stacksize L > E.H.LUAI_MAXSTACK
  · rw [if_pos c1]
    split
    · exact luaD_throw_fuel _ _
    · simp
  · rw [if_neg c1]
    exact Ctl.ite_fuel _ _ _ (luaD_reallocstack_fuel E L _ re) hb

/-- A return of `checkstackGCp`: the thread is well formed, shows the same view and has the
room asked for; its stack is not larger than before, or not larger than the limit. -/
theorem checkstackGCp_returned (E : Env) (L : lua_State) (n : Int) (p q : Nat)
    (L1 : lua_State) (hwf : WellFormed E.H L)
    (hn : 0 ≤ n) (hgc : CollectorShrinks E) (hp : L.stack ≤ p)
    (hret : checkstackGCp E L n p = Ctl.ret q L1) :
    WellFormed E.H L1 ∧ SameView L L1 ∧
    (stacksize L1 ≤ E.H.LUAI_MAXSTACK ∨ stacksize L1 ≤ stacksize L) ∧
    (L1.stack_last : Int) - (L1.top : Int) > n - 1 ∧ q = L1.stack + (p - L.stack) := by
  unfold checkstackGCp at hret
  by_cases hc : (L.stack_last : Int) - (L.top : Int) ≤ n
  · rw [if_pos hc] at hret
    obtain ⟨g1, g2, g3⟩ := hgc L hwf
    cases hr : luaD_growstack E (E.luaC_checkGC L) n true with
    | ret r2 L2 =>
      obtain ⟨w, v, hs, hroom⟩ := luaD_growstack_returned E _ n r2 L2 g1 hn hr
      simp only [hr, Ctl.bind] at hret
      injection hret with e1 e2
      subst e2
      refine ⟨w, g3.trans v, Or.inl hs, by omega, ?_⟩
      rw [← e1]
      rfl
    | jmp L2 => simp [hr, Ctl.bind] at hret
    | unhandled e L2 => simp [hr, Ctl.bind] at hret
    | runerror m L2 => simp [hr, Ctl.bind] at hret
    | callerror o L2 => simp [hr, Ctl.bind] at hret
    | outoffuel => simp [hr, Ctl.bind] at hret
  · rw [if_neg hc] at hret
    injection hret with e1 e2
    subst e2
    refine ⟨hwf, SameView.refl L, Or.inr (Nat.le_refl _), by omega, ?_⟩
    rw [← e1]
    omega

theorem checkstackGCp_fuel (E : Env) (L : lua_State) (n : Int) (p : Nat) :
    checkstackGCp E L n p ≠ Ctl.outoffuel := by
  unfold checkstackGCp
  split
  · dsimp only
    cases hr : luaD_growstack E (E.luaC_checkGC L) n true with
    | ret r2 L2 => simp [Ctl.bind]
    | jmp L2 => simp [Ctl.bind]
    | unhandled e L2 => simp [Ctl.bind]
    | runerror m L2 => simp [Ctl.bind]
    | callerror o L2 => simp [Ctl.bind]
    | outoffuel => exact absurd hr (luaD_growstack_fuel E _ n true)
  · simp

theorem luaD_tryfuncTM_fuel (E : Env) (L : lua_State) (func : Nat) :
    luaD_tryfuncTM E L func ≠ Ctl.outoffuel := by
  unfold luaD_tryfuncTM
  cases hr : checkstackGCp E L 1 func with
  | ret r2 L2 =>
    simp only [Ctl.bind]
    split <;> simp
  | jmp L2 => simp [Ctl.bind]
  | unhandled e L2 => simp [Ctl.bind]
  | runerror m L2 => simp [Ctl.bind]
  | callerror o L2 => simp [Ctl.bind]
  | outoffuel => exact absurd hr (checkstackGCp_fuel E L 1 func)

/-- A return of `luaD_tryfuncTM`: one more slot of the stack is in use, in a thread that is
well formed and whose stack is not larger than before, or not larger than the limit; the
slot of the value to call holds the metamethod. -/
theorem luaD_tryfuncTM_returned (E : Env) (L : lua_State) (func f1 : Nat) (L2 : lua_State)
    (hwf : WellFormed E.H L) (hfunc : L.stack ≤ func)
    (hgc : CollectorShrinks E) (hret : luaD_tryfuncTM E L func = Ctl.ret f1 L2) :
    WellFormed E.H L2 ∧ (stacksize L2 ≤ E.H.LUAI_MAXSTACK ∨ stacksize L2 ≤ stacksize L) ∧
    L2.top - L2.stack = (L.top - L.stack) + 1 ∧ L2.stack ≤ f1 := by
  unfold luaD_tryfuncTM at hret
  cases hr : checkstackGCp E L 1 func with
  | ret q L1 =>
    obtain ⟨⟨w1, w2, w3, w4⟩, ⟨v1, _⟩, hs, hroom, hq⟩ :=
      checkstackGCp_returned E L 1 func q L1 hwf (by omega) hgc hfunc hr
    simp only [hr, Ctl.bind] at hret
    split at hret
    · simp at hret
    · injection hret with e1 e2
      have hss : stacksize L1 = L1.stack_last - L1.stack := rfl
      obtain ⟨o1, o2, o3, o4, o5, _⟩ := openspace_spec L1 L1.top (L1.top - q) (by omega)
        (by omega)
      have hss2 : stacksize L2 = L2.stack_last - L2.stack := rfl
      have a1 : L2.stack = L1.stack := by rw [← e2]; exact o1
      have a2 : L2.top = L1.top + 1 := by
        rw [← e2]
        show (openspace L1 L1.top (L1.top - q)).top + 1 = _
        rw [o2]
      have a3 : L2.stack_last = L1.stack_last := by
        rw [← e2]
        show (openspace L1 L1.top (L1.top - q)).stack_last = _
        have : ∀ (c : Nat) (K : lua_State) (p : Nat),
            (openspace K p c).stack_last = K.stack_last := by
          intro c
          induction c with
          | zero => intro K p; rfl
          | succ c ih =>
            intro K p
            unfold openspace
            rw [ih]
            rfl
        exact this _ _ _
      have a4 : L2.stackmem.length = L1.stackmem.length := by
        rw [← e2]
        show ((openspace L1 L1.top (L1.top - q)).stackmem.set _ _).length = _
        rw [List.length_set, o3]
      have a5 : L2.ci = L1.ci ∧ L2.cis = L1.cis := by
        rw [← e2]
        exact ⟨o4, o5⟩
      have hssL : stacksize L = L.stack_last - L.stack := rfl
      refine ⟨⟨by omega, by omega, ?_, ?_⟩, by omega, by omega, ?_⟩
      · rw [a4, w3]
        unfold stacksize
        rw [a3, a1]
      · rw [a5.1, a5.2]
        exact w4
      · rw [← e1, a1, hq]
        omega
  | jmp K => simp [hr, Ctl.bind] at hret
  | unhandled e K => simp [hr, Ctl.bind] at hret
  | runerror m K => simp [hr, Ctl.bind] at hret
  | callerror o K => simp [hr, Ctl.bind] at hret
  | outoffuel => simp [hr, Ctl.bind] at hret

/-- On a function, `luaD_precall` makes one pass. -/
theorem luaD_precall_function (E : Env) (fuel : Nat) (L : lua_State) (func : Nat)
    (nresults : Int) (h : IsFunction E.H (s2v L func)) :
    luaD_precall E (fuel + 1) L func nresults = luaD_precall E 1 L func nresults := by
  unfold luaD_precall
  by_cases c1 : ttypetag (s2v L func) = LUA_VCCL E.H
  · simp only [c1, if_true]
  · by_cases c2 : ttypetag (s2v L func) = LUA_VLCF E.H
    · simp only [c1, c2, if_true, if_false]
    · by_cases c3 : ttypetag (s2v L func) = LUA_VLCL E.H
      · simp only [c1, c2, c3, if_true, if_false]
      · rcases h with h | h | h
        · exact absurd h c1
        · exact absurd h c2
        · exact absurd h c3

/-- On a function, `luaD_pretailcall` makes one pass. -/
theorem luaD_pretailcall_function (E : Env) (fuel : Nat) (L : lua_State)
    (ci func narg1 delta : Nat) (h : IsFunction E.H (s2v L func)) :
    luaD_pretailcall E (fuel + 1) L ci func narg1 delta =
      luaD_pretailcall E 1 L ci func narg1 delta := by
  unfold luaD_pretailcall
  by_cases c1 : ttypetag (s2v L func) = LUA_VCCL E.H
  · simp only [c1, if_true]
  · by_cases c2 : ttypetag (s2v L func) = LUA_VLCF E.H
    · simp only [c1, c2, if_true, if_false]
    · by_cases c3 : ttypetag (s2v L func) = LUA_VLCL E.H
      · simp only [c1, c2, c3, if_true, if_false]
      · rcases h with h | h | h
        · exact absurd h c1
        · exact absurd h c2
        · exact absurd h c3

/-- One pass of `luaD_precall` on a value that is not a function. -/
theorem luaD_precall_retry (E : Env) (fuel : Nat) (L : lua_State) (func : Nat)
    (nresults : Int) (h : ¬ IsFunction E.H (s2v L func)) :
    luaD_precall E (fuel + 1) L func nresults =
      (luaD_tryfuncTM E L func).bind fun func L1 => luaD_precall E fuel L1 func nresults := by
  have c1 : ¬ ttypetag (s2v L func) = LUA_VCCL E.H := fun c => h (Or.inl c)
  have c2 : ¬ ttypetag (s2v L func) = LUA_VLCF E.H := fun c => h (Or.inr (Or.inl c))
  have c3 : ¬ ttypetag (s2v L func) = LUA_VLCL E.H := fun c => h (Or.inr (Or.inr c))
  rw [luaD_precall]
  simp only [c1, c2, c3, if_false]

theorem luaD_pretailcall_retry (E : Env) (fuel : Nat) (L : lua_State)
    (ci func narg1 delta : Nat) (h : ¬ IsFunction E.H (s2v L func)) :
    luaD_pretailcall E (fuel + 1) L ci func narg1 delta =
      (luaD_tryfuncTM E L func).bind fun func L1 =>
        luaD_pretailcall E fuel L1 ci func (narg1 + 1) delta := by
  have c1 : ¬ ttypetag (s2v L func) = LUA_VCCL E.H := fun c => h (Or.inl c)
  have c2 : ¬ ttypetag (s2v L func) = LUA_VLCF E.H := fun c => h (Or.inr (Or.inl c))
  have c3 : ¬ ttypetag (s2v L func) = LUA_VLCL E.H := fun c => h (Or.inr (Or.inr c))
  rw [luaD_pretailcall]
  simp only [c1, c2, c3, if_false]

/-- The passes of a chain are those of `luaD_precall` and of `luaD_pretailcall`. -/
theorem CallChain_run (E : Env) (k : Nat) (L : lua_State) (func : Nat) (L2 : lua_State)
    (func2 : Nat) (h : CallChain E k L func L2 func2) :
    (∀ nresults fuel,
      luaD_precall E (fuel + k) L func nresults = luaD_precall E fuel L2 func2 nresults) ∧
    (∀ ci narg1 delta fuel,
      luaD_pretailcall E (fuel + k) L ci func narg1 delta =
        luaD_pretailcall E fuel L2 ci func2 (narg1 + k) delta) := by
  induction h with
  | done L func => exact ⟨fun _ _ => rfl, fun _ _ _ _ => rfl⟩
  | retry k L func L1 func1 L2 func2 hnf htm _ ih =>
    constructor
    · intro nresults fuel
      rw [show fuel + (k + 1) = (fuel + k) + 1 by omega, luaD_precall_retry E _ L func _ hnf,
        htm]
      exact ih.1 nresults fuel
    · intro ci narg1 delta fuel
      rw [show fuel + (k + 1) = (fuel + k) + 1 by omega,
        luaD_pretailcall_retry E _ L ci func _ _ hnf, htm,
        show narg1 + (k + 1) = (narg1 + 1) + k by omega]
      exact ih.2 ci (narg1 + 1) delta fuel

theorem luaD_precall_chain (E : Env) (M : Nat) (hM : E.H.LUAI_MAXSTACK ≤ M)
    (hgc : CollectorShrinks E) :
    ∀ (d : Nat) (L : lua_State) (func : Nat), WellFormed E.H L → L.stack ≤ func →
      stacksize L ≤ M → M - (L.top - L.stack) ≤ d →
      ∃ k L2 func2, k ≤ d ∧ CallChain E k L func L2 func2 ∧
        L2.top - L2.stack = (L.top - L.stack) + k ∧
        (IsFunction E.H (s2v L2 func2) ∨
          (¬ IsFunction E.H (s2v L2 func2) ∧
            ∀ f1 L3, luaD_tryfuncTM E L2 func2 ≠ Ctl.ret f1 L3)) := by
  intro d
  induction d with
  | zero =>
    intro L func hwf hfunc hsize hd
    by_cases hf : IsFunction E.H (s2v L func)
    · exact ⟨0, L, func, Nat.le_refl 0, CallChain.done L func, rfl, Or.inl hf⟩
    · refine ⟨0, L, func, Nat.le_refl 0, CallChain.done L func, rfl, Or.inr ⟨hf, ?_⟩⟩
      intro f1 L3 hret
      obtain ⟨⟨w1, w2, _, _⟩, hs, ht, _⟩ :=
        luaD_tryfuncTM_returned E L func f1 L3 hwf hfunc hgc hret
      have hss : stacksize L3 = L3.stack_last - L3.stack := rfl
      omega
  | succ d ih =>
    intro L func hwf hfunc hsize hd
    by_cases hf : IsFunction E.H (s2v L func)
    · exact ⟨0, L, func, Nat.zero_le _, CallChain.done L func, rfl, Or.inl hf⟩
    · cases hr : luaD_tryfuncTM E L func with
      | ret f1 L1 =>
        obtain ⟨w, hs, ht, hf1⟩ := luaD_tryfuncTM_returned E L func f1 L1 hwf hfunc hgc hr
        have hss : stacksize L1 = L1.stack_last - L1.stack := rfl
        obtain ⟨k, L2, func2, hk, hchain, htop, hend⟩ := ih L1 f1 w hf1 (by omega) (by
          obtain ⟨w1, w2, _, _⟩ := w
          omega)
        exact ⟨k + 1, L2, func2, by omega, CallChain.retry k L func L1 f1 L2 func2 hf hr hchain,
          by omega, hend⟩
      | jmp K =>
        exact ⟨0, L, func, Nat.zero_le _, CallChain.done L func, rfl,
          Or.inr ⟨hf, fun f1 L3 c => by rw [hr] at c; cases c⟩⟩
      | unhandled e K =>
        exact ⟨0, L, func, Nat.zero_le _, CallChain.done L func, rfl,
          Or.inr ⟨hf, fun f1 L3 c => by rw [hr] at c; cases c⟩⟩
      | runerror m K =>
        exact ⟨0, L, func, Nat.zero_le _, CallChain.done L func, rfl,
          Or.inr ⟨hf, fun f1 L3 c => by rw [hr] at c; cases c⟩⟩
      | callerror o K =>
        exact ⟨0, L, func, Nat.zero_le _, CallChain.done L func, rfl,
          Or.inr ⟨hf, fun f1 L3 c => by rw [hr] at c; cases c⟩⟩
      | outoffuel => exact absurd hr (luaD_tryfuncTM_fuel E L func)

/-- With room for it on the stack, `luaD_tryfuncTM` returns on a value that has a metamethod
`__call`, and leaves the metamethod in the slot of the value. -/
theorem luaD_tryfuncTM_room (E : Env) (L : lua_State) (func : Nat)
    (hwf : WellFormed E.H L) (hfunc : L.stack ≤ func ∧ func < L.top)
    (hroom : 1 < L.stack_last - L.top)
    (htm : ttisnil E.H (E.luaT_gettmbyobj L (s2v L func)) = false) :
    ∃ L2, luaD_tryfuncTM E L func = Ctl.ret func L2 ∧ WellFormed E.H L2 ∧
      L2.stack = L.stack ∧ L2.top = L.top + 1 ∧ L2.stack_last = L.stack_last ∧
      s2v L2 func = E.luaT_gettmbyobj L (s2v L func) := by
  obtain ⟨w1, w2, w3, w4⟩ := hwf
  have hss : stacksize L = L.stack_last - L.stack := rfl
  have hc : ¬ (L.stack_last : Int) - (L.top : Int) ≤ 1 := by omega
  obtain ⟨o1, o2, o3, o4, o5, _⟩ := openspace_spec L L.top (L.top - func) (by omega) (by omega)
  have o6 : ∀ (c : Nat) (K : lua_State) (p : Nat),
      (openspace K p c).stack_last = K.stack_last := by
    intro c
    induction c with
    | zero => intro K p; rfl
    | succ c ih =>
      intro K p
      unfold openspace
      rw [ih]
      rfl
  refine ⟨setobj2s
    { openspace L L.top (L.top - func) with top := (openspace L L.top (L.top - func)).top + 1 }
    func (E.luaT_gettmbyobj L (s2v L func)), ?_, ⟨?_, ?_, ?_, ?_⟩, ?_, ?_, ?_, ?_⟩
  · unfold luaD_tryfuncTM checkstackGCp
    rw [if_neg hc]
    simp only [Ctl.bind, htm]
    rfl
  · show (openspace L L.top (L.top - func)).stack ≤ (openspace L L.top (L.top - func)).top + 1
    omega
  · show (openspace L L.top (L.top - func)).top + 1 ≤
      (openspace L L.top (L.top - func)).stack_last
    rw [o2, o6]
    omega
  · show ((openspace L L.top (L.top - func)).stackmem.set _ _).length =
      ((openspace L L.top (L.top - func)).stack_last -
        (openspace L L.top (L.top - func)).stack) + E.H.EXTRA_STACK
    rw [List.length_set, o3, o6, o1, w3, hss]
  · show (openspace L L.top (L.top - func)).ci < (openspace L L.top (L.top - func)).cis.length
    rw [o4, o5]
    exact w4
  · exact o1
  · show (openspace L L.top (L.top - func)).top + 1 = _
    rw [o2]
  · exact o6 _ _ _
  · unfold setobj2s
    rw [s2v_stkset, if_pos ⟨rfl, by
      show func - (openspace L L.top (L.top - func)).stack <
        (openspace L L.top (L.top - func)).stackmem.length
      rw [o3, o1]
      omega⟩]
    rfl

/-- While there is room on the stack and every metamethod `__call` is again a value that is
neither nil nor a function, the loop goes on. -/
theorem CallChain_room (E : Env)
    (htm : ∀ L o, ttisnil E.H o = false → ¬ IsFunction E.H o →
      ttisnil E.H (E.luaT_gettmbyobj L o) = false ∧ ¬ IsFunction E.H (E.luaT_gettmbyobj L o)) :
    ∀ (r : Nat) (L : lua_State) (func : Nat), WellFormed E.H L →
      (L.stack ≤ func ∧ func < L.top) → r < L.stack_last - L.top →
      ttisnil E.H (s2v L func) = false → ¬ IsFunction E.H (s2v L func) →
      ∃ L2 func2, CallChain E r L func L2 func2 := by
  intro r
  induction r with
  | zero => intro L func _ _ _ _ _; exact ⟨L, func, CallChain.done L func⟩
  | succ r ih =>
    intro L func hwf hfunc hroom hnil hnf
    obtain ⟨t1, t2⟩ := htm L _ hnil hnf
    obtain ⟨L1, e, w, a1, a2, a3, a4⟩ := luaD_tryfuncTM_room E L func hwf hfunc (by omega) t1
    obtain ⟨L2, func2, hc⟩ := ih L1 func w (by omega) (by omega) (by rw [a4]; exact t1)
      (by rw [a4]; exact t2)
    exact ⟨L2, func2, CallChain.retry r L func L1 func L2 func2 hnf e hc⟩

/-- C40: the loop of `luaD_precall` and of `luaD_pretailcall` through the metamethod `__call`
ends.  From a well-formed thread there are `k` passes in which the value to call is not a
function and `luaD_tryfuncTM` returns, with one more slot of the stack in use each time, and
`k` plus the number of slots in use at the start is at most the larger of the stack size and
`LUAI_MAXSTACK`: so `k <= LUAI_MAXSTACK` for a stack within the limit, and
`k <= ERRORSTACKSIZE` for a stack of that size.  After them either the value to call is a
function, and for every fuel above `k` the result is that of one pass on it, the call of the
function; or `luaD_tryfuncTM` raises an error, which is then the result.  (The collector step
keeps the thread well formed and does not grow the stack.) -/
theorem luaD_precall_terminates (E : Env) (L : lua_State) (func : Nat)
    (hwf : WellFormed E.H L) (hfunc : L.stack ≤ func) (hgc : CollectorShrinks E) :
    ∃ k L2 func2, CallChain E k L func L2 func2 ∧
      k + (L.top - L.stack) ≤ max (stacksize L) E.H.LUAI_MAXSTACK ∧
      (stacksize L ≤ E.H.LUAI_MAXSTACK → k ≤ E.H.LUAI_MAXSTACK) ∧
      (stacksize L = ERRORSTACKSIZE E.H → k ≤ ERRORSTACKSIZE E.H) ∧
      L2.top - L2.stack = (L.top - L.stack) + k ∧
      ((IsFunction E.H (s2v L2 func2) ∧
          (∀ nresults fuel, k < fuel →
            luaD_precall E fuel L func nresults = luaD_precall E 1 L2 func2 nresults) ∧
          (∀ ci narg1 delta fuel, k < fuel →
            luaD_pretailcall E fuel L ci func narg1 delta =
              luaD_pretailcall E 1 L2 ci func2 (narg1 + k) delta)) ∨
        (¬ IsFunction E.H (s2v L2 func2) ∧
          (∀ f1 L3, luaD_tryfuncTM E L2 func2 ≠ Ctl.ret f1 L3) ∧
          luaD_tryfuncTM E L2 func2 ≠ Ctl.outoffuel ∧
          (∀ nresults fuel, k < fuel →
            luaD_precall E fuel L func nresults =
              (luaD_tryfuncTM E L2 func2).bind fun _ K => Ctl.ret none K) ∧
          (∀ ci narg1 delta fuel, k < fuel →
            luaD_pretailcall E fuel L ci func narg1 delta =
              (luaD_tryfuncTM E L2 func2).bind fun _ K => Ctl.ret 0 K))) := by
  obtain ⟨k, L2, func2, hk, hchain, htop, hend⟩ := luaD_precall_chain E
    (max (stacksize L) E.H.LUAI_MAXSTACK) (Nat.le_max_right _ _) hgc
    (max (stacksize L) E.H.LUAI_MAXSTACK - (L.top - L.stack)) L func hwf hfunc
    (Nat.le_max_left _ _) (Nat.le_refl _)
  have hss : stacksize L = L.stack_last - L.stack := rfl
  have hmax : L.top - L.stack ≤ max (stacksize L) E.H.LUAI_MAXSTACK := by
    obtain ⟨w1, w2, _, _⟩ := hwf
    have := Nat.le_max_left (stacksize L) E.H.LUAI_MAXSTACK
    omega
  have hbound : k + (L.top - L.stack) ≤ max (stacksize L) E.H.LUAI_MAXSTACK := by omega
  obtain ⟨r1, r2⟩ := CallChain_run E k L func L2 func2 hchain
  refine ⟨k, L2, func2, hchain, hbound, ?_, ?_, htop, ?_⟩
  · intro h
    rw [Nat.max_eq_right h] at hbound
    omega
  · intro h
    have : max (stacksize L) E.H.LUAI_MAXSTACK = ERRORSTACKSIZE E.H := by
      rw [h]
      exact Nat.max_eq_left (Nat.le_add_right _ _)
    omega
  rcases hend with hf | ⟨hf, herr⟩
  · refine Or.inl ⟨hf, ?_, ?_⟩
    · intro nresults fuel hfuel
      obtain ⟨m, rfl⟩ : ∃ m, fuel = (m + 1) + k := ⟨fuel - k - 1, by omega⟩
      rw [r1 nresults (m + 1)]
      exact luaD_precall_function E m L2 func2 nresults hf
    · intro ci narg1 delta fuel hfuel
      obtain ⟨m, rfl⟩ : ∃ m, fuel = (m + 1) + k := ⟨fuel - k - 1, by omega⟩
      rw [r2 ci narg1 delta (m + 1)]
      exact luaD_pretailcall_function E m L2 ci func2 (narg1 + k) delta hf
  · refine Or.inr ⟨hf, herr, luaD_tryfuncTM_fuel E L2 func2, ?_, ?_⟩
    · intro nresults fuel hfuel
      obtain ⟨m, rfl⟩ : ∃ m, fuel = (m + 1) + k := ⟨fuel - k - 1, by omega⟩
      rw [r1 nresults (m + 1), luaD_precall_retry E m L2 func2 nresults hf]
      exact Ctl.bind_error _ _ _ herr
    · intro ci narg1 delta fuel hfuel
      obtain ⟨m, rfl⟩ : ∃ m, fuel = (m + 1) + k := ⟨fuel - k - 1, by omega⟩
      rw [r2 ci narg1 delta (m + 1), luaD_pretailcall_retry E m L2 ci func2 _ delta hf]
      exact Ctl.bind_error _ _ _ herr

theorem luaD_precall_terminates_witness :
    WellFormed exEnvTM.H exState ∧ exState.stack ≤ 104 ∧ CollectorShrinks exEnvTM ∧
    ∃ k L2 func2, CallChain exEnvTM k exState 104 L2 func2 ∧
      k + (exState.top - exState.stack) ≤ max (stacksize exState) exEnvTM.H.LUAI_MAXSTACK ∧
      (stacksize exState ≤ exEnvTM.H.LUAI_MAXSTACK → k ≤ exEnvTM.H.LUAI_MAXSTACK) ∧
      (stacksize exState = ERRORSTACKSIZE exEnvTM.H → k ≤ ERRORSTACKSIZE exEnvTM.H) ∧
      L2.top - L2.stack = (exState.top - exState.stack) + k ∧
      ((IsFunction exEnvTM.H (s2v L2 func2) ∧
          (∀ nresults fuel, k < fuel →
            luaD_precall exEnvTM fuel exState 104 nresults =
              luaD_precall exEnvTM 1 L2 func2 nresults) ∧
          (∀ ci narg1 delta fuel, k < fuel →
            luaD_pretailcall exEnvTM fuel exState ci 104 narg1 delta =
              luaD_pretailcall exEnvTM 1 L2 ci func2 (narg1 + k) delta)) ∨
        (¬ IsFunction exEnvTM.H (s2v L2 func2) ∧
          (∀ f1 L3, luaD_tryfuncTM exEnvTM L2 func2 ≠ Ctl.ret f1 L3) ∧
          luaD_tryfuncTM exEnvTM L2 func2 ≠ Ctl.outoffuel ∧
          (∀ nresults fuel, k < fuel →
            luaD_precall exEnvTM fuel exState 104 nresults =
              (luaD_tryfuncTM exEnvTM L2 func2).bind fun _ K => Ctl.ret none K) ∧
          (∀ ci narg1 delta fuel, k < fuel →
            luaD_pretailcall exEnvTM fuel exState ci 104 narg1 delta =
              (luaD_tryfuncTM exEnvTM L2 func2).bind fun _ K => Ctl.ret 0 K))) :=
  ⟨⟨by decide, by decide, by decide, by decide⟩, by decide,
    fun L h => ⟨h, Nat.le_refl _, SameView.refl L⟩,
    luaD_precall_terminates exEnvTM exState 104 ⟨by decide, by decide, by decide, by decide⟩
      (by decide) (fun L h => ⟨h, Nat.le_refl _, SameView.refl L⟩)⟩

/-- C40, the bound as stated: in the thread `exReserveState`, whose stack has the size
`ERRORSTACKSIZE` after a stack overflow, with every value its own metamethod `__call`, the
loop of `luaD_precall` on the number in slot 104 makes more than `LUAI_MAXSTACK` passes in
which `luaD_tryfuncTM` returns: with fuel for that many passes the call has not ended. -/
theorem luaD_precall_reserve :
    ∃ k L2 func2, exEnvSelf.H.LUAI_MAXSTACK < k ∧
      CallChain exEnvSelf k exReserveState 104 L2 func2 ∧
      luaD_precall exEnvSelf k exReserveState 104 0 = Ctl.outoffuel := by
  have hlen : exReserveState.stackmem.length =
      stacksize exReserveState + exEnvSelf.H.EXTRA_STACK := by
    show (List.replicate (ERRORSTACKSIZE exEnv.H + exEnv.H.EXTRA_STACK) (exSlot 0)).length = _
    rw [List.length_replicate]
    decide
  have hval : s2v exReserveState 104 = (exSlot 0).val := by
    show ((List.replicate (ERRORSTACKSIZE exEnv.H + exEnv.H.EXTRA_STACK) (exSlot 0)).getD
      (104 - 100) default).val = _
    rw [List.getD_eq_getElem?_getD, List.getElem?_replicate, if_pos (by decide)]
    rfl
  obtain ⟨L2, func2, h⟩ := CallChain_room exEnvSelf (fun _ _ h1 h2 => ⟨h1, h2⟩) 13
    exReserveState 104 ⟨by decide, by decide, hlen, by decide⟩ (by decide) (by decide)
    (by rw [hval]; decide) (by rw [hval]; decide)
  refine ⟨13, L2, func2, by decide, h, ?_⟩
  have e := (CallChain_run exEnvSelf 13 exReserveState 104 L2 func2 h).1 0 0
  rw [show 0 + 13 = 13 from rfl] at e
  rw [e]
  rfl

/-! ### The order of the finalizers -/

theorem Linked_thset (g : global_State) (t : Nat) (x : lua_State) :
    ∀ (l : List Nat) (p : Option Nat), Linked g p l → Linked (thset g t x) p l
  | [], _, h => h
  | a :: l, _, h => by
    obtain ⟨h1, h2, h3⟩ := h
    have hal : allocated (thset g t x) a = true := by
      unfold thset
      by_cases c : a = t ∧ t < g.objs.length
      · rw [allocated_eq, objat_gcset, if_pos c]
        rfl
      · rw [allocated_eq, objat_gcset, if_neg c, ← allocated_eq]
        exact h2
    have hnx : (gcat (thset g t x) a).next = (gcat g a).next := by
      unfold thset
      rw [gcat_gcset]
      split
      · next c => rw [c.1]
      · rfl
    refine ⟨h1, hal, ?_⟩
    rw [hnx]
    exact Linked_thset g t x l _ h3

/-- What `udata2finalize` leaves of the list `tobefnz`. -/
theorem udata2finalize_rest (H : Decls) (hstd : StdMarks H) (g g1 : global_State) (o : Nat)
    (T : List Nat) (hl : Linked g g.tobefnz T) (hnd : T.Nodup)
    (hu : udata2finalize H g = some (g1, o)) :
    ∃ T1, T = o :: T1 ∧ Linked g1 g1.tobefnz T1 := by
  cases T with
  | nil =>
    have e : g.tobefnz = none := hl
    unfold udata2finalize at hu
    rw [e] at hu
    cases hu
  | cons a T1 =>
    obtain ⟨h1, h2, h3⟩ := hl
    obtain ⟨g2, e, u1, _, _, _, _, u6, _⟩ := udata2finalize_spec H hstd g a h1 h2
    rw [e] at hu
    injection hu with hu
    injection hu with e1 e2
    subst e1
    subst e2
    refine ⟨T1, rfl, ?_⟩
    rw [u1]
    exact Linked_congr g g2 T1 _
      (fun x hx => u6 x (fun c => (List.nodup_cons.mp hnd).1 (c ▸ hx))) h3

/-- The state after a call of `GCTM` that calls a finalizer. -/
theorem GCTM_called (E : StepEnv) (fuel L : Nat) (g g1 g2 : global_State) (o : Nat)
    (hu : udata2finalize E.H g = some (g1, o))
    (htm : notm E.H (E.gettm_gc g1 { value_ := Value.gc o, tt_ := ctb (gcat g1 o).tt }) = false)
    (hg : GCTM E fuel L g = some g2) :
    ∃ t, g2 = thset { E.finalizer { g1 with gcstp := g1.gcstp ||| E.H.GCSTPGC } o with
      gcstp := g1.gcstp } L t := by
  unfold GCTM at hg
  rw [hu] at hg
  simp only [htm, Bool.not_false, if_true] at hg
  split at hg
  · next status t5 _ =>
    injection hg with hg
    exact ⟨_, hg.symm⟩
  · cases hg

/-- A call of `GCTM` on an object without finalizer. -/
theorem GCTM_skipped (E : StepEnv) (fuel L : Nat) (g g1 : global_State) (o : Nat)
    (hu : udata2finalize E.H g = some (g1, o))
    (htm : notm E.H (E.gettm_gc g1 { value_ := Value.gc o, tt_ := ctb (gcat g1 o).tt }) = true) :
    GCTM E fuel L g = some g1 := by
  unfold GCTM
  rw [hu]
  simp only [htm, Bool.not_true]
  rfl

/-- The finalizers are called in the order of the list `tobefnz`. -/
theorem Finalizes_sublist (E : StepEnv) (hstd : StdMarks E.H) (hkeep : FinalizerKeeps E)
    (fuel L : Nat) (g : global_State) (os : List Nat) (g3 : global_State)
    (h : Finalizes E fuel L g os g3) :
    ∀ T, Linked g g.tobefnz T → T.Nodup → os.Sublist T := by
  induction h with
  | done g => intro T _ _; exact List.nil_sublist T
  | call g g1 o g2 os g3 hu htm hg _ ih =>
    intro T hl hnd
    obtain ⟨T1, e, hl1⟩ := udata2finalize_rest E.H hstd g g1 o T hl hnd hu
    obtain ⟨t, e2⟩ := GCTM_called E fuel L g g1 g2 o hu htm hg
    rw [e]
    rw [e] at hnd
    refine List.Sublist.cons₂ o (ih T1 ?_ (List.nodup_cons.mp hnd).2)
    have k1 : Linked { g1 with gcstp := g1.gcstp ||| E.H.GCSTPGC }
        { g1 with gcstp := g1.gcstp ||| E.H.GCSTPGC }.tobefnz T1 :=
      Linked_congr g1 { g1 with gcstp := g1.gcstp ||| E.H.GCSTPGC } T1 _ (fun _ _ => rfl) hl1
    have k2 := hkeep _ o T1 k1
    generalize E.finalizer { g1 with gcstp := g1.gcstp ||| E.H.GCSTPGC } o = gf at k2 e2
    rw [e2]
    exact Linked_thset _ L t T1 _
      (Linked_congr gf { gf with gcstp := g1.gcstp } T1 _ (fun _ _ => rfl) k2)
  | skip g g1 o os g3 hu htm _ ih =>
    intro T hl hnd
    obtain ⟨T1, e, hl1⟩ := udata2finalize_rest E.H hstd g g1 o T hl hnd hu
    rw [e]
    rw [e] at hnd
    exact List.Sublist.cons o (ih T1 hl1 (List.nodup_cons.mp hnd).2)

/-- A run of `runafewfinalizers` is a sequence of calls of `GCTM`. -/
theorem runafewfinalizers_run (E : StepEnv) (fuel L : Nat) :
    ∀ (n : Nat) (g g3 : global_State), runafewfinalizers E fuel L n g = some g3 →
      ∃ os, Finalizes E fuel L g os g3 ∧ os.length ≤ n := by
  intro n
  induction n with
  | zero =>
    intro g g3 h
    injection h with h
    subst h
    exact ⟨[], Finalizes.done g, Nat.le_refl 0⟩
  | succ n ih =>
    intro g g3 h
    unfold runafewfinalizers at h
    by_cases c : g.tobefnz ≠ none
    · rw [if_pos c] at h
      cases hg : GCTM E fuel L g with
      | none => rw [hg] at h; cases h
      | some g2 =>
        rw [hg] at h
        obtain ⟨os, hrun, hlen⟩ := ih g2 g3 h
        cases hu : udata2finalize E.H g with
        | none =>
          unfold GCTM at hg
          rw [hu] at hg
          cases hg
        | some r =>
          obtain ⟨g1, o⟩ := r
          cases htm : notm E.H (E.gettm_gc g1 { value_ := Value.gc o, tt_ := ctb (gcat g1 o).tt })
            with
          | true =>
            have e := GCTM_skipped E fuel L g g1 o hu htm
            rw [hg] at e
            injection e with e
            subst e
            exact ⟨os, Finalizes.skip g g2 o os g3 hu htm hrun, by omega⟩
          | false =>
            exact ⟨o :: os, Finalizes.call g g1 o g2 os g3 hu htm hg hrun, by
              simp only [List.length_cons]
              omega⟩
    · rw [if_neg c] at h
      injection h with h
      subst h
      exact ⟨[], Finalizes.done g, Nat.zero_le _⟩

/-- A run of `callallpendingfinalizers` is a sequence of calls of `GCTM` that empties the list
`tobefnz`. -/
theorem callallpendingfinalizers_run (E : StepEnv) (fuel L : Nat) :
    ∀ (n : Nat) (g g3 : global_State), callallpendingfinalizers E fuel L n g = some g3 →
      g3.tobefnz = none ∧ ∃ os, Finalizes E fuel L g os g3 := by
  intro n
  induction n with
  | zero =>
    intro g g3 h
    cases h
  | succ n ih =>
    intro g g3 h
    unfold callallpendingfinalizers at h
    by_cases c : g.tobefnz ≠ none
    · rw [if_pos c] at h
      cases hg : GCTM E fuel L g with
      | none => rw [hg] at h; cases h
      | some g2 =>
        rw [hg] at h
        obtain ⟨hnone, os, hrun⟩ := ih g2 g3 h
        refine ⟨hnone, ?_⟩
        cases hu : udata2finalize E.H g with
        | none =>
          unfold GCTM at hg
          rw [hu] at hg
          cases hg
        | some r =>
          obtain ⟨g1, o⟩ := r
          cases htm : notm E.H (E.gettm_gc g1 { value_ := Value.gc o, tt_ := ctb (gcat g1 o).tt })
            with
          | true =>
            have e := GCTM_skipped E fuel L g g1 o hu htm
            rw [hg] at e
            injection e with e
            subst e
            exact ⟨os, Finalizes.skip g g2 o os g3 hu htm hrun⟩
          | false => exact ⟨o :: os, Finalizes.call g g1 o g2 os g3 hu htm hg hrun⟩
    · rw [if_neg c] at h
      injection h with h
      subst h
      exact ⟨not_not.mp c, [], Finalizes.done g⟩

/-- In a list without repetition of which `os` is a part in order, an object that stands
before another one in the list stands before it in `os`. -/
theorem sublist_order (os m0 m1 m2 : List Nat) (a b : Nat)
    (hs : os.Sublist (m0 ++ b :: m1 ++ a :: m2)) (hnd : (m0 ++ b :: m1 ++ a :: m2).Nodup)
    (ha : a ∈ os) (hb : b ∈ os) : ∃ p q r, os = p ++ b :: q ++ a :: r := by
  have hndo : os.Nodup := hnd.sublist hs
  obtain ⟨p, r, e⟩ := List.append_of_mem ha
  have hne : b ≠ a := by
    intro c
    subst c
    have e1 : m0 ++ b :: m1 ++ b :: m2 = m0 ++ (b :: (m1 ++ b :: m2)) := by simp
    rw [e1] at hnd
    have := (List.nodup_cons.mp (List.nodup_append.mp hnd).2.1).1
    exact this (List.mem_append_right m1 (List.mem_cons_self b m2))
  rw [e] at hb
  rcases List.mem_append.mp hb with hp | hr
  · obtain ⟨p1, q, e2⟩ := List.append_of_mem hp
    refine ⟨p1, q, r, ?_⟩
    rw [e, e2]
  · exfalso
    have hr2 : b ∈ r := by
      rcases List.mem_cons.mp hr with c | c
      · exact absurd c hne
      · exact c
    have s1 : [a, b].Sublist os := by
      rw [e]
      exact (List.Sublist.cons₂ a (List.singleton_sublist.mpr hr2)).trans
        (List.sublist_append_right p (a :: r))
    have s2 : [a, b].Sublist (m0 ++ (b :: (m1 ++ a :: m2))) := by
      have e1 : m0 ++ b :: m1 ++ a :: m2 = m0 ++ (b :: (m1 ++ a :: m2)) := by simp
      rw [← e1]
      exact s1.trans hs
    have e1 : m0 ++ b :: m1 ++ a :: m2 = m0 ++ (b :: (m1 ++ a :: m2)) := by simp
    rw [e1] at hnd
    obtain ⟨n0, n1, n2⟩ := List.nodup_append.mp hnd
    have ham : a ∈ b :: (m1 ++ a :: m2) :=
      List.mem_cons_of_mem b (List.mem_append_right m1 (List.mem_cons_self a m2))
    have hbm : b ∈ b :: (m1 ++ a :: m2) := List.mem_cons_self b _
    obtain ⟨x, y, exy, sx, sy⟩ := List.sublist_append_iff.mp s2
    have hx : x = [] := by
      cases x with
      | nil => rfl
      | cons c x1 =>
        exfalso
        have hc : c = a := by
          have := congrArg List.head? exy
          simp at this
          exact this.symm
        have : a ∈ m0 := sx.subset (hc ▸ List.mem_cons_self c x1)
        exact n2 this ham
    rw [hx] at exy
    rw [← show [a, b] = y from exy] at sy
    cases sy with
    | cons _ s3 =>
      have : b ∈ m1 ++ a :: m2 := s3.subset (List.mem_cons_of_mem a (List.mem_cons_self b []))
      exact (List.nodup_cons.mp n1).1 this
    | cons₂ _ s3 => exact hne rfl

/-- C39: objects that are collected together are finalized in the reverse of the order in
which they were marked for finalization.  `luaC_checkfinalizer`, when it marks an object,
puts it at the head of `finobj`; `separatetobefnz` appends the white objects of `finobj` to
the end of `tobefnz`, in the order of the list; `udata2finalize` takes the head of `tobefnz`;
and the runs of `runafewfinalizers` and of `callallpendingfinalizers` are sequences of calls
of `GCTM`.  So when `b` stands before `a` in `finobj` (it was marked after `a`), both are
white and `tobefnz` is empty, `b` stands before `a` in `tobefnz` after `separatetobefnz`, and
in every sequence of calls of `GCTM` from there in which the finalizers of both are called,
the one of `b` is called before the one of `a`.  (The code of a finalizer leaves the list
`tobefnz` as it is.) -/
theorem finalizer_order (E : StepEnv) (hrel : Releases E.toGCEnv) (hstd : StdMarks E.H)
    (hkeep : FinalizerKeeps E) :
    (∀ g pre post lf lt lx o fuel mt, Owned E.H g (pre ++ o :: post) lf lt lx →
      (pre ++ o :: post).length < fuel → (∀ a ∈ post, CollectableTag E.H (gcat g a).tt) →
      ¬ (E.gfasttm_gc g mt = none ∨ g.gcstp &&& E.H.GCSTPCLS ≠ 0) →
      ∃ g1 la1, luaC_checkfinalizer E fuel g o mt = some g1 ∧
        Owned E.H g1 la1 (o :: lf) lt lx) ∧
    (∀ g la lf lt lx fuel, Owned E.H g la lf lt lx → g.finobjold1 = none →
      lf.length < fuel → lt.length < fuel →
      ∃ g1, separatetobefnz E.H fuel g false = some g1 ∧
        Owned E.H g1 la (lf.filter (fun a => !iswhite E.H (gcat g a).marked))
          (lt ++ lf.filter (fun a => iswhite E.H (gcat g a).marked)) lx) ∧
    (∀ g la lf lt lx o, Owned E.H g la lf (o :: lt) lx →
      ∃ g1, udata2finalize E.H g = some (g1, o) ∧ Owned E.H g1 (o :: la) lf lt lx) ∧
    (∀ fuel L n g g3,
      (runafewfinalizers E fuel L n g = some g3 ∨
        callallpendingfinalizers E fuel L n g = some g3) →
      ∃ os, Finalizes E fuel L g os g3) ∧
    (∀ g la l0 l1 l2 lx a b fuel, Owned E.H g la (l0 ++ b :: l1 ++ a :: l2) [] lx →
      g.finobjold1 = none → iswhite E.H (gcat g a).marked = true →
      iswhite E.H (gcat g b).marked = true → (l0 ++ b :: l1 ++ a :: l2).length < fuel →
      ∃ g1 m0 m1 m2, separatetobefnz E.H fuel g false = some g1 ∧
        Linked g1 g1.tobefnz (m0 ++ b :: m1 ++ a :: m2) ∧
        ∀ fuel2 L os g3, Finalizes E fuel2 L g1 os g3 → a ∈ os → b ∈ os →
          ∃ p q r, os = p ++ b :: q ++ a :: r) := by
  have hsep : ∀ g la lf lt lx fuel, Owned E.H g la lf lt lx → g.finobjold1 = none →
      lf.length < fuel → lt.length < fuel →
      ∃ g1, separatetobefnz E.H fuel g false = some g1 ∧
        Owned E.H g1 la (lf.filter (fun a => !iswhite E.H (gcat g a).marked))
          (lt ++ lf.filter (fun a => iswhite E.H (gcat g a).marked)) lx := by
    intro g la lf lt lx fuel h hold hf1 hf2
    obtain ⟨g1, e, hown, _⟩ := separate_owned E.H g la lf [] lt lx false fuel
      (by rw [List.append_nil]; exact h) (by rw [hold]; rfl) hf1 hf2
    simp only [Bool.or_false, List.append_nil] at hown
    exact ⟨g1, e, hown⟩
  refine ⟨?_, hsep, ?_, ?_, ?_⟩
  · intro g pre post lf lt lx o fuel mt h hfuel htags hfin
    obtain ⟨g1, e, _, k⟩ := checkfinalizer_owned E hrel hstd g pre post lf lt lx o fuel mt h
      hfuel htags
    exact ⟨g1, _, e, (k hfin).1⟩
  · intro g la lf lt lx o h
    obtain ⟨g1, e, k, _⟩ := udata_owned E.H hstd g la lf lt lx o h
    exact ⟨g1, e, k⟩
  · intro fuel L n g g3 h
    rcases h with h | h
    · obtain ⟨os, k, _⟩ := runafewfinalizers_run E fuel L n g g3 h
      exact ⟨os, k⟩
    · exact (callallpendingfinalizers_run E fuel L n g g3 h).2
  · intro g la l0 l1 l2 lx a b fuel h hold ha hb hfuel
    obtain ⟨g1, e, hown⟩ := hsep g la _ [] lx fuel h hold hfuel (by
      simp only [List.length_nil]
      omega)
    simp only [List.nil_append, List.filter_append, List.filter_cons, ha, hb, if_true] at hown
    obtain ⟨_, _, h3, _, h5, _⟩ := hown
    refine ⟨g1, _, _, _, e, h3, ?_⟩
    intro fuel2 L os g3 hrun hao hbo
    have hnd := (List.nodup_append.mp (List.nodup_append.mp h5).1).2.1
    exact sublist_order os _ _ _ a b (Finalizes_sublist E hstd hkeep fuel2 L g1 os g3 hrun _ h3
      hnd) hnd hao hbo

set_option maxRecDepth 100000 in
theorem finalizer_order_witness :
    Releases exStepEnv.toGCEnv ∧ StdMarks exStepEnv.H ∧ FinalizerKeeps exStepEnv ∧
    Owned exStepEnv.H exOrder [3, 0] [2, 1] [] [] ∧
    (∃ g1 m0 m1 m2, separatetobefnz exStepEnv.H 3 exOrder false = some g1 ∧
      Linked g1 g1.tobefnz (m0 ++ 2 :: m1 ++ 1 :: m2) ∧
      ∀ fuel2 L os g3, Finalizes exStepEnv fuel2 L g1 os g3 → 1 ∈ os → 2 ∈ os →
        ∃ p q r, os = p ++ 2 :: q ++ 1 :: r) ∧
    ((separatetobefnz exStepEnv.H 3 exOrder false).bind
        (callallpendingfinalizers exStepEnv 2 0 3)).map
      (fun r => (r.allgc, (gcat r 1).next, (gcat r 2).next, r.tobefnz)) =
      some (some 1, some 2, some 3, none) :=
  have hrel : Releases exStepEnv.toGCEnv :=
    ⟨fun _ _ => rfl, fun _ _ => rfl, fun _ _ => rfl, fun _ _ => rfl, fun _ _ => rfl,
      fun _ _ => rfl⟩
  have hkeep : FinalizerKeeps exStepEnv := fun _ _ _ h => h
  ⟨hrel, by decide, hkeep, by decide,
    (finalizer_order exStepEnv hrel (by decide) hkeep).2.2.2.2 exOrder [3, 0] [] [] [] [] 1 2 3
      (by decide) rfl (by decide) (by decide) (by decide),
    by decide⟩

/-! ### Steps of the marking -/

theorem Ret_of_add {α : Type} (c : Nat → Option α) (P : α → Prop) (N : Nat) (a : α)
    (h : ∀ k, c (k + N) = some a) (hp : P a) : Ret c P :=
  ⟨a, ⟨N, fun fuel hf => by
    have := h (fuel - N)
    rw [Nat.sub_add_cancel hf] at this
    exact this⟩, hp⟩

theorem Step_refl (H : Decls) (P : GCObj → Prop) (o : Option Nat) (g : global_State) :
    Step H P o g g := ⟨Keep_refl g, fun _ => Or.inl rfl⟩

theorem Step_trans (H : Decls) (P : GCObj → Prop) (o : Option Nat) (g g1 g2 : global_State)
    (h1 : Step H P o g g1) (h2 : Step H P o g1 g2) : Step H P o g g2 := by
  refine ⟨Keep_trans g g1 g2 h1.1 h2.1, fun a => ?_⟩
  rcases h2.2 a with e2 | ⟨p2, w2, n2, m2, gl2, e2⟩ | c2
  · rw [e2]
    rcases h1.2 a with e1 | c1 | c1
    · exact Or.inl e1
    · exact Or.inr (Or.inl c1)
    · exact Or.inr (Or.inr c1)
  · rcases h1.2 a with e1 | ⟨_, _, n1, _, _, _⟩ | ⟨_, n1⟩
    · rw [e1] at p2 w2 e2
      exact Or.inr (Or.inl ⟨p2, w2, n2, m2, gl2, e2⟩)
    · rw [n1] at w2
      exact absurd w2 (by decide)
    · rw [n1] at w2
      exact absurd w2 (by decide)
  · exact Or.inr (Or.inr c2)

theorem Step_weaken (H : Decls) (P Q : GCObj → Prop) (o o1 : Option Nat) (g g1 : global_State)
    (hpq : ∀ x, P x → Q x) (ho : o = none ∨ o = o1) (h : Step H P o g g1) :
    Step H Q o1 g g1 := by
  refine ⟨h.1, fun a => ?_⟩
  rcases h.2 a with e | ⟨p, c⟩ | ⟨e, c⟩
  · exact Or.inl e
  · exact Or.inr (Or.inl ⟨hpq _ p, c⟩)
  · rcases ho with ho | ho
    · rw [ho] at e
      exact Option.noConfusion e
    · rw [ho] at e
      exact Or.inr (Or.inr ⟨e, c⟩)

/-- A step does not make an object white. -/
theorem Step_mono (H : Decls) (P : GCObj → Prop) (o : Option Nat) (g g1 : global_State)
    (h : Step H P o g g1) (a : Nat) (hw : iswhite H (gcat g a).marked = false) :
    iswhite H (gcat g1 a).marked = false := by
  rcases h.2 a with e | ⟨_, _, n, _⟩ | ⟨_, n⟩
  · rw [e]
    exact hw
  · exact n
  · exact n

/-- A step leaves an object that is white after it as it was. -/
theorem Step_white (H : Decls) (P : GCObj → Prop) (o : Option Nat) (g g1 : global_State)
    (h : Step H P o g g1) (a : Nat) (hw : iswhite H (gcat g1 a).marked = true) :
    gcat g1 a = gcat g a := by
  rcases h.2 a with e | ⟨_, _, n, _⟩ | ⟨_, n⟩
  · exact e
  · rw [n] at hw
    exact absurd hw (by decide)
  · rw [n] at hw
    exact absurd hw (by decide)

/-- A step leaves an object that is not the object it works on and is not white as it was. -/
theorem Step_other (H : Decls) (P : GCObj → Prop) (o : Option Nat) (g g1 : global_State)
    (h : Step H P o g g1) (a : Nat) (hw : iswhite H (gcat g a).marked = false)
    (ho : o ≠ some a) : gcat g1 a = gcat g a := by
  rcases h.2 a with e | ⟨_, w, _⟩ | ⟨e, _⟩
  · exact e
  · rw [hw] at w
    exact absurd w (by decide)
  · exact absurd e ho

theorem white_allocated (H : Decls) (g : global_State) (a : Nat)
    (hw : iswhite H (gcat g a).marked = true) : allocated g a = true := by
  cases h : objat g a with
  | none =>
    have e : gcat g a = default := by
      rw [gcat_eq, h]
      rfl
    rw [e] at hw
    have z : (default : GCObj).marked = 0 := rfl
    unfold iswhite at hw
    rw [z, Nat.zero_and] at hw
    exact absurd hw (by decide)
  | some x => exact allocated_of_objat g a x h

/-- The store of a mark that is not white into a white object. -/
theorem Step_setmarked (H : Decls) (P : GCObj → Prop) (o : Option Nat) (n : Nat)
    (g : global_State) (x : Option Nat) (a m : Nat) (hg : Good H n g x o)
    (hw : iswhite H (gcat g a).marked = true) (hp : P (gcat g a))
    (hm : iswhite H m = false) :
    2 ≤ n ∧ Good H (n - 2) (setmarked g a m) x o ∧ Step H P none g (setmarked g a m) ∧
    iswhite H (gcat (setmarked g a m) a).marked = false := by
  have ha := white_allocated H g a hw
  obtain ⟨_, k, h2⟩ := Good_setmarked H n g x o a m hg ha hm
  have hlt := allocated_lt g a ha
  have hself : gcat (setmarked g a m) a = { gcat g a with marked := m } := by
    rw [gcat_setmarked, if_pos ⟨rfl, hlt⟩]
  refine ⟨(h2 hw).1, (h2 hw).2, ⟨k, fun b => ?_⟩, ?_⟩
  · by_cases c : b = a
    · rw [c]
      refine Or.inr (Or.inl ⟨hp, hw, ?_, m, (gcat g a).gclist, ?_⟩)
      · rw [hself]
        exact hm
      · rw [hself]
    · refine Or.inl ?_
      rw [gcat_setmarked, if_neg (fun e => c e.1)]
  · rw [hself]
    exact hm

/-- The link of a white object into the gray list. -/
theorem Step_linkgray (H : Decls) (hstd : StdMarks H) (P : GCObj → Prop) (n : Nat)
    (g : global_State) (x oo : Option Nat) (o : Nat) (hg : Good H n g x oo)
    (hkd : getgclist H g o = true) (hw : iswhite H (gcat g o).marked = true)
    (hp : P (gcat g o)) :
    1 ≤ n ∧ Good H (n - 1) (linkgclist_ H g o GrayList.gray) x oo ∧
    Step H P none g (linkgclist_ H g o GrayList.gray) ∧
    iswhite H (gcat (linkgclist_ H g o GrayList.gray) o).marked = false := by
  have ha := white_allocated H g o hw
  obtain ⟨h1, h2, k⟩ := Good_linkgray H hstd n g x oo o hg ha hkd hw
  have hlt := allocated_lt g o ha
  have hself := gcat_linkgclist_self H g o GrayList.gray hlt
  have hnw : iswhite H (gcat (linkgclist_ H g o GrayList.gray) o).marked = false := by
    rw [hself]
    exact iswhite_set2gray H hstd _
  refine ⟨h1, h2, ⟨k, fun b => ?_⟩, hnw⟩
  by_cases c : b = o
  · rw [c]
    exact Or.inr (Or.inl ⟨hp, hw, hnw, _, _, by rw [hself]⟩)
  · exact Or.inl (gcat_linkgclist_ne H g o b GrayList.gray c)

/-- The link of the object that a traversal works on into a list that is not the gray list. -/
theorem Step_link (H : Decls) (hstd : StdMarks H) (P : GCObj → Prop) (n : Nat)
    (g : global_State) (x : Option Nat) (o : Nat) (l : GrayList) (hl : l ≠ GrayList.gray)
    (hg : Good H n g x (some o)) :
    Good H n (linkgclist_ H g o l) x none ∧ Step H P (some o) g (linkgclist_ H g o l) := by
  obtain ⟨h1, k⟩ := Good_link H hstd n g x o l hl hg
  obtain ⟨_, _, ls, ld, _, _, hfree⟩ := hg
  obtain ⟨_, _, _, ha, _⟩ := hfree o rfl
  have hlt := allocated_lt g o ha
  refine ⟨h1, k, fun b => ?_⟩
  by_cases c : b = o
  · rw [c]
    refine Or.inr (Or.inr ⟨rfl, ?_⟩)
    rw [gcat_linkgclist_self H g o l hlt]
    exact iswhite_set2gray H hstd _
  · exact Or.inl (gcat_linkgclist_ne H g o b l c)

/-! ### The marking of an object -/

theorem getgclist_of_kind (H : Decls) (g : global_State) (o : Nat)
    (hk : ((gcat g o).tt = LUA_VUSERDATA H ∧ (gcat g o).nuvalue ≠ 0) ∨
      (gcat g o).tt = LUA_VLCL H ∨ (gcat g o).tt = LUA_VCCL H ∨ (gcat g o).tt = LUA_VTABLE H ∨
      (gcat g o).tt = LUA_VTHREAD H ∨ (gcat g o).tt = LUA_VPROTO H) :
    getgclist H g o = true := by
  unfold getgclist
  rcases hk with ⟨h, _⟩ | h | h | h | h | h <;> simp [h]

theorem MarkPost_mono (H : Decls) (n m : Nat) (x o : Option Nat) (v : Nat)
    (g g1 : global_State) (hm : m ≤ n) (hpos : 1 ≤ m) (h : Good H (m - 1) g1 x o)
    (hs : Step H AnyObj none g g1) (hw : iswhite H (gcat g1 v).marked = false) :
    MarkPost H n x o v g g1 :=
  ⟨by omega, Good_mono H (m - 1) (n - 1) g1 x o (by omega) h, hs, hw⟩

/-- The marking of a string or of an object with a field `gclist` that is not a userdata
without user values: one level. -/
theorem mark_flat (H : Decls) (hstd : StdMarks H) (hty : StdTypes H) (n : Nat)
    (g : global_State) (x o : Option Nat) (v : Nat) (hg : Good H n g x o)
    (hw : iswhite H (gcat g v).marked = true)
    (hk : ((gcat g v).tt = LUA_VSHRSTR H ∨ (gcat g v).tt = LUA_VLNGSTR H) ∨
      ((gcat g v).tt = LUA_VUSERDATA H ∧ (gcat g v).nuvalue ≠ 0) ∨
      (gcat g v).tt = LUA_VLCL H ∨ (gcat g v).tt = LUA_VCCL H ∨ (gcat g v).tt = LUA_VTABLE H ∨
      (gcat g v).tt = LUA_VTHREAD H ∨ (gcat g v).tt = LUA_VPROTO H) :
    ∃ g1, (∀ fuel, reallymarkobject H (fuel + 1) g v = some g1) ∧ MarkPost H n x o v g g1 ∧
      ∀ a, a ≠ v → gcat g1 a = gcat g a := by
  rcases hk with hs | hl
  · obtain ⟨p1, p2, p3, p4⟩ := Step_setmarked H AnyObj o n g x v
      (set2black H (gcat g v).marked) hg hw trivial (iswhite_set2black H hstd _)
    refine ⟨_, fun fuel => reallymarkobject_string H fuel g v hs,
      MarkPost_mono H n n x o v g _ (Nat.le_refl n) (by omega)
        (Good_mono H (n - 2) (n - 1) _ x o (by omega) p2) p3 p4, fun a ha => ?_⟩
    rw [gcat_setmarked, if_neg (fun e => ha e.1)]
  · obtain ⟨p1, p2, p3, p4⟩ := Step_linkgray H hstd AnyObj n g x o v hg
      (getgclist_of_kind H g v hl) hw trivial
    exact ⟨_, fun fuel => reallymarkobject_link H hty fuel g v hl, ⟨p1, p2, p3, p4⟩,
      fun a ha => gcat_linkgclist_ne H g v a GrayList.gray ha⟩

/-- The tag of a collectable object that is not an upvalue. -/
theorem tag_cases (H : Decls) (tt nuvalue : Nat) (ht : CollectableTag H tt)
    (hu : tt ≠ LUA_VUPVAL H) :
    (tt = LUA_VUSERDATA H ∧ nuvalue = 0) ∨
    ((tt = LUA_VSHRSTR H ∨ tt = LUA_VLNGSTR H) ∨
      (tt = LUA_VUSERDATA H ∧ nuvalue ≠ 0) ∨
      tt = LUA_VLCL H ∨ tt = LUA_VCCL H ∨ tt = LUA_VTABLE H ∨
      tt = LUA_VTHREAD H ∨ tt = LUA_VPROTO H) := by
  rcases ht with h | h | h | h | h | h | h | h | h
  · exact Or.inr (Or.inl (Or.inl h))
  · exact Or.inr (Or.inl (Or.inr h))
  · exact absurd h hu
  · by_cases c : nuvalue = 0
    · exact Or.inl ⟨h, c⟩
    · exact Or.inr (Or.inr (Or.inl ⟨h, c⟩))
  · exact Or.inr (Or.inr (Or.inr (Or.inl h)))
  · exact Or.inr (Or.inr (Or.inr (Or.inr (Or.inl h))))
  · exact Or.inr (Or.inr (Or.inr (Or.inr (Or.inr (Or.inl h)))))
  · exact Or.inr (Or.inr (Or.inr (Or.inr (Or.inr (Or.inr (Or.inl h))))))
  · exact Or.inr (Or.inr (Or.inr (Or.inr (Or.inr (Or.inr (Or.inr h))))))

theorem Good_tag (H : Decls) (n : Nat) (g : global_State) (x o : Option Nat) (v : Nat)
    (hg : Good H n g x o) (hw : iswhite H (gcat g v).marked = true) :
    CollectableTag H (gcat g v).tt :=
  hg.tagged v (allocated_lt g v (white_allocated H g v hw)) (white_allocated H g v hw)

/-- The marking of an object that is not an upvalue: two levels. -/
theorem mark_two (H : Decls) (hstd : StdMarks H) (hty : StdTypes H) (n : Nat)
    (g : global_State) (x o : Option Nat) (v : Nat) (hg : Good H n g x o)
    (hw : iswhite H (gcat g v).marked = true) (hu : (gcat g v).tt ≠ LUA_VUPVAL H) :
    ∃ g1, (∀ fuel, reallymarkobject H (fuel + 2) g v = some g1) ∧ MarkPost H n x o v g g1 := by
  obtain ⟨t1, t2, t3, t4, t5, t6, t7, t8, t9⟩ := std_tags H hty
  rcases tag_cases H (gcat g v).tt (gcat g v).nuvalue (Good_tag H n g x o v hg hw) hu with
    ⟨hud, hnu⟩ | hk
  · -- a userdata without user values
    have hns : ¬ ((gcat g v).tt = LUA_VSHRSTR H ∨ (gcat g v).tt = LUA_VLNGSTR H) := by
      rw [hud, t1, t2, t4]
      decide
    have hnup : ¬ (gcat g v).tt = LUA_VUPVAL H := hu
    have hrun : ∀ fuel, reallymarkobject H (fuel + 2) g v =
        (match (gcat g v).metatable with
         | some t =>
           if iswhite H (gcat g t).marked then reallymarkobject H (fuel + 1) g t else some g
         | none => some g).map fun g1 => setmarked g1 v (set2black H (gcat g1 v).marked) := by
      intro fuel
      rw [reallymarkobject_succ, if_neg hns, if_neg hnup, if_pos ⟨hud, hnu⟩] <;> rfl
    have hfin : ∀ (m : Nat) (g1 : global_State), m ≤ n → Good H m g1 x o →
        Step H AnyObj none g g1 → gcat g1 v = gcat g v →
        MarkPost H n x o v g (setmarked g1 v (set2black H (gcat g1 v).marked)) := by
      intro m g1 hm hg1 hs1 hv
      have hw1 : iswhite H (gcat g1 v).marked = true := by rw [hv]; exact hw
      obtain ⟨p1, p2, p3, p4⟩ := Step_setmarked H AnyObj o m g1 x v
        (set2black H (gcat g1 v).marked) hg1 hw1 trivial (iswhite_set2black H hstd _)
      refine MarkPost_mono H n m x o v g _ hm (by omega)
        (Good_mono H (m - 2) (m - 1) _ x o (by omega) p2) ?_ p4
      exact Step_trans H AnyObj none g g1 _ hs1 p3
    cases hmt : (gcat g v).metatable with
    | none =>
      refine ⟨_, fun fuel => ?_, hfin n g (Nat.le_refl n) hg (Step_refl H AnyObj none g) rfl⟩
      rw [hrun, hmt]
      rfl
    | some t =>
      by_cases hwt : iswhite H (gcat g t).marked = true
      · have htt : (gcat g t).tt = LUA_VTABLE H :=
          hg.typed.2 v (allocated_lt g v (white_allocated H g v hw)) hud t hmt
        obtain ⟨g1, e1, ⟨q1, q2, q3, q4⟩, q5⟩ := mark_flat H hstd hty n g x o t hg hwt
          (Or.inr (Or.inr (Or.inr (Or.inr (Or.inl htt)))))
        have hvt : v ≠ t := by
          intro c
          rw [c, htt, t4, t7] at hud
          exact absurd hud (by decide)
        refine ⟨_, fun fuel => ?_, hfin (n - 1) g1 (by omega) q2 q3 (q5 v hvt)⟩
        rw [hrun, hmt]
        simp only [hwt, if_true]
        rw [e1 fuel]
        rfl
      · refine ⟨_, fun fuel => ?_, hfin n g (Nat.le_refl n) hg (Step_refl H AnyObj none g) rfl⟩
        rw [hrun, hmt]
        simp only [hwt]
        rfl
  · obtain ⟨g1, e1, p, _⟩ := mark_flat H hstd hty n g x o v hg hw hk
    exact ⟨g1, fun fuel => e1 (fuel + 1), p⟩

/-- The marking of a white object: `reallymarkobject` returns within three levels. -/
theorem reallymarkobject_good (H : Decls) (hstd : StdMarks H) (hty : StdTypes H) (n : Nat)
    (g : global_State) (x o : Option Nat) (v : Nat) (hg : Good H n g x o)
    (hw : iswhite H (gcat g v).marked = true) :
    ∃ g1, (∀ fuel, reallymarkobject H (fuel + 3) g v = some g1) ∧ MarkPost H n x o v g g1 := by
  obtain ⟨t1, t2, t3, t4, t5, t6, t7, t8, t9⟩ := std_tags H hty
  by_cases hu : (gcat g v).tt = LUA_VUPVAL H
  · have hns : ¬ ((gcat g v).tt = LUA_VSHRSTR H ∨ (gcat g v).tt = LUA_VLNGSTR H) := by
      rw [hu, t1, t2, t3]
      decide
    have hlt := allocated_lt g v (white_allocated H g v hw)
    obtain ⟨m, hm, hrun⟩ : ∃ m, iswhite H m = false ∧
        ∀ fuel, reallymarkobject H (fuel + 3) g v =
          if valiswhite H (setmarked g v m) (gcat (setmarked g v m) v).v then
            reallymarkobject H (fuel + 2) (setmarked g v m)
              (gcvalue (gcat (setmarked g v m) v).v)
          else some (setmarked g v m) := by
      cases hio : (gcat g v).isopen with
      | true =>
        refine ⟨_, iswhite_set2gray H hstd (gcat g v).marked, fun fuel => ?_⟩
        rw [reallymarkobject_succ, if_neg hns, if_pos hu]
        simp only [hio, if_true]
      | false =>
        refine ⟨_, iswhite_set2black H hstd (gcat g v).marked, fun fuel => ?_⟩
        rw [reallymarkobject_succ, if_neg hns, if_pos hu]
        simp only [hio, Bool.false_eq_true, if_false]
    obtain ⟨p1, p2, p3, p4⟩ := Step_setmarked H AnyObj o n g x v m hg hw trivial hm
    have hself : gcat (setmarked g v m) v = { gcat g v with marked := m } := by
      rw [gcat_setmarked, if_pos ⟨rfl, hlt⟩]
    by_cases hvw : valiswhite H (setmarked g v m) (gcat (setmarked g v m) v).v = true
    · have hc : iscollectable (gcat g v).v = true ∧
          iswhite H (gcat (setmarked g v m) (gcvalue (gcat g v).v)).marked = true := by
        unfold valiswhite at hvw
        rw [hself] at hvw
        exact Bool.and_eq_true_iff.mp hvw
      have hne : gcvalue (gcat g v).v ≠ v := by
        intro c
        rw [c, p4] at hc
        exact absurd hc.2 (by decide)
      have hsame : gcat (setmarked g v m) (gcvalue (gcat g v).v) =
          gcat g (gcvalue (gcat g v).v) := by
        rw [gcat_setmarked, if_neg (fun e => hne e.1)]
      have hnu : (gcat (setmarked g v m) (gcvalue (gcat g v).v)).tt ≠ LUA_VUPVAL H := by
        rw [hsame]
        exact hg.typed.1 v hlt hu hc.1
      obtain ⟨g1, e1, q1, q2, q3, q4⟩ := mark_two H hstd hty (n - 2) (setmarked g v m) x o
        (gcvalue (gcat g v).v) p2 hc.2 hnu
      refine ⟨g1, fun fuel => ?_, MarkPost_mono H n (n - 2) x o v g g1 (by omega) q1 q2
        (Step_trans H AnyObj none g _ g1 p3 q3) (Step_mono H AnyObj none _ g1 q3 v p4)⟩
      rw [hrun, if_pos hvw, hself]
      exact e1 fuel
    · refine ⟨_, fun fuel => ?_, MarkPost_mono H n n x o v g _ (Nat.le_refl n) (by omega)
        (Good_mono H (n - 2) (n - 1) _ x o (by omega) p2) p3 p4⟩
      rw [hrun, if_neg hvw]
  · obtain ⟨g1, e1, p⟩ := mark_two H hstd hty n g x o v hg hw hu
    exact ⟨g1, fun fuel => e1 (fuel + 1), p⟩

/-- A loop `for` with an invariant that knows the values the variable has taken. -/
theorem Ret_forloop_pre {σ : Type} (body : Nat → Nat → σ → Option σ)
    (I : List Nat → σ → Prop)
    (h : ∀ pre i s, I pre s → Ret (fun fuel => body fuel i s) (I (pre ++ [i]))) :
    ∀ (l pre : List Nat) (s : σ), I pre s →
      Ret (fun fuel => forloop (body fuel) l s) (I (pre ++ l))
  | [], pre, s, hs => by
    rw [List.append_nil]
    exact Ret_pure s (I pre) hs
  | i :: l, pre, s, hs => by
    have e : pre ++ i :: l = (pre ++ [i]) ++ l := by simp
    rw [e]
    exact Ret_bind (fun fuel => body fuel i s) (fun fuel => forloop (body fuel) l)
      (I (pre ++ [i])) (I (pre ++ [i] ++ l)) (h pre i s hs)
      (fun a ha => Ret_forloop_pre body I h l (pre ++ [i]) a ha)

/-- A store into the fields `marked`, `node`, `array` and `th` of an object, that leaves it
not white. -/
theorem Step_gcset (H : Decls) (P : GCObj → Prop) (n : Nat) (g : global_State)
    (x o : Option Nat) (h m : Nat) (nd : List Node) (ar : List TValue) (t : lua_State)
    (hg : Good H n g x o) (ha : allocated g h = true)
    (hn : nd.length = (gcat g h).node.length) (har : ar.length = (gcat g h).array.length)
    (hm : iswhite H m = false) :
    Good H n (gcset g h { gcat g h with marked := m, node := nd, array := ar, th := t }) x o ∧
    Step H P (some h) g
      (gcset g h { gcat g h with marked := m, node := nd, array := ar, th := t }) := by
  have hlt := allocated_lt g h ha
  refine ⟨(Good_gcset H n g x o h m nd ar t hg ha hn har hm).1,
    Keep_gcset g h m nd ar t ha hn har, fun b => ?_⟩
  by_cases c : b = h
  · rw [c]
    refine Or.inr (Or.inr ⟨rfl, ?_⟩)
    rw [gcat_gcset, if_pos ⟨rfl, hlt⟩]
    exact hm
  · refine Or.inl ?_
    rw [gcat_gcset, if_neg (fun e => c e.1)]

theorem Quiet_refl (g : global_State) : Quiet g g := ⟨rfl, fun _ => rfl⟩

theorem Quiet_trans (g g1 g2 : global_State) (h1 : Quiet g g1) (h2 : Quiet g1 g2) :
    Quiet g g2 := by
  refine ⟨?_, fun a => by rw [h2.2 a, h1.2 a]⟩
  have e1 := h1.1
  have e2 := h2.1
  rw [e2]
  generalize g2.objs = ob at *
  rw [e1]

theorem Quiet_gcset (g : global_State) (h m : Nat) (nd : List Node) (ar : List TValue)
    (t : lua_State) :
    Quiet g (gcset g h { gcat g h with marked := m, node := nd, array := ar, th := t }) := by
  refine ⟨rfl, fun a => ?_⟩
  rw [gcat_gcset]
  split
  · next c => rw [c.1]
  · rfl

/-- What `Good` says of the object that a traversal works on. -/
theorem Good_free (H : Decls) (n : Nat) (g : global_State) (x : Option Nat) (h : Nat)
    (hg : Good H n g x (some h)) :
    iswhite H (gcat g h).marked = false ∧ allocated g h = true ∧ getgclist H g h = true := by
  obtain ⟨_, _, ls, ld, _, _, hfree⟩ := hg
  obtain ⟨_, _, f1, f2, f3⟩ := hfree h rfl
  exact ⟨f1, f2, f3⟩

/-- `clearkey` on an entry of the table that a traversal works on. -/
theorem clearkey_good (H : Decls) (P : GCObj → Prop) (n : Nat) (g : global_State)
    (x o : Option Nat) (h i : Nat) (hg : Good H n g x o) (ha : allocated g h = true)
    (hw : iswhite H (gcat g h).marked = false) :
    Good H n (clearkey H g h i) x o ∧ Step H P (some h) g (clearkey H g h i) ∧
    Quiet g (clearkey H g h i) := by
  unfold clearkey
  by_cases c : keyiscollectable (nodeat g h i) = true
  · rw [if_pos c, nodeset_eq]
    obtain ⟨k1, k2⟩ := Step_gcset H P n g x o h (gcat g h).marked
      ((gcat g h).node.set i (setdeadkey H (nodeat g h i))) (gcat g h).array (gcat g h).th hg ha
      (List.length_set _ _ _) rfl hw
    exact ⟨k1, k2, Quiet_gcset g h _ _ _ _⟩
  · rw [if_neg c]
    exact ⟨hg, Step_refl H P (some h) g, Quiet_refl g⟩

theorem iswhite_changeage (H : Decls) (hstd : StdMarks H) (m : Nat) :
    iswhite H (changeage m H.G_TOUCHED2 H.G_OLD) = iswhite H m := by
  obtain ⟨m1, _⟩ := std_masks H hstd
  obtain ⟨_, _, _, _, _, _, _, _, _, s10, _, s12⟩ := hstd
  unfold iswhite changeage
  rw [m1, s10, s12, xor_and_right]
  have : (6 ^^^ 4) &&& 24 = 0 := by decide
  rw [this, Nat.xor_zero]

/-- `genlink` on the object that a traversal works on. -/
theorem genlink_good (H : Decls) (hstd : StdMarks H) (P : GCObj → Prop) (n : Nat)
    (g : global_State) (x : Option Nat) (o : Nat) (hg : Good H n g x (some o)) :
    Good H n (genlink H g o) x none ∧ Step H P (some o) g (genlink H g o) := by
  obtain ⟨f1, f2, f3⟩ := Good_free H n g x o hg
  unfold genlink
  by_cases c1 : getage H (gcat g o).marked = H.G_TOUCHED1
  · rw [if_pos c1]
    unfold linkobjgclist
    rw [if_pos f3]
    exact Step_link H hstd P n g x o GrayList.grayagain (by decide) hg
  · rw [if_neg c1]
    by_cases c2 : getage H (gcat g o).marked = H.G_TOUCHED2
    · rw [if_pos c2, setmarked_eq]
      obtain ⟨k1, k2⟩ := Step_gcset H P n g x (some o) o
        (changeage (gcat g o).marked H.G_TOUCHED2 H.G_OLD) _ _ (gcat g o).th hg f2 rfl rfl
        (by rw [iswhite_changeage H hstd]; exact f1)
      exact ⟨Good_weaken H n _ x (some o) k1, k2⟩
    · rw [if_neg c2]
      exact ⟨Good_weaken H n g x (some o) hg, Step_refl H P (some o) g⟩

/-- The tag of a string. -/
theorem string_tag (H : Decls) (hty : StdTypes H) (tt : Nat) (ht : CollectableTag H tt)
    (hs : novariant tt = H.LUA_TSTRING) : tt = LUA_VSHRSTR H ∨ tt = LUA_VLNGSTR H := by
  obtain ⟨t1, t2, t3, t4, t5, t6, t7, t8, t9⟩ := std_tags H hty
  rw [hty.1] at hs
  rw [t1, t2]
  unfold CollectableTag at ht
  rw [t1, t2, t3, t4, t5, t6, t7, t8, t9] at ht
  rcases ht with h | h | h | h | h | h | h | h | h
  · exact Or.inl h
  · exact Or.inr h
  all_goals (rw [h] at hs; exact absurd hs (by decide))

/-- `iscleared`: a white string is marked, and the answer is that of `clearable`. -/
theorem iscleared_good (H : Decls) (hstd : StdMarks H) (hty : StdTypes H) (n : Nat)
    (g : global_State) (x o : Option Nat) (k : Option Nat) (hg : Good H n g x o) :
    ∃ g1, (∀ fuel, iscleared H (fuel + 1) g k = some (g1, clearable H g k)) ∧
      Good H n g1 x o ∧ Step H (StrObj H) none g g1 ∧ Quiet g g1 ∧
      (∀ a, k = some a → clearable H g k = false → iswhite H (gcat g1 a).marked = false) := by
  cases k with
  | none =>
    exact ⟨g, fun _ => rfl, hg, Step_refl H (StrObj H) none g, Quiet_refl g,
      fun a e => Option.noConfusion e⟩
  | some a =>
    unfold iscleared clearable
    dsimp only
    by_cases hs : novariant (gcat g a).tt = H.LUA_TSTRING
    · have hcl : (novariant (gcat g a).tt != H.LUA_TSTRING && iswhite H (gcat g a).marked) =
          false := by
        simp [hs]
      rw [hcl]
      unfold markobject
      by_cases hw : iswhite H (gcat g a).marked = true
      · have htag := string_tag H hty _ (Good_tag H n g x o a hg hw) hs
        obtain ⟨p1, p2, p3, p4⟩ := Step_setmarked H (StrObj H) o n g x a
          (set2black H (gcat g a).marked) hg hw hs (iswhite_set2black H hstd _)
        refine ⟨_, fun fuel => ?_, Good_mono H (n - 2) n _ x o (by omega) p2, p3, ?_, ?_⟩
        · rw [if_pos hs, if_pos hw, reallymarkobject_string H fuel g a htag]
          rfl
        · rw [setmarked_eq]
          exact Quiet_gcset g a _ _ _ _
        · intro b e _
          rw [← Option.some.inj e]
          exact p4
      · refine ⟨g, fun fuel => ?_, hg, Step_refl H (StrObj H) none g, Quiet_refl g, ?_⟩
        · rw [if_pos hs, if_neg hw]
          rfl
        · intro b e _
          rw [← Option.some.inj e]
          exact Bool.eq_false_iff.mpr hw
    · refine ⟨g, fun fuel => ?_, hg, Step_refl H (StrObj H) none g, Quiet_refl g, ?_⟩
      · rw [if_neg hs]
        simp [hs]
      · intro b e hc
        rw [← Option.some.inj e]
        simp [hs] at hc
        exact hc

/-- A step that works on no object leaves the entries of the tables and the stacks of the
threads as they are. -/
theorem Step_data (H : Decls) (P : GCObj → Prop) (g g1 : global_State)
    (h : Step H P none g g1) (a : Nat) :
    (gcat g1 a).node = (gcat g a).node ∧ (gcat g1 a).array = (gcat g a).array ∧
    (gcat g1 a).th = (gcat g a).th ∧ (gcat g1 a).tt = (gcat g a).tt := by
  rcases h.2 a with e | ⟨_, _, _, m, gl, e⟩ | ⟨e, _⟩
  · rw [e]
    exact ⟨rfl, rfl, rfl, rfl⟩
  · rw [e]
    exact ⟨rfl, rfl, rfl, rfl⟩
  · exact Option.noConfusion e

/-- A step that marks strings only leaves `clearable` as it is. -/
theorem Step_clearable (H : Decls) (o : Option Nat) (g g1 : global_State)
    (h : Step H (StrObj H) o g g1) (a : Nat) (ho : o ≠ some a) :
    clearable H g1 (some a) = clearable H g (some a) := by
  unfold clearable
  dsimp only
  rcases h.2 a with e | ⟨p, _, _, m, gl, e⟩ | ⟨e, _⟩
  · rw [e]
  · have p2 : novariant (gcat g a).tt = H.LUA_TSTRING := p
    rw [e]
    simp [p2]
  · exact absurd e ho

/-! ### `traverseephemeron` -/

/-- Two runs of the same computation give the same result. -/
theorem run_unique {α : Type} (c : Nat → Option α) (N M : Nat) (a b : α)
    (h1 : ∀ fuel, c (fuel + N) = some a) (h2 : ∀ fuel, c (fuel + M) = some b) : a = b := by
  have e1 := h1 M
  have e2 := h2 N
  rw [Nat.add_comm M N] at e1
  exact Option.some.inj (e1.symm.trans e2)

/-- A loop `for` over values of a domain, with an invariant that knows the values the
variable has taken. -/
theorem Ret_forloop_dom {σ : Type} (body : Nat → Nat → σ → Option σ) (D : Nat → Prop)
    (I : List Nat → σ → Prop)
    (h : ∀ pre i s, D i → I pre s → Ret (fun fuel => body fuel i s) (I (pre ++ [i]))) :
    ∀ (l pre : List Nat) (s : σ), (∀ i ∈ l, D i) → I pre s →
      Ret (fun fuel => forloop (body fuel) l s) (I (pre ++ l))
  | [], pre, s, _, hs => by
    rw [List.append_nil]
    exact Ret_pure s (I pre) hs
  | i :: l, pre, s, hd, hs => by
    have e : pre ++ i :: l = (pre ++ [i]) ++ l := by simp
    rw [e]
    exact Ret_bind (fun fuel => body fuel i s) (fun fuel => forloop (body fuel) l)
      (I (pre ++ [i])) (I (pre ++ [i] ++ l)) (h pre i s (hd i (List.mem_cons_self i l)) hs)
      (fun a ha => Ret_forloop_dom body D I h l (pre ++ [i]) a
        (fun k hk => hd k (List.mem_cons_of_mem i hk)) ha)

/-- What `linkgclist_` leaves of an object. -/
theorem linkgclist_obj (H : Decls) (g : global_State) (o : Nat) (l : GrayList)
    (ha : allocated g o = true) (a : Nat) :
    ∃ m gl, gcat (linkgclist_ H g o l) a = { gcat g a with marked := m, gclist := gl } := by
  by_cases c : a = o
  · rw [c, gcat_linkgclist_self H g o l (allocated_lt g o ha)]
    exact ⟨_, _, rfl⟩
  · rw [gcat_linkgclist_ne H g o a l c]
    exact ⟨_, _, rfl⟩

/-- What `genlink` leaves of an object. -/
theorem genlink_obj (H : Decls) (g : global_State) (o : Nat) (ha : allocated g o = true)
    (a : Nat) :
    ∃ m gl, gcat (genlink H g o) a = { gcat g a with marked := m, gclist := gl } := by
  unfold genlink
  split
  · unfold linkobjgclist
    split
    · exact linkgclist_obj H g o GrayList.grayagain ha a
    · exact ⟨_, _, rfl⟩
  · split
    · rw [gcat_setmarked]
      split
      · next c => rw [c.1]; exact ⟨_, _, rfl⟩
      · exact ⟨_, _, rfl⟩
    · exact ⟨_, _, rfl⟩

theorem nodeat_of_obj (g g1 : global_State) (a j : Nat)
    (h : ∃ m gl, gcat g1 a = { gcat g a with marked := m, gclist := gl }) :
    nodeat g1 a j = nodeat g a j := by
  obtain ⟨m, gl, e⟩ := h
  unfold nodeat
  rw [e]

/-- An entry at rest stays so under a step that marks strings only and leaves it as it is. -/
theorem EphFix_step (H : Decls) (oo : Option Nat) (g g1 : global_State) (T j : Nat)
    (hs : Step H (StrObj H) oo g g1)
    (hoo : ∀ a, oo = some a → iswhite H (gcat g a).marked = false)
    (hn : nodeat g1 T j = nodeat g T j) (hf : EphFix H g T j) : EphFix H g1 T j := by
  unfold EphFix at hf ⊢
  rw [hn]
  intro he hv
  have hv0 : valiswhite H g (nodeat g T j).i_val = true := by
    unfold valiswhite at hv ⊢
    obtain ⟨c1, c2⟩ := Bool.and_eq_true_iff.mp hv
    rw [Step_white H (StrObj H) oo g g1 hs _ c2] at c2
    exact Bool.and_eq_true_iff.mpr ⟨c1, c2⟩
  have hc := hf he hv0
  cases hk : gckeyN (nodeat g T j) with
  | none =>
    rw [hk] at hc
    exact Bool.noConfusion hc
  | some a =>
    rw [hk] at hc
    have hne : oo ≠ some a := by
      intro c
      have hw := hoo a c
      unfold clearable at hc
      dsimp only at hc
      rw [hw, Bool.and_false] at hc
      exact absurd hc (by decide)
    rw [Step_clearable H oo g g1 hs a hne]
    exact hc

/-- The lists after `linkgclist_` of an object that was in none of them. -/
theorem GLinked_link_back (H : Decls) (hstd : StdMarks H) (g : global_State)
    (ls : GrayList → List Nat) (x : Option Nat) (ld : List Nat) (h : Nat) (L0 : GrayList)
    (hw : WFL H g ls x ld) (ha : allocated g h = true) (hk : getgclist H g h = true)
    (hf : ∀ l1, h ∉ ls l1) (hfd : h ∉ ld) (L : GrayList) (l : List Nat)
    (hl : GLinked (linkgclist_ H g h L0) (grayhead (linkgclist_ H g h L0) L) l) :
    GLinked g (grayhead g L) l ∨ ∃ l0, l = h :: l0 ∧ GLinked g (grayhead g L) l0 := by
  have w1 := WFL_link H hstd g ls x ld h L0 hw ha hk hf hfd
  have e := GLinked_unique (linkgclist_ H g h L0) l _ _ hl (w1.lists L)
  by_cases c : L = L0
  · rw [c, Function.update_same] at e
    rw [c]
    exact Or.inr ⟨ls L0, e, hw.lists L0⟩
  · rw [Function.update_noteq c] at e
    rw [e]
    exact Or.inl (hw.lists L)

/-- One entry of the array part in `traverseephemeron`. -/
theorem eph_array_body (H : Decls) (hstd : StdMarks H) (hty : StdTypes H) (n : Nat)
    (x : Option Nat) (h : Nat) (g : global_State) (i : Nat) (s : EphState)
    (hI : EphInv H n x h g id [] s) :
    Ret (fun fuel => traverseephemeron_array H fuel h i s) (EphInv H n x h g id []) := by
  obtain ⟨i1, i2, i3, i4⟩ := hI
  by_cases hv : valiswhite H s.g ((gcat s.g h).array.getD i default) = true
  · have hw2 : iswhite H (gcat s.g (gcvalue ((gcat s.g h).array.getD i default))).marked =
        true := by
      unfold valiswhite at hv
      exact (Bool.and_eq_true_iff.mp hv).2
    obtain ⟨g1, e1, q1, q2, q3, q4⟩ := reallymarkobject_good H hstd hty n s.g x (some h) _ i1 hw2
    have hw0 : iswhite H (gcat g (gcvalue ((gcat s.g h).array.getD i default))).marked =
        true := by
      rw [← Step_white H AnyObj (some h) g s.g i2 _ hw2]
      exact hw2
    refine Ret_of_add _ _ 3 { s with g := g1, marked := true } (fun k => ?_)
      ⟨Good_mono H (n - 1) n g1 x (some h) (by omega) q2,
        Step_trans H AnyObj (some h) g s.g g1 i2
          (Step_weaken H AnyObj AnyObj none (some h) s.g g1 (fun _ p => p) (Or.inl rfl) q3),
        fun _ => ⟨q1, q2, _, hw0, q4⟩, fun c => Bool.noConfusion c⟩
    show traverseephemeron_array H (k + 3) h i s = _
    unfold traverseephemeron_array
    rw [if_pos hv, e1 k]
    rfl
  · refine Ret_of_add _ _ 0 s (fun k => ?_) ⟨i1, i2, i3, i4⟩
    show traverseephemeron_array H (k + 0) h i s = _
    unfold traverseephemeron_array
    rw [if_neg hv]

/-- The value of the entry that `clearkey` leaves. -/
theorem clearkey_val (H : Decls) (g : global_State) (h j : Nat) (ha : allocated g h = true)
    (hj : j < (gcat g h).node.length) :
    (nodeat (clearkey H g h j) h j).i_val = (nodeat g h j).i_val := by
  rw [(clearkey_spec H g h j ha hj).2.1]
  split <;> rfl

/-- One entry of the hash part in `traverseephemeron`. -/
theorem eph_node_body (H : Decls) (hstd : StdMarks H) (hty : StdTypes H) (n : Nat)
    (x : Option Nat) (h : Nat) (g : global_State) (f : Nat → Nat) (pre : List Nat) (i : Nat)
    (s : EphState) (hj : f i < (gcat g h).node.length) (hI : EphInv H n x h g f pre s) :
    Ret (fun fuel => traverseephemeron_node H fuel h (f i) s)
      (EphInv H n x h g f (pre ++ [i])) := by
  obtain ⟨i1, i2, i3, i4⟩ := hI
  obtain ⟨fw, fa, _⟩ := Good_free H n s.g x h i1
  have hlen : (gcat s.g h).node.length = (gcat g h).node.length := (i2.1.2.2.1 h).2.1
  have hj2 : f i < (gcat s.g h).node.length := by rw [hlen]; exact hj
  have hoo : ∀ a, some h = some a → iswhite H (gcat s.g a).marked = false := by
    intro a e
    rw [← Option.some.inj e]
    exact fw
  by_cases hemp : isempty H (nodeat s.g h (f i)).i_val = true
  · -- an empty entry: the key is cleared
    obtain ⟨k1, k2, k3⟩ := clearkey_good H AnyObj n s.g x (some h) h (f i) i1 fa fw
    obtain ⟨_, k4, _⟩ := clearkey_good H (StrObj H) n s.g x (some h) h (f i) i1 fa fw
    have hval := clearkey_val H s.g h (f i) fa hj2
    refine Ret_of_add _ _ 0 { s with g := clearkey H s.g h (f i) } (fun k => ?_)
      ⟨k1, Step_trans H AnyObj (some h) g s.g _ i2 k2, ?_, ?_⟩
    · show traverseephemeron_node H (k + 0) h (f i) s = _
      unfold traverseephemeron_node
      rw [if_pos hemp]
    · intro hm
      obtain ⟨m1, m2, a, m3, m4⟩ := i3 hm
      exact ⟨m1, (clearkey_good H AnyObj (n - 1) s.g x (some h) h (f i) m2 fa fw).1, a, m3,
        Step_mono H AnyObj (some h) s.g _ k2 a m4⟩
    · intro hm
      obtain ⟨m1, m2, m3⟩ := i4 hm
      refine ⟨Step_trans H (StrObj H) (some h) g s.g _ m1 k4, Quiet_trans g s.g _ m2 k3, ?_⟩
      intro i' hi'
      by_cases c : f i' = f i
      · rw [c]
        intro he
        rw [show ({ s with g := clearkey H s.g h (f i) } : EphState).g =
          clearkey H s.g h (f i) from rfl, hval, hemp] at he
        exact Bool.noConfusion he
      · rcases List.mem_append.mp hi' with hp | hp
        · exact EphFix_step H (some h) s.g _ h (f i') k4 hoo
            ((clearkey_spec H s.g h (f i) fa hj2).2.2.1 h (f i') (fun e => c e.2)) (m3 i' hp)
        · rw [List.mem_singleton.mp hp] at c
          exact absurd rfl c
  · -- an entry in use
    obtain ⟨r1, e1, p1, p2, p3, p4⟩ := iscleared_good H hstd hty n s.g x (some h)
      (gckeyN (nodeat s.g h (f i))) i1
    have hnode : ∀ a j', nodeat r1 a j' = nodeat s.g a j' := by
      intro a j'
      unfold nodeat
      rw [(Step_data H (StrObj H) s.g r1 p2 a).1]
    have p2a : Step H AnyObj (some h) s.g r1 :=
      Step_weaken H (StrObj H) AnyObj none (some h) s.g r1 (fun _ _ => trivial) (Or.inl rfl) p2
    have p2s : Step H (StrObj H) (some h) s.g r1 :=
      Step_weaken H (StrObj H) (StrObj H) none (some h) s.g r1 (fun _ q => q) (Or.inl rfl) p2
    have hgood1 : s.marked = true → 1 ≤ n ∧ Good H (n - 1) r1 x (some h) ∧
        ∃ a, iswhite H (gcat g a).marked = true ∧ iswhite H (gcat r1 a).marked = false := by
      intro hm
      obtain ⟨m1, m2, a, m3, m4⟩ := i3 hm
      obtain ⟨r2, e2, q1, _⟩ := iscleared_good H hstd hty (n - 1) s.g x (some h)
        (gckeyN (nodeat s.g h (f i))) m2
      have e := run_unique (fun fuel => iscleared H fuel s.g (gckeyN (nodeat s.g h (f i))))
        1 1 _ _ e2 e1
      have e3 : r2 = r1 := congrArg Prod.fst e
      rw [e3] at q1
      exact ⟨m1, q1, a, m3, Step_mono H AnyObj (some h) s.g r1 p2a a m4⟩
    have hquiet : s.marked = false → Step H (StrObj H) (some h) g r1 ∧ Quiet g r1 ∧
        ∀ i' ∈ pre, EphFix H r1 h (f i') := by
      intro hm
      obtain ⟨m1, m2, m3⟩ := i4 hm
      exact ⟨Step_trans H (StrObj H) (some h) g s.g r1 m1 p2s, Quiet_trans g s.g r1 m2 p3,
        fun i' hi' => EphFix_step H (some h) s.g r1 h (f i') p2s hoo (hnode h (f i'))
          (m3 i' hi')⟩
    have hrun : ∀ k, traverseephemeron_node H (k + 3) h (f i) s =
        (if clearable H s.g (gckeyN (nodeat s.g h (f i))) = true then
          some { s with g := r1, hasclears := true,
                        hasww := if valiswhite H r1 (nodeat r1 h (f i)).i_val then true
                          else s.hasww }
        else if valiswhite H r1 (nodeat r1 h (f i)).i_val then
          (reallymarkobject H (k + 3) r1 (gcvalue (nodeat r1 h (f i)).i_val)).map fun g1 =>
            { s with g := g1, marked := true }
        else some { s with g := r1 }) := by
      intro k
      unfold traverseephemeron_node
      rw [if_neg hemp, e1 (k + 2)]
      rfl
    by_cases hc : clearable H s.g (gckeyN (nodeat s.g h (f i))) = true
    · -- the key may be cleared
      refine Ret_of_add _ _ 3 _ (fun k => by rw [hrun k, if_pos hc])
        ⟨p1, Step_trans H AnyObj (some h) g s.g r1 i2 p2a, hgood1, ?_⟩
      intro hm
      obtain ⟨m1, m2, m3⟩ := hquiet hm
      refine ⟨m1, m2, fun i' hi' => ?_⟩
      rcases List.mem_append.mp hi' with hp | hp
      · exact m3 i' hp
      · rw [List.mem_singleton.mp hp]
        intro _ _
        show clearable H r1 (gckeyN (nodeat r1 h (f i))) = true
        rw [hnode]
        cases hk : gckeyN (nodeat s.g h (f i)) with
        | none =>
          rw [hk] at hc
          exact Bool.noConfusion hc
        | some a =>
          rw [hk] at hc
          rw [Step_clearable H none s.g r1 p2 a (fun e => Option.noConfusion e)]
          exact hc
    · by_cases hv : valiswhite H r1 (nodeat r1 h (f i)).i_val = true
      · -- the value is marked
        have hw2 : iswhite H (gcat r1 (gcvalue (nodeat r1 h (f i)).i_val)).marked = true := by
          unfold valiswhite at hv
          exact (Bool.and_eq_true_iff.mp hv).2
        obtain ⟨g1, e2, q1, q2, q3, q4⟩ := reallymarkobject_good H hstd hty n r1 x (some h) _
          p1 hw2
        have hw0 : iswhite H (gcat g (gcvalue (nodeat r1 h (f i)).i_val)).marked = true := by
          have a1 := Step_white H AnyObj (some h) s.g r1 p2a _ hw2
          have hw1 : iswhite H (gcat s.g (gcvalue (nodeat r1 h (f i)).i_val)).marked = true := by
            rw [← a1]
            exact hw2
          rw [← Step_white H AnyObj (some h) g s.g i2 _ hw1]
          exact hw1
        refine Ret_of_add _ _ 3 { s with g := g1, marked := true } (fun k => ?_)
          ⟨Good_mono H (n - 1) n g1 x (some h) (by omega) q2,
            Step_trans H AnyObj (some h) g r1 g1
              (Step_trans H AnyObj (some h) g s.g r1 i2 p2a)
              (Step_weaken H AnyObj AnyObj none (some h) r1 g1 (fun _ p => p) (Or.inl rfl) q3),
            fun _ => ⟨q1, q2, _, hw0, q4⟩, fun c => Bool.noConfusion c⟩
        rw [hrun k, if_neg hc, if_pos hv, e2 k]
        rfl
      · -- nothing to mark
        refine Ret_of_add _ _ 3 { s with g := r1 } (fun k => by rw [hrun k, if_neg hc, if_neg hv])
          ⟨p1, Step_trans H AnyObj (some h) g s.g r1 i2 p2a, hgood1, ?_⟩
        intro hm
        obtain ⟨m1, m2, m3⟩ := hquiet hm
        refine ⟨m1, m2, fun i' hi' => ?_⟩
        rcases List.mem_append.mp hi' with hp | hp
        · exact m3 i' hp
        · rw [List.mem_singleton.mp hp]
          intro _ hv2
          exact absurd hv2 hv

/-- The link of the object of a traversal into a list that is not the gray list. -/
theorem link_post (H : Decls) (hstd : StdMarks H) (n : Nat) (x : Option Nat) (h : Nat)
    (g : global_State) (L0 : GrayList) (hl : L0 ≠ GrayList.gray)
    (hg : Good H n g x (some h)) : LinkPost H x h g (linkgclist_ H g h L0) := by
  obtain ⟨fw, fa, fk⟩ := Good_free H n g x h hg
  refine ⟨fun m hm => (Step_link H hstd AnyObj m g x h L0 hl hm).1,
    fun P => (Step_link H hstd P n g x h L0 hl hg).2, linkgclist_obj H g h L0 fa, ?_, ?_⟩
  · have := grayhead_linkgclist H g h L0 GrayList.gray
    rw [if_neg (fun e => hl e.symm)] at this
    exact this
  · obtain ⟨_, _, ls, ld, hw, _, hfree⟩ := hg
    obtain ⟨f1, f2, _⟩ := hfree h rfl
    exact GLinked_link_back H hstd g ls x ld h L0 hw fa fk f1 f2

/-- A state that differs in nothing is a link that has not taken place. -/
theorem link_post_refl (H : Decls) (x : Option Nat) (h : Nat) (g : global_State) :
    LinkPost H x h g g :=
  ⟨fun m hm => Good_weaken H m g x (some h) hm, fun P => Step_refl H P (some h) g,
    fun _ => ⟨_, _, rfl⟩, rfl, fun _ _ hl => Or.inl hl⟩

/-- `genlink` at the end of the traversal of an object. -/
theorem genlink_post (H : Decls) (hstd : StdMarks H) (n : Nat) (x : Option Nat) (h : Nat)
    (g : global_State) (hg : Good H n g x (some h)) : LinkPost H x h g (genlink H g h) := by
  obtain ⟨fw, fa, fk⟩ := Good_free H n g x h hg
  by_cases c1 : getage H (gcat g h).marked = H.G_TOUCHED1
  · have e : genlink H g h = linkgclist_ H g h GrayList.grayagain := by
      unfold genlink linkobjgclist
      rw [if_pos c1, if_pos fk]
    rw [e]
    exact link_post H hstd n x h g GrayList.grayagain (by decide) hg
  · by_cases c2 : getage H (gcat g h).marked = H.G_TOUCHED2
    · have e : genlink H g h =
          setmarked g h (changeage (gcat g h).marked H.G_TOUCHED2 H.G_OLD) := by
        unfold genlink
        rw [if_neg c1, if_pos c2]
      have hobj : ∀ a, ∃ m gl, gcat (genlink H g h) a =
          { gcat g a with marked := m, gclist := gl } := genlink_obj H g h fa
      have hgl : ∀ a, (gcat (genlink H g h) a).gclist = (gcat g a).gclist := by
        intro a
        rw [e, gcat_setmarked]
        split
        · next c => rw [c.1]
        · rfl
      have hal : ∀ a, allocated (genlink H g h) a = allocated g a := by
        intro a
        rw [e, setmarked_eq]
        exact allocated_gcset g h a _ fa
      refine ⟨fun m hm => (genlink_good H hstd AnyObj m g x h hm).1,
        fun P => (genlink_good H hstd P n g x h hg).2, hobj, by rw [e]; rfl, ?_⟩
      intro L l hl
      refine Or.inl ?_
      have hh : grayhead (genlink H g h) L = grayhead g L := by
        rw [e]
        cases L <;> rfl
      rw [hh] at hl
      refine GLinked_congr (genlink H g h) g l _ (fun a ha => ⟨?_, (hgl a).symm⟩) hl
      rw [← hal a]
      exact GLinked_allocated (genlink H g h) l _ hl a ha
    · have e : genlink H g h = g := by
        unfold genlink
        rw [if_neg c1, if_neg c2]
      rw [e]
      exact link_post_refl H x h g

theorem grayhead_quiet (g g1 : global_State) (h : Quiet g g1) (L : GrayList) :
    grayhead g1 L = grayhead g L := by
  rw [h.1]
  cases L <;> rfl

/-- `traverseephemeron` returns, and leaves what `EphPost` says. -/
theorem traverseephemeron_good (E : StepEnv) (hstd : StdMarks E.H) (hty : StdTypes E.H)
    (n : Nat) (x : Option Nat) (h : Nat) (g : global_State) (inv : Bool)
    (hg : Good E.H n g x (some h)) :
    Ret (fun fuel => traverseephemeron E fuel g h inv) (EphPost E.H n x h g) := by
  obtain ⟨f, hf⟩ : ∃ f : Nat → Nat,
      f = fun i => if inv = true then (gcat g h).node.length - 1 - i else i := ⟨_, rfl⟩
  have hdom : ∀ i ∈ List.range (gcat g h).node.length, f i < (gcat g h).node.length := by
    intro i hi
    have := List.mem_range.mp hi
    rw [hf]
    dsimp only
    split <;> omega
  have hsurj : ∀ j, j < (gcat g h).node.length →
      ∃ i ∈ List.range (gcat g h).node.length, f i = j := by
    intro j hj
    by_cases c : inv = true
    · refine ⟨(gcat g h).node.length - 1 - j, List.mem_range.mpr (by omega), ?_⟩
      rw [hf]
      dsimp only
      rw [if_pos c]
      omega
    · refine ⟨j, List.mem_range.mpr hj, ?_⟩
      rw [hf]
      dsimp only
      rw [if_neg c]
  have h0 : EphInv E.H n x h g id []
      { g := g, marked := false, hasclears := false, hasww := false } :=
    ⟨hg, Step_refl E.H AnyObj (some h) g, fun c => Bool.noConfusion c,
      fun _ => ⟨Step_refl E.H (StrObj E.H) (some h) g, Quiet_refl g,
        fun _ hi => absurd hi (List.not_mem_nil _)⟩⟩
  have hloop1 := Ret_forloop (fun fuel i s => traverseephemeron_array E.H fuel h i s)
    (EphInv E.H n x h g id [])
    (fun i s hs => eph_array_body E.H hstd hty n x h g i s hs)
    (List.range (E.luaH_realasize (gcat g h))) _ h0
  have hloop2 : ∀ s1, EphInv E.H n x h g id [] s1 →
      Ret (fun fuel => forloop (fun i s => traverseephemeron_node E.H fuel h (f i) s)
        (List.range (gcat g h).node.length) s1)
        (EphInv E.H n x h g f ([] ++ List.range (gcat g h).node.length)) := by
    intro s1 hs1
    have hs1f : EphInv E.H n x h g f [] s1 := by
      obtain ⟨a1, a2, a3, a4⟩ := hs1
      exact ⟨a1, a2, a3, fun hm => ⟨(a4 hm).1, (a4 hm).2.1,
        fun _ hi => absurd hi (List.not_mem_nil _)⟩⟩
    exact Ret_forloop_dom (fun fuel i s => traverseephemeron_node E.H fuel h (f i) s)
      (fun i => f i < (gcat g h).node.length) (EphInv E.H n x h g f)
      (fun pre i s hd hs => eph_node_body E.H hstd hty n x h g f pre i s hd hs)
      (List.range (gcat g h).node.length) [] s1 hdom hs1f
  have hfin : ∀ s2, EphInv E.H n x h g f ([] ++ List.range (gcat g h).node.length) s2 →
      EphPost E.H n x h g
        ((if s2.g.gcstate = E.H.GCSpropagate then linkgclist_ E.H s2.g h GrayList.grayagain
          else if s2.hasww = true then linkgclist_ E.H s2.g h GrayList.ephemeron
          else if s2.hasclears = true then linkgclist_ E.H s2.g h GrayList.allweak
          else genlink E.H s2.g h), s2.marked) := by
    intro s2 hs2
    obtain ⟨a1, a2, a3, a4⟩ := hs2
    obtain ⟨gl, hgl⟩ : ∃ gl, gl =
        (if s2.g.gcstate = E.H.GCSpropagate then linkgclist_ E.H s2.g h GrayList.grayagain
          else if s2.hasww = true then linkgclist_ E.H s2.g h GrayList.ephemeron
          else if s2.hasclears = true then linkgclist_ E.H s2.g h GrayList.allweak
          else genlink E.H s2.g h) := ⟨_, rfl⟩
    rw [← hgl]
    have hlp : LinkPost E.H x h s2.g gl := by
      rw [hgl]
      split
      · exact link_post E.H hstd n x h s2.g _ (by decide) a1
      · split
        · exact link_post E.H hstd n x h s2.g _ (by decide) a1
        · split
          · exact link_post E.H hstd n x h s2.g _ (by decide) a1
          · exact genlink_post E.H hstd n x h s2.g a1
    obtain ⟨l1, l2, l3, l4, l5⟩ := hlp
    obtain ⟨fw, fa, _⟩ := Good_free E.H n s2.g x h a1
    refine ⟨l1 n a1, Step_trans E.H AnyObj (some h) g s2.g gl a2 (l2 AnyObj), ?_, ?_⟩
    · intro hm
      obtain ⟨m1, m2, a, m3, m4⟩ := a3 hm
      exact ⟨m1, l1 (n - 1) m2, a, m3, Step_mono E.H AnyObj (some h) s2.g gl (l2 AnyObj) a m4⟩
    · intro hm
      obtain ⟨m1, m2, m3⟩ := a4 hm
      refine ⟨Step_trans E.H (StrObj E.H) (some h) g s2.g gl m1 (l2 (StrObj E.H)), ?_, ?_, ?_⟩
      · intro j hj
        obtain ⟨i, hi, e⟩ := hsurj j hj
        rw [← e]
        refine EphFix_step E.H (some h) s2.g gl h (f i) (l2 (StrObj E.H)) ?_
          (nodeat_of_obj s2.g gl h (f i) (l3 h)) (m3 i (by simpa using hi))
        intro a ea
        rw [← Option.some.inj ea]
        exact fw
      · rw [l4, m2.1]
      · intro L l hl
        obtain ⟨_, _, ls, ld, hw, _, _⟩ := hg
        have hw2 : WFL E.H s2.g ls x ld := by
          refine WFL_keep E.H g s2.g ls x ld (grayhead_quiet g s2.g m2) (fun a => ?_) hw
          exact ⟨(a2.1.2.2.1 a).1, m2.2 a, (Keep_obj g s2.g a2.1 a).1,
            Step_mono E.H AnyObj (some h) g s2.g a2 a⟩
        have hback : ∀ l', GLinked s2.g (grayhead s2.g L) l' → GLinked g (grayhead g L) l' := by
          intro l' hl'
          rw [GLinked_unique s2.g l' (ls L) _ hl' (hw2.lists L)]
          exact hw.lists L
        rcases l5 L l hl with c | ⟨l0, c1, c2⟩
        · exact Or.inl (hback l c)
        · exact Or.inr ⟨l0, c1, hback l0 c2⟩
  unfold traverseephemeron
  dsimp only
  subst hf
  exact Ret_bind _ _ (EphInv E.H n x h g id []) (EphPost E.H n x h g) hloop1
    (fun s1 hs1 => Ret_map _ _ _ (EphPost E.H n x h g) (hloop2 s1 hs1) hfin)

/-- What a call of `traverseephemeron` does to the colours, in a state of the marking
(objects typed and tagged, lists linked by `gclist` well formed, the table `h` not white and
taken out of its list), for both directions: it returns; no object becomes white; with the
result true an object that was white is not white any more; with the result false the
objects that were white and are not white any more are strings. -/
theorem traverseephemeron_result (E : StepEnv) (hstd : StdMarks E.H) (hty : StdTypes E.H)
    (n : Nat) (x : Option Nat) (h : Nat) (g : global_State) (inv : Bool)
    (hg : Good E.H n g x (some h)) :
    ∃ g1 r, Ev (fun fuel => traverseephemeron E fuel g h inv) (g1, r) ∧
      (∀ a, iswhite E.H (gcat g1 a).marked = true → iswhite E.H (gcat g a).marked = true) ∧
      (r = true →
        ∃ a, iswhite E.H (gcat g a).marked = true ∧ iswhite E.H (gcat g1 a).marked = false) ∧
      (r = false → ∀ a, iswhite E.H (gcat g a).marked = true →
        iswhite E.H (gcat g1 a).marked = false → novariant (gcat g a).tt = E.H.LUA_TSTRING) := by
  obtain ⟨fw, _, _⟩ := Good_free E.H n g x h hg
  obtain ⟨⟨g1, r⟩, hev, _, p2, p3, p4⟩ := traverseephemeron_good E hstd hty n x h g inv hg
  refine ⟨g1, r, hev, ?_, ?_, ?_⟩
  · intro a ha
    rw [← Step_white E.H AnyObj (some h) g g1 p2 a ha]
    exact ha
  · intro hr
    exact (p3 hr).2.2
  · intro hr a hw hn
    rcases (p4 hr).1.2 a with e | ⟨p, _⟩ | ⟨e, _⟩
    · rw [e, hw] at hn
      exact Bool.noConfusion hn
    · exact p
    · rw [← Option.some.inj e, fw] at hw
      exact Bool.noConfusion hw

theorem traverseephemeron_result_witness :
    StdMarks exStepEnv.H ∧ StdTypes exStepEnv.H ∧ Good exStepEnv.H 2 exEphVal none (some 0) ∧
    (traverseephemeron exStepEnv 3 exEphVal 0 false).map (fun r => r.2) = some true ∧
    ∃ g1 r, Ev (fun fuel => traverseephemeron exStepEnv fuel exEphVal 0 false) (g1, r) ∧
      (∀ a, iswhite exStepEnv.H (gcat g1 a).marked = true →
        iswhite exStepEnv.H (gcat exEphVal a).marked = true) ∧
      (r = true → ∃ a, iswhite exStepEnv.H (gcat exEphVal a).marked = true ∧
        iswhite exStepEnv.H (gcat g1 a).marked = false) ∧
      (r = false → ∀ a, iswhite exStepEnv.H (gcat exEphVal a).marked = true →
        iswhite exStepEnv.H (gcat g1 a).marked = false →
        novariant (gcat exEphVal a).tt = exStepEnv.H.LUA_TSTRING) :=
  have hg : Good exStepEnv.H 2 exEphVal none (some 0) :=
    ⟨by decide, by decide, fun _ => [], [],
      ⟨fun l => by cases l <;> rfl, rfl, fun _ => List.nodup_nil, List.nodup_nil,
        fun _ _ _ ha => absurd ha (List.not_mem_nil _),
        fun _ _ ha => absurd ha (List.not_mem_nil _),
        fun _ _ ha => absurd ha (List.not_mem_nil _),
        fun _ ha => absurd ha (List.not_mem_nil _),
        fun _ _ ha => absurd ha (List.not_mem_nil _),
        fun _ ha => absurd ha (List.not_mem_nil _)⟩,
      by decide, fun a e => by
        rw [← Option.some.inj e]
        exact ⟨fun _ => List.not_mem_nil _, List.not_mem_nil _, by decide, by decide,
          by decide⟩⟩
  ⟨by decide, by decide, hg, by decide,
    traverseephemeron_result exStepEnv (by decide) (by decide) 2 none 0 exEphVal false hg⟩

/-- C33: the input on which the result and the marks differ.  The table of `exEphKey` has one
entry, with a white string as key and a number as value.  In both directions
`traverseephemeron` returns false, and the string, which was white, is not white any more:
`iscleared` has marked it, and the variable `marked` was not set. -/
theorem traverseephemeron_string_key :
    iswhite exStepEnv.H (gcat exEphKey 1).marked = true ∧
    (traverseephemeron exStepEnv 3 exEphKey 0 false).map
      (fun r => (r.2, iswhite exStepEnv.H (gcat r.1 1).marked)) = some (false, false) ∧
    (traverseephemeron exStepEnv 3 exEphKey 0 true).map
      (fun r => (r.2, iswhite exStepEnv.H (gcat r.1 1).marked)) = some (false, false) := by
  decide

/-! ### The traversals -/

end LuaDo
